import Mathlib

/-!
# SimpleOS kernel: a shallow embedding and its verified properties

The definitions below are translations of the C sources of the kernel
(`source/kernel/...`).  Pointers to task control blocks are modelled by
`task_ptr`, intrusive lists by the sequence of their nodes, and machine
integers by `Nat`/`Int` with an explicit reduction modulo `2^32` wherever the
C arithmetic can wrap.
-/

namespace SimpleOS

/-! ## Part 1. Definitions -/

/-! ### Configuration constants (`os_cfg.h`, `core/task.h`) -/

def OS_TICK_MS : Nat := 10
def TASK_NR : Nat := 128
def TASK_OFILE_NR : Nat := 128
def TASK_TIME_SLICE_DEFAULT : Int := 10
def MEM_PAGE_SIZE : Nat := 4096

/-- Value of a 32-bit word read as a C `int`. -/
def int32 (n : Nat) : Int :=
  if n % 2 ^ 32 < 2 ^ 31 then ((n % 2 ^ 32 : Nat) : Int) else ((n % 2 ^ 32 : Nat) : Int) - 2 ^ 32

/-- Value of a C `int` converted to `uint32_t`. -/
def uint32 (i : Int) : Nat := (i % 2 ^ 32).toNat

/-! ### Files (`fs/file.h`) -/

inductive file_type_t
  | FILE_UNKNOWN
  | FILE_TTY
  | FILE_NORMAL
  | FILE_DIR
  deriving DecidableEq, Repr

/-- The record `file_t`.  `fs` names the mounted file system the file
belongs to; `pos`, `sblk` and `cblk` are C `int`s, held as the 32-bit
pattern the driver reads them as (every use converts them to `uint32_t` or
to `cluster_t`). -/
structure file_t where
  file_name : List Nat
  type : file_type_t
  size : Nat
  ref : Int
  dev_id : Int
  pos : Nat
  sblk : Nat
  cblk : Nat
  p_index : Int
  mode : Nat
  fs : Nat

/-- A file record after `kernel_memset(file, 0, sizeof(file_t))`. -/
def file_zero : file_t :=
  { file_name := [], type := .FILE_UNKNOWN, size := 0, ref := 0, dev_id := 0,
    pos := 0, sblk := 0, cblk := 0, p_index := 0, mode := 0, fs := 0 }

/-! ### Tasks (`core/task.h`) -/

inductive task_state_t
  | TASK_CREATED
  | TASK_RUNNING
  | TASK_SLEEP
  | TASK_READY
  | TASK_WAITING
  | TASK_ZOMBIE
  deriving DecidableEq, Repr

/-- A pointer to a task control block: the null pointer, the two blocks
embedded in the task manager, or `&task_table[i]`. -/
inductive task_ptr
  | null
  | first_task
  | idle_task
  | slot (i : Nat)
  deriving DecidableEq, Repr

/-- Modelled from the spec: `tss_t` is declared in `cpu/cpu.h`, which is not
part of the sources at hand.  It is the hardware task-state-segment image;
every field used by `task.c` is a 32-bit unsigned word (the uses in
`memory.c` take `tss.cr3` as a `uint32_t` page-directory address). -/
structure tss_t where
  esp0 : Nat
  ss0 : Nat
  cr3 : Nat
  eip : Nat
  eflags : Nat
  eax : Nat
  ecx : Nat
  edx : Nat
  ebx : Nat
  esp : Nat
  ebp : Nat
  esi : Nat
  edi : Nat
  es : Nat
  cs : Nat
  ss : Nat
  ds : Nat
  fs : Nat
  gs : Nat
  iomap : Nat
  deriving DecidableEq, Repr

def tss_zero : tss_t :=
  { esp0 := 0, ss0 := 0, cr3 := 0, eip := 0, eflags := 0, eax := 0, ecx := 0,
    edx := 0, ebx := 0, esp := 0, ebp := 0, esi := 0, edi := 0, es := 0,
    cs := 0, ss := 0, ds := 0, fs := 0, gs := 0, iomap := 0 }

/-- The record `task_t`.  `name` holds the characters of the C string in
`name[]` (so `name[0] == 0` exactly when the list is empty); `pid` is the
address of the block; `file_table fd` is the file record the descriptor
points to, `none` for a null slot.  The list linkage fields are represented
by the lists of the task manager. -/
structure task_t where
  state : task_state_t
  name : List Nat
  pid : Int
  parent : task_ptr
  heap_start : Nat
  heap_end : Nat
  status : Int
  sleep_ticks : Int
  time_slice : Int
  slice_ticks : Int
  file_table : Nat → Option Nat
  tss : tss_t
  tss_sel : Nat

/-- A task block after `kernel_memset(task, 0, sizeof(task_t))`. -/
def task_zero : task_t :=
  { state := .TASK_CREATED, name := [], pid := 0, parent := .null,
    heap_start := 0, heap_end := 0, status := 0, sleep_ticks := 0,
    time_slice := 0, slice_ticks := 0, file_table := fun _ => none,
    tss := tss_zero, tss_sel := 0 }

/-- The record `task_manager_t`; each `list_t` is the sequence of the tasks
whose `run_node` (or `all_node`) is linked on it, first to last. -/
structure task_manager_t where
  curr_task : task_ptr
  ready_list : List task_ptr
  task_list : List task_ptr
  sleep_list : List task_ptr
  first_task : task_t
  idle_task : task_t
  app_code_sel : Nat
  app_data_sel : Nat

/-- The kernel state seen by `task.c` and `fs.c`: the task manager, the
static `task_table`, the addresses of the task blocks, the file records of
`fs/file.c` and the private state `fs` of the mounted file system. -/
structure kernel (σ : Type) where
  task_manager : task_manager_t
  task_table : Nat → task_t
  task_addr : task_ptr → Nat
  files : Nat → file_t
  fs : σ

section sched

variable {σ : Type}

/-- Dereference of a task pointer. -/
def task_get (k : kernel σ) : task_ptr → task_t
  | .null => task_zero
  | .first_task => k.task_manager.first_task
  | .idle_task => k.task_manager.idle_task
  | .slot i => k.task_table i

/-- Store through a task pointer. -/
def task_put (k : kernel σ) (p : task_ptr) (t : task_t) : kernel σ :=
  match p with
  | .null => k
  | .first_task => { k with task_manager := { k.task_manager with first_task := t } }
  | .idle_task => { k with task_manager := { k.task_manager with idle_task := t } }
  | .slot i => { k with task_table := fun j => if j = i then t else k.task_table j }

/-- The function `task_set_ready`. -/
def task_set_ready (k : kernel σ) (task : task_ptr) : kernel σ :=
  if task ≠ .idle_task then
    let k1 : kernel σ :=
      { k with task_manager :=
          { k.task_manager with ready_list := k.task_manager.ready_list ++ [task] } }
    task_put k1 task { task_get k1 task with state := .TASK_READY }
  else k

/-- The function `task_set_block`. -/
def task_set_block (k : kernel σ) (task : task_ptr) : kernel σ :=
  if task ≠ .idle_task then
    { k with task_manager :=
        { k.task_manager with ready_list := k.task_manager.ready_list.erase task } }
  else k

/-- The function `task_next_run`. -/
def task_next_run (k : kernel σ) : task_ptr :=
  if k.task_manager.ready_list.length = 0 then .idle_task
  else k.task_manager.ready_list.headD .null

/-- The function `task_set_sleep`; `ticks` is a `uint32_t`. -/
def task_set_sleep (k : kernel σ) (task : task_ptr) (ticks : Nat) : kernel σ :=
  if ticks ≤ 0 then k
  else
    let k1 := task_put k task
      { task_get k task with sleep_ticks := int32 ticks, state := .TASK_SLEEP }
    { k1 with task_manager :=
        { k1.task_manager with sleep_list := k1.task_manager.sleep_list ++ [task] } }

/-- The function `task_set_wakeup`. -/
def task_set_wakeup (k : kernel σ) (task : task_ptr) : kernel σ :=
  { k with task_manager :=
      { k.task_manager with sleep_list := k.task_manager.sleep_list.erase task } }

/-- The function `task_current`. -/
def task_current (k : kernel σ) : task_ptr := k.task_manager.curr_task

/-- The function `task_dispatch`; the hardware task switch is the change of
`curr_task`. -/
def task_dispatch (k : kernel σ) : kernel σ :=
  let to_task := task_next_run k
  if to_task ≠ k.task_manager.curr_task then
    { k with task_manager := { k.task_manager with curr_task := to_task } }
  else k

/-- The function `sys_yield`. -/
def sys_yield (k : kernel σ) : Int × kernel σ :=
  if k.task_manager.ready_list.length > 1 then
    let curr_task := task_current k
    (0, task_dispatch (task_set_ready (task_set_block k curr_task) curr_task))
  else (0, k)

/-- One step of the sleep-list walk of `task_time_tick`, for the node of
`task`. -/
def tick_sleep_step (k : kernel σ) (task : task_ptr) : kernel σ :=
  let t := task_get k task
  let k1 := task_put k task { t with sleep_ticks := t.sleep_ticks - 1 }
  if t.sleep_ticks - 1 = 0 then task_set_ready (task_set_wakeup k1 task) task
  else k1

/-- The function `task_time_tick`.  The walk visits the nodes that are on the
sleep list when it starts (the successor is read before a node is
unlinked). -/
def task_time_tick (k : kernel σ) : kernel σ :=
  let curr_task := task_current k
  let c := task_get k curr_task
  let k1 :=
    if c.slice_ticks - 1 = 0 then
      let k2 := task_put k curr_task { c with slice_ticks := c.time_slice }
      task_set_ready (task_set_block k2 curr_task) curr_task
    else task_put k curr_task { c with slice_ticks := c.slice_ticks - 1 }
  let k3 := k1.task_manager.sleep_list.foldl tick_sleep_step k1
  task_dispatch k3

/-- The function `sys_msleep`; `ms` is a `uint32_t`. -/
def sys_msleep (k : kernel σ) (ms : Nat) : kernel σ :=
  let ms1 := if ms < OS_TICK_MS then OS_TICK_MS else ms
  let k1 := task_set_block k k.task_manager.curr_task
  let k2 := task_set_sleep k1 k1.task_manager.curr_task
    (((ms1 + (OS_TICK_MS - 1)) % 2 ^ 32) / OS_TICK_MS)
  task_dispatch k2

end sched

/-! ### The file layer (`fs/fs.c`) -/

def O_RDONLY : Nat := 0
def O_WRONLY : Nat := 1
def O_RDWR : Nat := 2
def O_CREAT : Nat := 0x200
def O_TRUNC : Nat := 0x400

/-- The operations table `fs_op_t` of a file system whose private state has
type `σ`.  An operation receives the file record and the state and returns
its C result together with the record and the state it leaves; pointers into
user memory are passed as addresses. -/
structure fs_op_t (σ : Type) where
  read : Nat → Int → file_t → σ → Int × file_t × σ
  write : Nat → Int → file_t → σ → Int × file_t × σ
  seek : file_t → Nat → Int → σ → Int × file_t × σ
  stat : file_t → Nat → σ → Int × file_t × σ
  close : file_t → σ → file_t × σ
  ioctl : file_t → Int → Int → Int → σ → Int × file_t × σ

section vfs

variable {σ : Type}

/-- The function `is_fd_bad`, with the conjunction of the source. -/
def is_fd_bad (file : Int) : Int :=
  if file < 0 ∧ file ≥ (TASK_OFILE_NR : Int) then 1 else 0

/-- The function `task_file`. -/
def task_file (k : kernel σ) (fd : Int) : Option Nat :=
  if fd ≥ 0 ∧ fd < (TASK_OFILE_NR : Int) then
    (task_get k (task_current k)).file_table fd.toNat
  else none

/-- The function `task_alloc_fd`. -/
def task_alloc_fd (k : kernel σ) (file : Nat) : Int × kernel σ :=
  let task := task_get k (task_current k)
  match (List.range TASK_OFILE_NR).find? (fun i => (task.file_table i).isNone) with
  | some i =>
    ((i : Int), task_put k (task_current k)
      { task with file_table := fun j => if j = i then some file else task.file_table j })
  | none => (-1, k)

/-- The function `task_remove_fd`. -/
def task_remove_fd (k : kernel σ) (fd : Int) : kernel σ :=
  if fd ≥ 0 ∧ fd < (TASK_OFILE_NR : Int) then
    let task := task_get k (task_current k)
    task_put k (task_current k)
      { task with file_table := fun j => if j = fd.toNat then none else task.file_table j }
  else k

/-- Store of a file record. -/
def file_put (k : kernel σ) (p : Nat) (f : file_t) : kernel σ :=
  { k with files := fun j => if j = p then f else k.files j }

/-- Modelled from the spec: `file_free` lives in `fs/file.c`, which is not
part of the sources at hand.  The file record is reference counted and freed
when the last descriptor drops it: `file_free` lowers a positive count. -/
def file_free (k : kernel σ) (p : Nat) : kernel σ :=
  if (k.files p).ref ≠ 0 then file_put k p { k.files p with ref := (k.files p).ref - 1 }
  else k

/-- Modelled from the spec: `file_inc_ref` lives in `fs/file.c`, which is not
part of the sources at hand.  It raises the reference count of the record. -/
def file_inc_ref (k : kernel σ) (p : Nat) : kernel σ :=
  file_put k p { k.files p with ref := (k.files p).ref + 1 }

/-- Write back what an operation of the file system left. -/
def op_done (k : kernel σ) (p : Nat) (r : Int × file_t × σ) : Int × kernel σ :=
  (r.1, { file_put k p r.2.1 with fs := r.2.2 })

/-- The function `sys_dup`. -/
def sys_dup (k : kernel σ) (file : Int) : Int × kernel σ :=
  if is_fd_bad file ≠ 0 then (-1, k)
  else
    match task_file k file with
    | none => (-1, k)
    | some p_file =>
      let r := task_alloc_fd k p_file
      if r.1 ≥ 0 then (r.1, file_inc_ref r.2 p_file) else (-1, r.2)

/-- The function `sys_ioctl`. -/
def sys_ioctl (op : fs_op_t σ) (k : kernel σ) (fd : Int) (cmd arg0 arg1 : Int) :
    Int × kernel σ :=
  if is_fd_bad fd ≠ 0 then (0, k)
  else
    match task_file k fd with
    | none => (0, k)
    | some pfile => op_done k pfile (op.ioctl (k.files pfile) cmd arg0 arg1 k.fs)

/-- The function `sys_read`; `ptr` is the address of the user buffer. -/
def sys_read (op : fs_op_t σ) (k : kernel σ) (file : Int) (ptr : Nat) (len : Int) :
    Int × kernel σ :=
  if is_fd_bad file ≠ 0 ∨ ptr = 0 ∨ len = 0 then (0, k)
  else
    match task_file k file with
    | none => (-1, k)
    | some p_file =>
      if (k.files p_file).mode = O_WRONLY then (-1, k)
      else op_done k p_file (op.read ptr len (k.files p_file) k.fs)

/-- The function `sys_write`; `ptr` is the address of the user buffer. -/
def sys_write (op : fs_op_t σ) (k : kernel σ) (file : Int) (ptr : Nat) (len : Int) :
    Int × kernel σ :=
  if is_fd_bad file ≠ 0 ∨ ptr = 0 ∨ len = 0 then (0, k)
  else
    match task_file k file with
    | none => (-1, k)
    | some p_file =>
      if (k.files p_file).mode = O_RDONLY then (-1, k)
      else op_done k p_file (op.write ptr len (k.files p_file) k.fs)

/-- The function `sys_lseek`. -/
def sys_lseek (op : fs_op_t σ) (k : kernel σ) (file : Int) (ptr : Int) (dir : Int) :
    Int × kernel σ :=
  if is_fd_bad file ≠ 0 then (-1, k)
  else
    match task_file k file with
    | none => (-1, k)
    | some p_file => op_done k p_file (op.seek (k.files p_file) (uint32 ptr) dir k.fs)

/-- The function `sys_close`.  The model covers the executions in which
`ASSERT(p_file->ref > 0)` holds. -/
def sys_close (op : fs_op_t σ) (k : kernel σ) (file : Int) : Int × kernel σ :=
  if is_fd_bad file ≠ 0 then (-1, k)
  else
    match task_file k file with
    | none => (-1, k)
    | some p_file =>
      let f := k.files p_file
      let k1 := file_put k p_file { f with ref := f.ref - 1 }
      let k2 :=
        if f.ref = 1 then
          let r := op.close (k1.files p_file) k1.fs
          file_free { file_put k1 p_file r.1 with fs := r.2 } p_file
        else k1
      (0, task_remove_fd k2 file)

/-- The function `sys_fstat`; `st` is the address of the user `struct stat`. -/
def sys_fstat (op : fs_op_t σ) (k : kernel σ) (file : Int) (st : Nat) : Int × kernel σ :=
  if is_fd_bad file ≠ 0 then (-1, k)
  else
    match task_file k file with
    | none => (-1, k)
    | some p_file => op_done k p_file (op.stat (k.files p_file) st k.fs)

end vfs

/-! ### Process creation and reaping (`core/task.c`) -/

def TASK_NAME_SIZE : Nat := 32
def TASK_FLAG_SYSTEM : Nat := 1
def KERNEL_SELECTOR_CS : Nat := 8
def KERNEL_SELECTOR_DS : Nat := 16

/-- Modelled from the spec: `cpu/cpu.h` is not part of the sources at hand;
these are the requested-privilege-level 3 bits of a selector. -/
def SEG_RPL3 : Nat := 3

/-- Modelled from the spec: `cpu/cpu.h` is not part of the sources at hand;
bit 1 of EFLAGS is always set. -/
def EFLAGS_DEFAULT : Nat := 2

/-- Modelled from the spec: `cpu/cpu.h` is not part of the sources at hand;
bit 9 of EFLAGS is the interrupt flag. -/
def EFLAGS_IF : Nat := 512

/-- Modelled from the spec: `core/syscall.h` is not part of the sources at
hand.  The call gate carries the call id and four word arguments. -/
def SYSCALL_PARAM_COUNT : Nat := 5

/-- Modelled from the spec: `syscall_frame_t` is declared in
`core/syscall.h`, which is not part of the sources at hand.  It is the trap
frame with the saved user registers. -/
structure syscall_frame_t where
  eflags : Nat
  gs : Nat
  fs : Nat
  es : Nat
  ds : Nat
  edi : Nat
  esi : Nat
  ebp : Nat
  ebx : Nat
  edx : Nat
  ecx : Nat
  eax : Nat
  eip : Nat
  cs : Nat
  esp : Nat
  ss : Nat

/-- What `sys_fork` receives from outside `task.c`: the trap frame on the
kernel stack of the parent and the results of `gdt_alloc_desc`,
`memory_alloc_page`, `memory_create_uvm` and `memory_copy_uvm` (the last
three are `uint32_t`; `memory_copy_uvm` returns `(uint32_t)-1` on
failure). -/
structure fork_env where
  frame : syscall_frame_t
  gdt_alloc_desc : Int
  memory_alloc_page : Nat
  memory_create_uvm : Nat
  memory_copy_uvm : Nat

section proc

variable {σ : Type}

/-- Modelled from the spec: `kernel_strncpy` lives in `tools/klib.c`, which
is not part of the sources at hand.  It copies the C string into a buffer of
`size` bytes, keeping room for the terminating NUL. -/
def kernel_strncpy (src : List Nat) (size : Nat) : List Nat := src.take (size - 1)

/-- The function `tss_init`: the result and the task state segment it
leaves in the block. -/
def tss_init (k : kernel σ) (env : fork_env) (task : task_ptr) (flag entry esp : Nat) :
    Int × kernel σ :=
  if env.gdt_alloc_desc < 0 then (-1, k)
  else
    let kernel_stack := env.memory_alloc_page
    let k0 := task_put k task { task_get k task with tss := tss_zero }
    if kernel_stack = 0 then (-1, k0)
    else
      let code_sel :=
        if flag &&& TASK_FLAG_SYSTEM ≠ 0 then KERNEL_SELECTOR_CS
        else k.task_manager.app_code_sel ||| SEG_RPL3
      let data_sel :=
        if flag &&& TASK_FLAG_SYSTEM ≠ 0 then KERNEL_SELECTOR_DS
        else k.task_manager.app_data_sel ||| SEG_RPL3
      let tss1 : tss_t :=
        { tss_zero with
          eip := entry,
          esp := if esp ≠ 0 then esp else (kernel_stack + MEM_PAGE_SIZE) % 2 ^ 32,
          esp0 := (kernel_stack + MEM_PAGE_SIZE) % 2 ^ 32,
          ss0 := KERNEL_SELECTOR_DS,
          eflags := EFLAGS_DEFAULT ||| EFLAGS_IF,
          es := data_sel, ss := data_sel, ds := data_sel, fs := data_sel, gs := data_sel,
          cs := code_sel, iomap := 0 }
      let k1 := task_put k task { task_get k task with tss := tss1 }
      let page_dir := env.memory_create_uvm
      if page_dir = 0 then (-1, k1)
      else
        (0, task_put k1 task
          { task_get k1 task with tss := { tss1 with cr3 := page_dir },
                                  tss_sel := env.gdt_alloc_desc.toNat })

/-- The function `task_init`. -/
def task_init (k : kernel σ) (env : fork_env) (task : task_ptr) (name : List Nat)
    (flag entry esp : Nat) : Int × kernel σ :=
  let r := tss_init k env task flag entry esp
  if r.1 < 0 then r
  else
    let t := task_get r.2 task
    let k1 := task_put r.2 task
      { t with name := kernel_strncpy name TASK_NAME_SIZE,
               state := .TASK_CREATED, sleep_ticks := 0,
               time_slice := TASK_TIME_SLICE_DEFAULT,
               slice_ticks := TASK_TIME_SLICE_DEFAULT,
               parent := .null, heap_start := 0, heap_end := 0,
               file_table := fun _ => none,
               pid := int32 (k.task_addr task) }
    (0, { k1 with task_manager :=
            { k1.task_manager with task_list := k1.task_manager.task_list ++ [task] } })

/-- The function `task_start`. -/
def task_start (k : kernel σ) (task : task_ptr) : kernel σ := task_set_ready k task

/-- The function `task_uninit`; the selector, the kernel stack and the
address space go back to allocators that are outside this state. -/
def task_uninit (k : kernel σ) (task : task_ptr) : kernel σ := task_put k task task_zero

/-- The function `alloc_task`. -/
def alloc_task (k : kernel σ) : task_ptr :=
  match (List.range TASK_NR).find? (fun i => (k.task_table i).name.isEmpty) with
  | some i => .slot i
  | none => .null

/-- The function `free_task`. -/
def free_task (k : kernel σ) (task : task_ptr) : kernel σ :=
  task_put k task { task_get k task with name := [] }

/-- The function `copy_opened_files`. -/
def copy_opened_files (k : kernel σ) (child_task : task_ptr) : kernel σ :=
  (List.range TASK_OFILE_NR).foldl
    (fun k1 i =>
      match (task_get k1 (task_current k1)).file_table i with
      | some file =>
        let k2 := file_inc_ref k1 file
        let c := task_get k2 child_task
        task_put k2 child_task
          { c with file_table := fun j => if j = i then some file else c.file_table j }
      | none => k1) k

/-- The function `sys_fork`.  The field `tss.cr3` and the result of
`memory_copy_uvm` are `uint32_t`, so the test `< 0` of the source compares
unsigned words. -/
def sys_fork (k : kernel σ) (env : fork_env) : Int × kernel σ :=
  let parent_task := task_current k
  let child_task := alloc_task k
  if child_task = .null then (-1, k)
  else
    let frame := env.frame
    let r := task_init k env child_task (task_get k parent_task).name 0 frame.eip
      ((frame.esp + 4 * SYSCALL_PARAM_COUNT) % 2 ^ 32)
    if r.1 < 0 then (-1, free_task (task_uninit r.2 child_task) child_task)
    else
      let k1 := copy_opened_files r.2 child_task
      let c := task_get k1 child_task
      let tss1 : tss_t :=
        { c.tss with eax := 0, ebx := frame.ebx, ecx := frame.ecx, edx := frame.edx,
                     esi := frame.esi, edi := frame.edi, ebp := frame.ebp,
                     cs := frame.cs, ds := frame.ds, es := frame.es, fs := frame.fs,
                     gs := frame.gs, eflags := frame.eflags }
      let k2 := task_put k1 child_task
        { c with tss := { tss1 with cr3 := env.memory_copy_uvm % 2 ^ 32 },
                 parent := parent_task }
      if (task_get k2 child_task).tss.cr3 < 0 then
        (-1, free_task (task_uninit k2 child_task) child_task)
      else
        let k3 := task_start k2 child_task
        ((task_get k3 child_task).pid, k3)

/-- The body of the loop of `sys_wait` for one table index: the reaped pid
and status when the slot holds a zombie child of `curr_task`. -/
def wait_scan (k : kernel σ) (curr_task : task_ptr) : Nat → Option (Nat × Int × Int)
  | 0 => none
  | n + 1 =>
    match wait_scan k curr_task n with
    | some r => some r
    | none =>
      let task := k.task_table n
      if task.parent ≠ curr_task then none
      else if task.state = .TASK_ZOMBIE then some (n, task.pid, task.status)
      else none

/-- The function `sys_wait`, up to the point where it returns or blocks:
`some (pid, status)` when a zombie child is reaped (the status is what is
stored through the pointer argument), `none` when the caller has been made
`TASK_WAITING` and the processor given away.  The address space and the
kernel stack of the child go back to allocators that are outside this
state. -/
def sys_wait (k : kernel σ) : Option (Int × Int) × kernel σ :=
  let curr_task := task_current k
  match wait_scan k curr_task TASK_NR with
  | some (i, pid, status) => (some (pid, status), task_put k (.slot i) task_zero)
  | none =>
    let k1 := task_set_block k curr_task
    let k2 := task_put k1 curr_task { task_get k1 curr_task with state := .TASK_WAITING }
    (none, task_dispatch k2)

/-- One turn of the loop of `sys_exit` that closes the open files. -/
def exit_close_step (op : fs_op_t σ) (curr_task : task_ptr) (k : kernel σ) (fd : Nat) :
    kernel σ :=
  match (task_get k curr_task).file_table fd with
  | some _ =>
    let k1 := (sys_close op k fd).2
    let c := task_get k1 curr_task
    task_put k1 curr_task
      { c with file_table := fun j => if j = fd then none else c.file_table j }
  | none => k

/-- One turn of the loop of `sys_exit` that hands the children over to the
first task; the first component is `move_child`. -/
def exit_reparent_step (curr_task : task_ptr) (acc : Int × kernel σ) (i : Nat) :
    Int × kernel σ :=
  let task := acc.2.task_table i
  if task.parent = curr_task then
    (if task.state = .TASK_ZOMBIE then 1 else acc.1,
     task_put acc.2 (.slot i) { task with parent := .first_task })
  else acc

/-- The part of `sys_exit` that wakes the first task (when a zombie child
was handed over to it) and the parent (when it waits). -/
def exit_wakeup (k2 : kernel σ) (curr_task : task_ptr) (move_child : Int) : kernel σ :=
  let parent := (task_get k2 curr_task).parent
  let k3 :=
    if move_child ≠ 0 ∧ parent ≠ .first_task then
      if k2.task_manager.first_task.state = .TASK_WAITING then task_set_ready k2 .first_task
      else k2
    else k2
  if (task_get k3 parent).state = .TASK_WAITING then
    task_set_ready k3 (task_get k3 curr_task).parent
  else k3

/-- The function `sys_exit`, up to the final `task_dispatch`. -/
def sys_exit (op : fs_op_t σ) (k : kernel σ) (status : Int) : kernel σ :=
  let curr_task := task_current k
  let k1 := (List.range TASK_OFILE_NR).foldl (exit_close_step op curr_task) k
  let r := (List.range TASK_OFILE_NR).foldl (exit_reparent_step curr_task) (0, k1)
  let k4 := exit_wakeup r.2 curr_task r.1
  let k5 := task_put k4 curr_task
    { task_get k4 curr_task with status := status, state := .TASK_ZOMBIE }
  task_dispatch (task_set_block k5 curr_task)

/-- The fields of a task block that `sys_wait` reads. -/
def task_core (t : task_t) : task_state_t × task_ptr × Int × Int :=
  (t.state, t.parent, t.pid, t.status)

/-- What a run of kernel code may do to the task table around the exiting
task in slot `i`: the exiting task keeps its parent and pid, no other task
becomes a zombie, and another task changes its parent only if its parent
was the exiting task. -/
def exit_frame (i : Nat) (k k1 : kernel σ) : Prop :=
  (k1.task_table i).parent = (k.task_table i).parent ∧
  (k1.task_table i).pid = (k.task_table i).pid ∧
  ∀ j, j ≠ i →
    ((k1.task_table j).state = .TASK_ZOMBIE → (k.task_table j).state = .TASK_ZOMBIE) ∧
    ((k1.task_table j).parent = (k.task_table j).parent ∨
      (k.task_table j).parent = .slot i)

/-- The scheduler gives the processor to `task`. -/
def run_task (k : kernel σ) (task : task_ptr) : kernel σ :=
  { k with task_manager := { k.task_manager with curr_task := task } }

end proc

/-! ### The FAT16 driver (`fs/fatfs/fatfs.c`): device, sector buffer, cluster chain -/

def SECTOR_SIZE : Nat := 512
def FAT_CLUSTER_INVALID : Nat := 0xFFF8
def FAT_CLUSTER_FREE : Nat := 0
def DIRITEM_NAME_FREE : Nat := 0xE5
def DIRITEM_NAME_END : Nat := 0
def DIRITEM_ATTR_HIDDEN : Nat := 0x02
def DIRITEM_ATTR_SYSTEM : Nat := 0x04
def DIRITEM_ATTR_VOLUME_ID : Nat := 0x08
def DIRITEM_ATTR_DIRECTORY : Nat := 0x10
def SFN_LEN : Nat := 11

/-- A region of byte-addressed memory: the byte stored at each offset. -/
abbrev bytes_t := Nat → Nat

/-- The partition behind `fs->dev_id`: `bytes a` is the byte at offset
`a % 512` of sector `a / 512`, and `fails s` tells that the drive raises its
ERR bit when sector `s` is transferred. -/
structure blkdev_t where
  bytes : bytes_t
  fails : Nat → Bool

/-- Number of sectors that `disk_read` or `disk_write` transfers before the
first sector that reports an error (the loop breaks there). -/
def disk_xfer_count (d : blkdev_t) (addr : Nat) : Nat → Nat
  | 0 => 0
  | n + 1 => if d.fails addr then 0 else disk_xfer_count d (addr + 1) n + 1

/-- The function `dev_read` on the disk (`disk_read`): the number of sectors
read and the memory `buf`, filled from offset `off` on. -/
def dev_read (d : blkdev_t) (addr : Nat) (buf : bytes_t) (off : Nat) (size : Nat) :
    Int × bytes_t :=
  let cnt := disk_xfer_count d addr size
  ((cnt : Int),
   fun o =>
     if off ≤ o ∧ o < off + cnt * SECTOR_SIZE then d.bytes (addr * SECTOR_SIZE + (o - off))
     else buf o)

/-- The function `dev_write` on the disk (`disk_write`): the number of sectors
written and the device; `buf` is read from offset `off` on. -/
def dev_write (d : blkdev_t) (addr : Nat) (buf : bytes_t) (off : Nat) (size : Nat) :
    Int × blkdev_t :=
  let cnt := disk_xfer_count d addr size
  ((cnt : Int),
   { d with bytes := fun a =>
       if addr * SECTOR_SIZE ≤ a ∧ a < (addr + cnt) * SECTOR_SIZE then
         buf (off + (a - addr * SECTOR_SIZE))
       else d.bytes a })

/-- The record `fat_t`, with the device it is mounted on and the contents of
the buffer `fat_buffer` points to. -/
structure fat_t where
  tbl_start : Nat
  tbl_cnt : Nat
  tbl_sectors : Nat
  bytes_per_sec : Nat
  sec_per_cluster : Nat
  root_ent_cnt : Nat
  root_start : Nat
  data_start : Nat
  cluster_byte_size : Nat
  fat_buffer : bytes_t
  curr_sector : Int
  dev : blkdev_t

/-- The function `bread_sector`. -/
def bread_sector (fat : fat_t) (sector : Nat) : Int × fat_t :=
  if (sector : Int) = fat.curr_sector then (0, fat)
  else
    let r := dev_read fat.dev sector fat.fat_buffer 0 1
    if r.1 = 1 then (0, { fat with fat_buffer := r.2, curr_sector := sector })
    else (-1, { fat with fat_buffer := r.2 })

/-- The function `bwrite_secotr`. -/
def bwrite_secotr (fat : fat_t) (sector : Nat) : Int × fat_t :=
  let r := dev_write fat.dev sector fat.fat_buffer 0 1
  (if r.1 = 1 then 0 else -1, { fat with dev := r.2 })

/-- The function `cluster_is_valid`. -/
def cluster_is_valid (cluster : Nat) : Bool :=
  decide (cluster < 0xFFF8) && decide (cluster ≥ 0x2)

/-- A little-endian 16-bit word in a byte region. -/
def read16 (b : bytes_t) (off : Nat) : Nat := b off % 256 + 256 * (b (off + 1) % 256)

/-- Store of a little-endian 16-bit word in a byte region. -/
def write16 (b : bytes_t) (off : Nat) (v : Nat) : bytes_t :=
  fun o => if o = off then v % 256 else if o = off + 1 then v / 256 % 256 else b o

/-- The function `cluster_get_next`; `curr` is a `cluster_t`. -/
def cluster_get_next (fat : fat_t) (curr : Nat) : Nat × fat_t :=
  if ¬ cluster_is_valid curr then (FAT_CLUSTER_INVALID, fat)
  else
    let offset := curr * 2
    let sector := offset / fat.bytes_per_sec
    let off_sector := offset % fat.bytes_per_sec
    if sector ≥ fat.tbl_sectors then (FAT_CLUSTER_INVALID, fat)
    else
      let r := bread_sector fat (fat.tbl_start + sector)
      if r.1 < 0 then (FAT_CLUSTER_INVALID, r.2)
      else (read16 r.2.fat_buffer off_sector, r.2)

/-- The loop of `cluster_set_next` that writes the buffer to the `n`
remaining copies of the table. -/
def set_next_copies (fat : fat_t) (sector : Nat) : Nat → Int × fat_t
  | 0 => (0, fat)
  | n + 1 =>
    let r := bwrite_secotr fat (fat.tbl_start + sector)
    if r.1 < 0 then (-1, r.2)
    else set_next_copies r.2 (sector + fat.tbl_sectors) n

/-- The function `cluster_set_next`; `curr` and `next` are `cluster_t`. -/
def cluster_set_next (fat : fat_t) (curr next : Nat) : Int × fat_t :=
  if ¬ cluster_is_valid curr then (-1, fat)
  else
    let offset := curr * 2
    let sector := offset / fat.bytes_per_sec
    let off_sector := offset % fat.bytes_per_sec
    if sector ≥ fat.tbl_sectors then (-1, fat)
    else
      let r := bread_sector fat (fat.tbl_start + sector)
      if r.1 < 0 then (-1, r.2)
      else
        let fat1 := { r.2 with fat_buffer := write16 r.2.fat_buffer off_sector next }
        set_next_copies fat1 sector fat1.tbl_cnt

/-- The function `cluster_free_chain`, run for at most `fuel` turns of its
loop; `none` when the loop has not ended by then. -/
def cluster_free_chain : Nat → fat_t → Nat → Option fat_t
  | 0, _, _ => none
  | fuel + 1, fat, start =>
    if cluster_is_valid start then
      let r := cluster_get_next fat start
      let w := cluster_set_next r.2 start FAT_CLUSTER_FREE
      cluster_free_chain fuel w.2 (r.1 % 65536)
    else some fat

/-- The loop of `cluster_alloc_free`, run for at most `fuel` turns; the state
is `(pre, curr, start, cnt)` and `curr` is a `cluster_t` that wraps at
`2^16`.  The result is the cluster returned early on a failed link
(`some FAT_CLUSTER_INVALID`), or `none` with the state at loop exit. -/
def cluster_alloc_loop (c_total : Nat) :
    Nat → fat_t → Nat → Nat → Nat → Nat → Option (Option Nat × Nat × Nat × Nat × fat_t)
  | 0, _, _, _, _, _ => none
  | fuel + 1, fat, pre, curr, start, cnt =>
    if curr < c_total ∧ cnt ≠ 0 then
      let r := cluster_get_next fat curr
      if r.1 = FAT_CLUSTER_FREE then
        let start1 := if ¬ cluster_is_valid start then curr else start
        if cluster_is_valid pre then
          let w := cluster_set_next r.2 pre curr
          if w.1 < 0 then
            match cluster_free_chain fuel w.2 start1 with
            | some fat2 => some (some FAT_CLUSTER_INVALID, pre, start1, cnt, fat2)
            | none => none
          else cluster_alloc_loop c_total fuel w.2 curr ((curr + 1) % 65536) start1 (cnt - 1)
        else cluster_alloc_loop c_total fuel r.2 curr ((curr + 1) % 65536) start1 (cnt - 1)
      else cluster_alloc_loop c_total fuel r.2 pre ((curr + 1) % 65536) start cnt
    else some (none, pre, start, cnt, fat)

/-- The function `cluster_alloc_free`, with `fuel` bounding the turns of its
loops; `none` when a loop has not ended by then. -/
def cluster_alloc_free (fuel : Nat) (fat : fat_t) (cnt : Nat) : Option (Nat × fat_t) :=
  let c_total := fat.tbl_sectors * fat.bytes_per_sec / 2
  match cluster_alloc_loop c_total fuel fat FAT_CLUSTER_INVALID 2 FAT_CLUSTER_INVALID cnt with
  | none => none
  | some (some ret, _, _, _, fat1) => some (ret, fat1)
  | some (none, pre, start, cnt1, fat1) =>
    let w := if cnt1 = 0 then cluster_set_next fat1 pre FAT_CLUSTER_INVALID else (-1, fat1)
    if cnt1 = 0 ∧ w.1 = 0 then some (start, w.2)
    else
      match cluster_free_chain fuel w.2 start with
      | some fat2 => some (FAT_CLUSTER_INVALID, fat2)
      | none => none

/-! ### The FAT16 driver: directory entries -/

/-- A little-endian 32-bit word in a byte region. -/
def read32 (b : bytes_t) (off : Nat) : Nat :=
  b off % 256 + 256 * (b (off + 1) % 256) + 65536 * (b (off + 2) % 256) +
    16777216 * (b (off + 3) % 256)

/-- Store of a little-endian 32-bit word in a byte region. -/
def write32 (b : bytes_t) (off : Nat) (v : Nat) : bytes_t :=
  fun o =>
    if o = off then v % 256
    else if o = off + 1 then v / 256 % 256
    else if o = off + 2 then v / 65536 % 256
    else if o = off + 3 then v / 16777216 % 256
    else b o

/-- The function `kernel_memcpy(dest + doff, src + soff, size)` on byte
regions. -/
def kernel_memcpy (dest : bytes_t) (doff : Nat) (src : bytes_t) (soff size : Nat) : bytes_t :=
  fun o => if doff ≤ o ∧ o < doff + size then src (soff + (o - doff)) else dest o

/-- Modelled from the spec: `kernel_memset` lives in `tools/klib.c`, which
is not part of the sources at hand.  `kernel_memset(dest + doff, v, size)`
stores the byte `v` at `size` consecutive addresses. -/
def kernel_memset (dest : bytes_t) (doff v size : Nat) : bytes_t :=
  fun o => if doff ≤ o ∧ o < doff + size then v else dest o

/-- The packed record `diritem_t` is handled as its 32-byte image: the name
at offsets 0..10, `DIR_Attr` at 11, `DIR_FstClusHI` at 20, `DIR_FstClusL0` at
26 and `DIR_FileSize` at 28.  `item off` is the image found at offset `off`
of a byte region. -/
def DIR_Name (b : bytes_t) (off i : Nat) : Nat := b (off + i)
def DIR_Attr (b : bytes_t) (off : Nat) : Nat := b (off + 11)
def DIR_FstClusHI (b : bytes_t) (off : Nat) : Nat := read16 b (off + 20)
def DIR_FstClusL0 (b : bytes_t) (off : Nat) : Nat := read16 b (off + 26)
def DIR_FileSize (b : bytes_t) (off : Nat) : Nat := read32 b (off + 28)

/-- The loop of `to_sfn`: `src` is the rest of the C string, `curr` the
index the next character goes to. -/
def to_sfn_loop : List Nat → Nat → bytes_t → bytes_t
  | [], _, dest => dest
  | c :: src, curr, dest =>
    if c ≠ 0 ∧ curr < SFN_LEN then
      if c = 46 then to_sfn_loop src 8 dest
      else
        let c1 := if c ≥ 97 ∧ c ≤ 122 then c - 97 + 65 else c
        to_sfn_loop src (curr + 1) (fun o => if o = curr then c1 else dest o)
    else dest

/-- The function `to_sfn`: the eleven bytes it leaves in `dest`. -/
def to_sfn (src : List Nat) : bytes_t := to_sfn_loop src 0 (fun _ => 32)

/-- The function `diritem_name_match` for the item at offset `off` of `b`. -/
def diritem_name_match (b : bytes_t) (off : Nat) (path : List Nat) : Bool :=
  (List.range SFN_LEN).all (fun i => to_sfn path i == DIR_Name b off i)

/-- The function `diritem_init`: the image of the initialised item.  The
byte `DIR_CrtTimeTeenth`, which the source leaves as found on the stack, is
taken as 0. -/
def diritem_init (attr : Nat) (name : List Nat) : bytes_t :=
  let b0 : bytes_t := fun o => if o < SFN_LEN then to_sfn name o else 0
  let b1 := write16 b0 20 (FAT_CLUSTER_INVALID >>> 16)
  let b2 := write16 b1 26 (FAT_CLUSTER_INVALID &&& 0xFFFF)
  let b3 := write32 b2 28 0
  fun o => if o = 11 then attr % 256 else b3 o

/-- The function `diritem_get_type` for the item at offset `off` of `b`. -/
def diritem_get_type (b : bytes_t) (off : Nat) : file_type_t :=
  if DIR_Attr b off &&&
      (DIRITEM_ATTR_VOLUME_ID ||| DIRITEM_ATTR_HIDDEN ||| DIRITEM_ATTR_SYSTEM) ≠ 0 then
    .FILE_UNKNOWN
  else if DIR_Attr b off &&& DIRITEM_ATTR_DIRECTORY ≠ 0 then .FILE_DIR
  else .FILE_NORMAL

/-- The function `read_dir_entry`: the offset of the item in `fat_buffer`,
or `none` for the null pointer. -/
def read_dir_entry (fat : fat_t) (index : Int) : Option Nat × fat_t :=
  if index < 0 ∨ index ≥ (fat.root_ent_cnt : Int) then (none, fat)
  else
    let offset := index.toNat * 32
    let r := bread_sector fat (fat.root_start + offset / fat.bytes_per_sec)
    if r.1 < 0 then (none, r.2)
    else (some (offset % fat.bytes_per_sec), r.2)

/-- The function `write_dir_entry`; the item is the image at offset `ioff`
of `item`. -/
def write_dir_entry (fat : fat_t) (item : bytes_t) (ioff : Nat) (index : Int) : Int × fat_t :=
  if index < 0 ∨ index ≥ (fat.root_ent_cnt : Int) then (-1, fat)
  else
    let offset := index.toNat * 32
    let sector := fat.root_start + offset / fat.bytes_per_sec
    let r := bread_sector fat sector
    if r.1 < 0 then (-1, r.2)
    else
      bwrite_secotr
        { r.2 with fat_buffer :=
            kernel_memcpy r.2.fat_buffer (offset % fat.bytes_per_sec) item ioff 32 }
        sector

/-- The function `read_from_diritem` for the item at offset `off` of `b`. -/
def read_from_diritem (file : file_t) (b : bytes_t) (off : Nat) (index : Int) : file_t :=
  { file with type := diritem_get_type b off,
              size := DIR_FileSize b off,
              pos := 0,
              sblk := (DIR_FstClusHI b off <<< 16) ||| DIR_FstClusL0 b off,
              cblk := (DIR_FstClusHI b off <<< 16) ||| DIR_FstClusL0 b off,
              p_index := index }

/-! ### The FAT16 driver: files -/

/-- Modelled from the spec: `up2` lives in `tools/klib.h`, which is not part
of the sources at hand.  It rounds `size` up to a multiple of `bound`. -/
def up2 (size bound : Nat) : Nat := (size + bound - 1) / bound * bound

/-- Modelled from the spec: `down2` lives in `tools/klib.h`, which is not
part of the sources at hand.  It rounds `size` down to a multiple of
`bound`. -/
def down2 (size bound : Nat) : Nat := size / bound * bound

/-- First sector of the cluster `cblk` (a C `int`), computed in `uint32_t`
as `data_start + (cblk - 2) * sec_per_cluster`. -/
def cluster_sector (fat : fat_t) (cblk : Nat) : Nat :=
  uint32 ((fat.data_start : Int) + ((cblk : Int) - 2) * (fat.sec_per_cluster : Int))

/-- The function `expand_file`; `fuel` bounds the loops of the cluster
allocation. -/
def expand_file (fuel : Nat) (file : file_t) (fat : fat_t) (inc_bytes : Nat) :
    Option (Int × file_t × fat_t) :=
  let alloc (cluster_cnt : Nat) : Option (Int × file_t × fat_t) :=
    match cluster_alloc_free fuel fat cluster_cnt with
    | none => none
    | some (start, fat1) =>
      if ¬ cluster_is_valid start then some (-1, file, fat1)
      else if ¬ cluster_is_valid (file.sblk % 65536) then
        some (0, { file with cblk := start, sblk := start }, fat1)
      else
        let w := cluster_set_next fat1 (file.cblk % 65536) start
        if w.1 < 0 then some (-1, file, w.2) else some (0, file, w.2)
  if file.size = 0 ∨ file.size % fat.cluster_byte_size = 0 then
    alloc (up2 inc_bytes fat.cluster_byte_size / fat.cluster_byte_size)
  else
    let cfree := fat.cluster_byte_size - file.size % fat.cluster_byte_size
    if cfree ≥ inc_bytes then some (0, { file with size := file.size + inc_bytes }, fat)
    else alloc (up2 (inc_bytes - cfree) fat.cluster_byte_size / fat.cluster_byte_size)

/-- The function `move_file_pos`; the sums are `uint32_t` sums. -/
def move_file_pos (fuel : Nat) (file : file_t) (fat : fat_t) (move_bytes : Nat) (expand : Bool) :
    Option (Int × file_t × fat_t) :=
  let c_offset := file.pos % fat.cluster_byte_size
  if (c_offset + move_bytes) % 2 ^ 32 ≥ fat.cluster_byte_size then
    let r := cluster_get_next fat (file.cblk % 65536)
    if r.1 = FAT_CLUSTER_INVALID ∧ expand then
      match expand_file fuel file r.2 fat.cluster_byte_size with
      | none => none
      | some (err, file1, fat1) =>
        if err < 0 then some (-1, file1, fat1)
        else
          let r1 := cluster_get_next fat1 (file1.cblk % 65536)
          some (0, { file1 with cblk := r1.1, pos := (file1.pos + move_bytes) % 2 ^ 32 }, r1.2)
    else some (0, { file with cblk := r.1, pos := (file.pos + move_bytes) % 2 ^ 32 }, r.2)
  else some (0, { file with pos := (file.pos + move_bytes) % 2 ^ 32 }, fat)

/-- The scan of the root directory in `fatfs_open`, from index `i` on for
`n` more entries: `(err, file_item, p_index, fat)`, where `err = -1` when an
entry could not be read and `file_item` is the buffer offset of the matching
item. -/
def fatfs_open_scan (path : List Nat) :
    Nat → Nat → Int → fat_t → Int × Option Nat × Int × fat_t
  | 0, _, p_index, fat => (0, none, p_index, fat)
  | n + 1, i, p_index, fat =>
    match read_dir_entry fat i with
    | (none, fat1) => (-1, none, p_index, fat1)
    | (some off, fat1) =>
      if DIR_Name fat1.fat_buffer off 0 = DIRITEM_NAME_END then (0, none, (i : Int), fat1)
      else if DIR_Name fat1.fat_buffer off 0 = DIRITEM_NAME_FREE then
        fatfs_open_scan path n (i + 1) (i : Int) fat1
      else if diritem_name_match fat1.fat_buffer off path then (0, some off, (i : Int), fat1)
      else fatfs_open_scan path n (i + 1) p_index fat1

/-- The function `fatfs_open`; `fuel` bounds the loop that frees the chain. -/
def fatfs_open (fuel : Nat) (fat : fat_t) (path : List Nat) (file : file_t) :
    Option (Int × file_t × fat_t) :=
  match fatfs_open_scan path fat.root_ent_cnt 0 (-1) fat with
  | (err, file_item, p_index, fat1) =>
    if err < 0 then some (-1, file, fat1)
    else
      match file_item with
      | some off =>
        let file1 := read_from_diritem file fat1.fat_buffer off p_index
        if file1.mode &&& O_TRUNC ≠ 0 then
          match cluster_free_chain fuel fat1 (file1.sblk % 65536) with
          | none => none
          | some fat2 =>
            some (0, { file1 with cblk := FAT_CLUSTER_INVALID, sblk := FAT_CLUSTER_INVALID,
                                  size := 0 }, fat2)
        else some (0, file1, fat1)
      | none =>
        if file.mode &&& O_CREAT ≠ 0 ∧ p_index ≥ 0 then
          let item := diritem_init 0 path
          let w := write_dir_entry fat1 item 0 p_index
          if w.1 < 0 then some (-1, file, w.2)
          else some (0, read_from_diritem file item 0 p_index, w.2)
        else some (-1, file, fat1)

/-- The loop of `fatfs_read`, for at most `fuel` turns (every turn moves at
least one byte): `(total_read, umem, file, fat)`.  The sum
`cluster_offset + curr_read` is a `uint32_t` sum. -/
def fatfs_read_loop :
    Nat → bytes_t → Nat → Nat → Nat → file_t → fat_t → Nat × bytes_t × file_t × fat_t
  | 0, umem, _, _, total_read, file, fat => (total_read, umem, file, fat)
  | fuel + 1, umem, buf, nbytes, total_read, file, fat =>
    if nbytes > 0 then
      let cluster_offset := file.pos % fat.cluster_byte_size
      let start_sector := cluster_sector fat file.cblk
      if cluster_offset = 0 ∧ nbytes = fat.cluster_byte_size then
        let r := dev_read fat.dev start_sector umem buf fat.sec_per_cluster
        if r.1 < 0 then (total_read, r.2, file, fat)
        else
          let curr_read := fat.cluster_byte_size
          match move_file_pos 0 file fat curr_read false with
          | some (err, file1, fat1) =>
            if err < 0 then (total_read + curr_read, r.2, file1, fat1)
            else fatfs_read_loop fuel r.2 (buf + curr_read) (nbytes - curr_read)
              (total_read + curr_read) file1 fat1
          | none => (total_read + curr_read, r.2, file, fat)
      else
        let curr_read :=
          if (cluster_offset + nbytes) % 2 ^ 32 > fat.cluster_byte_size then
            fat.cluster_byte_size - cluster_offset
          else nbytes
        let r := dev_read fat.dev start_sector fat.fat_buffer 0 fat.sec_per_cluster
        let fat0 := { fat with curr_sector := -1, fat_buffer := r.2 }
        if r.1 < 0 then (total_read, umem, file, fat0)
        else
          let umem1 := kernel_memcpy umem buf fat0.fat_buffer cluster_offset curr_read
          match move_file_pos 0 file fat0 curr_read false with
          | some (err, file1, fat1) =>
            if err < 0 then (total_read + curr_read, umem1, file1, fat1)
            else fatfs_read_loop fuel umem1 (buf + curr_read) (nbytes - curr_read)
              (total_read + curr_read) file1 fat1
          | none => (total_read + curr_read, umem1, file, fat0)
    else (total_read, umem, file, fat)

/-- The function `fatfs_read`; `umem` is the memory of the caller and `buf`
the address of the destination in it.  The `uint32_t` count `total_read` is
returned as an `int`. -/
def fatfs_read (umem : bytes_t) (buf : Nat) (size : Nat) (file : file_t) (fat : fat_t) :
    Int × bytes_t × file_t × fat_t :=
  let nbytes :=
    if (file.pos + size) % 2 ^ 32 > file.size then uint32 ((file.size : Int) - (file.pos : Int))
    else size
  let r := fatfs_read_loop nbytes umem buf nbytes 0 file fat
  (int32 r.1, r.2)

/-- The loop of `fatfs_write`, for at most `loops` turns (every turn moves at
least one byte): `(total_write, file, fat)`; `fuel` bounds the loops of the
cluster allocation. -/
def fatfs_write_loop (fuel : Nat) (umem : bytes_t) :
    Nat → Nat → Nat → Nat → file_t → fat_t → Option (Nat × file_t × fat_t)
  | 0, _, _, total_write, file, fat => some (total_write, file, fat)
  | loops + 1, buf, nbytes, total_write, file, fat =>
    if nbytes ≠ 0 then
      let cluster_offset := file.pos % fat.cluster_byte_size
      let start_sector := cluster_sector fat file.cblk
      let step (curr_write : Nat) (fat0 : fat_t) : Option (Nat × file_t × fat_t) :=
        let file0 := { file with size := file.size + curr_write }
        match move_file_pos fuel file0 fat0 curr_write true with
        | none => none
        | some (err, file1, fat1) =>
          if err < 0 then some (total_write + curr_write, file1, fat1)
          else fatfs_write_loop fuel umem loops (buf + curr_write) (nbytes - curr_write)
            (total_write + curr_write) file1 fat1
      if cluster_offset = 0 ∧ nbytes = fat.cluster_byte_size then
        let w := dev_write fat.dev start_sector umem buf fat.sec_per_cluster
        if w.1 < 0 then some (total_write, file, fat)
        else step fat.cluster_byte_size { fat with dev := w.2 }
      else
        let curr_write :=
          if cluster_offset + nbytes > fat.cluster_byte_size then
            fat.cluster_byte_size - cluster_offset
          else nbytes
        let r := dev_read fat.dev start_sector fat.fat_buffer 0 fat.sec_per_cluster
        let fat0 := { fat with curr_sector := -1, fat_buffer := r.2 }
        if r.1 < 0 then some (total_write, file, fat0)
        else
          let fat1 : fat_t :=
            { fat0 with
              fat_buffer := kernel_memcpy fat0.fat_buffer cluster_offset umem buf curr_write }
          let w := dev_write fat1.dev start_sector fat1.fat_buffer 0 fat1.sec_per_cluster
          if w.1 < 0 then some (total_write, file, fat1)
          else step curr_write { fat1 with dev := w.2 }
    else some (total_write, file, fat)

/-- The function `fatfs_write`; `umem` is the memory of the caller and `buf`
the address of the source in it. -/
def fatfs_write (fuel : Nat) (umem : bytes_t) (buf : Nat) (size : Nat) (file : file_t)
    (fat : fat_t) : Option (Int × file_t × fat_t) :=
  let run (file0 : file_t) (fat0 : fat_t) : Option (Int × file_t × fat_t) :=
    match fatfs_write_loop fuel umem size buf size 0 file0 fat0 with
    | none => none
    | some (total_write, file1, fat1) => some ((total_write : Int), file1, fat1)
  if file.pos + size > file.size then
    match expand_file fuel file fat (file.pos + size - file.size) with
    | none => none
    | some (err, file0, fat0) => if err < 0 then some (0, file0, fat0) else run file0 fat0
  else run file fat

/-- The function `fatfs_close`. -/
def fatfs_close (file : file_t) (fat : fat_t) : fat_t :=
  if file.mode = O_RDONLY then fat
  else
    match read_dir_entry fat file.p_index with
    | (none, fat1) => fat1
    | (some off, fat1) =>
      let b1 := write32 fat1.fat_buffer (off + 28) file.size
      let b2 := write16 b1 (off + 20) (file.sblk >>> 16)
      let b3 := write16 b2 (off + 26) (file.sblk &&& 0xFFFF)
      (write_dir_entry { fat1 with fat_buffer := b3 } b3 off file.p_index).2

/-- The loop of `fatfs_seek`, for at most `fuel` turns (every turn but the
last moves at least one byte): the result, `curr_pos` and `curr_cluster`. -/
def fatfs_seek_loop :
    Nat → fat_t → Nat → Nat → Nat → Int × Nat × Nat × fat_t
  | 0, fat, curr_cluster, curr_pos, _ => (0, curr_pos, curr_cluster, fat)
  | fuel + 1, fat, curr_cluster, curr_pos, offset_to_move =>
    if offset_to_move > 0 then
      let c_off := curr_pos % fat.cluster_byte_size
      if c_off + offset_to_move < fat.cluster_byte_size then
        (0, curr_pos + offset_to_move, curr_cluster, fat)
      else
        let curr_move := fat.cluster_byte_size - c_off
        let r := cluster_get_next fat curr_cluster
        if ¬ cluster_is_valid r.1 then (-1, curr_pos + curr_move, r.1, r.2)
        else fatfs_seek_loop fuel r.2 r.1 (curr_pos + curr_move) (offset_to_move - curr_move)
    else (0, curr_pos, curr_cluster, fat)

/-- The function `fatfs_seek`. -/
def fatfs_seek (file : file_t) (offset : Nat) (dir : Int) (fat : fat_t) :
    Int × file_t × fat_t :=
  if dir ≠ 0 then (-1, file, fat)
  else
    let r := fatfs_seek_loop (offset + 1) fat (file.sblk % 65536) 0 offset
    if r.1 < 0 then (-1, file, r.2.2.2)
    else (0, { file with pos := r.2.1, cblk := r.2.2.1 }, r.2.2.2)

/-- The scan of the root directory in `fatfs_unlink`, from index `i` on for
`n` more entries; `fuel` bounds the loop that frees the chain. -/
def fatfs_unlink_scan (fuel : Nat) (path : List Nat) : Nat → Nat → fat_t → Option (Int × fat_t)
  | 0, _, fat => some (-1, fat)
  | n + 1, i, fat =>
    match read_dir_entry fat i with
    | (none, fat1) => some (-1, fat1)
    | (some off, fat1) =>
      if DIR_Name fat1.fat_buffer off 0 = DIRITEM_NAME_END then some (-1, fat1)
      else if DIR_Name fat1.fat_buffer off 0 = DIRITEM_NAME_FREE then
        fatfs_unlink_scan fuel path n (i + 1) fat1
      else if diritem_name_match fat1.fat_buffer off path then
        let cluster := (DIR_FstClusHI fat1.fat_buffer off <<< 16) ||| DIR_FstClusL0 fat1.fat_buffer off
        match cluster_free_chain fuel fat1 (cluster % 65536) with
        | none => none
        | some fat2 => some (write_dir_entry fat2 (fun _ => 0) 0 i)
      else fatfs_unlink_scan fuel path n (i + 1) fat1

/-- The function `fatfs_unlink`. -/
def fatfs_unlink (fuel : Nat) (fat : fat_t) (path : List Nat) : Option (Int × fat_t) :=
  fatfs_unlink_scan fuel path fat.root_ent_cnt 0 fat

/-! ### The FAT16 driver: well-formed volumes and the view of the table -/

/-- The geometry that `fatfs_mount` computes from the boot record of a
volume with 512-byte sectors: the fields it derives, the ranges of the
fields of the boot record (`BPB_SecPerClus` and `BPB_NumFATs` are bytes, the
others 16-bit words), at least one sector per cluster and one table copy,
and a root directory that fills whole sectors. -/
structure fat_wf (fat : fat_t) : Prop where
  bps : fat.bytes_per_sec = 512
  spc_pos : 0 < fat.sec_per_cluster
  spc_le : fat.sec_per_cluster ≤ 255
  cbs : fat.cluster_byte_size = fat.sec_per_cluster * 512
  root : fat.root_start = fat.tbl_start + fat.tbl_sectors * fat.tbl_cnt
  data : fat.data_start = fat.root_start + fat.root_ent_cnt * 32 / 512
  root_full : fat.root_ent_cnt % 16 = 0
  cnt_pos : 1 ≤ fat.tbl_cnt
  cnt_le : fat.tbl_cnt ≤ 255
  start_le : fat.tbl_start ≤ 65535
  sectors_le : fat.tbl_sectors ≤ 65535
  ent_le : fat.root_ent_cnt ≤ 65535

/-- Two states of the driver with the same geometry. -/
def geom_eq (a b : fat_t) : Prop :=
  a.tbl_start = b.tbl_start ∧ a.tbl_cnt = b.tbl_cnt ∧ a.tbl_sectors = b.tbl_sectors ∧
  a.bytes_per_sec = b.bytes_per_sec ∧ a.sec_per_cluster = b.sec_per_cluster ∧
  a.root_ent_cnt = b.root_ent_cnt ∧ a.root_start = b.root_start ∧
  a.data_start = b.data_start ∧ a.cluster_byte_size = b.cluster_byte_size

/-- The disk reports no error. -/
def dev_ok (d : blkdev_t) : Prop := ∀ s, d.fails s = false

/-- The sector buffer is invalid, or it holds a sector of the tables or of
the root directory and agrees with the disk. -/
def cache_ok (fat : fat_t) : Prop :=
  fat.curr_sector = -1 ∨
  ∃ s : Nat, fat.curr_sector = (s : Int) ∧ s < fat.data_start ∧
    ∀ o, o < 512 → fat.fat_buffer o = fat.dev.bytes (s * 512 + o)

/-- The state invariant of the driver on an error-free disk. -/
def fat_inv (fat : fat_t) : Prop := fat_wf fat ∧ dev_ok fat.dev ∧ cache_ok fat

/-- Entry `c` of the first copy of the table, as stored on the disk. -/
def fat_entry (fat : fat_t) (c : Nat) : Nat :=
  read16 fat.dev.bytes (fat.tbl_start * 512 + c * 2)

/-- Entry `c` of copy `i` of the table, as stored on the disk. -/
def fat_entry_copy (fat : fat_t) (i c : Nat) : Nat :=
  read16 fat.dev.bytes ((fat.tbl_start + i * fat.tbl_sectors) * 512 + c * 2)

/-- Number of entries of one copy of the table. -/
def fat_entries (fat : fat_t) : Nat := fat.tbl_sectors * 256

/-- All copies of the table hold the same bytes. -/
def fat_copies_equal (fat : fat_t) : Prop :=
  ∀ i o, i < fat.tbl_cnt → o < fat.tbl_sectors * 512 →
    fat.dev.bytes ((fat.tbl_start + i * fat.tbl_sectors) * 512 + o) =
      fat.dev.bytes (fat.tbl_start * 512 + o)

/-- The view of a state of the driver that the cluster chains depend on:
the invariant holds and `E` gives the entries of the first table copy. -/
def fat_abs (fat : fat_t) (E : Nat → Nat) : Prop :=
  fat_inv fat ∧ ∀ c, c < fat_entries fat → fat_entry fat c = E c

/-- What an operation on the table leaves alone: the geometry, every byte of
the disk outside the table copies, and the equality of the copies. -/
def fat_frame (fat fat1 : fat_t) : Prop :=
  geom_eq fat fat1 ∧
  (∀ a, a < fat.tbl_start * 512 ∨ fat.root_start * 512 ≤ a →
    fat1.dev.bytes a = fat.dev.bytes a) ∧
  (fat_copies_equal fat → fat_copies_equal fat1)

/-- Consecutive clusters of the list are linked by the table `E`. -/
def links (E : Nat → Nat) : List Nat → Prop
  | [] => True
  | [_] => True
  | x :: y :: l => E x = y ∧ links E (y :: l)

/-- Every cluster of the list is a valid data cluster with an entry in the
table. -/
def clusters_ok (fat : fat_t) (l : List Nat) : Prop :=
  ∀ x, x ∈ l → cluster_is_valid x = true ∧ x < fat_entries fat

/-- The cluster chain `l` of the table `E`: it is linked, its clusters are
distinct and its last cluster carries the end mark `e`. -/
def is_chain (fat : fat_t) (E : Nat → Nat) (l : List Nat) (e : Nat) : Prop :=
  clusters_ok fat l ∧ l.Nodup ∧ links E l ∧ ∀ x, l.getLast? = some x → E x = e

/-- The table after the loop of `cluster_alloc_free` has taken the clusters
of `l` in turn, starting with `pre` as the last cluster taken before. -/
def link_from (E : Nat → Nat) (pre : Nat) : List Nat → Nat → Nat
  | [] => E
  | x :: l => link_from (fun y => if cluster_is_valid pre = true ∧ y = pre then x else E y) x l

/-- The clusters of `l` are, in ascending order, the free clusters that a
scan of the table `E` from `curr` on meets first. -/
def first_free (E : Nat → Nat) (n curr : Nat) (l : List Nat) : Prop :=
  l.Pairwise (· < ·) ∧
  (∀ x, x ∈ l → curr ≤ x ∧ x < n ∧ x < 0xFFF8 ∧ E x = 0) ∧
  (∀ y, curr ≤ y → (∃ x, x ∈ l ∧ y < x) → y ∉ l → E y ≠ 0)

/-! ### Bitmaps (`tools/bitmap.c`) -/

/-- The record `bitmap_t`, with the fields that `bitmap.c` uses: the number
of bits and the byte array `bits` (byte `i` at `bits i`). -/
structure bitmap_t where
  bit_count : Nat
  bits : Nat → Nat

/-- The function `bitmap_get_bit`. -/
def bitmap_get_bit (bitmap : bitmap_t) (index : Nat) : Nat :=
  if bitmap.bits (index / 8) &&& (1 <<< (index % 8)) ≠ 0 then 1 else 0

/-- The function `bitmap_set_bit`; the loop runs for at most `count` turns
and stops at the end of the bitmap.  The bytes are `uint8_t`. -/
def bitmap_set_bit : bitmap_t → Nat → Nat → Nat → bitmap_t
  | bitmap, _, 0, _ => bitmap
  | bitmap, index, count + 1, bit =>
    if index < bitmap.bit_count then
      let b := bitmap.bits (index / 8)
      let v :=
        if bit ≠ 0 then (b ||| (1 <<< (index % 8))) % 256
        else b &&& (0xFF ^^^ (1 <<< (index % 8)))
      bitmap_set_bit { bitmap with bits := fun j => if j = index / 8 then v else bitmap.bits j }
        (index + 1) count bit
    else bitmap

/-- The inner `for` loop of `bitmap_alloc_nbits`, for at most `fuel` turns:
the values of `i` and `search_idx` at its exit, and `false` when it left
through `break`. -/
def bitmap_alloc_run (bitmap : bitmap_t) (bit count : Nat) : Nat → Nat → Nat → Nat × Nat × Bool
  | 0, i, search_idx => (i, search_idx, true)
  | fuel + 1, i, search_idx =>
    if i < count ∧ search_idx < bitmap.bit_count then
      if bitmap_get_bit bitmap search_idx ≠ bit then (i, search_idx + 1, false)
      else bitmap_alloc_run bitmap bit count fuel (i + 1) (search_idx + 1)
    else (i, search_idx, true)

/-- The function `bitmap_alloc_nbits` from `search_idx` on, for at most `fuel`
turns of its `while` loop; `none` when the loop has not ended by then. -/
def bitmap_alloc_nbits (bitmap : bitmap_t) (bit count : Nat) : Nat → Nat → Option (Int × bitmap_t)
  | 0, _ => none
  | fuel + 1, search_idx =>
    if search_idx < bitmap.bit_count then
      if bitmap_get_bit bitmap search_idx ≠ bit then
        bitmap_alloc_nbits bitmap bit count fuel (search_idx + 1)
      else
        let r := bitmap_alloc_run bitmap bit count count 1 search_idx
        if r.1 ≥ count then
          some ((search_idx : Int), bitmap_set_bit bitmap search_idx count (if bit ≠ 0 then 0 else 1))
        else bitmap_alloc_nbits bitmap bit count fuel r.2.1
    else some (-1, bitmap)

/-! ### Physical pages and page tables (`core/memory.c`, `cpu/mmu.h`) -/

def PTE_P : Nat := 1 <<< 0
def PTE_W : Nat := 1 <<< 1
def PTE_U : Nat := 1 <<< 2
def PDE_U : Nat := 1 <<< 2

/-- The record `addr_alloc_t`, with the fields that `memory.c` uses. -/
structure addr_alloc_t where
  start : Nat
  size : Nat
  page_size : Nat
  bitmap : bitmap_t

/-- The state of `memory.c`: the static `paddr_alloc` and the physical
memory that holds the page directories and page tables, as the 32-bit word
stored at each (4-byte aligned) byte address. -/
structure mem_t where
  paddr_alloc : addr_alloc_t
  pmem : Nat → Nat

/-- Outcome of a kernel function that may hit an `ASSERT`.  Modelled from
the spec: `ASSERT` is defined in `tools/klib.h`, which is not part of the
sources at hand; a failed assertion halts the system.  `out_of_fuel` is the
outcome of a loop that has not ended within the given number of turns. -/
inductive result_t (α : Type) where
  | done (a : α)
  | halted
  | out_of_fuel

/-- The function `addr_alloc_page`; `fuel` bounds the scan of the bitmap. -/
def addr_alloc_page (fuel : Nat) (alloc : addr_alloc_t) (page_count : Nat) :
    Option (Nat × addr_alloc_t) :=
  match bitmap_alloc_nbits alloc.bitmap 0 page_count fuel 0 with
  | none => none
  | some (page_index, bitmap1) =>
    if page_index ≥ 0 then
      some ((alloc.start + page_index.toNat * alloc.page_size) % 2 ^ 32,
        { alloc with bitmap := bitmap1 })
    else some (0, { alloc with bitmap := bitmap1 })

/-- The function `addr_free_page`. -/
def addr_free_page (alloc : addr_alloc_t) (addr : Nat) (page_count : Nat) : addr_alloc_t :=
  let pg_idx := uint32 ((addr : Int) - (alloc.start : Int)) / alloc.page_size
  { alloc with bitmap := bitmap_set_bit alloc.bitmap pg_idx page_count 0 }

/-- The function `pde_index`. -/
def pde_index (vaddr : Nat) : Nat := vaddr >>> 22

/-- The function `pte_index`. -/
def pte_index (vaddr : Nat) : Nat := (vaddr >>> 12) &&& 0x3FF

/-- The bit field `present` of a `pde_t` or `pte_t` with value `v`. -/
def entry_present (v : Nat) : Nat := v % 2

/-- The functions `pde_paddr` and `pte_paddr` on an entry with value `v`:
the 20-bit field at bits 12 to 31, shifted left by 12. -/
def pde_paddr (v : Nat) : Nat := ((v >>> 12) % 2 ^ 20) <<< 12

/-- The function `find_pte`: the address of the entry, or `none` for the
null pointer. -/
def find_pte (fuel : Nat) (m : mem_t) (page_dir vaddr : Nat) (alloc : Int) :
    Option (Option Nat × mem_t) :=
  let pde := page_dir + 4 * pde_index vaddr
  if entry_present (m.pmem pde) ≠ 0 then
    some (some (pde_paddr (m.pmem pde) + 4 * pte_index vaddr), m)
  else if alloc = 0 then some (none, m)
  else
    match addr_alloc_page fuel m.paddr_alloc 1 with
    | none => none
    | some (pg_paddr, alloc1) =>
      if pg_paddr = 0 then some (none, { m with paddr_alloc := alloc1 })
      else
        let pm1 : Nat → Nat :=
          fun a => if a = pde then pg_paddr ||| PTE_P ||| PTE_W ||| PDE_U else m.pmem a
        let pm2 : Nat → Nat :=
          fun a => if pg_paddr ≤ a ∧ a < pg_paddr + MEM_PAGE_SIZE then 0 else pm1 a
        some (some (pg_paddr + 4 * pte_index vaddr), { paddr_alloc := alloc1, pmem := pm2 })

/-- The function `memory_create_map`; the loop runs `count` times. -/
def memory_create_map (fuel : Nat) (m : mem_t) (page_dir : Nat) :
    Nat → Nat → Nat → Nat → result_t (Int × mem_t)
  | _, _, 0, _ => .done (0, m)
  | vaddr, paddr, count + 1, perm =>
    match find_pte fuel m page_dir vaddr 1 with
    | none => .out_of_fuel
    | some (none, m1) => .done (-1, m1)
    | some (some pte, m1) =>
      if entry_present (m1.pmem pte) ≠ 0 then .halted
      else
        memory_create_map fuel
          { m1 with pmem := fun a => if a = pte then paddr ||| perm ||| PTE_P else m1.pmem a }
          page_dir ((vaddr + MEM_PAGE_SIZE) % 2 ^ 32) ((paddr + MEM_PAGE_SIZE) % 2 ^ 32) count perm

/-- The loop of `memory_alloc_for_page_dir` from turn `i` on, for `n` more
turns; `vaddr` is the rounded-down address used on the error path. -/
def memory_alloc_loop (fuel : Nat) (page_dir vaddr perm : Nat) :
    Nat → Nat → Nat → mem_t → result_t (Nat × mem_t)
  | 0, _, _, m => .done (0, m)
  | n + 1, i, curr_vaddr, m =>
    match addr_alloc_page fuel m.paddr_alloc 1 with
    | none => .out_of_fuel
    | some (paddr, alloc1) =>
      if paddr = 0 then .done (0, { m with paddr_alloc := alloc1 })
      else
        match memory_create_map fuel { m with paddr_alloc := alloc1 } page_dir curr_vaddr paddr 1
            perm with
        | .out_of_fuel => .out_of_fuel
        | .halted => .halted
        | .done (err, m1) =>
          if err < 0 then
            .done (0xFFFFFFFF,
              { m1 with paddr_alloc := addr_free_page m1.paddr_alloc vaddr (i + 1) })
          else
            memory_alloc_loop fuel page_dir vaddr perm n (i + 1)
              ((curr_vaddr + MEM_PAGE_SIZE) % 2 ^ 32) m1

/-- The function `memory_alloc_for_page_dir`. -/
def memory_alloc_for_page_dir (fuel : Nat) (m : mem_t) (page_dir vaddr size perm : Nat) :
    result_t (Nat × mem_t) :=
  let page_count := up2 size MEM_PAGE_SIZE / MEM_PAGE_SIZE
  memory_alloc_loop fuel page_dir (down2 vaddr MEM_PAGE_SIZE) perm page_count 0 vaddr m

section mem
variable {σ : Type}

/-- The function `memory_alloc_page_for`; the result is the `uint32_t` of
`memory_alloc_for_page_dir` read as an `int`. -/
def memory_alloc_page_for (fuel : Nat) (k : kernel σ) (m : mem_t) (addr size perm : Nat) :
    result_t (Int × mem_t) :=
  match memory_alloc_for_page_dir fuel m (task_get k (task_current k)).tss.cr3 addr size perm with
  | .out_of_fuel => .out_of_fuel
  | .halted => .halted
  | .done (r, m1) => .done (int32 r, m1)

/-- The function `sys_sbrk`: the pointer returned, and the state of the
task and of the memory. -/
def sys_sbrk (fuel : Nat) (k : kernel σ) (m : mem_t) (incr : Int) :
    result_t (Nat × kernel σ × mem_t) :=
  let task_p := task_current k
  let task := task_get k task_p
  let pre_heap_end := task.heap_end
  if incr < 0 then .halted
  else if incr = 0 then .done (pre_heap_end, k, m)
  else
    let start := task.heap_end
    let end_ := uint32 ((start : Int) + incr)
    let start_offset := start % MEM_PAGE_SIZE
    let finish (start1 : Nat) (incr1 : Int) : result_t (Nat × kernel σ × mem_t) :=
      if incr1 ≠ 0 then
        let curr_size := uint32 ((end_ : Int) - (start1 : Int))
        match memory_alloc_page_for fuel k m start1 curr_size (PTE_P ||| PTE_U ||| PTE_W) with
        | .out_of_fuel => .out_of_fuel
        | .halted => .halted
        | .done (err, m1) =>
          if err < 0 then .done (0xFFFFFFFF, k, m1)
          else .done (pre_heap_end, task_put k task_p { task with heap_end := end_ }, m1)
      else .done (pre_heap_end, task_put k task_p { task with heap_end := end_ }, m)
    if start_offset ≠ 0 then
      if (start_offset : Int) + incr ≤ (MEM_PAGE_SIZE : Int) then
        .done (pre_heap_end, task_put k task_p { task with heap_end := end_ }, m)
      else
        let curr_size := MEM_PAGE_SIZE - start_offset
        finish ((start + curr_size) % 2 ^ 32) (incr - (curr_size : Int))
    else finish start incr

end mem

/-- The virtual page at `vaddr` is mapped by the page directory at
`page_dir`: the directory entry and the table entry of the address both have
the `present` bit set (`cpu/mmu.h`). -/
def page_mapped (pmem : Nat → Nat) (page_dir vaddr : Nat) : Prop :=
  entry_present (pmem (page_dir + 4 * pde_index vaddr)) = 1 ∧
  entry_present
    (pmem (pde_paddr (pmem (page_dir + 4 * pde_index vaddr)) + 4 * pte_index vaddr)) = 1

/-! ### Memory management: free pages and the invariant of the page tables -/

/-- Bit `index` of the bitmap. -/
def bit_of (bitmap : bitmap_t) (index : Nat) : Bool :=
  (bitmap.bits (index / 8)).testBit (index % 8)

/-- The physical page at address `p` is free in the allocator. -/
def frame_free (alloc : addr_alloc_t) (p : Nat) : Prop :=
  ∃ i, i < alloc.bitmap.bit_count ∧ bit_of alloc.bitmap i = false ∧ p = alloc.start + i * 4096

/-- Number of free pages of the allocator's bitmap. -/
def free_count (bitmap : bitmap_t) : Nat :=
  (List.range bitmap.bit_count).countP (fun i => !bit_of bitmap i)

/-- The allocator manages pages of 4096 bytes in a page-aligned region above
address 0 of the 32-bit physical address space. -/
structure alloc_wf (alloc : addr_alloc_t) : Prop where
  page : alloc.page_size = 4096
  aligned : alloc.start % 4096 = 0
  pos : 0 < alloc.start
  top : alloc.start + alloc.bitmap.bit_count * 4096 ≤ 2 ^ 32

/-- The invariant of the page structures of the directory at `page_dir`:
the allocator is well formed, the directory page is page aligned and not
free, and the page tables of the present directory entries are distinct
pages that are not free and differ from the directory page. -/
structure paging_inv (m : mem_t) (page_dir : Nat) : Prop where
  wf : alloc_wf m.paddr_alloc
  dir_aligned : page_dir % 4096 = 0
  dir_not_free : ¬ frame_free m.paddr_alloc page_dir
  table_not_free : ∀ d, d < 1024 → entry_present (m.pmem (page_dir + 4 * d)) = 1 →
    ¬ frame_free m.paddr_alloc (pde_paddr (m.pmem (page_dir + 4 * d)))
  table_not_dir : ∀ d, d < 1024 → entry_present (m.pmem (page_dir + 4 * d)) = 1 →
    pde_paddr (m.pmem (page_dir + 4 * d)) ≠ page_dir
  table_inj : ∀ d e, d < 1024 → e < 1024 →
    entry_present (m.pmem (page_dir + 4 * d)) = 1 →
    entry_present (m.pmem (page_dir + 4 * e)) = 1 →
    pde_paddr (m.pmem (page_dir + 4 * d)) = pde_paddr (m.pmem (page_dir + 4 * e)) → d = e

/-- The address `a` rounded up to a multiple of the page size (4096). -/
def roundup_page (a : Nat) : Nat := (a + 4095) / 4096 * 4096

/-- Byte address on the disk of the first byte of the data cluster `c`. -/
def cluster_addr (fat : fat_t) (c : Nat) : Nat :=
  (fat.data_start + (c - 2) * fat.sec_per_cluster) * 512

/-- The state `fat0` is `fat` after the first `k` bytes of cluster `c` have
been overwritten with the bytes of `umem` from address `buf` on; nothing else
on the disk has changed. -/
def wrote_cluster (fat fat0 : fat_t) (umem : bytes_t) (buf c k : Nat) : Prop :=
  geom_eq fat fat0 ∧ fat_inv fat0 ∧
  ∀ a, fat0.dev.bytes a =
    if cluster_addr fat c ≤ a ∧ a < cluster_addr fat c + k then umem (buf + (a - cluster_addr fat c))
    else fat.dev.bytes a

/-! ### Address translation (`core/memory.c`) -/

/-- The function `pte_paddr` on an entry with value `v`. -/
def pte_paddr (v : Nat) : Nat := ((v >>> 12) % 2 ^ 20) <<< 12

/-- The function `memory_get_paddr`. -/
def memory_get_paddr (m : mem_t) (page_dir vaddr : Nat) : Option Nat :=
  match find_pte 0 m page_dir vaddr 0 with
  | none => none
  | some (none, _) => some 0
  | some (some pte, _) =>
    some ((pte_paddr (m.pmem pte) + (vaddr &&& (MEM_PAGE_SIZE - 1))) % 2 ^ 32)

/-! ### Path lookup and `sys_open` (`fs/fs.c`) -/

def FILE_TABLE_SIZE : Nat := 2048
def FILE_NAME_SIZE : Nat := 32

/-- The function `path_begin_with`.  A C string is the list of its
characters; a character 0 in the list ends the string there. -/
def path_begin_with : List Nat → List Nat → Bool
  | c1 :: s1, c2 :: s2 =>
    if c1 ≠ 0 ∧ c2 ≠ 0 ∧ c1 = c2 then path_begin_with s1 s2 else c2 == 0
  | [], c2 :: _ => c2 == 0
  | _, [] => true

/-- The first loop of `path_next_child`: every turn steps over a character
and goes on when that character is `/`. -/
def path_skip_slashes : List Nat → List Nat
  | [] => []
  | c :: s => if c ≠ 0 then (if c = 47 then path_skip_slashes s else s) else c :: s

/-- The second loop of `path_next_child`: every turn steps over a character
and goes on when that character is not `/`. -/
def path_skip_name : List Nat → List Nat
  | [] => []
  | c :: s => if c ≠ 0 then (if c ≠ 47 then path_skip_name s else s) else c :: s

/-- The function `path_next_child`: the rest of the string, or `none` for
the null pointer. -/
def path_next_child (path : List Nat) : Option (List Nat) :=
  match path_skip_name (path_skip_slashes path) with
  | [] => none
  | c :: s => if c ≠ 0 then some (c :: s) else none

/-- The record `fs_t` as far as the path lookup of `fs.c` uses it (its
declaration in `fs/fs.h` is not among the sources): the string
`mount_point`. -/
structure fs_t where
  mount_point : List Nat

/-- The mount state of `fs.c`: the records `fs_tbl[i]`, the indices of the
records linked on `mounted_list`, first to last, and the index of the record
`root_fs` points to. -/
structure mount_table_t where
  fs_tbl : Nat → fs_t
  mounted_list : List Nat
  root_fs : Nat

/-- The loop of `sys_open` over the nodes of `mounted_list`: the record
found, or `none` when `fs` is still null at the end. -/
def sys_open_find (mt : mount_table_t) (name : List Nat) : List Nat → Option Nat
  | [] => none
  | curr :: rest =>
    if path_begin_with name (mt.fs_tbl curr).mount_point then some curr
    else sys_open_find mt name rest

section vfs_open

variable {σ : Type}

/-- Modelled from the spec: `file_alloc` lives in `fs/file.c`, which is not
part of the sources at hand.  A file record is in use while its reference
count is positive: `file_alloc` takes the first record of the file table
whose count is 0, clears it and gives it the count 1; it returns the null
pointer when every record is in use. -/
def file_alloc (k : kernel σ) : Option Nat × kernel σ :=
  match (List.range FILE_TABLE_SIZE).find? (fun i => decide ((k.files i).ref = 0)) with
  | some i => (some i, file_put k i { file_zero with ref := 1 })
  | none => (none, k)

/-- The function `sys_open`.  `fs_open fs name file` is the call
`fs->op->open(fs, name, file)` of the file system with index `fs`, on the
private state of the file systems; `name` is `none` for the null pointer
(which `kernel_strncpy` leaves alone).  The mutex of the file system is not
modelled. -/
def sys_open (fs_open : Nat → Option (List Nat) → file_t → σ → Int × file_t × σ)
    (k : kernel σ) (mt : mount_table_t) (name : List Nat) (flags : Nat) : Int × kernel σ :=
  match file_alloc k with
  | (none, k0) => (-1, k0)
  | (some file, k0) =>
    let r := task_alloc_fd k0 file
    if r.1 < 0 then (-1, file_free r.2 file)
    else
      let found := sys_open_find mt name mt.mounted_list
      let fs := match found with
        | some curr => curr
        | none => mt.root_fs
      let name1 := match found with
        | some _ => path_next_child name
        | none => some name
      let f0 := r.2.files file
      let f1 : file_t :=
        { f0 with mode := flags, fs := fs,
                  file_name := match name1 with
                    | some n => kernel_strncpy n FILE_NAME_SIZE
                    | none => f0.file_name }
      let o := fs_open fs name1 f1 r.2.fs
      let k2 : kernel σ := { file_put r.2 file o.2.1 with fs := o.2.2 }
      if o.1 < 0 then (-1, k2) else (r.1, k2)

end vfs_open

/-! ### Mutexes and semaphores (`ipc/mutex.c`, `ipc/sem.c`) -/

/-- The record `mutex_t`.  Its declaration is in `ipc/mutex.h`, which is not
among the sources at hand; the fields are those `mutex.c` uses.
`locked_count` is an `int`; `wait_list` is the sequence of the tasks whose
`wait_node` is linked on it, first to last. -/
structure mutex_t where
  owner : task_ptr
  locked_count : Int
  wait_list : List task_ptr
  deriving DecidableEq, Repr

/-- The record `sem_t`.  Its declaration is in `ipc/sem.h`, which is not
among the sources at hand; the fields are those `sem.c` uses. -/
structure sem_t where
  count : Int
  wait_list : List task_ptr
  deriving DecidableEq, Repr

/-- The value an `int` holds after its value was to become `i` (two's
complement wrap-around). -/
def int_wrap (i : Int) : Int := int32 (uint32 i)

section ipc

variable {σ : Type}

/-- The function `mutex_init`. -/
def mutex_init (mutex : mutex_t) : mutex_t :=
  { mutex with locked_count := 0, owner := .null, wait_list := [] }

/-- The function `mutex_lock`. -/
def mutex_lock (k : kernel σ) (mutex : mutex_t) : kernel σ × mutex_t :=
  let curr := task_current k
  if mutex.locked_count = 0 then
    (k, { mutex with locked_count := 1, owner := curr })
  else if mutex.owner = curr then
    (k, { mutex with locked_count := int_wrap (mutex.locked_count + 1) })
  else
    let curr1 := task_current k
    let k1 := task_set_block k curr1
    (task_dispatch k1, { mutex with wait_list := mutex.wait_list ++ [curr1] })

/-- The function `mutex_unlock`. -/
def mutex_unlock (k : kernel σ) (mutex : mutex_t) : kernel σ × mutex_t :=
  let curr := task_current k
  if mutex.owner = curr then
    let m1 : mutex_t := { mutex with locked_count := int_wrap (mutex.locked_count - 1) }
    if m1.locked_count = 0 then
      let m2 : mutex_t := { m1 with owner := .null }
      if m2.wait_list.length ≠ 0 then
        let task := m2.wait_list.headD .null
        let k1 := task_set_ready k task
        (task_dispatch k1, { locked_count := 1, owner := task, wait_list := m2.wait_list.tail })
      else (k, m2)
    else (k, m1)
  else (k, mutex)

/-- The function `sem_init`. -/
def sem_init (sem : sem_t) (init_count : Int) : sem_t :=
  { sem with count := init_count, wait_list := [] }

/-- The function `sem_wait`. -/
def sem_wait (k : kernel σ) (sem : sem_t) : kernel σ × sem_t :=
  if sem.count > 0 then (k, { sem with count := int_wrap (sem.count - 1) })
  else
    let curr := task_current k
    let k1 := task_set_block k curr
    (task_dispatch k1, { sem with wait_list := sem.wait_list ++ [curr] })

/-- The function `sem_notify`. -/
def sem_notify (k : kernel σ) (sem : sem_t) : kernel σ × sem_t :=
  if sem.wait_list.length ≠ 0 then
    let task := sem.wait_list.headD .null
    let k1 := task_set_ready k task
    (task_dispatch k1, { sem with wait_list := sem.wait_list.tail })
  else (k, { sem with count := int_wrap (sem.count + 1) })

/-- The calls on a mutex. -/
inductive mutex_call
  | lock
  | unlock
  deriving DecidableEq, Repr

/-- The calls on a semaphore. -/
inductive sem_call
  | wait
  | notify
  deriving DecidableEq, Repr

/-- The mutex after a sequence of calls.  Every call comes with the state of
the scheduler it is made in: between two calls on the mutex the scheduler
may have run any other code, so nothing relates one state to the next. -/
def mutex_calls (mutex : mutex_t) : List (mutex_call × kernel σ) → mutex_t
  | [] => mutex
  | (.lock, k) :: rest => mutex_calls (mutex_lock k mutex).2 rest
  | (.unlock, k) :: rest => mutex_calls (mutex_unlock k mutex).2 rest

/-- The semaphore after a sequence of calls, each made in a state of the
scheduler of its own. -/
def sem_calls (sem : sem_t) : List (sem_call × kernel σ) → sem_t
  | [] => sem
  | (.wait, k) :: rest => sem_calls (sem_wait k sem).2 rest
  | (.notify, k) :: rest => sem_calls (sem_notify k sem).2 rest

end ipc

/-- What every call of `mutex_lock` and `mutex_unlock` by a task keeps: the
properties of the claim, that no waiter is the null pointer, and a bound on
the depth by the number `n` of calls made. -/
def mutex_inv (m : mutex_t) (n : Nat) : Prop :=
  (m.owner ≠ .null → 1 ≤ m.locked_count) ∧ (m.owner = .null → m.locked_count = 0) ∧
  (m.wait_list ≠ [] → m.owner ≠ .null) ∧ (∀ t ∈ m.wait_list, t ≠ .null) ∧
  m.locked_count ≤ n

/-- What every call of `sem_wait` and `sem_notify` keeps: the properties of
the claim and a bound on the count by the initial count plus the number of
calls made, together `n`. -/
def sem_inv (s : sem_t) (n : Nat) : Prop :=
  0 ≤ s.count ∧ (s.wait_list ≠ [] → s.count = 0) ∧ s.count ≤ n

/-! ### Reading the root directory (`fs/fatfs/fatfs.c`) -/

/-- The record `struct dirent` (`applib/lib_syscall.h`); `name` holds the
bytes of the array `name[]` (byte `i` at `name i`), `type` the value of
`file_type_t` stored in the `int`. -/
structure dirent where
  index : Int
  type : file_type_t
  name : bytes_t
  size : Int

/-- The record `DIR` as far as the driver uses it: the iteration index. -/
structure DIR where
  index : Int
  deriving DecidableEq, Repr

/-- One turn of the loop of `diritem_get_name` for the item at offset `off`
of `b`, on the state `(c, ext, dest)`: `c` is the address the next character
goes to and `ext` the address of the dot (`none` for the null pointer). -/
def diritem_get_name_step (b : bytes_t) (off : Nat) (s : Nat × Option Nat × bytes_t) (i : Nat) :
    Nat × Option Nat × bytes_t :=
  let s1 : Nat × Option Nat × bytes_t :=
    if DIR_Name b off i ≠ 32 then
      (s.1 + 1, s.2.1, fun o => if o = s.1 then DIR_Name b off i else s.2.2 o)
    else s
  if i = 7 then (s1.1 + 1, some s1.1, fun o => if o = s1.1 then 46 else s1.2.2 o) else s1

/-- The function `diritem_get_name` for the item at offset `off` of `b`: the
memory it leaves, `dest` being the memory before the call and `doff` the
address of the destination in it.  It clears `SFN_LEN + 1` bytes, copies the
characters of the name that are not blanks, with a dot after the eighth
position, and overwrites the dot by 0 when the byte after it is 0. -/
def diritem_get_name (b : bytes_t) (off : Nat) (dest : bytes_t) (doff : Nat) : bytes_t :=
  let s := (List.range 11).foldl (diritem_get_name_step b off)
    (doff, none, kernel_memset dest doff 0 (SFN_LEN + 1))
  match s.2.1 with
  | some ext => if s.2.2 (ext + 1) = 0 then fun o => if o = ext then 0 else s.2.2 o else s.2.2
  | none => s.2.2

/-- The function `fatfs_readdir`: `(result, fat, dir, dirent)`.  `fuel`
bounds the turns of the loop; `none` when it runs out. -/
def fatfs_readdir : Nat → fat_t → DIR → dirent → Option (Int × fat_t × DIR × dirent)
  | 0, _, _, _ => none
  | fuel + 1, fat, dir, d =>
    if uint32 dir.index < fat.root_ent_cnt then
      match read_dir_entry fat dir.index with
      | (none, fat1) => some (-1, fat1, dir, d)
      | (some item, fat1) =>
        if DIR_Name fat1.fat_buffer item 0 = DIRITEM_NAME_END then some (-1, fat1, dir, d)
        else
          let type := diritem_get_type fat1.fat_buffer item
          if DIR_Name fat1.fat_buffer item 0 ≠ DIRITEM_NAME_FREE ∧
              (type = .FILE_NORMAL ∨ type = .FILE_DIR) then
            some (0, fat1, { dir with index := int_wrap (dir.index + 1) },
              { d with index := dir.index, type := diritem_get_type fat1.fat_buffer item,
                       size := int32 (DIR_FileSize fat1.fat_buffer item),
                       name := diritem_get_name fat1.fat_buffer item d.name 0 })
          else fatfs_readdir fuel fat1 { dir with index := int_wrap (dir.index + 1) } d
    else some (-1, fat, dir, d)

/-- The function `fatfs_opendir`. -/
def fatfs_opendir (dir : DIR) : Int × DIR := (0, { dir with index := 0 })

/-- The results of `n` successive calls of `fatfs_readdir`, each with the
iterator and the record the call before left: the value returned and the
record. -/
def readdir_calls (fuel : Nat) : Nat → fat_t → DIR → dirent → List (Int × dirent)
  | 0, _, _, _ => []
  | n + 1, fat, dir, d =>
    match fatfs_readdir fuel fat dir d with
    | none => []
    | some r => (r.1, r.2.2.2) :: readdir_calls fuel n r.2.1 r.2.2.1 r.2.2.2

/-- Address on the disk of the entry `i` of the root directory. -/
def root_entry_addr (fat : fat_t) (i : Nat) : Nat := fat.root_start * 512 + i * 32

/-- The first name byte of the entry `i` of the root directory is 0x00. -/
def root_entry_end (fat : fat_t) (i : Nat) : Bool :=
  DIR_Name fat.dev.bytes (root_entry_addr fat i) 0 == 0x00

/-- The first name byte of the entry `i` of the root directory is not 0xE5
and its attributes carry none of volume-id, hidden and system. -/
def root_entry_listed (fat : fat_t) (i : Nat) : Bool :=
  DIR_Name fat.dev.bytes (root_entry_addr fat i) 0 != 0xE5 &&
  DIR_Attr fat.dev.bytes (root_entry_addr fat i) &&& (0x08 ||| 0x02 ||| 0x04) == 0

/-- The indices of the entries of the root directory that lie before the
first entry whose first name byte is 0x00 and are listed, in index order. -/
def root_listing (fat : fat_t) : List Nat :=
  ((List.range fat.root_ent_cnt).takeWhile (fun i => !root_entry_end fat i)).filter
    (root_entry_listed fat)

/-- What a record yielded for the entry `i` of the root directory is to
carry: the index, the type (directory or regular) and `DIR_FileSize` as the
`int` it is stored in. -/
def root_entry_view (fat : fat_t) (i : Nat) : Int × file_type_t × Int :=
  ((i : Int),
   if DIR_Attr fat.dev.bytes (root_entry_addr fat i) &&& 0x10 ≠ 0 then .FILE_DIR
   else .FILE_NORMAL,
   int32 (DIR_FileSize fat.dev.bytes (root_entry_addr fat i)))

/-! ### Reference counts of the file records -/

section refcount

variable {σ : Type}

/-- The task blocks of the kernel: the two blocks of the task manager and
the blocks of `task_table`. -/
def all_tasks : List task_ptr :=
  .first_task :: .idle_task :: (List.range TASK_NR).map .slot

/-- Number of the slots of the descriptor table of a task that point to the
file record `p`. -/
def fd_count (t : task_t) (p : Nat) : Nat :=
  ((List.range TASK_OFILE_NR).map (fun fd => if t.file_table fd = some p then 1 else 0)).sum

/-- Number of the descriptor-table slots, over all tasks, that point to the
file record `p`. -/
def slot_count (k : kernel σ) (p : Nat) : Nat :=
  (all_tasks.map (fun t => fd_count (task_get k t) p)).sum

/-- The reference count of every file record is the number of the
descriptor-table slots that point to it. -/
def ref_ok (k : kernel σ) : Prop := ∀ p, (k.files p).ref = (slot_count k p : Int)

/-- Two states with the same file records and the same descriptor tables. -/
def same_files (k k1 : kernel σ) : Prop :=
  k1.files = k.files ∧ ∀ t, (task_get k1 t).file_table = (task_get k t).file_table

end refcount

/-! ### The scheduler with its mutexes and semaphores -/

/-- The state of the scheduler together with the mutexes and the semaphores
of the kernel. -/
structure sched_t (σ : Type) where
  k : kernel σ
  mutexes : List mutex_t
  sems : List sem_t

/-- The events that drive the scheduler: the timer interrupt, the system
calls of `task.c`, and the calls on the mutex or the semaphore with a given
index. -/
inductive sched_call
  | time_tick
  | sys_yield
  | sys_msleep (ms : Nat)
  | mutex_lock (i : Nat)
  | mutex_unlock (i : Nat)
  | sem_wait (i : Nat)
  | sem_notify (i : Nat)
  | sys_wait
  | sys_exit (status : Int)
  | sys_fork (env : fork_env)

section sched_run

variable {σ : Type}

def idle_task_name : List Nat := [105, 100, 108, 101, 32, 116, 97, 115, 107]
def first_task_name : List Nat := [102, 105, 114, 115, 116, 32, 116, 97, 115, 107]

/-- The function `task_manager_init`.  `data_sel` and `code_sel` are the
selectors `gdt_alloc_desc` returns for the two application segments, `env`
holds what the allocators return to the `task_init` of the idle task, and
`idle_entry` is the address of `idle_task_entry`.  The descriptor table of
the processor is outside this state. -/
def task_manager_init (k : kernel σ) (env : fork_env) (data_sel code_sel idle_entry : Nat) :
    kernel σ :=
  let k0 : kernel σ := { k with task_table := fun _ => task_zero }
  let k1 : kernel σ :=
    { k0 with task_manager :=
        { k0.task_manager with app_data_sel := data_sel, app_code_sel := code_sel,
                               ready_list := [], task_list := [], sleep_list := [] } }
  let r := task_init k1 env .idle_task idle_task_name TASK_FLAG_SYSTEM idle_entry 0
  let k2 : kernel σ := { r.2 with task_manager := { r.2.task_manager with curr_task := .null } }
  task_start k2 .idle_task

/-- The function `task_first_init`.  `first_start` is the address of
`first_task_entry` and `e_first_task` the end of the image of the first
task; the pages of the image are outside this state. -/
def task_first_init (k : kernel σ) (env : fork_env) (first_start e_first_task : Nat) :
    kernel σ :=
  let alloc_size := 10 * MEM_PAGE_SIZE
  let r := task_init k env .first_task first_task_name 0 first_start
    ((first_start + alloc_size) % 2 ^ 32)
  let t := task_get r.2 .first_task
  let k1 := task_put r.2 .first_task
    { t with heap_start := e_first_task, heap_end := e_first_task }
  let k2 : kernel σ := { k1 with task_manager := { k1.task_manager with curr_task := .first_task } }
  task_start k2 .first_task

/-- One event of the scheduler.  A call on a mutex or a semaphore that does
not exist changes nothing. -/
def sched_step (op : fs_op_t σ) (s : sched_t σ) : sched_call → sched_t σ
  | .time_tick => { s with k := task_time_tick s.k }
  | .sys_yield => { s with k := (sys_yield s.k).2 }
  | .sys_msleep ms => { s with k := sys_msleep s.k ms }
  | .mutex_lock i =>
    match s.mutexes.get? i with
    | some m => { s with k := (mutex_lock s.k m).1, mutexes := s.mutexes.set i (mutex_lock s.k m).2 }
    | none => s
  | .mutex_unlock i =>
    match s.mutexes.get? i with
    | some m =>
      { s with k := (mutex_unlock s.k m).1, mutexes := s.mutexes.set i (mutex_unlock s.k m).2 }
    | none => s
  | .sem_wait i =>
    match s.sems.get? i with
    | some m => { s with k := (sem_wait s.k m).1, sems := s.sems.set i (sem_wait s.k m).2 }
    | none => s
  | .sem_notify i =>
    match s.sems.get? i with
    | some m => { s with k := (sem_notify s.k m).1, sems := s.sems.set i (sem_notify s.k m).2 }
    | none => s
  | .sys_wait => { s with k := (sys_wait s.k).2 }
  | .sys_exit status => { s with k := sys_exit op s.k status }
  | .sys_fork env => { s with k := (sys_fork s.k env).2 }

/-- The idle task, whose code is a loop around `hlt`, does not call
`sys_fork`. -/
def sched_call_ok (s : sched_t σ) : sched_call → Prop
  | .sys_fork _ => task_current s.k ≠ .idle_task
  | _ => True

/-- The state after a sequence of events. -/
def sched_run (op : fs_op_t σ) (s : sched_t σ) : List sched_call → sched_t σ
  | [] => s
  | c :: rest => sched_run op (sched_step op s c) rest

/-- Every event of the sequence is one that can occur in the state it
occurs in. -/
def sched_calls_ok (op : fs_op_t σ) (s : sched_t σ) : List sched_call → Prop
  | [] => True
  | c :: rest => sched_call_ok s c ∧ sched_calls_ok op (sched_step op s c) rest

/-- The state after the initialisation: `task_manager_init`,
`task_first_init`, and the `mutex_init` and `sem_init` of the mutexes and
the semaphores. -/
def sched_init (k : kernel σ) (env0 env1 : fork_env)
    (data_sel code_sel idle_entry first_start e_first_task : Nat)
    (mutexes : List mutex_t) (sems : List (sem_t × Int)) : sched_t σ :=
  { k := task_first_init (task_manager_init k env0 data_sel code_sel idle_entry) env1
      first_start e_first_task,
    mutexes := mutexes.map mutex_init,
    sems := sems.map (fun x => sem_init x.1 x.2) }

/-- Number of the wait lists of mutexes and semaphores the task is on,
counted with repetition. -/
def wait_count (s : sched_t σ) (t : task_ptr) : Nat :=
  (s.mutexes.map (fun m => m.wait_list.count t)).sum +
  (s.sems.map (fun m => m.wait_list.count t)).sum

/-- Number of the conditions that keep a task block off every list: the
task waits for a child, it is a zombie, or the block is free (its name is
empty). -/
def state_flags (t : task_t) : Nat :=
  (if t.state = .TASK_WAITING then 1 else 0) + (if t.state = .TASK_ZOMBIE then 1 else 0) +
  (if t.name = [] then 1 else 0)

/-- Number of the places a task is in, as far as the task manager goes: the
ready list, the sleep list and the conditions of `state_flags`. -/
def kernel_places (k : kernel σ) (t : task_ptr) : Nat :=
  k.task_manager.ready_list.count t + k.task_manager.sleep_list.count t +
  state_flags (task_get k t)

/-- Two states of the task manager with the same ready list, sleep list and
current task, in which every task has the same flags. -/
def same_places (k k1 : kernel σ) : Prop :=
  k1.task_manager.ready_list = k.task_manager.ready_list ∧
  k1.task_manager.sleep_list = k.task_manager.sleep_list ∧
  task_current k1 = task_current k ∧
  ∀ t, state_flags (task_get k1 t) = state_flags (task_get k t)

/-- Number of the places a task is in. -/
def task_places (s : sched_t σ) (t : task_ptr) : Nat := kernel_places s.k t + wait_count s t

/-- The invariant of the scheduler: a task other than the idle task is in at
most one place, the idle task is not on the ready list, and the current
task is on the ready list or is the idle task. -/
def sched_inv (s : sched_t σ) : Prop :=
  (∀ t, t ≠ .idle_task → task_places s t ≤ 1) ∧
  .idle_task ∉ s.k.task_manager.ready_list ∧
  (task_current s.k ∈ s.k.task_manager.ready_list ∨ task_current s.k = .idle_task)

/-- The three properties of the lists of the scheduler: no task is on the
ready list and on the sleep list, no task is twice on the ready list, and the
idle task is not on the ready list. -/
def sched_lists_ok (s : sched_t σ) : Prop :=
  (∀ t, ¬ (t ∈ s.k.task_manager.ready_list ∧ t ∈ s.k.task_manager.sleep_list)) ∧
  s.k.task_manager.ready_list.Nodup ∧
  .idle_task ∉ s.k.task_manager.ready_list

end sched_run

/-! ### Freeing one page (`core/memory.c`) -/

/-- Modelled from the spec: `MEMORY_TASK_BASE` is defined in `core/memory.h`,
which is not part of the sources at hand.  It is the fixed boundary at which
the user window of an address space starts; the kernel window lies below
it. -/
def MEMORY_TASK_BASE : Nat := 0x80000000

section free_page
variable {σ : Type}

/-- The function `current_page_dir`. -/
def current_page_dir (k : kernel σ) : Nat := (task_get k (task_current k)).tss.cr3

/-- The function `memory_free_page`.  The assertion of the user branch is
`ASSERT((pte == (pte_t *)0) && pte->present)`: for a pointer that is not
null its first operand is false; for the null pointer `pte->present` is
read from, and `pte->v = 0` written to, address 0. -/
def memory_free_page (k : kernel σ) (m : mem_t) (addr : Nat) : result_t mem_t :=
  if addr < MEMORY_TASK_BASE then
    .done { m with paddr_alloc := addr_free_page m.paddr_alloc addr 1 }
  else
    match find_pte 0 m (current_page_dir k) addr 0 with
    | none => .out_of_fuel
    | some (some _, _) => .halted
    | some (none, m1) =>
      if entry_present (m1.pmem 0) ≠ 0 then
        .done { paddr_alloc := addr_free_page m1.paddr_alloc (pte_paddr (m1.pmem 0)) 1,
                pmem := fun a => if a = 0 then 0 else m1.pmem a }
      else .halted

end free_page

/-! ### C strings -/

/-- The characters of the C string at address `off` of `b`, looked for in
the first `n` bytes: the bytes before the first 0 byte. -/
def c_string (b : bytes_t) (off n : Nat) : List Nat :=
  ((List.range n).map (fun i => b (off + i))).takeWhile (fun c => c ≠ 0)

/-! ### Following the cluster chain -/

/-- The cluster reached from the cluster `c` by following `cluster_get_next`
`n` times, with the state the driver is left in. -/
def cluster_walk (fat : fat_t) (c : Nat) : Nat → Nat × fat_t
  | 0 => (c, fat)
  | n + 1 => cluster_get_next (cluster_walk fat c n).2 (cluster_walk fat c n).1

/-! ### The device file system (`fs/devfs/devfs.c`, `fs/fs.c`) -/

/-- The device type `DEV_TTY` (`dev/dev.h`). -/
def DEV_TTY : Int := 1

/-- Modelled from the spec: `kernel_strlen` lives in `tools/klib.c`, which
is not part of the sources at hand.  It is the length of the C string; a
string is held as the list of its characters. -/
def kernel_strlen (s : List Nat) : Nat := s.length

/-- Modelled from the spec: `kernel_strncmp` lives in `tools/klib.c`, which
is not part of the sources at hand.  It returns 0 when the two strings agree
on their first `size` characters (or up to their common end). -/
def kernel_strncmp (s1 s2 : List Nat) (size : Nat) : Int :=
  if s1.take size = s2.take size then 0 else 1

/-- The value of a `char` that holds the byte `c`. -/
def char_val (c : Nat) : Int := if c % 256 < 128 then (c % 256 : Nat) else (c % 256 : Nat) - 256

/-- The loop of `path_to_num`: `n` after the characters of `c`; the loop
stops at the end of the string and at a `/`. -/
def path_to_num_loop : List Nat → Int → Int
  | [], n => n
  | c :: rest, n =>
    if c ≠ 0 ∧ c ≠ 47 then path_to_num_loop rest (int_wrap (n * 10 + char_val c - 48))
    else n

/-- The function `path_to_num`: the value returned and the value stored to
`*num`. -/
def path_to_num (path : List Nat) : Int × Int := (0, path_to_num_loop path 0)

/-- The record `devfs_type_t` (`fs/devfs/devfs.h`). -/
structure devfs_type_t where
  name : List Nat
  dev_type : Int
  file_type : file_type_t

/-- The table `devfs_type_list` of `devfs.c`: the one entry `tty`. -/
def devfs_type_list : List devfs_type_t :=
  [{ name := [116, 116, 121], dev_type := DEV_TTY, file_type := .FILE_TTY }]

section devfs
variable {σ : Type}

/-- The loop of `devfs_open` over the entries of the table that are left.
`dev_open major minor s` is the call `dev_open(major, minor, 0)` on the state
`s` of the devices (`dev/dev.c` is not part of the sources at hand), and
`minor0` is the value that the local variable `minor`, which is declared
without an initialiser, holds when `path_to_num` is not called. -/
def devfs_open_loop (dev_open : Int → Int → σ → Int × σ) (minor0 : Int) (fs : Nat)
    (path : List Nat) (file : file_t) (s : σ) : List devfs_type_t → Int × file_t × σ
  | [] => (-1, file, s)
  | type :: rest =>
    let type_name_len := kernel_strlen type.name
    if kernel_strncmp path type.name type_name_len = 0 then
      if kernel_strlen path > type_name_len ∧
          (path_to_num (path.drop type_name_len)).1 < 0 then (-1, file, s)
      else
        let minor :=
          if kernel_strlen path > type_name_len then (path_to_num (path.drop type_name_len)).2
          else minor0
        let d := dev_open type.dev_type minor s
        if d.1 < 0 then (-1, file, d.2)
        else (0, { file with dev_id := d.1, fs := fs, pos := 0, size := 0,
                             type := type.file_type }, d.2)
    else devfs_open_loop dev_open minor0 fs path file s rest

/-- The function `devfs_open`. -/
def devfs_open (dev_open : Int → Int → σ → Int × σ) (minor0 : Int) (fs : Nat)
    (path : List Nat) (file : file_t) (s : σ) : Int × file_t × σ :=
  devfs_open_loop dev_open minor0 fs path file s devfs_type_list

/-- What `devfs_open` does once it has settled on the minor number `minor`
of a tty: the tty is opened with `dev_open(DEV_TTY, minor, 0)` and, when that
succeeds, the file record is filled in. -/
def devfs_open_tty (dev_open : Int → Int → σ → Int × σ) (fs : Nat) (file : file_t) (s : σ)
    (minor : Int) : Int × file_t × σ :=
  if (dev_open DEV_TTY minor s).1 < 0 then (-1, file, (dev_open DEV_TTY minor s).2)
  else (0, { file with dev_id := (dev_open DEV_TTY minor s).1, fs := fs, pos := 0, size := 0,
                       type := .FILE_TTY }, (dev_open DEV_TTY minor s).2)

end devfs

/-! ### Loading a program (`core/task.c`) -/

/-- Modelled from the spec: the ELF types and constants are declared in a
header that is not part of the sources at hand (`core/task.c` uses
`Elf32_Ehdr`, `Elf32_Phdr`, `ELF_MAGIC`, `ET_EXEC`, `ET_386` and `PT_LOAD`).
They are those of the ELF format for 32-bit objects. -/
def ELF_MAGIC : Nat := 0x7F
def ET_EXEC : Nat := 2
def ET_386 : Nat := 3
def PT_LOAD : Nat := 1

/-- Modelled from the spec: the record `Elf32_Ehdr` of the ELF format, with
the fields that `load_elf_file` uses; its size is 52 bytes. -/
structure Elf32_Ehdr where
  e_ident : Nat → Nat
  e_type : Nat
  e_machine : Nat
  e_entry : Nat
  e_phoff : Nat
  e_phentsize : Nat
  e_phnum : Nat

/-- Modelled from the spec: the record `Elf32_Phdr` of the ELF format, with
the fields that `load_elf_file` and `load_phdr` use; its size is 32 bytes. -/
structure Elf32_Phdr where
  p_type : Nat
  p_offset : Nat
  p_vaddr : Nat
  p_filesz : Nat
  p_memsz : Nat

/-- The `Elf32_Ehdr` stored at address `a` of the memory `b`: `e_ident` at
offset 0, `e_type` at 16, `e_machine` at 18, `e_entry` at 24, `e_phoff` at
28, `e_phentsize` at 42 and `e_phnum` at 44. -/
def read_ehdr (b : bytes_t) (a : Nat) : Elf32_Ehdr :=
  { e_ident := fun i => b (a + i) % 256, e_type := read16 b (a + 16),
    e_machine := read16 b (a + 18), e_entry := read32 b (a + 24),
    e_phoff := read32 b (a + 28), e_phentsize := read16 b (a + 42),
    e_phnum := read16 b (a + 44) }

/-- The `Elf32_Phdr` stored at address `a` of the memory `b`: `p_type` at
offset 0, `p_offset` at 4, `p_vaddr` at 8, `p_filesz` at 16 and `p_memsz` at
20. -/
def read_phdr (b : bytes_t) (a : Nat) : Elf32_Phdr :=
  { p_type := read32 b a, p_offset := read32 b (a + 4), p_vaddr := read32 b (a + 8),
    p_filesz := read32 b (a + 16), p_memsz := read32 b (a + 20) }

/-- What the loader calls: the operations table `op` of the file systems
and their `open` operation `fs_open` (as in `sys_open`), the mount table,
the memory `read_mem buf size file s pmem` that `op->read(buf, size, file)`
leaves when it is called in the state `s` with the memory `pmem`, and the
addresses of the local variables `elf_hdr` and `elf_phdr` of
`load_elf_file`.  In the memory of the loader (`pmem` of `mem_t`) the bytes
of the data a file operation stores are held one per address. -/
structure load_env (σ : Type) where
  op : fs_op_t σ
  fs_open : Nat → Option (List Nat) → file_t → σ → Int × file_t × σ
  mt : mount_table_t
  read_mem : Nat → Int → file_t → σ → (Nat → Nat) → (Nat → Nat)
  elf_hdr : Nat
  elf_phdr : Nat

section loader
variable {σ : Type}

/-- The function `sys_read` together with the memory it leaves: the result,
the kernel state and the memory. -/
def sys_read_mem (env : load_env σ) (k : kernel σ) (pmem : Nat → Nat) (file : Int) (ptr : Nat)
    (len : Int) : Int × kernel σ × (Nat → Nat) :=
  if is_fd_bad file ≠ 0 ∨ ptr = 0 ∨ len = 0 then (0, k, pmem)
  else
    match task_file k file with
    | none => (-1, k, pmem)
    | some p_file =>
      if (k.files p_file).mode = O_WRONLY then (-1, k, pmem)
      else
        ((op_done k p_file (env.op.read ptr len (k.files p_file) k.fs)).1,
         (op_done k p_file (env.op.read ptr len (k.files p_file) k.fs)).2,
         env.read_mem ptr len (k.files p_file) k.fs pmem)

/-- The `while` loop of `load_phdr`, for at most `fuel` turns (every turn
takes at least one byte off `size`): the result of `load_phdr` and the
state. -/
def load_phdr_loop (env : load_env σ) (file : Int) (page_dir : Nat) :
    Nat → Nat → Nat → kernel σ → mem_t → Int × kernel σ × mem_t
  | 0, _, _, k, m => (0, k, m)
  | fuel + 1, vaddr, size, k, m =>
    if size > 0 then
      let curr_size := if size > MEM_PAGE_SIZE then MEM_PAGE_SIZE else size
      let paddr := (memory_get_paddr m page_dir vaddr).getD 0
      let r := sys_read_mem env k m.pmem file paddr (curr_size : Int)
      if r.1 < (curr_size : Int) then (-1, r.2.1, { m with pmem := r.2.2 })
      else
        load_phdr_loop env file page_dir fuel ((vaddr + curr_size) % 2 ^ 32) (size - curr_size)
          r.2.1 { m with pmem := r.2.2 }
    else (0, k, m)

/-- The function `load_phdr`; `fuel` bounds the scans of the bitmap. -/
def load_phdr (fuel : Nat) (env : load_env σ) (k : kernel σ) (m : mem_t) (file : Int)
    (phdr : Elf32_Phdr) (page_dir : Nat) : result_t (Int × kernel σ × mem_t) :=
  if phdr.p_vaddr &&& (MEM_PAGE_SIZE - 1) ≠ 0 then .halted
  else
    match memory_alloc_for_page_dir fuel m page_dir phdr.p_vaddr phdr.p_memsz
        (PTE_P ||| PTE_U ||| PTE_W) with
    | .out_of_fuel => .out_of_fuel
    | .halted => .halted
    | .done (err, m1) =>
      if int32 err < 0 then .done (-1, k, m1)
      else
        let s := sys_lseek env.op k file (int32 phdr.p_offset) 0
        if s.1 < 0 then .done (-1, s.2, m1)
        else .done (load_phdr_loop env file page_dir phdr.p_filesz phdr.p_vaddr phdr.p_filesz
          s.2 m1)

/-- The `for` loop of `load_elf_file` over the `n` program headers that are
left, the next of them at the file offset `e_phoff`: `true` when the loop
has run to its end, `false` for `goto load_failed`.  The count `cnt` of
`sys_read` is compared with `sizeof(Elf32_Phdr)` as an unsigned number. -/
def load_elf_loop (fuel : Nat) (env : load_env σ) (file : Int) (task : task_ptr)
    (page_dir e_phentsize : Nat) :
    Nat → Nat → kernel σ → mem_t → result_t (Bool × kernel σ × mem_t)
  | 0, _, k, m => .done (true, k, m)
  | n + 1, e_phoff, k, m =>
    let s := sys_lseek env.op k file (int32 e_phoff) 0
    if s.1 < 0 then .done (false, s.2, m)
    else
      let r := sys_read_mem env s.2 m.pmem file env.elf_phdr 32
      let m0 : mem_t := { m with pmem := r.2.2 }
      if uint32 r.1 < 32 then .done (false, r.2.1, m0)
      else
        let elf_phdr := read_phdr r.2.2 env.elf_phdr
        if elf_phdr.p_type ≠ PT_LOAD ∨ elf_phdr.p_vaddr < MEMORY_TASK_BASE then
          load_elf_loop fuel env file task page_dir e_phentsize n
            ((e_phoff + e_phentsize) % 2 ^ 32) r.2.1 m0
        else
          match load_phdr fuel env r.2.1 m0 file elf_phdr page_dir with
          | .out_of_fuel => .out_of_fuel
          | .halted => .halted
          | .done (err, k1, m1) =>
            if err < 0 then .done (false, k1, m1)
            else
              let heap := (elf_phdr.p_vaddr + elf_phdr.p_memsz) % 2 ^ 32
              load_elf_loop fuel env file task page_dir e_phentsize n
                ((e_phoff + e_phentsize) % 2 ^ 32)
                (task_put k1 task { task_get k1 task with heap_start := heap, heap_end := heap })
                m1

/-- The function `load_elf_file`: the entry address returned (0 on
failure) and the state.  `fuel` bounds the scans of the bitmap. -/
def load_elf_file (fuel : Nat) (env : load_env σ) (k : kernel σ) (m : mem_t) (task : task_ptr)
    (name : List Nat) (page_dir : Nat) : result_t (Nat × kernel σ × mem_t) :=
  let o := sys_open env.fs_open k env.mt name 0
  let file := o.1
  let failed (k1 : kernel σ) (m1 : mem_t) : result_t (Nat × kernel σ × mem_t) :=
    .done (0, if file ≥ 0 then (sys_close env.op k1 file).2 else k1, m1)
  if file < 0 then failed o.2 m
  else
    let r := sys_read_mem env o.2 m.pmem file env.elf_hdr 52
    let m0 : mem_t := { m with pmem := r.2.2 }
    let elf_hdr := read_ehdr r.2.2 env.elf_hdr
    if uint32 r.1 < 52 then failed r.2.1 m0
    else if elf_hdr.e_ident 0 ≠ ELF_MAGIC ∨ elf_hdr.e_ident 1 ≠ 69 ∨ elf_hdr.e_ident 2 ≠ 76 ∨
        elf_hdr.e_ident 3 ≠ 70 then failed r.2.1 m0
    else if elf_hdr.e_type ≠ ET_EXEC ∨ elf_hdr.e_machine ≠ ET_386 ∨ elf_hdr.e_entry = 0 then
      failed r.2.1 m0
    else if elf_hdr.e_phentsize = 0 ∨ elf_hdr.e_phoff = 0 then failed r.2.1 m0
    else
      match load_elf_loop fuel env file task page_dir elf_hdr.e_phentsize elf_hdr.e_phnum
          elf_hdr.e_phoff r.2.1 m0 with
      | .out_of_fuel => .out_of_fuel
      | .halted => .halted
      | .done (ok, k1, m1) =>
        if ok then .done (elf_hdr.e_entry, (sys_close env.op k1 file).2, m1)
        else failed k1 m1

end loader

/-! ### Copying an address space (`memory_copy_uvm`) -/

/-- The constant `PDE_CNT` of `cpu/mmu.h`. -/
def PDE_CNT : Nat := 1024

/-- The constant `PTE_CNT` of `cpu/mmu.h`. -/
def PTE_CNT : Nat := 1024

/-- The function `get_pte_perm` on an entry with value `v`. -/
def get_pte_perm (v : Nat) : Nat := v &&& 0x1FF

/-- The function `memory_create_uvm`: the address of the new directory (0
on failure) and the state; `none` when the scan of the bitmap runs out of
fuel.  `kernel_page_dir` is the address of the static array of that name. -/
def memory_create_uvm (fuel : Nat) (m : mem_t) (kernel_page_dir : Nat) : Option (Nat × mem_t) :=
  match addr_alloc_page fuel m.paddr_alloc 1 with
  | none => none
  | some (page_dir, alloc1) =>
    if page_dir = 0 then some (0, { m with paddr_alloc := alloc1 })
    else
      let pm0 : Nat → Nat :=
        fun a => if page_dir ≤ a ∧ a < page_dir + MEM_PAGE_SIZE then 0 else m.pmem a
      some (page_dir,
        { paddr_alloc := alloc1,
          pmem := (List.range (pde_index MEMORY_TASK_BASE)).foldl
            (fun pm i => fun a => if a = page_dir + 4 * i then pm (kernel_page_dir + 4 * i)
                                  else pm a) pm0 })

/-- The inner loop of `memory_destroy_uvm` over the `n` entries from `j` on
of the page table at `pt`. -/
def destroy_uvm_table (pmem : Nat → Nat) (pt : Nat) : Nat → Nat → addr_alloc_t → addr_alloc_t
  | 0, _, alloc => alloc
  | n + 1, j, alloc =>
    if entry_present (pmem (pt + 4 * j)) = 0 then destroy_uvm_table pmem pt n (j + 1) alloc
    else destroy_uvm_table pmem pt n (j + 1) (addr_free_page alloc (pte_paddr (pmem (pt + 4 * j))) 1)

/-- The outer loop of `memory_destroy_uvm` over the `n` directory entries
from `i` on. -/
def destroy_uvm_dirs (pmem : Nat → Nat) (page_dir : Nat) : Nat → Nat → addr_alloc_t → addr_alloc_t
  | 0, _, alloc => alloc
  | n + 1, i, alloc =>
    if entry_present (pmem (page_dir + 4 * i)) = 0 then
      destroy_uvm_dirs pmem page_dir n (i + 1) alloc
    else
      destroy_uvm_dirs pmem page_dir n (i + 1)
        (addr_free_page
          (destroy_uvm_table pmem (pde_paddr (pmem (page_dir + 4 * i))) PTE_CNT 0 alloc)
          (pde_paddr (pmem (page_dir + 4 * i))) 1)

/-- The function `memory_destroy_uvm`. -/
def memory_destroy_uvm (m : mem_t) (page_dir : Nat) : result_t mem_t :=
  if page_dir = 0 then .halted
  else
    let alloc1 := destroy_uvm_dirs m.pmem page_dir (PDE_CNT - pde_index MEMORY_TASK_BASE)
      (pde_index MEMORY_TASK_BASE) m.paddr_alloc
    .done { m with paddr_alloc := addr_free_page alloc1 page_dir 1 }

/-- The physical address that the paging unit of the processor translates
the virtual address `vaddr` to when `cr3` is the page directory in use and
the page is present: the frame of the table entry plus the offset in the
page. -/
def mmu_paddr (pmem : Nat → Nat) (cr3 vaddr : Nat) : Nat :=
  pte_paddr (pmem (pde_paddr (pmem (cr3 + 4 * pde_index vaddr)) + 4 * pte_index vaddr)) +
    vaddr % MEM_PAGE_SIZE

/-- The inner loop of `memory_copy_uvm` over the `n` entries from `j` on of
the source page table at `pt`, which belongs to the directory entry `i`:
`true` when the loop has run to its end, `false` for `goto copy_uvm_failed`.
`cr3` is the page directory in use while the function runs: `kernel_memcpy`
reads the source page through the virtual address `vaddr`, and it writes the
new page through its physical address, which the kernel maps one to one. -/
def copy_uvm_table (fuel cr3 to_page_dir pt i : Nat) :
    Nat → Nat → mem_t → result_t (Bool × mem_t)
  | 0, _, m => .done (true, m)
  | n + 1, j, m =>
    if entry_present (m.pmem (pt + 4 * j)) = 0 then
      copy_uvm_table fuel cr3 to_page_dir pt i n (j + 1) m
    else
      match addr_alloc_page fuel m.paddr_alloc 1 with
      | none => .out_of_fuel
      | some (page, alloc1) =>
        if page = 0 then .done (false, { m with paddr_alloc := alloc1 })
        else
          let vaddr := ((i <<< 22) ||| (j <<< 12)) % 2 ^ 32
          match memory_create_map fuel { m with paddr_alloc := alloc1 } to_page_dir vaddr page 1
              (get_pte_perm (m.pmem (pt + 4 * j))) with
          | .out_of_fuel => .out_of_fuel
          | .halted => .halted
          | .done (err, m1) =>
            if err < 0 then .done (false, m1)
            else
              copy_uvm_table fuel cr3 to_page_dir pt i n (j + 1)
                { m1 with pmem := fun a =>
                    if page ≤ a ∧ a < page + MEM_PAGE_SIZE then
                      m1.pmem (mmu_paddr m1.pmem cr3 (vaddr + (a - page)))
                    else m1.pmem a }

/-- The outer loop of `memory_copy_uvm` over the `n` directory entries from
`i` on of the source directory. -/
def copy_uvm_dirs (fuel cr3 page_dir to_page_dir : Nat) :
    Nat → Nat → mem_t → result_t (Bool × mem_t)
  | 0, _, m => .done (true, m)
  | n + 1, i, m =>
    if entry_present (m.pmem (page_dir + 4 * i)) = 0 then
      copy_uvm_dirs fuel cr3 page_dir to_page_dir n (i + 1) m
    else
      match copy_uvm_table fuel cr3 to_page_dir (pde_paddr (m.pmem (page_dir + 4 * i))) i
          PTE_CNT 0 m with
      | .out_of_fuel => .out_of_fuel
      | .halted => .halted
      | .done (ok, m1) =>
        if ok then copy_uvm_dirs fuel cr3 page_dir to_page_dir n (i + 1) m1
        else .done (false, m1)

/-- The function `memory_copy_uvm`: the address of the new directory, or
`0xFFFFFFFF` (the `-1` of the failure path), and the state. -/
def memory_copy_uvm (fuel : Nat) (m : mem_t) (kernel_page_dir cr3 page_dir : Nat) :
    result_t (Nat × mem_t) :=
  match memory_create_uvm fuel m kernel_page_dir with
  | none => .out_of_fuel
  | some (to_page_dir, m1) =>
    if to_page_dir = 0 then .done (0xFFFFFFFF, m1)
    else
      match copy_uvm_dirs fuel cr3 page_dir to_page_dir
          (PDE_CNT - pde_index MEMORY_TASK_BASE) (pde_index MEMORY_TASK_BASE) m1 with
      | .out_of_fuel => .out_of_fuel
      | .halted => .halted
      | .done (ok, m2) =>
        if ok then .done (to_page_dir, m2)
        else
          match memory_destroy_uvm m2 to_page_dir with
          | .done m3 => .done (0xFFFFFFFF, m3)
          | .halted => .halted
          | .out_of_fuel => .out_of_fuel

/-- What a program sees at the user address `vaddr` through the page
directory `dir`: nothing when the page is not present, else the permission
bits of the table entry (`get_pte_perm`) and the value stored at the address
in the frame. -/
def uvm_view (pmem : Nat → Nat) (dir vaddr : Nat) : Option (Nat × Nat) :=
  if entry_present (pmem (dir + 4 * pde_index vaddr)) = 1 ∧
      entry_present
        (pmem (pde_paddr (pmem (dir + 4 * pde_index vaddr)) + 4 * pte_index vaddr)) = 1 then
    some (get_pte_perm (pmem (pde_paddr (pmem (dir + 4 * pde_index vaddr)) + 4 * pte_index vaddr)),
      pmem (mmu_paddr pmem dir vaddr))
  else none

/-- The frame that the page of `vaddr` is mapped to by the directory `dir`. -/
def uvm_frame (pmem : Nat → Nat) (dir vaddr : Nat) : Nat :=
  pte_paddr (pmem (pde_paddr (pmem (dir + 4 * pde_index vaddr)) + 4 * pte_index vaddr))

/-- The pages that the user window of the directory `dir` consists of are
not free in the allocator `alloc`: the directory, which is page aligned, the
page tables of its present entries from `MEMORY_TASK_BASE` on, and the frames
of the present entries of these tables. -/
structure uvm_owned (alloc : addr_alloc_t) (pmem : Nat → Nat) (dir : Nat) : Prop where
  dir_aligned : dir % 4096 = 0
  dir_used : ¬ frame_free alloc dir
  table_used : ∀ d, 512 ≤ d → d < 1024 → entry_present (pmem (dir + 4 * d)) = 1 →
    ¬ frame_free alloc (pde_paddr (pmem (dir + 4 * d)))
  frame_used : ∀ d t, 512 ≤ d → d < 1024 → t < 1024 →
    entry_present (pmem (dir + 4 * d)) = 1 →
    entry_present (pmem (pde_paddr (pmem (dir + 4 * d)) + 4 * t)) = 1 →
    ¬ frame_free alloc (pte_paddr (pmem (pde_paddr (pmem (dir + 4 * d)) + 4 * t)))

/-- The outcome of `memory_copy_uvm` is a success: the directory returned
and the state, or `none` for every other outcome. -/
def copy_uvm_result (r : result_t (Nat × mem_t)) : Option (Nat × mem_t) :=
  match r with
  | .done (dir, m) => if dir = 0xFFFFFFFF then none else some (dir, m)
  | _ => none

/-- The entry `d` of the page directory at `dir`. -/
def pde_at (pmem : Nat → Nat) (dir d : Nat) : Nat := pmem (dir + 4 * d)

/-- The entry `t` of the page table that the entry `d` of the page directory
at `dir` points to. -/
def pte_at (pmem : Nat → Nat) (dir d t : Nat) : Nat :=
  pmem (pde_paddr (pmem (dir + 4 * d)) + 4 * t)

/-- The page with the directory index `d` and the table index `t` is present
in the directory at `dir`. -/
def mapped_at (pmem : Nat → Nat) (dir d t : Nat) : Prop :=
  entry_present (pde_at pmem dir d) = 1 ∧ entry_present (pte_at pmem dir d t) = 1

/-- What `memory_create_map` of the page `(i, j)` to an entry `w` has done to
a directory `dir` whose page was not mapped, from the state `m` to the state
`m1`: the directory entry `i` is present, either as before or with a page
table that was free; the table entry `j` is `w`; the other entries of that
table are as before, or 0 in a new table; the other directory entries and
the memory outside the table are as before. -/
structure map_step (m m1 : mem_t) (dir i j w : Nat) : Prop where
  wf : alloc_wf m1.paddr_alloc
  cnt : m1.paddr_alloc.bitmap.bit_count = m.paddr_alloc.bitmap.bit_count
  sub : ∀ q, frame_free m1.paddr_alloc q → frame_free m.paddr_alloc q
  pde_i : entry_present (pde_at m1.pmem dir i) = 1
  table : (entry_present (pde_at m.pmem dir i) = 1 ∧ pde_at m1.pmem dir i = pde_at m.pmem dir i ∧
      m1.paddr_alloc = m.paddr_alloc) ∨
    (entry_present (pde_at m.pmem dir i) ≠ 1 ∧
      frame_free m.paddr_alloc (pde_paddr (pde_at m1.pmem dir i)) ∧
      ¬ frame_free m1.paddr_alloc (pde_paddr (pde_at m1.pmem dir i)))
  pte_j : pte_at m1.pmem dir i j = w
  pte_other : ∀ t, t ≠ j → t < 1024 →
    pte_at m1.pmem dir i t =
      if entry_present (pde_at m.pmem dir i) = 1 then pte_at m.pmem dir i t else 0
  rest : ∀ a, a ≠ dir + 4 * i →
    ¬ (pde_paddr (pde_at m1.pmem dir i) ≤ a ∧ a < pde_paddr (pde_at m1.pmem dir i) + 4096) →
    m1.pmem a = m.pmem a

/-- The state of `memory_copy_uvm` in its loops, at the page with the number
`c` (1024 times the directory index plus the table index): `m0` is the state
at the call, `m` the state reached, `src` the source directory and `dst` the
new one.  The allocator is well formed and has handed out pages only; the
memory of the pages that were not free at the call is as it was; the new
directory, its page tables and the frames it maps were free at the call and
are in use now, and none of them is at once a table and a frame or the
directory; the pages in front of `c` are mapped as in the source, with the
same permission bits and contents; the pages from `c` on are not mapped
yet. -/
structure copy_inv (m0 m : mem_t) (src dst c : Nat) : Prop where
  wf : alloc_wf m.paddr_alloc
  cnt : m.paddr_alloc.bitmap.bit_count = m0.paddr_alloc.bitmap.bit_count
  sub : ∀ q, frame_free m.paddr_alloc q → frame_free m0.paddr_alloc q
  keep : ∀ a, ¬ frame_free m0.paddr_alloc (a / 4096 * 4096) → m.pmem a = m0.pmem a
  dir_aligned : dst % 4096 = 0
  dir_was_free : frame_free m0.paddr_alloc dst
  dir_used : ¬ frame_free m.paddr_alloc dst
  tab : ∀ d, 512 ≤ d → d < 1024 → entry_present (pde_at m.pmem dst d) = 1 →
    frame_free m0.paddr_alloc (pde_paddr (pde_at m.pmem dst d)) ∧
    ¬ frame_free m.paddr_alloc (pde_paddr (pde_at m.pmem dst d)) ∧
    pde_paddr (pde_at m.pmem dst d) ≠ dst
  tab_inj : ∀ d e, 512 ≤ d → d < 1024 → 512 ≤ e → e < 1024 →
    entry_present (pde_at m.pmem dst d) = 1 → entry_present (pde_at m.pmem dst e) = 1 →
    pde_paddr (pde_at m.pmem dst d) = pde_paddr (pde_at m.pmem dst e) → d = e
  leaf : ∀ d t, 512 ≤ d → d < 1024 → t < 1024 → mapped_at m.pmem dst d t →
    frame_free m0.paddr_alloc (pte_paddr (pte_at m.pmem dst d t)) ∧
    ¬ frame_free m.paddr_alloc (pte_paddr (pte_at m.pmem dst d t)) ∧
    pte_paddr (pte_at m.pmem dst d t) ≠ dst ∧
    ∀ e, 512 ≤ e → e < 1024 → entry_present (pde_at m.pmem dst e) = 1 →
      pte_paddr (pte_at m.pmem dst d t) ≠ pde_paddr (pde_at m.pmem dst e)
  done : ∀ d t, 512 ≤ d → d < 1024 → t < 1024 → d * 1024 + t < c →
    (mapped_at m.pmem dst d t ↔ mapped_at m0.pmem src d t) ∧
    (mapped_at m0.pmem src d t →
      get_pte_perm (pte_at m.pmem dst d t) = get_pte_perm (pte_at m0.pmem src d t) ∧
      ∀ o, o < 4096 →
        m.pmem (pte_paddr (pte_at m.pmem dst d t) + o) =
          m0.pmem (pte_paddr (pte_at m0.pmem src d t) + o))
  todo : ∀ d t, 512 ≤ d → d < 1024 → t < 1024 → c ≤ d * 1024 + t → ¬ mapped_at m.pmem dst d t

/-! ### The disk driver (`dev/disk.c`) -/

/-- The constant `DISK_CNT` of `dev/disk.h`. -/
def DISK_CNT : Nat := 2

/-- The constant `DISK_PRIMARY_PART_CNT` of `dev/disk.h`. -/
def DISK_PRIMARY_PART_CNT : Nat := 4 + 1

/-- The record `partinfo_t`, with the fields that `disk_open` and the
transfers use. -/
structure partinfo_t where
  start_sector : Int
  total_sector : Int
  deriving DecidableEq, Repr

/-- The record `disk_t`, with the fields that `disk_open` uses; `partinfo`
is the array of `DISK_PRIMARY_PART_CNT` records. -/
structure disk_t where
  sector_size : Int
  sector_count : Int
  partinfo : List partinfo_t
  deriving DecidableEq, Repr

/-- The function `disk_open` on the array `disk_buf` of `DISK_CNT` records:
the result and the pair of indexes that `dev->data` is made to point to.
`minor` is the `int` field `dev->minor`; for an `int` the shift `minor >> 4`
is the division by 16 rounded down and `minor & 0xF` the remainder of that
division.  `none` stands for an access outside `disk_buf` or outside the
array `partinfo` of a disk, which has no defined result. -/
def disk_open (disk_buf : List disk_t) (minor : Int) : Option (Int × Option (Nat × Nat)) :=
  let disk_idx := minor / 16 - 0xa
  let part_idx := minor % 16
  if disk_idx ≥ (DISK_CNT : Int) ∨ part_idx ≥ (DISK_PRIMARY_PART_CNT : Int) then some (-1, none)
  else
    match (if 0 ≤ disk_idx then disk_buf.get? disk_idx.toNat else none) with
    | none => none
    | some disk =>
      if disk.sector_size = 0 then some (-1, none)
      else
        match (if 0 ≤ part_idx then disk.partinfo.get? part_idx.toNat else none) with
        | none => none
        | some part_info =>
          if part_info.total_sector = 0 then some (-1, none)
          else some (0, some (disk_idx.toNat, part_idx.toNat))

/-! ### The descriptor table (`cpu/cpu.c`) and the resources of a process -/

/-- The constant `GDT_TABLE_SIZE` of `os_cfg.h`. -/
def GDT_TABLE_SIZE : Nat := 256

/-- Modelled from the spec: `cpu/cpu.h` is not part of the sources at hand;
bit 7 of the attribute word of a descriptor is its present bit. -/
def SEG_P_PRESENT : Nat := 1 <<< 7

/-- Modelled from the spec: `cpu/cpu.h` is not part of the sources at hand;
the bits 5 and 6 of the attribute word hold the privilege level, here 0. -/
def SEG_DPL0 : Nat := 0 <<< 5

/-- Modelled from the spec: `cpu/cpu.h` is not part of the sources at hand;
type 9 in the low bits of the attribute word is an available 32-bit task
state segment. -/
def SEG_TYPE_TSS : Nat := 9 <<< 0

/-- Modelled from the spec: `segment_desc_t` is declared in `cpu/cpu.h`,
which is not part of the sources at hand.  A descriptor has 8 bytes; this is
`sizeof(segment_desc_t)`. -/
def SEGMENT_DESC_SIZE : Nat := 8

/-- Modelled from the spec: `tss_t` is declared in `cpu/cpu.h`, which is not
part of the sources at hand.  The task state segment has 26 words; this is
`sizeof(tss_t)`. -/
def TSS_SIZE : Nat := 104

/-- The static `gdt_table` of `cpu.c`, as the field `attr` of each
descriptor; no other field of a descriptor is read by `cpu.c`. -/
abbrev gdt_t := Nat → Nat

/-- The function `segment_desc_set`, on the field `attr`; the argument
`attr` is a `uint16_t`.  The argument `base` goes to fields that are not
kept. -/
def segment_desc_set (gdt_table : gdt_t) (selector limit attr : Nat) : gdt_t :=
  let attr1 := if limit > 0xfffff then attr ||| 0x8000 else attr
  let limit1 := if limit > 0xfffff then limit / 0x1000 else limit
  fun i =>
    if i = selector >>> 3 then (attr1 ||| (((limit1 >>> 16) &&& 0xf) <<< 8)) % 2 ^ 16
    else gdt_table i

/-- The function `gdt_free_sel`. -/
def gdt_free_sel (gdt_table : gdt_t) (sel : Nat) : gdt_t :=
  fun i => if i = sel / SEGMENT_DESC_SIZE then 0 else gdt_table i

/-- The loop of `gdt_alloc_desc` over the `n` descriptors from `i` on: the
value of `i` when the loop is left. -/
def gdt_alloc_scan (gdt_table : gdt_t) : Nat → Nat → Nat
  | 0, i => i
  | n + 1, i => if gdt_table i = 0 then i else gdt_alloc_scan gdt_table n (i + 1)

/-- The function `gdt_alloc_desc`: the selector, or -1, and the table. -/
def gdt_alloc_desc (gdt_table : gdt_t) : Int × gdt_t :=
  let i := gdt_alloc_scan gdt_table (GDT_TABLE_SIZE - 1) 1
  if i ≥ GDT_TABLE_SIZE then (-1, gdt_table)
  else (((i * SEGMENT_DESC_SIZE : Nat) : Int),
    fun j => if j = i then SEG_P_PRESENT else gdt_table j)

/-- Number of descriptors that `gdt_alloc_desc` can hand out: the entries
from 1 on whose field `attr` is 0. -/
def gdt_free_count (gdt_table : gdt_t) : Nat :=
  (List.range GDT_TABLE_SIZE).countP (fun i => decide (1 ≤ i) && decide (gdt_table i = 0))

/-- The function `memory_alloc_page`; `none` when the scan of the bitmap
runs out of fuel. -/
def memory_alloc_page (fuel : Nat) (m : mem_t) : Option (Nat × mem_t) :=
  match addr_alloc_page fuel m.paddr_alloc 1 with
  | none => none
  | some (addr, alloc1) => some (addr, { m with paddr_alloc := alloc1 })

section proc_calls

variable {σ : Type}

/-- The calls that `tss_init` makes into `cpu.c` and `memory.c`, in the
order of the source: what `gdt_alloc_desc`, `memory_alloc_page` and
`memory_create_uvm` have returned (0 for a call that is not reached), and
the descriptor table and the memory when the function returns, with the
releases after `tss_init_failed`. -/
def tss_init_calls (fuel : Nat) (k : kernel σ) (gdt_table : gdt_t) (m : mem_t)
    (kernel_page_dir : Nat) : result_t ((Int × Nat × Nat) × gdt_t × mem_t) :=
  let a := gdt_alloc_desc gdt_table
  if a.1 < 0 then .done ((a.1, 0, 0), a.2, m)
  else
    let g1 := segment_desc_set a.2 a.1.toNat TSS_SIZE
      (SEG_P_PRESENT ||| SEG_DPL0 ||| SEG_TYPE_TSS)
    match memory_alloc_page fuel m with
    | none => .out_of_fuel
    | some (kernel_stack, m1) =>
      if kernel_stack = 0 then .done ((a.1, 0, 0), gdt_free_sel g1 a.1.toNat, m1)
      else
        match memory_create_uvm fuel m1 kernel_page_dir with
        | none => .out_of_fuel
        | some (page_dir, m2) =>
          if page_dir = 0 then
            match memory_free_page k m2 kernel_stack with
            | .done m3 => .done ((a.1, kernel_stack, 0), gdt_free_sel g1 a.1.toNat, m3)
            | .halted => .halted
            | .out_of_fuel => .out_of_fuel
          else .done ((a.1, kernel_stack, page_dir), g1, m2)

/-- The calls that `task_uninit` makes into `cpu.c` and `memory.c` for the
block of `task`: the descriptor table and the memory afterwards. -/
def task_uninit_calls (k : kernel σ) (gdt_table : gdt_t) (m : mem_t) (task : task_ptr) :
    result_t (gdt_t × mem_t) :=
  let t := task_get k task
  let g1 := if t.tss_sel ≠ 0 then gdt_free_sel gdt_table t.tss_sel else gdt_table
  let r1 :=
    if t.tss.esp0 ≠ 0 then
      memory_free_page k m ((t.tss.esp0 + 2 ^ 32 - MEM_PAGE_SIZE) % 2 ^ 32)
    else .done m
  match r1 with
  | .done m1 =>
    if t.tss.cr3 ≠ 0 then
      match memory_destroy_uvm m1 t.tss.cr3 with
      | .done m2 => .done (g1, m2)
      | .halted => .halted
      | .out_of_fuel => .out_of_fuel
    else .done (g1, m1)
  | .halted => .halted
  | .out_of_fuel => .out_of_fuel

/-- The function `sys_fork` together with the descriptor table and the
memory.  The calls into `cpu.c` and `memory.c` are made in the order of the
source, and what they return is the `fork_env` that `sys_fork` works with;
`frame` is the trap frame of the parent and `kernel_page_dir` the address of
the static array of that name.  The page directory in use is that of the
parent. -/
def sys_fork_calls (fuel : Nat) (k : kernel σ) (gdt_table : gdt_t) (m : mem_t)
    (kernel_page_dir : Nat) (frame : syscall_frame_t) :
    result_t (Int × kernel σ × gdt_t × mem_t) :=
  let parent_task := task_current k
  let child_task := alloc_task k
  if child_task = .null then .done (-1, k, gdt_table, m)
  else
    match tss_init_calls fuel k gdt_table m kernel_page_dir with
    | .halted => .halted
    | .out_of_fuel => .out_of_fuel
    | .done ((tss_sel, kernel_stack, page_dir), g1, m1) =>
      if tss_sel < 0 ∨ kernel_stack = 0 ∨ page_dir = 0 then
        let env : fork_env :=
          { frame := frame, gdt_alloc_desc := tss_sel, memory_alloc_page := kernel_stack,
            memory_create_uvm := page_dir, memory_copy_uvm := 0 }
        let r := task_init k env child_task (task_get k parent_task).name 0 frame.eip
          ((frame.esp + 4 * SYSCALL_PARAM_COUNT) % 2 ^ 32)
        match task_uninit_calls r.2 g1 m1 child_task with
        | .done (g2, m2) => .done ((sys_fork k env).1, (sys_fork k env).2, g2, m2)
        | .halted => .halted
        | .out_of_fuel => .out_of_fuel
      else
        match memory_copy_uvm fuel m1 kernel_page_dir (current_page_dir k)
            (task_get k parent_task).tss.cr3 with
        | .halted => .halted
        | .out_of_fuel => .out_of_fuel
        | .done (cr3, m2) =>
          let env : fork_env :=
            { frame := frame, gdt_alloc_desc := tss_sel, memory_alloc_page := kernel_stack,
              memory_create_uvm := page_dir, memory_copy_uvm := cr3 }
          .done ((sys_fork k env).1, (sys_fork k env).2, g1, m2)

/-- The calls that `sys_wait` makes into `memory.c` when it reaps a zombie
child: the memory afterwards.  The function makes no call into `cpu.c`. -/
def sys_wait_calls (k : kernel σ) (m : mem_t) : result_t mem_t :=
  match wait_scan k (task_current k) TASK_NR with
  | some (i, _, _) =>
    match memory_destroy_uvm m (k.task_table i).tss.cr3 with
    | .done m1 =>
      memory_free_page k m1 (((k.task_table i).tss.esp0 + 2 ^ 32 - MEM_PAGE_SIZE) % 2 ^ 32)
    | .halted => .halted
    | .out_of_fuel => .out_of_fuel
  | none => .done m

end proc_calls

/-! ### The pages of a loaded segment (`load_phdr`) -/

/-- The frame that the virtual page with the number `P` (the page at the
address `P * 4096`) is mapped to by the directory `dir`. -/
def seg_frame (pmem : Nat → Nat) (dir P : Nat) : Nat :=
  pte_paddr (pte_at pmem dir (P / 1024) (P % 1024))

/-- The state of `memory_alloc_for_page_dir` in its loop, after `c` pages
from the page number `V` on: `m0` is the state at the call, `m` the state
reached and `dir` the page directory.  The page structures satisfy
`paging_inv`; the allocator has handed out pages only; the memory outside
the directory page and the page tables is as it was at the call; each of the
`c` pages is mapped to a frame that was free at the call, is in use now and
is not a page table, and the frames of two pages differ. -/
structure seg_inv (m0 m : mem_t) (dir V c : Nat) : Prop where
  inv : paging_inv m dir
  cnt : m.paddr_alloc.bitmap.bit_count = m0.paddr_alloc.bitmap.bit_count
  sub : ∀ q, frame_free m.paddr_alloc q → frame_free m0.paddr_alloc q
  dir0 : ¬ frame_free m0.paddr_alloc dir
  keep : ∀ a, a / 4096 * 4096 ≠ dir →
    (∀ d, d < 1024 → entry_present (pde_at m.pmem dir d) = 1 →
      pde_paddr (pde_at m.pmem dir d) ≠ a / 4096 * 4096) → m.pmem a = m0.pmem a
  leaf : ∀ P, V ≤ P → P < V + c → mapped_at m.pmem dir (P / 1024) (P % 1024) ∧
    frame_free m0.paddr_alloc (seg_frame m.pmem dir P) ∧
    ¬ frame_free m.paddr_alloc (seg_frame m.pmem dir P) ∧
    ∀ d, d < 1024 → entry_present (pde_at m.pmem dir d) = 1 →
      pde_paddr (pde_at m.pmem dir d) ≠ seg_frame m.pmem dir P
  leaf_inj : ∀ P Q, V ≤ P → P < V + c → V ≤ Q → Q < V + c →
    seg_frame m.pmem dir P = seg_frame m.pmem dir Q → P = Q

/-- The physical address `a` lies in the part of the frame of one of the `n`
pages from the page number `V` on that the reads of `load_phdr` store the
`filesz` bytes of the segment to: the page `P` takes the bytes of the
segment from the offset `(P - V) * 4096` on. -/
def seg_written (pmem : Nat → Nat) (dir V n filesz a : Nat) : Prop :=
  ∃ P, V ≤ P ∧ P < V + n ∧ seg_frame pmem dir P ≤ a ∧ a < seg_frame pmem dir P + 4096 ∧
    a < seg_frame pmem dir P + (filesz - (P - V) * 4096)

/-! ### Concrete scheduler states used to evaluate the code -/

/-- A task block with the given remaining slice and sleep countdown. -/
def demo_task (slice sleep : Int) : task_t :=
  { task_zero with name := [116], time_slice := TASK_TIME_SLICE_DEFAULT,
                   slice_ticks := slice, sleep_ticks := sleep,
                   state := .TASK_READY }

/-- Tasks 0 and 1 are ready and task 0 runs; task 2 sleeps.  Task 0 has one
tick of its slice left and task 2 one tick of sleep left. -/
def demo_sched : kernel Unit :=
  { task_manager :=
      { curr_task := .slot 0, ready_list := [.slot 0, .slot 1],
        task_list := [.idle_task, .slot 0, .slot 1, .slot 2],
        sleep_list := [.slot 2],
        first_task := task_zero, idle_task := demo_task 10 0,
        app_code_sel := 0, app_data_sel := 0 },
    task_table := fun i =>
      if i = 0 then demo_task 1 0
      else if i = 1 then demo_task 10 0
      else if i = 2 then { demo_task 10 1 with state := .TASK_SLEEP }
      else task_zero,
    task_addr := fun p =>
      match p with
      | .null => 0
      | .first_task => 0x20000
      | .idle_task => 0x21000
      | .slot i => 0x30000 + 0x400 * i,
    files := fun _ => file_zero,
    fs := () }

/-- An operations table whose operations do nothing and report 7. -/
def demo_op : fs_op_t Unit :=
  { read := fun _ _ f s => (7, f, s), write := fun _ _ f s => (7, f, s),
    seek := fun f _ _ s => (7, f, s), stat := fun f _ s => (7, f, s),
    close := fun f s => (f, s), ioctl := fun f _ _ _ s => (7, f, s) }

def demo_frame : syscall_frame_t :=
  { eflags := 0x202, gs := 35, fs := 35, es := 35, ds := 35, edi := 0, esi := 0,
    ebp := 0, ebx := 0, edx := 0, ecx := 0, eax := 3, eip := 0x80000010, cs := 43,
    esp := 0xE0000000, ss := 35 }

/-- A fork in which every allocation succeeds except the copy of the address
space, which returns `(uint32_t)-1`. -/
def demo_fork_copy_fails : fork_env :=
  { frame := demo_frame, gdt_alloc_desc := 48, memory_alloc_page := 0x200000,
    memory_create_uvm := 0x201000, memory_copy_uvm := 0xFFFFFFFF }

/-- A fork in which every allocation succeeds. -/
def demo_fork_ok : fork_env :=
  { frame := demo_frame, gdt_alloc_desc := 48, memory_alloc_page := 0x200000,
    memory_create_uvm := 0x201000, memory_copy_uvm := 0x202000 }

/-! ### Concrete FAT16 volumes used to evaluate the code -/

/-- An empty volume with 512-byte clusters: one reserved sector, two table
copies of one sector each (256 entries), a root directory of 16 entries and
the data region from sector 4 on.  Every byte of the disk is 0. -/
def demo_fat : fat_t :=
  { tbl_start := 1, tbl_cnt := 2, tbl_sectors := 1, bytes_per_sec := 512,
    sec_per_cluster := 1, root_ent_cnt := 16, root_start := 3, data_start := 4,
    cluster_byte_size := 512, fat_buffer := fun _ => 0, curr_sector := -1,
    dev := { bytes := fun _ => 0, fails := fun _ => false } }

/-- The name `a.txt` as a C string. -/
def demo_path : List Nat := [97, 46, 116, 120, 116]

/-- User memory holding the byte `i % 251 + 1` at address `i`. -/
def demo_umem : bytes_t := fun i => i % 251 + 1

/-- A file record as `sys_open` hands it to the driver, with the given open
flags. -/
def demo_file (mode : Nat) : file_t := { file_zero with mode := mode, ref := 1 }

/-- The volume `demo_fat` after `a.txt` has been created, written with 700
bytes and closed. -/
def demo_fat_one_file : fat_t :=
  match fatfs_open 70000 demo_fat demo_path (demo_file (O_CREAT ||| O_WRONLY)) with
  | some (_, f, fat1) =>
    match fatfs_write 70000 demo_umem 0 700 f fat1 with
    | some (_, f1, fat2) => fatfs_close f1 fat2
    | none => demo_fat
  | none => demo_fat

/-- The record of `a.txt` and the volume after `fatfs_open` with
`O_CREAT | O_WRONLY` on the empty volume. -/
def demo_created : Option (Int × file_t × fat_t) :=
  fatfs_open 70000 demo_fat demo_path (demo_file (O_CREAT ||| O_WRONLY))

/-- A write of `n` bytes on the outcome of an earlier call. -/
def demo_then_write (r : Option (Int × file_t × fat_t)) (n : Nat) :
    Option (Int × file_t × fat_t) :=
  r.bind (fun x => fatfs_write 70000 demo_umem 0 n x.2.1 x.2.2)

/-- A seek to the start of the file on the outcome of an earlier call. -/
def demo_then_rewind (r : Option (Int × file_t × fat_t)) : Option (Int × file_t × fat_t) :=
  r.map (fun x => fatfs_seek x.2.1 0 0 x.2.2)

/-- Result, position and in-memory size after a call. -/
def demo_view (r : Option (Int × file_t × fat_t)) : Option (Int × Nat × Nat) :=
  r.map (fun x => (x.1, x.2.1.pos, x.2.1.size))

/-- A close of the file on the outcome of an earlier call. -/
def demo_then_close (r : Option (Int × file_t × fat_t)) : Option fat_t :=
  r.map (fun x => fatfs_close x.2.1 x.2.2)

/-- An unlink of `a.txt` on the volume left by an earlier call. -/
def demo_then_unlink (r : Option fat_t) : Option (Int × fat_t) :=
  r.bind (fun fat => fatfs_unlink 70000 fat demo_path)

/-- Entries 0 to 7 of the two table copies of the volume. -/
def demo_table (fat : fat_t) : List (Nat × Nat) :=
  (List.range 8).map (fun c => (fat_entry_copy fat 0 c, fat_entry_copy fat 1 c))

/-- A memory state with 16 physical pages from address `0x100000` on, of
which the first holds an empty page directory; every other page is free. -/
def demo_mem : mem_t :=
  { paddr_alloc := { start := 0x100000, size := 16 * 4096, page_size := 4096,
                     bitmap := { bit_count := 16, bits := fun i => if i = 0 then 1 else 0 } },
    pmem := fun _ => 0 }

/-- Task 0 of `demo_sched` with break `0x80001234` and the page directory of
`demo_mem`. -/
def demo_heap_task : task_t :=
  { demo_sched.task_table 0 with
    heap_end := 0x80001234, tss := { tss_zero with cr3 := 0x100000 } }

/-- The state `demo_sched` in which the current task is `demo_heap_task`. -/
def demo_heap : kernel Unit := task_put demo_sched (.slot 0) demo_heap_task

/-- A bitmap of two bits: bit 0 is clear and bit 1 is set. -/
def demo_bitmap_01 : bitmap_t := { bit_count := 2, bits := fun i => if i = 0 then 2 else 0 }

/-- A bitmap of eight bits: bits 0 to 6 are set and bit 7 is clear. -/
def demo_bitmap_last : bitmap_t :=
  { bit_count := 8, bits := fun i => if i = 0 then 0x7F else 0 }

/-- An allocator of four free pages from address `0x100000` on. -/
def demo_alloc4 : addr_alloc_t :=
  { start := 0x100000, size := 4 * 4096, page_size := 4096,
    bitmap := { bit_count := 4, bits := fun _ => 0 } }

/-- A call `addr_alloc_page(n)` on the outcome of earlier calls; the
addresses returned so far are collected in order. -/
def demo_then_alloc (r : Option (List Nat × addr_alloc_t)) (n : Nat) :
    Option (List Nat × addr_alloc_t) :=
  r.bind (fun x => (addr_alloc_page 10 x.2 n).map (fun y => (x.1 ++ [y.1], y.2)))

/-- A call `addr_free_page(a, n)` on the outcome of earlier calls. -/
def demo_then_free (r : Option (List Nat × addr_alloc_t)) (a n : Nat) :
    Option (List Nat × addr_alloc_t) :=
  r.map (fun x => (x.1, addr_free_page x.2 a n))

/-- A memory state whose directory at `0x100000` has one present entry, for
the addresses from `0x80000000` on, with an empty page table at `0x101000`. -/
def demo_mem_table : mem_t :=
  { paddr_alloc := { start := 0x100000, size := 16 * 4096, page_size := 4096,
                     bitmap := { bit_count := 16, bits := fun i => if i = 0 then 3 else 0 } },
    pmem := fun a => if a = 0x100000 + 4 * 512 then 0x101007 else 0 }

/-- A memory state with three physical pages from address `0x100000` on: the
first holds an empty page directory, the other two are free. -/
def demo_mem_small : mem_t :=
  { paddr_alloc := { start := 0x100000, size := 3 * 4096, page_size := 4096,
                     bitmap := { bit_count := 3, bits := fun i => if i = 0 then 1 else 0 } },
    pmem := fun _ => 0 }

/-- Result and first bitmap byte of an outcome of `memory_alloc_for_page_dir`. -/
def demo_alloc_view (r : result_t (Nat × mem_t)) : Option (Nat × Nat) :=
  match r with
  | .done (x, m) => some (x, m.paddr_alloc.bitmap.bits 0)
  | _ => none

/-- Pointer returned, break of the current task and first bitmap byte of an
outcome of `sys_sbrk`. -/
def demo_sbrk_view (r : result_t (Nat × kernel Unit × mem_t)) : Option (Nat × Nat × Nat) :=
  match r with
  | .done (p, k, m) =>
    some (p, (task_get k (task_current k)).heap_end, m.paddr_alloc.bitmap.bits 0)
  | _ => none

/-! ### A mount table used to evaluate `sys_open` -/

/-- Mounts `/a`, `/ab` and `/home`, in this order on the list; `/home` is the
root file system. -/
def demo_mounts : mount_table_t :=
  { fs_tbl := fun i =>
      if i = 0 then ⟨[47, 97]⟩ else if i = 1 then ⟨[47, 97, 98]⟩
      else ⟨[47, 104, 111, 109, 101]⟩,
    mounted_list := [0, 1, 2], root_fs := 2 }

/-- The path `/ab/f`. -/
def demo_open_path : List Nat := [47, 97, 98, 47, 102]

/-- The state `demo_sched` with file systems whose state is the list of the
`open` calls made so far: file system and name. -/
def demo_open_kernel : kernel (List (Nat × Option (List Nat))) :=
  { task_manager := demo_sched.task_manager, task_table := demo_sched.task_table,
    task_addr := demo_sched.task_addr, files := demo_sched.files, fs := [] }

/-- An `open` operation that records the call and succeeds. -/
def demo_fs_open (fs : Nat) (name : Option (List Nat)) (file : file_t)
    (s : List (Nat × Option (List Nat))) : Int × file_t × List (Nat × Option (List Nat)) :=
  (0, file, s ++ [(fs, name)])

/-! ### Calls on a mutex and on a semaphore -/

/-- The state `demo_sched` with the task `task` running. -/
def demo_running (task : task_ptr) : kernel Unit :=
  { demo_sched with task_manager := { demo_sched.task_manager with curr_task := task } }

/-- Task 0 locks twice, task 1 locks and waits, task 0 unlocks once. -/
def demo_mutex_calls : List (mutex_call × kernel Unit) :=
  [(.lock, demo_running (.slot 0)), (.lock, demo_running (.slot 0)),
   (.lock, demo_running (.slot 1)), (.unlock, demo_running (.slot 0))]

/-- Two tasks wait, one notify follows. -/
def demo_sem_calls : List (sem_call × kernel Unit) :=
  [(.wait, demo_running (.slot 0)), (.wait, demo_running (.slot 1)),
   (.notify, demo_running (.slot 2))]

/-! ### A state with one open file -/

/-- The state `demo_sched` after task 0 has opened one file: its descriptor
0 points to the file record 0, whose count is 1. -/
def demo_one_open : kernel Unit :=
  task_put (file_put demo_sched 0 { file_zero with ref := 1 }) (.slot 0)
    { demo_task 1 0 with file_table := fun j => if j = 0 then some 0 else none }

/-- An `open` operation that does nothing and succeeds. -/
def demo_open_unit (_fs : Nat) (_name : Option (List Nat)) (file : file_t) (s : Unit) :
    Int × file_t × Unit := (0, file, s)

/-! ### Events of the scheduler -/

/-- A state of one mutex and one semaphore of count 1 after the
initialisation. -/
def demo_sched_init : sched_t Unit :=
  sched_init demo_sched demo_fork_ok demo_fork_ok 16 24 0x10000 0x80000000 0x80003000
    [⟨.null, 7, []⟩] [(⟨0, []⟩, 1)]

/-- The first task forks twice; then the tasks sleep, wait on the semaphore,
lock the mutex and exit while the timer ticks. -/
def demo_sched_calls : List sched_call :=
  [.sys_fork demo_fork_ok, .sys_fork demo_fork_ok, .sys_msleep 20, .sem_wait 0, .sem_wait 0,
   .time_tick, .mutex_lock 0, .time_tick, .sys_yield, .mutex_lock 0, .sem_notify 0,
   .sys_exit 3, .sys_msleep 20, .time_tick, .time_tick]

/-- The ready list, the sleep list and the current task of a state. -/
def demo_sched_view (s : sched_t Unit) : List task_ptr × List task_ptr × task_ptr :=
  (s.k.task_manager.ready_list, s.k.task_manager.sleep_list, task_current s.k)

/-! ### A mapped user page -/

/-- The memory `demo_mem_table` with the page `0x80000000` mapped to the
frame `0x102000`, user-writable. -/
def demo_mem_mapped : mem_t :=
  { paddr_alloc := { start := 0x100000, size := 16 * 4096, page_size := 4096,
                     bitmap := { bit_count := 16, bits := fun i => if i = 0 then 7 else 0 } },
    pmem := fun a => if a = 0x100000 + 4 * 512 then 0x101007
                     else if a = 0x101000 then 0x102007 else 0 }

/-- What an outcome of `memory_free_page` is: 0 for a completed call, 1 for
a failed assertion, 2 otherwise. -/
def demo_free_view (r : result_t mem_t) : Nat :=
  match r with
  | .done _ => 0
  | .halted => 1
  | .out_of_fuel => 2

/-! ### File names and a volume with two files -/

/-- The name `abcdefgh.txt` as a C string. -/
def demo_name_full : List Nat := [97, 98, 99, 100, 101, 102, 103, 104, 46, 116, 120, 116]

/-- The name `ABCDEFGH.TXT` as a C string. -/
def demo_name_full_upper : List Nat := [65, 66, 67, 68, 69, 70, 71, 72, 46, 84, 88, 84]

/-- The name `abcdefgh.tx` as a C string. -/
def demo_name_short : List Nat := [97, 98, 99, 100, 101, 102, 103, 104, 46, 116, 120]

/-- The name `b.txt` as a C string. -/
def demo_path_b : List Nat := [98, 46, 116, 120, 116]

/-- The volume `demo_fat` after `a.txt` and then `b.txt` have been created
with `O_CREAT | O_WRONLY`. -/
def demo_fat_two_files : fat_t :=
  match fatfs_open 70000 demo_fat demo_path (demo_file (O_CREAT ||| O_WRONLY)) with
  | some (_, _, fat1) =>
    match fatfs_open 70000 fat1 demo_path_b (demo_file (O_CREAT ||| O_WRONLY)) with
    | some (_, _, fat2) => fat2
    | none => demo_fat
  | none => demo_fat

/-- Result and directory index of an outcome of `fatfs_open`. -/
def demo_open_view (r : Option (Int × file_t × fat_t)) : Option (Int × Int) :=
  r.map (fun x => (x.1, x.2.1.p_index))

/-- The values returned by the first `n` calls of `fatfs_readdir` after
`fatfs_opendir`, each with the index and the first eight bytes of the name
in the record. -/
def demo_listing (fat : fat_t) (n : Nat) : List (Int × Int × List Nat) :=
  (readdir_calls 17 n fat (fatfs_opendir ⟨0⟩).2 ⟨0, .FILE_UNKNOWN, fun _ => 0, 0⟩).map
    (fun r => (r.1, r.2.index, (List.range 8).map r.2.name))

/-! ### A failing open -/

/-- An `open` operation that fails, as for a file that does not exist. -/
def demo_open_fail (_fs : Nat) (_name : Option (List Nat)) (file : file_t) (s : Unit) :
    Int × file_t × Unit := (-1, file, s)

/-! ### Names of the device file system -/

/-- A `dev_open` that succeeds, returns the device number `minor` and
records the call. -/
def demo_dev_open (major minor : Int) (s : List (Int × Int)) : Int × List (Int × Int) :=
  (minor, s ++ [(major, minor)])

/-- The names `tty`, `ttyx`, `tty0` and `tty12`. -/
def demo_tty : List Nat := [116, 116, 121]
def demo_ttyx : List Nat := [116, 116, 121, 120]
def demo_tty0 : List Nat := [116, 116, 121, 48]
def demo_tty12 : List Nat := [116, 116, 121, 49, 50]

/-! ### A file of five bytes -/

/-- The volume `demo_fat` after `a.txt` has been created, written with 5
bytes and closed. -/
def demo_fat_small_file : fat_t :=
  match fatfs_open 70000 demo_fat demo_path (demo_file (O_CREAT ||| O_WRONLY)) with
  | some (_, f, fat1) =>
    match fatfs_write 70000 demo_umem 0 5 f fat1 with
    | some (_, f1, fat2) => fatfs_close f1 fat2
    | none => demo_fat
  | none => demo_fat

/-- The file `a.txt` of `demo_fat_small_file` is opened for reading, the
position is set to `offset`, and `len` bytes are read to address 0 of a
memory that holds the byte 7 everywhere: the result of the open, the result
of the seek, size and position before the read, the result of the read, the
position after it and the bytes 0 to 15 of the memory. -/
def demo_seek_read (offset len : Nat) : Option (List Int × List Nat) :=
  (fatfs_open 70000 demo_fat_small_file demo_path (demo_file O_RDONLY)).map (fun o =>
    let s := fatfs_seek o.2.1 offset 0 o.2.2
    let r := fatfs_read (fun _ => 7) 0 len s.2.1 s.2.2
    ([o.1, s.1, (s.2.1.size : Int), (s.2.1.pos : Int), r.1, (r.2.2.1.pos : Int)],
      (List.range 16).map r.2.1))

/-! ### A program image -/

/-- An ELF image of 124 bytes: the header, two program headers at the
offsets 52 and 84, and eight bytes of data (the bytes 1 to 8) from offset 116
on.  One program header describes the segment at `0x80010000` (4 bytes of
the file, 4096 bytes of memory), the other the segment at `0x80000000` (4
bytes of the file, 8 bytes of memory); `high_first` puts the segment at
`0x80010000` first. -/
def demo_elf (high_first : Bool) : bytes_t :=
  let b0 : bytes_t := fun o =>
    if o = 0 then 0x7F else if o = 1 then 69 else if o = 2 then 76 else if o = 3 then 70
    else if 116 ≤ o ∧ o < 124 then o - 115 else 0
  let b1 := write16 (write16 b0 16 2) 18 3
  let b2 := write32 (write32 b1 24 0x80010000) 28 52
  let b3 := write16 (write16 b2 42 32) 44 2
  let hi := if high_first then 52 else 84
  let lo := if high_first then 84 else 52
  let b4 := write32 (write32 (write32 (write32 (write32 b3 hi 1) (hi + 4) 116)
    (hi + 8) 0x80010000) (hi + 16) 4) (hi + 20) 4096
  write32 (write32 (write32 (write32 (write32 b4 lo 1) (lo + 4) 120)
    (lo + 8) 0x80000000) (lo + 16) 4) (lo + 20) 8

/-- The number of bytes that a read of `len` bytes at the position of `f`
takes from the image of 124 bytes. -/
def demo_elf_count (len : Int) (f : file_t) : Nat := min len.toNat (124 - f.pos)

/-- A file system whose one file is the image `demo_elf high_first`: `open`
succeeds, `seek` sets the position, `read` takes bytes from the position on
and stores them in the memory. -/
def demo_load_env (high_first : Bool) : load_env Unit :=
  { op := { read := fun _ len f s =>
              ((demo_elf_count len f : Nat), { f with pos := f.pos + demo_elf_count len f }, s),
            write := fun _ _ f s => (-1, f, s),
            seek := fun f off _ s => (0, { f with pos := off }, s),
            stat := fun f _ s => (-1, f, s),
            close := fun f s => (f, s),
            ioctl := fun f _ _ _ s => (-1, f, s) },
    fs_open := fun _ _ f s => (0, { f with size := 124, pos := 0 }, s),
    mt := demo_mounts,
    read_mem := fun buf len f _ pmem a =>
      if buf ≤ a ∧ a < buf + demo_elf_count len f then demo_elf high_first (f.pos + (a - buf))
      else pmem a,
    elf_hdr := 0x5000, elf_phdr := 0x5100 }

/-- The memory `demo_mem` in which every byte of the 15 free pages holds
`0xAA`. -/
def demo_mem_dirty : mem_t :=
  { demo_mem with pmem := fun a => if 0x101000 ≤ a ∧ a < 0x110000 then 0xAA else 0 }

/-- The entry address and the heap bounds of task 0 after an outcome of
`load_elf_file`. -/
def demo_load_view (r : result_t (Nat × kernel Unit × mem_t)) : Option (Nat × Nat × Nat) :=
  match r with
  | .done (e, k, _) => some (e, (k.task_table 0).heap_start, (k.task_table 0).heap_end)
  | _ => none

/-- The byte of the address space of the directory `page_dir` at the virtual
address `vaddr`. -/
def demo_user_byte (m : mem_t) (page_dir vaddr : Nat) : Nat :=
  m.pmem ((memory_get_paddr m page_dir vaddr).getD 0)

/-- The result of an outcome of `load_phdr` and the eight bytes of the new
address space from `0x80000000` on. -/
def demo_phdr_view (r : result_t (Int × kernel Unit × mem_t)) : Option (Int × List Nat) :=
  match r with
  | .done (e, _, m) =>
    some (e, (List.range 8).map (fun i => demo_user_byte m 0x100000 (0x80000000 + i)))
  | _ => none

/-! ### A user page with contents -/

/-- The memory `demo_mem_mapped` in which the byte at the address `a` of the
frame `0x102000` of the user page `0x80000000` is `a % 251`. -/
def demo_mem_user : mem_t :=
  { demo_mem_mapped with
    pmem := fun a => if 0x102000 ≤ a ∧ a < 0x103000 then a % 251 else demo_mem_mapped.pmem a }

/-- The state after `memory_create_uvm` in `demo_mem_user` with
`kernel_page_dir` at `0x4000`: the allocator after the call, and the memory
with the new directory at `0x103000`, written without the loop. -/
def demo_mem_created : mem_t :=
  { paddr_alloc :=
      ((memory_create_uvm 100 demo_mem_user 0x4000).getD (0, demo_mem_user)).2.paddr_alloc,
    pmem := fun a =>
      if 0x103000 ≤ a ∧ a < 0x103000 + 4 * 512 ∧ (a - 0x103000) % 4 = 0 then
        demo_mem_user.pmem (0x4000 + (a - 0x103000))
      else if 0x103000 ≤ a ∧ a < 0x103000 + MEM_PAGE_SIZE then 0
      else demo_mem_user.pmem a }

/-- The state `demo_sched` after task 0 has opened a file with the flags
`flags`, through an `open` operation that succeeds. -/
def demo_opened (flags : Nat) : Int × kernel Unit :=
  sys_open demo_open_unit demo_sched demo_mounts demo_open_path flags

/-- Two disks of 512-byte sectors; every partition record has 1000
sectors. -/
def demo_disk_buf : List disk_t :=
  List.replicate DISK_CNT
    { sector_size := 512, sector_count := 4000,
      partinfo := List.replicate DISK_PRIMARY_PART_CNT ⟨0, 1000⟩ }

/-- A full volume with 256 sectors per table copy (65536 entries, the
largest table of a FAT16 volume): one reserved sector, two table copies, a
root directory of 16 entries and the data region from sector 514 on.  Every
byte of the disk is `0xFF`, so every entry of the table is `0xFFFF`. -/
def demo_fat_full : fat_t :=
  { tbl_start := 1, tbl_cnt := 2, tbl_sectors := 256, bytes_per_sec := 512,
    sec_per_cluster := 1, root_ent_cnt := 16, root_start := 513, data_start := 514,
    cluster_byte_size := 512, fat_buffer := fun _ => 0, curr_sector := -1,
    dev := { bytes := fun _ => 0xFF, fails := fun _ => false } }

/-! ### A fork, an exit and a wait with the descriptor table and the memory -/

/-- A descriptor table with the descriptors 1 to 7 in use. -/
def demo_gdt : gdt_t := fun i => if 1 ≤ i ∧ i ≤ 7 then SEG_P_PRESENT else 0

/-- The environment of the fork of `demo_heap` in `demo_mem_user` with
`demo_gdt`: the selector 64, the kernel stack at `0x103000`, the directory
of `tss_init` at `0x104000` and the directory of `memory_copy_uvm` at
`0x105000`. -/
def demo_fork_leak : fork_env :=
  { frame := demo_frame, gdt_alloc_desc := 64, memory_alloc_page := 0x103000,
    memory_create_uvm := 0x104000, memory_copy_uvm := 0x105000 }

/-- The state after `memory_alloc_page` in `demo_mem_user`. -/
def demo_mem_stack : mem_t :=
  { paddr_alloc := ((memory_alloc_page 100 demo_mem_user).getD (0, demo_mem_user)).2.paddr_alloc,
    pmem := demo_mem_user.pmem }

/-- The state after `memory_create_uvm` in `demo_mem_stack` with
`kernel_page_dir` at `0x4000`: the allocator after the call, and the memory
with the new directory at `0x104000`, written without the loop. -/
def demo_mem_dir1 : mem_t :=
  { paddr_alloc :=
      ((memory_create_uvm 100 demo_mem_stack 0x4000).getD (0, demo_mem_stack)).2.paddr_alloc,
    pmem := fun a =>
      if 0x104000 ≤ a ∧ a < 0x104000 + 4 * 512 ∧ (a - 0x104000) % 4 = 0 then
        demo_mem_stack.pmem (0x4000 + (a - 0x104000))
      else if 0x104000 ≤ a ∧ a < 0x104000 + MEM_PAGE_SIZE then 0
      else demo_mem_stack.pmem a }

/-- The state after `memory_create_uvm` in `demo_mem_dir1` with
`kernel_page_dir` at `0x4000`: the allocator after the call, and the memory
with the new directory at `0x105000`, written without the loop. -/
def demo_mem_dir2 : mem_t :=
  { paddr_alloc :=
      ((memory_create_uvm 100 demo_mem_dir1 0x4000).getD (0, demo_mem_dir1)).2.paddr_alloc,
    pmem := fun a =>
      if 0x105000 ≤ a ∧ a < 0x105000 + 4 * 512 ∧ (a - 0x105000) % 4 = 0 then
        demo_mem_dir1.pmem (0x4000 + (a - 0x105000))
      else if 0x105000 ≤ a ∧ a < 0x105000 + MEM_PAGE_SIZE then 0
      else demo_mem_dir1.pmem a }

/-- What is left after an outcome of `memory_copy_uvm` is reaped with
`memory_destroy_uvm` of the directory returned and `memory_free_page` of the
kernel stack at `stack`: the directory, the number of free pages before and
after the two releases, and whether page 4 of the allocator is in use
afterwards. -/
def demo_reap_view (k : kernel Unit) (stack : Nat) (r : result_t (Nat × mem_t)) :
    Option (Nat × Nat × Nat × Bool) :=
  match r with
  | .done (cr3, m1) =>
    match memory_destroy_uvm m1 cr3 with
    | .done m2 =>
      match memory_free_page k m2 stack with
      | .done m3 =>
        some (cr3, free_count m1.paddr_alloc.bitmap, free_count m3.paddr_alloc.bitmap,
          bit_of m3.paddr_alloc.bitmap 4)
      | _ => none
    | _ => none
  | _ => none

/-- The state in which the parent task 0 runs after the child in slot 3,
created by the fork with `demo_fork_leak`, has run and called
`sys_exit(7)`. -/
def demo_after_exit : kernel Unit :=
  run_task (sys_exit demo_op (run_task (sys_fork demo_heap demo_fork_leak).2 (.slot 3)) 7)
    (.slot 0)

/-- A volume with the geometry of `demo_fat` (256 entries per table copy) on
which the clusters 5 and 9 are free and every other entry is `0xFFFF`: the
bytes of the entries 5 and 9 of each sector are 0, every other byte of the
disk is `0xFF`. -/
def demo_fat_two_free : fat_t :=
  { demo_fat with
    dev := { bytes := fun a => if a % 512 / 2 = 5 ∨ a % 512 / 2 = 9 then 0 else 0xFF,
             fails := fun _ => false } }

/-- A volume with 256 sectors per table copy (65536 entries) on which
cluster 2 is the one free cluster: one reserved sector, two table copies, an
empty root directory of 16 entries in sector 513 and the data region from
sector 514 on, with clusters of one sector.  The bytes of entry 2 of both
table copies and the bytes of the root directory are 0, every other byte of
the disk is `0xFF`, so every other entry of the table is `0xFFFF`. -/
def demo_fat_one_free : fat_t :=
  { tbl_start := 1, tbl_cnt := 2, tbl_sectors := 256, bytes_per_sec := 512,
    sec_per_cluster := 1, root_ent_cnt := 16, root_start := 513, data_start := 514,
    cluster_byte_size := 512, fat_buffer := fun _ => 0, curr_sector := -1,
    dev := { bytes := fun a =>
               if a / 512 = 513 then 0
               else if a % 512 / 2 = 2 ∧ (a / 512 = 1 ∨ a / 512 = 257) then 0
               else 0xFF,
             fails := fun _ => false } }

/-! ## Part 2. Theorems -/

/-! ### Scheduler lemmas -/

section sched_lemmas

variable {σ : Type}

theorem task_get_task_put (k : kernel σ) (p q : task_ptr) (t : task_t) :
    task_get (task_put k p t) q = if q = p ∧ p ≠ .null then t else task_get k q := by
  cases p <;> cases q <;> simp [task_get, task_put]

theorem task_put_task_manager_lists (k : kernel σ) (p : task_ptr) (t : task_t) :
    (task_put k p t).task_manager.ready_list = k.task_manager.ready_list ∧
    (task_put k p t).task_manager.sleep_list = k.task_manager.sleep_list ∧
    (task_put k p t).task_manager.curr_task = k.task_manager.curr_task := by
  cases p <;> simp [task_put]

theorem task_dispatch_ready_list (k : kernel σ) :
    (task_dispatch k).task_manager.ready_list = k.task_manager.ready_list := by
  unfold task_dispatch
  simp only []
  split <;> rfl

theorem task_dispatch_sleep_list (k : kernel σ) :
    (task_dispatch k).task_manager.sleep_list = k.task_manager.sleep_list := by
  unfold task_dispatch
  simp only []
  split <;> rfl

theorem task_set_ready_ready_list (k : kernel σ) (p : task_ptr) :
    (task_set_ready k p).task_manager.ready_list =
      k.task_manager.ready_list ++ (if p ≠ .idle_task then [p] else []) := by
  unfold task_set_ready
  by_cases h : p = .idle_task
  · simp [h]
  · simp [h, (task_put_task_manager_lists _ _ _).1]

theorem task_set_ready_sleep_ticks (k : kernel σ) (p q : task_ptr) :
    (task_get (task_set_ready k p) q).sleep_ticks = (task_get k q).sleep_ticks := by
  unfold task_set_ready
  by_cases h : p = .idle_task
  · simp [h]
  · simp only [ne_eq, h, not_false_eq_true, if_true, task_get_task_put]
    split
    · rename_i hq
      rw [hq.1]
      cases p <;> rfl
    · cases q <;> rfl

theorem tick_sleep_step_ready_list (k : kernel σ) (p : task_ptr) :
    (tick_sleep_step k p).task_manager.ready_list =
      k.task_manager.ready_list ++
        (if p ≠ .idle_task ∧ (task_get k p).sleep_ticks = 1 then [p] else []) := by
  unfold tick_sleep_step
  dsimp only
  by_cases h1 : (task_get k p).sleep_ticks = 1
  · have h0 : (task_get k p).sleep_ticks - 1 = 0 := by omega
    rw [if_pos h0, task_set_ready_ready_list]
    simp only [task_set_wakeup, (task_put_task_manager_lists _ _ _).1]
    by_cases hp : p = .idle_task <;> simp [hp, h1]
  · have h0 : ¬ ((task_get k p).sleep_ticks - 1 = 0) := by omega
    rw [if_neg h0, (task_put_task_manager_lists _ _ _).1]
    simp [h1]

theorem tick_sleep_step_sleep_ticks (k : kernel σ) (p q : task_ptr) (hne : q ≠ p) :
    (task_get (tick_sleep_step k p) q).sleep_ticks = (task_get k q).sleep_ticks := by
  unfold tick_sleep_step
  simp only []
  split
  · rw [task_set_ready_sleep_ticks]
    have : task_get (task_set_wakeup (task_put k p
        { task_get k p with sleep_ticks := (task_get k p).sleep_ticks - 1 }) p) q =
        task_get (task_put k p
        { task_get k p with sleep_ticks := (task_get k p).sleep_ticks - 1 }) q := by
      cases q <;> rfl
    rw [this, task_get_task_put]
    simp [hne]
  · rw [task_get_task_put]
    simp [hne]

theorem tick_walk_ready_list (l : List task_ptr) (hnd : l.Nodup) (k : kernel σ) :
    (l.foldl tick_sleep_step k).task_manager.ready_list =
      k.task_manager.ready_list ++
        l.filter (fun p => decide (p ≠ .idle_task ∧ (task_get k p).sleep_ticks = 1)) := by
  induction l generalizing k with
  | nil => simp
  | cons p l ih =>
    have hp : p ∉ l := (List.nodup_cons.mp hnd).1
    have hl : l.Nodup := (List.nodup_cons.mp hnd).2
    rw [List.foldl_cons, ih hl, tick_sleep_step_ready_list, List.filter_cons]
    have hcongr : l.filter (fun q => decide (q ≠ .idle_task ∧
          (task_get (tick_sleep_step k p) q).sleep_ticks = 1)) =
        l.filter (fun q => decide (q ≠ .idle_task ∧ (task_get k q).sleep_ticks = 1)) := by
      apply List.filter_congr
      intro q hq
      have hne : q ≠ p := fun h => hp (h ▸ hq)
      rw [tick_sleep_step_sleep_ticks k p q hne]
    rw [hcongr]
    by_cases hc : p ≠ .idle_task ∧ (task_get k p).sleep_ticks = 1
    · simp [hc]
    · simp [hc]

theorem task_set_ready_sleep_list (k : kernel σ) (p : task_ptr) :
    (task_set_ready k p).task_manager.sleep_list = k.task_manager.sleep_list := by
  unfold task_set_ready
  by_cases h : p = .idle_task
  · simp [h]
  · simp [h, (task_put_task_manager_lists _ _ _).2.1]

theorem task_set_block_task_get (k : kernel σ) (p q : task_ptr) :
    task_get (task_set_block k p) q = task_get k q := by
  unfold task_set_block
  split <;> cases q <;> rfl

end sched_lemmas

/-! ### Claims on the scheduler -/

/-- C8 (code at the failing input).  For `ms = 4294967295` the sum
`ms + (OS_TICK_MS - 1)` wraps to 8, the tick count is 0, and `task_set_sleep`
returns at once: the caller (task 0) has left the ready list, is not on the
sleep list, and its countdown is not the 429496730 ticks that
`ceil(ms / OS_TICK_MS)` asks for. -/
theorem C8_msleep_wraps :
    (sys_msleep demo_sched 4294967295).task_manager.ready_list = [.slot 1] ∧
    (sys_msleep demo_sched 4294967295).task_manager.sleep_list = [.slot 2] ∧
    (task_get (sys_msleep demo_sched 4294967295) (.slot 0)).sleep_ticks = 0 ∧
    (task_get (sys_msleep demo_sched 4294967295) (.slot 0)).state = .TASK_READY ∧
    max 1 ((4294967295 + (OS_TICK_MS - 1)) / OS_TICK_MS) = 429496730 := by
  refine ⟨by decide, by decide, by decide, by decide, by decide⟩

/-- C9 (counterexample).  Task 0 runs with one tick of slice left and task 2
sleeps with one tick left, so one timer tick both preempts task 0 and wakes
task 2; afterwards the preempted task 0 stands before the woken task 2 in the
ready list, not behind it. -/
theorem C9_woken_not_ahead :
    (task_get demo_sched (task_current demo_sched)).slice_ticks = 1 ∧
    (task_get demo_sched (.slot 2)).sleep_ticks = 1 ∧
    (task_time_tick demo_sched).task_manager.ready_list = [.slot 1, .slot 0, .slot 2] ∧
    ¬ ((task_time_tick demo_sched).task_manager.ready_list.indexOf (.slot 2) <
       (task_time_tick demo_sched).task_manager.ready_list.indexOf (.slot 0)) := by
  refine ⟨by decide, by decide, by decide, by decide⟩

/-- C9 (amended).  When a timer tick exhausts the slice of the current
(non-idle) task, the ready list afterwards is the old ready list with the
current task moved to its tail, followed by the tasks woken by this tick in
sleep-list order: the preempted task is requeued first and every woken task
is queued behind it. -/
theorem C9_tick_requeues_then_wakes (k : kernel σ)
    (hidle : task_current k ≠ .idle_task)
    (hslice : (task_get k (task_current k)).slice_ticks = 1)
    (hnd : k.task_manager.sleep_list.Nodup) :
    (task_time_tick k).task_manager.ready_list =
      k.task_manager.ready_list.erase (task_current k) ++ [task_current k] ++
        k.task_manager.sleep_list.filter
          (fun p => decide (p ≠ .idle_task ∧ (task_get k p).sleep_ticks = 1)) := by
  have h0 : (task_get k (task_current k)).slice_ticks - 1 = 0 := by omega
  unfold task_time_tick
  dsimp only
  rw [if_pos h0, task_dispatch_ready_list, task_set_ready_sleep_list]
  have hsl : (task_set_block (task_put k (task_current k)
      { task_get k (task_current k) with
        slice_ticks := (task_get k (task_current k)).time_slice })
      (task_current k)).task_manager.sleep_list = k.task_manager.sleep_list := by
    unfold task_set_block
    split
    · exact (task_put_task_manager_lists _ _ _).2.1
    · exact (task_put_task_manager_lists _ _ _).2.1
  rw [hsl, tick_walk_ready_list _ hnd, task_set_ready_ready_list]
  have hrl : (task_set_block (task_put k (task_current k)
      { task_get k (task_current k) with
        slice_ticks := (task_get k (task_current k)).time_slice })
      (task_current k)).task_manager.ready_list =
      k.task_manager.ready_list.erase (task_current k) := by
    unfold task_set_block
    rw [if_pos hidle]
    simp only [(task_put_task_manager_lists _ _ _).1]
  rw [hrl, if_pos hidle]
  congr 1
  apply List.filter_congr
  intro q _
  rw [task_set_ready_sleep_ticks, task_set_block_task_get, task_get_task_put]
  split
  · rename_i hq
    rw [hq.1]
  · rfl

/-- C9 (amended), at the state `demo_sched`. -/
theorem C9_tick_requeues_then_wakes_witness :
    task_current demo_sched ≠ .idle_task ∧
    (task_get demo_sched (task_current demo_sched)).slice_ticks = 1 ∧
    demo_sched.task_manager.sleep_list.Nodup ∧
    (task_time_tick demo_sched).task_manager.ready_list =
      demo_sched.task_manager.ready_list.erase (task_current demo_sched) ++
        [task_current demo_sched] ++
        demo_sched.task_manager.sleep_list.filter
          (fun p => decide (p ≠ .idle_task ∧ (task_get demo_sched p).sleep_ticks = 1)) :=
  ⟨by decide, by decide, by decide,
   C9_tick_requeues_then_wakes demo_sched (by decide) (by decide) (by decide)⟩

/-! ### Claims on the file layer and on process creation -/

section vfs_lemmas

variable {σ : Type}

theorem is_fd_bad_eq_zero (file : Int) : is_fd_bad file = 0 := by
  unfold is_fd_bad TASK_OFILE_NR
  split
  · omega
  · rfl

theorem task_file_bad (k : kernel σ) (fd : Int)
    (hbad : fd < 0 ∨ fd ≥ (TASK_OFILE_NR : Int) ∨
      (task_get k (task_current k)).file_table fd.toNat = none) :
    task_file k fd = none := by
  unfold task_file
  split
  · rename_i h
    rcases hbad with h1 | h1 | h1
    · omega
    · omega
    · exact h1
  · rfl

end vfs_lemmas

/-- C5 (counterexample).  Descriptor -1 is outside `0..TASK_OFILE_NR-1` and
descriptor 5 is an empty slot of the calling task, yet `sys_ioctl` returns 0
on the first and `sys_read` and `sys_write` with a zero length return 0 on
the second, not -1. -/
theorem C5_bad_fd_not_always_minus_one :
    ((-1 : Int) < 0) ∧
    (task_get demo_sched (task_current demo_sched)).file_table 5 = none ∧
    (sys_ioctl demo_op demo_sched (-1) 0 0 0).1 = 0 ∧
    (sys_ioctl demo_op demo_sched 5 0 0 0).1 = 0 ∧
    (sys_read demo_op demo_sched 5 4096 0).1 = 0 ∧
    (sys_write demo_op demo_sched 5 4096 0).1 = 0 := by
  refine ⟨by decide, by decide, by decide, by decide, by decide, by decide⟩

/-- C5 (amended).  For every descriptor number that is outside
`0..TASK_OFILE_NR-1` or whose slot in the calling task is empty:
`sys_lseek`, `sys_close`, `sys_fstat` and `sys_dup` return -1; `sys_ioctl`
returns 0; `sys_read` and `sys_write` return 0 when the buffer pointer is
null or the length is 0, and return -1 on an empty slot of the table when the
pointer is non-null and the length is non-zero. -/
theorem C5_bad_fd_results (op : fs_op_t σ) (k : kernel σ) (fd : Int)
    (hbad : fd < 0 ∨ fd ≥ (TASK_OFILE_NR : Int) ∨
      (task_get k (task_current k)).file_table fd.toNat = none)
    (ptr st : Nat) (len cmd arg0 arg1 off dir : Int) :
    (sys_lseek op k fd off dir).1 = -1 ∧
    (sys_close op k fd).1 = -1 ∧
    (sys_fstat op k fd st).1 = -1 ∧
    (sys_dup k fd).1 = -1 ∧
    (sys_ioctl op k fd cmd arg0 arg1).1 = 0 ∧
    ((ptr = 0 ∨ len = 0) →
      (sys_read op k fd ptr len).1 = 0 ∧ (sys_write op k fd ptr len).1 = 0) ∧
    ((0 ≤ fd ∧ fd < (TASK_OFILE_NR : Int) ∧ ptr ≠ 0 ∧ len ≠ 0) →
      (sys_read op k fd ptr len).1 = -1 ∧ (sys_write op k fd ptr len).1 = -1) := by
  have hf := task_file_bad k fd hbad
  refine ⟨?_, ?_, ?_, ?_, ?_, ?_, ?_⟩
  · simp [sys_lseek, is_fd_bad_eq_zero, hf]
  · simp [sys_close, is_fd_bad_eq_zero, hf]
  · simp [sys_fstat, is_fd_bad_eq_zero, hf]
  · simp [sys_dup, is_fd_bad_eq_zero, hf]
  · simp [sys_ioctl, is_fd_bad_eq_zero, hf]
  · intro h
    constructor
    · unfold sys_read
      rw [if_pos (Or.inr h)]
    · unfold sys_write
      rw [if_pos (Or.inr h)]
  · rintro ⟨_, _, hp, hl⟩
    constructor
    · simp [sys_read, is_fd_bad_eq_zero, hf, hp, hl]
    · simp [sys_write, is_fd_bad_eq_zero, hf, hp, hl]

/-- C5 (amended), at descriptor 5 of the state `demo_sched`. -/
theorem C5_bad_fd_results_witness :
    (task_get demo_sched (task_current demo_sched)).file_table (5 : Int).toNat = none ∧
    (sys_lseek demo_op demo_sched 5 0 0).1 = -1 ∧
    (sys_close demo_op demo_sched 5).1 = -1 ∧
    (sys_fstat demo_op demo_sched 5 4096).1 = -1 ∧
    (sys_dup demo_sched 5).1 = -1 ∧
    (sys_ioctl demo_op demo_sched 5 0 0 0).1 = 0 ∧
    ((4096 = 0 ∨ (16 : Int) = 0) →
      (sys_read demo_op demo_sched 5 4096 16).1 = 0 ∧
      (sys_write demo_op demo_sched 5 4096 16).1 = 0) ∧
    ((0 ≤ (5 : Int) ∧ (5 : Int) < (TASK_OFILE_NR : Int) ∧ 4096 ≠ 0 ∧ (16 : Int) ≠ 0) →
      (sys_read demo_op demo_sched 5 4096 16).1 = -1 ∧
      (sys_write demo_op demo_sched 5 4096 16).1 = -1) :=
  ⟨by decide,
   C5_bad_fd_results demo_op demo_sched 5 (Or.inr (Or.inr (by decide))) 4096 4096 16 0 0 0 0 0⟩

/-- C4 (code at the failing input).  In the state `demo_sched` task 0 forks
and `memory_copy_uvm` fails, returning `(uint32_t)-1`.  The unsigned test
`< 0` does not see the failure: `sys_fork` returns the pid of the child
(199680, the address of slot 3) and not -1, the child is on the ready list,
its slot of the task table stays occupied (its name is not empty), and its
`cr3` holds `0xFFFFFFFF`. -/
theorem C4_fork_copy_failure_unnoticed :
    alloc_task demo_sched = .slot 3 ∧
    (sys_fork demo_sched demo_fork_copy_fails).1 = 199680 ∧
    (sys_fork demo_sched demo_fork_copy_fails).2.task_manager.ready_list =
      [.slot 0, .slot 1, .slot 3] ∧
    ((sys_fork demo_sched demo_fork_copy_fails).2.task_table 3).name = [116] ∧
    ((sys_fork demo_sched demo_fork_copy_fails).2.task_table 3).state = .TASK_READY ∧
    ((sys_fork demo_sched demo_fork_copy_fails).2.task_table 3).tss.cr3 = 0xFFFFFFFF := by
  refine ⟨by decide!, by decide!, by decide!, by decide!, by decide!, by decide!⟩

/-! ### Lemmas on `sys_exit` and `sys_wait` -/

section proc_lemmas

variable {σ : Type}

theorem task_put_task_table (k : kernel σ) (p : task_ptr) (t : task_t) (j : Nat) :
    (task_put k p t).task_table j = if p = .slot j then t else k.task_table j := by
  cases p <;> simp [task_put]
  rename_i i
  by_cases h : j = i
  · simp [h]
  · have : ¬ i = j := fun e => h e.symm
    simp [h, this]

theorem wait_scan_found (k : kernel σ) (p : task_ptr) (i : Nat)
    (hp : (k.task_table i).parent = p) (hz : (k.task_table i).state = .TASK_ZOMBIE)
    (hno : ∀ j < i, ¬ ((k.task_table j).parent = p ∧ (k.task_table j).state = .TASK_ZOMBIE))
    (n : Nat) (hn : i < n) :
    wait_scan k p n = some (i, (k.task_table i).pid, (k.task_table i).status) := by
  induction n with
  | zero => omega
  | succ n ih =>
    unfold wait_scan
    by_cases hin : i < n
    · rw [ih hin]
    · have hi : i = n := by omega
      subst hi
      have hnone : wait_scan k p i = none := by
        clear ih hn hin
        have : ∀ m, m ≤ i → wait_scan k p m = none := by
          intro m
          induction m with
          | zero => intro _; rfl
          | succ m ihm =>
            intro hm
            unfold wait_scan
            rw [ihm (by omega)]
            have := hno m (by omega)
            by_cases h1 : (k.task_table m).parent = p
            · have h2 : ¬ (k.task_table m).state = .TASK_ZOMBIE := fun h => this ⟨h1, h⟩
              simp [h1, h2]
            · simp [h1]
        exact this i (le_refl i)
      rw [hnone]
      simp [hp, hz]

theorem task_get_congr (k k1 : kernel σ) (h1 : k1.task_manager = k.task_manager)
    (h2 : k1.task_table = k.task_table) (q : task_ptr) : task_get k1 q = task_get k q := by
  cases q <;> simp [task_get, h1, h2]

theorem task_put_core (k : kernel σ) (p q : task_ptr) (t : task_t)
    (h : task_core t = task_core (task_get k p)) :
    task_core (task_get (task_put k p t) q) = task_core (task_get k q) := by
  rw [task_get_task_put]
  split
  · rename_i hq
    rw [hq.1, h]
  · rfl

theorem file_free_task_get (k : kernel σ) (p : Nat) (q : task_ptr) :
    task_get (file_free k p) q = task_get k q := by
  unfold file_free
  split
  · exact task_get_congr _ _ rfl rfl q
  · rfl

theorem task_remove_fd_core (k : kernel σ) (fd : Int) (q : task_ptr) :
    task_core (task_get (task_remove_fd k fd) q) = task_core (task_get k q) := by
  unfold task_remove_fd
  split
  · exact task_put_core _ _ _ _ rfl
  · rfl

theorem sys_close_core (op : fs_op_t σ) (k : kernel σ) (fd : Int) (q : task_ptr) :
    task_core (task_get (sys_close op k fd).2 q) = task_core (task_get k q) := by
  unfold sys_close
  split
  · rfl
  · split
    · rfl
    · dsimp only
      rw [task_remove_fd_core]
      split
      · rw [file_free_task_get]
        exact congrArg task_core (task_get_congr _ _ rfl rfl q)
      · exact congrArg task_core (task_get_congr _ _ rfl rfl q)

theorem exit_close_step_core (op : fs_op_t σ) (c : task_ptr) (k : kernel σ) (fd : Nat)
    (q : task_ptr) :
    task_core (task_get (exit_close_step op c k fd) q) = task_core (task_get k q) := by
  unfold exit_close_step
  split
  · dsimp only
    refine (task_put_core _ _ _ _ ?_).trans (sys_close_core op k fd q)
    rfl
  · rfl

theorem exit_close_loop_core (op : fs_op_t σ) (c : task_ptr) (l : List Nat) (k : kernel σ)
    (q : task_ptr) :
    task_core (task_get (l.foldl (exit_close_step op c) k) q) = task_core (task_get k q) := by
  induction l generalizing k with
  | nil => rfl
  | cons fd l ih => rw [List.foldl_cons, ih, exit_close_step_core]

theorem exit_frame_refl (i : Nat) (k : kernel σ) : exit_frame i k k :=
  ⟨rfl, rfl, fun _ _ => ⟨id, Or.inl rfl⟩⟩

theorem exit_frame_trans (i : Nat) (k k1 k2 : kernel σ) (h1 : exit_frame i k k1)
    (h2 : exit_frame i k1 k2) : exit_frame i k k2 := by
  refine ⟨h2.1.trans h1.1, h2.2.1.trans h1.2.1, fun j hj => ⟨?_, ?_⟩⟩
  · exact fun h => (h1.2.2 j hj).1 ((h2.2.2 j hj).1 h)
  · rcases (h2.2.2 j hj).2 with h | h
    · rcases (h1.2.2 j hj).2 with h3 | h3
      · exact Or.inl (h.trans h3)
      · exact Or.inr h3
    · rcases (h1.2.2 j hj).2 with h3 | h3
      · exact Or.inr (h3 ▸ h)
      · exact Or.inr h3

theorem exit_frame_of_core (i : Nat) (k k1 : kernel σ)
    (h : ∀ j, task_core (k1.task_table j) = task_core (k.task_table j)) :
    exit_frame i k k1 := by
  have hh : ∀ j, (k1.task_table j).state = (k.task_table j).state ∧
      (k1.task_table j).parent = (k.task_table j).parent ∧
      (k1.task_table j).pid = (k.task_table j).pid := by
    intro j
    have := h j
    simp only [task_core, Prod.mk.injEq] at this
    exact ⟨this.1, this.2.1, this.2.2.1⟩
  exact ⟨(hh i).2.1, (hh i).2.2, fun j _ => ⟨fun hz => (hh j).1 ▸ hz, Or.inl (hh j).2.1⟩⟩

theorem exit_frame_of_table (i : Nat) (k k1 : kernel σ) (h : k1.task_table = k.task_table) :
    exit_frame i k k1 :=
  exit_frame_of_core i k k1 (fun j => by rw [h])

theorem task_set_ready_frame (i : Nat) (k : kernel σ) (p : task_ptr) :
    exit_frame i k (task_set_ready k p) := by
  unfold task_set_ready
  split
  · dsimp only
    refine ⟨?_, ?_, fun j _ => ⟨?_, ?_⟩⟩
    · rw [task_put_task_table]
      split
      · rename_i h; subst h; rfl
      · rfl
    · rw [task_put_task_table]
      split
      · rename_i h; subst h; rfl
      · rfl
    · rw [task_put_task_table]
      split
      · intro h; cases h
      · exact id
    · rw [task_put_task_table]
      split
      · rename_i h; subst h; exact Or.inl rfl
      · exact Or.inl rfl
  · exact exit_frame_refl i k

theorem exit_reparent_step_frame (i : Nat) (acc : Int × kernel σ) (j : Nat)
    (hpar : (acc.2.task_table i).parent ≠ .slot i) :
    exit_frame i acc.2 (exit_reparent_step (.slot i) acc j).2 := by
  unfold exit_reparent_step
  dsimp only
  split
  · rename_i hj
    have hji : j ≠ i := fun e => hpar (e ▸ hj)
    refine ⟨?_, ?_, fun m _ => ⟨?_, ?_⟩⟩
    · rw [task_put_task_table]
      simp [hji]
    · rw [task_put_task_table]
      simp [hji]
    · rw [task_put_task_table]
      split
      · rename_i h
        injection h with h
        subst h
        exact id
      · exact id
    · rw [task_put_task_table]
      split
      · rename_i h
        injection h with h
        subst h
        exact Or.inr hj
      · exact Or.inl rfl
  · exact exit_frame_refl i acc.2

theorem exit_reparent_loop_frame (i : Nat) (l : List Nat) (acc : Int × kernel σ)
    (hpar : (acc.2.task_table i).parent ≠ .slot i) :
    exit_frame i acc.2 (l.foldl (exit_reparent_step (.slot i)) acc).2 := by
  induction l generalizing acc with
  | nil => exact exit_frame_refl i acc.2
  | cons j l ih =>
    rw [List.foldl_cons]
    have h1 := exit_reparent_step_frame i acc j hpar
    have hpar1 : ((exit_reparent_step (.slot i) acc j).2.task_table i).parent ≠ .slot i := by
      rw [h1.1]; exact hpar
    exact exit_frame_trans i _ _ _ h1 (ih _ hpar1)

theorem exit_wakeup_frame (i : Nat) (k2 : kernel σ) (c : task_ptr) (m : Int) :
    exit_frame i k2 (exit_wakeup k2 c m) := by
  unfold exit_wakeup
  dsimp only
  have h3 : exit_frame i k2
      (if m ≠ 0 ∧ (task_get k2 c).parent ≠ .first_task then
        if k2.task_manager.first_task.state = .TASK_WAITING then task_set_ready k2 .first_task
        else k2
      else k2) := by
    split
    · split
      · exact task_set_ready_frame i k2 _
      · exact exit_frame_refl i k2
    · exact exit_frame_refl i k2
  generalize (if m ≠ 0 ∧ (task_get k2 c).parent ≠ .first_task then
        if k2.task_manager.first_task.state = .TASK_WAITING then task_set_ready k2 .first_task
        else k2
      else k2) = k3 at h3 ⊢
  split
  · exact exit_frame_trans i _ _ _ h3 (task_set_ready_frame i _ _)
  · exact h3

theorem task_dispatch_task_table (k : kernel σ) :
    (task_dispatch k).task_table = k.task_table := by
  unfold task_dispatch
  dsimp only
  split <;> rfl

theorem task_set_block_task_table (k : kernel σ) (p : task_ptr) :
    (task_set_block k p).task_table = k.task_table := by
  unfold task_set_block
  split <;> rfl

theorem sys_exit_effect (op : fs_op_t σ) (k : kernel σ) (s : Int) (i : Nat)
    (hcur : task_current k = .slot i) (hpar : (k.task_table i).parent ≠ .slot i) :
    exit_frame i k (sys_exit op k s) ∧
    ((sys_exit op k s).task_table i).state = .TASK_ZOMBIE ∧
    ((sys_exit op k s).task_table i).status = s := by
  have hk1 : exit_frame i k ((List.range TASK_OFILE_NR).foldl (exit_close_step op (.slot i)) k) :=
    exit_frame_of_core i _ _ (fun j => exit_close_loop_core op _ _ k (.slot j))
  generalize hk1e : (List.range TASK_OFILE_NR).foldl (exit_close_step op (.slot i)) k = k1 at hk1
  have hr := exit_reparent_loop_frame i (List.range TASK_OFILE_NR) ((0 : Int), k1)
    (by rw [hk1.1]; exact hpar)
  generalize hre : (List.range TASK_OFILE_NR).foldl (exit_reparent_step (.slot i))
    ((0 : Int), k1) = r at hr
  have h4 := exit_wakeup_frame i r.2 (.slot i) r.1
  generalize h4e : exit_wakeup r.2 (.slot i) r.1 = k4 at h4
  have hall : exit_frame i k k4 :=
    exit_frame_trans i _ _ _ hk1 (exit_frame_trans i _ _ _ hr h4)
  have hse : sys_exit op k s = task_dispatch (task_set_block (task_put k4 (.slot i)
      { task_get k4 (.slot i) with status := s, state := .TASK_ZOMBIE }) (.slot i)) := by
    unfold sys_exit
    dsimp only
    rw [hcur, hk1e, hre, h4e]
  rw [hse, task_dispatch_task_table, task_set_block_task_table]
  refine ⟨⟨?_, ?_, fun j hj => ?_⟩, ?_, ?_⟩
  · rw [task_dispatch_task_table, task_set_block_task_table, task_put_task_table]
    simp only [if_true]
    exact hall.1
  · rw [task_dispatch_task_table, task_set_block_task_table, task_put_task_table]
    simp only [if_true]
    exact hall.2.1
  · rw [task_dispatch_task_table, task_set_block_task_table, task_put_task_table]
    have hne : ¬ (task_ptr.slot i = task_ptr.slot j) := fun e => hj (task_ptr.slot.inj e).symm
    rw [if_neg hne]
    exact hall.2.2 j hj
  · rw [task_put_task_table]
    simp
  · rw [task_put_task_table]
    simp

theorem copy_opened_files_core (k : kernel σ) (c q : task_ptr) :
    task_core (task_get (copy_opened_files k c) q) = task_core (task_get k q) := by
  unfold copy_opened_files
  generalize List.range TASK_OFILE_NR = l
  induction l generalizing k with
  | nil => rfl
  | cons fd l ih =>
    rw [List.foldl_cons, ih]
    split
    · dsimp only
      refine (task_put_core _ _ _ _ ?_).trans ?_
      · rfl
      · exact congrArg task_core (task_get_congr _ _ rfl rfl q)
    · rfl

theorem copy_opened_files_task_addr (k : kernel σ) (c : task_ptr) :
    (copy_opened_files k c).task_addr = k.task_addr := by
  unfold copy_opened_files
  generalize List.range TASK_OFILE_NR = l
  induction l generalizing k with
  | nil => rfl
  | cons fd l ih =>
    rw [List.foldl_cons, ih]
    split
    · cases c <;> rfl
    · rfl

theorem tss_init_ok (k : kernel σ) (env : fork_env) (c : task_ptr) (flag entry esp : Nat)
    (hgdt : 0 ≤ env.gdt_alloc_desc) (hstack : env.memory_alloc_page ≠ 0)
    (hdir : env.memory_create_uvm ≠ 0) :
    (tss_init k env c flag entry esp).1 = 0 ∧
    ∀ q, task_core (task_get (tss_init k env c flag entry esp).2 q) = task_core (task_get k q) := by
  unfold tss_init
  rw [if_neg (by omega)]
  dsimp only
  rw [if_neg hstack, if_neg hdir]
  refine ⟨rfl, fun q => ?_⟩
  refine (task_put_core _ _ _ _ ?_).trans ?_
  · simp only [task_core]
  · refine task_put_core _ _ _ _ ?_
    simp only [task_core]

theorem task_init_ok (k : kernel σ) (env : fork_env) (i : Nat) (name : List Nat)
    (flag entry esp : Nat)
    (hgdt : 0 ≤ env.gdt_alloc_desc) (hstack : env.memory_alloc_page ≠ 0)
    (hdir : env.memory_create_uvm ≠ 0) :
    (task_init k env (.slot i) name flag entry esp).1 = 0 ∧
    ((task_init k env (.slot i) name flag entry esp).2.task_table i).pid =
      int32 (k.task_addr (.slot i)) ∧
    ∀ j, j ≠ i →
      task_core ((task_init k env (.slot i) name flag entry esp).2.task_table j) =
        task_core (k.task_table j) := by
  have h := tss_init_ok k env (.slot i) flag entry esp hgdt hstack hdir
  unfold task_init
  dsimp only
  rw [if_neg (by rw [h.1]; decide)]
  refine ⟨rfl, ?_, fun j hj => ?_⟩
  · dsimp only
    rw [task_put_task_table, if_pos rfl]
  · dsimp only
    have hne : ¬ (task_ptr.slot i = task_ptr.slot j) := fun e => hj (task_ptr.slot.inj e).symm
    rw [task_put_task_table, if_neg hne]
    exact h.2 (.slot j)

theorem task_set_ready_slot (k : kernel σ) (i j : Nat) :
    (task_set_ready k (.slot i)).task_table j =
      if j = i then { k.task_table i with state := .TASK_READY } else k.task_table j := by
  unfold task_set_ready
  rw [if_pos (fun e => task_ptr.noConfusion e)]
  dsimp only
  rw [task_put_task_table]
  by_cases h : j = i
  · subst h
    simp [task_get]
  · have hne : ¬ (task_ptr.slot i = task_ptr.slot j) := fun e => h (task_ptr.slot.inj e).symm
    rw [if_neg hne, if_neg h]

theorem sys_fork_effect (k : kernel σ) (env : fork_env) (i : Nat)
    (hslot : alloc_task k = .slot i)
    (hgdt : 0 ≤ env.gdt_alloc_desc) (hstack : env.memory_alloc_page ≠ 0)
    (hdir : env.memory_create_uvm ≠ 0) :
    (sys_fork k env).1 = int32 (k.task_addr (.slot i)) ∧
    ((sys_fork k env).2.task_table i).pid = int32 (k.task_addr (.slot i)) ∧
    ((sys_fork k env).2.task_table i).parent = task_current k ∧
    ∀ j, j ≠ i →
      task_core ((sys_fork k env).2.task_table j) = task_core (k.task_table j) := by
  have hi := task_init_ok k env i (task_get k (task_current k)).name 0 env.frame.eip
    ((env.frame.esp + 4 * SYSCALL_PARAM_COUNT) % 2 ^ 32) hgdt hstack hdir
  generalize hre : task_init k env (.slot i) (task_get k (task_current k)).name 0
    env.frame.eip ((env.frame.esp + 4 * SYSCALL_PARAM_COUNT) % 2 ^ 32) = r at hi
  have hc := copy_opened_files_core r.2 (.slot i)
  generalize hk1 : copy_opened_files r.2 (.slot i) = k1 at hc
  have hpid1 : (k1.task_table i).pid = int32 (k.task_addr (.slot i)) := by
    have := hc (.slot i)
    simp only [task_core, Prod.mk.injEq, task_get] at this
    rw [this.2.2.1, hi.2.1]
  have hfork : sys_fork k env =
      ((task_get (task_start (task_put k1 (.slot i)
          { task_get k1 (.slot i) with
            tss := { (task_get k1 (.slot i)).tss with
                      eax := 0, ebx := env.frame.ebx, ecx := env.frame.ecx,
                      edx := env.frame.edx, esi := env.frame.esi, edi := env.frame.edi,
                      ebp := env.frame.ebp, cs := env.frame.cs, ds := env.frame.ds,
                      es := env.frame.es, fs := env.frame.fs, gs := env.frame.gs,
                      eflags := env.frame.eflags, cr3 := env.memory_copy_uvm % 2 ^ 32 },
            parent := task_current k }) (.slot i)) (.slot i)).pid,
       task_start (task_put k1 (.slot i)
          { task_get k1 (.slot i) with
            tss := { (task_get k1 (.slot i)).tss with
                      eax := 0, ebx := env.frame.ebx, ecx := env.frame.ecx,
                      edx := env.frame.edx, esi := env.frame.esi, edi := env.frame.edi,
                      ebp := env.frame.ebp, cs := env.frame.cs, ds := env.frame.ds,
                      es := env.frame.es, fs := env.frame.fs, gs := env.frame.gs,
                      eflags := env.frame.eflags, cr3 := env.memory_copy_uvm % 2 ^ 32 },
            parent := task_current k }) (.slot i)) := by
    unfold sys_fork
    dsimp only
    rw [hslot, if_neg (fun e => task_ptr.noConfusion e), hre, if_neg (by rw [hi.1]; decide), hk1,
      if_neg (Nat.not_lt_zero _)]
  rw [hfork]
  unfold task_start
  dsimp only [task_get]
  simp only [task_set_ready_slot, task_put_task_table, if_true]
  refine ⟨hpid1, hpid1, trivial, fun j hj => ?_⟩
  have hne : ¬ (task_ptr.slot i = task_ptr.slot j) := fun e => hj (task_ptr.slot.inj e).symm
  rw [if_neg hj, if_neg hne]
  have := hc (.slot j)
  simp only [task_get] at this
  rw [this]
  exact hi.2.2 j hj

theorem alloc_task_lt (k : kernel σ) (i : Nat) (h : alloc_task k = .slot i) : i < TASK_NR := by
  unfold alloc_task at h
  split at h
  · rename_i m hm
    have hi : m = i := task_ptr.slot.inj h
    have := List.mem_of_find?_eq_some hm
    rw [List.mem_range] at this
    omega
  · exact task_ptr.noConfusion h

end proc_lemmas

/-- C7.  A task forks (the fork succeeds and creates the child in slot `i`),
the child runs and calls `sys_exit(s)`, then the parent runs and calls
`sys_wait`.  When no zombie child of the parent stands before slot `i` in
the task table, `sys_wait` returns the pid that `sys_fork` returned, stores
`s` as the status, and leaves slot `i` of the task table entirely zero. -/
theorem C7_fork_exit_wait (op : fs_op_t σ) (k : kernel σ) (env : fork_env) (s : Int) (i : Nat)
    (hslot : alloc_task k = .slot i)
    (hgdt : 0 ≤ env.gdt_alloc_desc) (hstack : env.memory_alloc_page ≠ 0)
    (hdir : env.memory_create_uvm ≠ 0)
    (hcur : task_current k ≠ .slot i)
    (hnoz : ∀ j < i, (k.task_table j).state = .TASK_ZOMBIE →
      (k.task_table j).parent ≠ task_current k ∧ (k.task_table j).parent ≠ .slot i) :
    (sys_wait (run_task (sys_exit op (run_task (sys_fork k env).2 (.slot i)) s)
        (task_current k))).1 = some ((sys_fork k env).1, s) ∧
    (sys_wait (run_task (sys_exit op (run_task (sys_fork k env).2 (.slot i)) s)
        (task_current k))).2.task_table i = task_zero := by
  have hf := sys_fork_effect k env i hslot hgdt hstack hdir
  have hlt := alloc_task_lt k i hslot
  generalize (sys_fork k env).2 = k1 at hf
  have he := sys_exit_effect op (run_task k1 (.slot i)) s i rfl
    (by show (k1.task_table i).parent ≠ _; rw [hf.2.2.1]; exact hcur)
  generalize sys_exit op (run_task k1 (.slot i)) s = k2 at he
  obtain ⟨⟨hpar, hpid, hoth⟩, hz, hst⟩ := he
  have hpar2 : (k2.task_table i).parent = task_current k := hpar.trans hf.2.2.1
  have hpid2 : (k2.task_table i).pid = (sys_fork k env).1 := by
    rw [hf.1]; exact hpid.trans hf.2.1
  have hno : ∀ j < i, ¬ ((k2.task_table j).parent = task_current k ∧
      (k2.task_table j).state = .TASK_ZOMBIE) := by
    intro j hj ⟨hp, hzj⟩
    have hji : j ≠ i := by omega
    have hc := hf.2.2.2 j hji
    simp only [task_core, Prod.mk.injEq] at hc
    have h1 := hoth j hji
    have hz1 : (k.task_table j).state = .TASK_ZOMBIE := by
      rw [← hc.1]; exact h1.1 hzj
    have hn := hnoz j hj hz1
    rcases h1.2 with h2 | h2
    · have h3 : (run_task k1 (.slot i)).task_table j = k1.task_table j := rfl
      rw [h3, hc.2.1] at h2
      exact hn.1 (h2 ▸ hp)
    · have h3 : (run_task k1 (.slot i)).task_table j = k1.task_table j := rfl
      rw [h3, hc.2.1] at h2
      exact hn.2 h2
  have hscan := wait_scan_found (run_task k2 (task_current k)) (task_current k) i hpar2 hz hno
    TASK_NR hlt
  have hw : sys_wait (run_task k2 (task_current k)) =
      (some ((k2.task_table i).pid, (k2.task_table i).status),
        task_put (run_task k2 (task_current k)) (.slot i) task_zero) := by
    unfold sys_wait
    have hcur2 : task_current (run_task k2 (task_current k)) = task_current k := rfl
    rw [hcur2]
    dsimp only
    rw [hscan]
    rfl
  rw [hw, hpid2, hst]
  refine ⟨rfl, ?_⟩
  dsimp only
  rw [task_put_task_table, if_pos rfl]

/-- C7, at the state `demo_sched`: task 0 forks into slot 3, the child exits
with status 7 and task 0 waits. -/
theorem C7_fork_exit_wait_witness :
    (sys_wait (run_task (sys_exit demo_op (run_task (sys_fork demo_sched demo_fork_ok).2
        (.slot 3)) 7) (task_current demo_sched))).1 =
      some ((sys_fork demo_sched demo_fork_ok).1, 7) ∧
    (sys_wait (run_task (sys_exit demo_op (run_task (sys_fork demo_sched demo_fork_ok).2
        (.slot 3)) 7) (task_current demo_sched))).2.task_table 3 = task_zero :=
  C7_fork_exit_wait demo_op demo_sched demo_fork_ok 7 3 (by decide!) (by decide) (by decide)
    (by decide) (by decide)
    (fun j hj hz => by
      have h3 : j = 0 ∨ j = 1 ∨ j = 2 := by omega
      rcases h3 with h | h | h <;> subst h <;> exact absurd hz (by decide))

/-! ### Claims on the FAT16 driver: evaluation -/

/-- C2 (code at the failing inputs), on the empty volume `demo_fat` with
512-byte clusters and no disk error.  A new file written with 10 bytes and
then with 5 more bytes has position 15 but in-memory size 20, not
`max(10, 10 + 5) = 15`: `expand_file` adds the 5 bytes that fit in the
cluster and the write loop adds them again.  A file of 10 bytes, rewound and
overwritten with 5 bytes, has position 5 and in-memory size 15, not 10: the
write loop adds every byte written to the size. -/
theorem C2_write_size_double_counted :
    demo_view demo_created = some (0, 0, 0) ∧
    demo_view (demo_then_write demo_created 10) = some (10, 10, 10) ∧
    demo_view (demo_then_write (demo_then_write demo_created 10) 5) = some (5, 15, 20) ∧
    demo_view (demo_then_rewind (demo_then_write demo_created 10)) = some (0, 0, 10) ∧
    demo_view (demo_then_write (demo_then_rewind (demo_then_write demo_created 10)) 5) =
      some (5, 5, 15) := by
  refine ⟨by decide!, by decide!, by decide!, by decide!, by decide!⟩

/-- C10 (counterexample).  The volume `demo_fat_one_file` holds `a.txt` with
700 bytes in the chain 2 -> 3.  Opening it with `O_TRUNC` and access mode
`O_RDONLY` succeeds, reports size 0 and sets the table entries of clusters 2
and 3 to free: the chain is released although the mode is not writable. -/
theorem C10_trunc_rdonly_releases_chain :
    (O_TRUNC ||| O_RDONLY) &&& 3 = O_RDONLY ∧
    read16 demo_fat_one_file.dev.bytes (512 + 2 * 2) = 3 ∧
    read16 demo_fat_one_file.dev.bytes (512 + 2 * 3) = 0xFFF8 ∧
    ((fatfs_open 70000 demo_fat_one_file demo_path (demo_file (O_TRUNC ||| O_RDONLY))).map
      (fun r => (r.1, r.2.1.size, r.2.1.sblk,
        read16 r.2.2.dev.bytes (512 + 2 * 2), read16 r.2.2.dev.bytes (512 + 2 * 3)))) =
      some (0, 0, 0xFFF8, 0, 0) := by
  refine ⟨by decide, by decide!, by decide!, by decide!⟩

/-- C3 (code at the failing input), on the empty volume `demo_fat` with
512-byte clusters and no disk error.  `a.txt` is created with `O_CREAT`,
written with 512, then 100, then 500 bytes (every write returns the count
asked for), closed and unlinked (the unlink returns 0).  Before the file was
created every table entry was free; after the unlink entry 4 still holds the
end mark `0xFFF8` in both copies: the third write linked cluster 3 to a new
cluster 5 and dropped the link to cluster 4, which the second write had
allocated, so the unlink, which follows the chain 2 -> 3 -> 5, does not free
it.  With a single write of 512 or of 700 bytes the unlink restores the
table. -/
theorem C3_unlink_leaves_cluster :
    demo_table demo_fat = List.replicate 8 (0, 0) ∧
    demo_view (demo_then_write demo_created 512) = some (512, 512, 512) ∧
    demo_view (demo_then_write (demo_then_write demo_created 512) 100) = some (100, 612, 612) ∧
    demo_view (demo_then_write (demo_then_write (demo_then_write demo_created 512) 100) 500) =
      some (500, 1112, 1112) ∧
    (demo_then_close
        (demo_then_write (demo_then_write (demo_then_write demo_created 512) 100) 500)).map
      demo_table =
      some [(0, 0), (0, 0), (3, 3), (5, 5), (0xFFF8, 0xFFF8), (0xFFF8, 0xFFF8), (0, 0), (0, 0)] ∧
    (demo_then_unlink (demo_then_close
        (demo_then_write (demo_then_write (demo_then_write demo_created 512) 100) 500))).map
      (fun r => (r.1, demo_table r.2)) =
      some (0, [(0, 0), (0, 0), (0, 0), (0, 0), (0xFFF8, 0xFFF8), (0, 0), (0, 0), (0, 0)]) ∧
    (demo_then_unlink (demo_then_close (demo_then_write demo_created 512))).map
      (fun r => (r.1, demo_table r.2)) = some (0, List.replicate 8 (0, 0)) ∧
    (demo_then_unlink (demo_then_close (demo_then_write demo_created 700))).map
      (fun r => (r.1, demo_table r.2)) = some (0, List.replicate 8 (0, 0)) := by
  refine ⟨by decide!, by decide!, by decide!, by decide!, by decide!, by decide!, by decide!,
    by decide!⟩

/-! ### Lemmas on the FAT16 driver: sectors and table entries -/

section fat_lemmas

theorem geom_eq_refl (a : fat_t) : geom_eq a a :=
  ⟨rfl, rfl, rfl, rfl, rfl, rfl, rfl, rfl, rfl⟩

theorem geom_eq_trans {a b c : fat_t} (h1 : geom_eq a b) (h2 : geom_eq b c) : geom_eq a c := by
  obtain ⟨a1, a2, a3, a4, a5, a6, a7, a8, a9⟩ := h1
  obtain ⟨b1, b2, b3, b4, b5, b6, b7, b8, b9⟩ := h2
  exact ⟨a1.trans b1, a2.trans b2, a3.trans b3, a4.trans b4, a5.trans b5, a6.trans b6,
    a7.trans b7, a8.trans b8, a9.trans b9⟩

theorem fat_wf_of_geom_eq {a b : fat_t} (h : geom_eq a b) (hw : fat_wf a) : fat_wf b := by
  obtain ⟨a1, a2, a3, a4, a5, a6, a7, a8, a9⟩ := h
  exact
    { bps := a4 ▸ hw.bps, spc_pos := a5 ▸ hw.spc_pos, spc_le := a5 ▸ hw.spc_le,
      cbs := by rw [← a9, ← a5]; exact hw.cbs,
      root := by rw [← a7, ← a1, ← a3, ← a2]; exact hw.root,
      data := by rw [← a8, ← a7, ← a6]; exact hw.data,
      root_full := a6 ▸ hw.root_full, cnt_pos := a2 ▸ hw.cnt_pos, cnt_le := a2 ▸ hw.cnt_le,
      start_le := a1 ▸ hw.start_le, sectors_le := a3 ▸ hw.sectors_le,
      ent_le := a6 ▸ hw.ent_le }

theorem disk_xfer_count_ok (d : blkdev_t) (hd : dev_ok d) (addr n : Nat) :
    disk_xfer_count d addr n = n := by
  induction n generalizing addr with
  | zero => rfl
  | succ n ih => simp [disk_xfer_count, hd addr, ih]

theorem bread_sector_dev (fat : fat_t) (s : Nat) : (bread_sector fat s).2.dev = fat.dev := by
  unfold bread_sector
  split
  · rfl
  · dsimp only
    split <;> rfl

theorem bread_sector_geom (fat : fat_t) (s : Nat) : geom_eq fat (bread_sector fat s).2 := by
  unfold bread_sector
  split
  · exact geom_eq_refl _
  · dsimp only
    split <;> exact geom_eq_refl _

theorem bread_sector_ok (fat : fat_t) (hi : fat_inv fat) (s : Nat) (hs : s < fat.data_start) :
    (bread_sector fat s).1 = 0 ∧ fat_inv (bread_sector fat s).2 ∧
    (bread_sector fat s).2.curr_sector = (s : Int) ∧
    ∀ o, o < 512 → (bread_sector fat s).2.fat_buffer o = fat.dev.bytes (s * 512 + o) := by
  obtain ⟨hw, hd, hc⟩ := hi
  unfold bread_sector
  split
  · rename_i heq
    refine ⟨rfl, ⟨hw, hd, hc⟩, heq.symm, ?_⟩
    rcases hc with h | ⟨t, ht, _, hb⟩
    · rw [h] at heq; omega
    · have : t = s := by rw [ht] at heq; omega
      subst this
      exact hb
  · have hr : (dev_read fat.dev s fat.fat_buffer 0 1).1 = 1 := by
      simp [dev_read, disk_xfer_count_ok _ hd]
    dsimp only
    rw [if_pos hr]
    have hb : ∀ o, o < 512 →
        (dev_read fat.dev s fat.fat_buffer 0 1).2 o = fat.dev.bytes (s * 512 + o) := by
      intro o ho
      simp [dev_read, disk_xfer_count_ok _ hd, SECTOR_SIZE, ho]
    refine ⟨rfl, ⟨?_, hd, ?_⟩, rfl, hb⟩
    · exact fat_wf_of_geom_eq (a := fat) ⟨rfl, rfl, rfl, rfl, rfl, rfl, rfl, rfl, rfl⟩ hw
    · exact Or.inr ⟨s, rfl, hs, hb⟩

theorem cluster_is_valid_iff (c : Nat) : cluster_is_valid c = true ↔ 2 ≤ c ∧ c < 0xFFF8 := by
  unfold cluster_is_valid
  simp only [Bool.and_eq_true, decide_eq_true_eq, ge_iff_le]
  constructor
  · rintro ⟨h1, h2⟩; exact ⟨h2, h1⟩
  · rintro ⟨h1, h2⟩; exact ⟨h2, h1⟩

theorem fat_sector_lt_data (fat : fat_t) (hw : fat_wf fat) (s : Nat) (hs : s < fat.tbl_sectors)
    (i : Nat) (hi : i < fat.tbl_cnt) :
    fat.tbl_start + s + i * fat.tbl_sectors < fat.root_start ∧
    fat.root_start ≤ fat.data_start := by
  have h1 := hw.root
  have h2 := hw.data
  have h3 : (i + 1) * fat.tbl_sectors ≤ fat.tbl_sectors * fat.tbl_cnt := by
    rw [Nat.mul_comm fat.tbl_sectors]
    exact Nat.mul_le_mul_right _ hi
  have h4 : (i + 1) * fat.tbl_sectors = i * fat.tbl_sectors + fat.tbl_sectors := by ring
  constructor
  · omega
  · omega

theorem cluster_get_next_dev (fat : fat_t) (c : Nat) :
    (cluster_get_next fat c).2.dev = fat.dev ∧ geom_eq fat (cluster_get_next fat c).2 := by
  unfold cluster_get_next
  split
  · exact ⟨rfl, geom_eq_refl _⟩
  · dsimp only
    split
    · exact ⟨rfl, geom_eq_refl _⟩
    · split
      · exact ⟨bread_sector_dev _ _, bread_sector_geom _ _⟩
      · exact ⟨bread_sector_dev _ _, bread_sector_geom _ _⟩

theorem cluster_get_next_ok (fat : fat_t) (hi : fat_inv fat) (c : Nat)
    (hv : cluster_is_valid c = true) (hc : c < fat_entries fat) :
    (cluster_get_next fat c).1 = fat_entry fat c ∧
    fat_inv (cluster_get_next fat c).2 := by
  have hw := hi.1
  have hsec : c * 2 / 512 < fat.tbl_sectors := by
    unfold fat_entries at hc
    omega
  have hlt := fat_sector_lt_data fat hw (c * 2 / 512) hsec 0 hw.cnt_pos
  have hb := bread_sector_ok fat hi (fat.tbl_start + c * 2 / 512) (by omega)
  unfold cluster_get_next
  rw [if_neg (by simp [hv])]
  dsimp only
  rw [hw.bps, if_neg (by omega), if_neg (by rw [hb.1]; decide)]
  refine ⟨?_, hb.2.1⟩
  dsimp only
  unfold read16 fat_entry read16
  rw [hb.2.2.2 _ (by omega), hb.2.2.2 _ (by omega)]
  have e1 : (fat.tbl_start + c * 2 / 512) * 512 + c * 2 % 512 = fat.tbl_start * 512 + c * 2 := by
    omega
  have e2 : (fat.tbl_start + c * 2 / 512) * 512 + (c * 2 % 512 + 1) =
      fat.tbl_start * 512 + c * 2 + 1 := by omega
  rw [e1, e2]

theorem bwrite_secotr_ok (fat : fat_t) (hd : dev_ok fat.dev) (s : Nat) :
    (bwrite_secotr fat s).1 = 0 ∧ geom_eq fat (bwrite_secotr fat s).2 ∧
    (bwrite_secotr fat s).2.fat_buffer = fat.fat_buffer ∧
    (bwrite_secotr fat s).2.curr_sector = fat.curr_sector ∧
    dev_ok (bwrite_secotr fat s).2.dev ∧
    ∀ a, (bwrite_secotr fat s).2.dev.bytes a =
      if a / 512 = s then fat.fat_buffer (a % 512) else fat.dev.bytes a := by
  unfold bwrite_secotr
  dsimp only
  refine ⟨?_, geom_eq_refl _, rfl, rfl, ?_, ?_⟩
  · simp [dev_write, disk_xfer_count_ok _ hd]
  · intro t
    exact hd t
  · intro a
    simp only [dev_write, disk_xfer_count_ok _ hd, SECTOR_SIZE]
    by_cases h : a / 512 = s
    · rw [if_pos h, if_pos (by omega)]
      congr 1
      omega
    · rw [if_neg h, if_neg (by omega)]

theorem set_next_copies_ok (n : Nat) (fat : fat_t) (hd : dev_ok fat.dev) (sec : Nat) :
    (set_next_copies fat sec n).1 = 0 ∧ geom_eq fat (set_next_copies fat sec n).2 ∧
    (set_next_copies fat sec n).2.fat_buffer = fat.fat_buffer ∧
    (set_next_copies fat sec n).2.curr_sector = fat.curr_sector ∧
    dev_ok (set_next_copies fat sec n).2.dev ∧
    ∀ a, (set_next_copies fat sec n).2.dev.bytes a =
      if (∃ i, i < n ∧ a / 512 = fat.tbl_start + sec + i * fat.tbl_sectors) then
        fat.fat_buffer (a % 512)
      else fat.dev.bytes a := by
  induction n generalizing fat sec with
  | zero =>
    refine ⟨rfl, geom_eq_refl _, rfl, rfl, hd, fun a => ?_⟩
    simp [set_next_copies]
  | succ n ih =>
    have hb := bwrite_secotr_ok fat hd (fat.tbl_start + sec)
    have hr := ih (bwrite_secotr fat (fat.tbl_start + sec)).2 hb.2.2.2.2.1 (sec + fat.tbl_sectors)
    unfold set_next_copies
    dsimp only
    rw [if_neg (by rw [hb.1]; decide)]
    obtain ⟨g1, g2, g3, g4, g5, g6, g7, g8, g9⟩ := hb.2.1
    refine ⟨hr.1, geom_eq_trans hb.2.1 hr.2.1, hr.2.2.1.trans hb.2.2.1,
      hr.2.2.2.1.trans hb.2.2.2.1, hr.2.2.2.2.1, fun a => ?_⟩
    rw [hr.2.2.2.2.2 a, hb.2.2.1, hb.2.2.2.2.2 a, ← g1, ← g3]
    by_cases h0 : a / 512 = fat.tbl_start + sec
    · have hex : ∃ i, i < n + 1 ∧ a / 512 = fat.tbl_start + sec + i * fat.tbl_sectors :=
        ⟨0, by omega, by omega⟩
      rw [if_pos hex, if_pos h0]
      split <;> rfl
    · rw [if_neg h0]
      by_cases h1 : ∃ i, i < n ∧
          a / 512 = fat.tbl_start + (sec + fat.tbl_sectors) + i * fat.tbl_sectors
      · obtain ⟨i, hi, he⟩ := h1
        have hex : ∃ i, i < n + 1 ∧ a / 512 = fat.tbl_start + sec + i * fat.tbl_sectors :=
          ⟨i + 1, by omega, by rw [he]; ring⟩
        rw [if_pos ⟨i, hi, he⟩, if_pos hex]
      · have hex : ¬ ∃ i, i < n + 1 ∧ a / 512 = fat.tbl_start + sec + i * fat.tbl_sectors := by
          rintro ⟨i, hi, he⟩
          cases i with
          | zero => exact h0 (by omega)
          | succ j => exact h1 ⟨j, by omega, by rw [he]; ring⟩
        rw [if_neg h1, if_neg hex]

theorem cluster_set_next_ok (fat : fat_t) (hi : fat_inv fat) (c v : Nat)
    (hv : cluster_is_valid c = true) (hc : c < fat_entries fat) :
    (cluster_set_next fat c v).1 = 0 ∧ geom_eq fat (cluster_set_next fat c v).2 ∧
    fat_inv (cluster_set_next fat c v).2 ∧
    ∀ a, (cluster_set_next fat c v).2.dev.bytes a =
      if (∃ i, i < fat.tbl_cnt ∧ a / 512 = fat.tbl_start + c * 2 / 512 + i * fat.tbl_sectors) then
        write16 (fun o => fat.dev.bytes ((fat.tbl_start + c * 2 / 512) * 512 + o))
          (c * 2 % 512) v (a % 512)
      else fat.dev.bytes a := by
  have hw := hi.1
  have hsec : c * 2 / 512 < fat.tbl_sectors := by
    unfold fat_entries at hc
    omega
  have hlt := fat_sector_lt_data fat hw (c * 2 / 512) hsec 0 hw.cnt_pos
  have hb := bread_sector_ok fat hi (fat.tbl_start + c * 2 / 512) (by omega)
  have hbd := bread_sector_dev fat (fat.tbl_start + c * 2 / 512)
  have hbg := bread_sector_geom fat (fat.tbl_start + c * 2 / 512)
  generalize hrb : bread_sector fat (fat.tbl_start + c * 2 / 512) = rb at hb hbd hbg
  obtain ⟨g1, g2, g3, g4, g5, g6, g7, g8, g9⟩ := hbg
  have hcp := set_next_copies_ok rb.2.tbl_cnt
    { rb.2 with fat_buffer := write16 rb.2.fat_buffer (c * 2 % 512) v }
    (by show dev_ok rb.2.dev; rw [hbd]; exact hi.2.1) (c * 2 / 512)
  have hset : cluster_set_next fat c v = set_next_copies
      { rb.2 with fat_buffer := write16 rb.2.fat_buffer (c * 2 % 512) v }
      (c * 2 / 512) rb.2.tbl_cnt := by
    unfold cluster_set_next
    rw [if_neg (by simp [hv])]
    dsimp only
    rw [hw.bps, if_neg (by omega), hrb, if_neg (by rw [hb.1]; decide)]
  rw [hset]
  generalize set_next_copies
      { rb.2 with fat_buffer := write16 rb.2.fat_buffer (c * 2 % 512) v }
      (c * 2 / 512) rb.2.tbl_cnt = rs at hcp
  obtain ⟨c1, c2, c3, c4, c5, c6⟩ := hcp
  dsimp only at c2 c3 c4 c6
  have hgeom : geom_eq fat rs.2 :=
    geom_eq_trans (b := rb.2) ⟨g1, g2, g3, g4, g5, g6, g7, g8, g9⟩
      (geom_eq_trans (b := { rb.2 with fat_buffer := write16 rb.2.fat_buffer (c * 2 % 512) v })
        ⟨rfl, rfl, rfl, rfl, rfl, rfl, rfl, rfl, rfl⟩ c2)
  have hbuf : ∀ o, o < 512 → rs.2.fat_buffer o =
      write16 (fun o => fat.dev.bytes ((fat.tbl_start + c * 2 / 512) * 512 + o))
        (c * 2 % 512) v o := by
    intro o ho
    rw [c3]
    unfold write16
    split
    · rfl
    · split
      · rfl
      · exact hb.2.2.2 o ho
  have hbytes : ∀ a, rs.2.dev.bytes a =
      if (∃ i, i < fat.tbl_cnt ∧ a / 512 = fat.tbl_start + c * 2 / 512 + i * fat.tbl_sectors) then
        write16 (fun o => fat.dev.bytes ((fat.tbl_start + c * 2 / 512) * 512 + o))
          (c * 2 % 512) v (a % 512)
      else fat.dev.bytes a := by
    intro a
    rw [c6 a, ← g1, ← g2, ← g3, hbd]
    split
    · rw [← hbuf (a % 512) (Nat.mod_lt _ (by decide)), c3]
    · rfl
  refine ⟨c1, hgeom, ⟨fat_wf_of_geom_eq hgeom hw, c5, ?_⟩, hbytes⟩
  refine Or.inr ⟨fat.tbl_start + c * 2 / 512, ?_, ?_, fun o ho => ?_⟩
  · rw [c4]; exact hb.2.2.1
  · rw [← hgeom.2.2.2.2.2.2.2.1]; omega
  · rw [hbytes, if_pos ⟨0, hw.cnt_pos, by omega⟩, hbuf o ho]
    congr 1
    omega

theorem fat_frame_refl (fat : fat_t) : fat_frame fat fat :=
  ⟨geom_eq_refl _, fun _ _ => rfl, id⟩

theorem fat_frame_trans {a b c : fat_t} (h1 : fat_frame a b) (h2 : fat_frame b c) :
    fat_frame a c := by
  refine ⟨geom_eq_trans h1.1 h2.1, fun x hx => ?_, fun h => h2.2.2 (h1.2.2 h)⟩
  have hx2 : x < b.tbl_start * 512 ∨ b.root_start * 512 ≤ x := by
    rw [← h1.1.1, ← h1.1.2.2.2.2.2.2.1]; exact hx
  rw [h2.2.1 x hx2, h1.2.1 x hx]

theorem fat_frame_of_dev {a b : fat_t} (hg : geom_eq a b) (hd : b.dev = a.dev) :
    fat_frame a b := by
  refine ⟨hg, fun x _ => by rw [hd], fun h i o hi ho => ?_⟩
  rw [← hg.1, ← hg.2.2.1, hd]
  exact h i o (by rw [hg.2.1]; exact hi) (by rw [hg.2.2.1]; exact ho)

theorem copy_sector_unique (T x y i j : Nat) (hx : x < T) (hy : y < T)
    (h : j * T + x = y + i * T) : x = y := by
  have h1 : (j * T + x) % T = x := by
    rw [Nat.add_comm, Nat.add_mul_mod_self_right, Nat.mod_eq_of_lt hx]
  have h2 : (y + i * T) % T = y := by
    rw [Nat.add_mul_mod_self_right, Nat.mod_eq_of_lt hy]
  rw [← h1, h, h2]

theorem cluster_get_next_abs (fat : fat_t) (E : Nat → Nat) (ha : fat_abs fat E) (c : Nat)
    (hv : cluster_is_valid c = true) (hc : c < fat_entries fat) :
    (cluster_get_next fat c).1 = E c ∧ fat_abs (cluster_get_next fat c).2 E ∧
    fat_frame fat (cluster_get_next fat c).2 := by
  have h1 := cluster_get_next_ok fat ha.1 c hv hc
  have h2 := cluster_get_next_dev fat c
  refine ⟨h1.1.trans (ha.2 c hc), ⟨h1.2, fun c1 hc1 => ?_⟩, fat_frame_of_dev h2.2 h2.1⟩
  have : fat_entry (cluster_get_next fat c).2 c1 = fat_entry fat c1 := by
    unfold fat_entry
    rw [h2.1, ← h2.2.1]
  rw [this]
  exact ha.2 c1 (by
    unfold fat_entries at hc1 ⊢
    rw [h2.2.2.2.1]; exact hc1)

theorem read16_write16_same (b : bytes_t) (off v : Nat) :
    read16 (write16 b off v) off = v % 65536 := by
  unfold read16 write16
  rw [if_pos rfl, if_neg (Nat.succ_ne_self off), if_pos rfl]
  omega

theorem read16_write16_other (b : bytes_t) (off v o : Nat) (h1 : o ≠ off) (h2 : o + 1 ≠ off)
    (h3 : o ≠ off + 1) : read16 (write16 b off v) o = read16 b o := by
  unfold read16 write16
  rw [if_neg h1, if_neg h3, if_neg h2, if_neg (by omega)]

theorem cluster_set_next_abs (fat : fat_t) (E : Nat → Nat) (ha : fat_abs fat E) (c v : Nat)
    (hv : cluster_is_valid c = true) (hc : c < fat_entries fat) :
    (cluster_set_next fat c v).1 = 0 ∧
    fat_abs (cluster_set_next fat c v).2 (fun x => if x = c then v % 65536 else E x) ∧
    fat_frame fat (cluster_set_next fat c v).2 := by
  have hw := ha.1.1
  obtain ⟨r1, r2, r3, r4⟩ := cluster_set_next_ok fat ha.1 c v hv hc
  generalize cluster_set_next fat c v = rs at r1 r2 r3 r4
  have hq : c * 2 / 512 < fat.tbl_sectors := by
    unfold fat_entries at hc
    omega
  have hroot := hw.root
  refine ⟨r1, ⟨r3, fun c1 hc1 => ?_⟩, r2, fun a hout => ?_, fun heq i o hi ho => ?_⟩
  · have hc1' : c1 < fat_entries fat := by
      unfold fat_entries at hc1 ⊢
      rw [r2.2.2.1]; exact hc1
    have hq1 : c1 * 2 / 512 < fat.tbl_sectors := by
      unfold fat_entries at hc1'
      omega
    show fat_entry rs.2 c1 = if c1 = c then v % 65536 else E c1
    rw [← ha.2 c1 hc1']
    unfold fat_entry read16
    rw [← r2.1, r4, r4]
    have hA : (fat.tbl_start * 512 + c1 * 2) / 512 = fat.tbl_start + c1 * 2 / 512 := by omega
    have hA1 : (fat.tbl_start * 512 + c1 * 2 + 1) / 512 = fat.tbl_start + c1 * 2 / 512 := by
      omega
    rw [hA, hA1]
    by_cases hsame : c1 * 2 / 512 = c * 2 / 512
    · have hex : ∃ i, i < fat.tbl_cnt ∧
          fat.tbl_start + c1 * 2 / 512 = fat.tbl_start + c * 2 / 512 + i * fat.tbl_sectors :=
        ⟨0, hw.cnt_pos, by omega⟩
      rw [if_pos hex, if_pos hex]
      have e1 : (fat.tbl_start * 512 + c1 * 2) % 512 = c1 * 2 % 512 := by omega
      have e2 : (fat.tbl_start * 512 + c1 * 2 + 1) % 512 = c1 * 2 % 512 + 1 := by omega
      rw [e1, e2]
      show read16 (write16 (fun o => fat.dev.bytes ((fat.tbl_start + c * 2 / 512) * 512 + o))
        (c * 2 % 512) v) (c1 * 2 % 512) = _
      by_cases hcc : c1 = c
      · subst hcc
        rw [if_pos rfl, read16_write16_same]
      · rw [if_neg hcc, read16_write16_other _ _ _ _ (by omega) (by omega) (by omega)]
        unfold read16
        dsimp only
        have e3 : (fat.tbl_start + c * 2 / 512) * 512 + c1 * 2 % 512 =
            fat.tbl_start * 512 + c1 * 2 := by omega
        have e4 : (fat.tbl_start + c * 2 / 512) * 512 + (c1 * 2 % 512 + 1) =
            fat.tbl_start * 512 + c1 * 2 + 1 := by omega
        rw [e3, e4]
    · have hex : ¬ ∃ i, i < fat.tbl_cnt ∧
          fat.tbl_start + c1 * 2 / 512 = fat.tbl_start + c * 2 / 512 + i * fat.tbl_sectors := by
        rintro ⟨i, _, he⟩
        have := copy_sector_unique fat.tbl_sectors (c1 * 2 / 512) (c * 2 / 512) i 0 hq1 hq
          (by omega)
        exact hsame this
      have hcc : ¬ c1 = c := fun e => hsame (by rw [e])
      rw [if_neg hex, if_neg hex, if_neg hcc]
  · rw [r4]
    have hex : ¬ ∃ i, i < fat.tbl_cnt ∧
        a / 512 = fat.tbl_start + c * 2 / 512 + i * fat.tbl_sectors := by
      rintro ⟨i, hi, he⟩
      have := (fat_sector_lt_data fat hw (c * 2 / 512) hq i hi).1
      omega
    rw [if_neg hex]
  · rw [← r2.2.1] at hi
    rw [← r2.2.2.1] at ho
    rw [← r2.1, ← r2.2.2.1, r4, r4]
    have hB : ((fat.tbl_start + i * fat.tbl_sectors) * 512 + o) / 512 =
        fat.tbl_start + i * fat.tbl_sectors + o / 512 := by omega
    have hB0 : (fat.tbl_start * 512 + o) / 512 = fat.tbl_start + o / 512 := by omega
    have hBm : ((fat.tbl_start + i * fat.tbl_sectors) * 512 + o) % 512 = o % 512 := by omega
    have hB0m : (fat.tbl_start * 512 + o) % 512 = o % 512 := by omega
    rw [hB, hB0, hBm, hB0m]
    have ho5 : o / 512 < fat.tbl_sectors := by omega
    by_cases hsame : o / 512 = c * 2 / 512
    · have hex1 : ∃ i1, i1 < fat.tbl_cnt ∧ fat.tbl_start + i * fat.tbl_sectors + o / 512 =
          fat.tbl_start + c * 2 / 512 + i1 * fat.tbl_sectors := ⟨i, hi, by omega⟩
      have hex0 : ∃ i1, i1 < fat.tbl_cnt ∧ fat.tbl_start + o / 512 =
          fat.tbl_start + c * 2 / 512 + i1 * fat.tbl_sectors := ⟨0, hw.cnt_pos, by omega⟩
      rw [if_pos hex1, if_pos hex0]
    · have hex1 : ¬ ∃ i1, i1 < fat.tbl_cnt ∧ fat.tbl_start + i * fat.tbl_sectors + o / 512 =
          fat.tbl_start + c * 2 / 512 + i1 * fat.tbl_sectors := by
        rintro ⟨i1, _, he⟩
        exact hsame (copy_sector_unique fat.tbl_sectors (o / 512) (c * 2 / 512) i1 i ho5 hq
          (by omega))
      have hex0 : ¬ ∃ i1, i1 < fat.tbl_cnt ∧ fat.tbl_start + o / 512 =
          fat.tbl_start + c * 2 / 512 + i1 * fat.tbl_sectors := by
        rintro ⟨i1, _, he⟩
        exact hsame (copy_sector_unique fat.tbl_sectors (o / 512) (c * 2 / 512) i1 0 ho5 hq
          (by omega))
      rw [if_neg hex1, if_neg hex0]
      exact heq i o hi ho

end fat_lemmas

/-! ### Lemmas on the FAT16 driver: cluster chains -/

section chain_lemmas

theorem fat_entry_lt (fat : fat_t) (c : Nat) : fat_entry fat c < 65536 := by
  unfold fat_entry read16
  omega

theorem fat_abs_lt {fat : fat_t} {E : Nat → Nat} (ha : fat_abs fat E) {c : Nat}
    (hc : c < fat_entries fat) : E c < 65536 := by
  rw [← ha.2 c hc]; exact fat_entry_lt fat c

theorem fat_entries_frame {a b : fat_t} (h : fat_frame a b) : fat_entries b = fat_entries a := by
  unfold fat_entries
  rw [h.1.2.2.1]

theorem links_congr (E E1 : Nat → Nat) (l : List Nat) (h : ∀ x, x ∈ l → E1 x = E x)
    (hl : links E l) : links E1 l := by
  induction l with
  | nil => trivial
  | cons x l ih =>
    cases l with
    | nil => trivial
    | cons y l =>
      refine ⟨?_, ih (fun z hz => h z (List.mem_cons_of_mem _ hz)) hl.2⟩
      rw [h x (List.mem_cons_self _ _)]
      exact hl.1

theorem cluster_free_chain_invalid (fuel : Nat) (fat : fat_t) (c : Nat)
    (hc : cluster_is_valid c = false) :
    cluster_free_chain (fuel + 1) fat c = some fat := by
  unfold cluster_free_chain
  simp [hc]

theorem cluster_free_chain_spec (l : List Nat) :
    ∀ (fuel : Nat) (fat : fat_t) (E : Nat → Nat) (e : Nat),
      fat_abs fat E → is_chain fat E l e → cluster_is_valid (e % 65536) = false →
      l ≠ [] → l.length + 1 ≤ fuel →
      ∃ fat1, cluster_free_chain fuel fat (l.headD 0) = some fat1 ∧
        fat_abs fat1 (fun x => if x ∈ l then 0 else E x) ∧ fat_frame fat fat1 := by
  induction l with
  | nil => intro _ _ _ _ _ _ _ h; exact absurd rfl h
  | cons x l ih =>
    intro fuel fat E e ha hch he _ hfuel
    obtain ⟨hok, hnd, hlk, hlast⟩ := hch
    have hx := hok x (List.mem_cons_self _ _)
    obtain ⟨fuel1, rfl⟩ : ∃ f, fuel = f + 1 := ⟨fuel - 1, by simp at hfuel; omega⟩
    have hg := cluster_get_next_abs fat E ha x hx.1 hx.2
    have hs := cluster_set_next_abs (cluster_get_next fat x).2 E hg.2.1 x FAT_CLUSTER_FREE hx.1
      (by rw [fat_entries_frame hg.2.2]; exact hx.2)
    have hstep : cluster_free_chain (fuel1 + 1) fat x =
        cluster_free_chain fuel1
          (cluster_set_next (cluster_get_next fat x).2 x FAT_CLUSTER_FREE).2 (E x % 65536) := by
      conv => lhs; unfold cluster_free_chain
      rw [if_pos hx.1]
      dsimp only
      rw [hg.1]
    simp only [List.headD_cons]
    rw [hstep]
    generalize (cluster_set_next (cluster_get_next fat x).2 x FAT_CLUSTER_FREE).2 = fat2 at hs
    have hfr : fat_frame fat fat2 := fat_frame_trans hg.2.2 hs.2.2
    have hE2 : fat_abs fat2 (fun y => if y = x then 0 else E y) := by
      have := hs.2.1
      simpa [FAT_CLUSTER_FREE] using this
    cases l with
    | nil =>
      have hEx : E x = e := hlast x rfl
      obtain ⟨fuel2, rfl⟩ : ∃ f, fuel1 = f + 1 := ⟨fuel1 - 1, by simp at hfuel; omega⟩
      rw [hEx, cluster_free_chain_invalid _ _ _ he]
      refine ⟨fat2, rfl, ?_, hfr⟩
      refine ⟨hE2.1, fun c hc => ?_⟩
      rw [hE2.2 c hc]
      simp
    | cons y l =>
      have hxy : E x = y := hlk.1
      have hy := hok y (List.mem_cons_of_mem _ (List.mem_cons_self _ _))
      have hylt : y % 65536 = y := by
        have := (cluster_is_valid_iff y).mp hy.1
        omega
      have hxnot : x ∉ y :: l := (List.nodup_cons.mp hnd).1
      have hch2 : is_chain fat2 (fun z => if z = x then 0 else E z) (y :: l) e := by
        refine ⟨fun z hz => ?_, (List.nodup_cons.mp hnd).2, ?_, fun z hz => ?_⟩
        · have := hok z (List.mem_cons_of_mem _ hz)
          exact ⟨this.1, by rw [fat_entries_frame hfr]; exact this.2⟩
        · refine links_congr E _ _ (fun z hz => ?_) hlk.2
          have : z ≠ x := fun h => hxnot (h ▸ hz)
          simp [this]
        · have hz1 : z ∈ y :: l := List.mem_of_mem_getLast? hz
          have : z ≠ x := fun h => hxnot (h ▸ hz1)
          simp only [this, if_false]
          exact hlast z (by rw [List.getLast?_cons_cons]; exact hz)
      obtain ⟨fat3, h3, ha3, hf3⟩ := ih fuel1 fat2 _ e hE2 hch2 he (by simp)
        (by simp at hfuel ⊢; omega)
      rw [hxy, hylt]
      simp only [List.headD_cons] at h3
      refine ⟨fat3, h3, ⟨ha3.1, fun c hc => ?_⟩, fat_frame_trans hfr hf3⟩
      rw [ha3.2 c hc]
      by_cases hcx : c = x
      · subst hcx
        simp
      · by_cases hcl : c ∈ y :: l
        · simp [hcl]
        · simp [hcl, hcx]

theorem first_free_tail {E : Nat → Nat} {n curr x : Nat} {l : List Nat}
    (h : first_free E n curr (x :: l)) (E1 : Nat → Nat)
    (hE : ∀ y, curr ≤ y → E1 y = E y) : first_free E1 n (x + 1) l := by
  obtain ⟨hs, hm, hn⟩ := h
  have hsx : ∀ z, z ∈ l → x < z := fun z hz => List.rel_of_pairwise_cons hs hz
  have hcx : curr ≤ x := (hm x (List.mem_cons_self _ _)).1
  refine ⟨List.Pairwise.of_cons hs, fun z hz => ?_, fun y hy hex hyl => ?_⟩
  · have := hm z (List.mem_cons_of_mem _ hz)
    have h1 := hsx z hz
    refine ⟨by omega, this.2.1, this.2.2.1, ?_⟩
    rw [hE z (by omega)]; exact this.2.2.2
  · obtain ⟨z, hz, hyz⟩ := hex
    rw [hE y (by omega)]
    refine hn y (by omega) ⟨z, List.mem_cons_of_mem _ hz, hyz⟩ ?_
    intro hmem
    rcases List.mem_cons.mp hmem with h1 | h1
    · omega
    · exact hyl h1

theorem first_free_skip {E : Nat → Nat} {n curr : Nat} {l : List Nat}
    (h : first_free E n curr l) (hc : curr ∉ l) : first_free E n (curr + 1) l := by
  obtain ⟨hs, hm, hn⟩ := h
  refine ⟨hs, fun z hz => ?_, fun y hy hex hyl => hn y (by omega) hex hyl⟩
  have := hm z hz
  have hne : z ≠ curr := fun e => hc (e ▸ hz)
  exact ⟨by omega, this.2.1, this.2.2.1, this.2.2.2⟩

theorem cluster_alloc_loop_spec (n : Nat) :
    ∀ (fuel : Nat) (l : List Nat) (fat : fat_t) (E : Nat → Nat) (pre curr start : Nat),
      fat_abs fat E → fat_entries fat = n → 2 ≤ curr → first_free E n curr l →
      (cluster_is_valid pre = true → pre < n ∧ pre < curr) →
      1 ≤ fuel → (∀ x, x ∈ l → x + 2 ≤ curr + fuel) →
      ∃ fat1, cluster_alloc_loop n fuel fat pre curr start l.length =
          some (none, l.getLastD pre,
            (if cluster_is_valid start = true then start else l.headD start), 0, fat1) ∧
        fat_abs fat1 (link_from E pre l) ∧ fat_frame fat fat1 := by
  intro fuel
  induction fuel with
  | zero => intro _ _ _ _ _ _ _ _ _ _ _ h; omega
  | succ fuel ih =>
    intro l fat E pre curr start ha hn hcurr hff hpre _ hfuel
    cases l with
    | nil =>
      refine ⟨fat, ?_, ha, fat_frame_refl fat⟩
      unfold cluster_alloc_loop
      simp
    | cons x l =>
      obtain ⟨hs, hm, hnf⟩ := hff
      have hx := hm x (List.mem_cons_self _ _)
      have hcv : cluster_is_valid curr = true := (cluster_is_valid_iff curr).mpr ⟨hcurr, by omega⟩
      have hcn : curr < fat_entries fat := by omega
      have hg := cluster_get_next_abs fat E ha curr hcv hcn
      have hwrap : (curr + 1) % 65536 = curr + 1 := by omega
      have hfuel1 : 1 ≤ fuel := by
        have := hfuel x (List.mem_cons_self _ _)
        omega
      by_cases hcx : curr = x
      · subst hcx
        have hE0 : E curr = 0 := hx.2.2.2
        have hff1 : ∀ E1 : Nat → Nat, (∀ y, curr ≤ y → E1 y = E y) →
            first_free E1 n (curr + 1) l := first_free_tail ⟨hs, hm, hnf⟩
        have hfuel2 : ∀ z, z ∈ l → z + 2 ≤ curr + 1 + fuel := fun z hz => by
          have := hfuel z (List.mem_cons_of_mem _ hz)
          omega
        by_cases hpv : cluster_is_valid pre = true
        · have hp := hpre hpv
          have hsn := cluster_set_next_abs (cluster_get_next fat curr).2 E hg.2.1 pre curr hpv
            (by rw [fat_entries_frame hg.2.2]; omega)
          have hstep : cluster_alloc_loop n (fuel + 1) fat pre curr start (curr :: l).length =
              cluster_alloc_loop n fuel
                (cluster_set_next (cluster_get_next fat curr).2 pre curr).2 curr (curr + 1)
                (if ¬ cluster_is_valid start = true then curr else start) l.length := by
            conv => lhs; unfold cluster_alloc_loop
            rw [if_pos ⟨by omega, by simp⟩]
            dsimp only
            rw [hg.1, hE0, if_pos (show (0 : Nat) = FAT_CLUSTER_FREE from rfl), if_pos hpv, if_neg (by rw [hsn.1]; decide), hwrap]
            simp
          generalize (cluster_set_next (cluster_get_next fat curr).2 pre curr).2 = fat2 at hsn hstep
          have hmod : curr % 65536 = curr := by omega
          rw [hmod] at hsn
          have hfr : fat_frame fat fat2 := fat_frame_trans hg.2.2 hsn.2.2
          obtain ⟨fat3, h3, ha3, hf3⟩ := ih l fat2 _ curr (curr + 1)
            (if ¬ cluster_is_valid start = true then curr else start) hsn.2.1
            (by rw [fat_entries_frame hfr]; exact hn) (by omega)
            (hff1 _ (fun y hy => by
              have : y ≠ pre := by omega
              simp [this]))
            (fun _ => ⟨by omega, by omega⟩) hfuel1 hfuel2
          refine ⟨fat3, ?_, ?_, fat_frame_trans hfr hf3⟩
          · have hlast : (curr :: l).getLastD pre = l.getLastD curr := by
              cases l <;> rfl
            have hstart : (if cluster_is_valid
                  (if ¬ cluster_is_valid start = true then curr else start) = true then
                  (if ¬ cluster_is_valid start = true then curr else start)
                else l.headD (if ¬ cluster_is_valid start = true then curr else start)) =
                (if cluster_is_valid start = true then start else (curr :: l).headD start) := by
              by_cases hsv : cluster_is_valid start = true
              · simp [hsv]
              · simp [hsv, hcv]
            rw [hstep, h3, hlast, hstart]
          · have : link_from E pre (curr :: l) =
                link_from (fun x => if x = pre then curr else E x) curr l := by
              show link_from
                (fun y => if cluster_is_valid pre = true ∧ y = pre then curr else E y) curr l = _
              funext y
              simp [hpv]
            rw [this]
            exact ha3
        · have hstep : cluster_alloc_loop n (fuel + 1) fat pre curr start (curr :: l).length =
              cluster_alloc_loop n fuel (cluster_get_next fat curr).2 curr (curr + 1)
                (if ¬ cluster_is_valid start = true then curr else start) l.length := by
            conv => lhs; unfold cluster_alloc_loop
            rw [if_pos ⟨by omega, by simp⟩]
            dsimp only
            rw [hg.1, hE0, if_pos (show (0 : Nat) = FAT_CLUSTER_FREE from rfl), if_neg hpv, hwrap]
            simp
          obtain ⟨fat3, h3, ha3, hf3⟩ := ih l (cluster_get_next fat curr).2 E curr (curr + 1)
            (if ¬ cluster_is_valid start = true then curr else start) hg.2.1
            (by rw [fat_entries_frame hg.2.2]; exact hn) (by omega)
            (hff1 _ (fun y _ => rfl))
            (fun _ => ⟨by omega, by omega⟩) hfuel1 hfuel2
          refine ⟨fat3, ?_, ?_, fat_frame_trans hg.2.2 hf3⟩
          · have hlast : (curr :: l).getLastD pre = l.getLastD curr := by
              cases l <;> rfl
            have hstart : (if cluster_is_valid
                  (if ¬ cluster_is_valid start = true then curr else start) = true then
                  (if ¬ cluster_is_valid start = true then curr else start)
                else l.headD (if ¬ cluster_is_valid start = true then curr else start)) =
                (if cluster_is_valid start = true then start else (curr :: l).headD start) := by
              by_cases hsv : cluster_is_valid start = true
              · simp [hsv]
              · simp [hsv, hcv]
            rw [hstep, h3, hlast, hstart]
          · have : link_from E pre (curr :: l) = link_from E curr l := by
              show link_from
                (fun y => if cluster_is_valid pre = true ∧ y = pre then curr else E y) curr l = _
              funext y
              simp [hpv]
            rw [this]
            exact ha3
      · have hlt : curr < x := by omega
        have hnotin : curr ∉ x :: l := by
          intro hmem
          rcases List.mem_cons.mp hmem with h1 | h1
          · exact hcx h1
          · have := List.rel_of_pairwise_cons hs h1
            omega
        have hEc : E curr ≠ 0 := hnf curr (le_refl _) ⟨x, List.mem_cons_self _ _, hlt⟩ hnotin
        have hstep : cluster_alloc_loop n (fuel + 1) fat pre curr start (x :: l).length =
            cluster_alloc_loop n fuel (cluster_get_next fat curr).2 pre (curr + 1) start
              (x :: l).length := by
          conv => lhs; unfold cluster_alloc_loop
          rw [if_pos ⟨by omega, by simp⟩]
          dsimp only
          rw [hg.1, if_neg (by simpa [FAT_CLUSTER_FREE] using hEc), hwrap]
        obtain ⟨fat3, h3, ha3, hf3⟩ := ih (x :: l) (cluster_get_next fat curr).2 E pre (curr + 1)
          start hg.2.1 (by rw [fat_entries_frame hg.2.2]; exact hn) (by omega)
          (first_free_skip ⟨hs, hm, hnf⟩ hnotin)
          (fun hv => ⟨(hpre hv).1, by have := (hpre hv).2; omega⟩) hfuel1
          (fun z hz => by have := hfuel z hz; omega)
        exact ⟨fat3, by rw [hstep, h3], ha3, fat_frame_trans hg.2.2 hf3⟩

theorem link_from_spec (l : List Nat) :
    ∀ (E : Nat → Nat) (pre : Nat), l.Pairwise (· < ·) →
      (cluster_is_valid pre = true → ∀ x, x ∈ l → pre < x) →
      (∀ x, x ∈ l → cluster_is_valid x = true) →
      (∀ y, y ∉ l → ¬ (cluster_is_valid pre = true ∧ y = pre ∧ l ≠ []) →
        link_from E pre l y = E y) ∧
      links (link_from E pre l) l ∧
      (∀ x, l.getLast? = some x → link_from E pre l x = E x) ∧
      (cluster_is_valid pre = true → ∀ x, l.head? = some x → link_from E pre l pre = x) := by
  induction l with
  | nil =>
    intro E pre _ _ _
    refine ⟨fun _ _ _ => rfl, trivial, fun x hx => ?_, fun _ x hx => ?_⟩
    · simp at hx
    · simp at hx
  | cons x l ih =>
    intro E pre hs hpre hval
    have hxl : ∀ z, z ∈ l → x < z := fun z hz => List.rel_of_pairwise_cons hs hz
    have hxv := hval x (List.mem_cons_self _ _)
    obtain ⟨ia, ib, ic, id⟩ := ih
      (fun y => if cluster_is_valid pre = true ∧ y = pre then x else E y) x
      (List.Pairwise.of_cons hs) (fun _ z hz => hxl z hz)
      (fun z hz => hval z (List.mem_cons_of_mem _ hz))
    have hunf : link_from E pre (x :: l) =
        link_from (fun y => if cluster_is_valid pre = true ∧ y = pre then x else E y) x l := rfl
    have hprex : cluster_is_valid pre = true → pre ≠ x := fun hv e => by
      have := hpre hv x (List.mem_cons_self _ _)
      omega
    refine ⟨fun y hy hnp => ?_, ?_, fun z hz => ?_, fun hv z hz => ?_⟩
    · rw [hunf, ia y (fun h => hy (List.mem_cons_of_mem _ h))
        (fun h => hy (h.2.1 ▸ List.mem_cons_self _ _))]
      have : ¬ (cluster_is_valid pre = true ∧ y = pre) := fun h => hnp ⟨h.1, h.2, by simp⟩
      simp only [this, if_false]
    · rw [hunf]
      cases l with
      | nil => trivial
      | cons z l => exact ⟨id hxv z rfl, ib⟩
    · rw [hunf]
      cases l with
      | nil =>
        simp only [List.getLast?_singleton, Option.some.injEq] at hz
        subst hz
        show (if cluster_is_valid pre = true ∧ x = pre then x else E x) = E x
        have : ¬ (cluster_is_valid pre = true ∧ x = pre) := fun h => hprex h.1 h.2.symm
        simp only [this, if_false]
      | cons w l =>
        rw [List.getLast?_cons_cons] at hz
        rw [ic z hz]
        have hzm : z ∈ w :: l := List.mem_of_mem_getLast? hz
        have : ¬ (cluster_is_valid pre = true ∧ z = pre) := fun h => by
          have := hpre h.1 z (List.mem_cons_of_mem _ hzm)
          omega
        simp only [this, if_false]
    · simp only [List.head?_cons, Option.some.injEq] at hz
      subst hz
      rw [hunf, ia pre (fun h => by have := hxl pre h; have := hpre hv x (List.mem_cons_self _ _); omega)
        (fun h => hprex hv h.2.1)]
      simp [hv]

theorem links_update_last (E : Nat → Nat) (v : Nat) (l : List Nat) (hnd : l.Nodup)
    (hl : links E l) (z : Nat) (hz : l.getLast? = some z) :
    links (fun y => if y = z then v else E y) l := by
  induction l with
  | nil => trivial
  | cons x l ih =>
    cases l with
    | nil => trivial
    | cons y l =>
      rw [List.getLast?_cons_cons] at hz
      have hzm : z ∈ y :: l := List.mem_of_mem_getLast? hz
      have hxz : x ≠ z := fun e => (List.nodup_cons.mp hnd).1 (e ▸ hzm)
      refine ⟨?_, ih (List.nodup_cons.mp hnd).2 hl.2 hz⟩
      simp only [hxz, if_false]
      exact hl.1

theorem first_free_clusters_ok {fat : fat_t} {E : Nat → Nat} {curr : Nat} {l : List Nat}
    (hc : 2 ≤ curr) (h : first_free E (fat_entries fat) curr l) :
    clusters_ok fat l ∧ l.Nodup := by
  refine ⟨fun x hx => ?_, ?_⟩
  · have := h.2.1 x hx
    exact ⟨(cluster_is_valid_iff x).mpr ⟨by omega, this.2.2.1⟩, this.2.1⟩
  · exact h.1.imp (fun hab => Nat.ne_of_lt hab)

theorem cluster_alloc_free_spec (fuel : Nat) (fat : fat_t) (E : Nat → Nat) (l : List Nat)
    (ha : fat_abs fat E) (hff : first_free E (fat_entries fat) 2 l) (hl : l ≠ [])
    (hfuel : 65536 ≤ fuel) :
    ∃ fat1 E1, cluster_alloc_free fuel fat l.length = some (l.headD 0, fat1) ∧
      fat_abs fat1 E1 ∧ fat_frame fat fat1 ∧ is_chain fat1 E1 l FAT_CLUSTER_INVALID ∧
      (∀ y, y ∉ l → E1 y = E y) := by
  have hw := ha.1.1
  have hinv : cluster_is_valid FAT_CLUSTER_INVALID = false := by decide
  have hct : fat.tbl_sectors * fat.bytes_per_sec / 2 = fat_entries fat := by
    unfold fat_entries
    rw [hw.bps]
    omega
  obtain ⟨hok, hnd⟩ := first_free_clusters_ok (le_refl 2) hff
  obtain ⟨fat1, h1, ha1, hf1⟩ := cluster_alloc_loop_spec (fat_entries fat) fuel l fat E
    FAT_CLUSTER_INVALID 2 FAT_CLUSTER_INVALID ha rfl (le_refl 2) hff
    (fun h => by rw [hinv] at h; exact absurd h (by decide)) (by omega)
    (fun x hx => by have := (hff.2.1 x hx).2.2.1; omega)
  obtain ⟨z, hz⟩ : ∃ z, l.getLast? = some z := by
    cases hgl : l.getLast? with
    | none => exact absurd (List.getLast?_eq_none_iff.mp hgl) hl
    | some z => exact ⟨z, rfl⟩
  have hzm : z ∈ l := List.mem_of_mem_getLast? hz
  have hlastD : l.getLastD FAT_CLUSTER_INVALID = z := by
    rw [List.getLastD_eq_getLast?, hz]; rfl
  have hheadD : l.headD FAT_CLUSTER_INVALID = l.headD 0 := by
    cases l with
    | nil => exact absurd rfl hl
    | cons x l => rfl
  have hzok := hok z hzm
  have hs := cluster_set_next_abs fat1 _ ha1 z FAT_CLUSTER_INVALID hzok.1
    (by rw [fat_entries_frame hf1]; exact hzok.2)
  obtain ⟨la, lb, lc, _⟩ := link_from_spec l E FAT_CLUSTER_INVALID hff.1
    (fun h => by rw [hinv] at h; exact absurd h (by decide)) (fun x hx => (hok x hx).1)
  refine ⟨(cluster_set_next fat1 z FAT_CLUSTER_INVALID).2, _, ?_, hs.2.1,
    fat_frame_trans hf1 hs.2.2, ⟨fun x hx => ?_, hnd, ?_, fun x hx => ?_⟩, fun y hy => ?_⟩
  · unfold cluster_alloc_free
    dsimp only
    rw [hct, h1, hinv]
    simp only [Bool.false_eq_true, if_false, hlastD, hheadD, if_true, true_and]
    rw [if_pos hs.1]
  · have := hok x hx
    exact ⟨this.1, by rw [fat_entries_frame (fat_frame_trans hf1 hs.2.2)]; exact this.2⟩
  · exact links_update_last _ _ l hnd lb z hz
  · rw [hz] at hx
    injection hx with hx
    subst hx
    simp [FAT_CLUSTER_INVALID]
  · have hyz : y ≠ z := fun e => hy (e ▸ hzm)
    simp only [hyz, if_false]
    exact la y hy (fun h => by rw [hinv] at h; exact absurd h.1 (by decide))

end chain_lemmas

/-! ### Lemmas on the FAT16 driver: the root directory -/

section dir_lemmas

theorem root_sector_lt_data (fat : fat_t) (hw : fat_wf fat) (i : Nat) (h : i < fat.root_ent_cnt) :
    fat.root_start + i * 32 / 512 < fat.data_start := by
  have h1 := hw.data
  have h2 := hw.root_full
  omega

theorem read_dir_entry_ok (fat : fat_t) (hi : fat_inv fat) (i : Nat) (h : i < fat.root_ent_cnt) :
    (read_dir_entry fat (i : Int)).1 = some (i * 32 % 512) ∧
    fat_inv (read_dir_entry fat (i : Int)).2 ∧
    (read_dir_entry fat (i : Int)).2.dev = fat.dev ∧
    geom_eq fat (read_dir_entry fat (i : Int)).2 ∧
    (read_dir_entry fat (i : Int)).2.curr_sector = ((fat.root_start + i * 32 / 512 : Nat) : Int) ∧
    ∀ o, o < 512 → (read_dir_entry fat (i : Int)).2.fat_buffer o =
      fat.dev.bytes ((fat.root_start + i * 32 / 512) * 512 + o) := by
  have hw := hi.1
  have hb := bread_sector_ok fat hi (fat.root_start + i * 32 / 512)
    (root_sector_lt_data fat hw i h)
  unfold read_dir_entry
  rw [if_neg (by omega)]
  dsimp only
  rw [hw.bps, Int.toNat_ofNat, if_neg (by rw [hb.1]; decide)]
  exact ⟨rfl, hb.2.1, bread_sector_dev _ _, bread_sector_geom _ _, hb.2.2.1, hb.2.2.2⟩

theorem fatfs_open_scan_ok (path : List Nat) :
    ∀ (n i : Nat) (p : Int) (fat : fat_t), fat_inv fat → i + n ≤ fat.root_ent_cnt →
      (fatfs_open_scan path n i p fat).1 = 0 ∧
      fat_inv (fatfs_open_scan path n i p fat).2.2.2 ∧
      (fatfs_open_scan path n i p fat).2.2.2.dev = fat.dev ∧
      geom_eq fat (fatfs_open_scan path n i p fat).2.2.2 ∧
      ∀ off, (fatfs_open_scan path n i p fat).2.1 = some off →
        ∃ j, j < fat.root_ent_cnt ∧ (fatfs_open_scan path n i p fat).2.2.1 = (j : Int) ∧
          off = j * 32 % 512 ∧
          ∀ o, o < 512 → (fatfs_open_scan path n i p fat).2.2.2.fat_buffer o =
            fat.dev.bytes ((fat.root_start + j * 32 / 512) * 512 + o) := by
  intro n
  induction n with
  | zero =>
    intro i p fat hi _
    exact ⟨rfl, hi, rfl, geom_eq_refl _, fun off h => by cases h⟩
  | succ n ih =>
    intro i p fat hi hn
    have hr := read_dir_entry_ok fat hi i (by omega)
    unfold fatfs_open_scan
    generalize hrd : read_dir_entry fat (i : Int) = r at hr
    obtain ⟨r1, fat1⟩ := r
    dsimp only at hr
    obtain ⟨h1, h2, h3, h4, _, h6⟩ := hr
    subst h1
    dsimp only
    have hrec : ∀ q, (fatfs_open_scan path n (i + 1) q fat1).1 = 0 ∧
        fat_inv (fatfs_open_scan path n (i + 1) q fat1).2.2.2 ∧
        (fatfs_open_scan path n (i + 1) q fat1).2.2.2.dev = fat.dev ∧
        geom_eq fat (fatfs_open_scan path n (i + 1) q fat1).2.2.2 ∧
        ∀ off, (fatfs_open_scan path n (i + 1) q fat1).2.1 = some off →
          ∃ j, j < fat.root_ent_cnt ∧ (fatfs_open_scan path n (i + 1) q fat1).2.2.1 = (j : Int) ∧
            off = j * 32 % 512 ∧
            ∀ o, o < 512 → (fatfs_open_scan path n (i + 1) q fat1).2.2.2.fat_buffer o =
              fat.dev.bytes ((fat.root_start + j * 32 / 512) * 512 + o) := by
      intro q
      have hcnt : fat1.root_ent_cnt = fat.root_ent_cnt := h4.2.2.2.2.2.1.symm
      have hrs : fat1.root_start = fat.root_start := h4.2.2.2.2.2.2.1.symm
      have := ih (i + 1) q fat1 h2 (by omega)
      rw [hcnt, hrs, h3] at this
      exact ⟨this.1, this.2.1, this.2.2.1, geom_eq_trans h4 this.2.2.2.1, this.2.2.2.2⟩
    split
    · exact ⟨rfl, h2, h3, h4, fun off h => by cases h⟩
    · split
      · exact hrec _
      · split
        · refine ⟨rfl, h2, h3, h4, fun off h => ?_⟩
          injection h with h
          exact ⟨i, by omega, rfl, h.symm, h6⟩
        · exact hrec _

end dir_lemmas

/-! ### Claims on the FAT16 driver: opening an existing file -/

section open_lemmas

theorem fat_abs_of_dev {fat fat1 : fat_t} {E : Nat → Nat} (ha : fat_abs fat E)
    (hi : fat_inv fat1) (hg : geom_eq fat fat1) (hd : fat1.dev = fat.dev) : fat_abs fat1 E := by
  refine ⟨hi, fun c hc => ?_⟩
  have h1 : fat_entries fat1 = fat_entries fat := by
    unfold fat_entries; rw [hg.2.2.1]
  rw [h1] at hc
  rw [← ha.2 c hc]
  unfold fat_entry
  rw [hd, hg.1]

theorem is_chain_geom {fat fat1 : fat_t} {E : Nat → Nat} {l : List Nat} {e : Nat}
    (hg : geom_eq fat fat1) (h : is_chain fat E l e) : is_chain fat1 E l e := by
  refine ⟨fun x hx => ?_, h.2.1, h.2.2.1, h.2.2.2⟩
  have := h.1 x hx
  refine ⟨this.1, ?_⟩
  unfold fat_entries at this ⊢
  rw [← hg.2.2.1]
  exact this.2

theorem diritem_fields_buffer (b d : bytes_t) (base j : Nat)
    (hb : ∀ o, o < 512 → b o = d ((base + j * 32 / 512) * 512 + o)) :
    DIR_FileSize b (j * 32 % 512) = DIR_FileSize d (base * 512 + j * 32) ∧
    DIR_FstClusHI b (j * 32 % 512) = DIR_FstClusHI d (base * 512 + j * 32) ∧
    DIR_FstClusL0 b (j * 32 % 512) = DIR_FstClusL0 d (base * 512 + j * 32) := by
  have key : ∀ k, k < 32 → b (j * 32 % 512 + k) = d (base * 512 + j * 32 + k) := by
    intro k hk
    rw [hb (j * 32 % 512 + k) (by omega)]
    exact congrArg d (by omega)
  unfold DIR_FileSize DIR_FstClusHI DIR_FstClusL0 read32 read16
  have k28 := key 28 (by omega)
  have k29 := key 29 (by omega)
  have k30 := key 30 (by omega)
  have k31 := key 31 (by omega)
  have k20 := key 20 (by omega)
  have k21 := key 21 (by omega)
  have k26 := key 26 (by omega)
  have k27 := key 27 (by omega)
  simp only [Nat.add_assoc] at k28 k29 k30 k31 k20 k21 k26 k27 ⊢
  simp only [k28, k29, k30, k31, k20, k21, k26, k27, and_self]

end open_lemmas

/-- C10 (amended), on an error-free disk.  The scan of the root directory
finds the item of `path` at index `p`; `l` is the cluster chain that starts
at the cluster stored in that item (`l` is empty when the item stores no
valid cluster).  Then `fatfs_open` returns 0, and: when `O_TRUNC` is set in
the mode, whatever the access mode, the file has size 0 and start and current
cluster `FAT_CLUSTER_INVALID`, and every cluster of `l` is free in the table
while the other entries are as before; when `O_TRUNC` is not set, the disk is
unchanged and the file has the size and the start cluster stored in the
item. -/
theorem C10_open_existing_file (fuel : Nat) (fat : fat_t) (E : Nat → Nat) (path : List Nat)
    (file : file_t) (off p : Nat) (l : List Nat) (e : Nat)
    (ha : fat_abs fat E)
    (hitem : (fatfs_open_scan path fat.root_ent_cnt 0 (-1) fat).2.1 = some off)
    (hp : (fatfs_open_scan path fat.root_ent_cnt 0 (-1) fat).2.2.1 = (p : Int))
    (hl : is_chain fat E l e) (he : cluster_is_valid (e % 65536) = false)
    (hhead : l.head? =
      if cluster_is_valid
          (((DIR_FstClusHI fat.dev.bytes (fat.root_start * 512 + p * 32) <<< 16) |||
            DIR_FstClusL0 fat.dev.bytes (fat.root_start * 512 + p * 32)) % 65536) = true then
        some (((DIR_FstClusHI fat.dev.bytes (fat.root_start * 512 + p * 32) <<< 16) |||
            DIR_FstClusL0 fat.dev.bytes (fat.root_start * 512 + p * 32)) % 65536)
      else none)
    (hfuel : l.length + 1 ≤ fuel) :
    ∃ file1 fat1, fatfs_open fuel fat path file = some (0, file1, fat1) ∧
      (file.mode &&& O_TRUNC ≠ 0 →
        file1.size = 0 ∧ file1.sblk = FAT_CLUSTER_INVALID ∧ file1.cblk = FAT_CLUSTER_INVALID ∧
        fat_abs fat1 (fun x => if x ∈ l then 0 else E x)) ∧
      (file.mode &&& O_TRUNC = 0 →
        fat1.dev = fat.dev ∧
        file1.size = DIR_FileSize fat.dev.bytes (fat.root_start * 512 + p * 32) ∧
        file1.sblk = (DIR_FstClusHI fat.dev.bytes (fat.root_start * 512 + p * 32) <<< 16) |||
          DIR_FstClusL0 fat.dev.bytes (fat.root_start * 512 + p * 32)) := by
  have hs := fatfs_open_scan_ok path fat.root_ent_cnt 0 (-1) fat ha.1 (by omega)
  unfold fatfs_open
  generalize fatfs_open_scan path fat.root_ent_cnt 0 (-1) fat = r at hs hitem hp
  obtain ⟨err, item, q, fat1⟩ := r
  dsimp only at hs hitem hp
  obtain ⟨h1, h2, h3, h4, h5⟩ := hs
  subst h1 hitem hp
  obtain ⟨j, _, hj, hoff, hbuf⟩ := h5 off rfl
  have hjp : j = p := by omega
  subst hjp
  subst hoff
  obtain ⟨f1, f2, f3⟩ := diritem_fields_buffer fat1.fat_buffer fat.dev.bytes fat.root_start j hbuf
  have ha1 : fat_abs fat1 E := fat_abs_of_dev ha h2 h4 h3
  dsimp only
  rw [if_neg (by decide)]
  dsimp only [read_from_diritem]
  rw [f1, f2, f3]
  by_cases ht : file.mode &&& O_TRUNC = 0
  · rw [if_neg (by simpa using ht)]
    exact ⟨_, _, rfl, fun h => absurd ht h, fun _ => ⟨h3, rfl, rfl⟩⟩
  · rw [if_pos ht]
    generalize ((DIR_FstClusHI fat.dev.bytes (fat.root_start * 512 + j * 32) <<< 16) |||
      DIR_FstClusL0 fat.dev.bytes (fat.root_start * 512 + j * 32)) % 65536 = c at hhead ⊢
    by_cases hv : cluster_is_valid c = true
    · rw [if_pos hv] at hhead
      have hne : l ≠ [] := by
        intro h; rw [h] at hhead; cases hhead
      have hhd : l.headD 0 = c := by
        cases l with
        | nil => exact absurd rfl hne
        | cons x l => injection hhead
      obtain ⟨fat2, hf, ha2, _⟩ := cluster_free_chain_spec l fuel fat1 E e ha1
        (is_chain_geom h4 hl) he hne hfuel
      rw [hhd] at hf
      rw [hf]
      exact ⟨_, _, rfl, fun _ => ⟨rfl, rfl, rfl, ha2⟩, fun h => absurd h ht⟩
    · rw [if_neg hv] at hhead
      have hnil : l = [] := by
        cases l with
        | nil => rfl
        | cons x l => cases hhead
      subst hnil
      obtain ⟨k, hk⟩ : ∃ k, fuel = k + 1 := ⟨fuel - 1, by simp at hfuel; omega⟩
      rw [hk, cluster_free_chain_invalid k fat1 c (by simpa using hv)]
      refine ⟨_, _, rfl, fun _ => ⟨rfl, rfl, rfl, ?_⟩, fun h => absurd h ht⟩
      simpa using ha1

/-- C10 (amended), at the volume `demo_fat_one_file`, where `a.txt` has the
chain 2 -> 3: the file is opened with `O_TRUNC | O_RDONLY`. -/
theorem C10_open_existing_file_witness :
    ∃ file1 fat1,
      fatfs_open 70000 demo_fat_one_file demo_path (demo_file (O_TRUNC ||| O_RDONLY)) =
        some (0, file1, fat1) ∧
      ((demo_file (O_TRUNC ||| O_RDONLY)).mode &&& O_TRUNC ≠ 0 →
        file1.size = 0 ∧ file1.sblk = FAT_CLUSTER_INVALID ∧ file1.cblk = FAT_CLUSTER_INVALID ∧
        fat_abs fat1 (fun x => if x ∈ [2, 3] then 0 else fat_entry demo_fat_one_file x)) ∧
      ((demo_file (O_TRUNC ||| O_RDONLY)).mode &&& O_TRUNC = 0 →
        fat1.dev = demo_fat_one_file.dev ∧
        file1.size = DIR_FileSize demo_fat_one_file.dev.bytes
          (demo_fat_one_file.root_start * 512 + 0 * 32) ∧
        file1.sblk = (DIR_FstClusHI demo_fat_one_file.dev.bytes
            (demo_fat_one_file.root_start * 512 + 0 * 32) <<< 16) |||
          DIR_FstClusL0 demo_fat_one_file.dev.bytes
            (demo_fat_one_file.root_start * 512 + 0 * 32)) :=
  C10_open_existing_file 70000 demo_fat_one_file (fun c => fat_entry demo_fat_one_file c)
    demo_path (demo_file (O_TRUNC ||| O_RDONLY)) 0 0 [2, 3] 0xFFF8
    ⟨⟨⟨by decide!, by decide!, by decide!, by decide!, by decide!, by decide!, by decide!,
        by decide!, by decide!, by decide!, by decide!, by decide!⟩,
      fun _ => rfl, Or.inr ⟨3, by decide!, by decide!, by decide!⟩⟩, fun _ _ => rfl⟩
    (by decide!) (by decide!)
    ⟨by unfold clusters_ok; decide!, by decide, ⟨by decide!, trivial⟩,
      fun x hx => by
        have h3 : x = 3 := by injection hx with hx; exact hx.symm
        subst h3
        decide!⟩
    (by decide) (by decide!) (by decide)

/-! ### Lemmas on the FAT16 driver: data clusters -/

section data_lemmas

theorem cluster_sector_eq (fat : fat_t) (hw : fat_wf fat) (c : Nat) (h2 : 2 ≤ c)
    (hc : c < 65536) :
    cluster_sector fat c = fat.data_start + (c - 2) * fat.sec_per_cluster := by
  have hp1 : fat.tbl_sectors * fat.tbl_cnt ≤ 65535 * 255 := Nat.mul_le_mul hw.sectors_le hw.cnt_le
  have hp2 : (c - 2) * fat.sec_per_cluster ≤ 65533 * 255 :=
    Nat.mul_le_mul (by omega) hw.spc_le
  have h3 := hw.root
  have h4 := hw.data
  have h5 := hw.start_le
  have h6 := hw.ent_le
  have bound : fat.data_start + (c - 2) * fat.sec_per_cluster < 2 ^ 32 := by omega
  unfold cluster_sector uint32
  have h1 : ((fat.data_start : Int) + ((c : Int) - 2) * (fat.sec_per_cluster : Int)) =
      ((fat.data_start + (c - 2) * fat.sec_per_cluster : Nat) : Int) := by
    push_cast [Nat.cast_sub h2]
    ring
  rw [h1]
  have h7 : ((2 : Int) ^ 32) = ((2 ^ 32 : Nat) : Int) := by norm_num
  rw [h7, ← Int.natCast_mod, Int.toNat_ofNat, Nat.mod_eq_of_lt bound]

theorem cluster_addr_ge (fat : fat_t) (hw : fat_wf fat) (c : Nat) :
    fat.root_start * 512 ≤ cluster_addr fat c ∧ fat.data_start * 512 ≤ cluster_addr fat c := by
  have h4 := hw.data
  unfold cluster_addr
  constructor <;> omega

theorem cluster_addr_disjoint (fat : fat_t) (hw : fat_wf fat) (c d : Nat) (hc : 2 ≤ c)
    (hd : 2 ≤ d) (hne : c ≠ d) (a : Nat)
    (ha : cluster_addr fat c ≤ a ∧ a < cluster_addr fat c + fat.cluster_byte_size) :
    ¬ (cluster_addr fat d ≤ a ∧ a < cluster_addr fat d + fat.cluster_byte_size) := by
  have hcbs := hw.cbs
  unfold cluster_addr at ha ⊢
  rcases Nat.lt_or_gt_of_ne hne with h | h
  · have h1 : (c - 2 + 1) * fat.sec_per_cluster ≤ (d - 2) * fat.sec_per_cluster :=
      Nat.mul_le_mul_right _ (by omega)
    rw [Nat.add_mul, Nat.one_mul] at h1
    omega
  · have h1 : (d - 2 + 1) * fat.sec_per_cluster ≤ (c - 2) * fat.sec_per_cluster :=
      Nat.mul_le_mul_right _ (by omega)
    rw [Nat.add_mul, Nat.one_mul] at h1
    omega

theorem dev_read_ok (d : blkdev_t) (hd : dev_ok d) (addr : Nat) (buf : bytes_t) (off size : Nat) :
    (dev_read d addr buf off size).1 = (size : Int) ∧
    ∀ o, (dev_read d addr buf off size).2 o =
      if off ≤ o ∧ o < off + size * 512 then d.bytes (addr * 512 + (o - off)) else buf o := by
  unfold dev_read
  simp only [disk_xfer_count_ok d hd, SECTOR_SIZE]
  exact ⟨trivial, fun _ => trivial⟩

theorem dev_write_ok (d : blkdev_t) (hd : dev_ok d) (addr : Nat) (buf : bytes_t) (off size : Nat) :
    (dev_write d addr buf off size).1 = (size : Int) ∧
    dev_ok (dev_write d addr buf off size).2 ∧
    ∀ a, (dev_write d addr buf off size).2.bytes a =
      if addr * 512 ≤ a ∧ a < (addr + size) * 512 then buf (off + (a - addr * 512))
      else d.bytes a := by
  unfold dev_write
  simp only [disk_xfer_count_ok d hd, SECTOR_SIZE]
  exact ⟨trivial, fun t => hd t, fun _ => trivial⟩

theorem cache_ok_of_data {fat fat0 : fat_t} (hg : geom_eq fat fat0) (hc : cache_ok fat)
    (hb : fat0.fat_buffer = fat.fat_buffer) (hs : fat0.curr_sector = fat.curr_sector)
    (hd : ∀ a, a < fat.data_start * 512 → fat0.dev.bytes a = fat.dev.bytes a) :
    cache_ok fat0 := by
  rcases hc with h | ⟨s, h1, h2, h3⟩
  · exact Or.inl (hs.trans h)
  · refine Or.inr ⟨s, hs.trans h1, ?_, fun o ho => ?_⟩
    · rw [← hg.2.2.2.2.2.2.2.1]; exact h2
    · rw [hb, h3 o ho, hd _ (by omega)]

theorem fatfs_write_loop_step (fuel : Nat) (umem : bytes_t) (loops buf nbytes total : Nat)
    (file : file_t) (fat : fat_t) (hi : fat_inv fat) (hn : nbytes ≠ 0)
    (hpos : file.pos % fat.cluster_byte_size = 0) (hc : cluster_is_valid file.cblk = true) :
    ∃ fat0, wrote_cluster fat fat0 umem buf file.cblk (min nbytes fat.cluster_byte_size) ∧
      ∀ file1 fat1,
        move_file_pos fuel { file with size := file.size + min nbytes fat.cluster_byte_size }
          fat0 (min nbytes fat.cluster_byte_size) true = some (0, file1, fat1) →
        fatfs_write_loop fuel umem (loops + 1) buf nbytes total file fat =
          fatfs_write_loop fuel umem loops (buf + min nbytes fat.cluster_byte_size)
            (nbytes - min nbytes fat.cluster_byte_size)
            (total + min nbytes fat.cluster_byte_size) file1 fat1 := by
  obtain ⟨hw, hd, hcache⟩ := hi
  have hv := (cluster_is_valid_iff _).mp hc
  have hsec := cluster_sector_eq fat hw file.cblk hv.1 (by omega)
  have hcbs := hw.cbs
  have hge := cluster_addr_ge fat hw file.cblk
  have haddr : cluster_addr fat file.cblk = cluster_sector fat file.cblk * 512 := by
    rw [hsec]; rfl
  rw [fatfs_write_loop, if_pos hn]
  dsimp only
  by_cases hfull : file.pos % fat.cluster_byte_size = 0 ∧ nbytes = fat.cluster_byte_size
  · rw [if_pos hfull]
    have hk : min nbytes fat.cluster_byte_size = fat.cluster_byte_size := by
      rw [hfull.2]; exact Nat.min_self _
    obtain ⟨w1, w2, w3⟩ := dev_write_ok fat.dev hd (cluster_sector fat file.cblk) umem buf
      fat.sec_per_cluster
    rw [if_neg (by rw [w1]; omega)]
    have hg : geom_eq fat { fat with dev := (dev_write fat.dev (cluster_sector fat file.cblk)
        umem buf fat.sec_per_cluster).2 } := ⟨rfl, rfl, rfl, rfl, rfl, rfl, rfl, rfl, rfl⟩
    have hbytes : ∀ a, (dev_write fat.dev (cluster_sector fat file.cblk) umem buf
        fat.sec_per_cluster).2.bytes a =
        if cluster_addr fat file.cblk ≤ a ∧
            a < cluster_addr fat file.cblk + min nbytes fat.cluster_byte_size then
          umem (buf + (a - cluster_addr fat file.cblk))
        else fat.dev.bytes a := by
      intro a
      rw [w3 a, hk, haddr, hcbs, Nat.add_mul]
    refine ⟨{ fat with dev := (dev_write fat.dev (cluster_sector fat file.cblk) umem buf
      fat.sec_per_cluster).2 }, ⟨hg, ⟨fat_wf_of_geom_eq hg hw, w2, ?_⟩, hbytes⟩, ?_⟩
    · refine cache_ok_of_data hg hcache rfl rfl (fun a ha => ?_)
      show (dev_write fat.dev (cluster_sector fat file.cblk) umem buf
        fat.sec_per_cluster).2.bytes a = _
      rw [hbytes a, if_neg (by omega)]
    · intro file1 fat1 hm
      rw [hk] at hm ⊢
      rw [hm]
      simp
  · rw [if_neg hfull]
    have hlt : nbytes ≠ fat.cluster_byte_size := fun h => hfull ⟨hpos, h⟩
    obtain ⟨r1, r2⟩ := dev_read_ok fat.dev hd (cluster_sector fat file.cblk) fat.fat_buffer 0
      fat.sec_per_cluster
    rw [if_neg (by rw [r1]; omega)]
    rw [hpos, Nat.zero_add]
    have hkk : (if nbytes > fat.cluster_byte_size then fat.cluster_byte_size - 0 else nbytes) =
        min nbytes fat.cluster_byte_size := by
      split
      · omega
      · omega
    rw [hkk]
    generalize hk : min nbytes fat.cluster_byte_size = k
    have hkle : k ≤ fat.cluster_byte_size := by omega
    generalize hbuf : kernel_memcpy (dev_read fat.dev (cluster_sector fat file.cblk) fat.fat_buffer 0
      fat.sec_per_cluster).2 0 umem buf k = b1
    obtain ⟨w1, w2, w3⟩ := dev_write_ok fat.dev hd (cluster_sector fat file.cblk) b1 0
      fat.sec_per_cluster
    generalize dev_write fat.dev (cluster_sector fat file.cblk) b1 0 fat.sec_per_cluster = dw
      at w1 w2 w3 ⊢
    rw [if_neg (by rw [w1]; omega)]
    have hg : geom_eq fat { fat with fat_buffer := b1, curr_sector := -1, dev := dw.2 } :=
      ⟨rfl, rfl, rfl, rfl, rfl, rfl, rfl, rfl, rfl⟩
    refine ⟨{ fat with fat_buffer := b1, curr_sector := -1, dev := dw.2 },
      ⟨hg, ⟨fat_wf_of_geom_eq hg hw, w2, Or.inl rfl⟩, fun a => ?_⟩, ?_⟩
    · show dw.2.bytes a = _
      rw [w3 a, haddr, ← hbuf]
      unfold kernel_memcpy
      by_cases h1 : cluster_sector fat file.cblk * 512 ≤ a ∧
          a < (cluster_sector fat file.cblk + fat.sec_per_cluster) * 512
      · rw [if_pos h1]
        by_cases h2 : a < cluster_sector fat file.cblk * 512 + k
        · rw [if_pos (by omega), if_pos ⟨h1.1, h2⟩]
          exact congrArg umem (by omega)
        · rw [if_neg (by omega), if_neg (by omega), r2, if_pos (by omega)]
          exact congrArg fat.dev.bytes (by omega)
      · rw [if_neg h1, if_neg (by omega)]
    · intro file1 fat1 hm
      rw [hm]
      simp

theorem move_file_pos_within (fuel : Nat) (file : file_t) (fat : fat_t) (k : Nat) (expand : Bool)
    (hpos : file.pos % fat.cluster_byte_size = 0) (hk : k < fat.cluster_byte_size)
    (hb : file.pos + k < 2 ^ 32) :
    move_file_pos fuel file fat k expand = some (0, { file with pos := file.pos + k }, fat) := by
  unfold move_file_pos
  dsimp only
  rw [if_neg (by omega), Nat.mod_eq_of_lt hb]

theorem move_file_pos_next (fuel : Nat) (file : file_t) (fat : fat_t) (E : Nat → Nat)
    (expand : Bool) (ha : fat_abs fat E)
    (hpos : file.pos % fat.cluster_byte_size = 0)
    (hc : cluster_is_valid file.cblk = true) (hn : file.cblk < fat_entries fat)
    (hnext : E file.cblk ≠ FAT_CLUSTER_INVALID ∨ expand = false)
    (hb : file.pos + fat.cluster_byte_size < 2 ^ 32) :
    ∃ fat1, move_file_pos fuel file fat fat.cluster_byte_size expand =
        some (0, { file with cblk := E file.cblk, pos := file.pos + fat.cluster_byte_size }, fat1) ∧
      fat_abs fat1 E ∧ fat_frame fat fat1 := by
  have hv := (cluster_is_valid_iff _).mp hc
  have hmod : file.cblk % 65536 = file.cblk := Nat.mod_eq_of_lt (by omega)
  obtain ⟨g1, g2, g3⟩ := cluster_get_next_abs fat E ha file.cblk hc hn
  unfold move_file_pos
  dsimp only
  rw [if_pos (by omega), hmod, g1]
  have hcond : ¬ (E file.cblk = FAT_CLUSTER_INVALID ∧ expand = true) := by
    rintro ⟨h1, h2⟩
    rcases hnext with h | h
    · exact h h1
    · rw [h] at h2; cases h2
  rw [if_neg hcond, Nat.mod_eq_of_lt hb]
  exact ⟨_, rfl, g2, g3⟩

theorem up2_div (n c : Nat) (hc : 0 < c) : up2 n c / c = (n + c - 1) / c := by
  unfold up2
  exact Nat.mul_div_cancel _ hc

theorem move_file_pos_expand (fuel : Nat) (file : file_t) (fat : fat_t) (E : Nat → Nat) (x : Nat)
    (ha : fat_abs fat E)
    (hpos : file.pos % fat.cluster_byte_size = 0)
    (hsize : file.size % fat.cluster_byte_size = 0)
    (hc : cluster_is_valid file.cblk = true) (hn : file.cblk < fat_entries fat)
    (hs : cluster_is_valid (file.sblk % 65536) = true)
    (hnext : E file.cblk = FAT_CLUSTER_INVALID)
    (hfree : first_free E (fat_entries fat) 2 [x]) (hfuel : 65536 ≤ fuel)
    (hb : file.pos + fat.cluster_byte_size < 2 ^ 32) :
    ∃ fat1 E1, move_file_pos fuel file fat fat.cluster_byte_size true =
        some (0, { file with cblk := x, pos := file.pos + fat.cluster_byte_size }, fat1) ∧
      fat_abs fat1 E1 ∧ fat_frame fat fat1 ∧
      (∀ y, y ≠ x → y ≠ file.cblk → E1 y = E y) ∧ E1 file.cblk = x ∧
      E1 x = FAT_CLUSTER_INVALID := by
  have hw := ha.1.1
  have hcpos : 0 < fat.cluster_byte_size := by
    have h1 := hw.cbs
    have h2 := hw.spc_pos
    omega
  have hv := (cluster_is_valid_iff _).mp hc
  have hmod : file.cblk % 65536 = file.cblk := Nat.mod_eq_of_lt (by omega)
  obtain ⟨g1, g2, g3⟩ := cluster_get_next_abs fat E ha file.cblk hc hn
  unfold move_file_pos
  dsimp only
  rw [if_pos (by omega), hmod, g1, if_pos ⟨hnext, rfl⟩]
  generalize cluster_get_next fat file.cblk = r at g1 g2 g3
  have hgc : r.2.cluster_byte_size = fat.cluster_byte_size := g3.1.2.2.2.2.2.2.2.2.symm
  have hne : fat_entries r.2 = fat_entries fat := fat_entries_frame g3
  obtain ⟨fa, Ea, a1, a2, a3, a4, a5⟩ := cluster_alloc_free_spec fuel r.2 E [x] g2
    (by rw [hne]; exact hfree) (by simp) hfuel
  have hxv := a4.1 x (List.mem_singleton.mpr rfl)
  have hxl : x < 65536 := by
    have := (cluster_is_valid_iff _).mp hxv.1
    omega
  have hEx : Ea x = FAT_CLUSTER_INVALID := a4.2.2.2 x rfl
  have hcx : file.cblk ≠ x := by
    intro h
    have := (hfree.2.1 x (List.mem_singleton.mpr rfl)).2.2.2
    rw [← h, hnext] at this
    exact absurd this (by decide)
  obtain ⟨s1, s2, s3⟩ := cluster_set_next_abs fa Ea a2 file.cblk x hc
    (by rw [fat_entries_frame a3, hne]; exact hn)
  have hn2 : file.cblk < fat_entries (cluster_set_next fa file.cblk x).2 := by
    rw [fat_entries_frame s3, fat_entries_frame a3, hne]; exact hn
  obtain ⟨t1, t2, t3⟩ := cluster_get_next_abs _ _ s2 file.cblk hc hn2
  have hexp : expand_file fuel file r.2 fat.cluster_byte_size =
      some (0, file, (cluster_set_next fa file.cblk x).2) := by
    unfold expand_file
    dsimp only
    rw [hgc, if_pos (Or.inr hsize), up2_div _ _ hcpos]
    have h1 : (fat.cluster_byte_size + fat.cluster_byte_size - 1) / fat.cluster_byte_size = 1 := by
      exact Nat.div_eq_of_lt_le (by omega) (by omega)
    rw [h1]
    have a1b : cluster_alloc_free fuel r.2 1 = some (x, fa) := a1
    rw [a1b]
    dsimp only
    rw [if_neg (by simp [hxv.1]), if_neg (by simp [hs]), hmod, if_neg (by rw [s1]; decide)]
  rw [hexp]
  dsimp only
  rw [if_neg (by decide), hmod, t1]
  simp only [if_true]
  rw [Nat.mod_eq_of_lt hxl, Nat.mod_eq_of_lt hb]
  refine ⟨_, _, rfl, t2, ?_, fun y hy1 hy2 => ?_, by simp [Nat.mod_eq_of_lt hxl], ?_⟩
  · exact fat_frame_trans g3 (fat_frame_trans a3 (fat_frame_trans s3 t3))
  · simp only [hy2, if_false]
    exact a5 y (by simpa using hy1)
  · simp only [Ne.symm hcx, if_false]
    exact hEx

theorem cluster_addr_geom {a b : fat_t} (h : geom_eq a b) (c : Nat) :
    cluster_addr b c = cluster_addr a c := by
  unfold cluster_addr
  rw [h.2.2.2.2.1, h.2.2.2.2.2.2.2.1]

theorem clusters_ok_geom {a b : fat_t} (h : geom_eq a b) {l : List Nat} (hl : clusters_ok a l) :
    clusters_ok b l := by
  intro x hx
  have := hl x hx
  refine ⟨this.1, ?_⟩
  unfold fat_entries at this ⊢
  rw [← h.2.2.1]
  exact this.2

theorem fat_abs_wrote {fat fat0 : fat_t} {umem : bytes_t} {buf c k : Nat} {E : Nat → Nat}
    (hwr : wrote_cluster fat fat0 umem buf c k) (ha : fat_abs fat E) : fat_abs fat0 E := by
  obtain ⟨hg, hi, hb⟩ := hwr
  have hw := ha.1.1
  refine ⟨hi, fun x hx => ?_⟩
  have h1 : fat_entries fat0 = fat_entries fat := by
    unfold fat_entries; rw [hg.2.2.1]
  rw [h1] at hx
  rw [← ha.2 x hx]
  unfold fat_entry read16
  rw [← hg.1]
  have hge := cluster_addr_ge fat hw c
  have hr := hw.root
  have hpos := hw.cnt_pos
  have h2 : fat.tbl_sectors ≤ fat.tbl_sectors * fat.tbl_cnt := Nat.le_mul_of_pos_right _ hpos
  unfold fat_entries at hx
  rw [hb, hb, if_neg (by omega), if_neg (by omega)]

theorem fatfs_write_loop_zero (fuel : Nat) (umem : bytes_t) (loops buf total : Nat)
    (file : file_t) (fat : fat_t) :
    fatfs_write_loop fuel umem loops buf 0 total file fat = some (total, file, fat) := by
  cases loops with
  | zero => rfl
  | succ n => rw [fatfs_write_loop, if_neg (by simp)]

theorem wrote_cluster_frame {fat fat0 : fat_t} {umem : bytes_t} {buf c k : Nat}
    (hwr : wrote_cluster fat fat0 umem buf c k) (hk : k ≤ fat.cluster_byte_size) (a : Nat)
    (ha : ¬ (cluster_addr fat c ≤ a ∧ a < cluster_addr fat c + fat.cluster_byte_size)) :
    fat0.dev.bytes a = fat.dev.bytes a := by
  rw [hwr.2.2 a, if_neg (by omega)]
theorem write_data_glue (cbs root : Nat) (hcpos : 0 < cbs) (addr : Nat → Nat)
    (c : Nat) (rest : List Nat) (umem B B1 B2 : bytes_t) (buf nbytes : Nat)
    (hn : cbs ≤ nbytes) (hroot : root ≤ addr c)
    (hB1 : ∀ a, root ≤ a →
      B1 a = if addr c ≤ a ∧ a < addr c + cbs then umem (buf + (a - addr c)) else B a)
    (r9 : ∀ i, i < nbytes - cbs →
      B2 (addr (rest.getD (i / cbs) 0) + i % cbs) = umem (buf + cbs + i))
    (r10 : ∀ a, root ≤ a → (∀ d, d ∈ rest → ¬ (addr d ≤ a ∧ a < addr d + cbs)) → B2 a = B1 a)
    (hdisj : ∀ d, d ∈ rest → ∀ a, addr c ≤ a ∧ a < addr c + cbs →
      ¬ (addr d ≤ a ∧ a < addr d + cbs)) :
    (∀ i, i < nbytes → B2 (addr ((c :: rest).getD (i / cbs) 0) + i % cbs) = umem (buf + i)) ∧
    (∀ a, root ≤ a → (∀ d, d ∈ c :: rest → ¬ (addr d ≤ a ∧ a < addr d + cbs)) →
      B2 a = B a) := by
  constructor
  · intro i hi
    by_cases hi1 : i < cbs
    · have h1 : i / cbs = 0 := Nat.div_eq_of_lt hi1
      have h2 : i % cbs = i := Nat.mod_eq_of_lt hi1
      rw [h1, h2]
      show B2 (addr c + i) = _
      have hin : addr c ≤ addr c + i ∧ addr c + i < addr c + cbs := ⟨by omega, by omega⟩
      rw [r10 (addr c + i) (by omega) (fun d hd => hdisj d hd _ hin),
        hB1 (addr c + i) (by omega), if_pos hin]
      have e : addr c + i - addr c = i := by omega
      rw [e]
    · have hle : cbs ≤ i := Nat.le_of_not_lt hi1
      have h4 : i / cbs = (i - cbs) / cbs + 1 := by
        rw [← Nat.add_div_right _ hcpos, Nat.sub_add_cancel hle]
      have h5 : i % cbs = (i - cbs) % cbs := by
        conv_lhs => rw [← Nat.sub_add_cancel hle]
        exact Nat.add_mod_right _ _
      have h3 := r9 (i - cbs) (by omega)
      have e : buf + cbs + (i - cbs) = buf + i := by omega
      rw [e] at h3
      rw [h4, h5]
      exact h3
  · intro a ha1 ha2
    rw [r10 a ha1 (fun d hd => ha2 d (List.mem_cons_of_mem _ hd)), hB1 a ha1,
      if_neg (ha2 c (List.mem_cons_self _ _))]

theorem read_data_glue (cbs : Nat) (hcpos : 0 < cbs) (D : Nat → Nat) (addr : Nat → Nat)
    (c : Nat) (rest : List Nat) (umem umem1 out : bytes_t) (buf nbytes : Nat)
    (hn : cbs ≤ nbytes)
    (hum : ∀ a, umem1 a = if buf ≤ a ∧ a < buf + cbs then D (addr c + (a - buf)) else umem a)
    (r2 : ∀ i, i < nbytes - cbs →
      out (buf + cbs + i) = D (addr (rest.getD (i / cbs) 0) + i % cbs))
    (r3 : ∀ a, a < buf + cbs ∨ buf + cbs + (nbytes - cbs) ≤ a → out a = umem1 a) :
    (∀ i, i < nbytes → out (buf + i) = D (addr ((c :: rest).getD (i / cbs) 0) + i % cbs)) ∧
    (∀ a, a < buf ∨ buf + nbytes ≤ a → out a = umem a) := by
  constructor
  · intro i hi
    by_cases hi1 : i < cbs
    · have h1 : i / cbs = 0 := Nat.div_eq_of_lt hi1
      have h2 : i % cbs = i := Nat.mod_eq_of_lt hi1
      rw [h1, h2, r3 (buf + i) (Or.inl (by omega)), hum, if_pos ⟨by omega, by omega⟩]
      have e : buf + i - buf = i := by omega
      rw [e]
      rfl
    · have hle : cbs ≤ i := Nat.le_of_not_lt hi1
      have h4 : i / cbs = (i - cbs) / cbs + 1 := by
        rw [← Nat.add_div_right _ hcpos, Nat.sub_add_cancel hle]
      have h5 : i % cbs = (i - cbs) % cbs := by
        conv_lhs => rw [← Nat.sub_add_cancel hle]
        exact Nat.add_mod_right _ _
      have h3 := r2 (i - cbs) (by omega)
      have e : buf + cbs + (i - cbs) = buf + i := by omega
      rw [e] at h3
      rw [h3, h4, h5]
      rfl
  · intro a ha
    rw [r3 a (by omega), hum, if_neg (by omega)]

theorem fatfs_write_loop_spec (fuel : Nat) (umem : bytes_t) (hfuel : 65536 ≤ fuel)
    (ls : List Nat) :
    ∀ (loops buf nbytes total : Nat) (file : file_t) (fat : fat_t) (E : Nat → Nat),
      fat_abs fat E → clusters_ok fat ls → ls.Nodup → links E ls →
      ls.head? = some file.cblk →
      (∀ z, ls.getLast? = some z → E z = FAT_CLUSTER_INVALID) →
      file.pos % fat.cluster_byte_size = 0 → file.size % fat.cluster_byte_size = 0 →
      cluster_is_valid (file.sblk % 65536) = true →
      (ls.length - 1) * fat.cluster_byte_size < nbytes →
      nbytes ≤ ls.length * fat.cluster_byte_size →
      nbytes ≤ loops →
      (nbytes = ls.length * fat.cluster_byte_size →
        ∃ x, first_free E (fat_entries fat) 2 [x]) →
      file.pos + nbytes < 2 ^ 32 →
      ∃ file1 fat1 E1,
        fatfs_write_loop fuel umem loops buf nbytes total file fat =
          some (total + nbytes, file1, fat1) ∧
        file1.pos = file.pos + nbytes ∧ file1.size = file.size + nbytes ∧
        file1.sblk = file.sblk ∧
        fat_abs fat1 E1 ∧ geom_eq fat fat1 ∧ links E1 ls ∧
        (∀ y, E y ≠ 0 → ls.getLast? ≠ some y → E1 y = E y) ∧
        (∀ i, i < nbytes →
          fat1.dev.bytes (cluster_addr fat (ls.getD (i / fat.cluster_byte_size) 0) +
            i % fat.cluster_byte_size) = umem (buf + i)) ∧
        (∀ a, fat.root_start * 512 ≤ a →
          (∀ c, c ∈ ls →
            ¬ (cluster_addr fat c ≤ a ∧ a < cluster_addr fat c + fat.cluster_byte_size)) →
          fat1.dev.bytes a = fat.dev.bytes a) := by
  induction ls with
  | nil => intro _ _ _ _ _ _ _ _ _ _ _ h; cases h
  | cons c rest ih =>
    intro loops buf nbytes total file fat E ha hok hnd hl hhead hlast hpos hsize hs hlo hhi
      hloops hx hb32
    have hcb : file.cblk = c := by injection hhead with h; exact h.symm
    have hw := ha.1.1
    have hcpos : 0 < fat.cluster_byte_size := by
      have h1 := hw.cbs
      have h2 := hw.spc_pos
      omega
    have hcv := hok c (List.mem_cons_self _ _)
    have hn0 : nbytes ≠ 0 := by omega
    obtain ⟨loops1, hl1⟩ : ∃ m, loops = m + 1 := ⟨loops - 1, by omega⟩
    subst hl1
    obtain ⟨fat0, hwr, hstep⟩ := fatfs_write_loop_step fuel umem loops1 buf nbytes total file fat
      ha.1 hn0 hpos (by rw [hcb]; exact hcv.1)
    rw [hcb] at hwr
    have ha0 : fat_abs fat0 E := fat_abs_wrote hwr ha
    have hg0 := hwr.1
    have hcbs0 : fat0.cluster_byte_size = fat.cluster_byte_size := hg0.2.2.2.2.2.2.2.2.symm
    have hne0 : fat_entries fat0 = fat_entries fat := by
      unfold fat_entries; rw [hg0.2.2.1]
    have hge := cluster_addr_ge fat hw c
    cases rest with
    | nil =>
      simp only [List.length_singleton, Nat.sub_self, Nat.zero_mul, Nat.one_mul] at hlo hhi hx
      by_cases hfull : nbytes = fat.cluster_byte_size
      · -- the write ends on the cluster boundary: one more cluster is taken
        have hk : min nbytes fat.cluster_byte_size = fat.cluster_byte_size := by omega
        rw [hk] at hwr hstep
        obtain ⟨x, hxf⟩ := hx hfull
        obtain ⟨fat1, E1, m1, m2, m3, m4, m5, m6⟩ := move_file_pos_expand fuel
          { file with size := file.size + fat.cluster_byte_size } fat0 E x ha0
          (by rw [hcbs0]; exact hpos)
          (by rw [hcbs0]; show (file.size + fat.cluster_byte_size) % fat.cluster_byte_size = 0
              rw [Nat.add_mod_right]; exact hsize)
          (by show cluster_is_valid file.cblk = true; rw [hcb]; exact hcv.1)
          (by show file.cblk < _; rw [hcb, hne0]; exact hcv.2)
          hs
          (by show E file.cblk = _; rw [hcb]; exact hlast c rfl)
          (by rw [hne0]; exact hxf) hfuel
          (by show file.pos + fat0.cluster_byte_size < 2 ^ 32; rw [hcbs0]; omega)
        rw [hcbs0] at m1
        rw [hstep _ _ m1, hfull, Nat.sub_self, fatfs_write_loop_zero]
        refine ⟨_, fat1, E1, rfl, rfl, rfl, rfl, m2, geom_eq_trans hg0 m3.1, trivial,
          fun y hy1 hy2 => ?_, fun i hi => ?_, fun a ha1 ha2 => ?_⟩
        · have hxz : E x = 0 := (hxf.2.1 x (List.mem_singleton.mpr rfl)).2.2.2
          refine m4 y (fun h => hy1 (h ▸ hxz)) (fun h => hy2 ?_)
          show some c = some y
          rw [h]
          exact congrArg some hcb.symm
        · have h1 : i / fat.cluster_byte_size = 0 := Nat.div_eq_of_lt hi
          have h2 : i % fat.cluster_byte_size = i := Nat.mod_eq_of_lt hi
          rw [h1, h2]
          show fat1.dev.bytes (cluster_addr fat c + i) = _
          rw [m3.2.1 _ (Or.inr (by rw [← hg0.2.2.2.2.2.2.1]; omega)), hwr.2.2, if_pos (by omega)]
          exact congrArg umem (by omega)
        · rw [m3.2.1 _ (Or.inr (by rw [← hg0.2.2.2.2.2.2.1]; omega))]
          exact wrote_cluster_frame hwr (le_refl _) a (ha2 c (List.mem_cons_self _ _))
      · have hlt : nbytes < fat.cluster_byte_size := by omega
        have hk : min nbytes fat.cluster_byte_size = nbytes := by omega
        rw [hk] at hwr hstep
        have m1 := move_file_pos_within fuel { file with size := file.size + nbytes } fat0 nbytes
          true (by rw [hcbs0]; exact hpos) (by rw [hcbs0]; exact hlt) hb32
        rw [hstep _ _ m1, Nat.sub_self, fatfs_write_loop_zero]
        refine ⟨_, fat0, E, rfl, rfl, rfl, rfl, ha0, hg0, trivial, fun y _ _ => rfl,
          fun i hi => ?_, fun a _ ha2 => ?_⟩
        · have h1 : i / fat.cluster_byte_size = 0 := Nat.div_eq_of_lt (by omega)
          have h2 : i % fat.cluster_byte_size = i := Nat.mod_eq_of_lt (by omega)
          rw [h1, h2]
          show fat0.dev.bytes (cluster_addr fat c + i) = _
          rw [hwr.2.2, if_pos (by omega)]
          exact congrArg umem (by omega)
        · exact wrote_cluster_frame hwr (by omega) a (ha2 c (List.mem_cons_self _ _))
    | cons c2 rest1 =>
      have hlen : (c :: c2 :: rest1).length = rest1.length + 2 := rfl
      have hlen1 : (c2 :: rest1).length = rest1.length + 1 := rfl
      rw [hlen] at hlo hhi hx
      have e1 : (rest1.length + 2 - 1) * fat.cluster_byte_size =
          rest1.length * fat.cluster_byte_size + fat.cluster_byte_size := by
        rw [show rest1.length + 2 - 1 = rest1.length + 1 from rfl, Nat.add_mul, Nat.one_mul]
      have e2 : (rest1.length + 2) * fat.cluster_byte_size =
          rest1.length * fat.cluster_byte_size + fat.cluster_byte_size +
            fat.cluster_byte_size := by ring
      rw [e1] at hlo
      rw [e2] at hhi hx
      have hk : min nbytes fat.cluster_byte_size = fat.cluster_byte_size := by omega
      rw [hk] at hwr hstep
      have hE : E c = c2 := hl.1
      have hc2v := hok c2 (List.mem_cons_of_mem _ (List.mem_cons_self _ _))
      have hc2 := (cluster_is_valid_iff _).mp hc2v.1
      obtain ⟨fat1, m1, m2, m3⟩ := move_file_pos_next fuel
        { file with size := file.size + fat.cluster_byte_size } fat0 E true ha0
        (by rw [hcbs0]; exact hpos)
        (by show cluster_is_valid file.cblk = true; rw [hcb]; exact hcv.1)
        (by show file.cblk < _; rw [hcb, hne0]; exact hcv.2)
        (Or.inl (by
          show E file.cblk ≠ _
          rw [hcb, hE]
          unfold FAT_CLUSTER_INVALID
          omega))
        (by show file.pos + fat0.cluster_byte_size < 2 ^ 32; rw [hcbs0]; omega)
      rw [hcbs0] at m1
      rw [hstep _ _ m1]
      have hg1 := geom_eq_trans hg0 m3.1
      have hcbs1 : fat1.cluster_byte_size = fat.cluster_byte_size := hg1.2.2.2.2.2.2.2.2.symm
      have hne1 : fat_entries fat1 = fat_entries fat := by
        unfold fat_entries; rw [hg1.2.2.1]
      have hrs1 : fat1.root_start = fat.root_start := hg1.2.2.2.2.2.2.1.symm
      have hnd2 : (c2 :: rest1).Nodup := (List.nodup_cons.mp hnd).2
      have hcnot : c ∉ c2 :: rest1 := (List.nodup_cons.mp hnd).1
      obtain ⟨file2, fat2, E2, r1, r2, r3, r4, r5, r6, r7, r8, r9, r10⟩ := ih loops1
        (buf + fat.cluster_byte_size) (nbytes - fat.cluster_byte_size)
        (total + fat.cluster_byte_size)
        { file with size := file.size + fat.cluster_byte_size, cblk := E file.cblk,
                    pos := file.pos + fat.cluster_byte_size } fat1 E m2
        (clusters_ok_geom hg1 (fun x hx => hok x (List.mem_cons_of_mem _ hx))) hnd2 hl.2
        (by show some c2 = some (E file.cblk); rw [hcb, hE])
        (fun z hz => hlast z (by rw [List.getLast?_cons_cons]; exact hz))
        (by rw [hcbs1]; show (file.pos + fat.cluster_byte_size) % fat.cluster_byte_size = 0
            rw [Nat.add_mod_right]; exact hpos)
        (by rw [hcbs1]; show (file.size + fat.cluster_byte_size) % fat.cluster_byte_size = 0
            rw [Nat.add_mod_right]; exact hsize)
        hs
        (by rw [hcbs1, hlen1, Nat.add_sub_cancel]; omega)
        (by rw [hcbs1, hlen1, Nat.add_mul, Nat.one_mul]; omega)
        (by omega)
        (by rw [hcbs1, hlen1, Nat.add_mul, Nat.one_mul, hne1]
            intro h
            exact hx (by omega))
        (by show file.pos + fat.cluster_byte_size + (nbytes - fat.cluster_byte_size) < 2 ^ 32
            omega)
      have etot : total + fat.cluster_byte_size + (nbytes - fat.cluster_byte_size) =
          total + nbytes := by omega
      rw [etot] at r1
      refine ⟨file2, fat2, E2, r1, ?_⟩
      have hpos2 : file2.pos = file.pos + nbytes := by
        rw [r2]
        show file.pos + fat.cluster_byte_size + (nbytes - fat.cluster_byte_size) = _
        omega
      have hsize2 : file2.size = file.size + nbytes := by
        rw [r3]
        show file.size + fat.cluster_byte_size + (nbytes - fat.cluster_byte_size) = _
        omega
      have hsblk2 : file2.sblk = file.sblk := r4
      clear r1 r2 r3 r4
      have hE2c : E2 c = c2 := by
        rw [r8 c (by rw [hE]; omega) (fun h => hcnot (List.mem_of_mem_getLast? h)), hE]
      clear ih hstep m1
      have hB1 : ∀ a, fat.root_start * 512 ≤ a →
          fat1.dev.bytes a =
            if cluster_addr fat c ≤ a ∧ a < cluster_addr fat c + fat.cluster_byte_size then
              umem (buf + (a - cluster_addr fat c))
            else fat.dev.bytes a := by
        intro a ha1
        rw [m3.2.1 a (Or.inr (by rw [← hg0.2.2.2.2.2.2.1]; exact ha1)), hwr.2.2]
      have r9b : ∀ i, i < nbytes - fat.cluster_byte_size →
          fat2.dev.bytes (cluster_addr fat
            ((c2 :: rest1).getD (i / fat.cluster_byte_size) 0) + i % fat.cluster_byte_size) =
            umem (buf + fat.cluster_byte_size + i) := by
        intro i hi
        have h3 := r9 i hi
        rw [hcbs1, cluster_addr_geom hg1] at h3
        exact h3
      have r10b : ∀ a, fat.root_start * 512 ≤ a →
          (∀ d, d ∈ c2 :: rest1 →
            ¬ (cluster_addr fat d ≤ a ∧ a < cluster_addr fat d + fat.cluster_byte_size)) →
          fat2.dev.bytes a = fat1.dev.bytes a := by
        intro a ha1 ha2
        refine r10 a (by rw [hrs1]; exact ha1) (fun d hd => ?_)
        rw [cluster_addr_geom hg1, hcbs1]
        exact ha2 d hd
      have hdisj : ∀ d, d ∈ c2 :: rest1 → ∀ a,
          cluster_addr fat c ≤ a ∧ a < cluster_addr fat c + fat.cluster_byte_size →
          ¬ (cluster_addr fat d ≤ a ∧ a < cluster_addr fat d + fat.cluster_byte_size) := by
        intro d hd a hin
        have hdv := (cluster_is_valid_iff _).mp (hok d (List.mem_cons_of_mem _ hd)).1
        have hcv2 := (cluster_is_valid_iff _).mp hcv.1
        exact cluster_addr_disjoint fat hw c d hcv2.1 hdv.1 (fun h => hcnot (h ▸ hd)) a hin
      have hglue := write_data_glue fat.cluster_byte_size (fat.root_start * 512) hcpos
        (cluster_addr fat) c (c2 :: rest1) umem fat.dev.bytes fat1.dev.bytes fat2.dev.bytes buf
        nbytes (by omega) hge.1 hB1 r9b r10b hdisj
      exact ⟨hpos2, hsize2, hsblk2, r5, geom_eq_trans hg1 r6, ⟨hE2c, r7⟩,
        fun y hy1 hy2 => r8 y hy1 (by rw [← List.getLast?_cons_cons (a := c)]; exact hy2),
        hglue.1, hglue.2⟩

theorem fatfs_read_loop_zero (fuel : Nat) (umem : bytes_t) (buf total : Nat)
    (file : file_t) (fat : fat_t) :
    fatfs_read_loop fuel umem buf 0 total file fat = (total, umem, file, fat) := by
  cases fuel with
  | zero => rfl
  | succ n => rw [fatfs_read_loop, if_neg (by simp)]

theorem fatfs_read_loop_step (fuel : Nat) (umem : bytes_t) (buf nbytes total : Nat)
    (file : file_t) (fat : fat_t) (hi : fat_inv fat) (hn : 0 < nbytes)
    (hpos : file.pos % fat.cluster_byte_size = 0) (hc : cluster_is_valid file.cblk = true)
    (hn32 : nbytes < 2 ^ 32) :
    ∃ fat0 umem1, geom_eq fat fat0 ∧ fat_inv fat0 ∧ fat0.dev = fat.dev ∧
      (∀ a, umem1 a =
        if buf ≤ a ∧ a < buf + min nbytes fat.cluster_byte_size then
          fat.dev.bytes (cluster_addr fat file.cblk + (a - buf))
        else umem a) ∧
      ∀ file1 fat1,
        move_file_pos 0 file fat0 (min nbytes fat.cluster_byte_size) false =
          some (0, file1, fat1) →
        fatfs_read_loop (fuel + 1) umem buf nbytes total file fat =
          fatfs_read_loop fuel umem1 (buf + min nbytes fat.cluster_byte_size)
            (nbytes - min nbytes fat.cluster_byte_size)
            (total + min nbytes fat.cluster_byte_size) file1 fat1 := by
  obtain ⟨hw, hd, hcache⟩ := hi
  have hv := (cluster_is_valid_iff _).mp hc
  have hsec := cluster_sector_eq fat hw file.cblk hv.1 (by omega)
  have hcbs := hw.cbs
  have haddr : cluster_addr fat file.cblk = cluster_sector fat file.cblk * 512 := by
    rw [hsec]; rfl
  rw [fatfs_read_loop, if_pos hn]
  dsimp only
  by_cases hfull : file.pos % fat.cluster_byte_size = 0 ∧ nbytes = fat.cluster_byte_size
  · rw [if_pos hfull]
    have hk : min nbytes fat.cluster_byte_size = fat.cluster_byte_size := by
      rw [hfull.2]; exact Nat.min_self _
    obtain ⟨r1, r2⟩ := dev_read_ok fat.dev hd (cluster_sector fat file.cblk) umem buf
      fat.sec_per_cluster
    rw [if_neg (by rw [r1]; omega)]
    refine ⟨fat, (dev_read fat.dev (cluster_sector fat file.cblk) umem buf fat.sec_per_cluster).2,
      geom_eq_refl _, ⟨hw, hd, hcache⟩, rfl, fun a => ?_, ?_⟩
    · rw [r2 a, hk, haddr, hcbs]
    · intro file1 fat1 hm
      rw [hk] at hm ⊢
      rw [hm]
      simp
  · rw [if_neg hfull]
    obtain ⟨r1, r2⟩ := dev_read_ok fat.dev hd (cluster_sector fat file.cblk) fat.fat_buffer 0
      fat.sec_per_cluster
    rw [if_neg (by rw [r1]; omega)]
    rw [hpos, Nat.zero_add, Nat.mod_eq_of_lt hn32]
    have hkk : (if nbytes > fat.cluster_byte_size then fat.cluster_byte_size - 0 else nbytes) =
        min nbytes fat.cluster_byte_size := by
      split
      · omega
      · omega
    rw [hkk]
    generalize hk : min nbytes fat.cluster_byte_size = k
    have hkle : k ≤ fat.cluster_byte_size := by omega
    generalize hb : (dev_read fat.dev (cluster_sector fat file.cblk) fat.fat_buffer 0
      fat.sec_per_cluster).2 = b1 at r2 ⊢
    have hg : geom_eq fat { fat with curr_sector := -1, fat_buffer := b1 } :=
      ⟨rfl, rfl, rfl, rfl, rfl, rfl, rfl, rfl, rfl⟩
    refine ⟨{ fat with curr_sector := -1, fat_buffer := b1 }, kernel_memcpy umem buf b1 0 k, hg,
      ⟨fat_wf_of_geom_eq hg hw, hd, Or.inl rfl⟩, rfl, fun a => ?_, ?_⟩
    · show kernel_memcpy umem buf b1 0 k a = _
      unfold kernel_memcpy
      by_cases h1 : buf ≤ a ∧ a < buf + k
      · rw [if_pos h1, if_pos h1, r2, if_pos (by omega), haddr]
        exact congrArg fat.dev.bytes (by omega)
      · rw [if_neg h1, if_neg h1]
    · intro file1 fat1 hm
      rw [hm]
      simp
theorem fatfs_read_loop_spec (ls : List Nat) :
    ∀ (fuel : Nat) (umem : bytes_t) (buf nbytes total : Nat) (file : file_t) (fat : fat_t)
      (E : Nat → Nat),
      fat_abs fat E → clusters_ok fat ls → links E ls →
      ls.head? = some file.cblk →
      file.pos % fat.cluster_byte_size = 0 →
      (ls.length - 1) * fat.cluster_byte_size < nbytes →
      nbytes ≤ ls.length * fat.cluster_byte_size →
      nbytes ≤ fuel →
      file.pos + nbytes < 2 ^ 32 →
      (fatfs_read_loop fuel umem buf nbytes total file fat).1 = total + nbytes ∧
      (∀ i, i < nbytes →
        (fatfs_read_loop fuel umem buf nbytes total file fat).2.1 (buf + i) =
          fat.dev.bytes (cluster_addr fat (ls.getD (i / fat.cluster_byte_size) 0) +
            i % fat.cluster_byte_size)) ∧
      (∀ a, a < buf ∨ buf + nbytes ≤ a →
        (fatfs_read_loop fuel umem buf nbytes total file fat).2.1 a = umem a) := by
  induction ls with
  | nil => intro _ _ _ _ _ _ _ _ _ _ _ h; cases h
  | cons c rest ih =>
    intro fuel umem buf nbytes total file fat E ha hok hl hhead hpos hlo hhi hfuel hb32
    have hcb : file.cblk = c := by injection hhead with h; exact h.symm
    have hw := ha.1.1
    have hcpos : 0 < fat.cluster_byte_size := by
      have h1 := hw.cbs
      have h2 := hw.spc_pos
      omega
    have hcv := hok c (List.mem_cons_self _ _)
    have hn0 : 0 < nbytes := by omega
    obtain ⟨fuel1, hf1⟩ : ∃ m, fuel = m + 1 := ⟨fuel - 1, by omega⟩
    subst hf1
    obtain ⟨fat0, umem1, hg0, hi0, hd0, hum, hstep⟩ := fatfs_read_loop_step fuel1 umem buf nbytes
      total file fat ha.1 hn0 hpos (by rw [hcb]; exact hcv.1) (by omega)
    rw [hcb] at hum
    have ha0 : fat_abs fat0 E := fat_abs_of_dev ha hi0 hg0 hd0
    have hcbs0 : fat0.cluster_byte_size = fat.cluster_byte_size := hg0.2.2.2.2.2.2.2.2.symm
    have hne0 : fat_entries fat0 = fat_entries fat := by
      unfold fat_entries; rw [hg0.2.2.1]
    have hge := cluster_addr_ge fat hw
    cases rest with
    | nil =>
      simp only [List.length_singleton, Nat.sub_self, Nat.zero_mul, Nat.one_mul] at hlo hhi
      have hk : min nbytes fat.cluster_byte_size = nbytes := by omega
      rw [hk] at hum hstep
      have hmove : ∃ file1 fat1, move_file_pos 0 file fat0 nbytes false =
          some (0, file1, fat1) := by
        by_cases hfull : nbytes = fat.cluster_byte_size
        · obtain ⟨fat1, m1, _, _⟩ := move_file_pos_next 0 file fat0 E false ha0
            (by rw [hcbs0]; exact hpos) (by rw [hcb]; exact hcv.1)
            (by rw [hcb, hne0]; exact hcv.2) (Or.inr rfl) (by rw [hcbs0]; omega)
          rw [hcbs0, ← hfull] at m1
          exact ⟨_, _, m1⟩
        · exact ⟨_, _, move_file_pos_within 0 file fat0 nbytes false
            (by rw [hcbs0]; exact hpos) (by rw [hcbs0]; omega) hb32⟩
      obtain ⟨file1, fat1, m1⟩ := hmove
      rw [hstep _ _ m1, Nat.sub_self, fatfs_read_loop_zero]
      refine ⟨rfl, fun i hi => ?_, fun a ha1 => ?_⟩
      · have h1 : i / fat.cluster_byte_size = 0 := Nat.div_eq_of_lt (by omega)
        have h2 : i % fat.cluster_byte_size = i := Nat.mod_eq_of_lt (by omega)
        rw [h1, h2]
        show umem1 (buf + i) = fat.dev.bytes (cluster_addr fat c + i)
        rw [hum, if_pos (by omega)]
        exact congrArg fat.dev.bytes (by omega)
      · show umem1 a = _
        rw [hum, if_neg (by omega)]
    | cons c2 rest1 =>
      have hlen : (c :: c2 :: rest1).length = rest1.length + 2 := rfl
      have hlen1 : (c2 :: rest1).length = rest1.length + 1 := rfl
      rw [hlen] at hlo hhi
      have e1 : (rest1.length + 2 - 1) * fat.cluster_byte_size =
          rest1.length * fat.cluster_byte_size + fat.cluster_byte_size := by
        rw [show rest1.length + 2 - 1 = rest1.length + 1 from rfl, Nat.add_mul, Nat.one_mul]
      have e2 : (rest1.length + 2) * fat.cluster_byte_size =
          rest1.length * fat.cluster_byte_size + fat.cluster_byte_size +
            fat.cluster_byte_size := by ring
      rw [e1] at hlo
      rw [e2] at hhi
      have hk : min nbytes fat.cluster_byte_size = fat.cluster_byte_size := by omega
      rw [hk] at hum hstep
      have hE : E c = c2 := hl.1
      obtain ⟨fat1, m1, m2, m3⟩ := move_file_pos_next 0 file fat0 E false ha0
        (by rw [hcbs0]; exact hpos) (by rw [hcb]; exact hcv.1)
        (by rw [hcb, hne0]; exact hcv.2) (Or.inr rfl) (by rw [hcbs0]; omega)
      rw [hcbs0] at m1
      obtain ⟨file1, hfile1⟩ : ∃ f : file_t,
          f = { file with cblk := E file.cblk, pos := file.pos + fat.cluster_byte_size } :=
        ⟨_, rfl⟩
      rw [← hfile1] at m1
      have hf1c : file1.cblk = c2 := by rw [hfile1]; show E file.cblk = c2; rw [hcb, hE]
      have hf1p : file1.pos % fat.cluster_byte_size = 0 := by
        rw [hfile1]
        show (file.pos + fat.cluster_byte_size) % fat.cluster_byte_size = 0
        rw [Nat.add_mod_right]; exact hpos
      have hf1b : file1.pos + (nbytes - fat.cluster_byte_size) < 2 ^ 32 := by
        rw [hfile1]
        show file.pos + fat.cluster_byte_size + (nbytes - fat.cluster_byte_size) < 2 ^ 32
        omega
      clear hfile1
      rw [hstep _ _ m1]
      have hg1 := geom_eq_trans hg0 m3.1
      have hcbs1 : fat1.cluster_byte_size = fat.cluster_byte_size := hg1.2.2.2.2.2.2.2.2.symm
      have hdata : ∀ a, fat.root_start * 512 ≤ a → fat1.dev.bytes a = fat.dev.bytes a := by
        intro a ha1
        rw [m3.2.1 a (Or.inr (by rw [← hg0.2.2.2.2.2.2.1]; exact ha1)), hd0]
      have hlo1 : ((c2 :: rest1).length - 1) * fat1.cluster_byte_size <
          nbytes - fat.cluster_byte_size := by
        rw [hcbs1, hlen1, Nat.add_sub_cancel]; omega
      have hhi1 : nbytes - fat.cluster_byte_size ≤
          (c2 :: rest1).length * fat1.cluster_byte_size := by
        rw [hcbs1, hlen1, Nat.add_mul, Nat.one_mul]; omega
      obtain ⟨r1, r2, r3⟩ := ih fuel1 umem1 (buf + fat.cluster_byte_size)
        (nbytes - fat.cluster_byte_size) (total + fat.cluster_byte_size) file1 fat1 E m2
        (clusters_ok_geom hg1 (fun x hx => hok x (List.mem_cons_of_mem _ hx))) hl.2
        (by rw [hf1c]; rfl) (by rw [hcbs1]; exact hf1p) hlo1 hhi1 (by omega) hf1b
      clear ih hstep m1
      generalize fatfs_read_loop fuel1 umem1 (buf + fat.cluster_byte_size)
        (nbytes - fat.cluster_byte_size) (total + fat.cluster_byte_size)
        file1 fat1 = res at r1 r2 r3 ⊢
      have r2b : ∀ i, i < nbytes - fat.cluster_byte_size →
          res.2.1 (buf + fat.cluster_byte_size + i) =
            fat.dev.bytes (cluster_addr fat
              ((c2 :: rest1).getD (i / fat.cluster_byte_size) 0) + i % fat.cluster_byte_size) := by
        intro i hi
        have h3 := r2 i hi
        rw [hcbs1, cluster_addr_geom hg1] at h3
        rw [h3]
        exact hdata _ (Nat.le_trans (hge _).1 (Nat.le_add_right _ _))
      have hglue := read_data_glue fat.cluster_byte_size hcpos fat.dev.bytes (cluster_addr fat) c
        (c2 :: rest1) umem umem1 res.2.1 buf nbytes (by omega) hum r2b r3
      exact ⟨by rw [r1]; omega, hglue.1, hglue.2⟩

theorem ceil_div_spec (n c : Nat) (hc : 0 < c) (hn : 1 ≤ n) :
    ((n + c - 1) / c - 1) * c < n ∧ n ≤ (n + c - 1) / c * c ∧ 1 ≤ (n + c - 1) / c ∧
    (n % c ≠ 0 → (n + c - 1) / c = n / c + 1) ∧ (n % c = 0 → (n + c - 1) / c = n / c) := by
  have h1 := Nat.div_add_mod n c
  have h2 := Nat.mod_lt n hc
  have hq : c * (n / c) = n / c * c := Nat.mul_comm _ _
  have hA : n % c ≠ 0 → (n + c - 1) / c = n / c + 1 := by
    intro h
    refine Nat.div_eq_of_lt_le ?_ ?_
    · rw [Nat.add_mul, Nat.one_mul]; omega
    · rw [Nat.add_mul, Nat.add_mul, Nat.one_mul]; omega
  have hB : n % c = 0 → (n + c - 1) / c = n / c := by
    intro h
    refine Nat.div_eq_of_lt_le ?_ ?_
    · omega
    · rw [Nat.add_mul, Nat.one_mul]; omega
  refine ⟨?_, ?_, ?_, hA, hB⟩
  · by_cases h : n % c = 0
    · rw [hB h]
      have hpos : 1 ≤ n / c := by
        rcases Nat.eq_zero_or_pos (n / c) with h0 | h0
        · rw [h0] at h1; omega
        · exact h0
      have e3 : (n / c - 1) * c + c = n / c * c := by
        have e4 : n / c - 1 + 1 = n / c := by omega
        rw [← Nat.succ_mul, Nat.succ_eq_add_one, e4]
      omega
    · rw [hA h, Nat.add_sub_cancel]
      omega
  · by_cases h : n % c = 0
    · rw [hB h]; omega
    · rw [hA h, Nat.add_mul, Nat.one_mul]; omega
  · by_cases h : n % c = 0
    · rw [hB h]
      rcases Nat.eq_zero_or_pos (n / c) with h0 | h0
      · rw [h0] at h1; omega
      · exact h0
    · rw [hA h]; exact Nat.le_add_left 1 (n / c)

theorem first_free_take {E : Nat → Nat} {n curr : Nat} {l : List Nat}
    (h : first_free E n curr l) (m : Nat) : first_free E n curr (l.take m) := by
  obtain ⟨hs, hm, hn⟩ := h
  have hsub : ∀ x, x ∈ l.take m → x ∈ l := fun x hx => List.mem_of_mem_take hx
  refine ⟨?_, fun x hx => hm x (hsub x hx), fun y hy hex hyl => ?_⟩
  · exact List.Pairwise.sublist (List.take_sublist m l) hs
  · obtain ⟨x, hx, hyx⟩ := hex
    refine hn y hy ⟨x, hsub x hx, hyx⟩ (fun hmem => hyl ?_)
    -- an element of `l` below an element of the prefix lies in the prefix
    have hsplit : l = l.take m ++ l.drop m := (List.take_append_drop m l).symm
    rw [hsplit] at hmem hs
    rcases List.mem_append.mp hmem with h1 | h1
    · exact h1
    · have := (List.pairwise_append.mp hs).2.2 x hx y h1
      omega

theorem is_chain_ne_zero {fat : fat_t} {E : Nat → Nat} {e : Nat} (he : e ≠ 0) :
    ∀ (l : List Nat), is_chain fat E l e → ∀ y, y ∈ l → E y ≠ 0 := by
  intro l
  induction l with
  | nil => intro _ y hy; cases hy
  | cons c rest ih =>
    intro hch y hy
    obtain ⟨hok, hnd, hl, hlast⟩ := hch
    cases rest with
    | nil =>
      have hyc : y = c := by simpa using hy
      rw [hyc, hlast c rfl]
      exact he
    | cons c2 rest1 =>
      rcases List.mem_cons.mp hy with h | h
      · rw [h, hl.1]
        have := (cluster_is_valid_iff _).mp
          (hok c2 (List.mem_cons_of_mem _ (List.mem_cons_self _ _))).1
        omega
      · exact ih ⟨fun x hx => hok x (List.mem_cons_of_mem _ hx), (List.nodup_cons.mp hnd).2,
          hl.2, fun x hx => hlast x (by rw [List.getLast?_cons_cons]; exact hx)⟩ y h

theorem first_free_after {E E1 : Nat → Nat} {n : Nat} {l1 : List Nat} {x : Nat}
    (h : first_free E n 2 (l1 ++ [x])) (hout : ∀ y, y ∉ l1 → E1 y = E y)
    (hin : ∀ y, y ∈ l1 → E1 y ≠ 0) : first_free E1 n 2 [x] := by
  obtain ⟨hs, hm, hn⟩ := h
  have hxm : x ∈ l1 ++ [x] := List.mem_append.mpr (Or.inr (List.mem_singleton.mpr rfl))
  have hxn : x ∉ l1 := by
    intro hx
    have := (List.pairwise_append.mp hs).2.2 x hx x (List.mem_singleton.mpr rfl)
    omega
  refine ⟨List.pairwise_singleton _ _, fun z hz => ?_, fun y hy hex hyl => ?_⟩
  · have hzx : z = x := List.mem_singleton.mp hz
    subst hzx
    have := hm z hxm
    exact ⟨this.1, this.2.1, this.2.2.1, by rw [hout z hxn]; exact this.2.2.2⟩
  · obtain ⟨z, hz, hyz⟩ := hex
    have hzx : z = x := List.mem_singleton.mp hz
    subst hzx
    by_cases hy1 : y ∈ l1
    · exact hin y hy1
    · rw [hout y hy1]
      refine hn y hy ⟨z, hxm, hyz⟩ (fun hmem => ?_)
      rcases List.mem_append.mp hmem with h1 | h1
      · exact hy1 h1
      · exact hyl h1

theorem expand_file_new (fuel : Nat) (file : file_t) (fat : fat_t) (E : Nat → Nat) (n : Nat)
    (l1 : List Nat) (ha : fat_abs fat E) (hsize : file.size = 0)
    (hsblk : cluster_is_valid (file.sblk % 65536) = false)
    (hfree : first_free E (fat_entries fat) 2 l1) (hne : l1 ≠ [])
    (hlen : l1.length = up2 n fat.cluster_byte_size / fat.cluster_byte_size)
    (hfuel : 65536 ≤ fuel) :
    ∃ fat1 E1, expand_file fuel file fat n =
        some (0, { file with cblk := l1.headD 0, sblk := l1.headD 0 }, fat1) ∧
      fat_abs fat1 E1 ∧ fat_frame fat fat1 ∧ is_chain fat1 E1 l1 FAT_CLUSTER_INVALID ∧
      (∀ y, y ∉ l1 → E1 y = E y) := by
  obtain ⟨fat1, E1, a1, a2, a3, a4, a5⟩ := cluster_alloc_free_spec fuel fat E l1 ha hfree hne hfuel
  have hhd : l1.headD 0 ∈ l1 := by
    cases l1 with
    | nil => exact absurd rfl hne
    | cons x l => exact List.mem_cons_self _ _
  have hv := (a4.1 _ hhd).1
  refine ⟨fat1, E1, ?_, a2, a3, a4, a5⟩
  unfold expand_file
  dsimp only
  rw [if_pos (Or.inl hsize), ← hlen, a1]
  dsimp only
  rw [if_neg (not_not.mpr hv), if_pos (by simp [hsblk])]

theorem fatfs_seek_loop_zero (fuel : Nat) (fat : fat_t) (c pos : Nat) :
    fatfs_seek_loop fuel fat c pos 0 = (0, pos, c, fat) := by
  cases fuel with
  | zero => rfl
  | succ k => rw [fatfs_seek_loop, if_neg (by decide)]

theorem fatfs_seek_zero (file : file_t) (fat : fat_t) :
    fatfs_seek file 0 0 fat = (0, { file with pos := 0, cblk := file.sblk % 65536 }, fat) := by
  unfold fatfs_seek
  rw [if_neg (by decide)]
  dsimp only
  rw [fatfs_seek_loop_zero]
  rfl

theorem fatfs_read_spec (umem : bytes_t) (buf n : Nat) (file : file_t) (fat : fat_t)
    (E : Nat → Nat) (ls : List Nat) (ha : fat_abs fat E) (hok : clusters_ok fat ls)
    (hl : links E ls) (hhead : ls.head? = some file.cblk) (hpos : file.pos = 0)
    (hsize : file.size = n) (hn : n < 2 ^ 31)
    (hlo : (ls.length - 1) * fat.cluster_byte_size < n)
    (hhi : n ≤ ls.length * fat.cluster_byte_size) :
    (fatfs_read umem buf n file fat).1 = (n : Int) ∧
    (∀ i, i < n → (fatfs_read umem buf n file fat).2.1 (buf + i) =
      fat.dev.bytes (cluster_addr fat (ls.getD (i / fat.cluster_byte_size) 0) +
        i % fat.cluster_byte_size)) ∧
    (∀ a, a < buf ∨ buf + n ≤ a → (fatfs_read umem buf n file fat).2.1 a = umem a) := by
  obtain ⟨r1, r2, r3⟩ := fatfs_read_loop_spec ls n umem buf n 0 file fat E ha hok hl hhead
    (by rw [hpos]; exact Nat.zero_mod _) hlo hhi (le_refl _) (by rw [hpos]; omega)
  have hnb : (if (file.pos + n) % 2 ^ 32 > file.size then
      uint32 ((file.size : Int) - (file.pos : Int)) else n) = n := by
    rw [hpos, hsize, Nat.zero_add, Nat.mod_eq_of_lt (by omega), if_neg (by omega)]
  unfold fatfs_read
  dsimp only
  rw [hnb]
  refine ⟨?_, r2, r3⟩
  rw [r1, Nat.zero_add]
  unfold int32
  rw [Nat.mod_eq_of_lt (by omega), if_pos hn]

theorem fatfs_write_new_spec (fuel : Nat) (umem : bytes_t) (buf n : Nat) (file : file_t)
    (fat : fat_t) (E : Nat → Nat) (l : List Nat) (ha : fat_abs fat E)
    (hsize : file.size = 0) (hpos : file.pos = 0) (hsblk : file.sblk = FAT_CLUSTER_INVALID)
    (hn1 : 1 ≤ n) (hfree : first_free E (fat_entries fat) 2 l)
    (hlen : l.length = n / fat.cluster_byte_size + 1) (hfuel : 65536 ≤ fuel)
    (hn32 : n < 2 ^ 32) :
    ∃ file1 fat1 E1 l1,
      fatfs_write fuel umem buf n file fat = some ((n : Int), file1, fat1) ∧
      file1.pos = n ∧ file1.size = n ∧ l1.head? = some (file1.sblk % 65536) ∧
      fat_abs fat1 E1 ∧ geom_eq fat fat1 ∧ clusters_ok fat1 l1 ∧ links E1 l1 ∧
      (l1.length - 1) * fat.cluster_byte_size < n ∧ n ≤ l1.length * fat.cluster_byte_size ∧
      (∀ i, i < n →
        fat1.dev.bytes (cluster_addr fat (l1.getD (i / fat.cluster_byte_size) 0) +
          i % fat.cluster_byte_size) = umem (buf + i)) := by
  have hw := ha.1.1
  have hcpos : 0 < fat.cluster_byte_size := by
    have h1 := hw.cbs
    have h2 := hw.spc_pos
    omega
  obtain ⟨b1, b2, b3, b4, b5⟩ := ceil_div_spec n fat.cluster_byte_size hcpos hn1
  generalize hm : (n + fat.cluster_byte_size - 1) / fat.cluster_byte_size = m at b1 b2 b3 b4 b5
  have hmle : m ≤ l.length := by
    rw [hlen]
    by_cases h : n % fat.cluster_byte_size = 0
    · rw [b5 h]; omega
    · rw [b4 h]
  have hl1len : (l.take m).length = m := by
    rw [List.length_take]; omega
  have hff1 := first_free_take hfree m
  have hne1 : l.take m ≠ [] := by
    intro h
    rw [h] at hl1len
    simp at hl1len
    omega
  obtain ⟨fatA, EA, x1, x2, x3, x4, x5⟩ := expand_file_new fuel file fat E n (l.take m) ha hsize
    (by rw [hsblk]; decide) hff1 hne1 (by rw [hl1len, up2_div _ _ hcpos, hm]) hfuel
  generalize hl1 : l.take m = l1 at hl1len hff1 hne1 x1 x2 x3 x4 x5
  obtain ⟨h, hhd⟩ : ∃ h, l1.head? = some h := by
    cases l1 with
    | nil => exact absurd rfl hne1
    | cons a t => exact ⟨a, rfl⟩
  have hhD : l1.headD 0 = h := by
    cases l1 with
    | nil => cases hhd
    | cons a t => injection hhd
  rw [hhD] at x1
  have hhm : h ∈ l1 := List.mem_of_mem_head? hhd
  have hhv := (cluster_is_valid_iff _).mp (x4.1 h hhm).1
  have hhmod : h % 65536 = h := Nat.mod_eq_of_lt (by omega)
  have hcbsA : fatA.cluster_byte_size = fat.cluster_byte_size := x3.1.2.2.2.2.2.2.2.2.symm
  have hNA : fat_entries fatA = fat_entries fat := fat_entries_frame x3
  have hextra : n = l1.length * fatA.cluster_byte_size →
      ∃ x, first_free EA (fat_entries fatA) 2 [x] := by
    intro hfull
    rw [hcbsA, hl1len] at hfull
    have hmod : n % fat.cluster_byte_size = 0 := by
      rw [hfull]; exact Nat.mul_mod_left _ _
    have hmq : m = n / fat.cluster_byte_size := b5 hmod
    have hdl : (l.drop m).length = 1 := by
      rw [List.length_drop, hlen, hmq]; omega
    obtain ⟨x, hx⟩ := List.length_eq_one.mp hdl
    have hsplit : l = l1 ++ [x] := by
      rw [← hl1, ← hx]; exact (List.take_append_drop m l).symm
    refine ⟨x, ?_⟩
    rw [hNA]
    exact first_free_after (by rw [← hsplit]; exact hfree) x5
      (is_chain_ne_zero (by decide) l1 x4)
  obtain ⟨file0, hfile0⟩ : ∃ f : file_t, f = { file with cblk := h, sblk := h } := ⟨_, rfl⟩
  rw [← hfile0] at x1
  have f0c : file0.cblk = h := by rw [hfile0]
  have f0s : file0.sblk = h := by rw [hfile0]
  have f0p : file0.pos = 0 := by rw [hfile0]; exact hpos
  have f0z : file0.size = 0 := by rw [hfile0]; exact hsize
  clear hfile0
  obtain ⟨file1, fat1, E1, w1, w2, w3, w4, w5, w6, w7, _, w9, _⟩ := fatfs_write_loop_spec fuel
    umem hfuel l1 n buf n 0 file0 fatA EA x2 x4.1 x4.2.1 x4.2.2.1 (by rw [f0c]; exact hhd)
    x4.2.2.2 (by rw [f0p]; exact Nat.zero_mod _) (by rw [f0z]; exact Nat.zero_mod _)
    (by rw [f0s, hhmod]; exact (x4.1 h hhm).1)
    (by rw [hcbsA, hl1len]; exact b1) (by rw [hcbsA, hl1len]; exact b2) (le_refl _) hextra
    (by rw [f0p]; omega)
  have hg1 := geom_eq_trans x3.1 w6
  refine ⟨file1, fat1, E1, l1, ?_, by rw [w2, f0p, Nat.zero_add],
    by rw [w3, f0z, Nat.zero_add], by rw [w4, f0s, hhmod]; exact hhd, w5, hg1,
    clusters_ok_geom w6 x4.1, w7, by rw [hl1len]; exact b1, by rw [hl1len]; exact b2, ?_⟩
  · unfold fatfs_write
    have e0 : file.pos + n - file.size = n := by rw [hpos, hsize]; omega
    rw [if_pos (by rw [hpos, hsize]; omega), e0, x1]
    dsimp only
    rw [if_neg (by decide), w1, Nat.zero_add]
  · intro i hi
    have := w9 i hi
    rw [hcbsA, cluster_addr_geom x3.1] at this
    exact this

end data_lemmas

/-! ### The FAT16 driver: write, rewind, read -/

/-- The round trip on an error-free disk.  `file` is a file as `fatfs_open`
leaves it after creating it (size 0, position 0, start cluster
`FAT_CLUSTER_INVALID`), the clusters are no larger than the page that holds
the driver's buffer, `1 ≤ n ≤ 8 * cluster_byte_size`, and `l` lists the first
`n / cluster_byte_size + 1` free clusters of the table.  Then `fatfs_write`
of the `n` bytes at `buf` returns `n`, `fatfs_seek` to offset 0 returns 0,
and a `fatfs_read` of `n` bytes to `buf2` returns `n`, stores at `buf2 + i`
the byte the write took from `buf + i` for every `i < n`, and leaves the
memory outside the destination as it was. -/
theorem fatfs_write_seek_read_spec (fuel : Nat) (umem umem2 : bytes_t) (buf buf2 n : Nat)
    (file : file_t) (fat : fat_t) (E : Nat → Nat) (l : List Nat)
    (ha : fat_abs fat E) (hpage : fat.cluster_byte_size ≤ MEM_PAGE_SIZE)
    (hsize : file.size = 0) (hpos : file.pos = 0)
    (hsblk : file.sblk = FAT_CLUSTER_INVALID)
    (hn1 : 1 ≤ n) (hn8 : n ≤ 8 * fat.cluster_byte_size)
    (hfree : first_free E (fat_entries fat) 2 l)
    (hlen : l.length = n / fat.cluster_byte_size + 1) (hfuel : 65536 ≤ fuel) :
    ∃ file1 fat1, fatfs_write fuel umem buf n file fat = some ((n : Int), file1, fat1) ∧
      (fatfs_seek file1 0 0 fat1).1 = 0 ∧
      (fatfs_read umem2 buf2 n (fatfs_seek file1 0 0 fat1).2.1
        (fatfs_seek file1 0 0 fat1).2.2).1 = (n : Int) ∧
      (∀ i, i < n →
        (fatfs_read umem2 buf2 n (fatfs_seek file1 0 0 fat1).2.1
          (fatfs_seek file1 0 0 fat1).2.2).2.1 (buf2 + i) = umem (buf + i)) ∧
      (∀ a, a < buf2 ∨ buf2 + n ≤ a →
        (fatfs_read umem2 buf2 n (fatfs_seek file1 0 0 fat1).2.1
          (fatfs_seek file1 0 0 fat1).2.2).2.1 a = umem2 a) := by
  have hn31 : n < 2 ^ 31 := by
    have h1 : fat.cluster_byte_size ≤ 4096 := hpage
    omega
  obtain ⟨file1, fat1, E1, l1, w1, _, w3, w4, w5, w6, w7, w8, w9, w10, w11⟩ :=
    fatfs_write_new_spec fuel umem buf n file fat E l ha hsize hpos hsblk hn1 hfree hlen hfuel
      (by omega)
  have hcbs1 : fat1.cluster_byte_size = fat.cluster_byte_size := w6.2.2.2.2.2.2.2.2.symm
  refine ⟨file1, fat1, w1, ?_⟩
  rw [fatfs_seek_zero]
  obtain ⟨r1, r2, r3⟩ := fatfs_read_spec umem2 buf2 n
    { file1 with pos := 0, cblk := file1.sblk % 65536 } fat1 E1 l1 w5 w7 w8 w4 rfl w3 hn31
    (by rw [hcbs1]; exact w9) (by rw [hcbs1]; exact w10)
  refine ⟨rfl, r1, fun i hi => ?_, r3⟩
  have h2 := r2 i hi
  rw [hcbs1, cluster_addr_geom w6] at h2
  exact h2.trans (w11 i hi)

/-! ### Lemmas on memory management -/

section mem_lemmas

theorem and_two_pow_ne_zero (x k : Nat) : x &&& 2 ^ k ≠ 0 ↔ x.testBit k = true := by
  constructor
  · intro h
    obtain ⟨i, hi⟩ := Nat.ne_zero_implies_bit_true h
    rw [Nat.testBit_and, Nat.testBit_two_pow] at hi
    simp only [Bool.and_eq_true, decide_eq_true_eq] at hi
    rw [hi.2]
    exact hi.1
  · intro h h0
    have : (x &&& 2 ^ k).testBit k = true := by
      rw [Nat.testBit_and, Nat.testBit_two_pow, h]
      simp
    rw [h0] at this
    simp at this

theorem bitmap_get_bit_eq (bitmap : bitmap_t) (index : Nat) :
    bitmap_get_bit bitmap index = if bit_of bitmap index = true then 1 else 0 := by
  unfold bitmap_get_bit bit_of
  rw [Nat.one_shiftLeft]
  by_cases h : (bitmap.bits (index / 8)).testBit (index % 8) = true
  · rw [if_pos ((and_two_pow_ne_zero _ _).mpr h), if_pos h]
  · rw [if_neg (fun hn => h ((and_two_pow_ne_zero _ _).mp hn)), if_neg h]

theorem bitmap_set_one (bitmap : bitmap_t) (index : Nat) (h : index < bitmap.bit_count) :
    (bitmap_set_bit bitmap index 1 1).bit_count = bitmap.bit_count ∧
    ∀ j, bit_of (bitmap_set_bit bitmap index 1 1) j = (decide (j = index) || bit_of bitmap j) := by
  have hdef : bitmap_set_bit bitmap index 1 1 =
      { bitmap with bits := fun j =>
          if j = index / 8 then (bitmap.bits (index / 8) ||| (1 <<< (index % 8))) % 256
          else bitmap.bits j } := by
    rw [bitmap_set_bit, if_pos h]
    simp only [bitmap_set_bit]
    rfl
  rw [hdef]
  refine ⟨rfl, fun j => ?_⟩
  unfold bit_of
  dsimp only
  by_cases hj : j / 8 = index / 8
  · rw [if_pos hj, Nat.one_shiftLeft]
    have h256 : (256 : Nat) = 2 ^ 8 := by norm_num
    rw [h256, Nat.testBit_mod_two_pow, Nat.testBit_or, Nat.testBit_two_pow, hj]
    have hlt : j % 8 < 8 := Nat.mod_lt _ (by norm_num)
    have e1 : decide (j % 8 < 8) = true := decide_eq_true hlt
    rw [e1, Bool.true_and, Bool.or_comm]
    congr 1
    apply decide_eq_decide.mpr
    constructor
    · intro he; omega
    · intro he; rw [he]
  · rw [if_neg hj]
    have : decide (j = index) = false := decide_eq_false (fun he => hj (by rw [he]))
    rw [this, Bool.false_or]

theorem bitmap_alloc_one (bitmap : bitmap_t) :
    ∀ (fuel s f : Nat), s ≤ f → f < bitmap.bit_count → bit_of bitmap f = false →
      (∀ j, s ≤ j → j < f → bit_of bitmap j = true) → f - s + 1 ≤ fuel →
      bitmap_alloc_nbits bitmap 0 1 fuel s = some ((f : Int), bitmap_set_bit bitmap f 1 1) := by
  intro fuel
  induction fuel with
  | zero => intro s f _ _ _ _ h; omega
  | succ fuel ih =>
    intro s f hsf hf hbit hbelow hfuel
    rw [bitmap_alloc_nbits, if_pos (by omega), bitmap_get_bit_eq]
    by_cases hs : s = f
    · subst hs
      rw [hbit]
      simp only [Bool.false_eq_true, if_false, ne_eq, not_true_eq_false]
      rfl
    · have hb := hbelow s (le_refl _) (by omega)
      rw [hb]
      simp only [if_true, ne_eq, one_ne_zero, not_false_eq_true]
      exact ih (s + 1) f (by omega) hf hbit (fun j h1 h2 => hbelow j (by omega) h2) (by omega)

theorem countP_remove_one (p : Nat → Bool) (f : Nat) (hp : p f = true) :
    ∀ (l : List Nat), l.Nodup → f ∈ l →
      l.countP (fun i => p i && !decide (i = f)) + 1 = l.countP p := by
  intro l
  induction l with
  | nil => intro _ h; cases h
  | cons a t ih =>
    intro hnd hmem
    have hnd2 := (List.nodup_cons.mp hnd).2
    have hnot := (List.nodup_cons.mp hnd).1
    rw [List.countP_cons, List.countP_cons]
    by_cases ha : a = f
    · subst ha
      have hsame : t.countP (fun i => p i && !decide (i = a)) = t.countP p := by
        apply List.countP_congr
        intro x hx
        have hxa : x ≠ a := fun h => hnot (h ▸ hx)
        simp [hxa]
      rw [hsame, hp]
      simp
    · have hft : f ∈ t := by
        rcases List.mem_cons.mp hmem with h | h
        · exact absurd h.symm ha
        · exact h
      have := ih hnd2 hft
      simp only [ha, decide_False, Bool.not_false, Bool.and_true]
      omega

theorem exists_first_clear (bitmap : bitmap_t) (h : 0 < free_count bitmap) :
    ∃ f, f < bitmap.bit_count ∧ bit_of bitmap f = false ∧
      ∀ j, j < f → bit_of bitmap j = true := by
  have hex : ∃ i, i < bitmap.bit_count ∧ bit_of bitmap i = false := by
    unfold free_count at h
    obtain ⟨i, hi, hb⟩ := List.countP_pos_iff.mp h
    exact ⟨i, List.mem_range.mp hi, by simpa using hb⟩
  classical
  refine ⟨Nat.find hex, (Nat.find_spec hex).1, (Nat.find_spec hex).2, fun j hj => ?_⟩
  have hmin := Nat.find_min hex hj
  by_contra hb
  exact hmin ⟨Nat.lt_trans hj (Nat.find_spec hex).1, by simpa using hb⟩

theorem addr_alloc_page_ok (fuel : Nat) (alloc : addr_alloc_t) (hw : alloc_wf alloc)
    (hfree : 0 < free_count alloc.bitmap) (hfuel : alloc.bitmap.bit_count + 1 ≤ fuel) :
    ∃ p alloc1, addr_alloc_page fuel alloc 1 = some (p, alloc1) ∧
      p ≠ 0 ∧ p % 4096 = 0 ∧ p + 4096 ≤ 2 ^ 32 ∧ frame_free alloc p ∧ alloc_wf alloc1 ∧
      (∀ q, frame_free alloc1 q ↔ frame_free alloc q ∧ q ≠ p) ∧
      free_count alloc1.bitmap + 1 = free_count alloc.bitmap ∧
      alloc1.bitmap.bit_count = alloc.bitmap.bit_count := by
  obtain ⟨f, hf, hbit, hbelow⟩ := exists_first_clear alloc.bitmap hfree
  have ha := bitmap_alloc_one alloc.bitmap fuel 0 f (Nat.zero_le _) hf hbit
    (fun j _ h => hbelow j h) (by omega)
  obtain ⟨hcnt, hbits⟩ := bitmap_set_one alloc.bitmap f hf
  have h1 := hw.page
  have h2 := hw.aligned
  have h3 := hw.pos
  have h4 := hw.top
  have hlt : alloc.start + f * 4096 < 2 ^ 32 := by omega
  refine ⟨alloc.start + f * 4096, { alloc with bitmap := bitmap_set_bit alloc.bitmap f 1 1 },
    ?_, by omega, by omega, by omega, ⟨f, hf, hbit, rfl⟩, ⟨h1, h2, h3, ?_⟩, fun q => ?_, ?_,
    hcnt⟩
  · unfold addr_alloc_page
    rw [ha]
    dsimp only
    rw [if_pos (Int.ofNat_nonneg f), Int.toNat_ofNat, h1, Nat.mod_eq_of_lt hlt]
  · show alloc.start + (bitmap_set_bit alloc.bitmap f 1 1).bit_count * 4096 ≤ 2 ^ 32
    rw [hcnt]; exact h4
  · unfold frame_free
    show (∃ i, i < (bitmap_set_bit alloc.bitmap f 1 1).bit_count ∧
      bit_of (bitmap_set_bit alloc.bitmap f 1 1) i = false ∧ q = alloc.start + i * 4096) ↔ _
    rw [hcnt]
    constructor
    · rintro ⟨i, hi, hb, hq⟩
      rw [hbits i] at hb
      simp only [Bool.or_eq_false_iff, decide_eq_false_iff_not] at hb
      exact ⟨⟨i, hi, hb.2, hq⟩, by omega⟩
    · rintro ⟨⟨i, hi, hb, hq⟩, hne⟩
      refine ⟨i, hi, ?_, hq⟩
      rw [hbits i, hb]
      have : i ≠ f := fun h => hne (by rw [hq, h])
      simp [this]
  · unfold free_count
    show (List.range (bitmap_set_bit alloc.bitmap f 1 1).bit_count).countP _ + 1 = _
    rw [hcnt]
    have hc := countP_remove_one (fun i => !bit_of alloc.bitmap i) f (by simp [hbit])
      (List.range alloc.bitmap.bit_count) (List.nodup_range _) (List.mem_range.mpr hf)
    rw [← hc]
    congr 1
    apply List.countP_congr
    intro x _
    rw [hbits x]
    simp [Bool.and_comm]

theorem pde_index_eq (v : Nat) : pde_index v = v / 4194304 := by
  unfold pde_index
  rw [Nat.shiftRight_eq_div_pow]

theorem pte_index_eq (v : Nat) : pte_index v = v / 4096 % 1024 := by
  unfold pte_index
  rw [Nat.shiftRight_eq_div_pow]
  exact Nat.and_pow_two_sub_one_eq_mod _ 10

theorem entry_present_or_one (x : Nat) : entry_present (x ||| 1) = 1 := by
  unfold entry_present
  have h : (x ||| 1).testBit 0 = true := by
    rw [Nat.testBit_or]; simp
  rw [Nat.testBit_zero] at h
  exact of_decide_eq_true h

theorem entry_present_cases (x : Nat) : entry_present x = 0 ∨ entry_present x = 1 := by
  unfold entry_present
  omega

theorem or_seven (p : Nat) (hp : p % 4096 = 0) : p ||| PTE_P ||| PTE_W ||| PDE_U = p + 7 := by
  have h7 : p ||| PTE_P ||| PTE_W ||| PDE_U = p ||| 7 := by
    rw [Nat.or_assoc, Nat.or_assoc]
    rfl
  rw [h7]
  obtain ⟨a, ha⟩ : ∃ a, p = 2 ^ 12 * a := ⟨p / 4096, by omega⟩
  rw [ha]
  exact (Nat.mul_add_lt_is_or (by norm_num) a).symm

theorem entry_present_table (p : Nat) (hp : p % 4096 = 0) :
    entry_present (p ||| PTE_P ||| PTE_W ||| PDE_U) = 1 := by
  rw [or_seven p hp]
  unfold entry_present
  omega

theorem pde_paddr_table (p : Nat) (hp : p % 4096 = 0) (h32 : p < 2 ^ 32) :
    pde_paddr (p ||| PTE_P ||| PTE_W ||| PDE_U) = p := by
  rw [or_seven p hp]
  unfold pde_paddr
  rw [Nat.shiftRight_eq_div_pow, Nat.shiftLeft_eq]
  have h1 : (p + 7) / 2 ^ 12 = p / 4096 := by omega
  have h2 : p / 4096 < 2 ^ 20 := by omega
  rw [h1, Nat.mod_eq_of_lt h2]
  omega

theorem pde_paddr_aligned (x : Nat) : pde_paddr x % 4096 = 0 ∧ pde_paddr x < 2 ^ 32 := by
  unfold pde_paddr
  rw [Nat.shiftLeft_eq]
  have h := Nat.mod_lt (x >>> 12) (show 0 < 2 ^ 20 by norm_num)
  omega

theorem page_index_inj (u v : Nat) (hu : u % 4096 = 0) (hv : v % 4096 = 0)
    (h1 : pde_index u = pde_index v) (h2 : pte_index u = pte_index v) : u = v := by
  rw [pde_index_eq, pde_index_eq] at h1
  rw [pte_index_eq, pte_index_eq] at h2
  omega

theorem page_index_lt (v : Nat) (hv : v < 2 ^ 32) : pde_index v < 1024 ∧ pte_index v < 1024 := by
  rw [pde_index_eq, pte_index_eq]
  omega

theorem map_present_table (m : mem_t) (dir v w : Nat) (hinv : paging_inv m dir)
    (hv : v % 4096 = 0) (hv32 : v < 2 ^ 32) (hw : entry_present w = 1)
    (hpde : entry_present (m.pmem (dir + 4 * pde_index v)) = 1) (pm1 : Nat → Nat)
    (hpm : ∀ a, pm1 a =
      if a = pde_paddr (m.pmem (dir + 4 * pde_index v)) + 4 * pte_index v then w else m.pmem a) :
    paging_inv { m with pmem := pm1 } dir ∧
    ∀ u, u % 4096 = 0 → u < 2 ^ 32 →
      (page_mapped pm1 dir u ↔ page_mapped m.pmem dir u ∨ u = v) := by
  obtain ⟨hdv, htv⟩ := page_index_lt v hv32
  have hda := hinv.dir_aligned
  generalize hpt : pde_paddr (m.pmem (dir + 4 * pde_index v)) = pt at hpm
  have hpta := pde_paddr_aligned (m.pmem (dir + 4 * pde_index v))
  rw [hpt] at hpta
  have hptd : pt ≠ dir := by rw [← hpt]; exact hinv.table_not_dir _ hdv hpde
  -- directory entries are not touched
  have hdir : ∀ d, d < 1024 → pm1 (dir + 4 * d) = m.pmem (dir + 4 * d) := by
    intro d hd
    rw [hpm, if_neg (by omega)]
  refine ⟨⟨hinv.wf, hda, hinv.dir_not_free, fun d hd => ?_, fun d hd => ?_,
    fun d e hd he => ?_⟩, fun u hu hu32 => ?_⟩
  · show entry_present (pm1 (dir + 4 * d)) = 1 → ¬ frame_free m.paddr_alloc (pde_paddr (pm1 _))
    rw [hdir d hd]; exact hinv.table_not_free d hd
  · show entry_present (pm1 (dir + 4 * d)) = 1 → pde_paddr (pm1 _) ≠ dir
    rw [hdir d hd]; exact hinv.table_not_dir d hd
  · show entry_present (pm1 (dir + 4 * d)) = 1 → entry_present (pm1 (dir + 4 * e)) = 1 →
      pde_paddr (pm1 (dir + 4 * d)) = pde_paddr (pm1 (dir + 4 * e)) → d = e
    rw [hdir d hd, hdir e he]; exact hinv.table_inj d e hd he
  · obtain ⟨hdu, htu⟩ := page_index_lt u hu32
    unfold page_mapped
    rw [hdir _ hdu]
    by_cases hpu : entry_present (m.pmem (dir + 4 * pde_index u)) = 1
    · have hptu := pde_paddr_aligned (m.pmem (dir + 4 * pde_index u))
      by_cases huv : u = v
      · subst huv
        rw [hpt, hpm, if_pos rfl]
        exact ⟨fun _ => Or.inr rfl, fun _ => ⟨hpde, hw⟩⟩
      · have hne : pde_paddr (m.pmem (dir + 4 * pde_index u)) + 4 * pte_index u ≠
            pt + 4 * pte_index v := by
          intro he
          have h1 : pde_paddr (m.pmem (dir + 4 * pde_index u)) = pt := by omega
          have h2 : pte_index u = pte_index v := by omega
          rw [← hpt] at h1
          have h3 := hinv.table_inj _ _ hdu hdv hpu hpde h1
          exact huv (page_index_inj u v hu hv h3 h2)
        rw [hpm, if_neg hne]
        exact ⟨fun h => Or.inl h, fun h => h.resolve_right huv⟩
    · have hne : u ≠ v := by
        intro h; rw [h] at hpu; exact hpu hpde
      constructor
      · intro h; exact absurd h.1 hpu
      · intro h
        rcases h with h | h
        · exact absurd h.1 hpu
        · exact absurd h hne

theorem map_new_table (m : mem_t) (dir v w pt : Nat) (hinv : paging_inv m dir)
    (hv : v % 4096 = 0) (hv32 : v < 2 ^ 32) (hw : entry_present w = 1)
    (hpde : entry_present (m.pmem (dir + 4 * pde_index v)) ≠ 1)
    (hptf : frame_free m.paddr_alloc pt) (hpta : pt % 4096 = 0) (hpt32 : pt + 4096 ≤ 2 ^ 32)
    (alloc1 : addr_alloc_t) (hwf1 : alloc_wf alloc1)
    (hfree1 : ∀ q, frame_free alloc1 q ↔ frame_free m.paddr_alloc q ∧ q ≠ pt)
    (pm1 : Nat → Nat)
    (hpm : ∀ a, pm1 a =
      if a = pt + 4 * pte_index v then w
      else if pt ≤ a ∧ a < pt + 4096 then 0
      else if a = dir + 4 * pde_index v then pt ||| PTE_P ||| PTE_W ||| PDE_U
      else m.pmem a) :
    paging_inv { paddr_alloc := alloc1, pmem := pm1 } dir ∧
    ∀ u, u % 4096 = 0 → u < 2 ^ 32 →
      (page_mapped pm1 dir u ↔ page_mapped m.pmem dir u ∨ u = v) := by
  obtain ⟨hdv, htv⟩ := page_index_lt v hv32
  have hda := hinv.dir_aligned
  have hptd : pt ≠ dir := fun h => hinv.dir_not_free (h ▸ hptf)
  have hpp := entry_present_table pt hpta
  have hpa := pde_paddr_table pt hpta (by omega)
  generalize hT : pt ||| PTE_P ||| PTE_W ||| PDE_U = T at hpm hpp hpa
  have hdir : ∀ d, d < 1024 →
      pm1 (dir + 4 * d) = if d = pde_index v then T else m.pmem (dir + 4 * d) := by
    intro d hd
    rw [hpm, if_neg (by omega), if_neg (by omega)]
    by_cases h : d = pde_index v
    · rw [if_pos (by rw [h]), if_pos h]
    · rw [if_neg (by omega), if_neg h]
  have hold : ∀ d, d < 1024 → d ≠ pde_index v →
      entry_present (m.pmem (dir + 4 * d)) = 1 →
      pde_paddr (m.pmem (dir + 4 * d)) ≠ pt := by
    intro d hd _ hp h
    exact hinv.table_not_free d hd hp (h ▸ hptf)
  refine ⟨⟨hwf1, hda, fun h => hinv.dir_not_free ((hfree1 dir).mp h).1, fun d hd => ?_,
    fun d hd => ?_, fun d e hd he => ?_⟩, fun u hu hu32 => ?_⟩
  · show entry_present (pm1 (dir + 4 * d)) = 1 → ¬ frame_free alloc1 (pde_paddr (pm1 _))
    rw [hdir d hd]
    by_cases h : d = pde_index v
    · rw [if_pos h, hpa]
      intro _ hf
      exact ((hfree1 pt).mp hf).2 rfl
    · rw [if_neg h]
      intro hp hf
      exact hinv.table_not_free d hd hp ((hfree1 _).mp hf).1
  · show entry_present (pm1 (dir + 4 * d)) = 1 → pde_paddr (pm1 _) ≠ dir
    rw [hdir d hd]
    by_cases h : d = pde_index v
    · rw [if_pos h, hpa]
      exact fun _ => hptd
    · rw [if_neg h]
      exact hinv.table_not_dir d hd
  · show entry_present (pm1 (dir + 4 * d)) = 1 → entry_present (pm1 (dir + 4 * e)) = 1 →
      pde_paddr (pm1 (dir + 4 * d)) = pde_paddr (pm1 (dir + 4 * e)) → d = e
    rw [hdir d hd, hdir e he]
    by_cases h1 : d = pde_index v
    · by_cases h2 : e = pde_index v
      · intro _ _ _; rw [h1, h2]
      · rw [if_pos h1, if_neg h2, hpa]
        intro _ hp2 heq
        exact absurd heq.symm (hold e he h2 hp2)
    · by_cases h2 : e = pde_index v
      · rw [if_neg h1, if_pos h2, hpa]
        intro hp1 _ heq
        exact absurd heq (hold d hd h1 hp1)
      · rw [if_neg h1, if_neg h2]
        exact hinv.table_inj d e hd he
  · obtain ⟨hdu, htu⟩ := page_index_lt u hu32
    unfold page_mapped
    rw [hdir _ hdu]
    by_cases hsame : pde_index u = pde_index v
    · rw [if_pos hsame, hpa]
      have hnot : ¬ (entry_present (m.pmem (dir + 4 * pde_index u)) = 1 ∧
          entry_present (m.pmem (pde_paddr (m.pmem (dir + 4 * pde_index u)) +
            4 * pte_index u)) = 1) := by
        rw [hsame]; exact fun h => hpde h.1
      by_cases huv : u = v
      · subst huv
        rw [hpm, if_pos rfl]
        exact ⟨fun _ => Or.inr rfl, fun _ => ⟨hpp, hw⟩⟩
      · have hti : pte_index u ≠ pte_index v := fun h => huv (page_index_inj u v hu hv hsame h)
        rw [hpm, if_neg (by omega), if_pos ⟨by omega, by omega⟩]
        constructor
        · intro h
          have : entry_present 0 = 0 := rfl
          rw [this] at h
          exact absurd h.2 (by decide)
        · intro h
          rcases h with h | h
          · exact absurd h hnot
          · exact absurd h huv
    · rw [if_neg hsame]
      have huv : u ≠ v := fun h => hsame (by rw [h])
      by_cases hpu : entry_present (m.pmem (dir + 4 * pde_index u)) = 1
      · have hptu := pde_paddr_aligned (m.pmem (dir + 4 * pde_index u))
        have hne := hold _ hdu hsame hpu
        have hnd := hinv.table_not_dir _ hdu hpu
        rw [hpm, if_neg (by omega), if_neg (by omega), if_neg (by omega)]
        exact ⟨fun h => Or.inl h, fun h => h.resolve_right huv⟩
      · constructor
        · intro h; exact absurd h.1 hpu
        · intro h
          rcases h with h | h
          · exact absurd h.1 hpu
          · exact absurd h huv

theorem memory_create_map_one (fuel : Nat) (m : mem_t) (dir v paddr perm : Nat)
    (hinv : paging_inv m dir) (hv : v % 4096 = 0) (hv32 : v < 2 ^ 32)
    (hun : ¬ page_mapped m.pmem dir v) (hfree : 0 < free_count m.paddr_alloc.bitmap)
    (hfuel : m.paddr_alloc.bitmap.bit_count + 1 ≤ fuel) :
    ∃ m1, memory_create_map fuel m dir v paddr 1 perm = .done (0, m1) ∧ paging_inv m1 dir ∧
      free_count m.paddr_alloc.bitmap ≤ free_count m1.paddr_alloc.bitmap + 1 ∧
      m1.paddr_alloc.bitmap.bit_count = m.paddr_alloc.bitmap.bit_count ∧
      ∀ u, u % 4096 = 0 → u < 2 ^ 32 →
        (page_mapped m1.pmem dir u ↔ page_mapped m.pmem dir u ∨ u = v) := by
  have hW : entry_present (paddr ||| perm ||| PTE_P) = 1 := entry_present_or_one _
  by_cases hpde : entry_present (m.pmem (dir + 4 * pde_index v)) = 1
  · have hpte : entry_present (m.pmem (pde_paddr (m.pmem (dir + 4 * pde_index v)) +
        4 * pte_index v)) = 0 := by
      rcases entry_present_cases (m.pmem (pde_paddr (m.pmem (dir + 4 * pde_index v)) +
        4 * pte_index v)) with h | h
      · exact h
      · exact absurd ⟨hpde, h⟩ hun
    have hf : find_pte fuel m dir v 1 =
        some (some (pde_paddr (m.pmem (dir + 4 * pde_index v)) + 4 * pte_index v), m) := by
      unfold find_pte
      dsimp only
      rw [if_pos (by rw [hpde]; decide)]
    obtain ⟨i1, i2⟩ := map_present_table m dir v (paddr ||| perm ||| PTE_P) hinv hv hv32 hW hpde
      (fun a => if a = pde_paddr (m.pmem (dir + 4 * pde_index v)) + 4 * pte_index v then (paddr ||| perm ||| PTE_P)
        else m.pmem a) (fun _ => rfl)
    refine ⟨⟨m.paddr_alloc, fun a =>
        if a = pde_paddr (m.pmem (dir + 4 * pde_index v)) + 4 * pte_index v then (paddr ||| perm ||| PTE_P)
        else m.pmem a⟩, ?_, i1, Nat.le_succ _, rfl, i2⟩
    rw [memory_create_map, hf]
    dsimp only
    rw [if_neg (by rw [hpte]; decide), memory_create_map]
  · have hpde0 : entry_present (m.pmem (dir + 4 * pde_index v)) = 0 :=
      (entry_present_cases _).resolve_right hpde
    obtain ⟨p, alloc1, a1, a2, a3, a4, a5, a6, a7, a8, a9⟩ :=
      addr_alloc_page_ok fuel m.paddr_alloc hinv.wf hfree hfuel
    have hf : find_pte fuel m dir v 1 =
        some (some (p + 4 * pte_index v),
          { paddr_alloc := alloc1,
            pmem := fun a => if p ≤ a ∧ a < p + MEM_PAGE_SIZE then 0
              else if a = dir + 4 * pde_index v then p ||| PTE_P ||| PTE_W ||| PDE_U
              else m.pmem a }) := by
      unfold find_pte
      dsimp only
      rw [if_neg (by rw [hpde0]; decide), if_neg (by decide), a1]
      dsimp only
      rw [if_neg a2]
    obtain ⟨_, htv⟩ := page_index_lt v hv32
    obtain ⟨i1, i2⟩ := map_new_table m dir v (paddr ||| perm ||| PTE_P) p hinv hv hv32 hW hpde a5 a3 a4 alloc1 a6 a7
      (fun a => if a = p + 4 * pte_index v then (paddr ||| perm ||| PTE_P)
        else if p ≤ a ∧ a < p + 4096 then 0
        else if a = dir + 4 * pde_index v then p ||| PTE_P ||| PTE_W ||| PDE_U
        else m.pmem a) (fun _ => rfl)
    have hz : (if p ≤ p + 4 * pte_index v ∧ p + 4 * pte_index v < p + MEM_PAGE_SIZE then 0
        else if p + 4 * pte_index v = dir + 4 * pde_index v then
          p ||| PTE_P ||| PTE_W ||| PDE_U
        else m.pmem (p + 4 * pte_index v)) = 0 := by
      rw [if_pos ⟨by omega, by show _ < p + 4096; omega⟩]
    refine ⟨⟨alloc1, fun a =>
        if a = p + 4 * pte_index v then (paddr ||| perm ||| PTE_P)
        else if p ≤ a ∧ a < p + 4096 then 0
        else if a = dir + 4 * pde_index v then p ||| PTE_P ||| PTE_W ||| PDE_U
        else m.pmem a⟩, ?_, i1, by show _ ≤ free_count alloc1.bitmap + 1; omega, a9, i2⟩
    rw [memory_create_map, hf]
    dsimp only
    rw [hz, if_neg (by decide), memory_create_map]
    rfl

theorem paging_inv_alloc (m : mem_t) (dir : Nat) (alloc1 : addr_alloc_t)
    (hinv : paging_inv m dir) (hwf : alloc_wf alloc1)
    (hsub : ∀ q, frame_free alloc1 q → frame_free m.paddr_alloc q) :
    paging_inv { m with paddr_alloc := alloc1 } dir :=
  ⟨hwf, hinv.dir_aligned, fun h => hinv.dir_not_free (hsub _ h),
    fun d hd hp h => hinv.table_not_free d hd hp (hsub _ h), hinv.table_not_dir,
    hinv.table_inj⟩

theorem memory_alloc_loop_spec (fuel dir vd perm : Nat) :
    ∀ (n i v : Nat) (m : mem_t), paging_inv m dir → v % 4096 = 0 → v + n * 4096 ≤ 2 ^ 32 →
      (∀ j, j < n → ¬ page_mapped m.pmem dir (v + j * 4096)) →
      2 * n ≤ free_count m.paddr_alloc.bitmap →
      m.paddr_alloc.bitmap.bit_count + 1 ≤ fuel →
      ∃ m1, memory_alloc_loop fuel dir vd perm n i v m = .done (0, m1) ∧ paging_inv m1 dir ∧
        ∀ u, u % 4096 = 0 → u < 2 ^ 32 →
          (page_mapped m1.pmem dir u ↔ page_mapped m.pmem dir u ∨ (v ≤ u ∧ u < v + n * 4096)) := by
  intro n
  induction n with
  | zero =>
    intro i v m hinv _ _ _ _ _
    refine ⟨m, rfl, hinv, fun u _ _ => ?_⟩
    constructor
    · exact fun h => Or.inl h
    · intro h
      rcases h with h | h
      · exact h
      · omega
  | succ n ih =>
    intro i v m hinv hv htop hun hfree hfuel
    obtain ⟨p, alloc1, a1, a2, _, _, _, a6, a7, a8, a9⟩ :=
      addr_alloc_page_ok fuel m.paddr_alloc hinv.wf (by omega) hfuel
    have hinv1 := paging_inv_alloc m dir alloc1 hinv a6 (fun q h => ((a7 q).mp h).1)
    have hv32 : v < 2 ^ 32 := by omega
    obtain ⟨m2, c1, c2, c3, c4, c5⟩ := memory_create_map_one fuel
      { m with paddr_alloc := alloc1 } dir v p perm hinv1 hv hv32
      (by have := hun 0 (Nat.succ_pos _); simpa using this)
      (by show 0 < free_count alloc1.bitmap; omega)
      (by show alloc1.bitmap.bit_count + 1 ≤ fuel; rw [a9]; exact hfuel)
    have hc3 : free_count alloc1.bitmap ≤ free_count m2.paddr_alloc.bitmap + 1 := c3
    have hc4 : m2.paddr_alloc.bitmap.bit_count = alloc1.bitmap.bit_count := c4
    have hc5 : ∀ u, u % 4096 = 0 → u < 2 ^ 32 →
        (page_mapped m2.pmem dir u ↔ page_mapped m.pmem dir u ∨ u = v) := c5
    have hnext : (v + MEM_PAGE_SIZE) % 2 ^ 32 % 4096 = 0 ∧
        (v + MEM_PAGE_SIZE) % 2 ^ 32 + n * 4096 ≤ 2 ^ 32 ∧
        (0 < n → (v + MEM_PAGE_SIZE) % 2 ^ 32 = v + 4096) := by
      have h4 : MEM_PAGE_SIZE = 4096 := rfl
      rw [h4]
      omega
    obtain ⟨m3, d1, d2, d3⟩ := ih (i + 1) ((v + MEM_PAGE_SIZE) % 2 ^ 32) m2 c2 hnext.1 hnext.2.1
      (fun j hj => by
        rw [hnext.2.2 (by omega)]
        have h1 := hun (j + 1) (by omega)
        have e : v + (j + 1) * 4096 = v + 4096 + j * 4096 := by ring
        rw [e] at h1
        rw [hc5 _ (by omega) (by omega)]
        intro h
        rcases h with h | h
        · exact h1 h
        · omega)
      (by omega) (by rw [hc4, a9]; exact hfuel)
    refine ⟨m3, ?_, d2, fun u hu hu32 => ?_⟩
    · rw [memory_alloc_loop, a1]
      dsimp only
      rw [if_neg a2, c1]
      dsimp only
      rw [if_neg (by decide)]
      exact d1
    · rw [d3 u hu hu32, hc5 u hu hu32]
      by_cases hn : 0 < n
      · rw [hnext.2.2 hn]
        constructor
        · intro h
          rcases h with (h | h) | h
          · exact Or.inl h
          · exact Or.inr (by omega)
          · exact Or.inr (by omega)
        · intro h
          rcases h with h | h
          · exact Or.inl (Or.inl h)
          · by_cases huv : u = v
            · exact Or.inl (Or.inr huv)
            · exact Or.inr (by omega)
      · have hn0 : n = 0 := by omega
        subst hn0
        constructor
        · intro h
          rcases h with (h | h) | h
          · exact Or.inl h
          · exact Or.inr (by omega)
          · omega
        · intro h
          rcases h with h | h
          · exact Or.inl (Or.inl h)
          · exact Or.inl (Or.inr (by omega))

theorem uint32_cast (n : Nat) (h : n < 2 ^ 32) : uint32 (n : Int) = n := by
  unfold uint32
  have h7 : ((2 : Int) ^ 32) = ((2 ^ 32 : Nat) : Int) := by norm_num
  rw [h7, ← Int.natCast_mod, Int.toNat_ofNat, Nat.mod_eq_of_lt h]

theorem uint32_sub (a b : Nat) (hb : b ≤ a) (ha : a < 2 ^ 32) :
    uint32 ((a : Int) - (b : Int)) = a - b := by
  have e : (a : Int) - (b : Int) = ((a - b : Nat) : Int) := by omega
  rw [e]
  exact uint32_cast _ (by omega)

theorem memory_alloc_for_page_dir_spec (fuel : Nat) (m : mem_t) (dir v size perm : Nat)
    (hinv : paging_inv m dir) (hv : v % 4096 = 0) (htop : v + size ≤ 2 ^ 32)
    (hun : ∀ u, u % 4096 = 0 → v ≤ u → u < v + roundup_page size →
      ¬ page_mapped m.pmem dir u)
    (hfree : 2 * (roundup_page size / 4096) ≤ free_count m.paddr_alloc.bitmap)
    (hfuel : m.paddr_alloc.bitmap.bit_count + 1 ≤ fuel) :
    ∃ m1, memory_alloc_for_page_dir fuel m dir v size perm = .done (0, m1) ∧
      paging_inv m1 dir ∧
      ∀ u, u % 4096 = 0 → u < 2 ^ 32 →
        (page_mapped m1.pmem dir u ↔
          page_mapped m.pmem dir u ∨ (v ≤ u ∧ u < v + roundup_page size)) := by
  have hn : up2 size MEM_PAGE_SIZE / MEM_PAGE_SIZE = (size + 4095) / 4096 := by
    rw [up2_div _ _ (by decide)]
    rfl
  have hr : roundup_page size = (size + 4095) / 4096 * 4096 := rfl
  have hr2 : roundup_page size / 4096 = (size + 4095) / 4096 := by
    rw [hr]; exact Nat.mul_div_cancel _ (by norm_num)
  rw [hr] at hun
  rw [hr2] at hfree
  rw [hr]
  unfold memory_alloc_for_page_dir
  dsimp only
  rw [hn]
  exact memory_alloc_loop_spec fuel dir (down2 v MEM_PAGE_SIZE) perm ((size + 4095) / 4096) 0 v m
    hinv hv (by omega) (fun j hj => hun _ (by omega) (by omega) (by
      have : j * 4096 < (size + 4095) / 4096 * 4096 := by omega
      omega)) hfree hfuel

theorem sys_sbrk_zero {σ : Type} (fuel : Nat) (k : kernel σ) (m : mem_t) :
    sys_sbrk fuel k m 0 = .done ((task_get k (task_current k)).heap_end, k, m) := by
  unfold sys_sbrk
  dsimp only
  rw [if_neg (by decide), if_pos rfl]

theorem task_current_task_put {σ : Type} (k : kernel σ) (t : task_t) (h : task_current k ≠ .null) :
    task_get (task_put k (task_current k) t) (task_current (task_put k (task_current k) t)) = t := by
  have h1 : task_current (task_put k (task_current k) t) = task_current k :=
    (task_put_task_manager_lists k (task_current k) t).2.2
  rw [h1, task_get_task_put, if_pos ⟨rfl, h⟩]

theorem roundup_page_cases (b incr : Nat) :
    (b % 4096 = 0 → roundup_page b = b ∧ b + roundup_page incr = roundup_page (b + incr)) ∧
    (b % 4096 ≠ 0 → b % 4096 + incr ≤ 4096 → roundup_page (b + incr) = roundup_page b) ∧
    (b % 4096 ≠ 0 → 4096 < b % 4096 + incr →
      roundup_page b = b + (4096 - b % 4096) ∧
      roundup_page b + roundup_page (b + incr - roundup_page b) = roundup_page (b + incr)) := by
  unfold roundup_page
  refine ⟨fun h => ⟨by omega, by omega⟩, fun h1 h2 => by omega, fun h1 h2 => ?_⟩
  have e : (b + 4095) / 4096 * 4096 = b + (4096 - b % 4096) := by omega
  rw [e]
  exact ⟨rfl, by omega⟩

end mem_lemmas

/-! ### Claim on memory management: the program break -/

theorem demo_mem_inv : paging_inv demo_mem 0x100000 := by
  refine ⟨⟨rfl, by decide, by decide, by decide⟩, by decide, ?_, ?_, ?_, ?_⟩
  · rintro ⟨i, hi, hb, he⟩
    have he2 : 0x100000 = 0x100000 + i * 4096 := he
    have h0 : i = 0 := by omega
    subst h0
    exact absurd hb (by decide)
  · intro d _ h
    have h0 : entry_present 0 = 1 := h
    exact absurd h0 (by decide)
  · intro d _ h
    have h0 : entry_present 0 = 1 := h
    exact absurd h0 (by decide)
  · intro d e _ _ h
    have h0 : entry_present 0 = 1 := h
    exact absurd h0 (by decide)

/-- C6.  The current task has break `b = heap_end` and page directory
`tss.cr3`; the page structures satisfy `paging_inv`; `b + incr` stays below
`2^32`; the pages from `roundup_page b` up to (excluding)
`roundup_page (b + incr)` are not mapped yet, and the allocator has two free
pages for each of them (one for the page, one for a page table it may need),
so that page allocation succeeds.  Then `sys_sbrk(incr)` returns `b`, a
following `sys_sbrk(0)` returns `b + incr`, and a page is mapped after the
call exactly when it was mapped before or lies in that range. -/
theorem C6_sbrk_maps_new_pages {σ : Type} (fuel : Nat) (k : kernel σ) (m : mem_t) (incr : Nat)
    (hcur : task_current k ≠ .null)
    (hinv : paging_inv m (task_get k (task_current k)).tss.cr3)
    (h32 : (task_get k (task_current k)).heap_end + incr < 2 ^ 32)
    (hun : ∀ u, u % 4096 = 0 →
      roundup_page (task_get k (task_current k)).heap_end ≤ u →
      u < roundup_page ((task_get k (task_current k)).heap_end + incr) →
      ¬ page_mapped m.pmem (task_get k (task_current k)).tss.cr3 u)
    (hfree : 2 * ((roundup_page ((task_get k (task_current k)).heap_end + incr) -
        roundup_page (task_get k (task_current k)).heap_end) / 4096) ≤
      free_count m.paddr_alloc.bitmap)
    (hfuel : m.paddr_alloc.bitmap.bit_count + 1 ≤ fuel) :
    ∃ k1 m1,
      sys_sbrk fuel k m (incr : Int) =
        .done ((task_get k (task_current k)).heap_end, k1, m1) ∧
      sys_sbrk fuel k1 m1 0 =
        .done ((task_get k (task_current k)).heap_end + incr, k1, m1) ∧
      ∀ u, u % 4096 = 0 → u < 2 ^ 32 →
        (page_mapped m1.pmem (task_get k (task_current k)).tss.cr3 u ↔
          page_mapped m.pmem (task_get k (task_current k)).tss.cr3 u ∨
          (roundup_page (task_get k (task_current k)).heap_end ≤ u ∧
            u < roundup_page ((task_get k (task_current k)).heap_end + incr))) := by
  generalize ht : task_get k (task_current k) = task at hinv h32 hun hfree
  generalize hb : task.heap_end = b at h32 hun hfree
  generalize hdir : task.tss.cr3 = dir at hinv hun
  obtain ⟨rc1, rc2, rc3⟩ := roundup_page_cases b incr
  have hend : uint32 ((b : Int) + (incr : Int)) = b + incr := by
    have e : (b : Int) + (incr : Int) = ((b + incr : Nat) : Int) := by push_cast; rfl
    rw [e]; exact uint32_cast _ h32
  -- the state after the break has been moved
  have hdone : ∀ m1, sys_sbrk fuel (task_put k (task_current k)
      { task with heap_end := b + incr }) m1 0 =
      .done (b + incr, task_put k (task_current k) { task with heap_end := b + incr }, m1) := by
    intro m1
    rw [sys_sbrk_zero, task_current_task_put k _ hcur]
  by_cases h0 : incr = 0
  · subst h0
    refine ⟨k, m, ?_, ?_, fun u _ _ => ?_⟩
    · show sys_sbrk fuel k m 0 = _
      rw [sys_sbrk_zero, ht, hb]
    · rw [sys_sbrk_zero, ht, hb]
      rfl
    · constructor
      · exact fun h => Or.inl h
      · intro h
        rcases h with h | h
        · exact h
        · have := h.1; have := h.2; simp only [Nat.add_zero] at *; omega
  · have hpos : 0 < incr := Nat.pos_of_ne_zero h0
    unfold sys_sbrk
    dsimp only
    rw [ht, hb, hend, if_neg (by omega), if_neg (by omega)]
    have hM : MEM_PAGE_SIZE = 4096 := rfl
    rw [hM]
    by_cases hoff : b % 4096 = 0
    · -- the break is page aligned
      obtain ⟨e1, e2⟩ := rc1 hoff
      rw [e1, ← e2] at hun hfree
      rw [e1, ← e2]
      have hsz : uint32 (((b + incr : Nat) : Int) - (b : Int)) = incr := by
        rw [uint32_sub _ _ (by omega) h32]; omega
      obtain ⟨m1, s1, _, s3⟩ := memory_alloc_for_page_dir_spec fuel m dir b incr
        (PTE_P ||| PTE_U ||| PTE_W) hinv hoff (by omega) hun
        (by rw [Nat.add_sub_cancel_left] at hfree; exact hfree) hfuel
      refine ⟨_, m1, ?_, hdone m1, s3⟩
      rw [if_neg (by omega), if_pos (by omega), hsz]
      unfold memory_alloc_page_for
      rw [ht, hdir, s1]
      dsimp only
      rw [if_neg (by decide)]
    · by_cases hfit : b % 4096 + incr ≤ 4096
      · -- the new break stays in the page of the old one
        have e := rc2 hoff hfit
        refine ⟨_, m, ?_, hdone m, fun u _ _ => ?_⟩
        · rw [if_pos hoff, if_pos (by omega)]
        · rw [e]
          constructor
          · exact fun h => Or.inl h
          · intro h
            rcases h with h | h
            · exact h
            · omega
      · -- the new break lies beyond the page of the old one
        obtain ⟨e1, e2⟩ := rc3 hoff (by omega)
        have hR : roundup_page b % 4096 = 0 := by
          unfold roundup_page; exact Nat.mul_mod_left _ _
        have hRle : roundup_page b ≤ b + incr := by omega
        rw [← e2] at hun hfree
        rw [← e2]
        have hstart : (b + (4096 - b % 4096)) % 2 ^ 32 = roundup_page b := by
          rw [← e1]; exact Nat.mod_eq_of_lt (by omega)
        have hsz : uint32 (((b + incr : Nat) : Int) - ((roundup_page b : Nat) : Int)) =
            b + incr - roundup_page b := uint32_sub _ _ hRle h32
        obtain ⟨m1, s1, _, s3⟩ := memory_alloc_for_page_dir_spec fuel m dir (roundup_page b)
          (b + incr - roundup_page b) (PTE_P ||| PTE_U ||| PTE_W) hinv hR (by omega) hun
          (by rw [Nat.add_sub_cancel_left] at hfree; exact hfree) hfuel
        refine ⟨_, m1, ?_, hdone m1, s3⟩
        rw [if_pos hoff, if_neg (by omega), hstart, if_pos (by omega), hsz]
        unfold memory_alloc_page_for
        rw [ht, hdir, s1]
        dsimp only
        rw [if_neg (by decide)]

/-- C6, at the state `demo_heap` with the memory `demo_mem`: the break is
`0x80001234` and `sys_sbrk(8192)` maps the two pages `0x80002000` and
`0x80003000`. -/
theorem C6_sbrk_maps_new_pages_witness :
    ∃ k1 m1,
      sys_sbrk 100 demo_heap demo_mem ((8192 : Nat) : Int) =
        .done ((task_get demo_heap (task_current demo_heap)).heap_end, k1, m1) ∧
      sys_sbrk 100 k1 m1 0 =
        .done ((task_get demo_heap (task_current demo_heap)).heap_end + 8192, k1, m1) ∧
      ∀ u, u % 4096 = 0 → u < 2 ^ 32 →
        (page_mapped m1.pmem (task_get demo_heap (task_current demo_heap)).tss.cr3 u ↔
          page_mapped demo_mem.pmem (task_get demo_heap (task_current demo_heap)).tss.cr3 u ∨
          (roundup_page (task_get demo_heap (task_current demo_heap)).heap_end ≤ u ∧
            u < roundup_page ((task_get demo_heap (task_current demo_heap)).heap_end + 8192))) :=
  C6_sbrk_maps_new_pages 100 demo_heap demo_mem 8192 (by decide) demo_mem_inv (by decide!)
    (fun u _ _ _ h => by
      have h0 : entry_present 0 = 1 := h.1
      exact absurd h0 (by decide))
    (by decide!) (by decide)

/-! ### Claims on the allocator and on address translation: evaluation -/

/-- C12 (code at the failing input).  On an allocator of four free pages at
`0x100000`: `addr_alloc_page(1)` returns `0x100000`, `addr_alloc_page(1)`
returns `0x101000`, `addr_free_page(0x100000, 1)` frees the first page, and
`addr_alloc_page(2)` then returns `0x100000`, the range `0x100000..0x101FFF`,
which contains the page `0x101000` that is still handed out.  Three pages
are handed out and the bitmap marks two pages as used (byte 0 is 3). -/
theorem C12_alloc_ranges_overlap :
    (demo_then_alloc (demo_then_alloc (some ([], demo_alloc4)) 1) 1).map
      (fun x => (x.1, x.2.bitmap.bits 0)) = some ([0x100000, 0x101000], 3) ∧
    (demo_then_alloc (demo_then_free (demo_then_alloc (demo_then_alloc
        (some ([], demo_alloc4)) 1) 1) 0x100000 1) 2).map
      (fun x => (x.1, x.2.bitmap.bits 0, free_count x.2.bitmap)) =
      some ([0x100000, 0x101000, 0x100000], 3, 2) := by
  refine ⟨by decide!, by decide!⟩

/-- C13 (code at the failing inputs).  In a bitmap of two bits with bit 0
clear and bit 1 set there is no run of two clear bits, yet
`bitmap_alloc_nbits(bitmap, 0, 2)` returns 0 and sets both bits.  In a
bitmap of eight bits of which only bit 7 is clear it returns 7, although
`7 + 2 > 8`. -/
theorem C13_alloc_nbits_unchecked_last_bit :
    bit_of demo_bitmap_01 0 = false ∧ bit_of demo_bitmap_01 1 = true ∧
    (bitmap_alloc_nbits demo_bitmap_01 0 2 10 0).map (fun r => (r.1, r.2.bits 0)) =
      some (0, 3) ∧
    (List.range 8).map (bit_of demo_bitmap_last) =
      [true, true, true, true, true, true, true, false] ∧
    (bitmap_alloc_nbits demo_bitmap_last 0 2 10 0).map (fun r => (r.1, r.2.bits 0)) =
      some (7, 0xFF) := by
  refine ⟨by decide, by decide, by decide!, by decide!, by decide!⟩

/-- C14 (code at the failing input).  In `demo_mem_table` the directory entry
of the address `0x80000123` is present and the entry of its page in the page
table is 0, so the page is not mapped; `memory_get_paddr` returns `0x123`,
the offset of the address in its page, not 0.  For the page-aligned address
`0x80000000` it returns 0, and for `0x90000123`, whose directory entry is
not present, it returns 0. -/
theorem C14_get_paddr_unmapped_offset :
    ¬ page_mapped demo_mem_table.pmem 0x100000 0x80000000 ∧
    memory_get_paddr demo_mem_table 0x100000 0x80000123 = some 0x123 ∧
    memory_get_paddr demo_mem_table 0x100000 0x80000000 = some 0 ∧
    memory_get_paddr demo_mem_table 0x100000 0x90000123 = some 0 := by
  refine ⟨?_, by decide!, by decide!, by decide!⟩
  unfold page_mapped
  decide!

/-- C15 (code at the failing input).  `demo_mem_small` has two free pages.
`memory_alloc_for_page_dir` for the two pages from `0x80002000` on takes one
page for the first page and one for its page table; the allocation for the
second page fails.  The call returns 0, which is not negative, and both
pages stay marked as used (byte 0 of the bitmap is 7).  `sys_sbrk(8192)` of a
task with break `0x80001234` on this memory returns the old break and moves
the break to `0x80003234`. -/
theorem C15_alloc_failure_reported_as_success :
    free_count demo_mem_small.paddr_alloc.bitmap = 2 ∧
    demo_alloc_view (memory_alloc_for_page_dir 10 demo_mem_small 0x100000 0x80002000 8192 7) =
      some (0, 7) ∧
    ¬ (int32 0 < 0) ∧
    demo_sbrk_view (sys_sbrk 10 demo_heap demo_mem_small 8192) =
      some (0x80001234, 0x80003234, 7) := by
  refine ⟨by decide!, by decide!, by decide, by decide!⟩

/-! ### Claim on the mount lookup of `sys_open` -/

section open_dispatch_lemmas

/-- On strings without the character 0, `path_begin_with path str` says that
`str` is a prefix of `path`. -/
theorem path_begin_with_iff : ∀ (path str : List Nat), 0 ∉ path → 0 ∉ str →
    (path_begin_with path str = true ↔ str <+: path)
  | [], [], _, _ => by simp [path_begin_with]
  | _ :: _, [], _, _ => by simp [path_begin_with]
  | [], c2 :: s2, _, h2 => by
    have hc : c2 ≠ 0 := fun h => h2 (by simp [h])
    simp [path_begin_with, hc]
  | c1 :: s1, c2 :: s2, h1, h2 => by
    have hc1 : c1 ≠ 0 := fun h => h1 (by simp [h])
    have hc2 : c2 ≠ 0 := fun h => h2 (by simp [h])
    have h1r : 0 ∉ s1 := fun h => h1 (List.mem_cons_of_mem _ h)
    have h2r : 0 ∉ s2 := fun h => h2 (List.mem_cons_of_mem _ h)
    have ih := path_begin_with_iff s1 s2 h1r h2r
    rw [path_begin_with, List.cons_prefix_cons]
    by_cases hc : c1 = c2
    · rw [if_pos ⟨hc1, hc2, hc⟩, ih]
      exact ⟨fun h => ⟨hc.symm, h⟩, fun h => h.2⟩
    · rw [if_neg (fun h => hc h.2.2)]
      simp [hc2, Ne.symm hc]

/-- The loop of `sys_open` returns the first record of the list whose mount
point begins the name. -/
theorem sys_open_find_some (mt : mount_table_t) (name : List Nat) :
    ∀ (l : List Nat) (fs : Nat), sys_open_find mt name l = some fs →
      ∃ pre post, l = pre ++ fs :: post ∧
        path_begin_with name (mt.fs_tbl fs).mount_point = true ∧
        ∀ g ∈ pre, path_begin_with name (mt.fs_tbl g).mount_point = false
  | [], fs, h => by simp [sys_open_find] at h
  | curr :: rest, fs, h => by
    rw [sys_open_find] at h
    by_cases hc : path_begin_with name (mt.fs_tbl curr).mount_point = true
    · rw [if_pos hc] at h
      cases h
      exact ⟨[], rest, rfl, hc, fun g hg => by simp at hg⟩
    · rw [if_neg hc] at h
      obtain ⟨pre, post, hl, hfs, hpre⟩ := sys_open_find_some mt name rest fs h
      refine ⟨curr :: pre, post, by rw [hl]; rfl, hfs, ?_⟩
      intro g hg
      rcases List.mem_cons.mp hg with rfl | hg
      · simpa using hc
      · exact hpre g hg

/-- The loop of `sys_open` leaves `fs` null only when no mount point on the
list begins the name. -/
theorem sys_open_find_none (mt : mount_table_t) (name : List Nat) :
    ∀ (l : List Nat), sys_open_find mt name l = none →
      ∀ g ∈ l, path_begin_with name (mt.fs_tbl g).mount_point = false
  | [], _ => fun g hg => by simp at hg
  | curr :: rest, h => by
    rw [sys_open_find] at h
    by_cases hc : path_begin_with name (mt.fs_tbl curr).mount_point = true
    · rw [if_pos hc] at h
      cases h
    · rw [if_neg hc] at h
      intro g hg
      rcases List.mem_cons.mp hg with rfl | hg
      · simpa using hc
      · exact sys_open_find_none mt name rest h g hg

end open_dispatch_lemmas

/-- Claim C11, as the code has it.  When a file record and a descriptor are
available, `sys_open` calls the `open` operation of one file system and
reports its failure as -1 and its success as the new descriptor.  That file
system is the first one in the order of the mounted list whose mount point is
a prefix of the path, whatever the lengths of the other mount points that
are prefixes too, and it is given what `path_next_child` leaves of the path;
it is the root file system, given the whole path, when no mount point on the
list is a prefix of the path. -/
theorem C11_open_first_mount_on_list {σ : Type}
    (fs_open : Nat → Option (List Nat) → file_t → σ → Int × file_t × σ)
    (k : kernel σ) (mt : mount_table_t) (name : List Nat) (flags file : Nat)
    (hname : 0 ∉ name)
    (hmp : ∀ g ∈ mt.mounted_list, 0 ∉ (mt.fs_tbl g).mount_point)
    (hfile : (file_alloc k).1 = some file)
    (hfd : 0 ≤ (task_alloc_fd (file_alloc k).2 file).1) :
    ∃ (fs : Nat) (name1 : Option (List Nat)) (f1 : file_t),
      ((∃ pre post, mt.mounted_list = pre ++ fs :: post ∧
          (mt.fs_tbl fs).mount_point <+: name ∧
          (∀ g ∈ pre, ¬ (mt.fs_tbl g).mount_point <+: name) ∧
          name1 = path_next_child name) ∨
        ((∀ g ∈ mt.mounted_list, ¬ (mt.fs_tbl g).mount_point <+: name) ∧
          fs = mt.root_fs ∧ name1 = some name)) ∧
      f1.fs = fs ∧ f1.mode = flags ∧
      sys_open fs_open k mt name flags =
        (if (fs_open fs name1 f1 (task_alloc_fd (file_alloc k).2 file).2.fs).1 < 0 then -1
          else (task_alloc_fd (file_alloc k).2 file).1,
         (op_done (task_alloc_fd (file_alloc k).2 file).2 file
            (fs_open fs name1 f1 (task_alloc_fd (file_alloc k).2 file).2.fs)).2) := by
  have hfa : ∀ p : Option Nat × kernel σ, p.1 = some file → p = (some file, p.2) :=
    fun p hp => Prod.ext hp rfl
  have hfa := hfa (file_alloc k) hfile
  generalize (file_alloc k).2 = k0 at hfa hfd ⊢
  have hpre : ∀ g ∈ mt.mounted_list,
      (path_begin_with name (mt.fs_tbl g).mount_point = true ↔
        (mt.fs_tbl g).mount_point <+: name) :=
    fun g hg => path_begin_with_iff name _ hname (hmp g hg)
  unfold sys_open
  rw [hfa]
  simp only []
  rw [if_neg (not_lt.mpr hfd)]
  cases hfind : sys_open_find mt name mt.mounted_list with
  | none =>
    have hn := sys_open_find_none mt name _ hfind
    refine ⟨mt.root_fs, some name, { (task_alloc_fd k0 file).2.files file with mode := flags, fs := mt.root_fs, file_name := kernel_strncpy name FILE_NAME_SIZE }, Or.inr ⟨?_, rfl, rfl⟩, rfl, rfl, ?_⟩
    · intro g hg hp
      have := (hpre g hg).mpr hp
      rw [hn g hg] at this
      cases this
    · exact (apply_ite (fun x => (x, _)) _ _ _).symm
  | some fs =>
    obtain ⟨pre, post, hl, hfs, hno⟩ := sys_open_find_some mt name _ fs hfind
    refine ⟨fs, path_next_child name, { (task_alloc_fd k0 file).2.files file with mode := flags, fs := fs, file_name := match path_next_child name with | some n => kernel_strncpy n FILE_NAME_SIZE | none => ((task_alloc_fd k0 file).2.files file).file_name }, Or.inl ⟨pre, post, hl, ?_, ?_, rfl⟩, rfl, rfl, ?_⟩
    · exact (hpre fs (by rw [hl]; simp)).mp hfs
    · intro g hg hp
      have := (hpre g (by rw [hl]; simp [hg])).mpr hp
      rw [hno g hg] at this
      cases this
    · exact (apply_ite (fun x => (x, _)) _ _ _).symm

/-- Claim C11, as stated: with `/a` mounted before `/ab`, the path `/ab/f`
has both mount points as prefixes and `/ab` is the longer one, yet `sys_open`
calls the file system mounted on `/a`, with the name `f`. -/
theorem C11_open_not_longest_mount :
    (demo_mounts.fs_tbl 0).mount_point <+: demo_open_path ∧
    (demo_mounts.fs_tbl 1).mount_point <+: demo_open_path ∧
    (demo_mounts.fs_tbl 0).mount_point.length < (demo_mounts.fs_tbl 1).mount_point.length ∧
    (sys_open demo_fs_open demo_open_kernel demo_mounts demo_open_path 0).1 = 0 ∧
    (sys_open demo_fs_open demo_open_kernel demo_mounts demo_open_path 0).2.fs
      = [(0, some [102])] := by
  decide!

theorem C11_open_first_mount_on_list_witness :
    (0 ∉ demo_open_path) ∧
    (∀ g ∈ demo_mounts.mounted_list, 0 ∉ (demo_mounts.fs_tbl g).mount_point) ∧
    (file_alloc demo_open_kernel).1 = some 0 ∧
    0 ≤ (task_alloc_fd (file_alloc demo_open_kernel).2 0).1 ∧
    ∃ (fs : Nat) (name1 : Option (List Nat)) (f1 : file_t),
      ((∃ pre post, demo_mounts.mounted_list = pre ++ fs :: post ∧
          (demo_mounts.fs_tbl fs).mount_point <+: demo_open_path ∧
          (∀ g ∈ pre, ¬ (demo_mounts.fs_tbl g).mount_point <+: demo_open_path) ∧
          name1 = path_next_child demo_open_path) ∨
        ((∀ g ∈ demo_mounts.mounted_list,
            ¬ (demo_mounts.fs_tbl g).mount_point <+: demo_open_path) ∧
          fs = demo_mounts.root_fs ∧ name1 = some demo_open_path)) ∧
      f1.fs = fs ∧ f1.mode = 0 ∧
      sys_open demo_fs_open demo_open_kernel demo_mounts demo_open_path 0 =
        (if (demo_fs_open fs name1 f1
              (task_alloc_fd (file_alloc demo_open_kernel).2 0).2.fs).1 < 0 then -1
          else (task_alloc_fd (file_alloc demo_open_kernel).2 0).1,
         (op_done (task_alloc_fd (file_alloc demo_open_kernel).2 0).2 0
            (demo_fs_open fs name1 f1
              (task_alloc_fd (file_alloc demo_open_kernel).2 0).2.fs)).2) :=
  ⟨by decide, by decide, by decide!, by decide!,
    C11_open_first_mount_on_list demo_fs_open demo_open_kernel demo_mounts demo_open_path 0 0
      (by decide) (by decide) (by decide!) (by decide!)⟩

/-! ### Claims on the mutex and on the semaphore -/

section ipc_lemmas

variable {σ : Type}

theorem int_wrap_eq (i : Int) (h0 : -(2 ^ 31) ≤ i) (h1 : i < 2 ^ 31) : int_wrap i = i := by
  unfold int_wrap int32 uint32
  have hm : (((i % 2 ^ 32).toNat % 2 ^ 32 : Nat) : Int) = i % 2 ^ 32 := by
    have hnn : 0 ≤ i % 2 ^ 32 := Int.emod_nonneg _ (by norm_num)
    have hlt : i % 2 ^ 32 < 2 ^ 32 := Int.emod_lt_of_pos _ (by norm_num)
    omega
  by_cases hi : 0 ≤ i
  · have he : i % 2 ^ 32 = i := Int.emod_eq_of_lt hi (by omega)
    have hc : (i % 2 ^ 32).toNat % 2 ^ 32 < 2 ^ 31 := by omega
    rw [if_pos hc, hm, he]
  · have he : i % 2 ^ 32 = i + 2 ^ 32 := by
      have := Int.emod_emod_of_dvd i (dvd_refl (2 ^ 32 : Int))
      have h2 : (i + 2 ^ 32) % 2 ^ 32 = i + 2 ^ 32 := Int.emod_eq_of_lt (by omega) (by omega)
      rw [← h2]
      simp
    have hc : ¬ (i % 2 ^ 32).toNat % 2 ^ 32 < 2 ^ 31 := by omega
    rw [if_neg hc, hm, he]
    ring

theorem mutex_lock_inv (k : kernel σ) (m : mutex_t) (n : Nat) (hk : task_current k ≠ .null)
    (hn : n + 1 < 2 ^ 31) (h : mutex_inv m n) : mutex_inv (mutex_lock k m).2 (n + 1) := by
  obtain ⟨h1, h2, h3, h4, h5⟩ := h
  unfold mutex_lock
  simp only []
  by_cases hc : m.locked_count = 0
  · rw [if_pos hc]
    have ho : m.owner = .null := by
      by_contra ho
      have := h1 ho
      omega
    have hw : m.wait_list = [] := by
      by_contra hw
      exact h3 hw ho
    refine ⟨fun _ => le_refl _, fun h => absurd h hk, fun h => absurd hw h, h4, ?_⟩
    show (1 : Int) ≤ ((n + 1 : Nat) : Int)
    omega
  · rw [if_neg hc]
    have ho : m.owner ≠ .null := fun ho => hc (h2 ho)
    have hge := h1 ho
    by_cases hoc : m.owner = task_current k
    · rw [if_pos hoc]
      have hw : int_wrap (m.locked_count + 1) = m.locked_count + 1 :=
        int_wrap_eq _ (by omega) (by omega)
      refine ⟨fun _ => ?_, fun h => absurd h ho, h3, h4, ?_⟩
      · show 1 ≤ int_wrap (m.locked_count + 1)
        rw [hw]; omega
      · show int_wrap (m.locked_count + 1) ≤ ((n + 1 : Nat) : Int)
        rw [hw]; push_cast; omega
    · rw [if_neg hoc]
      refine ⟨fun _ => hge, fun h => absurd h ho, fun _ => ho, ?_, ?_⟩
      · intro t ht
        rcases List.mem_append.mp ht with ht | ht
        · exact h4 t ht
        · rw [List.mem_singleton.mp ht]; exact hk
      · show m.locked_count ≤ ((n + 1 : Nat) : Int)
        push_cast; omega

theorem mutex_unlock_inv (k : kernel σ) (m : mutex_t) (n : Nat) (hk : task_current k ≠ .null)
    (hn : n + 1 < 2 ^ 31) (h : mutex_inv m n) : mutex_inv (mutex_unlock k m).2 (n + 1) := by
  obtain ⟨h1, h2, h3, h4, h5⟩ := h
  unfold mutex_unlock
  simp only []
  by_cases hoc : m.owner = task_current k
  · rw [if_pos hoc]
    have ho : m.owner ≠ .null := hoc ▸ hk
    have hge := h1 ho
    have hw : int_wrap (m.locked_count - 1) = m.locked_count - 1 :=
      int_wrap_eq _ (by omega) (by omega)
    rw [hw]
    by_cases hz : m.locked_count - 1 = 0
    · rw [if_pos hz]
      by_cases hl : m.wait_list.length ≠ 0
      · rw [if_pos hl]
        cases hwl : m.wait_list with
        | nil => rw [hwl] at hl; exact absurd rfl hl
        | cons t rest =>
          have ht : t ≠ .null := h4 t (by rw [hwl]; exact List.mem_cons_self _ _)
          refine ⟨fun _ => le_refl _, fun h => absurd h ht, fun _ => ht, ?_, ?_⟩
          · intro u hu
            exact h4 u (by rw [hwl]; exact List.mem_cons_of_mem _ hu)
          · show (1 : Int) ≤ ((n + 1 : Nat) : Int)
            omega
      · rw [if_neg hl]
        have hwl : m.wait_list = [] := by
          cases hwl : m.wait_list with
          | nil => rfl
          | cons t rest => rw [hwl] at hl; simp at hl
        refine ⟨fun h => absurd rfl h, fun _ => hz, fun h => absurd hwl h, h4, ?_⟩
        show m.locked_count - 1 ≤ ((n + 1 : Nat) : Int)
        push_cast; omega
    · rw [if_neg hz]
      refine ⟨fun _ => ?_, fun h => absurd h ho, h3, h4, ?_⟩
      · show 1 ≤ m.locked_count - 1
        omega
      · show m.locked_count - 1 ≤ ((n + 1 : Nat) : Int)
        push_cast; omega
  · rw [if_neg hoc]
    refine ⟨h1, h2, h3, h4, ?_⟩
    push_cast; omega

theorem mutex_calls_inv : ∀ (calls : List (mutex_call × kernel σ)) (m : mutex_t) (n : Nat),
    (∀ c ∈ calls, task_current c.2 ≠ .null) → n + calls.length < 2 ^ 31 → mutex_inv m n →
    mutex_inv (mutex_calls m calls) (n + calls.length)
  | [], m, n, _, _, h => h
  | (.lock, k) :: rest, m, n, hc, hn, h => by
    have hk := hc (.lock, k) (List.mem_cons_self _ _)
    simp only [List.length_cons] at hn ⊢
    have := mutex_calls_inv rest (mutex_lock k m).2 (n + 1)
      (fun c hcm => hc c (List.mem_cons_of_mem _ hcm)) (by omega)
      (mutex_lock_inv k m n hk (by omega) h)
    rw [mutex_calls]
    rwa [show n + (rest.length + 1) = n + 1 + rest.length by omega]
  | (.unlock, k) :: rest, m, n, hc, hn, h => by
    have hk := hc (.unlock, k) (List.mem_cons_self _ _)
    simp only [List.length_cons] at hn ⊢
    have := mutex_calls_inv rest (mutex_unlock k m).2 (n + 1)
      (fun c hcm => hc c (List.mem_cons_of_mem _ hcm)) (by omega)
      (mutex_unlock_inv k m n hk (by omega) h)
    rw [mutex_calls]
    rwa [show n + (rest.length + 1) = n + 1 + rest.length by omega]

end ipc_lemmas
section sem_lemmas

variable {σ : Type}

theorem sem_wait_inv (k : kernel σ) (s : sem_t) (n : Nat)
    (hn : n + 1 < 2 ^ 31) (h : sem_inv s n) : sem_inv (sem_wait k s).2 (n + 1) := by
  obtain ⟨h1, h2, h3⟩ := h
  unfold sem_wait
  by_cases hc : s.count > 0
  · rw [if_pos hc]
    have hw : int_wrap (s.count - 1) = s.count - 1 := int_wrap_eq _ (by omega) (by omega)
    refine ⟨?_, ?_, ?_⟩
    · show 0 ≤ int_wrap (s.count - 1)
      rw [hw]; omega
    · intro hwl
      have := h2 hwl
      omega
    · show int_wrap (s.count - 1) ≤ ((n + 1 : Nat) : Int)
      rw [hw]; push_cast; omega
  · rw [if_neg hc]
    refine ⟨h1, fun _ => ?_, ?_⟩
    · show s.count = 0
      omega
    · show s.count ≤ ((n + 1 : Nat) : Int)
      push_cast; omega

theorem sem_notify_inv (k : kernel σ) (s : sem_t) (n : Nat)
    (hn : n + 1 < 2 ^ 31) (h : sem_inv s n) : sem_inv (sem_notify k s).2 (n + 1) := by
  obtain ⟨h1, h2, h3⟩ := h
  unfold sem_notify
  by_cases hl : s.wait_list.length ≠ 0
  · rw [if_pos hl]
    have hwl : s.wait_list ≠ [] := fun h => hl (by rw [h]; rfl)
    refine ⟨h1, fun _ => h2 hwl, ?_⟩
    show s.count ≤ ((n + 1 : Nat) : Int)
    push_cast; omega
  · rw [if_neg hl]
    have hwl : s.wait_list = [] := by
      cases hwl : s.wait_list with
      | nil => rfl
      | cons t rest => rw [hwl] at hl; simp at hl
    have hw : int_wrap (s.count + 1) = s.count + 1 := int_wrap_eq _ (by omega) (by omega)
    refine ⟨?_, fun h => absurd hwl h, ?_⟩
    · show 0 ≤ int_wrap (s.count + 1)
      rw [hw]; omega
    · show int_wrap (s.count + 1) ≤ ((n + 1 : Nat) : Int)
      rw [hw]; push_cast; omega

theorem sem_calls_inv : ∀ (calls : List (sem_call × kernel σ)) (s : sem_t) (n : Nat),
    n + calls.length < 2 ^ 31 → sem_inv s n → sem_inv (sem_calls s calls) (n + calls.length)
  | [], s, n, _, h => h
  | (.wait, k) :: rest, s, n, hn, h => by
    simp only [List.length_cons] at hn ⊢
    have := sem_calls_inv rest (sem_wait k s).2 (n + 1) (by omega)
      (sem_wait_inv k s n (by omega) h)
    rw [sem_calls]
    rwa [show n + (rest.length + 1) = n + 1 + rest.length by omega]
  | (.notify, k) :: rest, s, n, hn, h => by
    simp only [List.length_cons] at hn ⊢
    have := sem_calls_inv rest (sem_notify k s).2 (n + 1) (by omega)
      (sem_notify_inv k s n (by omega) h)
    rw [sem_calls]
    rwa [show n + (rest.length + 1) = n + 1 + rest.length by omega]

end sem_lemmas

/-- Claim C16.  After `mutex_init` and any sequence of fewer than 2^31 calls
of `mutex_lock` and `mutex_unlock`, each made by a task (the current task is
not the null pointer) in any state of the scheduler: a mutex with an owner
has depth at least 1, a mutex without an owner has depth 0, and a mutex with
a waiter has an owner. -/
theorem C16_mutex_owner_depth_waiters {σ : Type} (mutex : mutex_t)
    (calls : List (mutex_call × kernel σ))
    (htask : ∀ c ∈ calls, task_current c.2 ≠ .null)
    (hlen : calls.length < 2 ^ 31) :
    ((mutex_calls (mutex_init mutex) calls).owner ≠ .null →
      1 ≤ (mutex_calls (mutex_init mutex) calls).locked_count) ∧
    ((mutex_calls (mutex_init mutex) calls).owner = .null →
      (mutex_calls (mutex_init mutex) calls).locked_count = 0) ∧
    ((mutex_calls (mutex_init mutex) calls).wait_list ≠ [] →
      (mutex_calls (mutex_init mutex) calls).owner ≠ .null) := by
  have h0 : mutex_inv (mutex_init mutex) 0 :=
    ⟨fun h => absurd rfl h, fun _ => rfl, fun h => absurd rfl h,
      fun t ht => absurd ht (List.not_mem_nil t), le_refl _⟩
  have h := mutex_calls_inv calls (mutex_init mutex) 0 htask (by omega) h0
  exact ⟨h.1, h.2.1, h.2.2.1⟩

theorem C16_mutex_owner_depth_waiters_witness :
    (∀ c ∈ demo_mutex_calls, task_current c.2 ≠ .null) ∧
    demo_mutex_calls.length < 2 ^ 31 ∧
    mutex_calls (mutex_init ⟨.null, 7, []⟩) demo_mutex_calls = ⟨.slot 0, 1, [.slot 1]⟩ ∧
    ((mutex_calls (mutex_init ⟨.null, 7, []⟩) demo_mutex_calls).owner ≠ .null →
      1 ≤ (mutex_calls (mutex_init ⟨.null, 7, []⟩) demo_mutex_calls).locked_count) ∧
    ((mutex_calls (mutex_init ⟨.null, 7, []⟩) demo_mutex_calls).owner = .null →
      (mutex_calls (mutex_init ⟨.null, 7, []⟩) demo_mutex_calls).locked_count = 0) ∧
    ((mutex_calls (mutex_init ⟨.null, 7, []⟩) demo_mutex_calls).wait_list ≠ [] →
      (mutex_calls (mutex_init ⟨.null, 7, []⟩) demo_mutex_calls).owner ≠ .null) :=
  ⟨by decide, by decide, by decide,
    C16_mutex_owner_depth_waiters ⟨.null, 7, []⟩ demo_mutex_calls (by decide) (by decide)⟩

/-- Claim C17.  After `sem_init` with a count that is not negative and any
sequence of calls of `sem_wait` and `sem_notify`, made in any states of the
scheduler, as long as the initial count plus the number of calls is below
2^31: the count is not negative, and it is 0 whenever a task waits. -/
theorem C17_sem_count_waiters {σ : Type} (sem : sem_t) (init_count : Int)
    (calls : List (sem_call × kernel σ))
    (hinit : 0 ≤ init_count)
    (hlen : init_count + calls.length < 2 ^ 31) :
    0 ≤ (sem_calls (sem_init sem init_count) calls).count ∧
    ((sem_calls (sem_init sem init_count) calls).wait_list ≠ [] →
      (sem_calls (sem_init sem init_count) calls).count = 0) := by
  have h0 : sem_inv (sem_init sem init_count) init_count.toNat :=
    ⟨hinit, fun h => absurd rfl h, by show init_count ≤ _; omega⟩
  have h := sem_calls_inv calls (sem_init sem init_count) init_count.toNat (by omega) h0
  exact ⟨h.1, h.2.1⟩

theorem C17_sem_count_waiters_witness :
    (0 : Int) ≤ 1 ∧ (1 : Int) + demo_sem_calls.length < 2 ^ 31 ∧
    sem_calls (sem_init ⟨5, []⟩ 1) demo_sem_calls = ⟨0, []⟩ ∧
    0 ≤ (sem_calls (sem_init ⟨5, []⟩ 1) demo_sem_calls).count ∧
    ((sem_calls (sem_init ⟨5, []⟩ 1) demo_sem_calls).wait_list ≠ [] →
      (sem_calls (sem_init ⟨5, []⟩ 1) demo_sem_calls).count = 0) :=
  ⟨by decide, by decide, by decide,
    C17_sem_count_waiters ⟨5, []⟩ 1 demo_sem_calls (by decide) (by decide)⟩

/-! ### Claim on `fatfs_readdir` -/

section readdir_lemmas

/-- The fields of a directory item depend on its 32 bytes only. -/
theorem diritem_view_congr (b1 b2 : bytes_t) (o1 o2 : Nat)
    (h : ∀ o, o < 32 → b1 (o1 + o) = b2 (o2 + o)) :
    DIR_Name b1 o1 0 = DIR_Name b2 o2 0 ∧ DIR_Attr b1 o1 = DIR_Attr b2 o2 ∧
    DIR_FileSize b1 o1 = DIR_FileSize b2 o2 ∧
    diritem_get_type b1 o1 = diritem_get_type b2 o2 := by
  have hn : ∀ i, i < 11 → DIR_Name b1 o1 i = DIR_Name b2 o2 i :=
    fun i hi => h i (by omega)
  have ha : DIR_Attr b1 o1 = DIR_Attr b2 o2 := h 11 (by omega)
  have hs : DIR_FileSize b1 o1 = DIR_FileSize b2 o2 := by
    unfold DIR_FileSize read32
    have e0 := h 28 (by omega)
    have e1 := h 29 (by omega)
    have e2 := h 30 (by omega)
    have e3 := h 31 (by omega)
    rw [show o1 + 28 + 1 = o1 + 29 by omega, show o1 + 28 + 2 = o1 + 30 by omega,
      show o1 + 28 + 3 = o1 + 31 by omega, show o2 + 28 + 1 = o2 + 29 by omega,
      show o2 + 28 + 2 = o2 + 30 by omega, show o2 + 28 + 3 = o2 + 31 by omega,
      e0, e1, e2, e3]
  refine ⟨hn 0 (by omega), ha, hs, ?_⟩
  unfold diritem_get_type
  rw [ha]

/-- The item `read_dir_entry` points to holds the bytes of the entry on the
disk. -/
theorem read_dir_entry_item (fat : fat_t) (hi : fat_inv fat) (i : Nat)
    (h : i < fat.root_ent_cnt) :
    ∀ o, o < 32 → (read_dir_entry fat (i : Int)).2.fat_buffer (i * 32 % 512 + o) =
      fat.dev.bytes (root_entry_addr fat i + o) := by
  intro o ho
  have hr := (read_dir_entry_ok fat hi i h).2.2.2.2.2 (i * 32 % 512 + o) (by omega)
  rw [hr]
  unfold root_entry_addr
  exact congrArg fat.dev.bytes (by omega)

end readdir_lemmas
section readdir_loop_lemmas

theorem uint32_index (i : Nat) (h : i ≤ 65535) : uint32 (i : Int) = i := by
  unfold uint32
  rw [Int.emod_eq_of_lt (by omega) (by omega)]
  exact Int.toNat_ofNat i

/-- The type of an item none of whose attributes hides it. -/
theorem diritem_get_type_listed (b : bytes_t) (off : Nat) :
    (diritem_get_type b off = .FILE_NORMAL ∨ diritem_get_type b off = .FILE_DIR) ↔
      DIR_Attr b off &&& (0x08 ||| 0x02 ||| 0x04) = 0 := by
  unfold diritem_get_type
  have hm : DIRITEM_ATTR_VOLUME_ID ||| DIRITEM_ATTR_HIDDEN ||| DIRITEM_ATTR_SYSTEM =
      0x08 ||| 0x02 ||| 0x04 := rfl
  rw [hm]
  by_cases h : DIR_Attr b off &&& (0x08 ||| 0x02 ||| 0x04) = 0
  · rw [if_neg (not_not.mpr h)]
    constructor
    · exact fun _ => h
    · intro _
      by_cases hd : DIR_Attr b off &&& DIRITEM_ATTR_DIRECTORY ≠ 0
      · rw [if_pos hd]; exact Or.inr rfl
      · rw [if_neg hd]; exact Or.inl rfl
  · rw [if_pos h]
    constructor
    · intro h1
      rcases h1 with h1 | h1 <;> cases h1
    · exact fun h1 => absurd h1 h

/-- The listing of the entries `i .. i + n - 1`, when entry `i` is the end
mark, a listed entry or a skipped entry. -/
theorem listing_cons (fat : fat_t) (i n : Nat) :
    ((List.range' i (n + 1)).takeWhile (fun i => !root_entry_end fat i)).filter
        (root_entry_listed fat) =
      if root_entry_end fat i = true then []
      else if root_entry_listed fat i = true then
        i :: ((List.range' (i + 1) n).takeWhile (fun i => !root_entry_end fat i)).filter
          (root_entry_listed fat)
      else ((List.range' (i + 1) n).takeWhile (fun i => !root_entry_end fat i)).filter
          (root_entry_listed fat) := by
  rw [List.range'_succ, List.takeWhile_cons]
  by_cases he : root_entry_end fat i = true
  · simp [he]
  · by_cases hl : root_entry_listed fat i = true
    · simp [he, hl, List.filter_cons]
    · simp [he, hl, List.filter_cons]

/-- The listing of a range starts at or after the start of the range, and
its tail is the listing of what follows its head. -/
theorem listing_tail (fat : fat_t) : ∀ (n i j : Nat) (rest : List Nat),
    ((List.range' i n).takeWhile (fun i => !root_entry_end fat i)).filter
        (root_entry_listed fat) = j :: rest →
    i ≤ j ∧ j < i + n ∧
    rest = ((List.range' (j + 1) (i + n - (j + 1))).takeWhile
      (fun i => !root_entry_end fat i)).filter (root_entry_listed fat)
  | 0, i, j, rest, h => by simp at h
  | n + 1, i, j, rest, h => by
    rw [listing_cons] at h
    by_cases he : root_entry_end fat i = true
    · rw [if_pos he] at h; cases h
    · rw [if_neg he] at h
      by_cases hl : root_entry_listed fat i = true
      · rw [if_pos hl] at h
        injection h with h1 h2
        subst h1
        refine ⟨le_refl _, by omega, ?_⟩
        rw [← h2, show i + (n + 1) - (i + 1) = n by omega]
      · rw [if_neg hl] at h
        obtain ⟨h1, h2, h3⟩ := listing_tail fat n (i + 1) j rest h
        refine ⟨by omega, by omega, ?_⟩
        rw [h3, show i + 1 + n - (j + 1) = i + (n + 1) - (j + 1) by omega]

/-- Two states of the driver on the same disk with the same geometry have
the same end marks, listed entries and entry views. -/
theorem root_entry_congr (fat0 fat : fat_t) (hd : fat.dev = fat0.dev) (hg : geom_eq fat0 fat) :
    root_entry_end fat = root_entry_end fat0 ∧ root_entry_listed fat = root_entry_listed fat0 ∧
    root_entry_view fat = root_entry_view fat0 ∧ root_entry_addr fat = root_entry_addr fat0 := by
  have hrs : fat.root_start = fat0.root_start := hg.2.2.2.2.2.2.1.symm
  have ha : root_entry_addr fat = root_entry_addr fat0 := by
    funext i; unfold root_entry_addr; rw [hrs]
  refine ⟨?_, ?_, ?_, ha⟩
  · funext i; unfold root_entry_end; rw [ha, hd]
  · funext i; unfold root_entry_listed; rw [ha, hd]
  · funext i; unfold root_entry_view; rw [ha, hd]

/-- One call of `fatfs_readdir` from the index `i`, with `n` entries left:
it returns -1 and leaves the record alone when no listed entry lies between
`i` and the end mark, and yields the first such entry otherwise. -/
theorem fatfs_readdir_call : ∀ (n i fuel : Nat) (fat : fat_t) (d : dirent),
    fat_inv fat → i + n = fat.root_ent_cnt → n < fuel →
    match ((List.range' i n).takeWhile (fun i => !root_entry_end fat i)).filter
        (root_entry_listed fat) with
    | [] => ∃ fat1 dir1, fatfs_readdir fuel fat ⟨(i : Int)⟩ d = some (-1, fat1, dir1, d)
    | j :: _ => ∃ fat1 d1,
        fatfs_readdir fuel fat ⟨(i : Int)⟩ d = some (0, fat1, ⟨((j + 1 : Nat) : Int)⟩, d1) ∧
        fat_inv fat1 ∧ fat1.dev = fat.dev ∧ geom_eq fat fat1 ∧
        (d1.index, d1.type, d1.size) = root_entry_view fat j
  | 0, i, fuel, fat, d, hi, hn, hf => by
    obtain ⟨f, rfl⟩ : ∃ f, fuel = f + 1 := ⟨fuel - 1, by omega⟩
    have hle := hi.1.ent_le
    simp only [List.range'_zero, List.takeWhile_nil, List.filter_nil]
    refine ⟨fat, ⟨(i : Int)⟩, ?_⟩
    rw [fatfs_readdir]
    dsimp only
    rw [uint32_index i (by omega), if_neg (by omega)]
  | n + 1, i, fuel, fat, d, hi, hn, hf => by
    obtain ⟨f, rfl⟩ : ∃ f, fuel = f + 1 := ⟨fuel - 1, by omega⟩
    have hle := hi.1.ent_le
    have hr := read_dir_entry_ok fat hi i (by omega)
    have hitem := read_dir_entry_item fat hi i (by omega)
    rw [listing_cons]
    rw [fatfs_readdir]
    dsimp only
    rw [uint32_index i (by omega), if_pos (show i < fat.root_ent_cnt by omega)]
    generalize hrd : read_dir_entry fat (i : Int) = r at hr hitem
    obtain ⟨r1, fat1⟩ := r
    dsimp only at hr hitem
    obtain ⟨h1, h2, h3, h4, _, _⟩ := hr
    subst h1
    dsimp only
    obtain ⟨v0, v1, v2, v3⟩ := diritem_view_congr fat1.fat_buffer fat.dev.bytes
      (i * 32 % 512) (root_entry_addr fat i) hitem
    have hw : int_wrap ((i : Int) + 1) = ((i + 1 : Nat) : Int) := by
      rw [int_wrap_eq _ (by omega) (by omega)]; rfl
    rw [hw, v0]
    by_cases he : root_entry_end fat i = true
    · rw [if_pos he]
      have he1 : DIR_Name fat.dev.bytes (root_entry_addr fat i) 0 = DIRITEM_NAME_END := by
        simpa [root_entry_end] using he
      rw [if_pos he1]
      exact ⟨fat1, ⟨(i : Int)⟩, rfl⟩
    · rw [if_neg he]
      have he1 : ¬ DIR_Name fat.dev.bytes (root_entry_addr fat i) 0 = DIRITEM_NAME_END := by
        intro h; exact he (by simpa [root_entry_end] using h)
      rw [if_neg he1]
      have hc := root_entry_congr fat fat1 h3 h4
      by_cases hl : root_entry_listed fat i = true
      · rw [if_pos hl]
        have hl1 : DIR_Name fat.dev.bytes (root_entry_addr fat i) 0 ≠ DIRITEM_NAME_FREE ∧
            DIR_Attr fat.dev.bytes (root_entry_addr fat i) &&& (0x08 ||| 0x02 ||| 0x04) = 0 := by
          simpa [root_entry_listed, DIRITEM_NAME_FREE] using hl
        rw [if_pos ⟨hl1.1, (diritem_get_type_listed _ _).mpr (v1 ▸ hl1.2)⟩]
        refine ⟨fat1, _, rfl, h2, h3, h4, ?_⟩
        dsimp only
        rw [v3, v2]
        unfold root_entry_view
        refine congrArg (fun t => ((i : Int), t, _)) ?_
        have hl2 : DIR_Attr fat.dev.bytes (root_entry_addr fat i) &&&
            (DIRITEM_ATTR_VOLUME_ID ||| DIRITEM_ATTR_HIDDEN ||| DIRITEM_ATTR_SYSTEM) = 0 := hl1.2
        unfold diritem_get_type
        rw [if_neg (not_not.mpr hl2)]
        rfl
      · rw [if_neg hl]
        have hl1 : ¬ (DIR_Name fat.dev.bytes (root_entry_addr fat i) 0 ≠ DIRITEM_NAME_FREE ∧
            (diritem_get_type fat1.fat_buffer (i * 32 % 512) = .FILE_NORMAL ∨
              diritem_get_type fat1.fat_buffer (i * 32 % 512) = .FILE_DIR)) := by
          intro h
          apply hl
          have := (diritem_get_type_listed _ _).mp h.2
          rw [v1] at this
          unfold root_entry_listed
          simp only [Bool.and_eq_true, bne_iff_ne, beq_iff_eq]
          exact ⟨h.1, this⟩
        rw [if_neg hl1]
        have hcnt : fat1.root_ent_cnt = fat.root_ent_cnt := h4.2.2.2.2.2.1.symm
        have ih := fatfs_readdir_call n (i + 1) f fat1 d h2 (by omega) (by omega)
        rw [hc.1, hc.2.1, hc.2.2.1] at ih
        revert ih
        cases ((List.range' (i + 1) n).takeWhile (fun i => !root_entry_end fat i)).filter
            (root_entry_listed fat) with
        | nil => exact fun ih => ih
        | cons j rest =>
          intro ih
          obtain ⟨fat2, d1, e1, e2, e3, e4, e5⟩ := ih
          exact ⟨fat2, d1, e1, e2, e3.trans h3, geom_eq_trans h4 e4, e5⟩

end readdir_loop_lemmas
section readdir_calls_lemmas

/-- Successive calls of `fatfs_readdir` from the index `i` on, in a state of
the driver on the disk and with the geometry of `fat0`: they yield the
listing of the entries from `i` on, and then -1. -/
theorem readdir_calls_listing (fat0 : fat_t) (fuel : Nat) (hfuel : fat0.root_ent_cnt < fuel) :
    ∀ (l : List Nat) (n i : Nat) (fat : fat_t) (d : dirent),
    fat_inv fat → fat.dev = fat0.dev → geom_eq fat0 fat → i + n = fat0.root_ent_cnt →
    ((List.range' i n).takeWhile (fun i => !root_entry_end fat0 i)).filter
        (root_entry_listed fat0) = l →
    ∃ v, (readdir_calls fuel (l.length + 1) fat ⟨(i : Int)⟩ d).map
        (fun r => (r.1, r.2.index, r.2.type, r.2.size)) =
      l.map (fun j => ((0 : Int), root_entry_view fat0 j)) ++ [(-1, v)]
  | [], n, i, fat, d, hi, hd, hg, hn, hl => by
    have hc := root_entry_congr fat0 fat hd hg
    have hcnt : fat.root_ent_cnt = fat0.root_ent_cnt := hg.2.2.2.2.2.1.symm
    have h := fatfs_readdir_call n i fuel fat d hi (by omega) (by omega)
    rw [hc.1, hc.2.1, hl] at h
    obtain ⟨fat1, dir1, h⟩ := h
    refine ⟨(d.index, d.type, d.size), ?_⟩
    simp only [List.length_nil, Nat.zero_add, readdir_calls, h, List.map_cons, List.map_nil,
      List.nil_append]
  | j :: rest, n, i, fat, d, hi, hd, hg, hn, hl => by
    have hc := root_entry_congr fat0 fat hd hg
    have hcnt : fat.root_ent_cnt = fat0.root_ent_cnt := hg.2.2.2.2.2.1.symm
    have h := fatfs_readdir_call n i fuel fat d hi (by omega) (by omega)
    rw [hc.1, hc.2.1, hl] at h
    obtain ⟨fat1, d1, h, e2, e3, e4, e5⟩ := h
    obtain ⟨t1, t2, t3⟩ := listing_tail fat0 n i j rest hl
    obtain ⟨v, hv⟩ := readdir_calls_listing fat0 fuel hfuel rest (i + n - (j + 1)) (j + 1)
      fat1 d1 e2 (e3.trans hd) (geom_eq_trans hg e4) (by omega) t3.symm
    refine ⟨v, ?_⟩
    rw [List.length_cons, readdir_calls, h]
    simp only [List.map_cons, List.cons_append]
    rw [hv, e5, hc.2.2.1]

end readdir_calls_lemmas

/-- Claim C20.  On an error-free disk with a mounted volume, the calls of
`fatfs_readdir` that follow `fatfs_opendir` return 0 once for every entry of
the root directory that lies before the first entry whose first name byte is
0x00, whose first name byte is not 0xE5 and whose attributes carry none of
volume-id, hidden and system, in index order, each time with the index, the
type (directory or regular) and `DIR_FileSize` of the entry in the record;
the call after the last of them returns -1. -/
theorem C20_readdir_lists_root_entries (fuel : Nat) (fat : fat_t) (dir : DIR) (d : dirent)
    (hinv : fat_inv fat) (hfuel : fat.root_ent_cnt < fuel) :
    ∃ v, (readdir_calls fuel ((root_listing fat).length + 1) fat (fatfs_opendir dir).2 d).map
        (fun r => (r.1, r.2.index, r.2.type, r.2.size)) =
      (root_listing fat).map (fun j => ((0 : Int), root_entry_view fat j)) ++ [(-1, v)] := by
  have h := readdir_calls_listing fat fuel hfuel (root_listing fat) fat.root_ent_cnt 0 fat d
    hinv rfl (geom_eq_refl fat) (by omega)
    (by unfold root_listing; rw [List.range_eq_range'])
  exact h

theorem C20_readdir_lists_root_entries_witness :
    (root_listing demo_fat_one_file).map (fun j => ((0 : Int), root_entry_view demo_fat_one_file j))
      = [(0, 0, .FILE_NORMAL, 700)] ∧
    ∃ v, (readdir_calls 17 ((root_listing demo_fat_one_file).length + 1) demo_fat_one_file
          (fatfs_opendir ⟨5⟩).2 ⟨0, .FILE_UNKNOWN, fun _ => 0, 0⟩).map
        (fun r => (r.1, r.2.index, r.2.type, r.2.size)) =
      (root_listing demo_fat_one_file).map
        (fun j => ((0 : Int), root_entry_view demo_fat_one_file j)) ++ [(-1, v)] :=
  ⟨by decide!,
    C20_readdir_lists_root_entries 17 demo_fat_one_file ⟨5⟩ ⟨0, .FILE_UNKNOWN, fun _ => 0, 0⟩
      ⟨⟨by decide!, by decide!, by decide!, by decide!, by decide!, by decide!, by decide!,
          by decide!, by decide!, by decide!, by decide!, by decide!⟩,
        fun _ => rfl, Or.inr ⟨3, by decide!, by decide!, by decide!⟩⟩
      (by decide!)⟩

/-! ### Claim on the reference counts of the file records -/

section refcount_lemmas

variable {σ : Type}

theorem sum_map_update {α : Type} [DecidableEq α] (f g : α → Nat) (a : α)
    (h : ∀ x, x ≠ a → g x = f x) :
    ∀ (l : List α), l.Nodup → a ∈ l → (l.map g).sum + f a = (l.map f).sum + g a
  | [], _, ha => by simp at ha
  | x :: xs, hl, ha => by
    have hx := (List.nodup_cons.mp hl)
    simp only [List.map_cons, List.sum_cons]
    by_cases hxa : x = a
    · subst hxa
      have : xs.map g = xs.map f :=
        List.map_congr_left (fun y hy => h y (fun e => hx.1 (e ▸ hy)))
      rw [this]
      omega
    · have ha1 : a ∈ xs := by
        rcases List.mem_cons.mp ha with e | e
        · exact absurd e.symm hxa
        · exact e
      have := sum_map_update f g a h xs hx.2 ha1
      rw [h x hxa]
      omega

theorem all_tasks_nodup : all_tasks.Nodup := by
  unfold all_tasks
  refine List.nodup_cons.mpr ⟨?_, List.nodup_cons.mpr ⟨?_, ?_⟩⟩
  · simp
  · simp
  · exact (List.nodup_range _).map (fun a b h => by injection h)

theorem mem_all_tasks_ne_null (t : task_ptr) (h : t ∈ all_tasks) : t ≠ .null := by
  intro e
  subst e
  simp [all_tasks] at h

/-- The count of a descriptor table after one slot has been set. -/
theorem fd_count_set (ft ft1 : Nat → Option Nat) (t t1 : task_t) (fd : Nat) (v : Option Nat)
    (hfd : fd < TASK_OFILE_NR) (ht : t.file_table = ft) (ht1 : t1.file_table = ft1)
    (h : ∀ j, ft1 j = if j = fd then v else ft j) (p : Nat) :
    fd_count t1 p + (if ft fd = some p then 1 else 0) =
      fd_count t p + (if v = some p then 1 else 0) := by
  unfold fd_count
  rw [ht, ht1]
  have := sum_map_update (fun j => if ft j = some p then 1 else 0)
    (fun j => if ft1 j = some p then 1 else 0) fd
    (fun x hx => by simp only [h x, if_neg hx])
    (List.range TASK_OFILE_NR) (List.nodup_range _) (List.mem_range.mpr hfd)
  simp only [h fd, if_true] at this
  exact this

/-- The count of a descriptor table depends on its slots only. -/
theorem fd_count_congr (t t1 : task_t) (h : ∀ j, t1.file_table j = t.file_table j) (p : Nat) :
    fd_count t1 p = fd_count t p := by
  unfold fd_count
  exact congrArg List.sum (List.map_congr_left (fun j _ => by rw [h j]))

theorem slot_count_congr (k k1 : kernel σ)
    (h : ∀ t j, (task_get k1 t).file_table j = (task_get k t).file_table j) (p : Nat) :
    slot_count k1 p = slot_count k p := by
  unfold slot_count
  exact congrArg List.sum (List.map_congr_left (fun t _ => fd_count_congr _ _ (h t) p))

/-- The number of slots that point to `p` after one slot of the task `t0`
has been set to `v`. -/
theorem slot_count_set (k k1 : kernel σ) (t0 : task_ptr) (fd : Nat) (v : Option Nat)
    (ht0 : t0 ∈ all_tasks) (hfd : fd < TASK_OFILE_NR)
    (h0 : ∀ j, (task_get k1 t0).file_table j =
      if j = fd then v else (task_get k t0).file_table j)
    (hoth : ∀ t j, t ≠ t0 → (task_get k1 t).file_table j = (task_get k t).file_table j)
    (p : Nat) :
    slot_count k1 p + (if (task_get k t0).file_table fd = some p then 1 else 0) =
      slot_count k p + (if v = some p then 1 else 0) := by
  have h1 := sum_map_update (fun t => fd_count (task_get k t) p)
    (fun t => fd_count (task_get k1 t) p) t0
    (fun t ht => fd_count_congr _ _ (hoth t · ht) p) all_tasks all_tasks_nodup ht0
  have h2 := fd_count_set (task_get k t0).file_table (task_get k1 t0).file_table
    (task_get k t0) (task_get k1 t0) fd v hfd rfl rfl h0 p
  unfold slot_count
  dsimp only at h1
  omega

theorem same_files_refl (k : kernel σ) : same_files k k := ⟨rfl, fun _ => rfl⟩

theorem same_files_trans {k k1 k2 : kernel σ} (h1 : same_files k k1) (h2 : same_files k1 k2) :
    same_files k k2 :=
  ⟨h2.1.trans h1.1, fun t => (h2.2 t).trans (h1.2 t)⟩

theorem same_files_slot_count {k k1 : kernel σ} (h : same_files k k1) (p : Nat) :
    slot_count k1 p = slot_count k p :=
  slot_count_congr k k1 (fun t j => by rw [h.2 t]) p

theorem same_files_ref_ok {k k1 : kernel σ} (h : same_files k k1) (hr : ref_ok k) :
    ref_ok k1 := by
  intro p
  rw [h.1, same_files_slot_count h, hr p]

end refcount_lemmas
section refcount_op_lemmas

variable {σ : Type}

theorem task_put_files (k : kernel σ) (p : task_ptr) (t : task_t) :
    (task_put k p t).files = k.files ∧ (task_put k p t).fs = k.fs := by
  cases p <;> exact ⟨rfl, rfl⟩

theorem task_put_current (k : kernel σ) (p : task_ptr) (t : task_t) :
    task_current (task_put k p t) = task_current k :=
  (task_put_task_manager_lists k p t).2.2

theorem file_put_task_get (k : kernel σ) (p : Nat) (f : file_t) (q : task_ptr) :
    task_get (file_put k p f) q = task_get k q := by
  cases q <;> rfl

/-- A store to a task block that leaves its descriptor table alone. -/
theorem task_put_same_files (k : kernel σ) (p : task_ptr) (t : task_t)
    (h : t.file_table = (task_get k p).file_table) : same_files k (task_put k p t) := by
  refine ⟨(task_put_files k p t).1, fun q => ?_⟩
  rw [task_get_task_put]
  split
  · rename_i hq
    rw [hq.1, h]
  · rfl

/-- What `task_alloc_fd` does to the slot counts. -/
theorem task_alloc_fd_spec (k : kernel σ) (file : Nat) (hc : task_current k ∈ all_tasks) :
    ((task_alloc_fd k file).1 < 0 ∧ (task_alloc_fd k file).2 = k) ∨
    (0 ≤ (task_alloc_fd k file).1 ∧
      (∀ p, slot_count (task_alloc_fd k file).2 p =
        slot_count k p + (if file = p then 1 else 0)) ∧
      (task_alloc_fd k file).2.files = k.files ∧ (task_alloc_fd k file).2.fs = k.fs ∧
      task_current (task_alloc_fd k file).2 = task_current k) := by
  unfold task_alloc_fd
  dsimp only
  cases hf : (List.range TASK_OFILE_NR).find?
      (fun i => ((task_get k (task_current k)).file_table i).isNone) with
  | none => exact Or.inl ⟨show ((-1 : Int) < 0) by decide, rfl⟩
  | some i =>
    right
    have hi := List.find?_some hf
    have hmem := List.mem_of_find?_eq_some hf
    have hlt : i < TASK_OFILE_NR := List.mem_range.mp hmem
    have hnone : (task_get k (task_current k)).file_table i = none := by
      simpa using hi
    have hne := mem_all_tasks_ne_null _ hc
    refine ⟨show (0 : Int) ≤ (i : Int) by omega, fun p => ?_, (task_put_files _ _ _).1,
      (task_put_files _ _ _).2, task_put_current _ _ _⟩
    dsimp only
    have := slot_count_set k (task_put k (task_current k)
        { task_get k (task_current k) with
          file_table := fun j => if j = i then some file else
            (task_get k (task_current k)).file_table j })
      (task_current k) i (some file) hc hlt
      (fun j => by rw [task_get_task_put, if_pos ⟨rfl, hne⟩])
      (fun t j ht => by rw [task_get_task_put, if_neg (fun h => ht h.1)]) p
    rw [hnone] at this
    simp only [Option.some.injEq] at this
    simpa using this

/-- What `task_remove_fd` does to the slot counts. -/
theorem task_remove_fd_spec (k : kernel σ) (fd : Int) (file : Nat)
    (hc : task_current k ∈ all_tasks) (hf : task_file k fd = some file) :
    (∀ p, slot_count (task_remove_fd k fd) p + (if file = p then 1 else 0) = slot_count k p) ∧
    (task_remove_fd k fd).files = k.files ∧ (task_remove_fd k fd).fs = k.fs ∧
    task_current (task_remove_fd k fd) = task_current k := by
  unfold task_file at hf
  unfold task_remove_fd
  by_cases hr : fd ≥ 0 ∧ fd < (TASK_OFILE_NR : Int)
  · rw [if_pos hr] at hf
    rw [if_pos hr]
    dsimp only
    have hne := mem_all_tasks_ne_null _ hc
    refine ⟨fun p => ?_, (task_put_files _ _ _).1, (task_put_files _ _ _).2,
      task_put_current _ _ _⟩
    have := slot_count_set k (task_put k (task_current k)
        { task_get k (task_current k) with
          file_table := fun j => if j = fd.toNat then none else
            (task_get k (task_current k)).file_table j })
      (task_current k) fd.toNat none hc (by omega)
      (fun j => by rw [task_get_task_put, if_pos ⟨rfl, hne⟩])
      (fun t j ht => by rw [task_get_task_put, if_neg (fun h => ht h.1)]) p
    rw [hf] at this
    simp only [Option.some.injEq] at this
    simpa using this
  · rw [if_neg hr] at hf
    cases hf

end refcount_op_lemmas
section refcount_vfs_lemmas

variable {σ : Type}

theorem task_file_range (k : kernel σ) (fd : Int) (p : Nat) (h : task_file k fd = some p) :
    0 ≤ fd ∧ fd < (TASK_OFILE_NR : Int) ∧
    (task_get k (task_current k)).file_table fd.toNat = some p := by
  unfold task_file at h
  by_cases hr : fd ≥ 0 ∧ fd < (TASK_OFILE_NR : Int)
  · rw [if_pos hr] at h
    exact ⟨hr.1, hr.2, h⟩
  · rw [if_neg hr] at h
    cases h

theorem task_remove_fd_slot (k : kernel σ) (fd : Int) (hc : task_current k ∈ all_tasks)
    (h0 : 0 ≤ fd) (h1 : fd < (TASK_OFILE_NR : Int)) :
    (task_get (task_remove_fd k fd) (task_current k)).file_table fd.toNat = none := by
  unfold task_remove_fd
  rw [if_pos ⟨h0, h1⟩]
  dsimp only
  rw [task_get_task_put, if_pos ⟨rfl, mem_all_tasks_ne_null _ hc⟩]
  dsimp only
  rw [if_pos rfl]

/-- The function `sys_dup` keeps the reference counts right. -/
theorem sys_dup_ref_ok (k : kernel σ) (file : Int) (hc : task_current k ∈ all_tasks)
    (hr : ref_ok k) : ref_ok (sys_dup k file).2 := by
  unfold sys_dup
  rw [if_neg (not_not.mpr (is_fd_bad_eq_zero file))]
  cases hf : task_file k file with
  | none => exact hr
  | some p_file =>
    dsimp only
    rcases task_alloc_fd_spec k p_file hc with ⟨h1, h2⟩ | ⟨h1, h2, h3, _, _⟩
    · rw [if_neg (by omega), h2]
      exact hr
    · rw [if_pos (by omega)]
      intro p
      have hs : slot_count (file_inc_ref (task_alloc_fd k p_file).2 p_file) p =
          slot_count (task_alloc_fd k p_file).2 p :=
        slot_count_congr _ _ (fun t j => by unfold file_inc_ref; rw [file_put_task_get]) p
      rw [hs, h2 p]
      unfold file_inc_ref file_put
      dsimp only
      rw [h3]
      by_cases hp : p = p_file
      · subst hp
        rw [if_pos rfl, if_pos rfl]
        dsimp only
        have := hr p
        omega
      · rw [if_neg hp, if_neg (fun e => hp e.symm)]
        have := hr p
        omega

/-- The close of the file system and the release of the record, for a
record whose count has dropped to 0. -/
theorem close_release_spec (op : fs_op_t σ) (hop : ∀ f s, (op.close f s).1.ref = f.ref)
    (k1 : kernel σ) (file : Nat) (c : Prop) [Decidable c] (h0 : c → (k1.files file).ref = 0) :
    (∀ t, task_get (if c then
        file_free { file_put k1 file (op.close (k1.files file) k1.fs).1 with
                    fs := (op.close (k1.files file) k1.fs).2 } file
      else k1) t = task_get k1 t) ∧
    task_current (if c then
        file_free { file_put k1 file (op.close (k1.files file) k1.fs).1 with
                    fs := (op.close (k1.files file) k1.fs).2 } file
      else k1) = task_current k1 ∧
    ∀ q, ((if c then
        file_free { file_put k1 file (op.close (k1.files file) k1.fs).1 with
                    fs := (op.close (k1.files file) k1.fs).2 } file
      else k1).files q).ref = (k1.files q).ref := by
  by_cases hc : c
  · simp only [if_pos hc]
    have hcl : (op.close (k1.files file) k1.fs).1.ref = 0 := by rw [hop]; exact h0 hc
    have hff : ∀ K : kernel σ, (K.files file).ref = 0 → file_free K file = K := by
      intro K hK
      unfold file_free
      rw [if_neg (not_not.mpr hK)]
    rw [hff _ (by
      show ((file_put k1 file (op.close (k1.files file) k1.fs).1).files file).ref = 0
      unfold file_put
      dsimp only
      rw [if_pos rfl]
      exact hcl)]
    refine ⟨fun t => by cases t <;> rfl, rfl, fun q => ?_⟩
    show ((file_put k1 file (op.close (k1.files file) k1.fs).1).files q).ref = _
    unfold file_put
    dsimp only
    by_cases hq : q = file
    · subst hq
      rw [if_pos rfl, hcl, h0 hc]
    · rw [if_neg hq]
  · rw [if_neg hc]
    exact ⟨fun _ => rfl, rfl, fun _ => rfl⟩

/-- The removal of the descriptor at the end of `sys_close`. -/
theorem sys_close_tail (k k2 : kernel σ) (fd : Int) (file : Nat)
    (hget : ∀ t, task_get k2 t = task_get k t) (hcur : task_current k2 = task_current k)
    (hfiles : ∀ p, (k2.files p).ref = (k.files p).ref - (if file = p then 1 else 0))
    (hc : task_current k ∈ all_tasks) (hf : task_file k fd = some file) :
    (∀ p, slot_count (task_remove_fd k2 fd) p + (if file = p then 1 else 0) = slot_count k p) ∧
    (∀ p, ((task_remove_fd k2 fd).files p).ref =
      (k.files p).ref - (if file = p then 1 else 0)) ∧
    task_current (task_remove_fd k2 fd) = task_current k ∧
    (task_get (task_remove_fd k2 fd) (task_current k)).file_table fd.toNat = none := by
  obtain ⟨r0, r1, r2⟩ := task_file_range k fd file hf
  have hc2 : task_current k2 ∈ all_tasks := hcur ▸ hc
  have hf2 : task_file k2 fd = some file := by
    unfold task_file
    rw [if_pos ⟨r0, r1⟩, hcur, hget]
    exact r2
  obtain ⟨s1, s2, _, s4⟩ := task_remove_fd_spec k2 fd file hc2 hf2
  refine ⟨fun p => ?_, fun p => ?_, s4.trans hcur, ?_⟩
  · rw [s1 p]
    exact slot_count_congr _ _ (fun t j => by rw [hget]) p
  · rw [s2]
    exact hfiles p
  · have := task_remove_fd_slot k2 fd hc2 r0 r1
    rw [hcur] at this
    exact this

/-- What `sys_close` does to the reference count and to the slot count of
the record behind the descriptor. -/
theorem sys_close_spec (op : fs_op_t σ) (hop : ∀ f s, (op.close f s).1.ref = f.ref)
    (k : kernel σ) (fd : Int) (file : Nat) (hc : task_current k ∈ all_tasks)
    (hf : task_file k fd = some file) :
    (∀ p, slot_count (sys_close op k fd).2 p + (if file = p then 1 else 0) = slot_count k p) ∧
    (∀ p, ((sys_close op k fd).2.files p).ref =
      (k.files p).ref - (if file = p then 1 else 0)) ∧
    task_current (sys_close op k fd).2 = task_current k ∧
    (task_get (sys_close op k fd).2 (task_current k)).file_table fd.toNat = none := by
  have h1 : ∀ q, ((file_put k file { k.files file with ref := (k.files file).ref - 1 }).files
      q).ref = (k.files q).ref - (if file = q then 1 else 0) := by
    intro q
    unfold file_put
    dsimp only
    by_cases hq : q = file
    · subst hq
      rw [if_pos rfl, if_pos rfl]
    · rw [if_neg hq, if_neg (fun e => hq e.symm)]
      omega
  have h := close_release_spec op hop
    (file_put k file { k.files file with ref := (k.files file).ref - 1 }) file
    ((k.files file).ref = 1) (fun e => by rw [h1 file, if_pos rfl, e]; rfl)
  unfold sys_close
  rw [if_neg (not_not.mpr (is_fd_bad_eq_zero fd)), hf]
  dsimp only
  refine sys_close_tail k _ fd file (fun t => ?_) ?_ (fun p => ?_) hc hf
  · exact (h.1 t).trans (file_put_task_get _ _ _ _)
  · exact h.2.1
  · exact (h.2.2 p).trans (h1 p)

/-- The function `sys_close` keeps the reference counts right. -/
theorem sys_close_ref_ok (op : fs_op_t σ) (hop : ∀ f s, (op.close f s).1.ref = f.ref)
    (k : kernel σ) (fd : Int) (hc : task_current k ∈ all_tasks) (hr : ref_ok k) :
    ref_ok (sys_close op k fd).2 := by
  cases hf : task_file k fd with
  | none =>
    unfold sys_close
    rw [if_neg (not_not.mpr (is_fd_bad_eq_zero fd)), hf]
    exact hr
  | some file =>
    obtain ⟨s1, s2, _, _⟩ := sys_close_spec op hop k fd file hc hf
    intro p
    have a := s1 p
    have b := s2 p
    have c := hr p
    rw [b, c]
    by_cases hp : file = p
    · rw [if_pos hp] at a ⊢
      omega
    · rw [if_neg hp] at a ⊢
      omega

end refcount_vfs_lemmas
section refcount_exit_lemmas

variable {σ : Type}

theorem task_set_ready_same_files (k : kernel σ) (p : task_ptr) :
    same_files k (task_set_ready k p) := by
  unfold task_set_ready
  split
  · dsimp only
    refine @same_files_trans σ k { k with task_manager :=
        { k.task_manager with ready_list := k.task_manager.ready_list ++ [p] } } _ ?_ ?_
    · exact ⟨rfl, fun t => by cases t <;> rfl⟩
    · exact task_put_same_files _ _ _ rfl
  · exact same_files_refl k

theorem task_set_block_same_files (k : kernel σ) (p : task_ptr) :
    same_files k (task_set_block k p) := by
  unfold task_set_block
  split
  · exact ⟨rfl, fun t => by cases t <;> rfl⟩
  · exact same_files_refl k

theorem task_dispatch_same_files (k : kernel σ) : same_files k (task_dispatch k) := by
  unfold task_dispatch
  dsimp only
  split
  · exact ⟨rfl, fun t => by cases t <;> rfl⟩
  · exact same_files_refl k

theorem exit_reparent_same_files (curr_task : task_ptr) :
    ∀ (l : List Nat) (acc : Int × kernel σ),
      same_files acc.2 (l.foldl (exit_reparent_step curr_task) acc).2
  | [], acc => same_files_refl _
  | i :: l, acc => by
    rw [List.foldl_cons]
    refine same_files_trans ?_ (exit_reparent_same_files curr_task l _)
    unfold exit_reparent_step
    dsimp only
    split
    · exact task_put_same_files acc.2 (.slot i) _ rfl
    · exact same_files_refl _

theorem same_files_ite (c : Prop) [Decidable c] (k a b : kernel σ) (ha : same_files k a)
    (hb : same_files k b) : same_files k (if c then a else b) := by
  split
  · exact ha
  · exact hb

theorem exit_wakeup_same_files (k : kernel σ) (curr_task : task_ptr) (move_child : Int) :
    same_files k (exit_wakeup k curr_task move_child) := by
  have h3 := same_files_ite (move_child ≠ 0 ∧ (task_get k curr_task).parent ≠ .first_task) k
    (if k.task_manager.first_task.state = .TASK_WAITING then task_set_ready k .first_task
      else k) k
    (same_files_ite _ k _ _ (task_set_ready_same_files _ _) (same_files_refl k))
    (same_files_refl k)
  unfold exit_wakeup
  dsimp only
  exact same_files_ite _ _ _ _ (same_files_trans h3 (task_set_ready_same_files _ _)) h3

/-- One turn of the loop of `sys_exit` that closes the open files keeps the
reference counts right. -/
theorem exit_close_step_ref_ok (op : fs_op_t σ) (hop : ∀ f s, (op.close f s).1.ref = f.ref)
    (k : kernel σ) (fd : Nat) (hfd : fd < TASK_OFILE_NR) (hc : task_current k ∈ all_tasks)
    (hr : ref_ok k) :
    ref_ok (exit_close_step op (task_current k) k fd) ∧
    task_current (exit_close_step op (task_current k) k fd) = task_current k := by
  unfold exit_close_step
  cases hs : (task_get k (task_current k)).file_table fd with
  | none => exact ⟨hr, rfl⟩
  | some file =>
    dsimp only
    have hf : task_file k (fd : Int) = some file := by
      unfold task_file
      rw [if_pos ⟨by omega, by omega⟩, Int.toNat_ofNat]
      exact hs
    obtain ⟨_, _, s3, s4⟩ := sys_close_spec op hop k (fd : Int) file hc hf
    rw [Int.toNat_ofNat] at s4
    have h1 := sys_close_ref_ok op hop k (fd : Int) hc hr
    refine ⟨same_files_ref_ok (task_put_same_files _ _ _ ?_) h1,
      (task_put_current _ _ _).trans s3⟩
    funext j
    dsimp only
    by_cases hj : j = fd
    · rw [if_pos hj, hj, s4]
    · rw [if_neg hj]

theorem exit_close_loop_ref_ok (op : fs_op_t σ) (hop : ∀ f s, (op.close f s).1.ref = f.ref)
    (curr_task : task_ptr) (hc : curr_task ∈ all_tasks) :
    ∀ (l : List Nat) (k : kernel σ), (∀ fd ∈ l, fd < TASK_OFILE_NR) →
      task_current k = curr_task → ref_ok k →
      ref_ok (l.foldl (exit_close_step op curr_task) k) ∧
      task_current (l.foldl (exit_close_step op curr_task) k) = curr_task
  | [], k, _, hk, hr => ⟨hr, hk⟩
  | fd :: l, k, hl, hk, hr => by
    rw [List.foldl_cons]
    subst hk
    have h := exit_close_step_ref_ok op hop k fd (hl fd (List.mem_cons_self _ _)) hc hr
    exact exit_close_loop_ref_ok op hop (task_current k) hc l _
      (fun x hx => hl x (List.mem_cons_of_mem _ hx)) h.2 h.1

/-- The function `sys_exit` keeps the reference counts right. -/
theorem sys_exit_ref_ok (op : fs_op_t σ) (hop : ∀ f s, (op.close f s).1.ref = f.ref)
    (k : kernel σ) (status : Int) (hc : task_current k ∈ all_tasks) (hr : ref_ok k) :
    ref_ok (sys_exit op k status) := by
  have h1 := (exit_close_loop_ref_ok op hop (task_current k) hc (List.range TASK_OFILE_NR) k
    (fun fd h => List.mem_range.mp h) rfl hr).1
  unfold sys_exit
  dsimp only
  generalize (List.range TASK_OFILE_NR).foldl (exit_close_step op (task_current k)) k = k1
    at h1 ⊢
  have h2 := exit_reparent_same_files (task_current k) (List.range TASK_OFILE_NR) (0, k1)
  generalize (List.range TASK_OFILE_NR).foldl (exit_reparent_step (task_current k)) (0, k1) = r
    at h2 ⊢
  have h3 := exit_wakeup_same_files r.2 (task_current k) r.1
  generalize exit_wakeup r.2 (task_current k) r.1 = k4 at h3 ⊢
  have h4 : same_files k4 (task_put k4 (task_current k)
      { task_get k4 (task_current k) with status := status, state := .TASK_ZOMBIE }) :=
    task_put_same_files _ _ _ rfl
  generalize task_put k4 (task_current k)
      { task_get k4 (task_current k) with status := status, state := .TASK_ZOMBIE } = k5
    at h4 ⊢
  exact same_files_ref_ok (same_files_trans h2 (same_files_trans h3 (same_files_trans h4
    (same_files_trans (task_set_block_same_files _ _) (task_dispatch_same_files _))))) h1

end refcount_exit_lemmas
section refcount_open_lemmas

variable {σ : Type}

theorem file_put_slot_count (k : kernel σ) (p : Nat) (f : file_t) (q : Nat) :
    slot_count (file_put k p f) q = slot_count k q :=
  slot_count_congr _ _ (fun t j => by rw [file_put_task_get]) q

/-- The loop of `copy_opened_files` over the descriptors `l`, none of which
is in use in the child, keeps the reference counts right. -/
theorem copy_loop_ref_ok (child_task : task_ptr) (hch : child_task ∈ all_tasks) :
    ∀ (l : List Nat) (k : kernel σ), l.Nodup → (∀ i ∈ l, i < TASK_OFILE_NR) →
      (∀ i ∈ l, (task_get k child_task).file_table i = none) → ref_ok k →
      ref_ok (l.foldl
        (fun k1 i =>
          match (task_get k1 (task_current k1)).file_table i with
          | some file =>
            let k2 := file_inc_ref k1 file
            let c := task_get k2 child_task
            task_put k2 child_task
              { c with file_table := fun j => if j = i then some file else c.file_table j }
          | none => k1) k)
  | [], k, _, _, _, hr => hr
  | i :: l, k, hn, hlt, hnone, hr => by
    rw [List.foldl_cons]
    have hn1 := List.nodup_cons.mp hn
    have hne := mem_all_tasks_ne_null _ hch
    refine copy_loop_ref_ok child_task hch l _ hn1.2
      (fun x hx => hlt x (List.mem_cons_of_mem _ hx)) ?_ ?_
    · intro x hx
      have hxi : x ≠ i := fun e => hn1.1 (e ▸ hx)
      cases hs : (task_get k (task_current k)).file_table i with
      | none => exact hnone x (List.mem_cons_of_mem _ hx)
      | some file =>
        dsimp only
        rw [task_get_task_put, if_pos ⟨rfl, hne⟩]
        dsimp only
        rw [if_neg hxi]
        unfold file_inc_ref
        rw [file_put_task_get]
        exact hnone x (List.mem_cons_of_mem _ hx)
    · cases hs : (task_get k (task_current k)).file_table i with
      | none => exact hr
      | some file =>
        dsimp only
        intro p
        have h0 := hnone i (List.mem_cons_self _ _)
        have hsc := slot_count_set (file_inc_ref k file)
          (task_put (file_inc_ref k file) child_task
            { task_get (file_inc_ref k file) child_task with
              file_table := fun j => if j = i then some file else
                (task_get (file_inc_ref k file) child_task).file_table j })
          child_task i (some file) hch (hlt i (List.mem_cons_self _ _))
          (fun j => by rw [task_get_task_put, if_pos ⟨rfl, hne⟩])
          (fun t j ht => by rw [task_get_task_put, if_neg (fun h => ht h.1)]) p
        have hg : (task_get (file_inc_ref k file) child_task).file_table i = none := by
          unfold file_inc_ref
          rw [file_put_task_get]
          exact h0
        rw [hg] at hsc
        have hsc2 : slot_count (file_inc_ref k file) p = slot_count k p := by
          unfold file_inc_ref
          exact file_put_slot_count _ _ _ _
        rw [hsc2] at hsc
        simp only [Option.some.injEq] at hsc
        rw [(task_put_files _ _ _).1]
        have hf : ((file_inc_ref k file).files p).ref =
            (k.files p).ref + (if file = p then 1 else 0) := by
          unfold file_inc_ref file_put
          dsimp only
          by_cases hp : p = file
          · subst hp
            rw [if_pos rfl, if_pos rfl]
          · rw [if_neg hp, if_neg (fun e => hp e.symm)]
            omega
        rw [hf, hr p]
        by_cases hp : file = p
        · rw [if_pos hp] at hsc ⊢
          simp only [reduceCtorEq, if_false] at hsc
          omega
        · rw [if_neg hp] at hsc ⊢
          simp only [reduceCtorEq, if_false] at hsc
          omega

/-- The function `copy_opened_files` keeps the reference counts right when
the descriptor table of the child is empty. -/
theorem copy_opened_files_ref_ok (k : kernel σ) (child_task : task_ptr)
    (hch : child_task ∈ all_tasks)
    (hempty : ∀ i, i < TASK_OFILE_NR → (task_get k child_task).file_table i = none)
    (hr : ref_ok k) : ref_ok (copy_opened_files k child_task) := by
  unfold copy_opened_files
  exact copy_loop_ref_ok child_task hch (List.range TASK_OFILE_NR) k (List.nodup_range _)
    (fun i hi => List.mem_range.mp hi) (fun i hi => hempty i (List.mem_range.mp hi)) hr

/-- The function `sys_open` keeps the reference counts right. -/
theorem sys_open_ref_ok
    (fs_open : Nat → Option (List Nat) → file_t → σ → Int × file_t × σ)
    (hop : ∀ fs n f s, (fs_open fs n f s).2.1.ref = f.ref)
    (k : kernel σ) (mt : mount_table_t) (name : List Nat) (flags : Nat)
    (hc : task_current k ∈ all_tasks) (hr : ref_ok k) :
    ref_ok (sys_open fs_open k mt name flags).2 := by
  unfold sys_open
  unfold file_alloc
  cases hf : (List.range FILE_TABLE_SIZE).find? (fun i => decide ((k.files i).ref = 0)) with
  | none => exact hr
  | some file =>
    dsimp only
    have hz : (k.files file).ref = 0 := by
      have := List.find?_some hf
      simpa using this
    have hs0 : slot_count k file = 0 := by
      have := hr file
      omega
    have hk0 : ∀ p, ((file_put k file { file_zero with ref := 1 }).files p).ref =
        (k.files p).ref + (if file = p then 1 else 0) := by
      intro p
      unfold file_put
      dsimp only
      by_cases hp : p = file
      · subst hp
        rw [if_pos rfl, if_pos rfl, hz]
        rfl
      · rw [if_neg hp, if_neg (fun e => hp e.symm)]
        omega
    have hspec := task_alloc_fd_spec (file_put k file { file_zero with ref := 1 }) file hc
    dsimp only at hk0 hspec
    rcases hspec with ⟨h1, h2⟩ | ⟨h1, h2, h3, _, _⟩
    · rw [if_pos h1, h2]
      intro p
      unfold file_free
      rw [if_pos (by rw [hk0 file, if_pos rfl, hz]; decide)]
      dsimp only
      rw [file_put_slot_count, file_put_slot_count]
      unfold file_put
      dsimp only
      by_cases hp : p = file
      · subst hp
        rw [if_pos rfl, if_pos rfl, hs0]
        rfl
      · rw [if_neg hp, if_neg hp]
        exact hr p
    · rw [if_neg (by omega)]
      generalize task_alloc_fd (file_put k file
        { file_name := file_zero.file_name, type := file_zero.type, size := file_zero.size,
          ref := 1, dev_id := file_zero.dev_id, pos := file_zero.pos, sblk := file_zero.sblk,
          cblk := file_zero.cblk, p_index := file_zero.p_index, mode := file_zero.mode,
          fs := file_zero.fs }) file = r at h1 h2 h3 ⊢
      have key : ∀ (o : Int × file_t × σ), o.2.1.ref = 1 →
          ref_ok ({ file_put r.2 file o.2.1 with fs := o.2.2 } : kernel σ) := by
        intro o ho p
        have e1 : slot_count ({ file_put r.2 file o.2.1 with fs := o.2.2 } : kernel σ) p =
            slot_count r.2 p :=
          slot_count_congr _ _ (fun t j => by cases t <;> rfl) p
        rw [e1, h2 p, file_put_slot_count]
        show ((file_put _ file o.2.1).files p).ref = _
        unfold file_put
        dsimp only
        by_cases hp : p = file
        · subst hp
          rw [if_pos rfl, if_pos rfl, ho, hs0]
          rfl
        · rw [if_neg hp, if_neg (fun e => hp e.symm), h3]
          have := hk0 p
          rw [if_neg (fun e => hp e.symm)] at this
          rw [this, hr p]
          simp
      have href : ∀ (f : file_t), f.ref = (r.2.files file).ref → f.ref = 1 := by
        intro f hf1
        rw [hf1, h3, hk0 file, if_pos rfl, hz]
        rfl
      split
      · exact key _ (by rw [hop]; exact href _ rfl)
      · exact key _ (by rw [hop]; exact href _ rfl)

end refcount_open_lemmas
section refcount_close_lemmas

variable {σ : Type}

theorem task_remove_fd_fs (k : kernel σ) (fd : Int) : (task_remove_fd k fd).fs = k.fs := by
  unfold task_remove_fd
  split
  · exact (task_put_files _ _ _).2
  · rfl

theorem file_free_fs (k : kernel σ) (p : Nat) : (file_free k p).fs = k.fs := by
  unfold file_free
  split <;> rfl

/-- The state of the file system after `sys_close`: the `close` operation
has run exactly when the count of the record was 1. -/
theorem sys_close_fs (op : fs_op_t σ) (k : kernel σ) (fd : Int) (file : Nat)
    (hf : task_file k fd = some file) :
    (sys_close op k fd).2.fs =
      if (k.files file).ref = 1 then
        (op.close { k.files file with ref := (k.files file).ref - 1 } k.fs).2
      else k.fs := by
  unfold sys_close
  rw [if_neg (not_not.mpr (is_fd_bad_eq_zero fd)), hf]
  dsimp only
  rw [task_remove_fd_fs]
  by_cases h1 : (k.files file).ref = 1
  · rw [if_pos h1, if_pos h1, file_free_fs]
    dsimp only
    unfold file_put
    dsimp only
    rw [if_pos rfl]
  · rw [if_neg h1, if_neg h1]
    rfl

end refcount_close_lemmas

/-- Claim C19.  In a state in which the reference count of every file record
is the number of the descriptor-table slots, over all tasks, that point to
it, and in which the current task is a task of the kernel: `sys_open`,
`sys_dup`, `copy_opened_files` (for a child whose descriptor table is empty,
as `task_init` leaves it), `sys_close` and `sys_exit` each lead to a state
with the same property; and a `sys_close` of a descriptor that points to a
record lowers the count of the record by one and runs the `close` operation
of the file system exactly when the count goes from 1 to 0. -/
theorem C19_ref_count_is_slot_count {σ : Type} (op : fs_op_t σ)
    (fs_open : Nat → Option (List Nat) → file_t → σ → Int × file_t × σ)
    (k : kernel σ) (mt : mount_table_t) (name : List Nat) (flags : Nat) (fd status : Int)
    (child_task : task_ptr)
    (hclose : ∀ f s, (op.close f s).1.ref = f.ref)
    (hopen : ∀ fs n f s, (fs_open fs n f s).2.1.ref = f.ref)
    (hcurr : task_current k ∈ all_tasks) (hchild : child_task ∈ all_tasks)
    (hempty : ∀ i, i < TASK_OFILE_NR → (task_get k child_task).file_table i = none)
    (hr : ref_ok k) :
    ref_ok (sys_open fs_open k mt name flags).2 ∧
    ref_ok (sys_dup k fd).2 ∧
    ref_ok (copy_opened_files k child_task) ∧
    ref_ok (sys_close op k fd).2 ∧
    ref_ok (sys_exit op k status) ∧
    ∀ file, task_file k fd = some file →
      1 ≤ (k.files file).ref ∧
      ((sys_close op k fd).2.files file).ref = (k.files file).ref - 1 ∧
      (sys_close op k fd).2.fs =
        if (k.files file).ref = 1 then
          (op.close { k.files file with ref := (k.files file).ref - 1 } k.fs).2
        else k.fs := by
  refine ⟨sys_open_ref_ok fs_open hopen k mt name flags hcurr hr, sys_dup_ref_ok k fd hcurr hr,
    copy_opened_files_ref_ok k child_task hchild hempty hr,
    sys_close_ref_ok op hclose k fd hcurr hr, sys_exit_ref_ok op hclose k status hcurr hr, ?_⟩
  intro file hf
  obtain ⟨s1, s2, _, _⟩ := sys_close_spec op hclose k fd file hcurr hf
  refine ⟨?_, ?_, sys_close_fs op k fd file hf⟩
  · have a := s1 file
    have b := hr file
    rw [if_pos rfl] at a
    omega
  · have b := s2 file
    rw [if_pos rfl] at b
    exact b
section refcount_demo_lemmas

variable {σ : Type}

theorem slot_count_empty (k : kernel σ)
    (h : ∀ t j, (task_get k t).file_table j = none) (p : Nat) : slot_count k p = 0 := by
  unfold slot_count
  apply List.sum_eq_zero
  intro x hx
  obtain ⟨t, _, rfl⟩ := List.mem_map.mp hx
  unfold fd_count
  apply List.sum_eq_zero
  intro y hy
  obtain ⟨j, _, rfl⟩ := List.mem_map.mp hy
  rw [h t j]
  rfl

theorem demo_sched_empty (t : task_ptr) (j : Nat) :
    (task_get demo_sched t).file_table j = none := by
  cases t with
  | null => rfl
  | first_task => rfl
  | idle_task => rfl
  | slot i =>
    show (demo_sched.task_table i).file_table j = none
    unfold demo_sched
    dsimp only
    split
    · rfl
    · split
      · rfl
      · split <;> rfl

theorem demo_one_open_ref_ok : ref_ok demo_one_open := by
  intro p
  have h := slot_count_set (file_put demo_sched 0 { file_zero with ref := 1 }) demo_one_open
    (.slot 0) 0 (some 0) (by decide) (by decide)
    (fun j => by
      unfold demo_one_open
      rw [task_get_task_put, if_pos ⟨rfl, by decide⟩]
      dsimp only
      rw [file_put_task_get, demo_sched_empty])
    (fun t j ht => by
      unfold demo_one_open
      rw [task_get_task_put, if_neg (fun h => ht h.1)]) p
  rw [file_put_slot_count, slot_count_empty demo_sched demo_sched_empty, file_put_task_get,
    demo_sched_empty] at h
  simp only [reduceCtorEq, if_false, Option.some.injEq, Nat.add_zero, Nat.zero_add] at h
  rw [h]
  show ((file_put demo_sched 0 { file_zero with ref := 1 }).files p).ref = _
  unfold file_put
  dsimp only
  by_cases hp : p = 0
  · subst hp
    rfl
  · rw [if_neg hp, if_neg (fun e => hp e.symm)]
    rfl

end refcount_demo_lemmas

theorem C19_ref_count_is_slot_count_witness :
    ref_ok demo_one_open ∧ task_file demo_one_open 0 = some 0 ∧
    (demo_one_open.files 0).ref = 1 ∧
    ref_ok (sys_open demo_open_unit demo_one_open demo_mounts demo_open_path 0).2 ∧
    ref_ok (sys_dup demo_one_open 0).2 ∧
    ref_ok (copy_opened_files demo_one_open (.slot 1)) ∧
    ref_ok (sys_close demo_op demo_one_open 0).2 ∧
    ref_ok (sys_exit demo_op demo_one_open 0) ∧
    ∀ file, task_file demo_one_open 0 = some file →
      1 ≤ (demo_one_open.files file).ref ∧
      ((sys_close demo_op demo_one_open 0).2.files file).ref =
        (demo_one_open.files file).ref - 1 ∧
      (sys_close demo_op demo_one_open 0).2.fs =
        if (demo_one_open.files file).ref = 1 then
          (demo_op.close { demo_one_open.files file with
            ref := (demo_one_open.files file).ref - 1 } demo_one_open.fs).2
        else demo_one_open.fs :=
  ⟨demo_one_open_ref_ok, by decide, by decide,
    C19_ref_count_is_slot_count demo_op demo_open_unit demo_one_open demo_mounts demo_open_path
      0 0 0 (.slot 1) (fun _ _ => rfl) (fun _ _ _ _ => rfl) (by decide) (by decide)
      (fun _ _ => rfl) demo_one_open_ref_ok⟩

/-! ### Claim on the lists of the scheduler -/

section sched_view_lemmas

variable {σ : Type}

theorem count_append_one (l : List task_ptr) (x t : task_ptr) :
    (l ++ [x]).count t = l.count t + (if t = x then 1 else 0) := by
  rw [List.count_append, List.count_singleton]
  by_cases h : t = x
  · subst h; simp
  · have : ¬ x = t := fun e => h e.symm
    simp [h, this]

theorem count_erase_one (l : List task_ptr) (x t : task_ptr) :
    (l.erase x).count t = l.count t - (if t = x then 1 else 0) := by
  rw [List.count_erase]
  by_cases h : t = x
  · subst h; simp
  · have : ¬ x = t := fun e => h e.symm
    simp [h, this]

theorem task_get_task_set_ready (k : kernel σ) (p q : task_ptr) :
    task_get (task_set_ready k p) q =
      if q = p ∧ p ≠ .idle_task ∧ p ≠ .null then { task_get k q with state := .TASK_READY }
      else task_get k q := by
  unfold task_set_ready
  by_cases h : p = .idle_task
  · rw [if_neg (not_not.mpr h), if_neg (fun e => e.2.1 h)]
  · rw [if_pos h]
    dsimp only
    rw [task_get_task_put]
    by_cases hq : q = p ∧ p ≠ .null
    · rw [if_pos hq, if_pos ⟨hq.1, h, hq.2⟩, hq.1]
      cases p <;> rfl
    · rw [if_neg hq, if_neg (fun e => hq ⟨e.1, e.2.2⟩)]
      cases q <;> rfl

theorem task_set_ready_current (k : kernel σ) (p : task_ptr) :
    task_current (task_set_ready k p) = task_current k := by
  unfold task_set_ready
  split
  · exact task_put_current _ _ _
  · rfl

theorem task_set_block_ready_list (k : kernel σ) (p : task_ptr) :
    (task_set_block k p).task_manager.ready_list =
      if p ≠ .idle_task then k.task_manager.ready_list.erase p
      else k.task_manager.ready_list := by
  unfold task_set_block
  split <;> rfl

theorem task_set_block_sleep_list (k : kernel σ) (p : task_ptr) :
    (task_set_block k p).task_manager.sleep_list = k.task_manager.sleep_list := by
  unfold task_set_block
  split <;> rfl

theorem task_set_block_current (k : kernel σ) (p : task_ptr) :
    task_current (task_set_block k p) = task_current k := by
  unfold task_set_block
  split <;> rfl

theorem task_set_sleep_ready_list (k : kernel σ) (p : task_ptr) (n : Nat) :
    (task_set_sleep k p n).task_manager.ready_list = k.task_manager.ready_list := by
  unfold task_set_sleep
  split
  · rfl
  · exact (task_put_task_manager_lists _ _ _).1

theorem task_set_sleep_sleep_list (k : kernel σ) (p : task_ptr) (n : Nat) :
    (task_set_sleep k p n).task_manager.sleep_list =
      if n ≤ 0 then k.task_manager.sleep_list else k.task_manager.sleep_list ++ [p] := by
  unfold task_set_sleep
  split
  · rfl
  · dsimp only
    rw [(task_put_task_manager_lists _ _ _).2.1]

theorem task_get_task_set_sleep (k : kernel σ) (p q : task_ptr) (n : Nat) :
    task_get (task_set_sleep k p n) q =
      if ¬ n ≤ 0 ∧ q = p ∧ p ≠ .null then
        { task_get k q with sleep_ticks := int32 n, state := .TASK_SLEEP }
      else task_get k q := by
  unfold task_set_sleep
  by_cases h : n ≤ 0
  · rw [if_pos h, if_neg (fun e => e.1 h)]
  · rw [if_neg h]
    dsimp only
    have : ∀ K : kernel σ, task_get ({ K with task_manager :=
        { K.task_manager with sleep_list := K.task_manager.sleep_list ++ [p] } } : kernel σ) q
        = task_get K q := fun K => by cases q <;> rfl
    rw [this, task_get_task_put]
    by_cases hq : q = p ∧ p ≠ .null
    · rw [if_pos hq, if_pos ⟨h, hq⟩, hq.1]
    · rw [if_neg hq, if_neg (fun e => hq e.2)]

theorem task_set_sleep_current (k : kernel σ) (p : task_ptr) (n : Nat) :
    task_current (task_set_sleep k p n) = task_current k := by
  unfold task_set_sleep
  split
  · rfl
  · exact task_put_current _ _ _

theorem task_set_wakeup_view (k : kernel σ) (p : task_ptr) :
    (task_set_wakeup k p).task_manager.ready_list = k.task_manager.ready_list ∧
    (task_set_wakeup k p).task_manager.sleep_list = k.task_manager.sleep_list.erase p ∧
    task_current (task_set_wakeup k p) = task_current k ∧
    ∀ q, task_get (task_set_wakeup k p) q = task_get k q :=
  ⟨rfl, rfl, rfl, fun q => by cases q <;> rfl⟩

theorem task_get_task_dispatch (k : kernel σ) (q : task_ptr) :
    task_get (task_dispatch k) q = task_get k q := by
  unfold task_dispatch
  dsimp only
  split <;> cases q <;> rfl

theorem task_dispatch_current (k : kernel σ) :
    task_current (task_dispatch k) ∈ k.task_manager.ready_list ∨
    task_current (task_dispatch k) = .idle_task := by
  have hn : task_next_run k ∈ k.task_manager.ready_list ∨ task_next_run k = .idle_task := by
    unfold task_next_run
    cases h : k.task_manager.ready_list with
    | nil => right; rfl
    | cons a l => left; simp
  unfold task_dispatch
  dsimp only
  by_cases h : task_next_run k ≠ k.task_manager.curr_task
  · rw [if_pos h]
    exact hn
  · rw [if_neg h]
    have e : task_next_run k = k.task_manager.curr_task := not_not.mp h
    unfold task_current
    rw [← e]
    exact hn

theorem state_flags_ready (t : task_t) :
    state_flags { t with state := .TASK_READY } = if t.name = [] then 1 else 0 := by
  unfold state_flags
  simp

theorem state_flags_sleep (t : task_t) (n : Int) :
    state_flags { t with sleep_ticks := n, state := .TASK_SLEEP } =
      if t.name = [] then 1 else 0 := by
  unfold state_flags
  simp

theorem state_flags_le (t : task_t) : (if t.name = [] then 1 else 0) ≤ state_flags t := by
  unfold state_flags
  omega

theorem kernel_places_dispatch (k : kernel σ) (t : task_ptr) :
    kernel_places (task_dispatch k) t = kernel_places k t := by
  unfold kernel_places
  rw [task_dispatch_ready_list, task_dispatch_sleep_list, task_get_task_dispatch]

/-- The invariant after `task_dispatch`. -/
theorem sched_inv_dispatch (s : sched_t σ) (k1 : kernel σ)
    (h1 : ∀ t, t ≠ .idle_task → kernel_places k1 t + wait_count s t ≤ 1)
    (h2 : .idle_task ∉ k1.task_manager.ready_list) :
    sched_inv { s with k := task_dispatch k1 } := by
  refine ⟨fun t ht => ?_, ?_, ?_⟩
  · have := h1 t ht
    unfold task_places
    dsimp only
    rw [kernel_places_dispatch]
    exact this
  · show task_ptr.idle_task ∉ (task_dispatch k1).task_manager.ready_list
    rw [task_dispatch_ready_list]
    exact h2
  · show task_current (task_dispatch k1) ∈ (task_dispatch k1).task_manager.ready_list ∨ _
    rw [task_dispatch_ready_list]
    exact task_dispatch_current k1

/-- Moving the task `x`, which is on the ready list or is the idle task, to
the end of the ready list keeps every task in its places. -/
theorem kernel_places_requeue (k : kernel σ) (x t : task_ptr)
    (hx : x ∈ k.task_manager.ready_list ∨ x = .idle_task) :
    kernel_places (task_set_ready (task_set_block k x) x) t ≤ kernel_places k t ∧
    (task_ptr.idle_task ∉ k.task_manager.ready_list →
      task_ptr.idle_task ∉ (task_set_ready (task_set_block k x) x).task_manager.ready_list) := by
  unfold kernel_places
  rw [task_set_ready_ready_list, task_set_ready_sleep_list, task_get_task_set_ready,
    task_set_block_ready_list, task_set_block_sleep_list, task_set_block_task_get]
  by_cases hi : x = .idle_task
  · rw [if_neg (not_not.mpr hi), if_neg (not_not.mpr hi), if_neg (fun e => e.2.1 hi)]
    simp
  · rw [if_pos hi, if_pos hi]
    have hmem : x ∈ k.task_manager.ready_list := hx.resolve_right hi
    have hc : 1 ≤ k.task_manager.ready_list.count x := List.one_le_count_iff.mpr hmem
    constructor
    · rw [count_append_one, count_erase_one]
      by_cases htx : t = x
      · subst htx
        rw [if_pos rfl]
        have := state_flags_le (task_get k t)
        by_cases hn : t = .null
        · rw [if_neg (fun e => e.2.2 hn)]
          omega
        · rw [if_pos ⟨rfl, hi, hn⟩, state_flags_ready]
          omega
      · rw [if_neg htx, if_neg (fun e => htx e.1)]
        omega
    · intro h hm
      rcases List.mem_append.mp hm with hm | hm
      · exact h (List.mem_of_mem_erase hm)
      · exact hi (List.mem_singleton.mp hm).symm

end sched_view_lemmas
section sched_tick_lemmas

variable {σ : Type}

/-- A store to a task block that keeps its state and its name keeps every
task in its places. -/
theorem kernel_places_put (k : kernel σ) (p : task_ptr) (t1 : task_t)
    (h : state_flags t1 = state_flags (task_get k p)) (q : task_ptr) :
    kernel_places (task_put k p t1) q = kernel_places k q := by
  unfold kernel_places
  rw [(task_put_task_manager_lists k p t1).1, (task_put_task_manager_lists k p t1).2.1,
    task_get_task_put]
  by_cases hq : q = p ∧ p ≠ .null
  · rw [if_pos hq, h, hq.1]
  · rw [if_neg hq]

/-- The places of the tasks after the task `x` has been taken off the sleep
list and put on the ready list. -/
theorem kernel_places_wake (k : kernel σ) (x t : task_ptr) (hx : x ≠ .idle_task) :
    kernel_places (task_set_ready (task_set_wakeup k x) x) t =
      (k.task_manager.ready_list.count t + (if t = x then 1 else 0)) +
      (k.task_manager.sleep_list.count t - (if t = x then 1 else 0)) +
      (if t = x ∧ x ≠ .null then (if (task_get k t).name = [] then 1 else 0)
       else state_flags (task_get k t)) := by
  unfold kernel_places
  rw [task_set_ready_ready_list, task_set_ready_sleep_list, task_get_task_set_ready,
    (task_set_wakeup_view k x).1, (task_set_wakeup_view k x).2.1,
    (task_set_wakeup_view k x).2.2.2, if_pos hx, count_append_one, count_erase_one]
  by_cases h : t = x ∧ x ≠ .null
  · rw [if_pos (show t = x ∧ x ≠ .idle_task ∧ x ≠ .null from ⟨h.1, hx, h.2⟩), if_pos h]
    dsimp only
    rw [state_flags_ready]
  · rw [if_neg (show ¬ (t = x ∧ x ≠ .idle_task ∧ x ≠ .null) from fun e => h ⟨e.1, e.2.2⟩),
      if_neg h]

/-- The wake-up of the task `x`, which is on the sleep list unless it is
the idle task. -/
theorem wake_places (k : kernel σ) (x : task_ptr) (w : task_ptr → Nat)
    (hK : ∀ t, t ≠ .idle_task → kernel_places k t + w t ≤ 1)
    (hidle : .idle_task ∉ k.task_manager.ready_list)
    (hx : x ≠ .idle_task → x ∈ k.task_manager.sleep_list) :
    (∀ t, t ≠ .idle_task →
      kernel_places (task_set_ready (task_set_wakeup k x) x) t + w t ≤ 1) ∧
    .idle_task ∉ (task_set_ready (task_set_wakeup k x) x).task_manager.ready_list ∧
    ∀ y, k.task_manager.sleep_list.count y ≤
      (task_set_ready (task_set_wakeup k x) x).task_manager.sleep_list.count y +
        (if y = x then 1 else 0) := by
  by_cases hi : x = .idle_task
  · subst hi
    have e : ∀ K : kernel σ, task_set_ready K .idle_task = K := by
      intro K
      unfold task_set_ready
      rw [if_neg (not_not.mpr rfl)]
    rw [e]
    refine ⟨fun t ht => ?_, ?_, fun y => ?_⟩
    · have h1 := hK t ht
      unfold kernel_places at h1 ⊢
      rw [(task_set_wakeup_view _ _).1, (task_set_wakeup_view _ _).2.1,
        (task_set_wakeup_view _ _).2.2.2, count_erase_one, if_neg ht]
      omega
    · rw [(task_set_wakeup_view _ _).1]
      exact hidle
    · rw [(task_set_wakeup_view _ _).2.1, count_erase_one]
      omega
  · have hmem := hx hi
    have hc : 1 ≤ k.task_manager.sleep_list.count x := List.one_le_count_iff.mpr hmem
    refine ⟨fun t ht => ?_, ?_, fun y => ?_⟩
    · rw [kernel_places_wake _ _ _ hi]
      have h1 := hK t ht
      unfold kernel_places at h1
      have h3 := state_flags_le (task_get k t)
      by_cases htx : t = x
      · subst htx
        rw [if_pos rfl]
        by_cases hn : t = .null
        · rw [if_neg (fun e => e.2 hn)]
          omega
        · rw [if_pos ⟨rfl, hn⟩]
          omega
      · rw [if_neg htx, if_neg (fun e => htx e.1)]
        omega
    · rw [task_set_ready_ready_list, (task_set_wakeup_view _ _).1, if_pos hi]
      intro hm
      rcases List.mem_append.mp hm with hm | hm
      · exact hidle hm
      · exact hi (List.mem_singleton.mp hm).symm
    · rw [task_set_ready_sleep_list, (task_set_wakeup_view _ _).2.1, count_erase_one]
      omega

/-- One step of the walk over the sleep list in `task_time_tick`. -/
theorem tick_sleep_step_places (k : kernel σ) (x : task_ptr) (w : task_ptr → Nat)
    (hK : ∀ t, t ≠ .idle_task → kernel_places k t + w t ≤ 1)
    (hidle : .idle_task ∉ k.task_manager.ready_list)
    (hx : x ≠ .idle_task → x ∈ k.task_manager.sleep_list) :
    (∀ t, t ≠ .idle_task → kernel_places (tick_sleep_step k x) t + w t ≤ 1) ∧
    .idle_task ∉ (tick_sleep_step k x).task_manager.ready_list ∧
    ∀ y, k.task_manager.sleep_list.count y ≤
      (tick_sleep_step k x).task_manager.sleep_list.count y + (if y = x then 1 else 0) := by
  have hput : ∀ q, kernel_places (task_put k x
      { task_get k x with sleep_ticks := (task_get k x).sleep_ticks - 1 }) q =
      kernel_places k q := kernel_places_put k x _ rfl
  have hl := task_put_task_manager_lists k x
      { task_get k x with sleep_ticks := (task_get k x).sleep_ticks - 1 }
  have hw := wake_places (task_put k x
      { task_get k x with sleep_ticks := (task_get k x).sleep_ticks - 1 }) x w
    (fun t ht => by rw [hput t]; exact hK t ht) (by rw [hl.1]; exact hidle)
    (fun hi => by rw [hl.2.1]; exact hx hi)
  rw [hl.2.1] at hw
  unfold tick_sleep_step
  dsimp only at hw hput hl ⊢
  by_cases hz : (task_get k x).sleep_ticks - 1 = 0
  · rw [if_pos hz]
    exact hw
  · rw [if_neg hz]
    refine ⟨fun t ht => by rw [hput t]; exact hK t ht, by rw [hl.1]; exact hidle,
      fun y => by rw [hl.2.1]; omega⟩

/-- The walk over the sleep list in `task_time_tick`. -/
theorem tick_walk_places (w : task_ptr → Nat) : ∀ (rest : List task_ptr) (k : kernel σ),
    (∀ t, t ≠ .idle_task → kernel_places k t + w t ≤ 1) →
    .idle_task ∉ k.task_manager.ready_list →
    (∀ y, y ≠ .idle_task → rest.count y ≤ k.task_manager.sleep_list.count y) →
    (∀ t, t ≠ .idle_task → kernel_places (rest.foldl tick_sleep_step k) t + w t ≤ 1) ∧
    .idle_task ∉ (rest.foldl tick_sleep_step k).task_manager.ready_list
  | [], k, hK, hidle, _ => ⟨hK, hidle⟩
  | x :: rest, k, hK, hidle, hrest => by
    rw [List.foldl_cons]
    have hx : x ≠ .idle_task → x ∈ k.task_manager.sleep_list := by
      intro hi
      have := hrest x hi
      rw [List.count_cons_self] at this
      exact List.one_le_count_iff.mp (by omega)
    obtain ⟨h1, h2, h3⟩ := tick_sleep_step_places k x w hK hidle hx
    refine tick_walk_places w rest _ h1 h2 (fun y hy => ?_)
    have a := hrest y hy
    have b := h3 y
    rw [List.count_cons] at a
    by_cases hyx : y = x
    · subst hyx
      simp only [beq_self_eq_true, if_true] at a b
      omega
    · have : ¬ x = y := fun e => hyx e.symm
      simp only [hyx, if_false] at b
      omega

/-- The timer interrupt keeps the invariant of the scheduler. -/
theorem sched_inv_time_tick (s : sched_t σ) (h : sched_inv s) :
    sched_inv { s with k := task_time_tick s.k } := by
  obtain ⟨ha, hb, hc⟩ := h
  unfold task_time_tick
  dsimp only
  have hk1 : ∀ K : kernel σ, (∀ t, kernel_places K t ≤ kernel_places s.k t) →
      .idle_task ∉ K.task_manager.ready_list →
      sched_inv { s with k := task_dispatch (K.task_manager.sleep_list.foldl tick_sleep_step K) } := by
    intro K hK hidle
    obtain ⟨h1, h2⟩ := tick_walk_places (wait_count s) K.task_manager.sleep_list K
      (fun t ht => by
        have := ha t ht
        have := hK t
        unfold task_places at *
        omega)
      hidle (fun y _ => le_refl _)
    exact sched_inv_dispatch s _ h1 h2
  have hp : ∀ (t1 : task_t), state_flags t1 = state_flags (task_get s.k (task_current s.k)) →
      (∀ t, kernel_places (task_put s.k (task_current s.k) t1) t = kernel_places s.k t) ∧
      (task_current s.k ∈ (task_put s.k (task_current s.k) t1).task_manager.ready_list ∨
        task_current s.k = .idle_task) ∧
      .idle_task ∉ (task_put s.k (task_current s.k) t1).task_manager.ready_list := by
    intro t1 h1
    rw [(task_put_task_manager_lists _ _ _).1]
    exact ⟨kernel_places_put _ _ _ h1, hc, hb⟩
  apply hk1
  · intro t
    split
    · obtain ⟨p1, p2, _⟩ := hp { task_get s.k (task_current s.k) with
        slice_ticks := (task_get s.k (task_current s.k)).time_slice } rfl
      exact le_trans (kernel_places_requeue _ _ t p2).1 (le_of_eq (p1 t))
    · obtain ⟨p1, _, _⟩ := hp { task_get s.k (task_current s.k) with
        slice_ticks := (task_get s.k (task_current s.k)).slice_ticks - 1 } rfl
      exact le_of_eq (p1 t)
  · split
    · obtain ⟨_, p2, p3⟩ := hp { task_get s.k (task_current s.k) with
        slice_ticks := (task_get s.k (task_current s.k)).time_slice } rfl
      exact (kernel_places_requeue _ _ .idle_task p2).2 p3
    · obtain ⟨_, _, p3⟩ := hp { task_get s.k (task_current s.k) with
        slice_ticks := (task_get s.k (task_current s.k)).slice_ticks - 1 } rfl
      exact p3

end sched_tick_lemmas
section sched_frame_lemmas

variable {σ : Type}

theorem same_places_refl (k : kernel σ) : same_places k k := ⟨rfl, rfl, rfl, fun _ => rfl⟩

theorem same_places_trans {k k1 k2 : kernel σ} (h1 : same_places k k1)
    (h2 : same_places k1 k2) : same_places k k2 :=
  ⟨h2.1.trans h1.1, h2.2.1.trans h1.2.1, h2.2.2.1.trans h1.2.2.1,
    fun t => (h2.2.2.2 t).trans (h1.2.2.2 t)⟩

theorem same_places_kernel_places {k k1 : kernel σ} (h : same_places k k1) (t : task_ptr) :
    kernel_places k1 t = kernel_places k t := by
  unfold kernel_places
  rw [h.1, h.2.1, h.2.2.2 t]

theorem same_places_of_eq (k k1 : kernel σ) (h1 : k1.task_manager = k.task_manager)
    (h2 : k1.task_table = k.task_table) : same_places k k1 :=
  ⟨by rw [h1], by rw [h1], by unfold task_current; rw [h1],
    fun t => by rw [task_get_congr k k1 h1 h2 t]⟩

theorem same_places_task_put (k : kernel σ) (p : task_ptr) (t1 : task_t)
    (h : state_flags t1 = state_flags (task_get k p)) : same_places k (task_put k p t1) := by
  refine ⟨(task_put_task_manager_lists _ _ _).1, (task_put_task_manager_lists _ _ _).2.1,
    task_put_current _ _ _, fun t => ?_⟩
  rw [task_get_task_put]
  by_cases hq : t = p ∧ p ≠ .null
  · rw [if_pos hq, h, hq.1]
  · rw [if_neg hq]

theorem same_places_ite (c : Prop) [Decidable c] (k a b : kernel σ) (ha : same_places k a)
    (hb : same_places k b) : same_places k (if c then a else b) := by
  split
  · exact ha
  · exact hb

theorem same_places_file_free (k : kernel σ) (p : Nat) : same_places k (file_free k p) := by
  unfold file_free
  exact same_places_ite _ _ _ _ (same_places_of_eq _ _ rfl rfl) (same_places_refl k)

theorem same_places_task_remove_fd (k : kernel σ) (fd : Int) :
    same_places k (task_remove_fd k fd) := by
  unfold task_remove_fd
  exact same_places_ite _ _ _ _ (same_places_task_put _ _ _ rfl) (same_places_refl k)

theorem same_places_sys_close (op : fs_op_t σ) (k : kernel σ) (fd : Int) :
    same_places k (sys_close op k fd).2 := by
  unfold sys_close
  split
  · exact same_places_refl k
  · split
    · exact same_places_refl k
    · dsimp only
      refine same_places_trans ?_ (same_places_task_remove_fd _ _)
      refine same_places_ite _ _ _ _ ?_ (same_places_of_eq _ _ rfl rfl)
      exact same_places_trans (same_places_of_eq _ _ rfl rfl) (same_places_file_free _ _)

theorem same_places_exit_close_loop (op : fs_op_t σ) (c : task_ptr) :
    ∀ (l : List Nat) (k : kernel σ), same_places k (l.foldl (exit_close_step op c) k)
  | [], k => same_places_refl k
  | fd :: l, k => by
    rw [List.foldl_cons]
    refine same_places_trans ?_ (same_places_exit_close_loop op c l _)
    unfold exit_close_step
    split
    · dsimp only
      exact same_places_trans (same_places_sys_close op k fd) (same_places_task_put _ _ _ rfl)
    · exact same_places_refl k

theorem same_places_exit_reparent (c : task_ptr) :
    ∀ (l : List Nat) (acc : Int × kernel σ),
      same_places acc.2 (l.foldl (exit_reparent_step c) acc).2
  | [], acc => same_places_refl _
  | i :: l, acc => by
    rw [List.foldl_cons]
    refine same_places_trans ?_ (same_places_exit_reparent c l _)
    unfold exit_reparent_step
    dsimp only
    split
    · exact same_places_task_put acc.2 (.slot i) _ rfl
    · exact same_places_refl _

theorem same_places_copy_opened_files (k : kernel σ) (c : task_ptr) :
    same_places k (copy_opened_files k c) := by
  unfold copy_opened_files
  generalize List.range TASK_OFILE_NR = l
  induction l generalizing k with
  | nil => exact same_places_refl k
  | cons fd l ih =>
    rw [List.foldl_cons]
    refine same_places_trans ?_ (ih _)
    split
    · dsimp only
      refine same_places_trans ?_ (same_places_task_put _ _ _ rfl)
      unfold file_inc_ref
      exact same_places_of_eq _ _ rfl rfl
    · exact same_places_refl k

end sched_frame_lemmas
section sched_call_lemmas

variable {σ : Type}

theorem sched_inv_of (s : sched_t σ) (k1 : kernel σ)
    (h1 : ∀ t, t ≠ .idle_task → kernel_places k1 t + wait_count s t ≤ 1)
    (h2 : .idle_task ∉ k1.task_manager.ready_list)
    (h3 : task_current k1 ∈ k1.task_manager.ready_list ∨ task_current k1 = .idle_task) :
    sched_inv { s with k := k1 } :=
  ⟨h1, h2, h3⟩

theorem sched_inv_places (s : sched_t σ) (h : sched_inv s) (t : task_ptr)
    (ht : t ≠ .idle_task) : kernel_places s.k t + wait_count s t ≤ 1 := h.1 t ht

theorem kernel_places_block (k : kernel σ) (x t : task_ptr) :
    kernel_places (task_set_block k x) t =
      (k.task_manager.ready_list.count t - (if t = x ∧ x ≠ .idle_task then 1 else 0)) +
      k.task_manager.sleep_list.count t + state_flags (task_get k t) := by
  unfold kernel_places
  rw [task_set_block_ready_list, task_set_block_sleep_list, task_set_block_task_get]
  by_cases hi : x = .idle_task
  · rw [if_neg (not_not.mpr hi), if_neg (fun e => e.2 hi)]
    rfl
  · rw [if_pos hi, count_erase_one]
    by_cases ht : t = x
    · rw [if_pos ht, if_pos ⟨ht, hi⟩]
    · rw [if_neg ht, if_neg (fun e => ht e.1)]

theorem task_set_block_idle (k : kernel σ) (x : task_ptr)
    (h : .idle_task ∉ k.task_manager.ready_list) :
    .idle_task ∉ (task_set_block k x).task_manager.ready_list := by
  rw [task_set_block_ready_list]
  split
  · exact fun hm => h (List.mem_of_mem_erase hm)
  · exact h

/-- The invariant of the scheduler says that `x`, on the ready list and not
the idle task, is in no other place. -/
theorem ready_places (k : kernel σ) (w : task_ptr → Nat) (x : task_ptr)
    (hK : ∀ t, t ≠ .idle_task → kernel_places k t + w t ≤ 1)
    (hx : x ∈ k.task_manager.ready_list) (hi : x ≠ .idle_task) :
    k.task_manager.ready_list.count x = 1 ∧ k.task_manager.sleep_list.count x = 0 ∧
    state_flags (task_get k x) = 0 ∧ w x = 0 := by
  have h := hK x hi
  have hc : 1 ≤ k.task_manager.ready_list.count x := List.one_le_count_iff.mpr hx
  unfold kernel_places at h
  omega

/-- Taking the task `x`, which is on the ready list or is the idle task, off
the ready list: `x` is then in no place, the other tasks stay where they
are. -/
theorem block_places (k : kernel σ) (w : task_ptr → Nat) (x : task_ptr)
    (hK : ∀ t, t ≠ .idle_task → kernel_places k t + w t ≤ 1)
    (hx : x ∈ k.task_manager.ready_list ∨ x = .idle_task) (t : task_ptr)
    (ht : t ≠ .idle_task) :
    (t = x → kernel_places (task_set_block k x) t = 0 ∧ w t = 0 ∧
      state_flags (task_get k t) = 0) ∧
    (t ≠ x → kernel_places (task_set_block k x) t = kernel_places k t) := by
  rw [kernel_places_block]
  constructor
  · intro htx
    subst htx
    obtain ⟨r1, r2, r3, r4⟩ := ready_places k w t hK (hx.resolve_right ht) ht
    rw [if_pos ⟨rfl, ht⟩]
    omega
  · intro htx
    rw [if_neg (fun e => htx e.1)]
    rfl

theorem state_flags_name (t : task_t) (h : state_flags t = 0) :
    (if t.name = [] then 1 else 0) = 0 := by
  have := state_flags_le t
  omega

/-- The function `sys_yield` keeps the invariant of the scheduler. -/
theorem sched_inv_sys_yield (s : sched_t σ) (h : sched_inv s) :
    sched_inv { s with k := (sys_yield s.k).2 } := by
  obtain ⟨ha, hb, hc⟩ := h
  unfold sys_yield
  split
  · dsimp only
    refine sched_inv_dispatch s _ (fun t ht => ?_) ?_
    · have h1 := (kernel_places_requeue s.k (task_current s.k) t hc).1
      have h2 := ha t ht
      unfold task_places at h2
      omega
    · exact (kernel_places_requeue s.k (task_current s.k) .idle_task hc).2 hb
  · exact ⟨ha, hb, hc⟩

theorem kernel_places_sleep (k : kernel σ) (x t : task_ptr) (n : Nat) (hn : ¬ n ≤ 0) :
    kernel_places (task_set_sleep k x n) t =
      k.task_manager.ready_list.count t +
      (k.task_manager.sleep_list.count t + (if t = x then 1 else 0)) +
      (if t = x ∧ x ≠ .null then (if (task_get k t).name = [] then 1 else 0)
       else state_flags (task_get k t)) := by
  unfold kernel_places
  rw [task_set_sleep_ready_list, task_set_sleep_sleep_list, task_get_task_set_sleep,
    if_neg hn, count_append_one]
  by_cases h : t = x ∧ x ≠ .null
  · rw [if_pos (show ¬ n ≤ 0 ∧ t = x ∧ x ≠ .null from ⟨hn, h⟩), if_pos h]
    dsimp only
    rw [state_flags_sleep]
  · rw [if_neg (show ¬ (¬ n ≤ 0 ∧ t = x ∧ x ≠ .null) from fun e => h e.2), if_neg h]

/-- The function `sys_msleep` keeps the invariant of the scheduler. -/
theorem sched_inv_sys_msleep (s : sched_t σ) (ms : Nat) (h : sched_inv s) :
    sched_inv { s with k := sys_msleep s.k ms } := by
  obtain ⟨ha, hb, hc⟩ := h
  unfold sys_msleep
  dsimp only
  have hcur : (task_set_block s.k s.k.task_manager.curr_task).task_manager.curr_task =
      task_current s.k := task_set_block_current _ _
  rw [hcur]
  show sched_inv { s with k := task_dispatch (task_set_sleep
    (task_set_block s.k (task_current s.k)) (task_current s.k) _) }
  generalize ((if ms < OS_TICK_MS then OS_TICK_MS else ms) + (OS_TICK_MS - 1)) % 2 ^ 32 /
    OS_TICK_MS = n
  refine sched_inv_dispatch s _ (fun t ht => ?_) ?_
  · obtain ⟨b1, b2⟩ := block_places s.k (wait_count s) (task_current s.k) ha hc t ht
    have h2 := ha t ht
    unfold task_places at h2
    by_cases hn : n ≤ 0
    · have e : task_set_sleep (task_set_block s.k (task_current s.k)) (task_current s.k) n =
          task_set_block s.k (task_current s.k) := by
        unfold task_set_sleep
        rw [if_pos hn]
      rw [e]
      by_cases htx : t = task_current s.k
      · have := b1 htx
        omega
      · rw [b2 htx]
        exact h2
    · rw [kernel_places_sleep _ _ _ _ hn]
      by_cases htx : t = task_current s.k
      · obtain ⟨c1, c2, c3⟩ := b1 htx
        unfold kernel_places at c1
        rw [task_set_block_task_get] at c1 ⊢
        have c4 := state_flags_name _ c3
        rw [if_pos htx]
        by_cases hnull : task_current s.k = .null
        · rw [if_neg (fun e => e.2 hnull)]
          omega
        · rw [if_pos ⟨htx, hnull⟩]
          omega
      · have c := b2 htx
        unfold kernel_places at c h2
        rw [task_set_block_task_get] at c ⊢
        rw [if_neg htx, if_neg (fun e => htx e.1)]
        omega
  · rw [task_set_sleep_ready_list]
    exact task_set_block_idle _ _ hb

theorem wait_scan_zombie (k : kernel σ) (c : task_ptr) :
    ∀ (n i : Nat) (pid status : Int), wait_scan k c n = some (i, pid, status) →
      (k.task_table i).state = .TASK_ZOMBIE
  | 0, _, _, _, h => by simp [wait_scan] at h
  | n + 1, i, pid, status, h => by
    rw [wait_scan] at h
    cases hs : wait_scan k c n with
    | some r =>
      rw [hs] at h
      obtain ⟨i1, p1, s1⟩ := r
      have : i1 = i ∧ p1 = pid ∧ s1 = status := by simpa using h
      exact wait_scan_zombie k c n i pid status (by rw [hs, this.1, this.2.1, this.2.2])
    | none =>
      rw [hs] at h
      dsimp only at h
      by_cases hp : (k.task_table n).parent ≠ c
      · rw [if_pos hp] at h
        cases h
      · rw [if_neg hp] at h
        by_cases hz : (k.task_table n).state = .TASK_ZOMBIE
        · rw [if_pos hz] at h
          have : n = i := by
            injection h with h
            exact congrArg Prod.fst h
          rw [← this]
          exact hz
        · rw [if_neg hz] at h
          cases h

theorem state_flags_zombie (t : task_t) (h : t.state = .TASK_ZOMBIE) : 1 ≤ state_flags t := by
  unfold state_flags
  rw [h]
  simp

theorem state_flags_waiting (t : task_t) (h : t.state = .TASK_WAITING) :
    1 ≤ state_flags t := by
  unfold state_flags
  rw [h]
  simp

theorem state_flags_set_waiting (t : task_t) (h : state_flags t = 0) :
    state_flags { t with state := .TASK_WAITING } = 1 := by
  unfold state_flags at h ⊢
  dsimp only
  simp only [if_true, reduceCtorEq, if_false]
  omega

theorem state_flags_set_zombie (t : task_t) (status : Int) (h : state_flags t = 0) :
    state_flags { t with status := status, state := .TASK_ZOMBIE } = 1 := by
  unfold state_flags at h ⊢
  dsimp only
  simp only [if_true, reduceCtorEq, if_false]
  omega

/-- The function `sys_wait` keeps the invariant of the scheduler. -/
theorem sched_inv_sys_wait (s : sched_t σ) (h : sched_inv s) :
    sched_inv { s with k := (sys_wait s.k).2 } := by
  have h0 := h
  obtain ⟨ha, hb, hc⟩ := h
  unfold sys_wait
  dsimp only
  cases hs : wait_scan s.k (task_current s.k) TASK_NR with
  | some r =>
    obtain ⟨i, pid, status⟩ := r
    dsimp only
    have hz := wait_scan_zombie s.k _ _ i pid status hs
    have hl := task_put_task_manager_lists s.k (.slot i) task_zero
    refine sched_inv_of s _ (fun t ht => ?_) (by rw [hl.1]; exact hb) ?_
    · have h2 := ha t ht
      unfold task_places kernel_places at h2
      unfold kernel_places
      rw [hl.1, hl.2.1, task_get_task_put]
      by_cases htx : t = .slot i
      · subst htx
        rw [if_pos ⟨rfl, fun e => by cases e⟩]
        have hf : 1 ≤ state_flags (task_get s.k (.slot i)) := state_flags_zombie _ hz
        have hz0 : state_flags task_zero = 1 := by decide
        rw [hz0]
        omega
      · rw [if_neg (fun e => htx e.1)]
        exact h2
    · rw [task_put_current, hl.1]
      exact hc
  | none =>
    dsimp only
    have e : task_set_block s.k (task_current s.k) = task_set_block s.k (task_current s.k) :=
      rfl
    refine sched_inv_dispatch s _ (fun t ht => ?_) ?_
    · have h2 := ha t ht
      unfold task_places at h2
      obtain ⟨b1, b2⟩ := block_places s.k (wait_count s) (task_current s.k) ha hc t ht
      unfold kernel_places at b1 b2 h2 ⊢
      rw [(task_put_task_manager_lists _ _ _).1, (task_put_task_manager_lists _ _ _).2.1,
        task_get_task_put]
      simp only [task_set_block_task_get] at b1 b2 ⊢
      by_cases htx : t = task_current s.k
      · obtain ⟨c1, c2, c3⟩ := b1 htx
        by_cases hnull : task_current s.k = .null
        · rw [if_neg (fun e => e.2 hnull)]
          omega
        · rw [if_pos ⟨htx, hnull⟩, state_flags_set_waiting _ (htx ▸ c3)]
          omega
      · have c := b2 htx
        rw [if_neg (fun e => htx e.1)]
        omega
    · rw [(task_put_task_manager_lists _ _ _).1]
      exact task_set_block_idle _ _ hb

end sched_call_lemmas
section sched_exit_lemmas

variable {σ : Type}

theorem kernel_places_ready (k : kernel σ) (y t : task_ptr) :
    kernel_places (task_set_ready k y) t =
      (k.task_manager.ready_list.count t + (if t = y ∧ y ≠ .idle_task then 1 else 0)) +
      k.task_manager.sleep_list.count t +
      (if t = y ∧ y ≠ .idle_task ∧ y ≠ .null then (if (task_get k t).name = [] then 1 else 0)
       else state_flags (task_get k t)) := by
  unfold kernel_places
  rw [task_set_ready_ready_list, task_set_ready_sleep_list, task_get_task_set_ready]
  have e1 : (k.task_manager.ready_list ++ if y ≠ .idle_task then [y] else []).count t =
      k.task_manager.ready_list.count t + (if t = y ∧ y ≠ .idle_task then 1 else 0) := by
    by_cases hi : y = .idle_task
    · rw [if_neg (not_not.mpr hi), if_neg (fun e => e.2 hi)]
      simp
    · rw [if_pos hi, count_append_one]
      by_cases ht : t = y
      · rw [if_pos ht, if_pos ⟨ht, hi⟩]
      · rw [if_neg ht, if_neg (fun e => ht e.1)]
  rw [e1]
  by_cases h : t = y ∧ y ≠ .idle_task ∧ y ≠ .null
  · rw [if_pos h, if_pos h]
    dsimp only
    rw [state_flags_ready]
  · rw [if_neg h, if_neg h]

theorem task_set_ready_mem (k : kernel σ) (y x : task_ptr)
    (h : x ∈ k.task_manager.ready_list) : x ∈ (task_set_ready k y).task_manager.ready_list := by
  rw [task_set_ready_ready_list]
  exact List.mem_append_left _ h

theorem task_set_ready_idle (k : kernel σ) (y : task_ptr)
    (h : .idle_task ∉ k.task_manager.ready_list) :
    .idle_task ∉ (task_set_ready k y).task_manager.ready_list := by
  rw [task_set_ready_ready_list]
  intro hm
  rcases List.mem_append.mp hm with hm | hm
  · exact h hm
  · by_cases hi : y = .idle_task
    · rw [if_neg (not_not.mpr hi)] at hm
      cases hm
    · rw [if_pos hi] at hm
      exact hi (List.mem_singleton.mp hm).symm

/-- The wake-up of a task whose state is `TASK_WAITING`. -/
theorem wake_waiting_places (k : kernel σ) (y : task_ptr) (w : task_ptr → Nat)
    (hK : ∀ t, t ≠ .idle_task → kernel_places k t + w t ≤ 1)
    (hy : (task_get k y).state = .TASK_WAITING) (t : task_ptr) (ht : t ≠ .idle_task) :
    kernel_places (task_set_ready k y) t + w t ≤ 1 := by
  have h := hK t ht
  rw [kernel_places_ready]
  unfold kernel_places at h
  by_cases hty : t = y
  · subst hty
    have hf := state_flags_waiting _ hy
    have hnull : t ≠ .null := by
      intro e
      rw [e] at hy
      cases hy
    rw [if_pos ⟨rfl, ht⟩, if_pos ⟨rfl, ht, hnull⟩]
    have hn : (if (task_get k t).name = [] then 1 else 0) + 1 ≤ state_flags (task_get k t) := by
      unfold state_flags
      rw [hy]
      simp only [if_true, reduceCtorEq, if_false]
      omega
    omega
  · rw [if_neg (fun e => hty e.1), if_neg (fun e => hty e.1)]
    omega

theorem task_set_ready_parent (k : kernel σ) (y q : task_ptr) :
    (task_get (task_set_ready k y) q).parent = (task_get k q).parent := by
  rw [task_get_task_set_ready]
  split <;> rfl

/-- The part of `sys_exit` that wakes the first task and the parent. -/
theorem exit_wakeup_places (k : kernel σ) (c : task_ptr) (m : Int) (w : task_ptr → Nat)
    (hK : ∀ t, t ≠ .idle_task → kernel_places k t + w t ≤ 1)
    (hidle : .idle_task ∉ k.task_manager.ready_list) :
    (∀ t, t ≠ .idle_task → kernel_places (exit_wakeup k c m) t + w t ≤ 1) ∧
    .idle_task ∉ (exit_wakeup k c m).task_manager.ready_list ∧
    (∀ x, x ∈ k.task_manager.ready_list → x ∈ (exit_wakeup k c m).task_manager.ready_list) ∧
    task_current (exit_wakeup k c m) = task_current k := by
  have step : ∀ (K : kernel σ) (y : task_ptr) (cond : Prop) [Decidable cond],
      (cond → (task_get K y).state = .TASK_WAITING) →
      ((∀ t, t ≠ .idle_task → kernel_places K t + w t ≤ 1) ∧
        .idle_task ∉ K.task_manager.ready_list ∧
        (∀ x, x ∈ k.task_manager.ready_list → x ∈ K.task_manager.ready_list) ∧
        task_current K = task_current k ∧
        (∀ q, (task_get K q).parent = (task_get k q).parent)) →
      ((∀ t, t ≠ .idle_task →
          kernel_places (if cond then task_set_ready K y else K) t + w t ≤ 1) ∧
        .idle_task ∉ (if cond then task_set_ready K y else K).task_manager.ready_list ∧
        (∀ x, x ∈ k.task_manager.ready_list →
          x ∈ (if cond then task_set_ready K y else K).task_manager.ready_list) ∧
        task_current (if cond then task_set_ready K y else K) = task_current k ∧
        (∀ q, (task_get (if cond then task_set_ready K y else K) q).parent =
          (task_get k q).parent)) := by
    intro K y cond _ hc hKK
    by_cases h : cond
    · rw [if_pos h]
      exact ⟨wake_waiting_places K y w hKK.1 (hc h), task_set_ready_idle K y hKK.2.1,
        fun x hx => task_set_ready_mem K y x (hKK.2.2.1 x hx),
        (task_set_ready_current K y).trans hKK.2.2.2.1,
        fun q => (task_set_ready_parent K y q).trans (hKK.2.2.2.2 q)⟩
    · rw [if_neg h]
      exact hKK
  have h3 := step k .first_task
    ((m ≠ 0 ∧ (task_get k c).parent ≠ .first_task) ∧
      k.task_manager.first_task.state = .TASK_WAITING)
    (fun e => e.2) ⟨hK, hidle, fun x hx => hx, rfl, fun _ => rfl⟩
  have e3 : (if (m ≠ 0 ∧ (task_get k c).parent ≠ .first_task) ∧
      k.task_manager.first_task.state = .TASK_WAITING then task_set_ready k .first_task else k)
      = (if m ≠ 0 ∧ (task_get k c).parent ≠ .first_task then
          if k.task_manager.first_task.state = .TASK_WAITING then task_set_ready k .first_task
          else k
        else k) := by
    by_cases a : m ≠ 0 ∧ (task_get k c).parent ≠ .first_task
    · by_cases b : k.task_manager.first_task.state = .TASK_WAITING
      · rw [if_pos ⟨a, b⟩, if_pos a, if_pos b]
      · rw [if_neg (fun e => b e.2), if_pos a, if_neg b]
    · rw [if_neg (fun e => a e.1), if_neg a]
  rw [e3] at h3
  unfold exit_wakeup
  dsimp only
  generalize (if m ≠ 0 ∧ (task_get k c).parent ≠ .first_task then
      if k.task_manager.first_task.state = .TASK_WAITING then task_set_ready k .first_task
      else k
    else k) = k3 at h3 ⊢
  have h4 := step k3 (task_get k3 c).parent
    ((task_get k3 (task_get k c).parent).state = .TASK_WAITING)
    (fun e => by rw [h3.2.2.2.2 c]; exact e) h3
  exact ⟨h4.1, h4.2.1, h4.2.2.1, h4.2.2.2.1⟩

/-- Taking the task `x`, which is on the ready list or is the idle task, off
the ready list after its block has got flags that count as a place. -/
theorem put_block_places (k : kernel σ) (w : task_ptr → Nat) (x : task_ptr) (t1 : task_t)
    (hK : ∀ t, t ≠ .idle_task → kernel_places k t + w t ≤ 1)
    (hx : x ∈ k.task_manager.ready_list ∨ x = .idle_task)
    (h1 : state_flags (task_get k x) = 0 → state_flags t1 = 1)
    (t : task_ptr) (ht : t ≠ .idle_task) :
    kernel_places (task_set_block (task_put k x t1) x) t + w t ≤ 1 := by
  have h2 := hK t ht
  rw [kernel_places_block, (task_put_task_manager_lists _ _ _).1,
    (task_put_task_manager_lists _ _ _).2.1, task_get_task_put]
  by_cases htx : t = x
  · subst htx
    obtain ⟨r1, r2, r3, r4⟩ := ready_places k w t hK (hx.resolve_right ht) ht
    rw [if_pos ⟨rfl, ht⟩]
    by_cases hnull : t = .null
    · rw [if_neg (fun e => e.2 hnull)]
      omega
    · rw [if_pos ⟨rfl, hnull⟩, h1 r3]
      omega
  · rw [if_neg (fun e => htx e.1), if_neg (fun e => htx e.1)]
    unfold kernel_places at h2
    omega

/-- The function `sys_exit` keeps the invariant of the scheduler. -/
theorem sched_inv_sys_exit (op : fs_op_t σ) (s : sched_t σ) (status : Int)
    (h : sched_inv s) : sched_inv { s with k := sys_exit op s.k status } := by
  obtain ⟨ha, hb, hc⟩ := h
  have h1 := same_places_exit_close_loop op (task_current s.k) (List.range TASK_OFILE_NR) s.k
  unfold sys_exit
  dsimp only
  generalize (List.range TASK_OFILE_NR).foldl (exit_close_step op (task_current s.k)) s.k = k1
    at h1 ⊢
  have h2 := same_places_exit_reparent (task_current s.k) (List.range TASK_OFILE_NR) (0, k1)
  generalize (List.range TASK_OFILE_NR).foldl (exit_reparent_step (task_current s.k)) (0, k1)
    = r at h2 ⊢
  have h12 := same_places_trans h1 h2
  have h3 := exit_wakeup_places r.2 (task_current s.k) r.1 (wait_count s)
    (fun t ht => by rw [same_places_kernel_places h12]; exact ha t ht)
    (by rw [h12.1]; exact hb)
  generalize exit_wakeup r.2 (task_current s.k) r.1 = k4 at h3 ⊢
  obtain ⟨p1, p2, p3, p4⟩ := h3
  have hx : task_current s.k ∈ k4.task_manager.ready_list ∨ task_current s.k = .idle_task := by
    rcases hc with hc | hc
    · exact Or.inl (p3 _ (by rw [h12.1]; exact hc))
    · exact Or.inr hc
  refine sched_inv_dispatch s _ (fun t ht => ?_) ?_
  · exact put_block_places k4 (wait_count s) (task_current s.k) _ p1 hx
      (fun h0 => state_flags_set_zombie _ status h0) t ht
  · refine task_set_block_idle _ _ ?_
    rw [(task_put_task_manager_lists _ _ _).1]
    exact p2

end sched_exit_lemmas
section sched_fork_lemmas

variable {σ : Type}

theorem sched_inv_same_places (s : sched_t σ) (k1 : kernel σ) (h : sched_inv s)
    (hs : same_places s.k k1) : sched_inv { s with k := k1 } := by
  refine sched_inv_of s k1 (fun t ht => ?_) (by rw [hs.1]; exact h.2.1)
    (by rw [hs.2.2.1, hs.1]; exact h.2.2)
  rw [same_places_kernel_places hs]
  exact h.1 t ht

theorem state_flags_eq (t t1 : task_t) (hs : t1.state = t.state) (hn : t1.name = t.name) :
    state_flags t1 = state_flags t := by
  unfold state_flags
  rw [hs, hn]

theorem tss_init_same_places (k : kernel σ) (env : fork_env) (task : task_ptr)
    (flag entry esp : Nat) : same_places k (tss_init k env task flag entry esp).2 := by
  unfold tss_init
  split
  · exact same_places_refl k
  · dsimp only
    split
    · exact same_places_task_put _ _ _ (state_flags_eq _ _ rfl rfl)
    · split
      · exact same_places_task_put _ _ _ (state_flags_eq _ _ rfl rfl)
      · refine same_places_trans ?_ (same_places_task_put _ _ _ (state_flags_eq _ _ rfl rfl))
        exact same_places_task_put _ _ _ (state_flags_eq _ _ rfl rfl)

/-- What `task_init` does to the lists and to the flags of the tasks. -/
theorem task_init_places (k : kernel σ) (env : fork_env) (task : task_ptr) (name : List Nat)
    (flag entry esp : Nat) (hnull : task ≠ .null) :
    ((task_init k env task name flag entry esp).1 < 0 ∧
      same_places k (task_init k env task name flag entry esp).2) ∨
    (¬ (task_init k env task name flag entry esp).1 < 0 ∧
      (task_init k env task name flag entry esp).2.task_manager.ready_list =
        k.task_manager.ready_list ∧
      (task_init k env task name flag entry esp).2.task_manager.sleep_list =
        k.task_manager.sleep_list ∧
      task_current (task_init k env task name flag entry esp).2 = task_current k ∧
      ∀ t, state_flags (task_get (task_init k env task name flag entry esp).2 t) =
        if t = task then (if kernel_strncpy name TASK_NAME_SIZE = [] then 1 else 0)
        else state_flags (task_get k t)) := by
  have hs := tss_init_same_places k env task flag entry esp
  unfold task_init
  dsimp only
  generalize tss_init k env task flag entry esp = r at hs
  by_cases hr : r.1 < 0
  · rw [if_pos hr]
    exact Or.inl ⟨hr, hs⟩
  · rw [if_neg hr]
    right
    dsimp only
    refine ⟨fun h => absurd h (by decide), ?_, ?_, ?_, fun t => ?_⟩
    · show (task_put r.2 task _).task_manager.ready_list = _
      rw [(task_put_task_manager_lists _ _ _).1]
      exact hs.1
    · show (task_put r.2 task _).task_manager.sleep_list = _
      rw [(task_put_task_manager_lists _ _ _).2.1]
      exact hs.2.1
    · show (task_put r.2 task _).task_manager.curr_task = _
      rw [(task_put_task_manager_lists _ _ _).2.2]
      exact hs.2.2.1
    · have e : ∀ (K : kernel σ) (l : List task_ptr),
          task_get ({ K with task_manager := { K.task_manager with task_list := l } } :
            kernel σ) t = task_get K t := fun K l => by cases t <;> rfl
      rw [e, task_get_task_put]
      by_cases ht : t = task
      · rw [if_pos ⟨ht, hnull⟩, if_pos ht]
        unfold state_flags
        simp
      · rw [if_neg (fun e => ht e.1), if_neg ht]
        exact hs.2.2.2 t

theorem alloc_task_spec (k : kernel σ) :
    alloc_task k = .null ∨ ∃ i, alloc_task k = .slot i ∧ (k.task_table i).name = [] := by
  unfold alloc_task
  cases h : (List.range TASK_NR).find? (fun i => (k.task_table i).name.isEmpty) with
  | none => exact Or.inl rfl
  | some i =>
    right
    have := List.find?_some h
    exact ⟨i, rfl, by simpa using this⟩

theorem kernel_strncpy_ne_nil (name : List Nat) (h : name ≠ []) :
    kernel_strncpy name TASK_NAME_SIZE ≠ [] := by
  unfold kernel_strncpy TASK_NAME_SIZE
  cases name with
  | nil => exact absurd rfl h
  | cons a l => simp

/-- The function `sys_fork`, called by a task other than the idle task,
keeps the invariant of the scheduler. -/
theorem sched_inv_sys_fork (s : sched_t σ) (env : fork_env) (h : sched_inv s)
    (hcur : task_current s.k ≠ .idle_task) :
    sched_inv { s with k := (sys_fork s.k env).2 } := by
  have h0 := h
  obtain ⟨ha, hb, hc⟩ := h
  unfold sys_fork
  dsimp only
  rcases alloc_task_spec s.k with hn | ⟨i, hi, hname⟩
  · rw [if_pos hn]
    exact h0
  · rw [hi, if_neg (fun e => by cases e)]
    have hchild : state_flags (task_get s.k (.slot i)) = 1 ∧
        s.k.task_manager.ready_list.count (.slot i) = 0 ∧
        s.k.task_manager.sleep_list.count (.slot i) = 0 ∧ wait_count s (.slot i) = 0 := by
      have h1 := ha (.slot i) (fun e => by cases e)
      have h2 : 1 ≤ state_flags (task_get s.k (.slot i)) := by
        have : (task_get s.k (.slot i)).name = [] := hname
        unfold state_flags
        rw [this]
        simp
      unfold task_places kernel_places at h1
      omega
    have hpname : kernel_strncpy (task_get s.k (task_current s.k)).name TASK_NAME_SIZE ≠ [] := by
      apply kernel_strncpy_ne_nil
      have hr := ready_places s.k (wait_count s) (task_current s.k) ha
        (hc.resolve_right hcur) hcur
      have := hr.2.2.1
      unfold state_flags at this
      intro e
      rw [e] at this
      simp at this
    have hfail : ∀ K : kernel σ, same_places s.k K →
        sched_inv { s with k := free_task (task_uninit K (.slot i)) (.slot i) } := by
      intro K hK
      refine sched_inv_same_places s _ h0 (same_places_trans hK ?_)
      have hu : same_places K (task_uninit K (.slot i)) := by
        unfold task_uninit
        refine same_places_task_put _ _ _ ?_
        rw [hK.2.2.2, hchild.1]
        decide
      refine same_places_trans hu ?_
      unfold free_task
      refine same_places_task_put _ _ _ ?_
      unfold state_flags
      dsimp only
      have : (task_get (task_uninit K (.slot i)) (.slot i)).state = .TASK_CREATED := by
        unfold task_uninit
        rw [task_get_task_put, if_pos ⟨rfl, fun e => by cases e⟩]
        rfl
      have hn2 : (task_get (task_uninit K (.slot i)) (.slot i)).name = [] := by
        unfold task_uninit
        rw [task_get_task_put, if_pos ⟨rfl, fun e => by cases e⟩]
        rfl
      rw [this, hn2]
    rcases task_init_places s.k env (.slot i) (task_get s.k (task_current s.k)).name 0
        env.frame.eip ((env.frame.esp + 4 * SYSCALL_PARAM_COUNT) % 2 ^ 32)
        (fun e => by cases e) with ⟨q1, q2⟩ | ⟨q1, q2, q3, q4, q5⟩
    · rw [if_pos q1]
      exact hfail _ q2
    · rw [if_neg q1]
      generalize task_init s.k env (.slot i) (task_get s.k (task_current s.k)).name 0
        env.frame.eip ((env.frame.esp + 4 * SYSCALL_PARAM_COUNT) % 2 ^ 32) = r
        at q1 q2 q3 q4 q5 ⊢
      have hcp := same_places_copy_opened_files r.2 (.slot i)
      generalize copy_opened_files r.2 (.slot i) = k1 at hcp ⊢
      rw [if_neg (Nat.not_lt_zero _)]
      dsimp only
      unfold task_start
      have hk2 : ∀ t1 : task_t, state_flags t1 = state_flags (task_get k1 (.slot i)) →
          sched_inv { s with k := task_set_ready (task_put k1 (.slot i) t1) (.slot i) } := by
        intro t1 ht1
        have hp := same_places_trans hcp (same_places_task_put k1 (.slot i) t1 ht1)
        generalize task_put k1 (.slot i) t1 = k2 at hp ⊢
        have hfl : ∀ t, state_flags (task_get k2 t) =
            if t = .slot i then 0 else state_flags (task_get s.k t) := by
          intro t
          rw [hp.2.2.2, q5]
          by_cases ht : t = .slot i
          · rw [if_pos ht, if_pos ht, if_neg hpname]
          · rw [if_neg ht, if_neg ht]
        refine sched_inv_of s _ (fun t ht => ?_) ?_ ?_
        · rw [kernel_places_ready, hp.1, hp.2.1, q2, q3, hfl]
          have h1 := ha t ht
          unfold task_places kernel_places at h1
          by_cases htc : t = .slot i
          · subst htc
            have e1 : task_ptr.slot i = task_ptr.slot i ∧ task_ptr.slot i ≠ task_ptr.idle_task :=
              ⟨rfl, fun e => by cases e⟩
            have e2 : task_ptr.slot i = task_ptr.slot i ∧ task_ptr.slot i ≠ task_ptr.idle_task ∧
                task_ptr.slot i ≠ task_ptr.null :=
              ⟨rfl, fun e => (by cases e), fun e => (by cases e)⟩
            rw [if_pos e1, if_pos e2]
            have := state_flags_name _ (by
              have := hfl (.slot i)
              rw [if_pos rfl] at this
              exact this)
            omega
          · rw [if_neg (fun e => htc e.1), if_neg (fun e => htc e.1), if_neg htc]
            omega
        · refine task_set_ready_idle _ _ ?_
          rw [hp.1, q2]
          exact hb
        · rw [task_set_ready_current, hp.2.2.1, q4]
          rcases hc with hc | hc
          · exact Or.inl (task_set_ready_mem _ _ _ (by rw [hp.1, q2]; exact hc))
          · exact Or.inr hc
      exact hk2 _ rfl

end sched_fork_lemmas
section sched_ipc_lemmas

variable {σ : Type}

theorem sum_map_set {α : Type} (f : α → Nat) (m x : α) :
    ∀ (l : List α) (i : Nat), l.get? i = some m →
      ((l.set i x).map f).sum + f m = (l.map f).sum + f x
  | [], i, h => by simp at h
  | a :: l, 0, h => by
    have : a = m := by simpa using h
    subst this
    simp only [List.set_cons_zero, List.map_cons, List.sum_cons]
    omega
  | a :: l, i + 1, h => by
    have h1 : l.get? i = some m := by simpa using h
    have := sum_map_set f m x l i h1
    simp only [List.set_cons_succ, List.map_cons, List.sum_cons]
    omega

theorem wait_count_set_sems (s : sched_t σ) (k1 : kernel σ) (i : Nat) (m m1 : sem_t)
    (h : s.sems.get? i = some m) (t : task_ptr) :
    wait_count { s with k := k1, sems := s.sems.set i m1 } t + m.wait_list.count t =
      wait_count s t + m1.wait_list.count t := by
  unfold wait_count
  dsimp only
  have := sum_map_set (fun m : sem_t => m.wait_list.count t) m m1 s.sems i h
  dsimp only at this
  omega

theorem wait_count_set_mutexes (s : sched_t σ) (k1 : kernel σ) (i : Nat) (m m1 : mutex_t)
    (h : s.mutexes.get? i = some m) (t : task_ptr) :
    wait_count { s with k := k1, mutexes := s.mutexes.set i m1 } t + m.wait_list.count t =
      wait_count s t + m1.wait_list.count t := by
  unfold wait_count
  dsimp only
  have := sum_map_set (fun m : mutex_t => m.wait_list.count t) m m1 s.mutexes i h
  dsimp only at this
  omega

/-- The current task goes from the ready list to a wait list. -/
theorem sched_inv_wait_move (s : sched_t σ) (ms : List mutex_t) (ss : List sem_t)
    (h : sched_inv s)
    (hw : ∀ t, wait_count ({ k := s.k, mutexes := ms, sems := ss } : sched_t σ) t =
      wait_count s t + (if t = task_current s.k then 1 else 0)) :
    sched_inv { k := task_dispatch (task_set_block s.k (task_current s.k)),
                mutexes := ms, sems := ss } := by
  obtain ⟨ha, hb, hc⟩ := h
  refine sched_inv_dispatch { k := s.k, mutexes := ms, sems := ss } _ (fun t ht => ?_)
    (task_set_block_idle _ _ hb)
  obtain ⟨b1, b2⟩ := block_places s.k (wait_count s) (task_current s.k) ha hc t ht
  have h2 := ha t ht
  unfold task_places at h2
  rw [hw t]
  by_cases htx : t = task_current s.k
  · obtain ⟨c1, c2, _⟩ := b1 htx
    rw [if_pos htx]
    omega
  · rw [if_neg htx, b2 htx]
    omega

/-- The first task of a wait list goes to the ready list. -/
theorem sched_inv_notify_move (s : sched_t σ) (ms : List mutex_t) (ss : List sem_t)
    (y : task_ptr) (h : sched_inv s)
    (hy : 1 ≤ wait_count s y)
    (hw : ∀ t, wait_count ({ k := s.k, mutexes := ms, sems := ss } : sched_t σ) t +
      (if t = y then 1 else 0) = wait_count s t) :
    sched_inv { k := task_dispatch (task_set_ready s.k y), mutexes := ms, sems := ss } := by
  obtain ⟨ha, hb, hc⟩ := h
  refine sched_inv_dispatch { k := s.k, mutexes := ms, sems := ss } _ (fun t ht => ?_)
    (task_set_ready_idle _ _ hb)
  have h2 := ha t ht
  have h3 := hw t
  unfold task_places kernel_places at h2
  rw [kernel_places_ready]
  by_cases hty : t = y
  · subst hty
    rw [if_pos rfl] at h3
    have hnull : t ≠ .null := by
      intro e
      subst e
      have : state_flags (task_get s.k .null) = 1 := by
        show state_flags task_zero = 1
        decide
      omega
    have e1 : t = t ∧ t ≠ .idle_task := ⟨rfl, ht⟩
    have e2 : t = t ∧ t ≠ .idle_task ∧ t ≠ .null := ⟨rfl, ht, hnull⟩
    rw [if_pos e1, if_pos e2]
    have := state_flags_le (task_get s.k t)
    omega
  · rw [if_neg hty] at h3
    rw [if_neg (fun e => hty e.1), if_neg (fun e => hty e.1)]
    omega

/-- The wait lists change in no way that counts. -/
theorem sched_inv_same_wait (s : sched_t σ) (ms : List mutex_t) (ss : List sem_t)
    (h : sched_inv s)
    (hw : ∀ t, wait_count ({ k := s.k, mutexes := ms, sems := ss } : sched_t σ) t =
      wait_count s t) :
    sched_inv { k := s.k, mutexes := ms, sems := ss } := by
  refine ⟨fun t ht => ?_, h.2.1, h.2.2⟩
  have := h.1 t ht
  unfold task_places at this ⊢
  rw [hw t]
  exact this

theorem count_tail_head (l : List task_ptr) (t : task_ptr) (h : l.length ≠ 0) :
    l.tail.count t + (if t = l.headD .null then 1 else 0) = l.count t := by
  cases l with
  | nil => exact absurd rfl h
  | cons a l =>
    simp only [List.tail_cons, List.headD_cons, List.count_cons]
    by_cases e : t = a
    · subst e
      simp
    · have : ¬ a = t := fun x => e x.symm
      simp [e, this]

theorem wait_count_ge_sems (s : sched_t σ) (i : Nat) (m : sem_t) (h : s.sems.get? i = some m)
    (t : task_ptr) : m.wait_list.count t ≤ wait_count s t := by
  have := wait_count_set_sems s s.k i m ⟨0, []⟩ h t
  simp only [List.count_nil] at this
  omega

theorem wait_count_ge_mutexes (s : sched_t σ) (i : Nat) (m : mutex_t)
    (h : s.mutexes.get? i = some m) (t : task_ptr) :
    m.wait_list.count t ≤ wait_count s t := by
  have := wait_count_set_mutexes s s.k i m ⟨.null, 0, []⟩ h t
  simp only [List.count_nil] at this
  omega

theorem head_count_pos (l : List task_ptr) (h : l.length ≠ 0) :
    1 ≤ l.count (l.headD .null) := by
  cases l with
  | nil => exact absurd rfl h
  | cons a l => simp

/-- The function `sem_wait` keeps the invariant of the scheduler. -/
theorem sched_inv_sem_wait (s : sched_t σ) (i : Nat) (m : sem_t) (h : sched_inv s)
    (hm : s.sems.get? i = some m) :
    sched_inv { s with k := (sem_wait s.k m).1, sems := s.sems.set i (sem_wait s.k m).2 } := by
  unfold sem_wait
  by_cases hc : m.count > 0
  · rw [if_pos hc]
    refine sched_inv_same_wait s _ _ h (fun t => ?_)
    have := wait_count_set_sems s s.k i m { m with count := int_wrap (m.count - 1) } hm t
    dsimp only at this ⊢
    omega
  · rw [if_neg hc]
    refine sched_inv_wait_move s _ _ h (fun t => ?_)
    have := wait_count_set_sems s s.k i m
      { m with wait_list := m.wait_list ++ [task_current s.k] } hm t
    dsimp only at this ⊢
    rw [count_append_one] at this
    omega

/-- The function `sem_notify` keeps the invariant of the scheduler. -/
theorem sched_inv_sem_notify (s : sched_t σ) (i : Nat) (m : sem_t) (h : sched_inv s)
    (hm : s.sems.get? i = some m) :
    sched_inv { s with k := (sem_notify s.k m).1,
                       sems := s.sems.set i (sem_notify s.k m).2 } := by
  unfold sem_notify
  by_cases hc : m.wait_list.length ≠ 0
  · rw [if_pos hc]
    refine sched_inv_notify_move s _ _ (m.wait_list.headD .null) h
      (le_trans (head_count_pos _ hc) (wait_count_ge_sems s i m hm _)) (fun t => ?_)
    have := wait_count_set_sems s s.k i m { m with wait_list := m.wait_list.tail } hm t
    have h2 := count_tail_head m.wait_list t hc
    dsimp only at this ⊢
    omega
  · rw [if_neg hc]
    refine sched_inv_same_wait s _ _ h (fun t => ?_)
    have := wait_count_set_sems s s.k i m { m with count := int_wrap (m.count + 1) } hm t
    dsimp only at this ⊢
    omega

/-- The function `mutex_lock` keeps the invariant of the scheduler. -/
theorem sched_inv_mutex_lock (s : sched_t σ) (i : Nat) (m : mutex_t) (h : sched_inv s)
    (hm : s.mutexes.get? i = some m) :
    sched_inv { s with k := (mutex_lock s.k m).1,
                       mutexes := s.mutexes.set i (mutex_lock s.k m).2 } := by
  unfold mutex_lock
  dsimp only
  by_cases hc : m.locked_count = 0
  · rw [if_pos hc]
    refine sched_inv_same_wait s _ _ h (fun t => ?_)
    have := wait_count_set_mutexes s s.k i m
      { m with locked_count := 1, owner := task_current s.k } hm t
    dsimp only at this ⊢
    omega
  · rw [if_neg hc]
    by_cases ho : m.owner = task_current s.k
    · rw [if_pos ho]
      refine sched_inv_same_wait s _ _ h (fun t => ?_)
      have := wait_count_set_mutexes s s.k i m
        { m with locked_count := int_wrap (m.locked_count + 1) } hm t
      dsimp only at this ⊢
      omega
    · rw [if_neg ho]
      refine sched_inv_wait_move s _ _ h (fun t => ?_)
      have := wait_count_set_mutexes s s.k i m
        { m with wait_list := m.wait_list ++ [task_current s.k] } hm t
      dsimp only at this ⊢
      rw [count_append_one] at this
      omega

/-- The function `mutex_unlock` keeps the invariant of the scheduler. -/
theorem sched_inv_mutex_unlock (s : sched_t σ) (i : Nat) (m : mutex_t) (h : sched_inv s)
    (hm : s.mutexes.get? i = some m) :
    sched_inv { s with k := (mutex_unlock s.k m).1,
                       mutexes := s.mutexes.set i (mutex_unlock s.k m).2 } := by
  have hsame : ∀ m1 : mutex_t, m1.wait_list = m.wait_list →
      sched_inv { s with k := s.k, mutexes := s.mutexes.set i m1 } := by
    intro m1 h1
    refine sched_inv_same_wait s _ _ h (fun t => ?_)
    have := wait_count_set_mutexes s s.k i m m1 hm t
    rw [h1] at this
    omega
  unfold mutex_unlock
  dsimp only
  by_cases ho : m.owner = task_current s.k
  · rw [if_pos ho]
    by_cases hz : int_wrap (m.locked_count - 1) = 0
    · rw [if_pos hz]
      by_cases hc : m.wait_list.length ≠ 0
      · rw [if_pos hc]
        refine sched_inv_notify_move s _ _ (m.wait_list.headD .null) h
          (le_trans (head_count_pos _ hc) (wait_count_ge_mutexes s i m hm _)) (fun t => ?_)
        have := wait_count_set_mutexes s s.k i m
          { locked_count := 1, owner := m.wait_list.headD .null,
            wait_list := m.wait_list.tail } hm t
        have h2 := count_tail_head m.wait_list t hc
        dsimp only at this ⊢
        omega
      · rw [if_neg hc]
        exact hsame _ rfl
    · rw [if_neg hz]
      exact hsame _ rfl
  · rw [if_neg ho]
    exact hsame _ rfl

end sched_ipc_lemmas
section sched_run_lemmas

variable {σ : Type}

/-- Every event keeps the invariant of the scheduler. -/
theorem sched_inv_step (op : fs_op_t σ) (s : sched_t σ) (c : sched_call) (h : sched_inv s)
    (hc : sched_call_ok s c) : sched_inv (sched_step op s c) := by
  cases c with
  | time_tick => exact sched_inv_time_tick s h
  | sys_yield => exact sched_inv_sys_yield s h
  | sys_msleep ms => exact sched_inv_sys_msleep s ms h
  | mutex_lock i =>
    cases hm : s.mutexes.get? i with
    | none =>
      simp only [sched_step, hm]
      exact h
    | some m =>
      simp only [sched_step, hm]
      exact sched_inv_mutex_lock s i m h hm
  | mutex_unlock i =>
    cases hm : s.mutexes.get? i with
    | none =>
      simp only [sched_step, hm]
      exact h
    | some m =>
      simp only [sched_step, hm]
      exact sched_inv_mutex_unlock s i m h hm
  | sem_wait i =>
    cases hm : s.sems.get? i with
    | none =>
      simp only [sched_step, hm]
      exact h
    | some m =>
      simp only [sched_step, hm]
      exact sched_inv_sem_wait s i m h hm
  | sem_notify i =>
    cases hm : s.sems.get? i with
    | none =>
      simp only [sched_step, hm]
      exact h
    | some m =>
      simp only [sched_step, hm]
      exact sched_inv_sem_notify s i m h hm
  | sys_wait => exact sched_inv_sys_wait s h
  | sys_exit status => exact sched_inv_sys_exit op s status h
  | sys_fork env => exact sched_inv_sys_fork s env h hc

theorem sched_inv_run (op : fs_op_t σ) : ∀ (calls : List sched_call) (s : sched_t σ),
    sched_inv s → sched_calls_ok op s calls → sched_inv (sched_run op s calls)
  | [], _, h, _ => h
  | c :: rest, s, h, hc =>
    sched_inv_run op rest (sched_step op s c) (sched_inv_step op s c h hc.1) hc.2

theorem task_init_success (k : kernel σ) (env : fork_env) (task : task_ptr) (name : List Nat)
    (flag entry esp : Nat) (hgdt : 0 ≤ env.gdt_alloc_desc) (hstack : env.memory_alloc_page ≠ 0)
    (hdir : env.memory_create_uvm ≠ 0) :
    ¬ (task_init k env task name flag entry esp).1 < 0 := by
  have h := (tss_init_ok k env task flag entry esp hgdt hstack hdir).1
  unfold task_init
  dsimp only
  rw [if_neg (by rw [h]; decide)]
  intro e
  have e1 : (0 : Int) < 0 := e
  exact absurd e1 (by decide)

theorem task_set_ready_idle_task (K : kernel σ) : task_set_ready K .idle_task = K := by
  unfold task_set_ready
  rw [if_neg (not_not.mpr rfl)]

/-- The `task_init` of the idle task in `task_manager_init`. -/
theorem idle_task_init_places (k1 : kernel σ) (env : fork_env) (idle_entry : Nat)
    (f1 : k1.task_manager.ready_list = []) (f2 : k1.task_manager.sleep_list = [])
    (f3 : ∀ i, state_flags (task_get k1 (.slot i)) = 1) :
    (task_init k1 env .idle_task idle_task_name TASK_FLAG_SYSTEM idle_entry
      0).2.task_manager.ready_list = [] ∧
    (task_init k1 env .idle_task idle_task_name TASK_FLAG_SYSTEM idle_entry
      0).2.task_manager.sleep_list = [] ∧
    ∀ i, state_flags (task_get (task_init k1 env .idle_task idle_task_name TASK_FLAG_SYSTEM
      idle_entry 0).2 (.slot i)) = 1 := by
  rcases task_init_places k1 env .idle_task idle_task_name TASK_FLAG_SYSTEM idle_entry 0
      (fun e => by cases e) with ⟨_, q⟩ | ⟨_, q2, q3, _, q5⟩
  · refine ⟨q.1.trans f1, q.2.1.trans f2, fun i => ?_⟩
    exact (q.2.2.2 (.slot i)).trans (f3 i)
  · refine ⟨q2.trans f1, q3.trans f2, fun i => ?_⟩
    have := q5 (.slot i)
    rw [if_neg (fun e => by cases e)] at this
    exact this.trans (f3 i)

/-- The task manager after `task_manager_init`: the lists are empty and
every block of the task table is free. -/
theorem task_manager_init_places (k : kernel σ) (env : fork_env)
    (data_sel code_sel idle_entry : Nat) :
    (task_manager_init k env data_sel code_sel idle_entry).task_manager.ready_list = [] ∧
    (task_manager_init k env data_sel code_sel idle_entry).task_manager.sleep_list = [] ∧
    ∀ i, state_flags
      (task_get (task_manager_init k env data_sel code_sel idle_entry) (.slot i)) = 1 := by
  unfold task_manager_init
  dsimp only
  unfold task_start
  rw [task_set_ready_idle_task]
  exact idle_task_init_places _ env idle_entry rfl rfl (fun i => by
    show state_flags task_zero = 1
    decide)

theorem wait_count_init (k : kernel σ) (mutexes : List mutex_t) (sems : List (sem_t × Int))
    (t : task_ptr) :
    wait_count ({ k := k, mutexes := mutexes.map mutex_init,
                  sems := sems.map (fun x => sem_init x.1 x.2) } : sched_t σ) t = 0 := by
  unfold wait_count
  dsimp only
  rw [List.map_map, List.map_map]
  have h1 : (mutexes.map ((fun m : mutex_t => m.wait_list.count t) ∘ mutex_init)).sum = 0 :=
    List.sum_eq_zero (fun x hx => by
      obtain ⟨m, _, rfl⟩ := List.mem_map.mp hx
      rfl)
  have h2 : (sems.map ((fun m : sem_t => m.wait_list.count t) ∘
      (fun x : sem_t × Int => sem_init x.1 x.2))).sum = 0 :=
    List.sum_eq_zero (fun x hx => by
      obtain ⟨m, _, rfl⟩ := List.mem_map.mp hx
      rfl)
  rw [h1, h2]

/-- The start of the first task on empty lists. -/
theorem first_task_start_inv (K : kernel σ) (mutexes : List mutex_t)
    (sems : List (sem_t × Int))
    (h1 : K.task_manager.ready_list = []) (h2 : K.task_manager.sleep_list = [])
    (h3 : task_current K = .first_task)
    (h4 : ∀ t, t ≠ .idle_task → t ≠ .first_task → state_flags (task_get K t) = 1)
    (h5 : state_flags (task_get K .first_task) = 0) :
    sched_inv ({ k := task_set_ready K .first_task, mutexes := mutexes.map mutex_init,
                 sems := sems.map (fun x => sem_init x.1 x.2) } : sched_t σ) := by
  refine ⟨fun t ht => ?_, ?_, ?_⟩
  · unfold task_places
    dsimp only
    rw [wait_count_init, kernel_places_ready, h1, h2]
    by_cases htf : t = .first_task
    · subst htf
      have e1 : task_ptr.first_task = task_ptr.first_task ∧
          task_ptr.first_task ≠ task_ptr.idle_task := ⟨rfl, fun e => (by cases e)⟩
      have e2 : task_ptr.first_task = task_ptr.first_task ∧
          task_ptr.first_task ≠ task_ptr.idle_task ∧ task_ptr.first_task ≠ task_ptr.null :=
        ⟨rfl, fun e => (by cases e), fun e => (by cases e)⟩
      rw [if_pos e1, if_pos e2]
      have := state_flags_name _ h5
      simp only [List.count_nil]
      omega
    · rw [if_neg (fun e => htf e.1), if_neg (fun e => htf e.1), h4 t ht htf]
      simp
  · dsimp only
    rw [task_set_ready_ready_list, h1]
    simp
  · dsimp only
    rw [task_set_ready_current, task_set_ready_ready_list, h3]
    left
    simp

/-- The invariant of the scheduler holds after the initialisation, when the
`task_init` of the first task succeeds. -/
theorem sched_inv_init (k : kernel σ) (env0 env1 : fork_env)
    (data_sel code_sel idle_entry first_start e_first_task : Nat)
    (mutexes : List mutex_t) (sems : List (sem_t × Int))
    (hgdt : 0 ≤ env1.gdt_alloc_desc) (hstack : env1.memory_alloc_page ≠ 0)
    (hdir : env1.memory_create_uvm ≠ 0) :
    sched_inv (sched_init k env0 env1 data_sel code_sel idle_entry first_start e_first_task
      mutexes sems) := by
  obtain ⟨m1, m2, m3⟩ := task_manager_init_places k env0 data_sel code_sel idle_entry
  unfold sched_init
  generalize task_manager_init k env0 data_sel code_sel idle_entry = km at m1 m2 m3
  unfold task_first_init
  dsimp only
  have hs := task_init_success km env1 .first_task first_task_name 0 first_start
    ((first_start + 10 * MEM_PAGE_SIZE) % 2 ^ 32) hgdt hstack hdir
  rcases task_init_places km env1 .first_task first_task_name 0 first_start
      ((first_start + 10 * MEM_PAGE_SIZE) % 2 ^ 32) (fun e => by cases e) with
    ⟨q1, _⟩ | ⟨_, q2, q3, _, q5⟩
  · exact absurd q1 hs
  · generalize task_init km env1 .first_task first_task_name 0 first_start
      ((first_start + 10 * MEM_PAGE_SIZE) % 2 ^ 32) = r at q2 q3 q5
    have hp := same_places_task_put r.2 .first_task
      { task_get r.2 .first_task with heap_start := e_first_task, heap_end := e_first_task }
      (state_flags_eq _ _ rfl rfl)
    generalize task_put r.2 .first_task
      { task_get r.2 .first_task with heap_start := e_first_task, heap_end := e_first_task }
      = k1 at hp
    unfold task_start
    have hname : (if kernel_strncpy first_task_name TASK_NAME_SIZE = [] then 1 else 0) = 0 := by
      decide
    refine first_task_start_inv _ mutexes sems ?_ ?_ rfl ?_ ?_
    · show k1.task_manager.ready_list = []
      rw [hp.1, q2, m1]
    · show k1.task_manager.sleep_list = []
      rw [hp.2.1, q3, m2]
    · intro t ht1 ht2
      have e : ∀ (K : kernel σ) (c : task_ptr),
          task_get ({ K with task_manager := { K.task_manager with curr_task := c } } :
            kernel σ) t = task_get K t := fun K c => by cases t <;> rfl
      rw [e, hp.2.2.2, q5, if_neg ht2]
      cases t with
      | null => show state_flags task_zero = 1; decide
      | first_task => exact absurd rfl ht2
      | idle_task => exact absurd rfl ht1
      | slot i => exact m3 i
    · show state_flags (task_get k1 .first_task) = 0
      rw [hp.2.2.2, q5, if_pos rfl, hname]

theorem sched_lists_ok_of_inv (s : sched_t σ) (h : sched_inv s) : sched_lists_ok s := by
  obtain ⟨ha, hb, _⟩ := h
  refine ⟨fun t ht => ?_, ?_, hb⟩
  · by_cases hi : t = .idle_task
    · exact hb (hi ▸ ht.1)
    · have := ha t hi
      have c1 : 1 ≤ s.k.task_manager.ready_list.count t := List.one_le_count_iff.mpr ht.1
      have c2 : 1 ≤ s.k.task_manager.sleep_list.count t := List.one_le_count_iff.mpr ht.2
      unfold task_places kernel_places at this
      omega
  · rw [List.nodup_iff_count_le_one]
    intro t
    by_cases hi : t = .idle_task
    · rw [hi, List.count_eq_zero_of_not_mem hb]
      omega
    · have := ha t hi
      unfold task_places kernel_places at this
      omega

end sched_run_lemmas

/-- Claim C18.  After the initialisation (`task_manager_init`,
`task_first_init` with a `task_init` that succeeds, and the `mutex_init` and
`sem_init` of the mutexes and semaphores) and any sequence of timer ticks and
calls of `sys_yield`, `sys_msleep`, `mutex_lock`, `mutex_unlock`, `sem_wait`,
`sem_notify`, `sys_wait`, `sys_exit` and `sys_fork` (which starts the new
task with `task_start`), each made by the task that is current then, where
the idle task does not call `sys_fork`: no task is on the ready list and on
the sleep list at the same time, no task is twice on the ready list, and the
idle task is not on the ready list. -/
theorem C18_scheduler_lists {σ : Type} (op : fs_op_t σ) (k : kernel σ) (env0 env1 : fork_env)
    (data_sel code_sel idle_entry first_start e_first_task : Nat)
    (mutexes : List mutex_t) (sems : List (sem_t × Int)) (calls : List sched_call)
    (hgdt : 0 ≤ env1.gdt_alloc_desc) (hstack : env1.memory_alloc_page ≠ 0)
    (hdir : env1.memory_create_uvm ≠ 0)
    (hcalls : sched_calls_ok op (sched_init k env0 env1 data_sel code_sel idle_entry
      first_start e_first_task mutexes sems) calls) :
    sched_lists_ok (sched_run op (sched_init k env0 env1 data_sel code_sel idle_entry
      first_start e_first_task mutexes sems) calls) :=
  sched_lists_ok_of_inv _ (sched_inv_run op calls _
    (sched_inv_init k env0 env1 data_sel code_sel idle_entry first_start e_first_task
      mutexes sems hgdt hstack hdir) hcalls)
theorem C18_scheduler_lists_witness :
    demo_sched_view (sched_run demo_op demo_sched_init demo_sched_calls) =
      ([.slot 0], [], .slot 0) ∧
    sched_lists_ok (sched_run demo_op demo_sched_init demo_sched_calls) :=
  ⟨by decide!,
    C18_scheduler_lists demo_op demo_sched demo_fork_ok demo_fork_ok 16 24 0x10000 0x80000000
      0x80003000 [⟨.null, 7, []⟩] [(⟨0, []⟩, 1)] demo_sched_calls
      (by decide) (by decide) (by decide)
      (by
        unfold demo_sched_calls
        simp only [sched_calls_ok, sched_call_ok, and_true, true_and]
        constructor <;> decide!)⟩

/-! ### Claims on directory names and on unlink: evaluation -/

/-- C21 (code at the failing input).  `to_sfn` of `abcdefgh.txt` writes the
eleven bytes `ABCDEFGHTXT`.  `diritem_get_name` clears `SFN_LEN + 1 = 12`
bytes of the destination and then stores the twelve characters
`ABCDEFGH.TXT` at the offsets 0 to 11; the byte at offset 12 is not written.
In a destination buffer that held the byte 255 everywhere the string that
starts at the destination is therefore not `ABCDEFGH.TXT`: it runs on through
the bytes the buffer held before.  For the shorter name `abcdefgh.tx` one of
the cleared bytes ends the string, and in a destination buffer of zero bytes
the full-length name is ended by a byte the buffer held before the call. -/
theorem C21_full_name_not_terminated :
    (List.range 11).map (to_sfn demo_name_full) = [65, 66, 67, 68, 69, 70, 71, 72, 84, 88, 84] ∧
    (List.range 14).map (diritem_get_name (to_sfn demo_name_full) 0 (fun _ => 255) 0) =
      demo_name_full_upper ++ [255, 255] ∧
    c_string (diritem_get_name (to_sfn demo_name_full) 0 (fun _ => 255) 0) 0 16 =
      demo_name_full_upper ++ [255, 255, 255, 255] ∧
    c_string (diritem_get_name (to_sfn demo_name_full) 0 (fun _ => 255) 0) 0 16 ≠
      demo_name_full_upper ∧
    c_string (diritem_get_name (to_sfn demo_name_short) 0 (fun _ => 255) 0) 0 16 =
      [65, 66, 67, 68, 69, 70, 71, 72, 46, 84, 88] ∧
    c_string (diritem_get_name (to_sfn demo_name_full) 0 (fun _ => 0) 0) 0 16 =
      demo_name_full_upper := by
  refine ⟨by decide!, by decide!, by decide!, by decide!, by decide!, by decide!⟩

/-- C25 (code at the failing input).  The volume `demo_fat_two_files` holds
`a.txt` in entry 0 and `b.txt` in entry 1 of the root directory: both can be
opened and `fatfs_readdir` lists both.  `fatfs_unlink` of `a.txt` returns 0
and writes an entry of 32 zero bytes to index 0, whose first name byte is
the end mark `DIRITEM_NAME_END`.  Afterwards the entry of `b.txt` is still
on the disk at index 1, but `fatfs_open` of `b.txt` returns -1 and the first
call of `fatfs_readdir` returns -1: the scans stop at index 0.  After an
unlink of `b.txt` instead, `a.txt` is still listed. -/
theorem C25_unlink_hides_later_entries :
    demo_open_view (fatfs_open 70000 demo_fat_two_files demo_path (demo_file O_RDONLY)) =
      some (0, 0) ∧
    demo_open_view (fatfs_open 70000 demo_fat_two_files demo_path_b (demo_file O_RDONLY)) =
      some (0, 1) ∧
    demo_listing demo_fat_two_files 3 =
      [(0, 0, [65, 46, 84, 88, 84, 0, 0, 0]), (0, 1, [66, 46, 84, 88, 84, 0, 0, 0]),
       (-1, 1, [66, 46, 84, 88, 84, 0, 0, 0])] ∧
    (fatfs_unlink 70000 demo_fat_two_files demo_path).map (fun r => r.1) = some 0 ∧
    (fatfs_unlink 70000 demo_fat_two_files demo_path).map
      (fun r => (List.range 12).map (fun i => r.2.dev.bytes (3 * 512 + i))) =
      some [0, 0, 0, 0, 0, 0, 0, 0, 0, 0, 0, 0] ∧
    (fatfs_unlink 70000 demo_fat_two_files demo_path).map
      (fun r => (List.range 12).map (fun i => r.2.dev.bytes (3 * 512 + 32 + i))) =
      some [66, 32, 32, 32, 32, 32, 32, 32, 84, 88, 84, 0] ∧
    (fatfs_unlink 70000 demo_fat_two_files demo_path).map
      (fun r => demo_open_view (fatfs_open 70000 r.2 demo_path_b (demo_file O_RDONLY))) =
      some (some (-1, 0)) ∧
    (fatfs_unlink 70000 demo_fat_two_files demo_path).map
      (fun r => (demo_listing r.2 1).map (fun x => x.1)) = some [-1] ∧
    (fatfs_unlink 70000 demo_fat_two_files demo_path).map
      (fun r => demo_open_view (fatfs_open 70000 r.2 demo_path (demo_file O_RDONLY))) =
      some (some (-1, 0)) ∧
    (fatfs_unlink 70000 demo_fat_two_files demo_path_b).map
      (fun r => (demo_listing r.2 2).map (fun x => (x.1, x.2.1))) = some [(0, 0), (-1, 0)] := by
  refine ⟨by decide!, by decide!, by decide!, by decide!, by decide!, by decide!, by decide!,
    by decide!, by decide!, by decide!⟩

/-! ### Claim on `fatfs_seek` -/

section seek_lemmas

theorem bread_sector_cbs (fat : fat_t) (sector : Nat) :
    (bread_sector fat sector).2.cluster_byte_size = fat.cluster_byte_size := by
  unfold bread_sector
  split
  · rfl
  · dsimp only
    split <;> rfl

theorem cluster_get_next_cbs (fat : fat_t) (c : Nat) :
    (cluster_get_next fat c).2.cluster_byte_size = fat.cluster_byte_size := by
  unfold cluster_get_next
  split
  · rfl
  · dsimp only
    split
    · rfl
    · split <;> exact bread_sector_cbs _ _

theorem cluster_get_next_invalid (fat : fat_t) (c : Nat) (h : cluster_is_valid c = false) :
    (cluster_get_next fat c).1 = FAT_CLUSTER_INVALID := by
  unfold cluster_get_next
  rw [if_pos (by rw [h]; decide)]

theorem cluster_walk_succ (fat : fat_t) (c : Nat) (n : Nat) :
    cluster_walk fat c (n + 1) =
      cluster_walk (cluster_get_next fat c).2 (cluster_get_next fat c).1 n := by
  induction n with
  | zero => rfl
  | succ n ih =>
    show cluster_get_next (cluster_walk fat c (n + 1)).2 (cluster_walk fat c (n + 1)).1 = _
    rw [ih]
    rfl

theorem cluster_walk_invalid (fat : fat_t) (c : Nat) (h : cluster_is_valid c = false) (n : Nat) :
    cluster_is_valid (cluster_walk fat c n).1 = false := by
  induction n with
  | zero => exact h
  | succ n ih =>
    show cluster_is_valid (cluster_get_next (cluster_walk fat c n).2 (cluster_walk fat c n).1).1 =
      false
    rw [cluster_get_next_invalid _ _ ih]
    decide

theorem fatfs_seek_loop_spec : ∀ (fuel : Nat) (fat : fat_t) (c pos otm : Nat),
    0 < fat.cluster_byte_size → pos % fat.cluster_byte_size = 0 → otm < fuel →
    ((otm / fat.cluster_byte_size = 0 ∨
        cluster_is_valid (cluster_walk fat c (otm / fat.cluster_byte_size)).1 = true) →
      fatfs_seek_loop fuel fat c pos otm =
        (0, pos + otm, cluster_walk fat c (otm / fat.cluster_byte_size))) ∧
    (¬ (otm / fat.cluster_byte_size = 0 ∨
        cluster_is_valid (cluster_walk fat c (otm / fat.cluster_byte_size)).1 = true) →
      (fatfs_seek_loop fuel fat c pos otm).1 = -1) := by
  intro fuel
  induction fuel with
  | zero => intro _ _ _ _ _ _ h; omega
  | succ fuel ih =>
    intro fat c pos otm hc hpos hlt
    rw [fatfs_seek_loop]
    by_cases h0 : otm > 0
    · rw [if_pos h0]
      dsimp only
      rw [hpos, Nat.zero_add, Nat.sub_zero]
      by_cases hin : otm < fat.cluster_byte_size
      · rw [if_pos hin]
        have hq : otm / fat.cluster_byte_size = 0 := Nat.div_eq_of_lt hin
        rw [hq]
        exact ⟨fun _ => rfl, fun h => absurd (Or.inl rfl) h⟩
      · rw [if_neg hin]
        have hge : fat.cluster_byte_size ≤ otm := by omega
        have hq : otm / fat.cluster_byte_size =
            (otm - fat.cluster_byte_size) / fat.cluster_byte_size + 1 := by
          rw [← Nat.add_div_right _ hc, Nat.sub_add_cancel hge]
        have hw : cluster_walk fat c (otm / fat.cluster_byte_size) =
            cluster_walk (cluster_get_next fat c).2 (cluster_get_next fat c).1
              ((otm - fat.cluster_byte_size) / fat.cluster_byte_size) := by
          rw [hq, cluster_walk_succ]
        rw [hw]
        have hq0 : ¬ otm / fat.cluster_byte_size = 0 := by rw [hq]; exact Nat.succ_ne_zero _
        by_cases hv : cluster_is_valid (cluster_get_next fat c).1 = true
        · rw [if_neg (not_not.mpr hv)]
          have hcb := cluster_get_next_cbs fat c
          have hi := ih (cluster_get_next fat c).2 (cluster_get_next fat c).1
            (pos + fat.cluster_byte_size) (otm - fat.cluster_byte_size) (by rw [hcb]; exact hc)
            (by rw [hcb, Nat.add_mod_right]; exact hpos) (by omega)
          rw [hcb] at hi
          have hsum : pos + fat.cluster_byte_size + (otm - fat.cluster_byte_size) = pos + otm := by
            omega
          rw [hsum] at hi
          constructor
          · intro h
            rcases h with h | h
            · exact absurd h hq0
            · exact hi.1 (Or.inr h)
          · intro h
            refine hi.2 (fun h1 => h (Or.inr ?_))
            rcases h1 with h1 | h1
            · rw [h1]; exact hv
            · exact h1
        · rw [if_pos hv]
          have hv2 : cluster_is_valid (cluster_get_next fat c).1 = false := by
            simpa using hv
          have hbad := cluster_walk_invalid (cluster_get_next fat c).2 (cluster_get_next fat c).1
            hv2 ((otm - fat.cluster_byte_size) / fat.cluster_byte_size)
          constructor
          · intro h
            rcases h with h | h
            · exact absurd h hq0
            · rw [hbad] at h; cases h
          · intro _; rfl
    · rw [if_neg h0]
      have h00 : otm = 0 := by omega
      subst h00
      rw [Nat.zero_div]
      exact ⟨fun _ => rfl, fun h => absurd (Or.inl rfl) h⟩

end seek_lemmas

/-- Claim C22.  With a cluster size that is not 0, `fatfs_seek` returns 0 or
-1.  When it returns 0, `whence` is 0, the position of the file is `offset`
and its current cluster is the one reached by following `cluster_get_next`
`offset / cluster_byte_size` times from the start cluster (as the
`cluster_t` the driver converts `sblk` to); the other fields are as before.
When it returns -1 the file record is unchanged.  It returns -1 exactly
when `whence` is not 0 or at least one step is needed and the cluster
reached is not a valid cluster, i.e. the chain has ended before. -/
theorem C22_seek_position_and_cluster (file : file_t) (offset : Nat) (dir : Int) (fat : fat_t)
    (hc : 0 < fat.cluster_byte_size) :
    ((fatfs_seek file offset dir fat).1 = 0 ∨ (fatfs_seek file offset dir fat).1 = -1) ∧
    ((fatfs_seek file offset dir fat).1 = 0 →
      dir = 0 ∧
      (fatfs_seek file offset dir fat).2.1 =
        { file with
          pos := offset,
          cblk := (cluster_walk fat (file.sblk % 65536) (offset / fat.cluster_byte_size)).1 }) ∧
    ((fatfs_seek file offset dir fat).1 = -1 → (fatfs_seek file offset dir fat).2.1 = file) ∧
    ((fatfs_seek file offset dir fat).1 = -1 ↔
      dir ≠ 0 ∨
      (fat.cluster_byte_size ≤ offset ∧
        cluster_is_valid
          (cluster_walk fat (file.sblk % 65536) (offset / fat.cluster_byte_size)).1 = false)) := by
  have n10 : ¬ ((-1 : Int) = 0) := by decide
  have n01 : ¬ ((0 : Int) = -1) := by decide
  unfold fatfs_seek
  by_cases hd : dir ≠ 0
  · rw [if_pos hd]
    refine ⟨Or.inr rfl, fun h => absurd h n10, fun _ => rfl, fun _ => Or.inl hd,
      fun _ => rfl⟩
  · rw [if_neg hd]
    have hd0 : dir = 0 := not_not.mp hd
    dsimp only
    obtain ⟨s1, s2⟩ := fatfs_seek_loop_spec (offset + 1) fat (file.sblk % 65536) 0 offset hc
      (Nat.zero_mod _) (Nat.lt_succ_self _)
    have hdiv : offset / fat.cluster_byte_size = 0 ↔ offset < fat.cluster_byte_size :=
      Nat.div_eq_zero_iff hc
    by_cases hok : offset / fat.cluster_byte_size = 0 ∨
        cluster_is_valid (cluster_walk fat (file.sblk % 65536)
          (offset / fat.cluster_byte_size)).1 = true
    · rw [s1 hok]
      dsimp only
      rw [if_neg (by decide), Nat.zero_add]
      refine ⟨Or.inl rfl, fun _ => ⟨hd0, rfl⟩, fun h => absurd h n01,
        fun h => absurd h n01, fun h => ?_⟩
      exfalso
      rcases h with h | h
      · exact hd h
      · rcases hok with h1 | h1
        · have := hdiv.mp h1; omega
        · rw [h.2] at h1; cases h1
    · have hneg := s2 hok
      rw [if_pos (by rw [hneg]; decide)]
      refine ⟨Or.inr rfl, fun h => absurd h n10, fun _ => rfl, fun _ => Or.inr ⟨?_, ?_⟩,
        fun _ => rfl⟩
      · by_contra hlt
        exact hok (Or.inl (hdiv.mpr (by omega)))
      · by_contra hv
        exact hok (Or.inr (by simpa using hv))

/-- C22, at the volume `demo_fat_one_file`, whose file `a.txt` has the chain
2 -> 3 and 512-byte clusters: a seek to offset 600 returns 0 with position
600 and current cluster 3; a seek to offset 1024 returns -1. -/
theorem C22_seek_position_and_cluster_witness :
    0 < demo_fat_one_file.cluster_byte_size ∧
    (fatfs_open 70000 demo_fat_one_file demo_path (demo_file O_RDONLY)).map
      (fun r => ((fatfs_seek r.2.1 600 0 r.2.2).1, (fatfs_seek r.2.1 600 0 r.2.2).2.1.pos,
        (fatfs_seek r.2.1 600 0 r.2.2).2.1.cblk, (fatfs_seek r.2.1 1024 0 r.2.2).1)) =
      some (0, 600, 3, -1) ∧
    (((fatfs_seek (demo_file O_RDONLY) 600 0 demo_fat_one_file).1 = 0 ∨
        (fatfs_seek (demo_file O_RDONLY) 600 0 demo_fat_one_file).1 = -1) ∧
      ((fatfs_seek (demo_file O_RDONLY) 600 0 demo_fat_one_file).1 = 0 →
        (0 : Int) = 0 ∧
        (fatfs_seek (demo_file O_RDONLY) 600 0 demo_fat_one_file).2.1 =
          { demo_file O_RDONLY with
            pos := 600,
            cblk := (cluster_walk demo_fat_one_file ((demo_file O_RDONLY).sblk % 65536)
              (600 / demo_fat_one_file.cluster_byte_size)).1 }) ∧
      ((fatfs_seek (demo_file O_RDONLY) 600 0 demo_fat_one_file).1 = -1 →
        (fatfs_seek (demo_file O_RDONLY) 600 0 demo_fat_one_file).2.1 = demo_file O_RDONLY) ∧
      ((fatfs_seek (demo_file O_RDONLY) 600 0 demo_fat_one_file).1 = -1 ↔
        (0 : Int) ≠ 0 ∨
        (demo_fat_one_file.cluster_byte_size ≤ 600 ∧
          cluster_is_valid
            (cluster_walk demo_fat_one_file ((demo_file O_RDONLY).sblk % 65536)
              (600 / demo_fat_one_file.cluster_byte_size)).1 = false))) :=
  ⟨by decide!, by decide!,
    C22_seek_position_and_cluster (demo_file O_RDONLY) 600 0 demo_fat_one_file (by decide!)⟩

/-! ### Claim on the minor number of `devfs_open` -/

section devfs_lemmas

theorem path_to_num_digits : ∀ (ds : List Nat) (n : Nat), (∀ d ∈ ds, d < 10) →
    n * 10 ^ ds.length + Nat.ofDigits 10 ds.reverse < 2 ^ 31 →
    path_to_num_loop (ds.map (fun d => d + 48)) (n : Int) =
      ((n * 10 ^ ds.length + Nat.ofDigits 10 ds.reverse : Nat) : Int) := by
  intro ds
  induction ds with
  | nil =>
    intro n _ _
    simp [path_to_num_loop]
  | cons d rest ih =>
    intro n hd hN
    have hd10 : d < 10 := hd d (List.mem_cons_self _ _)
    have hrest : ∀ x ∈ rest, x < 10 := fun x hx => hd x (List.mem_cons_of_mem _ hx)
    have hval : Nat.ofDigits 10 (d :: rest).reverse =
        Nat.ofDigits 10 rest.reverse + 10 ^ rest.length * d := by
      rw [List.reverse_cons, Nat.ofDigits_append, Nat.ofDigits_singleton, List.length_reverse]
    have hsum : n * 10 ^ (d :: rest).length + Nat.ofDigits 10 (d :: rest).reverse =
        (n * 10 + d) * 10 ^ rest.length + Nat.ofDigits 10 rest.reverse := by
      rw [hval, List.length_cons, pow_succ]
      ring
    rw [hsum] at hN ⊢
    have hpos : 1 ≤ 10 ^ rest.length := Nat.one_le_pow _ _ (by decide)
    have hle : n * 10 + d ≤ (n * 10 + d) * 10 ^ rest.length := Nat.le_mul_of_pos_right _ hpos
    have hc : char_val (d + 48) = ((d + 48 : Nat) : Int) := by
      unfold char_val
      rw [Nat.mod_eq_of_lt (by omega), if_pos (by omega)]
    show path_to_num_loop ((d + 48) :: rest.map (fun d => d + 48)) (n : Int) = _
    rw [path_to_num_loop, if_pos ⟨by omega, by omega⟩, hc]
    have hw : int_wrap ((n : Int) * 10 + ((d + 48 : Nat) : Int) - 48) = ((n * 10 + d : Nat) : Int) := by
      have e : (n : Int) * 10 + ((d + 48 : Nat) : Int) - 48 = ((n * 10 + d : Nat) : Int) := by
        push_cast; ring
      rw [e]
      exact int_wrap_eq _ (by omega) (by omega)
    rw [hw]
    exact ih (n * 10 + d) hrest hN

theorem devfs_open_suffix {σ : Type} (dev_open : Int → Int → σ → Int × σ) (minor0 : Int)
    (fs : Nat) (file : file_t) (s : σ) (suffix : List Nat) (hne : suffix ≠ []) :
    devfs_open dev_open minor0 fs ([116, 116, 121] ++ suffix) file s =
      devfs_open_tty dev_open fs file s (path_to_num suffix).2 := by
  unfold devfs_open devfs_type_list devfs_open_loop devfs_open_tty
  have hlen : kernel_strlen ([116, 116, 121] ++ suffix) > kernel_strlen [116, 116, 121] := by
    unfold kernel_strlen
    have : 0 < suffix.length := List.length_pos.mpr hne
    simp only [List.length_append, List.length_cons, List.length_nil]
    omega
  have hcmp : kernel_strncmp ([116, 116, 121] ++ suffix) [116, 116, 121]
      (kernel_strlen [116, 116, 121]) = 0 := by
    unfold kernel_strncmp kernel_strlen
    rw [if_pos (by simp)]
  dsimp only
  have n0 : ¬ ((0 : Int) < 0) := by decide
  rw [if_pos hcmp, if_neg (fun h => absurd h.2 n0), if_pos hlen]
  have hdrop : ([116, 116, 121] ++ suffix).drop (kernel_strlen [116, 116, 121]) = suffix := by
    unfold kernel_strlen
    simp
  rw [hdrop]

end devfs_lemmas

/-- C23 (code against the claim).  `devfs_open` of the name `tty` followed
by a suffix that is not empty never takes the failure path: `path_to_num`
returns 0 for every string, so the test `path_to_num(...) < 0` is never true,
and the tty is opened with the number that `path_to_num` stores, whatever the
characters of the suffix are.  That number is `N` for the decimal digits of
an `N` below `2^31`, and it is 72, not 0, for `ttyx`
(`0 * 10 + 'x' - '0' = 72`).  `devfs_open` of `tty` alone does not call
`path_to_num` and opens the tty with the value `minor0` that the local
variable `minor`, which has no initialiser, happens to hold: nothing in the
code sets it to 0. -/
theorem C23_devfs_open_minor {σ : Type} (dev_open : Int → Int → σ → Int × σ) (minor0 : Int)
    (fs : Nat) (file : file_t) (s : σ) :
    (∀ suffix : List Nat, suffix ≠ [] →
      (path_to_num suffix).1 = 0 ∧
      devfs_open dev_open minor0 fs ([116, 116, 121] ++ suffix) file s =
        devfs_open_tty dev_open fs file s (path_to_num suffix).2) ∧
    (∀ ds : List Nat, ds ≠ [] → (∀ d ∈ ds, d < 10) → Nat.ofDigits 10 ds.reverse < 2 ^ 31 →
      devfs_open dev_open minor0 fs ([116, 116, 121] ++ ds.map (fun d => d + 48)) file s =
        devfs_open_tty dev_open fs file s ((Nat.ofDigits 10 ds.reverse : Nat) : Int)) ∧
    ((path_to_num [120]).2 = 72 ∧
      devfs_open dev_open minor0 fs [116, 116, 121, 120] file s =
        devfs_open_tty dev_open fs file s 72) ∧
    devfs_open dev_open minor0 fs [116, 116, 121] file s =
      devfs_open_tty dev_open fs file s minor0 := by
  refine ⟨fun suffix hne => ⟨rfl, devfs_open_suffix dev_open minor0 fs file s suffix hne⟩,
    fun ds hne hd hN => ?_, ⟨by decide, ?_⟩, rfl⟩
  · rw [devfs_open_suffix dev_open minor0 fs file s _ (by simpa using hne)]
    have h := path_to_num_digits ds 0 hd (by simpa using hN)
    have e : (path_to_num (ds.map (fun d => d + 48))).2 =
        ((Nat.ofDigits 10 ds.reverse : Nat) : Int) := by
      show path_to_num_loop (ds.map (fun d => d + 48)) 0 = _
      have h0 : ((0 : Nat) : Int) = 0 := rfl
      rw [← h0, h]
      simp
    rw [e]
  · have h := devfs_open_suffix dev_open minor0 fs file s [120] (by decide)
    exact h

/-- C23, with a `dev_open` that succeeds and records its arguments, and with
the value 5 or 0 in the local variable `minor`.  `tty12` opens the minor 12
and `tty0` the minor 0.  `devfs_open` of `ttyx` calls
`dev_open(DEV_TTY, 72, 0)`, and `devfs_open` of `tty` calls
`dev_open(DEV_TTY, 5, 0)` or `dev_open(DEV_TTY, 0, 0)`, with the value that
`minor` held. -/
theorem C23_devfs_open_minor_witness :
    (devfs_open demo_dev_open 5 1 ([116, 116, 121] ++ [1, 2].map (fun d => d + 48)) file_zero [] =
        devfs_open_tty demo_dev_open 1 file_zero []
          ((Nat.ofDigits 10 ([1, 2] : List Nat).reverse : Nat) : Int) ∧
      ((path_to_num [120]).1 = 0 ∧
        devfs_open demo_dev_open 5 1 ([116, 116, 121] ++ [120]) file_zero [] =
          devfs_open_tty demo_dev_open 1 file_zero [] (path_to_num [120]).2)) ∧
    (devfs_open demo_dev_open 5 1 demo_tty12 file_zero []).2.2 = [(DEV_TTY, 12)] ∧
    (devfs_open demo_dev_open 5 1 demo_tty0 file_zero []).2.2 = [(DEV_TTY, 0)] ∧
    (devfs_open demo_dev_open 5 1 demo_ttyx file_zero []).2.2 = [(DEV_TTY, 72)] ∧
    (devfs_open demo_dev_open 5 1 demo_tty file_zero []).2.2 = [(DEV_TTY, 5)] ∧
    (devfs_open demo_dev_open 0 1 demo_tty file_zero []).2.2 = [(DEV_TTY, 0)] :=
  ⟨⟨(C23_devfs_open_minor demo_dev_open 5 1 file_zero []).2.1 [1, 2] (by decide) (by decide)
      (by decide),
    (C23_devfs_open_minor demo_dev_open 5 1 file_zero []).1 [120] (by decide)⟩,
    by decide, by decide, by decide, by decide, by decide⟩

/-! ### Claim on a failed `sys_open` -/

theorem task_file_with_fs {σ : Type} (X : kernel σ) (s : σ) (fd : Int) :
    task_file { X with fs := s } fd = task_file X fd := rfl

theorem task_file_file_put {σ : Type} (k : kernel σ) (p : Nat) (f : file_t) (fd : Int) :
    task_file (file_put k p f) fd = task_file k fd := rfl

/-- C26 (code against the claim).  The current task has a free descriptor
and the file table a free record (count 0), so `file_alloc` and
`task_alloc_fd` succeed; the `open` operation of the file system fails and
leaves the count of the record alone.  Then `sys_open` returns -1 through
the `return -1` that follows the call of the operation, which neither frees
the record nor removes the descriptor: a descriptor `fd` that was free before
the call points to the record `file` after it, and the count of that record,
0 before the call, is 1. -/
theorem C26_open_failure_keeps_descriptor {σ : Type}
    (fs_open : Nat → Option (List Nat) → file_t → σ → Int × file_t × σ)
    (k : kernel σ) (mt : mount_table_t) (name : List Nat) (flags : Nat)
    (hc : task_current k ≠ .null)
    (hrec : ∃ i, i < FILE_TABLE_SIZE ∧ (k.files i).ref = 0)
    (hslot : ∃ j, j < TASK_OFILE_NR ∧ (task_get k (task_current k)).file_table j = none)
    (hfail : ∀ fs n f s, (fs_open fs n f s).1 < 0)
    (href : ∀ fs n f s, (fs_open fs n f s).2.1.ref = f.ref) :
    (sys_open fs_open k mt name flags).1 = -1 ∧
    ∃ fd file, task_file k fd = none ∧
      task_file (sys_open fs_open k mt name flags).2 fd = some file ∧
      (k.files file).ref = 0 ∧ ((sys_open fs_open k mt name flags).2.files file).ref = 1 := by
  unfold sys_open
  unfold file_alloc
  cases hf : (List.range FILE_TABLE_SIZE).find? (fun i => decide ((k.files i).ref = 0)) with
  | none =>
    obtain ⟨i, hi, hz⟩ := hrec
    have := List.find?_eq_none.mp hf i (List.mem_range.mpr hi)
    simp [hz] at this
  | some file =>
    dsimp only
    have hz : (k.files file).ref = 0 := by
      have := List.find?_some hf
      simpa using this
    generalize hk0 : file_put k file { file_zero with ref := 1 } = k0
    have hcur0 : task_current k0 = task_current k := by rw [← hk0]; rfl
    have hget0 : ∀ q, task_get k0 q = task_get k q := by
      intro q; rw [← hk0]; exact file_put_task_get k file _ q
    have hfile0 : (k0.files file).ref = 1 := by
      rw [← hk0]
      unfold file_put
      dsimp only
      rw [if_pos rfl]
    unfold task_alloc_fd
    rw [hcur0, hget0]
    cases hg : (List.range TASK_OFILE_NR).find?
        (fun i => ((task_get k (task_current k)).file_table i).isNone) with
    | none =>
      obtain ⟨j, hj, hn⟩ := hslot
      have := List.find?_eq_none.mp hg j (List.mem_range.mpr hj)
      simp [hn] at this
    | some i =>
      dsimp only
      rw [hg]
      dsimp only
      have hi := List.find?_some hg
      have hlt : i < TASK_OFILE_NR := List.mem_range.mp (List.mem_of_find?_eq_some hg)
      have hnone : (task_get k (task_current k)).file_table i = none := by
        simpa using hi
      rw [if_neg (show ¬ ((i : Int) < 0) by omega), if_pos (by exact hfail _ _ _ _)]
      refine ⟨rfl, (i : Int), file, ?_, ?_, hz, ?_⟩
      · exact task_file_bad k _ (Or.inr (Or.inr (by rw [Int.toNat_ofNat]; exact hnone)))
      · rw [task_file_with_fs, task_file_file_put]
        unfold task_file
        rw [if_pos ⟨by omega, by have : TASK_OFILE_NR = 128 := rfl; omega⟩, Int.toNat_ofNat,
          task_put_current, hcur0, task_get_task_put, if_pos ⟨rfl, hc⟩]
        dsimp only
        rw [if_pos rfl]
      · unfold file_put
        dsimp only
        rw [if_pos rfl, href]
        dsimp only
        rw [(task_put_files k0 _ _).1]
        exact hfile0

/-- C26, at the state `demo_sched` with an `open` operation that fails:
`sys_open` returns -1, descriptor 0 of the current task, free before, points
to the file record 0 afterwards, and the count of that record is 1. -/
theorem C26_open_failure_keeps_descriptor_witness :
    (task_current demo_sched ≠ .null ∧
      (∃ i, i < FILE_TABLE_SIZE ∧ (demo_sched.files i).ref = 0) ∧
      (∃ j, j < TASK_OFILE_NR ∧
        (task_get demo_sched (task_current demo_sched)).file_table j = none)) ∧
    ((sys_open demo_open_fail demo_sched demo_mounts demo_open_path 0).1 = -1 ∧
      ∃ fd file, task_file demo_sched fd = none ∧
        task_file (sys_open demo_open_fail demo_sched demo_mounts demo_open_path 0).2 fd =
          some file ∧
        (demo_sched.files file).ref = 0 ∧
        ((sys_open demo_open_fail demo_sched demo_mounts demo_open_path 0).2.files file).ref
          = 1) :=
  ⟨⟨by decide, ⟨0, by decide, rfl⟩, ⟨0, by decide, rfl⟩⟩,
    C26_open_failure_keeps_descriptor demo_open_fail demo_sched demo_mounts demo_open_path 0
      (by decide) ⟨0, by decide, rfl⟩ ⟨0, by decide, rfl⟩
      (fun _ _ _ _ => (by decide : (-1 : Int) < 0)) (fun _ _ _ _ => rfl)⟩

/-! ### Claims on `fatfs_read` and on the loader: evaluation -/

/-- C27 (code at the failing input).  The file `a.txt` of
`demo_fat_small_file` has 5 bytes in one cluster of 512 bytes.  Opened for
reading, a read of 10 bytes at position 0 returns 5 and one at position 5
returns 0.  `fatfs_seek` to offset 100 returns 0 (the offset lies in the
first cluster) and leaves the position 100 beyond the size 5.  A read of 10
bytes then computes `nbytes = size - pos` in `uint32_t`, which is
`4294967201`; the test `cluster_offset + curr_read > cluster_byte_size`
wraps around to `5 > 512` and does not cut the count, so the copy to the
buffer is made with that count and the function returns it as an `int`: -95.
The bytes 10 to 15 of the destination memory, beyond the 10 bytes asked for,
have been overwritten. -/
theorem C27_read_beyond_size_wraps :
    demo_seek_read 0 10 =
      some ([0, 0, 5, 0, 5, 5], [1, 2, 3, 4, 5, 7, 7, 7, 7, 7, 7, 7, 7, 7, 7, 7]) ∧
    demo_seek_read 5 10 =
      some ([0, 0, 5, 5, 0, 5], [7, 7, 7, 7, 7, 7, 7, 7, 7, 7, 7, 7, 7, 7, 7, 7]) ∧
    demo_seek_read 100 10 =
      some ([0, 0, 5, 100, -95, 5], [0, 0, 0, 0, 0, 0, 0, 0, 0, 0, 0, 0, 0, 0, 0, 0]) := by
  refine ⟨by decide!, by decide!, by decide!⟩

/-- C28 (code at the failing input).  The image `demo_elf true` has two
loadable segments in the user range: the first program header describes
`0x80010000` with 4096 bytes of memory, the second `0x80000000` with 8
bytes, so the maximum of `p_vaddr + p_memsz` is `0x80011000`.
`load_elf_file` succeeds (it returns the entry address `0x80010000`) and
leaves `heap_start = heap_end = 0x80000008`, the end of the segment that
comes last in the table: the loop assigns `heap_start` after every segment
it loads.  With the same two program headers in the other order the heap
starts at `0x80011000`. -/
theorem C28_heap_is_last_segment :
    ((read_phdr (demo_elf true) 52).p_vaddr, (read_phdr (demo_elf true) 52).p_memsz,
      (read_phdr (demo_elf true) 84).p_vaddr, (read_phdr (demo_elf true) 84).p_memsz) =
      (0x80010000, 4096, 0x80000000, 8) ∧
    max (0x80010000 + 4096) (0x80000000 + 8) = 0x80011000 ∧
    demo_load_view (load_elf_file 100 (demo_load_env true) demo_heap demo_mem_dirty (.slot 0)
      demo_open_path 0x100000) = some (0x80010000, 0x80000008, 0x80000008) ∧
    demo_load_view (load_elf_file 100 (demo_load_env false) demo_heap demo_mem_dirty (.slot 0)
      demo_open_path 0x100000) = some (0x80010000, 0x80011000, 0x80011000) := by
  refine ⟨by decide!, by decide, by decide!, by decide!⟩

/-- C29 (counterexample).  The file of `demo_load_env` is open
as descriptor 0 and every byte of the free pages of `demo_mem_dirty` holds
`0xAA`.  `load_phdr` for the segment at `0x80000000` with `p_offset = 120`,
`p_filesz = 4` and `p_memsz = 8` returns 0.  The four bytes from
`0x80000000` on are the bytes 5, 6, 7, 8 of the file; the four bytes of the
range from `p_vaddr + p_filesz` up to `p_vaddr + p_memsz` still hold `0xAA`,
what the frame held before it was allocated: neither
`memory_alloc_for_page_dir` nor `load_phdr` writes to them. -/
theorem C29_segment_tail_not_zeroed :
    (sys_open (demo_load_env true).fs_open demo_heap demo_mounts demo_open_path 0).1 = 0 ∧
    demo_phdr_view (load_phdr 100 (demo_load_env true)
      (sys_open (demo_load_env true).fs_open demo_heap demo_mounts demo_open_path 0).2
      demo_mem_dirty 0 ⟨PT_LOAD, 120, 0x80000000, 4, 8⟩ 0x100000) =
      some (0, [5, 6, 7, 8, 0xAA, 0xAA, 0xAA, 0xAA]) := by
  refine ⟨by decide!, by decide!⟩

/-! ### Claim on `memory_free_page` -/

/-- C30 (code against the claim).  For a user-range address whose page is
present in the current page directory, `find_pte` returns a pointer that is
not null, the first operand `pte == 0` of the assertion is false, and
`memory_free_page` stops at the failed assertion: the frame is not freed and
the entry is not cleared. -/
theorem C30_free_page_assert_fires {σ : Type} (k : kernel σ) (m : mem_t) (addr : Nat)
    (huser : MEMORY_TASK_BASE ≤ addr)
    (hmapped : page_mapped m.pmem (current_page_dir k) addr) :
    memory_free_page k m addr = .halted := by
  unfold memory_free_page
  rw [if_neg (by omega)]
  unfold find_pte
  dsimp only
  rw [if_pos (by rw [hmapped.1]; decide)]

/-- C30, at the task of `demo_heap` on the memory `demo_mem_mapped`: the
page `0x80000000` is present and freeing it fails the assertion. -/
theorem C30_free_page_assert_fires_witness :
    (MEMORY_TASK_BASE ≤ 0x80000000 ∧
      page_mapped demo_mem_mapped.pmem (current_page_dir demo_heap) 0x80000000) ∧
    memory_free_page demo_heap demo_mem_mapped 0x80000000 = .halted :=
  ⟨⟨by decide, by unfold page_mapped; decide!⟩,
    C30_free_page_assert_fires demo_heap demo_mem_mapped 0x80000000 (by decide)
      (by unfold page_mapped; decide!)⟩

/-! ### Claim on the copy of an address space -/

section copy_uvm_bits

theorem user_vaddr_eq (i j : Nat) (hi : i < 1024) (hj : j < 1024) :
    ((i <<< 22) ||| (j <<< 12)) % 2 ^ 32 = i * 4194304 + j * 4096 := by
  have h1 : j * 2 ^ 12 < 2 ^ 22 := by omega
  rw [Nat.shiftLeft_eq, Nat.shiftLeft_eq, Nat.mul_comm i, ← Nat.mul_add_lt_is_or h1 i]
  omega

theorem user_index (d t o : Nat) (ht : t < 1024) (ho : o < 4096) :
    pde_index (d * 4194304 + t * 4096 + o) = d ∧ pte_index (d * 4194304 + t * 4096 + o) = t ∧
    (d * 4194304 + t * 4096 + o) % 4096 = o := by
  rw [pde_index_eq, pte_index_eq]
  omega

theorem get_pte_perm_eq (v : Nat) : get_pte_perm v = v % 512 := by
  unfold get_pte_perm
  exact Nat.and_pow_two_sub_one_eq_mod v 9

theorem or_one_odd : ∀ z, z < 512 → z % 2 = 1 → z ||| 1 = z := by decide!

theorem pte_paddr_eq (v : Nat) : pte_paddr v = v / 4096 % 1048576 * 4096 := by
  unfold pte_paddr
  rw [Nat.shiftRight_eq_div_pow, Nat.shiftLeft_eq]
  norm_num

theorem pde_paddr_eq (v : Nat) : pde_paddr v = v / 4096 % 1048576 * 4096 := by
  unfold pde_paddr
  rw [Nat.shiftRight_eq_div_pow, Nat.shiftLeft_eq]
  norm_num

/-- The entry that `memory_create_map` writes for the frame `page` with the
permission bits of a present entry `sv`. -/
theorem new_entry_spec (page sv : Nat) (hp : page % 4096 = 0) (h32 : page < 2 ^ 32)
    (hsv : entry_present sv = 1) :
    entry_present (page ||| get_pte_perm sv ||| PTE_P) = 1 ∧
    pte_paddr (page ||| get_pte_perm sv ||| PTE_P) = page ∧
    get_pte_perm (page ||| get_pte_perm sv ||| PTE_P) = get_pte_perm sv := by
  have hodd : sv % 2 = 1 := hsv
  have hy : get_pte_perm sv ||| PTE_P = get_pte_perm sv := by
    rw [get_pte_perm_eq]
    exact or_one_odd _ (by omega) (by omega)
  have hlt : get_pte_perm sv < 2 ^ 12 := by rw [get_pte_perm_eq]; omega
  have hW : page ||| get_pte_perm sv ||| PTE_P = page + get_pte_perm sv := by
    rw [Nat.or_assoc, hy]
    obtain ⟨a, ha⟩ : ∃ a, page = 2 ^ 12 * a := ⟨page / 4096, by omega⟩
    rw [ha]
    exact (Nat.mul_add_lt_is_or hlt a).symm
  rw [hW]
  refine ⟨?_, ?_, ?_⟩
  · unfold entry_present
    rw [get_pte_perm_eq]
    omega
  · rw [pte_paddr_eq]
    omega
  · rw [get_pte_perm_eq, get_pte_perm_eq]
    omega

end copy_uvm_bits

section copy_uvm_alloc

theorem bitmap_alloc_full (bitmap : bitmap_t)
    (hfull : ∀ i, i < bitmap.bit_count → bit_of bitmap i = true) :
    ∀ (fuel s : Nat), bitmap_alloc_nbits bitmap 0 1 fuel s = none ∨
      bitmap_alloc_nbits bitmap 0 1 fuel s = some (-1, bitmap) := by
  intro fuel
  induction fuel with
  | zero => intro s; exact Or.inl rfl
  | succ fuel ih =>
    intro s
    rw [bitmap_alloc_nbits]
    by_cases hs : s < bitmap.bit_count
    · rw [if_pos hs, bitmap_get_bit_eq, hfull s hs]
      simp only [if_true, ne_eq, one_ne_zero, not_false_eq_true]
      exact ih (s + 1)
    · rw [if_neg hs]
      exact Or.inr rfl

/-- What a successful `addr_alloc_page(1)` returns. -/
theorem addr_alloc_page_some (fuel : Nat) (alloc : addr_alloc_t) (hw : alloc_wf alloc)
    (hfuel : alloc.bitmap.bit_count + 1 ≤ fuel) (p : Nat) (alloc1 : addr_alloc_t)
    (h : addr_alloc_page fuel alloc 1 = some (p, alloc1)) (hp : p ≠ 0) :
    p % 4096 = 0 ∧ p + 4096 ≤ 2 ^ 32 ∧ frame_free alloc p ∧ alloc_wf alloc1 ∧
    (∀ q, frame_free alloc1 q ↔ frame_free alloc q ∧ q ≠ p) ∧
    alloc1.bitmap.bit_count = alloc.bitmap.bit_count := by
  by_cases hf : 0 < free_count alloc.bitmap
  · obtain ⟨p1, a1, e, _, h2, h3, h4, h5, h6, _, h8⟩ := addr_alloc_page_ok fuel alloc hw hf hfuel
    rw [e] at h
    injection h with h
    injection h with hp1 ha1
    subst hp1
    subst ha1
    exact ⟨h2, h3, h4, h5, h6, h8⟩
  · exfalso
    have hfull : ∀ i, i < alloc.bitmap.bit_count → bit_of alloc.bitmap i = true := by
      intro i hi
      have h0 : free_count alloc.bitmap = 0 := by omega
      unfold free_count at h0
      have := List.countP_eq_zero.mp h0 i (List.mem_range.mpr hi)
      simpa using this
    unfold addr_alloc_page at h
    rcases bitmap_alloc_full alloc.bitmap hfull fuel 0 with e | e
    · rw [e] at h; cases h
    · rw [e] at h
      dsimp only at h
      rw [if_neg (by decide)] at h
      injection h with h
      injection h with hp1 _
      exact hp hp1.symm

/-- The function `memory_create_map` for one page, spelled out. -/
theorem memory_create_map_one_eq (fuel : Nat) (m : mem_t) (dir v paddr perm : Nat) :
    memory_create_map fuel m dir v paddr 1 perm =
      match find_pte fuel m dir v 1 with
      | none => .out_of_fuel
      | some (none, m1) => .done (-1, m1)
      | some (some pte, m1) =>
        if entry_present (m1.pmem pte) ≠ 0 then .halted
        else .done (0, { m1 with pmem := fun a => if a = pte then paddr ||| perm ||| PTE_P
                                                    else m1.pmem a }) := by
  rw [memory_create_map]
  rcases find_pte fuel m dir v 1 with _ | ⟨_ | pte, m1⟩
  · rfl
  · rfl
  · dsimp only
    split
    · rfl
    · rw [memory_create_map]

end copy_uvm_alloc
section copy_uvm_map

theorem pte_paddr_aligned (v : Nat) : pte_paddr v % 4096 = 0 := by
  rw [pte_paddr_eq]
  omega

theorem frame_free_aligned (alloc : addr_alloc_t) (hw : alloc_wf alloc) (p : Nat)
    (h : frame_free alloc p) : p % 4096 = 0 ∧ p + 4096 ≤ 2 ^ 32 := by
  obtain ⟨i, hi, _, hp⟩ := h
  have h2 := hw.aligned
  have h4 := hw.top
  omega

/-- What `memory_create_map` does for one page `(i, j)` that is not mapped in
the directory `T`. -/
theorem create_map_user (fuel : Nat) (mA : mem_t) (T i j page perm : Nat) (err : Int)
    (m1 : mem_t) (hwf : alloc_wf mA.paddr_alloc)
    (hfuel : mA.paddr_alloc.bitmap.bit_count + 1 ≤ fuel)
    (hT : T % 4096 = 0) (hTu : ¬ frame_free mA.paddr_alloc T)
    (hi : i < 1024) (hj : j < 1024)
    (htab : entry_present (pde_at mA.pmem T i) = 1 → pde_paddr (pde_at mA.pmem T i) ≠ T)
    (hun : ¬ mapped_at mA.pmem T i j)
    (hc : memory_create_map fuel mA T (i * 4194304 + j * 4096) page 1 perm = .done (err, m1))
    (he : ¬ err < 0) :
    map_step mA m1 T i j (page ||| perm ||| PTE_P) := by
  have n10 : ¬ ((-1 : Int) < 0) → False := fun h => h (by decide)
  rw [memory_create_map_one_eq] at hc
  obtain ⟨ix1, ix2, _⟩ := user_index i j 0 hj (by omega)
  rw [Nat.add_zero] at ix1 ix2
  by_cases hp : entry_present (mA.pmem (T + 4 * i)) = 1
  · have hf : find_pte fuel mA T (i * 4194304 + j * 4096) 1 =
        some (some (pde_paddr (mA.pmem (T + 4 * i)) + 4 * j), mA) := by
      unfold find_pte
      dsimp only
      rw [ix1, ix2, if_pos (by rw [hp]; decide)]
    rw [hf] at hc
    dsimp only at hc
    have h0 : entry_present (mA.pmem (pde_paddr (mA.pmem (T + 4 * i)) + 4 * j)) = 0 :=
      (entry_present_cases _).resolve_right (fun h => hun ⟨hp, h⟩)
    rw [if_neg (by rw [h0]; decide)] at hc
    injection hc with hc
    injection hc with _ hm1
    have hal : m1.paddr_alloc = mA.paddr_alloc := by rw [← hm1]
    have hpm : ∀ a, m1.pmem a =
        if a = pde_paddr (mA.pmem (T + 4 * i)) + 4 * j then page ||| perm ||| PTE_P
        else mA.pmem a := by
      intro a
      rw [← hm1]
    have hne := htab hp
    unfold pde_at at hne
    have hpa := pde_paddr_aligned (mA.pmem (T + 4 * i))
    have hd : m1.pmem (T + 4 * i) = mA.pmem (T + 4 * i) := by
      rw [hpm, if_neg (by omega)]
    refine ⟨by rw [hal]; exact hwf, by rw [hal], fun q h => by rw [hal] at h; exact h, ?_, ?_,
      ?_, ?_, ?_⟩
    · show entry_present (m1.pmem (T + 4 * i)) = 1
      rw [hd]
      exact hp
    · exact Or.inl ⟨hp, hd, hal⟩
    · show m1.pmem (pde_paddr (m1.pmem (T + 4 * i)) + 4 * j) = _
      rw [hd, hpm, if_pos rfl]
    · intro t ht _
      show m1.pmem (pde_paddr (m1.pmem (T + 4 * i)) + 4 * t) = _
      rw [hd, hpm, if_neg (by omega)]
      unfold pde_at
      rw [if_pos hp]
      rfl
    · intro a _ ha
      unfold pde_at at ha
      rw [hd] at ha
      rw [hpm, if_neg (by omega)]
  · have hp0 : entry_present (mA.pmem (T + 4 * i)) = 0 :=
      (entry_present_cases _).resolve_right hp
    have hf : find_pte fuel mA T (i * 4194304 + j * 4096) 1 =
        match addr_alloc_page fuel mA.paddr_alloc 1 with
        | none => none
        | some (pg, a1) =>
          if pg = 0 then some (none, { mA with paddr_alloc := a1 })
          else some (some (pg + 4 * j),
            { paddr_alloc := a1,
              pmem := fun a => if pg ≤ a ∧ a < pg + MEM_PAGE_SIZE then 0
                else if a = T + 4 * i then pg ||| PTE_P ||| PTE_W ||| PDE_U
                else mA.pmem a }) := by
      unfold find_pte
      dsimp only
      rw [ix1, ix2, if_neg (by rw [hp0]; decide), if_neg (by decide)]
      try rfl
    rw [hf] at hc
    cases hal : addr_alloc_page fuel mA.paddr_alloc 1 with
    | none =>
      rw [hal] at hc
      cases hc
    | some r =>
      obtain ⟨pg, a1⟩ := r
      rw [hal] at hc
      dsimp only at hc
      by_cases hpg : pg = 0
      · rw [if_pos hpg] at hc
        dsimp only at hc
        injection hc with hc
        injection hc with he1 _
        exact absurd (he1 ▸ (by decide : (-1 : Int) < 0)) he
      · rw [if_neg hpg] at hc
        dsimp only at hc
        obtain ⟨f1, f2, f3, f4, f5, f6⟩ :=
          addr_alloc_page_some fuel mA.paddr_alloc hwf hfuel pg a1 hal hpg
        have hpgT : pg ≠ T := fun h => hTu (h ▸ f3)
        have hz : (if pg ≤ pg + 4 * j ∧ pg + 4 * j < pg + MEM_PAGE_SIZE then 0
            else if pg + 4 * j = T + 4 * i then pg ||| PTE_P ||| PTE_W ||| PDE_U
            else mA.pmem (pg + 4 * j)) = 0 := by
          rw [if_pos ⟨by omega, by show _ < pg + 4096; omega⟩]
        rw [hz, if_neg (by decide)] at hc
        injection hc with hc
        injection hc with _ hm1
        have hal1 : m1.paddr_alloc = a1 := by rw [← hm1]
        have hpm : ∀ a, m1.pmem a =
            if a = pg + 4 * j then page ||| perm ||| PTE_P
            else if pg ≤ a ∧ a < pg + 4096 then 0
            else if a = T + 4 * i then pg ||| PTE_P ||| PTE_W ||| PDE_U
            else mA.pmem a := by
          intro a
          rw [← hm1]
          rfl
        have hpp := entry_present_table pg f1
        have hpa := pde_paddr_table pg f1 (by omega)
        have hd : m1.pmem (T + 4 * i) = pg ||| PTE_P ||| PTE_W ||| PDE_U := by
          rw [hpm, if_neg (by omega), if_neg (by omega), if_pos rfl]
        refine ⟨by rw [hal1]; exact f4, by rw [hal1]; exact f6,
          fun q h => by rw [hal1] at h; exact ((f5 q).mp h).1, ?_, ?_, ?_, ?_, ?_⟩
        · show entry_present (m1.pmem (T + 4 * i)) = 1
          rw [hd]
          exact hpp
        · refine Or.inr ⟨hp, ?_, ?_⟩
          · show frame_free _ (pde_paddr (m1.pmem (T + 4 * i)))
            rw [hd, hpa]
            exact f3
          · show ¬ frame_free _ (pde_paddr (m1.pmem (T + 4 * i)))
            rw [hd, hpa, hal1]
            exact fun h => ((f5 pg).mp h).2 rfl
        · show m1.pmem (pde_paddr (m1.pmem (T + 4 * i)) + 4 * j) = _
          rw [hd, hpa, hpm, if_pos rfl]
        · intro t ht ht2
          show m1.pmem (pde_paddr (m1.pmem (T + 4 * i)) + 4 * t) = _
          rw [hd, hpa, hpm, if_neg (by omega), if_pos ⟨by omega, by omega⟩]
          unfold pde_at
          rw [if_neg hp]
        · intro a ha1 ha2
          unfold pde_at at ha2
          rw [hd, hpa] at ha2
          rw [hpm, if_neg (by omega), if_neg ha2, if_neg ha1]

end copy_uvm_map
section copy_uvm_step

theorem page_of_add (p o : Nat) (hp : p % 4096 = 0) (ho : o < 4096) :
    (p + o) / 4096 * 4096 = p := by
  omega

/-- What a step `map_step` of `memory_create_map` leaves as it was, in a
state that satisfies `copy_inv`; `mA` is the state `m` after the frame to be
mapped has been taken from the allocator. -/
theorem map_step_others (m0 m mA m1 : mem_t) (S T i j W c : Nat)
    (hinv : copy_inv m0 m S T c) (hmA : mA.pmem = m.pmem)
    (hsubA : ∀ q, frame_free mA.paddr_alloc q → frame_free m.paddr_alloc q)
    (hst : map_step mA m1 T i j W) (hi : 512 ≤ i) (hi2 : i < 1024) :
    (frame_free m0.paddr_alloc (pde_paddr (pde_at m1.pmem T i)) ∧
      ¬ frame_free m1.paddr_alloc (pde_paddr (pde_at m1.pmem T i)) ∧
      pde_paddr (pde_at m1.pmem T i) ≠ T) ∧
    (∀ q, frame_free m.paddr_alloc q → ¬ frame_free mA.paddr_alloc q →
      q ≠ pde_paddr (pde_at m1.pmem T i)) ∧
    (∀ d, d < 1024 → d ≠ i → pde_at m1.pmem T d = pde_at m.pmem T d) ∧
    (∀ d, 512 ≤ d → d < 1024 → d ≠ i → entry_present (pde_at m.pmem T d) = 1 →
      pde_paddr (pde_at m.pmem T d) ≠ pde_paddr (pde_at m1.pmem T i) ∧
      ∀ t, t < 1024 → pte_at m1.pmem T d t = pte_at m.pmem T d t) ∧
    (∀ t, t ≠ j → t < 1024 →
      pte_at m1.pmem T i t =
        if entry_present (pde_at m.pmem T i) = 1 then pte_at m.pmem T i t else 0) ∧
    (∀ d t, 512 ≤ d → d < 1024 → t < 1024 → mapped_at m.pmem T d t →
      pte_paddr (pte_at m.pmem T d t) ≠ pde_paddr (pde_at m1.pmem T i) ∧
      ∀ o, o < 4096 →
        m1.pmem (pte_paddr (pte_at m.pmem T d t) + o) =
          m.pmem (pte_paddr (pte_at m.pmem T d t) + o)) ∧
    (∀ a, ¬ frame_free m0.paddr_alloc (a / 4096 * 4096) → m1.pmem a = m.pmem a) ∧
    (entry_present (pde_at m.pmem T i) = 1 → pde_at m1.pmem T i = pde_at m.pmem T i) := by
  have hTa := hinv.dir_aligned
  have hrest := hst.rest
  have hother := hst.pte_other
  have htable := hst.table
  rw [hmA] at hrest hother htable
  have hpa := (pde_paddr_aligned (pde_at m1.pmem T i)).1
  have p8 : entry_present (pde_at m.pmem T i) = 1 → pde_at m1.pmem T i = pde_at m.pmem T i := by
    intro hp
    rcases htable with ⟨_, h, _⟩ | ⟨h, _, _⟩
    · exact h
    · exact absurd hp h
  have p1 : frame_free m0.paddr_alloc (pde_paddr (pde_at m1.pmem T i)) ∧
      ¬ frame_free m1.paddr_alloc (pde_paddr (pde_at m1.pmem T i)) ∧
      pde_paddr (pde_at m1.pmem T i) ≠ T := by
    rcases htable with ⟨hp, h, _⟩ | ⟨_, h1, h2⟩
    · obtain ⟨t1, t2, t3⟩ := hinv.tab i hi hi2 hp
      rw [h]
      exact ⟨t1, fun hf => t2 (hsubA _ (hst.sub _ hf)), t3⟩
    · exact ⟨hinv.sub _ (hsubA _ h1), h2, fun e => hinv.dir_used (e ▸ hsubA _ h1)⟩
  have p2 : ∀ q, frame_free m.paddr_alloc q → ¬ frame_free mA.paddr_alloc q →
      q ≠ pde_paddr (pde_at m1.pmem T i) := by
    intro q hq hq2 e
    rcases htable with ⟨hp, h, _⟩ | ⟨_, h1, _⟩
    · rw [h] at e
      exact (hinv.tab i hi hi2 hp).2.1 (e ▸ hq)
    · exact hq2 (e ▸ h1)
  have p3 : ∀ d, d < 1024 → d ≠ i → pde_at m1.pmem T d = pde_at m.pmem T d := by
    intro d hd hne
    have h3 := p1.2.2
    exact hrest (T + 4 * d) (by omega) (by omega)
  have p4a : ∀ d, 512 ≤ d → d < 1024 → d ≠ i → entry_present (pde_at m.pmem T d) = 1 →
      pde_paddr (pde_at m.pmem T d) ≠ pde_paddr (pde_at m1.pmem T i) := by
    intro d hd hd2 hne hp e
    rcases htable with ⟨hpi, h, _⟩ | ⟨_, h1, _⟩
    · rw [h] at e
      exact hne (hinv.tab_inj d i hd hd2 hi hi2 hp hpi e)
    · exact (hinv.tab d hd hd2 hp).2.1 (e ▸ hsubA _ h1)
  refine ⟨p1, p2, p3, fun d hd hd2 hne hp => ⟨p4a d hd hd2 hne hp, fun t ht => ?_⟩, hother,
    fun d t hd hd2 ht hm => ?_, fun a ha => ?_, p8⟩
  · have h1 := p4a d hd hd2 hne hp
    have h2 := (hinv.tab d hd hd2 hp).2.2
    have h3 := (pde_paddr_aligned (pde_at m.pmem T d)).1
    show m1.pmem (pde_paddr (pde_at m1.pmem T d) + 4 * t) = _
    rw [p3 d hd2 hne]
    exact hrest _ (by omega) (by omega)
  · obtain ⟨l1, l2, l3, l4⟩ := hinv.leaf d t hd hd2 ht hm
    have h3 := pte_paddr_aligned (pte_at m.pmem T d t)
    have hne : pte_paddr (pte_at m.pmem T d t) ≠ pde_paddr (pde_at m1.pmem T i) := by
      intro e
      rcases htable with ⟨hpi, h, _⟩ | ⟨_, h1, _⟩
      · rw [h] at e
        exact l4 i hi hi2 hpi e
      · exact l2 (e ▸ hsubA _ h1)
    exact ⟨hne, fun o ho => hrest _ (by omega) (by omega)⟩
  · refine hrest a (fun e => ha ?_) (fun e => ha ?_)
    · rw [e, page_of_add T (4 * i) hTa (by omega)]
      exact hinv.dir_was_free
    · have : a / 4096 * 4096 = pde_paddr (pde_at m1.pmem T i) := by omega
      rw [this]
      exact p1.1

end copy_uvm_step
section copy_uvm_inv

theorem pte_at_eq (pm pm1 : Nat → Nat) (T d t : Nat) (h1 : pde_at pm T d = pde_at pm1 T d)
    (h2 : pm (pde_paddr (pde_at pm1 T d) + 4 * t) = pm1 (pde_paddr (pde_at pm1 T d) + 4 * t)) :
    pte_at pm T d t = pte_at pm1 T d t := by
  show pm (pde_paddr (pde_at pm T d) + 4 * t) = pm1 (pde_paddr (pde_at pm1 T d) + 4 * t)
  rw [h1]
  exact h2

theorem entry_present_zero : ¬ entry_present 0 = 1 := by decide

/-- One turn of the inner loop of `memory_copy_uvm` that copies the page
`(i, j)` keeps `copy_inv`: `mA` is the state after `addr_alloc_page` has
returned `page`, `m1` the state after `memory_create_map`, `m2` the state
after `kernel_memcpy`. -/
theorem copy_step_inv (m0 m mA m1 m2 : mem_t) (S T i j W page : Nat)
    (hinv : copy_inv m0 m S T (i * 1024 + j))
    (hi : 512 ≤ i) (hi2 : i < 1024) (hj : j < 1024)
    (hsrc : mapped_at m0.pmem S i j)
    (hmA : mA.pmem = m.pmem)
    (hpa : page % 4096 = 0)
    (hpf : frame_free m.paddr_alloc page)
    (hfA : ∀ q, frame_free mA.paddr_alloc q ↔ frame_free m.paddr_alloc q ∧ q ≠ page)
    (hcntA : mA.paddr_alloc.bitmap.bit_count = m.paddr_alloc.bitmap.bit_count)
    (hst : map_step mA m1 T i j W)
    (hW : entry_present W = 1 ∧ pte_paddr W = page ∧
      get_pte_perm W = get_pte_perm (pte_at m0.pmem S i j))
    (hal2 : m2.paddr_alloc = m1.paddr_alloc)
    (hpm2 : ∀ a, m2.pmem a =
      if page ≤ a ∧ a < page + 4096 then
        m0.pmem (pte_paddr (pte_at m0.pmem S i j) + (a - page))
      else m1.pmem a) :
    copy_inv m0 m2 S T (i * 1024 + j + 1) := by
  have hsubA : ∀ q, frame_free mA.paddr_alloc q → frame_free m.paddr_alloc q :=
    fun q h => ((hfA q).mp h).1
  obtain ⟨p1, p2, p3, p4, p5, p6, p7, p8⟩ := map_step_others m0 m mA m1 S T i j W _ hinv hmA hsubA
    hst hi hi2
  have hTa := hinv.dir_aligned
  have hpnA : ¬ frame_free mA.paddr_alloc page := fun h => ((hfA _).mp h).2 rfl
  have hpt1 : page ≠ pde_paddr (pde_at m1.pmem T i) := p2 page hpf hpnA
  have hpT : page ≠ T := fun e => hinv.dir_used (e ▸ hpf)
  have hsub2 : ∀ q, frame_free m2.paddr_alloc q → frame_free m.paddr_alloc q := by
    intro q h
    rw [hal2] at h
    exact hsubA _ (hst.sub _ h)
  have hused : ∀ q, ¬ frame_free m.paddr_alloc q → q ≠ page := fun q h e => h (e ▸ hpf)
  have g1 : ∀ d, d < 1024 → pde_at m2.pmem T d = pde_at m1.pmem T d := by
    intro d hd
    show m2.pmem (T + 4 * d) = m1.pmem (T + 4 * d)
    rw [hpm2, if_neg (by omega)]
  have h1 : ∀ d, d < 1024 → d ≠ i → pde_at m2.pmem T d = pde_at m.pmem T d :=
    fun d hd hne => (g1 d hd).trans (p3 d hd hne)
  have hpi : entry_present (pde_at m2.pmem T i) = 1 := by
    rw [g1 i hi2]
    exact hst.pde_i
  have g2 : ∀ d, 512 ≤ d → d < 1024 → entry_present (pde_at m1.pmem T d) = 1 → ∀ t, t < 1024 →
      pte_at m2.pmem T d t = pte_at m1.pmem T d t := by
    intro d hd hd2 hp t ht
    refine pte_at_eq _ _ T d t (g1 d hd2) ?_
    have hne : pde_paddr (pde_at m1.pmem T d) ≠ page := by
      by_cases hdi : d = i
      · rw [hdi]
        exact fun e => hpt1 e.symm
      · rw [p3 d hd2 hdi] at hp ⊢
        exact hused _ (hinv.tab d hd hd2 hp).2.1
    have ha := (pde_paddr_aligned (pde_at m1.pmem T d)).1
    rw [hpm2, if_neg (by omega)]
  have h3 : pte_at m2.pmem T i j = W := (g2 i hi hi2 hst.pde_i j hj).trans hst.pte_j
  have hM : ∀ d t, 512 ≤ d → d < 1024 → t < 1024 → (d ≠ i ∨ t ≠ j) →
      (mapped_at m2.pmem T d t ↔ mapped_at m.pmem T d t) ∧
      (mapped_at m.pmem T d t → pte_at m2.pmem T d t = pte_at m.pmem T d t) := by
    intro d t hd hd2 ht hne
    by_cases hdi : d = i
    · subst hdi
      have htj : t ≠ j := by
        rcases hne with h | h
        · exact absurd rfl h
        · exact h
      have e := (g2 d hd hd2 hst.pde_i t ht).trans (p5 t htj ht)
      by_cases hp : entry_present (pde_at m.pmem T d) = 1
      · rw [if_pos hp] at e
        unfold mapped_at
        rw [e]
        exact ⟨⟨fun h => ⟨hp, h.2⟩, fun h => ⟨hpi, h.2⟩⟩, fun _ => rfl⟩
      · rw [if_neg hp] at e
        unfold mapped_at
        rw [e]
        exact ⟨⟨fun h => absurd h.2 entry_present_zero, fun h => absurd h.1 hp⟩,
          fun h => absurd h.1 hp⟩
    · have e1 := h1 d hd2 hdi
      by_cases hp : entry_present (pde_at m.pmem T d) = 1
      · have e := (g2 d hd hd2 (by rw [p3 d hd2 hdi]; exact hp) t ht).trans
          ((p4 d hd hd2 hdi hp).2 t ht)
        unfold mapped_at
        rw [e, e1]
        exact ⟨Iff.rfl, fun _ => rfl⟩
      · unfold mapped_at
        rw [e1]
        exact ⟨⟨fun h => absurd h.1 hp, fun h => absurd h.1 hp⟩, fun h => absurd h.1 hp⟩
  have hsplit : ∀ d t, (d = i ∧ t = j) ∨ (d ≠ i ∨ t ≠ j) := by
    intro d t
    by_cases h1 : d = i
    · by_cases h2 : t = j
      · exact Or.inl ⟨h1, h2⟩
      · exact Or.inr (Or.inr h2)
    · exact Or.inr (Or.inl h1)
  refine ⟨by rw [hal2]; exact hst.wf, by rw [hal2, hst.cnt, hcntA, hinv.cnt],
    fun q h => hinv.sub _ (hsub2 q h), fun a ha => ?_, hTa, hinv.dir_was_free,
    fun h => hinv.dir_used (hsub2 _ h), fun d hd hd2 hp => ?_, fun d e hd hd2 he he2 hp hq heq => ?_,
    fun d t hd hd2 ht hm => ?_, fun d t hd hd2 ht hc => ?_, fun d t hd hd2 ht hc hm => ?_⟩
  · have hn : ¬ (page ≤ a ∧ a < page + 4096) := by
      intro h
      apply ha
      have : a / 4096 * 4096 = page := by omega
      rw [this]
      exact hinv.sub _ hpf
    rw [hpm2, if_neg hn, p7 a ha, hinv.keep a ha]
  · by_cases hdi : d = i
    · subst hdi
      rw [g1 d hd2]
      exact ⟨p1.1, fun h => p1.2.1 (hal2 ▸ h), p1.2.2⟩
    · rw [h1 d hd2 hdi] at hp ⊢
      obtain ⟨t1, t2, t3⟩ := hinv.tab d hd hd2 hp
      exact ⟨t1, fun h => t2 (hsub2 _ h), t3⟩
  · by_cases hdi : d = i
    · by_cases hei : e = i
      · rw [hdi, hei]
      · exfalso
        rw [h1 e he2 hei] at hq heq
        rw [hdi, g1 i hi2] at heq
        exact (p4 e he he2 hei hq).1 heq.symm
    · by_cases hei : e = i
      · exfalso
        rw [h1 d hd2 hdi] at hp heq
        rw [hei, g1 i hi2] at heq
        exact (p4 d hd hd2 hdi hp).1 heq
      · rw [h1 d hd2 hdi] at hp heq
        rw [h1 e he2 hei] at hq heq
        exact hinv.tab_inj d e hd hd2 he he2 hp hq heq
  · rcases hsplit d t with ⟨hdi, htj⟩ | hne
    · subst hdi
      subst htj
      rw [h3, hW.2.1]
      refine ⟨hinv.sub _ hpf, fun h => hpnA (hst.sub _ (hal2 ▸ h)), hpT, fun e he he2 hp => ?_⟩
      by_cases hei : e = d
      · rw [hei, g1 d hd2]
        exact hpt1
      · rw [h1 e he2 hei] at hp ⊢
        exact fun e1 => hused _ (hinv.tab e he he2 hp).2.1 e1.symm
    · obtain ⟨e1, e2⟩ := hM d t hd hd2 ht hne
      have hm0 := e1.mp hm
      rw [e2 hm0]
      obtain ⟨l1, l2, l3, l4⟩ := hinv.leaf d t hd hd2 ht hm0
      refine ⟨l1, fun h => l2 (hsub2 _ h), l3, fun e he he2 hp => ?_⟩
      by_cases hei : e = i
      · rw [hei, g1 i hi2]
        exact (p6 d t hd hd2 ht hm0).1
      · rw [h1 e he2 hei] at hp ⊢
        exact l4 e he he2 hp
  · rcases hsplit d t with ⟨hdi, htj⟩ | hne
    · subst hdi
      subst htj
      refine ⟨⟨fun _ => hsrc, fun _ => ⟨hpi, by rw [h3]; exact hW.1⟩⟩, fun _ => ?_⟩
      rw [h3, hW.2.1]
      refine ⟨hW.2.2, fun o ho => ?_⟩
      rw [hpm2, if_pos ⟨by omega, by omega⟩, Nat.add_sub_cancel_left]
    · obtain ⟨e1, e2⟩ := hM d t hd hd2 ht hne
      obtain ⟨dm, dc⟩ := hinv.done d t hd hd2 ht (by omega)
      refine ⟨e1.trans dm, fun hs => ?_⟩
      have hm0 := dm.mpr hs
      rw [e2 hm0]
      refine ⟨(dc hs).1, fun o ho => ?_⟩
      obtain ⟨_, l2, _, _⟩ := hinv.leaf d t hd hd2 ht hm0
      have hne2 := hused _ l2
      have ha := pte_paddr_aligned (pte_at m.pmem T d t)
      rw [hpm2, if_neg (by omega), (p6 d t hd hd2 ht hm0).2 o ho]
      exact (dc hs).2 o ho
  · have hne : d ≠ i ∨ t ≠ j := by omega
    exact hinv.todo d t hd hd2 ht (by omega) ((hM d t hd hd2 ht hne).1.mp hm)

end copy_uvm_inv
section copy_uvm_loops

/-- Memory that is as at the call in the pages that were not free shows the
user window of the source directory as at the call. -/
theorem keep_src (alloc0 : addr_alloc_t) (pm0 pm : Nat → Nat) (S : Nat)
    (hown : uvm_owned alloc0 pm0 S)
    (hk : ∀ a, ¬ frame_free alloc0 (a / 4096 * 4096) → pm a = pm0 a)
    (d : Nat) (hd : 512 ≤ d) (hd2 : d < 1024) :
    pde_at pm S d = pde_at pm0 S d ∧
    (entry_present (pde_at pm0 S d) = 1 → ∀ t, t < 1024 →
      pte_at pm S d t = pte_at pm0 S d t ∧
      (entry_present (pte_at pm0 S d t) = 1 → ∀ o, o < 4096 →
        pm (pte_paddr (pte_at pm0 S d t) + o) = pm0 (pte_paddr (pte_at pm0 S d t) + o))) := by
  have e1 : pde_at pm S d = pde_at pm0 S d := by
    refine hk _ ?_
    rw [page_of_add S (4 * d) hown.dir_aligned (by omega)]
    exact hown.dir_used
  refine ⟨e1, fun hp t ht => ⟨pte_at_eq pm pm0 S d t e1 (hk _ ?_), fun hq o ho => hk _ ?_⟩⟩
  · rw [page_of_add _ (4 * t) (pde_paddr_aligned _).1 (by omega)]
    exact hown.table_used d hd hd2 hp
  · rw [page_of_add _ o (pte_paddr_aligned _) ho]
    exact hown.frame_used d t hd hd2 ht hp hq

/-- What `kernel_memcpy` reads at the offset `o` of the user page `(i, j)`
of the source directory. -/
theorem memcpy_src (alloc0 : addr_alloc_t) (pm0 pm : Nat → Nat) (S i j o : Nat)
    (hown : uvm_owned alloc0 pm0 S)
    (hk : ∀ a, ¬ frame_free alloc0 (a / 4096 * 4096) → pm a = pm0 a)
    (hi : 512 ≤ i) (hi2 : i < 1024) (hj : j < 1024) (ho : o < 4096)
    (hsrc : mapped_at pm0 S i j) :
    pm (mmu_paddr pm S (i * 4194304 + j * 4096 + o)) =
      pm0 (pte_paddr (pte_at pm0 S i j) + o) := by
  obtain ⟨x1, x2, x3⟩ := user_index i j o hj ho
  obtain ⟨_, k2⟩ := keep_src alloc0 pm0 pm S hown hk i hi hi2
  obtain ⟨k3, k4⟩ := k2 hsrc.1 j hj
  have e : mmu_paddr pm S (i * 4194304 + j * 4096 + o) = pte_paddr (pte_at pm S i j) + o := by
    unfold mmu_paddr
    rw [x1, x2]
    show _ + (i * 4194304 + j * 4096 + o) % 4096 = _
    rw [x3]
    rfl
  rw [e, k3]
  exact k4 hsrc.2 o ho

/-- The loops may pass over pages that the source does not map. -/
theorem copy_inv_advance (m0 m : mem_t) (S T c c1 : Nat) (hinv : copy_inv m0 m S T c)
    (hc : c ≤ c1)
    (hskip : ∀ d t, 512 ≤ d → d < 1024 → t < 1024 → c ≤ d * 1024 + t → d * 1024 + t < c1 →
      ¬ mapped_at m0.pmem S d t) :
    copy_inv m0 m S T c1 := by
  refine ⟨hinv.wf, hinv.cnt, hinv.sub, hinv.keep, hinv.dir_aligned, hinv.dir_was_free,
    hinv.dir_used, hinv.tab, hinv.tab_inj, hinv.leaf, fun d t hd hd2 ht hlt => ?_,
    fun d t hd hd2 ht hle => hinv.todo d t hd hd2 ht (by omega)⟩
  by_cases h : d * 1024 + t < c
  · exact hinv.done d t hd hd2 ht h
  · have h1 := hskip d t hd hd2 ht (by omega) hlt
    have h2 := hinv.todo d t hd hd2 ht (by omega)
    exact ⟨⟨fun x => absurd x h2, fun x => absurd x h1⟩, fun x => absurd x h1⟩

/-- The inner loop of `memory_copy_uvm` over the source page table of the
directory entry `i`. -/
theorem copy_uvm_table_inv (fuel : Nat) (m0 : mem_t) (S T i : Nat)
    (hown : uvm_owned m0.paddr_alloc m0.pmem S)
    (hfuel : m0.paddr_alloc.bitmap.bit_count + 1 ≤ fuel)
    (hi : 512 ≤ i) (hi2 : i < 1024) (hpde : entry_present (pde_at m0.pmem S i) = 1) :
    ∀ (n j : Nat) (m r : mem_t), j + n = 1024 → copy_inv m0 m S T (i * 1024 + j) →
      copy_uvm_table fuel S T (pde_paddr (pde_at m0.pmem S i)) i n j m = .done (true, r) →
      copy_inv m0 r S T ((i + 1) * 1024) := by
  intro n
  induction n with
  | zero =>
    intro j m r hj hinv hc
    rw [copy_uvm_table] at hc
    injection hc with hc
    injection hc with _ hm
    have e : i * 1024 + j = (i + 1) * 1024 := by omega
    rw [← hm, ← e]
    exact hinv
  | succ n ih =>
    intro j m r hjn hinv hc
    have hj : j < 1024 := by omega
    have hsv : m.pmem (pde_paddr (pde_at m0.pmem S i) + 4 * j) = pte_at m0.pmem S i j := by
      refine hinv.keep _ ?_
      rw [page_of_add _ (4 * j) (pde_paddr_aligned _).1 (by omega)]
      exact hown.table_used i hi hi2 hpde
    rw [copy_uvm_table, hsv] at hc
    by_cases hq : entry_present (pte_at m0.pmem S i j) = 0
    · rw [if_pos hq] at hc
      refine ih (j + 1) m r (by omega) ?_ hc
      refine copy_inv_advance m0 m S T _ _ hinv (by omega) (fun d t hd hd2 ht h1 h2 hm => ?_)
      have hd : d = i := by omega
      have ht : t = j := by omega
      rw [hd, ht] at hm
      rw [hm.2] at hq
      exact absurd hq (by decide)
    · rw [if_neg hq] at hc
      have hq1 : entry_present (pte_at m0.pmem S i j) = 1 :=
        (entry_present_cases _).resolve_left hq
      cases hal : addr_alloc_page fuel m.paddr_alloc 1 with
      | none =>
        rw [hal] at hc
        cases hc
      | some pr =>
        obtain ⟨page, alloc1⟩ := pr
        rw [hal] at hc
        dsimp only at hc
        by_cases hpg : page = 0
        · rw [if_pos hpg] at hc
          injection hc with hc
          injection hc with hb _
          cases hb
        · rw [if_neg hpg, user_vaddr_eq i j hi2 hj] at hc
          obtain ⟨f1, f2, f3, f4, f5, f6⟩ := addr_alloc_page_some fuel m.paddr_alloc hinv.wf
            (by rw [hinv.cnt]; exact hfuel) page alloc1 hal hpg
          cases hcm : memory_create_map fuel { m with paddr_alloc := alloc1 } T
              (i * 4194304 + j * 4096) page 1 (get_pte_perm (pte_at m0.pmem S i j)) with
          | out_of_fuel =>
            rw [hcm] at hc
            cases hc
          | halted =>
            rw [hcm] at hc
            cases hc
          | done em =>
            obtain ⟨err, m1⟩ := em
            rw [hcm] at hc
            dsimp only at hc
            by_cases he : err < 0
            · rw [if_pos he] at hc
              injection hc with hc
              injection hc with hb _
              cases hb
            · rw [if_neg he] at hc
              refine ih (j + 1) _ r (by omega) ?_ hc
              rw [← Nat.add_assoc]
              have hsubA : ∀ q, frame_free alloc1 q → frame_free m.paddr_alloc q :=
                fun q h => ((f5 q).mp h).1
              have hst := create_map_user fuel { m with paddr_alloc := alloc1 } T i j page
                (get_pte_perm (pte_at m0.pmem S i j)) err m1 f4
                (by show alloc1.bitmap.bit_count + 1 ≤ fuel; rw [f6, hinv.cnt]; exact hfuel)
                hinv.dir_aligned (fun h => hinv.dir_used (hsubA _ h)) hi2 hj
                (fun hp => (hinv.tab i hi hi2 hp).2.2)
                (hinv.todo i j hi hi2 hj (Nat.le_refl _)) hcm he
              have hsrc : mapped_at m0.pmem S i j := ⟨hpde, hq1⟩
              obtain ⟨_, _, _, _, _, _, p7, _⟩ := map_step_others m0 m
                { m with paddr_alloc := alloc1 } m1 S T i j _ _ hinv rfl hsubA hst hi hi2
              have hk1 : ∀ a, ¬ frame_free m0.paddr_alloc (a / 4096 * 4096) →
                  m1.pmem a = m0.pmem a := fun a ha => (p7 a ha).trans (hinv.keep a ha)
              refine copy_step_inv m0 m { m with paddr_alloc := alloc1 } m1 _ S T i j _ page
                hinv hi hi2 hj hsrc rfl f1 f3 f5 f6 hst
                (new_entry_spec page _ f1 (by omega) hq1) rfl (fun a => ?_)
              show (if page ≤ a ∧ a < page + 4096 then
                  m1.pmem (mmu_paddr m1.pmem S (i * 4194304 + j * 4096 + (a - page)))
                else m1.pmem a) = _
              by_cases ha : page ≤ a ∧ a < page + 4096
              · rw [if_pos ha, if_pos ha]
                exact memcpy_src m0.paddr_alloc m0.pmem m1.pmem S i j (a - page) hown hk1 hi hi2
                  hj (by omega) hsrc
              · rw [if_neg ha, if_neg ha]

end copy_uvm_loops
section copy_uvm_whole

/-- The outer loop of `memory_copy_uvm`. -/
theorem copy_uvm_dirs_inv (fuel : Nat) (m0 : mem_t) (S T : Nat)
    (hown : uvm_owned m0.paddr_alloc m0.pmem S)
    (hfuel : m0.paddr_alloc.bitmap.bit_count + 1 ≤ fuel) :
    ∀ (n i : Nat) (m r : mem_t), i + n = 1024 → 512 ≤ i → copy_inv m0 m S T (i * 1024) →
      copy_uvm_dirs fuel S S T n i m = .done (true, r) → copy_inv m0 r S T (1024 * 1024) := by
  intro n
  induction n with
  | zero =>
    intro i m r hi _ hinv hc
    rw [copy_uvm_dirs] at hc
    injection hc with hc
    injection hc with _ hm
    have e : i * 1024 = 1024 * 1024 := by omega
    rw [← hm, ← e]
    exact hinv
  | succ n ih =>
    intro i m r hin hi hinv hc
    have hi2 : i < 1024 := by omega
    have hpd : m.pmem (S + 4 * i) = pde_at m0.pmem S i := by
      refine hinv.keep _ ?_
      rw [page_of_add S (4 * i) hown.dir_aligned (by omega)]
      exact hown.dir_used
    rw [copy_uvm_dirs, hpd] at hc
    by_cases hq : entry_present (pde_at m0.pmem S i) = 0
    · rw [if_pos hq] at hc
      refine ih (i + 1) m r (by omega) (by omega) ?_ hc
      refine copy_inv_advance m0 m S T _ _ hinv (by omega) (fun d t hd hd2 ht h1 h2 hm => ?_)
      have hd : d = i := by omega
      rw [hd] at hm
      rw [hm.1] at hq
      exact absurd hq (by decide)
    · rw [if_neg hq] at hc
      have hq1 : entry_present (pde_at m0.pmem S i) = 1 :=
        (entry_present_cases _).resolve_left hq
      cases hct : copy_uvm_table fuel S T (pde_paddr (pde_at m0.pmem S i)) i PTE_CNT 0 m with
      | out_of_fuel =>
        rw [hct] at hc
        cases hc
      | halted =>
        rw [hct] at hc
        cases hc
      | done bm =>
        obtain ⟨ok, m1⟩ := bm
        rw [hct] at hc
        dsimp only at hc
        cases ok with
        | false =>
          rw [if_neg (by decide)] at hc
          injection hc with hc
          injection hc with hb _
          cases hb
        | true =>
          rw [if_pos rfl] at hc
          exact ih (i + 1) m1 r (by omega) (by omega)
            (copy_uvm_table_inv fuel m0 S T i hown hfuel hi hi2 hq1 1024 0 m m1 (by omega)
              (by rw [Nat.add_zero]; exact hinv) hct) hc

theorem create_uvm_fold (pd kdir : Nat) :
    ∀ (l : List Nat) (pm : Nat → Nat) (a : Nat), (∀ i, i ∈ l → a ≠ pd + 4 * i) →
      l.foldl (fun pm i => fun a => if a = pd + 4 * i then pm (kdir + 4 * i) else pm a) pm a =
        pm a := by
  intro l
  induction l with
  | nil => intro pm a _; rfl
  | cons x l ih =>
    intro pm a h
    rw [List.foldl_cons, ih _ a (fun i hi => h i (List.mem_cons_of_mem _ hi))]
    exact if_neg (h x (List.mem_cons_self _ _))

theorem pde_index_task_base : pde_index MEMORY_TASK_BASE = 512 := by decide

/-- The state after `memory_create_uvm`, from which the loops of
`memory_copy_uvm` start. -/
theorem create_uvm_inv (fuel : Nat) (m : mem_t) (kdir S T : Nat) (m1 : mem_t)
    (hwf : alloc_wf m.paddr_alloc) (hfuel : m.paddr_alloc.bitmap.bit_count + 1 ≤ fuel)
    (hc : memory_create_uvm fuel m kdir = some (T, m1)) (hT : T ≠ 0) :
    copy_inv m m1 S T (512 * 1024) := by
  unfold memory_create_uvm at hc
  cases hal : addr_alloc_page fuel m.paddr_alloc 1 with
  | none =>
    rw [hal] at hc
    cases hc
  | some pr =>
    obtain ⟨pd, alloc1⟩ := pr
    rw [hal] at hc
    dsimp only at hc
    by_cases hpd : pd = 0
    · rw [if_pos hpd] at hc
      injection hc with hc
      injection hc with h0 _
      exact absurd h0.symm hT
    · rw [if_neg hpd, pde_index_task_base] at hc
      injection hc with hc
      injection hc with hpT hm1
      subst hpT
      obtain ⟨f1, f2, f3, f4, f5, f6⟩ :=
        addr_alloc_page_some fuel m.paddr_alloc hwf hfuel pd alloc1 hal hpd
      have hal1 : m1.paddr_alloc = alloc1 := by rw [← hm1]
      have hval : ∀ a, (a < pd ∨ pd + 2048 ≤ a) →
          m1.pmem a = if pd ≤ a ∧ a < pd + 4096 then 0 else m.pmem a := by
        intro a ha
        rw [← hm1]
        dsimp only
        rw [create_uvm_fold pd kdir _ _ a (fun i hi => by
          have := List.mem_range.mp hi
          omega)]
        rfl
      have hz : ∀ d, 512 ≤ d → d < 1024 → ¬ entry_present (pde_at m1.pmem pd d) = 1 := by
        intro d hd hd2
        have e : pde_at m1.pmem pd d = 0 := by
          show m1.pmem (pd + 4 * d) = 0
          rw [hval _ (Or.inr (by omega)), if_pos ⟨by omega, by omega⟩]
        rw [e]
        exact entry_present_zero
      refine ⟨by rw [hal1]; exact f4, by rw [hal1]; exact f6,
        fun q h => by rw [hal1] at h; exact ((f5 q).mp h).1, fun a ha => ?_, f1, f3,
        fun h => by rw [hal1] at h; exact ((f5 pd).mp h).2 rfl,
        fun d hd hd2 hp => absurd hp (hz d hd hd2),
        fun d e hd hd2 _ _ hp _ _ => absurd hp (hz d hd hd2),
        fun d t hd hd2 _ hm => absurd hm.1 (hz d hd hd2),
        fun d t hd hd2 ht hlt => by omega,
        fun d t hd hd2 _ _ hm => absurd hm.1 (hz d hd hd2)⟩
      have hn : ¬ (pd ≤ a ∧ a < pd + 4096) := by
        intro h
        apply ha
        have : a / 4096 * 4096 = pd := by omega
        rw [this]
        exact f3
      rw [hval a (by omega), if_neg hn]

theorem copy_uvm_result_some (r : result_t (Nat × mem_t)) (T : Nat) (m1 : mem_t)
    (h : copy_uvm_result r = some (T, m1)) : r = .done (T, m1) ∧ T ≠ 0xFFFFFFFF := by
  cases r with
  | done p =>
    obtain ⟨d, mm⟩ := p
    unfold copy_uvm_result at h
    dsimp only at h
    by_cases hd : d = 0xFFFFFFFF
    · rw [if_pos hd] at h
      cases h
    · rw [if_neg hd] at h
      injection h with h
      injection h with h1 h2
      rw [← h1, ← h2]
      exact ⟨rfl, hd⟩
  | halted => cases h
  | out_of_fuel => cases h

/-- A successful `memory_copy_uvm` ends in a state that satisfies `copy_inv`
with all pages of the user window done. -/
theorem memory_copy_uvm_inv (fuel : Nat) (m : mem_t) (kdir S T : Nat) (m1 : mem_t)
    (hwf : alloc_wf m.paddr_alloc) (hown : uvm_owned m.paddr_alloc m.pmem S)
    (hfuel : m.paddr_alloc.bitmap.bit_count + 1 ≤ fuel)
    (hc : copy_uvm_result (memory_copy_uvm fuel m kdir S S) = some (T, m1)) :
    copy_inv m m1 S T (1024 * 1024) := by
  obtain ⟨hr, hne⟩ := copy_uvm_result_some _ T m1 hc
  unfold memory_copy_uvm at hr
  cases hcu : memory_create_uvm fuel m kdir with
  | none =>
    rw [hcu] at hr
    cases hr
  | some pr =>
    obtain ⟨T1, mi⟩ := pr
    rw [hcu] at hr
    dsimp only at hr
    by_cases hT0 : T1 = 0
    · rw [if_pos hT0] at hr
      injection hr with hr
      injection hr with h1 _
      exact absurd h1.symm hne
    · rw [if_neg hT0, pde_index_task_base] at hr
      have inv0 := create_uvm_inv fuel m kdir S T1 mi hwf hfuel hcu hT0
      cases hcd : copy_uvm_dirs fuel S S T1 (PDE_CNT - 512) 512 mi with
      | out_of_fuel =>
        rw [hcd] at hr
        cases hr
      | halted =>
        rw [hcd] at hr
        cases hr
      | done bm =>
        obtain ⟨ok, m2⟩ := bm
        rw [hcd] at hr
        dsimp only at hr
        cases ok with
        | false =>
          rw [if_neg (by decide)] at hr
          unfold memory_destroy_uvm at hr
          rw [if_neg hT0] at hr
          dsimp only at hr
          injection hr with hr
          injection hr with h1 _
          exact absurd h1.symm hne
        | true =>
          rw [if_pos rfl] at hr
          injection hr with hr
          injection hr with h1 h2
          rw [← h1, ← h2]
          exact copy_uvm_dirs_inv fuel m S T1 hown hfuel 512 512 mi m2 (by decide)
            (Nat.le_refl _) inv0 hcd

end copy_uvm_whole
section copy_uvm_views

theorem user_range (v : Nat) (h1 : MEMORY_TASK_BASE ≤ v) (h2 : v < 2 ^ 32) :
    512 ≤ pde_index v ∧ pde_index v < 1024 ∧ pte_index v < 1024 ∧ v % 4096 < 4096 := by
  have h : 0x80000000 ≤ v := h1
  rw [pde_index_eq, pte_index_eq]
  omega

theorem uvm_view_congr (pm pm1 : Nat → Nat) (D D1 v : Nat)
    (h1 : mapped_at pm D (pde_index v) (pte_index v) ↔
      mapped_at pm1 D1 (pde_index v) (pte_index v))
    (h2 : mapped_at pm1 D1 (pde_index v) (pte_index v) →
      get_pte_perm (pte_at pm D (pde_index v) (pte_index v)) =
        get_pte_perm (pte_at pm1 D1 (pde_index v) (pte_index v)) ∧
      pm (pte_paddr (pte_at pm D (pde_index v) (pte_index v)) + v % 4096) =
        pm1 (pte_paddr (pte_at pm1 D1 (pde_index v) (pte_index v)) + v % 4096)) :
    uvm_view pm D v = uvm_view pm1 D1 v := by
  unfold uvm_view mmu_paddr
  by_cases hm : mapped_at pm1 D1 (pde_index v) (pte_index v)
  · have hm1 : entry_present (pm1 (D1 + 4 * pde_index v)) = 1 ∧
        entry_present (pm1 (pde_paddr (pm1 (D1 + 4 * pde_index v)) + 4 * pte_index v)) = 1 := hm
    have hm0 : entry_present (pm (D + 4 * pde_index v)) = 1 ∧
        entry_present (pm (pde_paddr (pm (D + 4 * pde_index v)) + 4 * pte_index v)) = 1 :=
      h1.mpr hm
    obtain ⟨e1, e2⟩ := h2 hm
    have e3 : get_pte_perm (pm (pde_paddr (pm (D + 4 * pde_index v)) + 4 * pte_index v)) =
        get_pte_perm (pm1 (pde_paddr (pm1 (D1 + 4 * pde_index v)) + 4 * pte_index v)) := e1
    have e4 : pm (pte_paddr (pm (pde_paddr (pm (D + 4 * pde_index v)) + 4 * pte_index v)) +
          v % MEM_PAGE_SIZE) =
        pm1 (pte_paddr (pm1 (pde_paddr (pm1 (D1 + 4 * pde_index v)) + 4 * pte_index v)) +
          v % MEM_PAGE_SIZE) := e2
    rw [if_pos hm0, if_pos hm1, e3, e4]
  · have hm1 : ¬ (entry_present (pm1 (D1 + 4 * pde_index v)) = 1 ∧
        entry_present (pm1 (pde_paddr (pm1 (D1 + 4 * pde_index v)) + 4 * pte_index v)) = 1) :=
      hm
    have hm0 : ¬ (entry_present (pm (D + 4 * pde_index v)) = 1 ∧
        entry_present (pm (pde_paddr (pm (D + 4 * pde_index v)) + 4 * pte_index v)) = 1) :=
      fun h => hm (h1.mp h)
    rw [if_neg hm0, if_neg hm1]

theorem uvm_view_mapped (pm : Nat → Nat) (D v : Nat) (h : uvm_view pm D v ≠ none) :
    mapped_at pm D (pde_index v) (pte_index v) := by
  by_contra hn
  apply h
  unfold uvm_view
  exact if_neg hn

/-- Memory that is as at the call in the pages that were not free shows the
same through the source directory as at the call. -/
theorem view_keep (alloc0 : addr_alloc_t) (pm0 pm : Nat → Nat) (S v : Nat)
    (hown : uvm_owned alloc0 pm0 S)
    (hk : ∀ a, ¬ frame_free alloc0 (a / 4096 * 4096) → pm a = pm0 a)
    (h1 : MEMORY_TASK_BASE ≤ v) (h2 : v < 2 ^ 32) :
    uvm_view pm S v = uvm_view pm0 S v := by
  obtain ⟨r1, r2, r3, r4⟩ := user_range v h1 h2
  obtain ⟨k1, k2⟩ := keep_src alloc0 pm0 pm S hown hk (pde_index v) r1 r2
  refine uvm_view_congr pm pm0 S S v ⟨fun h => ?_, fun h => ?_⟩ (fun h => ?_)
  · have hp : entry_present (pde_at pm0 S (pde_index v)) = 1 := by
      rw [← k1]
      exact h.1
    refine ⟨hp, ?_⟩
    rw [← (k2 hp _ r3).1]
    exact h.2
  · refine ⟨by rw [k1]; exact h.1, ?_⟩
    rw [(k2 h.1 _ r3).1]
    exact h.2
  · obtain ⟨k3, k4⟩ := k2 h.1 _ r3
    rw [k3]
    exact ⟨rfl, k4 h.2 _ r4⟩

/-- Memory that is as after the call in the pages that were free at the call
shows the same through the new directory as after the call. -/
theorem view_new (m0 m : mem_t) (S T c v : Nat) (pm : Nat → Nat)
    (hinv : copy_inv m0 m S T c)
    (hk : ∀ a, frame_free m0.paddr_alloc (a / 4096 * 4096) → pm a = m.pmem a)
    (h1 : MEMORY_TASK_BASE ≤ v) (h2 : v < 2 ^ 32) :
    uvm_view pm T v = uvm_view m.pmem T v := by
  obtain ⟨r1, r2, r3, r4⟩ := user_range v h1 h2
  have k1 : pde_at pm T (pde_index v) = pde_at m.pmem T (pde_index v) := by
    refine hk _ ?_
    rw [page_of_add T _ hinv.dir_aligned (by omega)]
    exact hinv.dir_was_free
  have k2 : entry_present (pde_at m.pmem T (pde_index v)) = 1 →
      pte_at pm T (pde_index v) (pte_index v) = pte_at m.pmem T (pde_index v) (pte_index v) := by
    intro hp
    refine pte_at_eq pm m.pmem T _ _ k1 (hk _ ?_)
    rw [page_of_add _ _ (pde_paddr_aligned _).1 (by omega)]
    exact (hinv.tab _ r1 r2 hp).1
  refine uvm_view_congr pm m.pmem T T v ⟨fun h => ?_, fun h => ?_⟩ (fun h => ?_)
  · have hp : entry_present (pde_at m.pmem T (pde_index v)) = 1 := by
      rw [← k1]
      exact h.1
    refine ⟨hp, ?_⟩
    rw [← k2 hp]
    exact h.2
  · refine ⟨by rw [k1]; exact h.1, ?_⟩
    rw [k2 h.1]
    exact h.2
  · rw [k2 h.1]
    refine ⟨rfl, hk _ ?_⟩
    rw [page_of_add _ _ (pte_paddr_aligned _) r4]
    exact (hinv.leaf _ _ r1 r2 r3 h).1

theorem option_fst_some (o : Option (Nat × mem_t)) (T : Nat) (d : Nat × mem_t)
    (h : o.map Prod.fst = some T) : o = some (T, (o.getD d).2) := by
  cases o with
  | none => cases h
  | some p =>
    obtain ⟨a, b⟩ := p
    injection h with h
    rw [← h]
    rfl

theorem demo_mem_user_owned :
    uvm_owned demo_mem_user.paddr_alloc demo_mem_user.pmem 0x100000 := by
  have hpde : ∀ d, 512 ≤ d → d < 1024 →
      demo_mem_user.pmem (0x100000 + 4 * d) = if d = 512 then 0x101007 else 0 := by
    intro d hd hd2
    show (if 0x102000 ≤ 0x100000 + 4 * d ∧ 0x100000 + 4 * d < 0x103000 then _
      else if 0x100000 + 4 * d = 0x100000 + 4 * 512 then 0x101007
      else if 0x100000 + 4 * d = 0x101000 then 0x102007 else 0) = _
    rw [if_neg (by omega)]
    by_cases h : d = 512
    · rw [if_pos (by omega), if_pos h]
    · rw [if_neg (by omega), if_neg (by omega), if_neg h]
  have hpte : ∀ t, t < 1024 →
      demo_mem_user.pmem (0x101000 + 4 * t) = if t = 0 then 0x102007 else 0 := by
    intro t ht
    show (if 0x102000 ≤ 0x101000 + 4 * t ∧ 0x101000 + 4 * t < 0x103000 then _
      else if 0x101000 + 4 * t = 0x100000 + 4 * 512 then 0x101007
      else if 0x101000 + 4 * t = 0x101000 then 0x102007 else 0) = _
    rw [if_neg (by omega), if_neg (by omega)]
    by_cases h : t = 0
    · rw [if_pos (by omega), if_pos h]
    · rw [if_neg (by omega), if_neg h]
  have hused : ∀ i, i < 3 → ¬ frame_free demo_mem_user.paddr_alloc (0x100000 + i * 4096) := by
    rintro i hi ⟨k, hk, hb, he⟩
    have he2 : 0x100000 + i * 4096 = 0x100000 + k * 4096 := he
    have hk3 : k < 3 := by omega
    have hb2 : ∀ k, k < 3 → bit_of demo_mem_user.paddr_alloc.bitmap k = true := by decide
    rw [hb2 k hk3] at hb
    cases hb
  have e1 : pde_paddr 0x101007 = 0x100000 + 1 * 4096 := by decide
  have e2 : pte_paddr 0x102007 = 0x100000 + 2 * 4096 := by decide
  have hd512 : ∀ d, 512 ≤ d → d < 1024 →
      entry_present (demo_mem_user.pmem (0x100000 + 4 * d)) = 1 → d = 512 := by
    intro d hd hd2 hp
    rw [hpde d hd hd2] at hp
    by_contra h
    rw [if_neg h] at hp
    exact entry_present_zero hp
  refine ⟨by decide, hused 0 (by decide), fun d hd hd2 hp => ?_, fun d t hd hd2 ht hp hq => ?_⟩
  · have h := hd512 d hd hd2 hp
    subst h
    rw [hpde 512 hd hd2, if_pos rfl, e1]
    exact hused 1 (by decide)
  · have h := hd512 d hd hd2 hp
    subst h
    rw [hpde 512 hd hd2, if_pos rfl, e1] at hq ⊢
    have e3 : 0x100000 + 1 * 4096 = 0x101000 := by decide
    rw [e3, hpte t ht] at hq ⊢
    have ht0 : t = 0 := by
      by_contra h
      rw [if_neg h] at hq
      exact entry_present_zero hq
    rw [if_pos ht0, e2]
    exact hused 2 (by decide)

end copy_uvm_views

/-- C24.  The current address space has the page directory `page_dir`; the
allocator is well formed and the directory, the page tables and the frames of
its user window are not free (`uvm_owned`).  When `memory_copy_uvm(page_dir)`
succeeds with the directory `to_page_dir`, then at every address of the user
window (from `MEMORY_TASK_BASE` up to `2^32`) the new directory shows what the
source showed at the call, that is present pages only where the source has
them, with the same permission bits and the same contents; the source still
shows the same; a page that is present is mapped to different frames by the
two directories; and memory that differs from the memory after the call only
in the frame of a user page of one of the two directories shows the same
through the other directory at the whole user window. -/
theorem C24_copy_uvm_deep_copy (fuel : Nat) (m : mem_t)
    (kernel_page_dir page_dir to_page_dir : Nat) (m1 : mem_t)
    (hwf : alloc_wf m.paddr_alloc)
    (hown : uvm_owned m.paddr_alloc m.pmem page_dir)
    (hfuel : m.paddr_alloc.bitmap.bit_count + 1 ≤ fuel)
    (hc : copy_uvm_result (memory_copy_uvm fuel m kernel_page_dir page_dir page_dir) =
      some (to_page_dir, m1)) :
    (∀ v, MEMORY_TASK_BASE ≤ v → v < 2 ^ 32 →
      uvm_view m1.pmem to_page_dir v = uvm_view m.pmem page_dir v ∧
      uvm_view m1.pmem page_dir v = uvm_view m.pmem page_dir v ∧
      (uvm_view m.pmem page_dir v ≠ none →
        uvm_frame m1.pmem to_page_dir v ≠ uvm_frame m1.pmem page_dir v)) ∧
    (∀ v pmem2, MEMORY_TASK_BASE ≤ v → v < 2 ^ 32 → uvm_view m1.pmem to_page_dir v ≠ none →
      (∀ a, ¬ (uvm_frame m1.pmem to_page_dir v ≤ a ∧
          a < uvm_frame m1.pmem to_page_dir v + MEM_PAGE_SIZE) → pmem2 a = m1.pmem a) →
      ∀ u, MEMORY_TASK_BASE ≤ u → u < 2 ^ 32 →
        uvm_view pmem2 page_dir u = uvm_view m1.pmem page_dir u) ∧
    (∀ v pmem2, MEMORY_TASK_BASE ≤ v → v < 2 ^ 32 → uvm_view m1.pmem page_dir v ≠ none →
      (∀ a, ¬ (uvm_frame m1.pmem page_dir v ≤ a ∧
          a < uvm_frame m1.pmem page_dir v + MEM_PAGE_SIZE) → pmem2 a = m1.pmem a) →
      ∀ u, MEMORY_TASK_BASE ≤ u → u < 2 ^ 32 →
        uvm_view pmem2 to_page_dir u = uvm_view m1.pmem to_page_dir u) := by
  have hinv := memory_copy_uvm_inv fuel m kernel_page_dir page_dir to_page_dir m1 hwf hown hfuel hc
  have hsrc : ∀ v, MEMORY_TASK_BASE ≤ v → v < 2 ^ 32 →
      uvm_view m1.pmem page_dir v = uvm_view m.pmem page_dir v :=
    fun v h1 h2 => view_keep m.paddr_alloc m.pmem m1.pmem page_dir v hown hinv.keep h1 h2
  have hfs : ∀ v, MEMORY_TASK_BASE ≤ v → v < 2 ^ 32 → uvm_view m.pmem page_dir v ≠ none →
      uvm_frame m1.pmem page_dir v % 4096 = 0 ∧
      ¬ frame_free m.paddr_alloc (uvm_frame m1.pmem page_dir v) := by
    intro v h1 h2 hv
    obtain ⟨r1, r2, r3, _⟩ := user_range v h1 h2
    have hm := uvm_view_mapped _ _ _ hv
    obtain ⟨_, k2⟩ := keep_src m.paddr_alloc m.pmem m1.pmem page_dir hown hinv.keep _ r1 r2
    have e : uvm_frame m1.pmem page_dir v =
        pte_paddr (pte_at m.pmem page_dir (pde_index v) (pte_index v)) := by
      show pte_paddr (pte_at m1.pmem page_dir (pde_index v) (pte_index v)) = _
      rw [(k2 hm.1 _ r3).1]
    rw [e]
    exact ⟨pte_paddr_aligned _, hown.frame_used _ _ r1 r2 r3 hm.1 hm.2⟩
  have hft : ∀ v, MEMORY_TASK_BASE ≤ v → v < 2 ^ 32 → uvm_view m1.pmem to_page_dir v ≠ none →
      uvm_frame m1.pmem to_page_dir v % 4096 = 0 ∧
      frame_free m.paddr_alloc (uvm_frame m1.pmem to_page_dir v) := by
    intro v h1 h2 hv
    obtain ⟨r1, r2, r3, _⟩ := user_range v h1 h2
    have hm := uvm_view_mapped _ _ _ hv
    exact ⟨pte_paddr_aligned _, (hinv.leaf _ _ r1 r2 r3 hm).1⟩
  have hnew : ∀ v, MEMORY_TASK_BASE ≤ v → v < 2 ^ 32 →
      uvm_view m1.pmem to_page_dir v = uvm_view m.pmem page_dir v := by
    intro v h1 h2
    obtain ⟨r1, r2, r3, r4⟩ := user_range v h1 h2
    obtain ⟨dm, dc⟩ := hinv.done _ _ r1 r2 r3 (by omega)
    exact uvm_view_congr _ _ _ _ v dm (fun h => ⟨(dc h).1, (dc h).2 _ r4⟩)
  refine ⟨fun v h1 h2 => ⟨hnew v h1 h2, hsrc v h1 h2, fun hv e => ?_⟩,
    fun v pmem2 h1 h2 hv hw u g1 g2 => ?_, fun v pmem2 h1 h2 hv hw u g1 g2 => ?_⟩
  · have a1 := (hft v h1 h2 (by rw [hnew v h1 h2]; exact hv)).2
    rw [e] at a1
    exact (hfs v h1 h2 hv).2 a1
  · obtain ⟨a1, a2⟩ := hft v h1 h2 hv
    rw [hsrc u g1 g2]
    refine view_keep m.paddr_alloc m.pmem pmem2 page_dir u hown (fun a ha => ?_) g1 g2
    rw [hw a (fun hin => ha (by
      have : a / 4096 * 4096 = uvm_frame m1.pmem to_page_dir v := by
        have hin2 : uvm_frame m1.pmem to_page_dir v ≤ a ∧
          a < uvm_frame m1.pmem to_page_dir v + 4096 := hin
        omega
      rw [this]
      exact a2))]
    exact hinv.keep a ha
  · obtain ⟨a1, a2⟩ := hfs v h1 h2 (by rw [← hsrc v h1 h2]; exact hv)
    refine view_new m m1 page_dir to_page_dir _ u pmem2 hinv (fun a ha => hw a (fun hin => a2 ?_))
      g1 g2
    have : a / 4096 * 4096 = uvm_frame m1.pmem page_dir v := by
      have hin2 : uvm_frame m1.pmem page_dir v ≤ a ∧
        a < uvm_frame m1.pmem page_dir v + 4096 := hin
      omega
    rw [← this]
    exact ha

section copy_uvm_demo

/-- The loop of `memory_create_uvm` in one step, when the entries read do not
lie in the entries written. -/
theorem create_uvm_fold_closed (pd kdir N : Nat) (pm : Nat → Nat)
    (hno : kdir + 4 * N ≤ pd ∨ pd + 4 * N ≤ kdir) :
    ∀ n, n ≤ N →
      (List.range n).foldl
          (fun pm i => fun a => if a = pd + 4 * i then pm (kdir + 4 * i) else pm a) pm =
        fun a => if pd ≤ a ∧ a < pd + 4 * n ∧ (a - pd) % 4 = 0 then pm (kdir + (a - pd))
          else pm a := by
  intro n
  induction n with
  | zero =>
    intro _
    funext a
    rw [List.range_zero, List.foldl_nil, if_neg (by omega)]
  | succ n ih =>
    intro hn
    rw [List.range_succ, List.foldl_append, ih (by omega)]
    funext a
    show (if a = pd + 4 * n then
        (if pd ≤ kdir + 4 * n ∧ kdir + 4 * n < pd + 4 * n ∧ (kdir + 4 * n - pd) % 4 = 0 then
          pm (kdir + (kdir + 4 * n - pd)) else pm (kdir + 4 * n))
      else if pd ≤ a ∧ a < pd + 4 * n ∧ (a - pd) % 4 = 0 then pm (kdir + (a - pd)) else pm a) = _
    by_cases ha : a = pd + 4 * n
    · rw [if_pos ha, if_neg (by omega), if_pos (by omega), ha, Nat.add_sub_cancel_left]
    · rw [if_neg ha]
      by_cases hb : pd ≤ a ∧ a < pd + 4 * n ∧ (a - pd) % 4 = 0
      · rw [if_pos hb, if_pos (by omega)]
      · rw [if_neg hb, if_neg (by omega)]

/-- The memory after a successful `memory_create_uvm`, when `kernel_page_dir`
does not lie in the page of the new directory. -/
theorem create_uvm_pmem (fuel : Nat) (m : mem_t) (kdir T : Nat) (m1 : mem_t)
    (hc : memory_create_uvm fuel m kdir = some (T, m1)) (hT : T ≠ 0)
    (hno : kdir + 4 * 512 ≤ T ∨ T + 4096 ≤ kdir) :
    m1.pmem = fun a =>
      if T ≤ a ∧ a < T + 4 * 512 ∧ (a - T) % 4 = 0 then m.pmem (kdir + (a - T))
      else if T ≤ a ∧ a < T + MEM_PAGE_SIZE then 0
      else m.pmem a := by
  unfold memory_create_uvm at hc
  cases hal : addr_alloc_page fuel m.paddr_alloc 1 with
  | none =>
    rw [hal] at hc
    cases hc
  | some pr =>
    obtain ⟨pd, alloc1⟩ := pr
    rw [hal] at hc
    dsimp only at hc
    by_cases hpd : pd = 0
    · rw [if_pos hpd] at hc
      injection hc with hc
      injection hc with h0 _
      exact absurd h0.symm hT
    · rw [if_neg hpd, pde_index_task_base] at hc
      injection hc with hc
      injection hc with hpT hm1
      subst hpT
      rw [← hm1]
      dsimp only
      rw [create_uvm_fold_closed pd kdir 512 _ (by omega) 512 (Nat.le_refl _)]
      funext a
      dsimp only
      by_cases ha : pd ≤ a ∧ a < pd + 4 * 512 ∧ (a - pd) % 4 = 0
      · rw [if_pos ha, if_pos ha, if_neg (by show ¬ (_ ∧ _ < pd + 4096); omega)]
      · rw [if_neg ha, if_neg ha]

theorem mem_t_eta (m : mem_t) (pm : Nat → Nat) (h : m.pmem = pm) :
    m = ⟨m.paddr_alloc, pm⟩ := by
  rw [← h]

theorem demo_create_uvm :
    memory_create_uvm 100 demo_mem_user 0x4000 = some (0x103000, demo_mem_created) := by
  have h1 : (memory_create_uvm 100 demo_mem_user 0x4000).map Prod.fst = some 0x103000 := by
    decide!
  have h2 := option_fst_some _ _ (0, demo_mem_user) h1
  have hpm := create_uvm_pmem 100 demo_mem_user 0x4000 0x103000 _ h2 (by decide) (by decide)
  have e := mem_t_eta _ _ hpm
  rw [e] at h2
  exact h2

theorem option_fst_exists (o : Option (Nat × mem_t)) (T : Nat)
    (h : o.map Prod.fst = some T) : ∃ m1, o = some (T, m1) :=
  ⟨_, option_fst_some o T (0, ⟨⟨0, 0, 0, ⟨0, fun _ => 0⟩⟩, fun _ => 0⟩) h⟩

theorem demo_copy_uvm_dir :
    ∃ m1, copy_uvm_result (memory_copy_uvm 100 demo_mem_user 0x4000 0x100000 0x100000) =
      some (0x103000, m1) := by
  apply option_fst_exists
  unfold memory_copy_uvm
  rw [demo_create_uvm]
  decide!

end copy_uvm_demo

/-- C24, at the memory `demo_mem_user`, whose directory `0x100000` maps the
user page `0x80000000` to the frame `0x102000`: `memory_copy_uvm` returns the
directory `0x103000`, which shows the user window as the source does. -/
theorem C24_copy_uvm_deep_copy_witness :
    ∃ m1, copy_uvm_result (memory_copy_uvm 100 demo_mem_user 0x4000 0x100000 0x100000) =
        some (0x103000, m1) ∧
      ∀ v, MEMORY_TASK_BASE ≤ v → v < 2 ^ 32 →
        uvm_view m1.pmem 0x103000 v = uvm_view demo_mem_user.pmem 0x100000 v ∧
        uvm_view m1.pmem 0x100000 v = uvm_view demo_mem_user.pmem 0x100000 v ∧
        (uvm_view demo_mem_user.pmem 0x100000 v ≠ none →
          uvm_frame m1.pmem 0x103000 v ≠ uvm_frame m1.pmem 0x100000 v) :=
  match demo_copy_uvm_dir with
  | ⟨m1, h⟩ =>
    ⟨m1, h, (C24_copy_uvm_deep_copy 100 demo_mem_user 0x4000 0x100000 0x103000 m1
      ⟨rfl, by decide, by decide, by decide⟩ demo_mem_user_owned (by decide) h).1⟩

/-! ### Claims on the file descriptors: access mode -/

/-- C32 (code at the failing inputs).  `sys_read` compares the whole word
`p_file->mode`, which holds all the flags given to `sys_open`, with
`O_WRONLY`, and `sys_write` compares it with `O_RDONLY`.  On a descriptor
whose mode has `O_CREAT` or `O_TRUNC` set neither comparison holds, so with a
buffer and a length that are not zero both calls hand the request to the
file system and return its result, whatever the access mode is. -/
theorem C32_mode_compared_with_all_flags {σ : Type} (op : fs_op_t σ) (k : kernel σ)
    (file : Int) (p ptr : Nat) (len : Int)
    (hfile : task_file k file = some p) (hptr : ptr ≠ 0) (hlen : len ≠ 0)
    (hflag : (k.files p).mode &&& (O_CREAT ||| O_TRUNC) ≠ 0) :
    sys_read op k file ptr len = op_done k p (op.read ptr len (k.files p) k.fs) ∧
    sys_write op k file ptr len = op_done k p (op.write ptr len (k.files p) k.fs) := by
  have h1 : (k.files p).mode ≠ O_WRONLY := by
    intro h
    rw [h] at hflag
    exact hflag (by decide)
  have h0 : (k.files p).mode ≠ O_RDONLY := by
    intro h
    rw [h] at hflag
    exact hflag (by decide)
  have hg : ¬ (is_fd_bad file ≠ 0 ∨ ptr = 0 ∨ len = 0) := by
    rw [is_fd_bad_eq_zero]
    rintro (h | h | h)
    · exact h rfl
    · exact hptr h
    · exact hlen h
  constructor
  · unfold sys_read
    rw [if_neg hg, hfile]
    dsimp only
    rw [if_neg h1]
  · unfold sys_write
    rw [if_neg hg, hfile]
    dsimp only
    rw [if_neg h0]

/-- C32, at the state `demo_sched`: a file opened with `O_WRONLY | O_CREAT`
(access mode `O_WRONLY`) is read, and a file opened with
`O_RDONLY | O_CREAT | O_TRUNC` (access mode `O_RDONLY`) is written: both calls
return the 7 of the file system, not -1.  With the bare flags `O_WRONLY` and
`O_RDONLY` the calls return -1. -/
theorem C32_mode_compared_with_all_flags_witness :
    ((O_WRONLY ||| O_CREAT) &&& 3 = O_WRONLY ∧
      (O_RDONLY ||| O_CREAT ||| O_TRUNC) &&& 3 = O_RDONLY) ∧
    ((demo_opened (O_WRONLY ||| O_CREAT)).1 = 0 ∧
      (sys_read demo_op (demo_opened (O_WRONLY ||| O_CREAT)).2 0 4096 16).1 = 7 ∧
      (demo_opened (O_RDONLY ||| O_CREAT ||| O_TRUNC)).1 = 0 ∧
      (sys_write demo_op (demo_opened (O_RDONLY ||| O_CREAT ||| O_TRUNC)).2 0 4096 16).1 = 7 ∧
      (sys_read demo_op (demo_opened O_WRONLY).2 0 4096 16).1 = -1 ∧
      (sys_write demo_op (demo_opened O_RDONLY).2 0 4096 16).1 = -1) ∧
    (sys_read demo_op (demo_opened (O_WRONLY ||| O_CREAT)).2 0 4096 16 =
        op_done (demo_opened (O_WRONLY ||| O_CREAT)).2 0
          (demo_op.read 4096 16 ((demo_opened (O_WRONLY ||| O_CREAT)).2.files 0)
            (demo_opened (O_WRONLY ||| O_CREAT)).2.fs) ∧
      sys_write demo_op (demo_opened (O_WRONLY ||| O_CREAT)).2 0 4096 16 =
        op_done (demo_opened (O_WRONLY ||| O_CREAT)).2 0
          (demo_op.write 4096 16 ((demo_opened (O_WRONLY ||| O_CREAT)).2.files 0)
            (demo_opened (O_WRONLY ||| O_CREAT)).2.fs)) :=
  ⟨by decide, by decide!,
    C32_mode_compared_with_all_flags demo_op (demo_opened (O_WRONLY ||| O_CREAT)).2 0 0 4096 16
      (by decide!) (by decide) (by decide) (by decide!)⟩

/-! ### Claims on the mutex: hand-over -/

section mutex_depth

variable {σ : Type}

theorem mutex_lock_owner (k : kernel σ) (m : mutex_t) (hown : m.owner = task_current k)
    (h1 : 1 ≤ m.locked_count) (h2 : m.locked_count + 1 < 2 ^ 31) :
    mutex_lock k m = (k, { m with locked_count := m.locked_count + 1 }) := by
  unfold mutex_lock
  dsimp only
  rw [if_neg (by omega), if_pos hown, int_wrap_eq _ (by omega) h2]

theorem mutex_unlock_owner (k : kernel σ) (m : mutex_t) (hown : m.owner = task_current k)
    (h1 : 1 < m.locked_count) (h2 : m.locked_count < 2 ^ 31) :
    mutex_unlock k m = (k, { m with locked_count := m.locked_count - 1 }) := by
  unfold mutex_unlock
  dsimp only
  rw [if_pos hown, int_wrap_eq _ (by omega) (by omega), if_neg (by omega)]

theorem mutex_calls_locks (T : task_ptr) : ∀ (locks : List (kernel σ)) (m : mutex_t),
    m.owner = T → (∀ k1, k1 ∈ locks → task_current k1 = T) → 1 ≤ m.locked_count →
    m.locked_count + locks.length < 2 ^ 31 →
    ∀ rest, mutex_calls m (locks.map (fun k1 => (mutex_call.lock, k1)) ++ rest) =
      mutex_calls { m with locked_count := m.locked_count + locks.length } rest
  | [], m, _, _, _, _, rest => by
    show mutex_calls m rest = mutex_calls { m with locked_count := m.locked_count + 0 } rest
    rw [Int.add_zero]
  | k1 :: locks, m, ho, hc, h1, h2, rest => by
    have hk := hc k1 (List.mem_cons_self _ _)
    have hl : ((k1 :: locks).length : Int) = (locks.length : Int) + 1 := by
      rw [List.length_cons]
      push_cast
      rfl
    rw [hl] at h2
    rw [List.map_cons, List.cons_append, mutex_calls,
      mutex_lock_owner k1 m (ho.trans hk.symm) h1 (by omega)]
    dsimp only
    rw [mutex_calls_locks T locks { m with locked_count := m.locked_count + 1 } ho
      (fun k2 h => hc k2 (List.mem_cons_of_mem _ h)) (by show 1 ≤ m.locked_count + 1; omega)
      (by show m.locked_count + 1 + locks.length < 2 ^ 31; omega) rest]
    dsimp only
    rw [hl, Int.add_assoc, Int.add_comm 1]

theorem mutex_calls_unlocks (T : task_ptr) : ∀ (unlocks : List (kernel σ)) (m : mutex_t),
    m.owner = T → (∀ k1, k1 ∈ unlocks → task_current k1 = T) →
    (unlocks.length : Int) < m.locked_count → m.locked_count < 2 ^ 31 →
    mutex_calls m (unlocks.map (fun k1 => (mutex_call.unlock, k1))) =
      { m with locked_count := m.locked_count - unlocks.length }
  | [], m, _, _, _, _ => by
    show m = { m with locked_count := m.locked_count - 0 }
    rw [Int.sub_zero]
  | k1 :: unlocks, m, ho, hc, h1, h2 => by
    have hk := hc k1 (List.mem_cons_self _ _)
    have hl : ((k1 :: unlocks).length : Int) = (unlocks.length : Int) + 1 := by
      rw [List.length_cons]
      push_cast
      rfl
    rw [hl] at h1
    rw [List.map_cons, mutex_calls,
      mutex_unlock_owner k1 m (ho.trans hk.symm) (by omega) h2]
    dsimp only
    rw [mutex_calls_unlocks T unlocks { m with locked_count := m.locked_count - 1 } ho
      (fun k2 h => hc k2 (List.mem_cons_of_mem _ h))
      (by show (unlocks.length : Int) < m.locked_count - 1; omega)
      (by show m.locked_count - 1 < 2 ^ 31; omega)]
    dsimp only
    rw [hl, Int.sub_sub, Int.add_comm 1]

end mutex_depth

/-- C34.  A task owns the mutex with depth 1.  It locks the mutex `k` more
times (the list `locks`, each call in a state of the scheduler of its own in
which the task runs) and then unlocks it `j <= k` times (the list
`unlocks`): the mutex has the same owner and wait list and the depth
`1 + k - j`, and such an unlock leaves the scheduler alone; so only unlock
number `k + 1` is the final one.  The final unlock (depth 1 to 0) of a mutex
with the wait list `t :: rest` makes `t`, the first of the list, the owner
with depth 1 and leaves `rest` as the wait list, appends `t` to the ready
list and sets its state to `TASK_READY`; with an empty wait list it leaves
the mutex without owner at depth 0 and the scheduler as it was.  A task that
locks a mutex another task owns is put at the end of the wait list, so the
first of the list is the task that has waited longest. -/
theorem C34_mutex_unlock_hands_over {σ : Type} (k : kernel σ) (mutex : mutex_t)
    (locks unlocks : List (kernel σ))
    (hown : mutex.owner = task_current k) (hone : mutex.locked_count = 1)
    (hlocks : ∀ k1, k1 ∈ locks → task_current k1 = mutex.owner)
    (hunlocks : ∀ k1, k1 ∈ unlocks → task_current k1 = mutex.owner)
    (hle : unlocks.length ≤ locks.length) (hlt : locks.length + 1 < 2 ^ 31) :
    mutex_calls mutex (locks.map (fun k1 => (mutex_call.lock, k1)) ++
        unlocks.map (fun k1 => (mutex_call.unlock, k1))) =
      { mutex with locked_count := 1 + locks.length - unlocks.length } ∧
    (∀ (k1 : kernel σ) (m1 : mutex_t), m1.owner = task_current k1 → 1 < m1.locked_count →
      m1.locked_count < 2 ^ 31 →
      mutex_unlock k1 m1 = (k1, { m1 with locked_count := m1.locked_count - 1 })) ∧
    (∀ t rest, mutex.wait_list = t :: rest → t ≠ .idle_task → t ≠ .null →
      (mutex_unlock k mutex).2 = ⟨t, 1, rest⟩ ∧
      (mutex_unlock k mutex).1.task_manager.ready_list = k.task_manager.ready_list ++ [t] ∧
      (task_get (mutex_unlock k mutex).1 t).state = .TASK_READY) ∧
    (mutex.wait_list = [] → mutex_unlock k mutex = (k, ⟨.null, 0, []⟩)) ∧
    (∀ (k1 : kernel σ), task_current k1 ≠ mutex.owner →
      (mutex_lock k1 mutex).2 = { mutex with wait_list := mutex.wait_list ++ [task_current k1] }) := by
  have hw0 : int_wrap (mutex.locked_count - 1) = 0 := by
    rw [hone]
    decide
  refine ⟨?_, fun k1 m1 h1 h2 h3 => mutex_unlock_owner k1 m1 h1 h2 h3, fun t rest hw hi hn => ?_,
    fun hw => ?_, fun k1 hne => ?_⟩
  · rw [mutex_calls_locks mutex.owner locks mutex rfl hlocks (by omega) (by omega),
      mutex_calls_unlocks mutex.owner unlocks
        { mutex with locked_count := mutex.locked_count + locks.length } rfl hunlocks
        (by show (unlocks.length : Int) < mutex.locked_count + locks.length; omega)
        (by show mutex.locked_count + (locks.length : Int) < 2 ^ 31; omega)]
    dsimp only
    rw [hone]
  · have hu : mutex_unlock k mutex =
        (task_dispatch (task_set_ready k t), ⟨t, 1, rest⟩) := by
      unfold mutex_unlock
      dsimp only
      rw [if_pos hown, if_pos hw0, hw]
      rfl
    rw [hu]
    refine ⟨rfl, ?_, ?_⟩
    · show (task_dispatch (task_set_ready k t)).task_manager.ready_list = _
      rw [task_dispatch_ready_list, task_set_ready_ready_list, if_pos hi]
    · show (task_get (task_dispatch (task_set_ready k t)) t).state = _
      rw [task_get_task_dispatch, task_get_task_set_ready, if_pos ⟨rfl, hi, hn⟩]
  · unfold mutex_unlock
    dsimp only
    rw [if_pos hown, if_pos hw0, hw, hw0]
    rfl
  · unfold mutex_lock
    dsimp only
    rw [if_neg (by omega), if_neg (fun e => hne e.symm)]

/-- C34, for task 0, which owns the mutex with depth 1 while tasks 1 and 2
wait, in this order: after two more locks and two unlocks the depth is 1
again, and the next unlock makes task 1 the owner. -/
theorem C34_mutex_unlock_hands_over_witness :
    mutex_calls ⟨.slot 0, 1, [.slot 1, .slot 2]⟩
        ([demo_running (.slot 0), demo_running (.slot 0)].map
            (fun k1 => (mutex_call.lock, k1)) ++
          [demo_running (.slot 0), demo_running (.slot 0)].map
            (fun k1 => (mutex_call.unlock, k1))) =
      ⟨.slot 0, 1, [.slot 1, .slot 2]⟩ ∧
    (mutex_unlock (demo_running (.slot 0)) ⟨.slot 0, 1, [.slot 1, .slot 2]⟩).2 =
      ⟨.slot 1, 1, [.slot 2]⟩ ∧
    (mutex_unlock (demo_running (.slot 0))
        ⟨.slot 0, 1, [.slot 1, .slot 2]⟩).1.task_manager.ready_list =
      (demo_running (.slot 0)).task_manager.ready_list ++ [.slot 1] ∧
    (task_get (mutex_unlock (demo_running (.slot 0)) ⟨.slot 0, 1, [.slot 1, .slot 2]⟩).1
      (.slot 1)).state = .TASK_READY :=
  ⟨(C34_mutex_unlock_hands_over (demo_running (.slot 0)) ⟨.slot 0, 1, [.slot 1, .slot 2]⟩
      [demo_running (.slot 0), demo_running (.slot 0)]
      [demo_running (.slot 0), demo_running (.slot 0)] rfl rfl
      (fun k1 h => by
        rcases List.mem_cons.mp h with e | h
        · rw [e]; rfl
        · rw [List.mem_singleton.mp h]; rfl)
      (fun k1 h => by
        rcases List.mem_cons.mp h with e | h
        · rw [e]; rfl
        · rw [List.mem_singleton.mp h]; rfl)
      (Nat.le_refl _) (by decide)).1,
    (C34_mutex_unlock_hands_over (demo_running (.slot 0)) ⟨.slot 0, 1, [.slot 1, .slot 2]⟩
      [] [] rfl rfl (fun _ h => absurd h (List.not_mem_nil _))
      (fun _ h => absurd h (List.not_mem_nil _)) (Nat.le_refl _) (by decide)).2.2.1
      (.slot 1) [.slot 2] rfl (by decide) (by decide)⟩

/-- C35 (counterexample).  Task 1 calls `mutex_unlock` on a mutex that task
0 owns with depth 1 and task 2 waits for, and on a mutex that has no owner:
both calls return to the caller and leave the mutex and the scheduler as they
were.  The source has no assertion on that path. -/
theorem C35_unlock_by_other_returns :
    task_current (demo_running (.slot 1)) = .slot 1 ∧
    mutex_unlock (demo_running (.slot 1)) ⟨.slot 0, 1, [.slot 2]⟩ =
      (demo_running (.slot 1), ⟨.slot 0, 1, [.slot 2]⟩) ∧
    mutex_unlock (demo_running (.slot 1)) ⟨.null, 0, []⟩ =
      (demo_running (.slot 1), ⟨.null, 0, []⟩) :=
  ⟨rfl, rfl, rfl⟩

/-- C35 (amended).  `mutex_unlock` called by a task that does not own the
mutex, a mutex without owner included, returns to the caller with the mutex
(owner, depth and wait list) and the state of the scheduler unchanged. -/
theorem C35_unlock_by_other_changes_nothing {σ : Type} (k : kernel σ) (mutex : mutex_t)
    (hother : mutex.owner ≠ task_current k) :
    mutex_unlock k mutex = (k, mutex) := by
  unfold mutex_unlock
  dsimp only
  rw [if_neg hother]

/-- C35 (amended), for task 1 and a mutex that task 0 owns. -/
theorem C35_unlock_by_other_changes_nothing_witness :
    (⟨.slot 0, 1, [.slot 2]⟩ : mutex_t).owner ≠ task_current (demo_running (.slot 1)) ∧
    mutex_unlock (demo_running (.slot 1)) ⟨.slot 0, 1, [.slot 2]⟩ =
      (demo_running (.slot 1), ⟨.slot 0, 1, [.slot 2]⟩) :=
  ⟨by decide, C35_unlock_by_other_changes_nothing (demo_running (.slot 1))
    ⟨.slot 0, 1, [.slot 2]⟩ (by decide)⟩

/-! ### Claims on the timer tick -/

section tick_lemmas

variable {σ : Type}

/-- One step of the sleep-list walk of `task_time_tick`. -/
theorem tick_sleep_step_spec (k : kernel σ) (p : task_ptr) (hp : p ≠ .null) :
    (∀ q, q ≠ p → task_get (tick_sleep_step k p) q = task_get k q) ∧
    (task_get (tick_sleep_step k p) p).sleep_ticks = (task_get k p).sleep_ticks - 1 ∧
    ((task_get k p).sleep_ticks = 1 → p ≠ .idle_task →
      (task_get (tick_sleep_step k p) p).state = .TASK_READY) ∧
    (∀ q, (task_get (tick_sleep_step k p) q).slice_ticks = (task_get k q).slice_ticks ∧
      (task_get (tick_sleep_step k p) q).time_slice = (task_get k q).time_slice) ∧
    (tick_sleep_step k p).task_manager.sleep_list =
      if (task_get k p).sleep_ticks = 1 then k.task_manager.sleep_list.erase p
      else k.task_manager.sleep_list := by
  unfold tick_sleep_step
  dsimp only
  by_cases h1 : (task_get k p).sleep_ticks = 1
  · have h0 : (task_get k p).sleep_ticks - 1 = 0 := by omega
    rw [if_pos h0, if_pos h1]
    refine ⟨fun q hq => ?_, ?_, fun _ hi => ?_, fun q => ?_, ?_⟩
    · rw [task_get_task_set_ready, if_neg (fun e => hq e.1), (task_set_wakeup_view _ _).2.2.2,
        task_get_task_put, if_neg (fun e => hq e.1)]
    · rw [task_set_ready_sleep_ticks, (task_set_wakeup_view _ _).2.2.2, task_get_task_put,
        if_pos ⟨rfl, hp⟩]
    · rw [task_get_task_set_ready, if_pos ⟨rfl, hi, hp⟩]
    · rw [task_get_task_set_ready, (task_set_wakeup_view _ _).2.2.2, task_get_task_put]
      by_cases hq : q = p
      · subst hq
        by_cases hi : q = .idle_task
        · rw [if_neg (fun e => e.2.1 hi), if_pos ⟨rfl, hp⟩]
          exact ⟨rfl, rfl⟩
        · rw [if_pos ⟨rfl, hi, hp⟩, if_pos ⟨rfl, hp⟩]
          exact ⟨rfl, rfl⟩
      · rw [if_neg (fun e => hq e.1), if_neg (fun e => hq e.1)]
        exact ⟨rfl, rfl⟩
    · rw [task_set_ready_sleep_list, (task_set_wakeup_view _ _).2.1,
        (task_put_task_manager_lists _ _ _).2.1]
  · have h0 : ¬ ((task_get k p).sleep_ticks - 1 = 0) := by omega
    rw [if_neg h0, if_neg h1]
    refine ⟨fun q hq => ?_, ?_, fun h => absurd h h1, fun q => ?_, ?_⟩
    · rw [task_get_task_put, if_neg (fun e => hq e.1)]
    · rw [task_get_task_put, if_pos ⟨rfl, hp⟩]
    · rw [task_get_task_put]
      by_cases hq : q = p
      · subst hq
        rw [if_pos ⟨rfl, hp⟩]
        exact ⟨rfl, rfl⟩
      · rw [if_neg (fun e => hq e.1)]
        exact ⟨rfl, rfl⟩
    · exact (task_put_task_manager_lists _ _ _).2.1

/-- The sleep-list walk of `task_time_tick` over the list `l`. -/
theorem tick_walk_spec : ∀ (l : List task_ptr) (k : kernel σ), l.Nodup → .null ∉ l →
    k.task_manager.sleep_list.Nodup →
    (∀ q, q ∉ l → task_get (l.foldl tick_sleep_step k) q = task_get k q) ∧
    (∀ q, q ∈ l →
      (task_get (l.foldl tick_sleep_step k) q).sleep_ticks = (task_get k q).sleep_ticks - 1 ∧
      ((task_get k q).sleep_ticks = 1 → q ≠ .idle_task →
        (task_get (l.foldl tick_sleep_step k) q).state = .TASK_READY)) ∧
    (∀ q, (task_get (l.foldl tick_sleep_step k) q).slice_ticks = (task_get k q).slice_ticks ∧
      (task_get (l.foldl tick_sleep_step k) q).time_slice = (task_get k q).time_slice) ∧
    (l.foldl tick_sleep_step k).task_manager.sleep_list =
      k.task_manager.sleep_list.filter
        (fun p => decide (¬ (p ∈ l ∧ (task_get k p).sleep_ticks = 1)))
  | [], k, _, _, _ => by
    refine ⟨fun _ _ => rfl, fun q hq => absurd hq (List.not_mem_nil q), fun _ => ⟨rfl, rfl⟩, ?_⟩
    show k.task_manager.sleep_list = _
    rw [List.filter_eq_self.mpr]
    intro a _
    simp
  | p :: l, k, hnd, hnull, hsl => by
    have hpl : p ∉ l := (List.nodup_cons.mp hnd).1
    have hl : l.Nodup := (List.nodup_cons.mp hnd).2
    have hp : p ≠ .null := fun e => hnull (e ▸ List.mem_cons_self _ _)
    obtain ⟨s1, s2, s3, s4, s5⟩ := tick_sleep_step_spec k p hp
    have hsl1 : (tick_sleep_step k p).task_manager.sleep_list.Nodup := by
      rw [s5]
      split
      · exact hsl.erase p
      · exact hsl
    obtain ⟨w1, w2, w3, w4⟩ := tick_walk_spec l (tick_sleep_step k p) hl
      (fun h => hnull (List.mem_cons_of_mem _ h)) hsl1
    rw [List.foldl_cons]
    refine ⟨fun q hq => ?_, fun q hq => ?_, fun q => ?_, ?_⟩
    · have hqp : q ≠ p := fun e => hq (e ▸ List.mem_cons_self _ _)
      rw [w1 q (fun h => hq (List.mem_cons_of_mem _ h)), s1 q hqp]
    · rcases List.mem_cons.mp hq with e | hql
      · subst e
        rw [w1 q hpl]
        exact ⟨s2, s3⟩
      · have hqp : q ≠ p := fun e => hpl (e ▸ hql)
        have := w2 q hql
        rw [s1 q hqp] at this
        exact this
    · rw [(w3 q).1, (w3 q).2]
      exact s4 q
    · rw [w4, s5]
      have hcond : ∀ a, a ∈ k.task_manager.sleep_list → a ≠ p →
          decide (¬ (a ∈ l ∧ (task_get (tick_sleep_step k p) a).sleep_ticks = 1)) =
            decide (¬ (a ∈ p :: l ∧ (task_get k a).sleep_ticks = 1)) := by
        intro a _ hap
        rw [s1 a hap]
        simp [hap]
      by_cases h1 : (task_get k p).sleep_ticks = 1
      · rw [if_pos h1, hsl.erase_eq_filter p, List.filter_filter]
        apply List.filter_congr
        intro a ha
        by_cases hap : a = p
        · subst hap
          simp [h1]
        · rw [hcond a ha hap]
          simp [hap]
      · rw [if_neg h1]
        apply List.filter_congr
        intro a ha
        by_cases hap : a = p
        · subst hap
          simp [h1, hpl]
        · exact hcond a ha hap

theorem task_dispatch_next_run (k : kernel σ) :
    task_current (task_dispatch k) = task_next_run k := by
  unfold task_dispatch
  dsimp only
  by_cases h : task_next_run k ≠ k.task_manager.curr_task
  · rw [if_pos h]
    rfl
  · rw [if_neg h]
    exact (not_not.mp h).symm

end tick_lemmas

section tick_slice

variable {σ : Type}

/-- The handling of the time slice in `task_time_tick`. -/
theorem tick_slice_spec (k : kernel σ) (k1 : kernel σ)
    (hidle : task_current k ≠ .idle_task) (hnull : task_current k ≠ .null)
    (hk1 : k1 =
      if (task_get k (task_current k)).slice_ticks - 1 = 0 then
        task_set_ready (task_set_block (task_put k (task_current k)
          { task_get k (task_current k) with
            slice_ticks := (task_get k (task_current k)).time_slice }) (task_current k))
          (task_current k)
      else task_put k (task_current k)
        { task_get k (task_current k) with
          slice_ticks := (task_get k (task_current k)).slice_ticks - 1 }) :
    k1.task_manager.sleep_list = k.task_manager.sleep_list ∧
    (∀ q, (task_get k1 q).sleep_ticks = (task_get k q).sleep_ticks) ∧
    k1.task_manager.ready_list =
      (if (task_get k (task_current k)).slice_ticks = 1 then
        k.task_manager.ready_list.erase (task_current k) ++ [task_current k]
      else k.task_manager.ready_list) ∧
    (task_get k1 (task_current k)).slice_ticks =
      (if (task_get k (task_current k)).slice_ticks = 1 then
        (task_get k (task_current k)).time_slice
      else (task_get k (task_current k)).slice_ticks - 1) := by
  by_cases h1 : (task_get k (task_current k)).slice_ticks = 1
  · have h0 : (task_get k (task_current k)).slice_ticks - 1 = 0 := by omega
    rw [if_pos h0] at hk1
    rw [if_pos h1, if_pos h1, hk1]
    refine ⟨?_, fun q => ?_, ?_, ?_⟩
    · rw [task_set_ready_sleep_list, task_set_block_sleep_list,
        (task_put_task_manager_lists _ _ _).2.1]
    · rw [task_set_ready_sleep_ticks, task_set_block_task_get, task_get_task_put]
      split
      · rename_i hq
        rw [hq.1]
      · rfl
    · rw [task_set_ready_ready_list, if_pos hidle, task_set_block_ready_list, if_pos hidle,
        (task_put_task_manager_lists _ _ _).1]
    · rw [task_get_task_set_ready, if_pos ⟨rfl, hidle, hnull⟩, task_set_block_task_get,
        task_get_task_put, if_pos ⟨rfl, hnull⟩]
  · have h0 : ¬ ((task_get k (task_current k)).slice_ticks - 1 = 0) := by omega
    rw [if_neg h0] at hk1
    rw [if_neg h1, if_neg h1, hk1]
    refine ⟨(task_put_task_manager_lists _ _ _).2.1, fun q => ?_,
      (task_put_task_manager_lists _ _ _).1, ?_⟩
    · rw [task_get_task_put]
      split
      · rename_i hq
        rw [hq.1]
      · rfl
    · rw [task_get_task_put, if_pos ⟨rfl, hnull⟩]

end tick_slice

/-- C36.  One `task_time_tick` in a state in which the current task is not
the idle task and has `r >= 1` ticks of its slice left, and the sleep list
holds each task once and neither the null pointer nor the idle task.  With
`r > 1` the slice of the current task becomes `r - 1` and the ready list is
the old one followed by the woken tasks; with `r = 1` the slice becomes the
`time_slice` of the task and the ready list is the old one with the current
task moved to its end, followed by the woken tasks.  The woken tasks are the
tasks of the sleep list with one tick left, in the order of the sleep list.
The countdown of every task on the sleep list drops by one; the tasks that
reach zero leave the sleep list and have the state `TASK_READY`, the others
stay on the sleep list in their order.  Afterwards the current task is the
first of the ready list, or the idle task when the ready list is empty. -/
theorem C36_time_tick_step {σ : Type} (k : kernel σ) (r : Int)
    (hidle : task_current k ≠ .idle_task)
    (hr : (task_get k (task_current k)).slice_ticks = r) (hr1 : 1 ≤ r)
    (hnd : k.task_manager.sleep_list.Nodup)
    (hnull : .null ∉ k.task_manager.sleep_list)
    (hsi : .idle_task ∉ k.task_manager.sleep_list) :
    (1 < r →
      (task_get (task_time_tick k) (task_current k)).slice_ticks = r - 1 ∧
      (task_time_tick k).task_manager.ready_list =
        k.task_manager.ready_list ++
          k.task_manager.sleep_list.filter (fun p => decide ((task_get k p).sleep_ticks = 1))) ∧
    (r = 1 →
      (task_get (task_time_tick k) (task_current k)).slice_ticks =
        (task_get k (task_current k)).time_slice ∧
      (task_time_tick k).task_manager.ready_list =
        k.task_manager.ready_list.erase (task_current k) ++ [task_current k] ++
          k.task_manager.sleep_list.filter (fun p => decide ((task_get k p).sleep_ticks = 1))) ∧
    (∀ p, p ∈ k.task_manager.sleep_list →
      (task_get (task_time_tick k) p).sleep_ticks = (task_get k p).sleep_ticks - 1) ∧
    (task_time_tick k).task_manager.sleep_list =
      k.task_manager.sleep_list.filter (fun p => decide ((task_get k p).sleep_ticks ≠ 1)) ∧
    (∀ p, p ∈ k.task_manager.sleep_list → (task_get k p).sleep_ticks = 1 →
      (task_get (task_time_tick k) p).state = .TASK_READY) ∧
    task_current (task_time_tick k) =
      (if (task_time_tick k).task_manager.ready_list.length = 0 then .idle_task
       else (task_time_tick k).task_manager.ready_list.headD .null) := by
  have hcn : task_current k ≠ .null := by
    intro e
    rw [e] at hr
    have h0 : (task_get k .null).slice_ticks = 0 := rfl
    omega
  have hcur : task_current (task_time_tick k) =
      (if (task_time_tick k).task_manager.ready_list.length = 0 then .idle_task
       else (task_time_tick k).task_manager.ready_list.headD .null) := by
    unfold task_time_tick
    dsimp only
    rw [task_dispatch_next_run, task_dispatch_ready_list]
    rfl
  refine ⟨?_, ?_, ?_, ?_, ?_, hcur⟩ <;> clear hcur <;> unfold task_time_tick <;> dsimp only <;>
    obtain ⟨a1, a2, a3, a4⟩ := tick_slice_spec k _ hidle hcn rfl <;>
    generalize (if (task_get k (task_current k)).slice_ticks - 1 = 0 then
        task_set_ready (task_set_block (task_put k (task_current k)
          { task_get k (task_current k) with
            slice_ticks := (task_get k (task_current k)).time_slice }) (task_current k))
          (task_current k)
      else task_put k (task_current k)
        { task_get k (task_current k) with
          slice_ticks := (task_get k (task_current k)).slice_ticks - 1 }) = k1 at a1 a2 a3 a4 ⊢ <;>
    obtain ⟨w1, w2, w3, w4⟩ := tick_walk_spec k1.task_manager.sleep_list k1
      (by rw [a1]; exact hnd) (by rw [a1]; exact hnull) (by rw [a1]; exact hnd) <;>
    have hwoken : k1.task_manager.sleep_list.filter
        (fun p => decide (p ≠ .idle_task ∧ (task_get k1 p).sleep_ticks = 1)) =
        k.task_manager.sleep_list.filter
          (fun p => decide ((task_get k p).sleep_ticks = 1)) := by
      rw [a1]
      apply List.filter_congr
      intro p hp
      have hpi : p ≠ .idle_task := fun e => hsi (e ▸ hp)
      rw [a2 p]
      simp [hpi]
  · intro h
    rw [task_get_task_dispatch, (w3 _).1, a4, if_neg (by omega), hr,
      task_dispatch_ready_list, tick_walk_ready_list _ (by rw [a1]; exact hnd), hwoken, a3,
      if_neg (by omega)]
    exact ⟨rfl, rfl⟩
  · intro h
    rw [task_get_task_dispatch, (w3 _).1, a4, if_pos (by omega),
      task_dispatch_ready_list, tick_walk_ready_list _ (by rw [a1]; exact hnd), hwoken, a3,
      if_pos (by omega)]
    exact ⟨rfl, rfl⟩
  · intro p hp
    rw [task_get_task_dispatch, (w2 p (by rw [a1]; exact hp)).1, a2 p]
  · rw [task_dispatch_sleep_list, w4, a1]
    apply List.filter_congr
    intro p hp
    rw [a2 p]
    simp [hp]
  · intro p hp h1
    rw [task_get_task_dispatch]
    exact (w2 p (by rw [a1]; exact hp)).2 (by rw [a2 p]; exact h1) (fun e => hsi (e ▸ hp))

/-- C36, at the state `demo_sched`: task 0 runs with one tick of its slice
left, task 1 is ready and task 2 sleeps with one tick left.  After the tick
task 1 runs, the ready list is task 1, task 0, task 2, and the sleep list is
empty. -/
theorem C36_time_tick_step_witness :
    demo_sched_view ⟨demo_sched, [], []⟩ = ([.slot 0, .slot 1], [.slot 2], .slot 0) ∧
    demo_sched_view ⟨task_time_tick demo_sched, [], []⟩ =
      ([.slot 1, .slot 0, .slot 2], [], .slot 1) ∧
    ((task_get (task_time_tick demo_sched) (task_current demo_sched)).slice_ticks =
        (task_get demo_sched (task_current demo_sched)).time_slice ∧
      (task_time_tick demo_sched).task_manager.ready_list =
        demo_sched.task_manager.ready_list.erase (task_current demo_sched) ++
          [task_current demo_sched] ++
          demo_sched.task_manager.sleep_list.filter
            (fun p => decide ((task_get demo_sched p).sleep_ticks = 1))) :=
  ⟨by decide, by decide,
    (C36_time_tick_step demo_sched 1 (by decide) (by decide) (by decide) (by decide)
      (by decide) (by decide)).2.1 rfl⟩

/-! ### Claims on the cluster allocator -/

/-- C37.  On a mounted volume whose disk reports no error, let `l` be the
`n >= 1` lowest-numbered free clusters in ascending order: every cluster of
`l` is at least 2, has an entry in the table, is below `0xFFF8` and its entry
is 0, and every cluster from 2 on that lies below a cluster of `l` and is not
in `l` has a non-zero entry.  Then `cluster_alloc_free(n)` (with fuel for one
pass over the cluster numbers) returns the first cluster of `l`; afterwards
the entry of each cluster of `l` is the next cluster of `l`, the entry of the
last one is `FAT_CLUSTER_INVALID` (`0xFFF8`), every other entry of the table
is unchanged, the invariant of the driver holds and the disk outside the
tables is unchanged. -/
theorem C37_alloc_links_lowest_free (fuel : Nat) (fat : fat_t) (l : List Nat)
    (hinv : fat_inv fat) (hff : first_free (fat_entry fat) (fat_entries fat) 2 l)
    (hl : l ≠ []) (hfuel : 65536 ≤ fuel) :
    ∃ fat1, cluster_alloc_free fuel fat l.length = some (l.headD 0, fat1) ∧
      fat_inv fat1 ∧ links (fat_entry fat1) l ∧
      (∀ x, l.getLast? = some x → fat_entry fat1 x = FAT_CLUSTER_INVALID) ∧
      0xFFF8 ≤ FAT_CLUSTER_INVALID ∧
      (∀ y, y < fat_entries fat → y ∉ l → fat_entry fat1 y = fat_entry fat y) ∧
      fat_frame fat fat1 := by
  obtain ⟨fat1, E1, h1, ha1, hf1, hch, hother⟩ :=
    cluster_alloc_free_spec fuel fat (fat_entry fat) l ⟨hinv, fun _ _ => rfl⟩ hff hl hfuel
  have hn := fat_entries_frame hf1
  have hmem : ∀ x, x ∈ l → x < fat_entries fat1 := fun x hx => by
    rw [hn]
    exact (hff.2.1 x hx).2.1
  have hlinks : ∀ (l1 : List Nat), (∀ x, x ∈ l1 → x < fat_entries fat1) →
      links E1 l1 → links (fat_entry fat1) l1 := by
    intro l1
    induction l1 with
    | nil => intro _ _; trivial
    | cons x l1 ih =>
      intro hm hk
      cases l1 with
      | nil => trivial
      | cons y l1 =>
        refine ⟨?_, ih (fun z hz => hm z (List.mem_cons_of_mem _ hz)) hk.2⟩
        rw [ha1.2 x (hm x (List.mem_cons_self _ _))]
        exact hk.1
  refine ⟨fat1, h1, ha1.1, hlinks l hmem hch.2.2.1, fun x hx => ?_, by decide,
    fun y hy hyl => ?_, hf1⟩
  · rw [ha1.2 x (hmem x (List.mem_of_mem_getLast? hx))]
    exact hch.2.2.2 x hx
  · rw [ha1.2 y (by rw [hn]; exact hy)]
    exact hother y hyl

/-- C37, on the volume that holds `a.txt` in the clusters 2 and 3: the call
`cluster_alloc_free(3)` returns cluster 4 and links 4, 5 and 6. -/
theorem C37_alloc_links_lowest_free_witness :
    ∃ fat1, cluster_alloc_free 65536 demo_fat_one_file 3 = some (4, fat1) ∧
      fat_entry demo_fat_one_file 2 = 3 ∧ fat_entry demo_fat_one_file 3 = 0xFFF8 ∧
      fat_entry fat1 4 = 5 ∧ fat_entry fat1 5 = 6 ∧ fat_entry fat1 6 = 0xFFF8 ∧
      fat_entry fat1 2 = 3 ∧ fat_entry fat1 7 = 0 :=
  match C37_alloc_links_lowest_free 65536 demo_fat_one_file [4, 5, 6]
    ⟨⟨by decide!, by decide!, by decide!, by decide!, by decide!, by decide!, by decide!,
        by decide!, by decide!, by decide!, by decide!, by decide!⟩,
      fun _ => rfl, Or.inr ⟨3, by decide!, by decide!, by decide!⟩⟩
    ⟨by decide, by decide!, fun y hy hex hyl => by
      obtain ⟨x, hx, hyx⟩ := hex
      simp only [List.mem_cons, List.mem_singleton, List.not_mem_nil, or_false] at hx hyl
      have h23 : y = 2 ∨ y = 3 := by omega
      rcases h23 with rfl | rfl
      · decide!
      · decide!⟩
    (by decide) (by decide) with
  | ⟨fat1, h1, _, hk, hlast, _, hother, _⟩ =>
    ⟨fat1, h1, by decide!, by decide!, hk.1, hk.2.1, hlast 6 rfl,
      (hother 2 (by decide) (by decide)).trans (by decide!),
      (hother 7 (by decide) (by decide)).trans (by decide!)⟩

/-- With a table of at least 65536 entries the test `curr < c_total` of the
loop of `cluster_alloc_free` holds for every 16-bit `curr`; when no valid
cluster has a free entry the loop then runs on for any number of turns. -/
theorem cluster_alloc_loop_spins (c_total : Nat) (E : Nat → Nat) (hct : 65536 ≤ c_total)
    (hfull : ∀ c, 2 ≤ c → c < 0xFFF8 → E c ≠ 0) :
    ∀ (fuel : Nat) (fat : fat_t) (pre curr start cnt : Nat),
      fat_abs fat E → 65536 ≤ fat_entries fat → curr < 65536 → cnt ≠ 0 →
      cluster_alloc_loop c_total fuel fat pre curr start cnt = none := by
  intro fuel
  induction fuel with
  | zero => intro _ _ _ _ _ _ _ _ _; rfl
  | succ fuel ih =>
    intro fat pre curr start cnt ha hn hcurr hcnt
    unfold cluster_alloc_loop
    rw [if_pos ⟨by omega, hcnt⟩]
    dsimp only
    have hmod : (curr + 1) % 65536 < 65536 := Nat.mod_lt _ (by decide)
    by_cases hv : cluster_is_valid curr = true
    · obtain ⟨g1, g2, g3⟩ := cluster_get_next_abs fat E ha curr hv (by omega)
      have hb := (cluster_is_valid_iff curr).mp hv
      have hne : ¬ ((cluster_get_next fat curr).1 = FAT_CLUSTER_FREE) := by
        rw [g1]
        exact hfull curr hb.1 hb.2
      rw [if_neg hne]
      exact ih _ pre _ start cnt g2 (by rw [fat_entries_frame g3]; exact hn) hmod hcnt
    · have hv0 : cluster_is_valid curr = false := by
        cases h : cluster_is_valid curr with
        | true => exact absurd h hv
        | false => rfl
      have hg : cluster_get_next fat curr = (FAT_CLUSTER_INVALID, fat) := by
        unfold cluster_get_next
        rw [if_pos (by rw [hv0]; decide)]
      have hne : ¬ (FAT_CLUSTER_INVALID = FAT_CLUSTER_FREE) := by decide
      rw [hg, if_neg hne]
      exact ih _ pre _ start cnt ha hn hmod hcnt

section alloc_short

/-- The loop of `cluster_alloc_free` over a stretch of the table without a
free entry, in a table of fewer than 65536 entries: it ends when `curr`
reaches the number of entries and changes no entry. -/
theorem cluster_alloc_scan_rest (n : Nat) (hn8 : n ≤ 0xFFF8) (d : Nat) :
    ∀ (fuel : Nat) (fat : fat_t) (E : Nat → Nat) (pre curr start cnt : Nat),
      fat_abs fat E → fat_entries fat = n → 2 ≤ curr →
      (∀ y, curr ≤ y → y < n → E y ≠ 0) → n ≤ curr + d → d + 1 ≤ fuel →
      ∃ fat1, cluster_alloc_loop n fuel fat pre curr start cnt =
          some (none, pre, start, cnt, fat1) ∧
        fat_abs fat1 E ∧ fat_frame fat fat1 := by
  induction d with
  | zero =>
    intro fuel fat E pre curr start cnt ha _ _ _ hd hfuel
    obtain ⟨f, rfl⟩ : ∃ f, fuel = f + 1 := ⟨fuel - 1, by omega⟩
    refine ⟨fat, ?_, ha, fat_frame_refl fat⟩
    unfold cluster_alloc_loop
    rw [if_neg (by omega)]
  | succ d ih =>
    intro fuel fat E pre curr start cnt ha hn hcurr hfull hd hfuel
    obtain ⟨f, rfl⟩ : ∃ f, fuel = f + 1 := ⟨fuel - 1, by omega⟩
    by_cases hc : curr < n ∧ cnt ≠ 0
    · have hcv : cluster_is_valid curr = true :=
        (cluster_is_valid_iff curr).mpr ⟨hcurr, by omega⟩
      obtain ⟨g1, g2, g3⟩ := cluster_get_next_abs fat E ha curr hcv (by omega)
      have hwrap : (curr + 1) % 65536 = curr + 1 := Nat.mod_eq_of_lt (by omega)
      have hne : ¬ ((cluster_get_next fat curr).1 = FAT_CLUSTER_FREE) := by
        rw [g1]
        exact hfull curr (Nat.le_refl _) hc.1
      obtain ⟨fat1, h1, a1, f1⟩ := ih f (cluster_get_next fat curr).2 E pre (curr + 1) start cnt
        g2 (by rw [fat_entries_frame g3]; exact hn) (by omega)
        (fun y hy hyn => hfull y (by omega) hyn) (by omega) (by omega)
      refine ⟨fat1, ?_, a1, fat_frame_trans g3 f1⟩
      unfold cluster_alloc_loop
      rw [if_pos hc]
      dsimp only
      rw [if_neg hne, hwrap]
      exact h1
    · refine ⟨fat, ?_, ha, fat_frame_refl fat⟩
      unfold cluster_alloc_loop
      rw [if_neg hc]

/-- The loop of `cluster_alloc_free` in a table of fewer than 65536 entries
when `l` holds all the free clusters from `curr` on and `j >= 1` more are asked
for: it links the clusters of `l` and ends with `j` clusters missing. -/
theorem cluster_alloc_loop_short (n : Nat) (hn8 : n ≤ 0xFFF8) :
    ∀ (fuel : Nat) (l : List Nat) (fat : fat_t) (E : Nat → Nat) (pre curr start j : Nat),
      fat_abs fat E → fat_entries fat = n → 2 ≤ curr → first_free E n curr l →
      (∀ y, curr ≤ y → y < n → y ∉ l → E y ≠ 0) →
      (cluster_is_valid pre = true → pre < n ∧ pre < curr) →
      1 ≤ fuel → n + 1 ≤ curr + fuel → 1 ≤ j →
      ∃ fat1, cluster_alloc_loop n fuel fat pre curr start (l.length + j) =
          some (none, l.getLastD pre,
            (if cluster_is_valid start = true then start else l.headD start), j, fat1) ∧
        fat_abs fat1 (link_from E pre l) ∧ fat_frame fat fat1 := by
  intro fuel
  induction fuel with
  | zero => intro _ _ _ _ _ _ _ _ _ _ _ _ _ h; omega
  | succ fuel ih =>
    intro l fat E pre curr start j ha hn hcurr hff hall hpre _ hfuel hj
    cases l with
    | nil =>
      obtain ⟨fat1, h1, a1, f1⟩ := cluster_alloc_scan_rest n hn8 (n - curr) (fuel + 1) fat E pre
        curr start ([].length + j) ha hn hcurr
        (fun y hy hyn => hall y hy hyn (List.not_mem_nil _)) (by omega) (by omega)
      refine ⟨fat1, ?_, a1, f1⟩
      rw [h1]
      by_cases hsv : cluster_is_valid start = true
      · simp [hsv]
      · simp [hsv]
    | cons x l =>
      obtain ⟨hs, hm, hnf⟩ := hff
      have hx := hm x (List.mem_cons_self _ _)
      have hcv : cluster_is_valid curr = true := (cluster_is_valid_iff curr).mpr ⟨hcurr, by omega⟩
      have hcn : curr < fat_entries fat := by omega
      have hg := cluster_get_next_abs fat E ha curr hcv hcn
      have hwrap : (curr + 1) % 65536 = curr + 1 := by omega
      have hcnt : (x :: l).length + j - 1 = l.length + j := by
        rw [List.length_cons]
        omega
      have hcnt0 : (x :: l).length + j ≠ 0 := by omega
      by_cases hcx : curr = x
      · subst hcx
        have hE0 : E curr = 0 := hx.2.2.2
        have hff1 : ∀ E1 : Nat → Nat, (∀ y, curr ≤ y → E1 y = E y) →
            first_free E1 n (curr + 1) l := first_free_tail ⟨hs, hm, hnf⟩
        have hall1 : ∀ E1 : Nat → Nat, (∀ y, curr ≤ y → E1 y = E y) →
            ∀ y, curr + 1 ≤ y → y < n → y ∉ l → E1 y ≠ 0 := by
          intro E1 hE1 y hy hyn hyl
          rw [hE1 y (by omega)]
          refine hall y (by omega) hyn (fun hmem => ?_)
          rcases List.mem_cons.mp hmem with h1 | h1
          · omega
          · exact hyl h1
        have hlast : (curr :: l).getLastD pre = l.getLastD curr := by
          cases l <;> rfl
        have hstart : (if cluster_is_valid
              (if ¬ cluster_is_valid start = true then curr else start) = true then
              (if ¬ cluster_is_valid start = true then curr else start)
            else l.headD (if ¬ cluster_is_valid start = true then curr else start)) =
            (if cluster_is_valid start = true then start else (curr :: l).headD start) := by
          by_cases hsv : cluster_is_valid start = true
          · simp [hsv]
          · simp [hsv, hcv]
        by_cases hpv : cluster_is_valid pre = true
        · have hp := hpre hpv
          have hsn := cluster_set_next_abs (cluster_get_next fat curr).2 E hg.2.1 pre curr hpv
            (by rw [fat_entries_frame hg.2.2]; omega)
          have hstep : cluster_alloc_loop n (fuel + 1) fat pre curr start
                ((curr :: l).length + j) =
              cluster_alloc_loop n fuel
                (cluster_set_next (cluster_get_next fat curr).2 pre curr).2 curr (curr + 1)
                (if ¬ cluster_is_valid start = true then curr else start) (l.length + j) := by
            conv => lhs; unfold cluster_alloc_loop
            rw [if_pos ⟨by omega, hcnt0⟩]
            dsimp only
            rw [hg.1, hE0, if_pos (show (0 : Nat) = FAT_CLUSTER_FREE from rfl), if_pos hpv,
              if_neg (by rw [hsn.1]; decide), hwrap, hcnt]
          generalize (cluster_set_next (cluster_get_next fat curr).2 pre curr).2 = fat2
            at hsn hstep
          have hmod : curr % 65536 = curr := by omega
          rw [hmod] at hsn
          have hfr : fat_frame fat fat2 := fat_frame_trans hg.2.2 hsn.2.2
          have hEq : ∀ y, curr ≤ y → (fun x => if x = pre then curr else E x) y = E y := by
            intro y hy
            have : y ≠ pre := by omega
            simp [this]
          obtain ⟨fat3, h3, ha3, hf3⟩ := ih l fat2 _ curr (curr + 1)
            (if ¬ cluster_is_valid start = true then curr else start) j hsn.2.1
            (by rw [fat_entries_frame hfr]; exact hn) (by omega)
            (hff1 _ hEq) (hall1 _ hEq)
            (fun _ => ⟨by omega, by omega⟩) (by omega) (by omega) hj
          refine ⟨fat3, ?_, ?_, fat_frame_trans hfr hf3⟩
          · rw [hstep, h3, hlast, hstart]
          · have : link_from E pre (curr :: l) =
                link_from (fun x => if x = pre then curr else E x) curr l := by
              show link_from
                (fun y => if cluster_is_valid pre = true ∧ y = pre then curr else E y) curr l = _
              funext y
              simp [hpv]
            rw [this]
            exact ha3
        · have hstep : cluster_alloc_loop n (fuel + 1) fat pre curr start
                ((curr :: l).length + j) =
              cluster_alloc_loop n fuel (cluster_get_next fat curr).2 curr (curr + 1)
                (if ¬ cluster_is_valid start = true then curr else start) (l.length + j) := by
            conv => lhs; unfold cluster_alloc_loop
            rw [if_pos ⟨by omega, hcnt0⟩]
            dsimp only
            rw [hg.1, hE0, if_pos (show (0 : Nat) = FAT_CLUSTER_FREE from rfl), if_neg hpv,
              hwrap, hcnt]
          obtain ⟨fat3, h3, ha3, hf3⟩ := ih l (cluster_get_next fat curr).2 E curr (curr + 1)
            (if ¬ cluster_is_valid start = true then curr else start) j hg.2.1
            (by rw [fat_entries_frame hg.2.2]; exact hn) (by omega)
            (hff1 _ (fun y _ => rfl)) (hall1 _ (fun y _ => rfl))
            (fun _ => ⟨by omega, by omega⟩) (by omega) (by omega) hj
          refine ⟨fat3, ?_, ?_, fat_frame_trans hg.2.2 hf3⟩
          · rw [hstep, h3, hlast, hstart]
          · have : link_from E pre (curr :: l) = link_from E curr l := by
              show link_from
                (fun y => if cluster_is_valid pre = true ∧ y = pre then curr else E y) curr l = _
              funext y
              simp [hpv]
            rw [this]
            exact ha3
      · have hlt : curr < x := by omega
        have hnotin : curr ∉ x :: l := by
          intro hmem
          rcases List.mem_cons.mp hmem with h1 | h1
          · exact hcx h1
          · have := List.rel_of_pairwise_cons hs h1
            omega
        have hEc : E curr ≠ 0 := hnf curr (le_refl _) ⟨x, List.mem_cons_self _ _, hlt⟩ hnotin
        have hstep : cluster_alloc_loop n (fuel + 1) fat pre curr start ((x :: l).length + j) =
            cluster_alloc_loop n fuel (cluster_get_next fat curr).2 pre (curr + 1) start
              ((x :: l).length + j) := by
          conv => lhs; unfold cluster_alloc_loop
          rw [if_pos ⟨by omega, hcnt0⟩]
          dsimp only
          rw [hg.1, if_neg (by simpa [FAT_CLUSTER_FREE] using hEc), hwrap]
        obtain ⟨fat3, h3, ha3, hf3⟩ := ih (x :: l) (cluster_get_next fat curr).2 E pre (curr + 1)
          start j hg.2.1 (by rw [fat_entries_frame hg.2.2]; exact hn) (by omega)
          (first_free_skip ⟨hs, hm, hnf⟩ hnotin)
          (fun y hy hyn hyl => hall y (by omega) hyn hyl)
          (fun hv => ⟨(hpre hv).1, by have := (hpre hv).2; omega⟩) (by omega) (by omega) hj
        exact ⟨fat3, by rw [hstep, h3], ha3, fat_frame_trans hg.2.2 hf3⟩

/-- On a volume with at most 255 sectors per table copy, on which the list
`l` holds all the free clusters and more than these are asked for,
`cluster_alloc_free` returns `FAT_CLUSTER_INVALID` and every entry of the
table is as before the call. -/
theorem cluster_alloc_free_short (fuel : Nat) (fat : fat_t) (E : Nat → Nat) (l : List Nat)
    (n : Nat) (ha : fat_abs fat E) (h255 : fat.tbl_sectors ≤ 255)
    (hff : first_free E (fat_entries fat) 2 l)
    (hall : ∀ y, 2 ≤ y → y < fat_entries fat → y ∉ l → E y ≠ 0)
    (hn : l.length < n) (hfuel : 65536 ≤ fuel) :
    ∃ fat1, cluster_alloc_free fuel fat n = some (FAT_CLUSTER_INVALID, fat1) ∧
      fat_abs fat1 E ∧ fat_frame fat fat1 := by
  have hw := ha.1.1
  have hinv : cluster_is_valid FAT_CLUSTER_INVALID = false := by decide
  have hct : fat.tbl_sectors * fat.bytes_per_sec / 2 = fat_entries fat := by
    unfold fat_entries
    rw [hw.bps]
    omega
  have hn8 : fat_entries fat ≤ 0xFFF8 := by
    unfold fat_entries
    omega
  obtain ⟨hok, hnd⟩ := first_free_clusters_ok (le_refl 2) hff
  obtain ⟨fat1, h1, ha1, hf1⟩ := cluster_alloc_loop_short (fat_entries fat) hn8 fuel l fat E
    FAT_CLUSTER_INVALID 2 FAT_CLUSTER_INVALID (n - l.length) ha rfl (le_refl 2) hff hall
    (fun h => by rw [hinv] at h; exact absurd h (by decide)) (by omega) (by omega) (by omega)
  have hnl : l.length + (n - l.length) = n := by omega
  rw [hnl, if_neg (by rw [hinv]; decide)] at h1
  obtain ⟨la, lb, lc, _⟩ := link_from_spec l E FAT_CLUSTER_INVALID hff.1
    (fun h => by rw [hinv] at h; exact absurd h (by decide)) (fun x hx => (hok x hx).1)
  have hla : ∀ y, y ∉ l → link_from E FAT_CLUSTER_INVALID l y = E y := fun y hy =>
    la y hy (fun h => by rw [hinv] at h; exact absurd h.1 (by decide))
  have hfin : ∃ fat2, cluster_free_chain fuel fat1 (l.headD FAT_CLUSTER_INVALID) = some fat2 ∧
      fat_abs fat2 E ∧ fat_frame fat1 fat2 := by
    cases hl : l with
    | nil =>
      obtain ⟨f, rfl⟩ : ∃ f, fuel = f + 1 := ⟨fuel - 1, by omega⟩
      refine ⟨fat1, cluster_free_chain_invalid f fat1 _ hinv, ?_, fat_frame_refl fat1⟩
      rw [hl] at ha1
      exact ha1
    | cons x l1 =>
      rw [← hl]
      have hne : l ≠ [] := by rw [hl]; exact List.cons_ne_nil _ _
      have hhead : l.headD FAT_CLUSTER_INVALID = l.headD 0 := by
        rw [hl]
        rfl
      have hch : is_chain fat1 (link_from E FAT_CLUSTER_INVALID l) l 0 := by
        refine ⟨fun y hy => ?_, hnd, lb, fun y hy => ?_⟩
        · have := hok y hy
          exact ⟨this.1, by rw [fat_entries_frame hf1]; exact this.2⟩
        · rw [lc y hy]
          exact (hff.2.1 y (List.mem_of_mem_getLast? hy)).2.2.2
      obtain ⟨fat2, h2, ha2, hf2⟩ := cluster_free_chain_spec l fuel fat1 _ 0 ha1 hch
        (by decide) hne (by
          have hlen : l.length ≤ 0xFFF8 := by
            have hsub : l.length ≤ (List.range 0xFFF8).length :=
              (List.Nodup.subperm hnd (fun y hy => List.mem_range.mpr
                (hff.2.1 y hy).2.2.1) : l.Subperm (List.range 0xFFF8)).length_le
            rw [List.length_range] at hsub
            exact hsub
          omega)
      refine ⟨fat2, by rw [hhead]; exact h2, ⟨ha2.1, fun c hc => ?_⟩, hf2⟩
      rw [ha2.2 c hc]
      show (if c ∈ l then 0 else link_from E FAT_CLUSTER_INVALID l c) = E c
      by_cases hcl : c ∈ l
      · rw [if_pos hcl]
        exact (hff.2.1 c hcl).2.2.2.symm
      · rw [if_neg hcl]
        exact hla c hcl
  obtain ⟨fat2, h2, ha2, hf2⟩ := hfin
  refine ⟨fat2, ?_, ha2, fat_frame_trans hf1 hf2⟩
  unfold cluster_alloc_free
  dsimp only
  rw [hct, h1]
  dsimp only
  rw [if_neg (by omega), if_neg (by omega)]
  dsimp only
  rw [h2]

end alloc_short

theorem demo_fat_two_free_used :
    ∀ y, y < 256 → 2 ≤ y → y ≠ 5 → y ≠ 9 → fat_entry demo_fat_two_free y ≠ 0 := by
  decide!

/-- C31.  On a mounted volume whose disk reports no error, for `n >= 1`.
With at least 256 sectors per table copy and no free entry among the
clusters 2 to `0xFFF7`, `cluster_alloc_free(n)` does not return: for every
bound on the number of turns, the loops have not ended.  With at most 255
sectors per table copy, when the list `l` of all the free clusters has fewer
than `n` members, the call returns `FAT_CLUSTER_INVALID` (within 65536 turns
of its loops) and every entry of the table is as before the call. -/
theorem C31_alloc_without_space (fat : fat_t) (n : Nat) (hinv : fat_inv fat) (hn : 1 ≤ n) :
    (256 ≤ fat.tbl_sectors → (∀ c, 2 ≤ c → c < 0xFFF8 → fat_entry fat c ≠ 0) →
      ∀ fuel, cluster_alloc_free fuel fat n = none) ∧
    (fat.tbl_sectors ≤ 255 → ∀ l, first_free (fat_entry fat) (fat_entries fat) 2 l →
      (∀ y, 2 ≤ y → y < fat_entries fat → y ∉ l → fat_entry fat y ≠ 0) → l.length < n →
      ∀ fuel, 65536 ≤ fuel →
        ∃ fat1, cluster_alloc_free fuel fat n = some (FAT_CLUSTER_INVALID, fat1) ∧
          fat_inv fat1 ∧ (∀ c, c < fat_entries fat → fat_entry fat1 c = fat_entry fat c) ∧
          fat_frame fat fat1) := by
  have hw := hinv.1
  constructor
  · intro h256 hfull fuel
    unfold cluster_alloc_free
    dsimp only
    rw [cluster_alloc_loop_spins (fat.tbl_sectors * fat.bytes_per_sec / 2) (fat_entry fat)
      (by rw [hw.bps]; omega) hfull fuel fat FAT_CLUSTER_INVALID 2 FAT_CLUSTER_INVALID n
      ⟨hinv, fun _ _ => rfl⟩ (by unfold fat_entries; omega) (by decide) (by omega)]
  · intro h255 l hff hall hlen fuel hfuel
    obtain ⟨fat1, h1, a1, f1⟩ := cluster_alloc_free_short fuel fat (fat_entry fat) l n
      ⟨hinv, fun _ _ => rfl⟩ h255 hff hall hlen hfuel
    exact ⟨fat1, h1, a1.1, fun c hc => a1.2 c (by rw [fat_entries_frame f1]; exact hc), f1⟩

/-- C31, on two volumes that `fatfs_mount` accepts (two table copies).  On
the full volume `demo_fat_full` with 65536 entries per copy, all of them
`0xFFFF`, `cluster_alloc_free(1)` does not return.  On the volume
`demo_fat_two_free` with 256 entries per copy, of which the clusters 5 and 9
are free, `cluster_alloc_free(3)` returns `FAT_CLUSTER_INVALID` and leaves
the clusters 5 and 9 free. -/
theorem C31_alloc_without_space_witness :
    (demo_fat_full.tbl_cnt = 2 ∧ fat_entries demo_fat_full = 65536 ∧
      (∀ c, fat_entry demo_fat_full c = 0xFFFF) ∧
      ∀ fuel, cluster_alloc_free fuel demo_fat_full 1 = none) ∧
    (demo_fat_two_free.tbl_cnt = 2 ∧ fat_entries demo_fat_two_free = 256 ∧
      ∃ fat1, cluster_alloc_free 65536 demo_fat_two_free 3 = some (FAT_CLUSTER_INVALID, fat1) ∧
        fat_entry fat1 5 = 0 ∧ fat_entry fat1 9 = 0 ∧ fat_entry fat1 6 = 0xFFFF) :=
  ⟨⟨rfl, by decide, fun _ => by simp [fat_entry, read16, demo_fat_full],
      (C31_alloc_without_space demo_fat_full 1
        ⟨⟨by decide, by decide, by decide, by decide, by decide, by decide, by decide,
            by decide, by decide, by decide, by decide, by decide⟩,
          fun _ => rfl, Or.inl rfl⟩
        (by decide)).1 (by decide)
        (fun c _ _ => by simp [fat_entry, read16, demo_fat_full])⟩,
    rfl, by decide,
    match (C31_alloc_without_space demo_fat_two_free 3
        ⟨⟨by decide, by decide, by decide, by decide, by decide, by decide, by decide,
            by decide, by decide, by decide, by decide, by decide⟩,
          fun _ => rfl, Or.inl rfl⟩
        (by decide)).2 (by decide) [5, 9]
        ⟨by decide, by decide!, fun y hy hex hyl => by
          obtain ⟨x, hx, hyx⟩ := hex
          simp only [List.mem_cons, List.mem_singleton, List.not_mem_nil, or_false] at hx hyl
          exact demo_fat_two_free_used y (by omega) hy (fun e => hyl (Or.inl e))
            (fun e => hyl (Or.inr e))⟩
        (fun y hy hlt hyl => by
          simp only [List.mem_cons, List.mem_singleton, List.not_mem_nil, or_false] at hyl
          exact demo_fat_two_free_used y hlt hy (fun e => hyl (Or.inl e))
            (fun e => hyl (Or.inr e)))
        (by decide) 65536 (by decide) with
    | ⟨fat1, h1, _, hsame, _⟩ =>
      ⟨fat1, h1, (hsame 5 (by decide)).trans (by decide!),
        (hsame 9 (by decide)).trans (by decide!),
        (hsame 6 (by decide)).trans (by decide!)⟩⟩

/-! ### The table copies -/

section fat_keep

/-- A call of `cluster_get_next` that does not reach the table returns
`FAT_CLUSTER_INVALID` and changes nothing. -/
theorem cluster_get_next_cases (fat : fat_t) (hi : fat_inv fat) (c : Nat) :
    cluster_get_next fat c = (FAT_CLUSTER_INVALID, fat) ∨
    (cluster_is_valid c = true ∧ c < fat_entries fat) := by
  by_cases hv : cluster_is_valid c = true
  · by_cases hc : c < fat_entries fat
    · exact Or.inr ⟨hv, hc⟩
    · left
      have hs : c * 2 / fat.bytes_per_sec ≥ fat.tbl_sectors := by
        rw [hi.1.bps]
        unfold fat_entries at hc
        omega
      unfold cluster_get_next
      rw [if_neg (by rw [hv]; decide)]
      dsimp only
      rw [if_pos hs]
  · left
    unfold cluster_get_next
    rw [if_pos hv]

/-- A call of `cluster_set_next` that does not reach the table returns -1
and changes nothing. -/
theorem cluster_set_next_cases (fat : fat_t) (hi : fat_inv fat) (c v : Nat) :
    cluster_set_next fat c v = (-1, fat) ∨
    (cluster_is_valid c = true ∧ c < fat_entries fat) := by
  by_cases hv : cluster_is_valid c = true
  · by_cases hc : c < fat_entries fat
    · exact Or.inr ⟨hv, hc⟩
    · left
      have hs : c * 2 / fat.bytes_per_sec ≥ fat.tbl_sectors := by
        rw [hi.1.bps]
        unfold fat_entries at hc
        omega
      unfold cluster_set_next
      rw [if_neg (by rw [hv]; decide)]
      dsimp only
      rw [if_pos hs]
  · left
    unfold cluster_set_next
    rw [if_pos hv]

/-- The function `cluster_get_next` keeps the invariant of the driver and
the frame, for every argument. -/
theorem cluster_get_next_keeps (fat : fat_t) (hi : fat_inv fat) (c : Nat) :
    fat_inv (cluster_get_next fat c).2 ∧ fat_frame fat (cluster_get_next fat c).2 := by
  rcases cluster_get_next_cases fat hi c with h | ⟨hv, hc⟩
  · rw [h]
    exact ⟨hi, fat_frame_refl fat⟩
  · obtain ⟨_, g2, g3⟩ := cluster_get_next_abs fat (fat_entry fat) ⟨hi, fun _ _ => rfl⟩ c hv hc
    exact ⟨g2.1, g3⟩

/-- The function `cluster_set_next` keeps the invariant of the driver and
the frame, for every argument. -/
theorem cluster_set_next_keeps (fat : fat_t) (hi : fat_inv fat) (c v : Nat) :
    fat_inv (cluster_set_next fat c v).2 ∧ fat_frame fat (cluster_set_next fat c v).2 := by
  rcases cluster_set_next_cases fat hi c v with h | ⟨hv, hc⟩
  · rw [h]
    exact ⟨hi, fat_frame_refl fat⟩
  · obtain ⟨_, g2, g3⟩ := cluster_set_next_abs fat (fat_entry fat) ⟨hi, fun _ _ => rfl⟩ c v hv hc
    exact ⟨g2.1, g3⟩

/-- Whenever `cluster_free_chain` returns, the invariant of the driver and
the frame hold. -/
theorem cluster_free_chain_keeps :
    ∀ (fuel : Nat) (fat : fat_t) (start : Nat) (fat1 : fat_t), fat_inv fat →
      cluster_free_chain fuel fat start = some fat1 → fat_inv fat1 ∧ fat_frame fat fat1 := by
  intro fuel
  induction fuel with
  | zero =>
    intro fat start fat1 _ h
    unfold cluster_free_chain at h
    exact absurd h (by simp)
  | succ fuel ih =>
    intro fat start fat1 hi h
    unfold cluster_free_chain at h
    by_cases hv : cluster_is_valid start = true
    · rw [if_pos hv] at h
      dsimp only at h
      obtain ⟨g1, g2⟩ := cluster_get_next_keeps fat hi start
      obtain ⟨s1, s2⟩ := cluster_set_next_keeps _ g1 start FAT_CLUSTER_FREE
      obtain ⟨r1, r2⟩ := ih _ _ fat1 s1 h
      exact ⟨r1, fat_frame_trans (fat_frame_trans g2 s2) r2⟩
    · rw [if_neg hv] at h
      injection h with h
      subst h
      exact ⟨hi, fat_frame_refl fat⟩

/-- Whenever the loop of `cluster_alloc_free` ends, the invariant of the
driver and the frame hold. -/
theorem cluster_alloc_loop_keeps (c_total : Nat) :
    ∀ (fuel : Nat) (fat : fat_t) (pre curr start cnt : Nat)
      (r : Option Nat × Nat × Nat × Nat × fat_t), fat_inv fat →
      cluster_alloc_loop c_total fuel fat pre curr start cnt = some r →
      fat_inv r.2.2.2.2 ∧ fat_frame fat r.2.2.2.2 := by
  intro fuel
  induction fuel with
  | zero =>
    intro fat pre curr start cnt r _ h
    unfold cluster_alloc_loop at h
    exact absurd h (by simp)
  | succ fuel ih =>
    intro fat pre curr start cnt r hi h
    unfold cluster_alloc_loop at h
    by_cases hc : curr < c_total ∧ cnt ≠ 0
    · rw [if_pos hc] at h
      dsimp only at h
      obtain ⟨g1, g2⟩ := cluster_get_next_keeps fat hi curr
      by_cases hf : (cluster_get_next fat curr).1 = FAT_CLUSTER_FREE
      · rw [if_pos hf] at h
        by_cases hp : cluster_is_valid pre = true
        · rw [if_pos hp] at h
          obtain ⟨s1, s2⟩ := cluster_set_next_keeps _ g1 pre curr
          by_cases hw : (cluster_set_next (cluster_get_next fat curr).2 pre curr).1 < 0
          · rw [if_pos hw] at h
            cases hfc : cluster_free_chain fuel
                (cluster_set_next (cluster_get_next fat curr).2 pre curr).2
                (if ¬ cluster_is_valid start = true then curr else start) with
            | none =>
              rw [hfc] at h
              exact absurd h (by simp)
            | some fat2 =>
              rw [hfc] at h
              injection h with h
              subst h
              obtain ⟨r1, r2⟩ := cluster_free_chain_keeps _ _ _ fat2 s1 hfc
              exact ⟨r1, fat_frame_trans (fat_frame_trans g2 s2) r2⟩
          · rw [if_neg hw] at h
            obtain ⟨r1, r2⟩ := ih _ _ _ _ _ r s1 h
            exact ⟨r1, fat_frame_trans (fat_frame_trans g2 s2) r2⟩
        · rw [if_neg hp] at h
          obtain ⟨r1, r2⟩ := ih _ _ _ _ _ r g1 h
          exact ⟨r1, fat_frame_trans g2 r2⟩
      · rw [if_neg hf] at h
        obtain ⟨r1, r2⟩ := ih _ _ _ _ _ r g1 h
        exact ⟨r1, fat_frame_trans g2 r2⟩
    · rw [if_neg hc] at h
      injection h with h
      subst h
      exact ⟨hi, fat_frame_refl fat⟩

/-- Whenever `cluster_alloc_free` returns, the invariant of the driver and
the frame hold. -/
theorem cluster_alloc_free_keeps (fuel : Nat) (fat : fat_t) (cnt : Nat) (r : Nat × fat_t)
    (hi : fat_inv fat) (h : cluster_alloc_free fuel fat cnt = some r) :
    fat_inv r.2 ∧ fat_frame fat r.2 := by
  unfold cluster_alloc_free at h
  dsimp only at h
  cases hl : cluster_alloc_loop (fat.tbl_sectors * fat.bytes_per_sec / 2) fuel fat
      FAT_CLUSTER_INVALID 2 FAT_CLUSTER_INVALID cnt with
  | none =>
    rw [hl] at h
    exact absurd h (by simp)
  | some x =>
    obtain ⟨ret, pre, start, cnt1, fat1⟩ := x
    have hk := cluster_alloc_loop_keeps _ _ _ _ _ _ _ _ hi hl
    rw [hl] at h
    cases ret with
    | some v =>
      injection h with h
      subst h
      exact hk
    | none =>
      dsimp only at h
      have hw : fat_inv (if cnt1 = 0 then cluster_set_next fat1 pre FAT_CLUSTER_INVALID
            else (-1, fat1)).2 ∧
          fat_frame fat (if cnt1 = 0 then cluster_set_next fat1 pre FAT_CLUSTER_INVALID
            else (-1, fat1)).2 := by
        by_cases h0 : cnt1 = 0
        · rw [if_pos h0]
          obtain ⟨s1, s2⟩ := cluster_set_next_keeps fat1 hk.1 pre FAT_CLUSTER_INVALID
          exact ⟨s1, fat_frame_trans hk.2 s2⟩
        · rw [if_neg h0]
          exact hk
      generalize (if cnt1 = 0 then cluster_set_next fat1 pre FAT_CLUSTER_INVALID
        else (-1, fat1)) = w at h hw
      by_cases hc : cnt1 = 0 ∧ w.1 = 0
      · rw [if_pos hc] at h
        injection h with h
        subst h
        exact hw
      · rw [if_neg hc] at h
        cases hfc : cluster_free_chain fuel w.2 start with
        | none =>
          rw [hfc] at h
          exact absurd h (by simp)
        | some fat2 =>
          rw [hfc] at h
          injection h with h
          subst h
          obtain ⟨r1, r2⟩ := cluster_free_chain_keeps _ _ _ fat2 hw.1 hfc
          exact ⟨r1, fat_frame_trans hw.2 r2⟩

end fat_keep

section fat_terminates

/-- The loop of `cluster_free_chain` ends: every turn but the last two
clears a non-zero entry of a cluster below `0xFFF8`, and `k` bounds the
number of such entries. -/
theorem cluster_free_chain_ends (k : Nat) :
    ∀ (fuel : Nat) (fat : fat_t) (E : Nat → Nat) (start : Nat), fat_abs fat E →
      ((Finset.range 0xFFF8).filter (fun c => E c ≠ 0)).card ≤ k → k + 2 ≤ fuel →
      ∃ fat1, cluster_free_chain fuel fat start = some fat1 := by
  induction k with
  | zero =>
    intro fuel fat E start ha hk hfuel
    obtain ⟨f, rfl⟩ : ∃ f, fuel = f + 1 := ⟨fuel - 1, by omega⟩
    obtain ⟨f1, rfl⟩ : ∃ f1, f = f1 + 1 := ⟨f - 1, by omega⟩
    by_cases hv : cluster_is_valid start = true
    · have hb := (cluster_is_valid_iff start).mp hv
      have hinv : cluster_is_valid (FAT_CLUSTER_INVALID % 65536) = false := by decide
      unfold cluster_free_chain
      rw [if_pos hv]
      dsimp only
      rcases cluster_get_next_cases fat ha.1 start with h | ⟨_, hc⟩
      · rw [h]
        exact ⟨_, cluster_free_chain_invalid f1 _ _ hinv⟩
      · obtain ⟨g1, g2, _⟩ := cluster_get_next_abs fat E ha start hv hc
        have hz : E start = 0 := by
          by_contra hne
          have hmem : start ∈ (Finset.range 0xFFF8).filter (fun c => E c ≠ 0) :=
            Finset.mem_filter.mpr ⟨Finset.mem_range.mpr hb.2, hne⟩
          have hpos := Finset.card_pos.mpr ⟨start, hmem⟩
          omega
        rw [g1, hz]
        exact ⟨_, cluster_free_chain_invalid f1 _ _ (by decide)⟩
    · unfold cluster_free_chain
      rw [if_neg hv]
      exact ⟨fat, rfl⟩
  | succ k ih =>
    intro fuel fat E start ha hk hfuel
    obtain ⟨f, rfl⟩ : ∃ f, fuel = f + 1 := ⟨fuel - 1, by omega⟩
    obtain ⟨f1, hf1⟩ : ∃ f1, f = f1 + 1 := ⟨f - 1, by omega⟩
    by_cases hv : cluster_is_valid start = true
    · have hb := (cluster_is_valid_iff start).mp hv
      have hinv : cluster_is_valid (FAT_CLUSTER_INVALID % 65536) = false := by decide
      unfold cluster_free_chain
      rw [if_pos hv]
      dsimp only
      rcases cluster_get_next_cases fat ha.1 start with h | ⟨_, hc⟩
      · rw [h, hf1]
        exact ⟨_, cluster_free_chain_invalid f1 _ _ hinv⟩
      · obtain ⟨g1, g2, g3⟩ := cluster_get_next_abs fat E ha start hv hc
        obtain ⟨_, s2, _⟩ := cluster_set_next_abs _ E g2 start FAT_CLUSTER_FREE hv
          (by rw [fat_entries_frame g3]; exact hc)
        by_cases hz : E start = 0
        · rw [g1, hz, hf1]
          exact ⟨_, cluster_free_chain_invalid f1 _ _ (by decide)⟩
        · refine ih f _ _ _ s2 ?_ (by omega)
          have hmem : start ∈ (Finset.range 0xFFF8).filter (fun c => E c ≠ 0) :=
            Finset.mem_filter.mpr ⟨Finset.mem_range.mpr hb.2, hz⟩
          have hsub : (Finset.range 0xFFF8).filter
              (fun c => (if c = start then FAT_CLUSTER_FREE % 65536 else E c) ≠ 0) ⊂
              (Finset.range 0xFFF8).filter (fun c => E c ≠ 0) := by
            refine Finset.ssubset_iff_subset_ne.mpr ⟨fun c hcm => ?_, fun heq => ?_⟩
            · obtain ⟨c1, c2⟩ := Finset.mem_filter.mp hcm
              refine Finset.mem_filter.mpr ⟨c1, ?_⟩
              by_cases hcs : c = start
              · rw [if_pos hcs] at c2
                exact absurd rfl c2
              · rw [if_neg hcs] at c2
                exact c2
            · rw [← heq] at hmem
              have c2 := (Finset.mem_filter.mp hmem).2
              rw [if_pos rfl] at c2
              exact absurd rfl c2
          have hlt := Finset.card_lt_card hsub
          omega
    · unfold cluster_free_chain
      rw [if_neg hv]
      exact ⟨fat, rfl⟩

/-- The function `cluster_free_chain` returns within 65536 turns, for every
start cluster and every content of the table. -/
theorem cluster_free_chain_returns (fuel : Nat) (fat : fat_t) (start : Nat) (hi : fat_inv fat)
    (hfuel : 65536 ≤ fuel) : ∃ fat1, cluster_free_chain fuel fat start = some fat1 := by
  refine cluster_free_chain_ends 0xFFF8 fuel fat (fat_entry fat) start ⟨hi, fun _ _ => rfl⟩ ?_
    (by omega)
  have h := Finset.card_filter_le (Finset.range 0xFFF8) (fun c => fat_entry fat c ≠ 0)
  rw [Finset.card_range] at h
  exact h

/-- With fewer than 65536 entries in the table the loop of
`cluster_alloc_free` ends when `curr` reaches the number of entries, and it
does not leave early. -/
theorem cluster_alloc_loop_ends (c_total : Nat) (hct : c_total < 65536) (d : Nat) :
    ∀ (fuel : Nat) (fat : fat_t) (pre curr start cnt : Nat), fat_inv fat →
      fat_entries fat = c_total → (cluster_is_valid pre = true → pre < c_total) →
      c_total ≤ curr + d → d + 1 ≤ fuel →
      ∃ pre1 start1 cnt1 fat1, cluster_alloc_loop c_total fuel fat pre curr start cnt =
        some (none, pre1, start1, cnt1, fat1) := by
  induction d with
  | zero =>
    intro fuel fat pre curr start cnt _ _ _ hd hfuel
    obtain ⟨f, rfl⟩ : ∃ f, fuel = f + 1 := ⟨fuel - 1, by omega⟩
    unfold cluster_alloc_loop
    rw [if_neg (by omega)]
    exact ⟨_, _, _, _, rfl⟩
  | succ d ih =>
    intro fuel fat pre curr start cnt hi hn hpre hd hfuel
    obtain ⟨f, rfl⟩ : ∃ f, fuel = f + 1 := ⟨fuel - 1, by omega⟩
    unfold cluster_alloc_loop
    by_cases hc : curr < c_total ∧ cnt ≠ 0
    · rw [if_pos hc]
      dsimp only
      have hmod : (curr + 1) % 65536 = curr + 1 := Nat.mod_eq_of_lt (by omega)
      rw [hmod]
      obtain ⟨g1, g2⟩ := cluster_get_next_keeps fat hi curr
      have gn := (fat_entries_frame g2).trans hn
      by_cases hf : (cluster_get_next fat curr).1 = FAT_CLUSTER_FREE
      · rw [if_pos hf]
        by_cases hp : cluster_is_valid pre = true
        · rw [if_pos hp]
          obtain ⟨s0, _, s1, _⟩ := cluster_set_next_ok _ g1 pre curr hp
            (by rw [gn]; exact hpre hp)
          obtain ⟨_, s2⟩ := cluster_set_next_keeps _ g1 pre curr
          rw [if_neg (by rw [s0]; decide)]
          exact ih f _ _ _ _ _ s1 ((fat_entries_frame s2).trans gn) (fun _ => hc.1)
            (by omega) (by omega)
        · rw [if_neg hp]
          exact ih f _ _ _ _ _ g1 gn (fun _ => hc.1) (by omega) (by omega)
      · rw [if_neg hf]
        exact ih f _ _ _ _ _ g1 gn hpre (by omega) (by omega)
    · rw [if_neg hc]
      exact ⟨_, _, _, _, rfl⟩

/-- With at most 255 sectors per table copy `cluster_alloc_free` returns
within 65536 turns of its loops. -/
theorem cluster_alloc_free_returns (fuel : Nat) (fat : fat_t) (cnt : Nat) (hi : fat_inv fat)
    (h255 : fat.tbl_sectors ≤ 255) (hfuel : 65536 ≤ fuel) :
    ∃ r, cluster_alloc_free fuel fat cnt = some r := by
  have hct : fat.tbl_sectors * fat.bytes_per_sec / 2 = fat_entries fat := by
    unfold fat_entries
    rw [hi.1.bps]
    omega
  have hlt : fat_entries fat < 65536 := by
    unfold fat_entries
    omega
  obtain ⟨pre1, start1, cnt1, fat1, hl⟩ := cluster_alloc_loop_ends (fat_entries fat) hlt
    (fat_entries fat) fuel fat FAT_CLUSTER_INVALID 2 FAT_CLUSTER_INVALID cnt hi rfl
    (fun h => absurd h (by decide)) (by omega) (by omega)
  have hk := cluster_alloc_loop_keeps _ _ _ _ _ _ _ _ hi hl
  unfold cluster_alloc_free
  dsimp only
  rw [hct, hl]
  dsimp only
  have hw : fat_inv (if cnt1 = 0 then cluster_set_next fat1 pre1 FAT_CLUSTER_INVALID
      else (-1, fat1)).2 := by
    by_cases h0 : cnt1 = 0
    · rw [if_pos h0]
      exact (cluster_set_next_keeps fat1 hk.1 pre1 FAT_CLUSTER_INVALID).1
    · rw [if_neg h0]
      exact hk.1
  generalize (if cnt1 = 0 then cluster_set_next fat1 pre1 FAT_CLUSTER_INVALID
    else (-1, fat1)) = w at hw
  by_cases hc : cnt1 = 0 ∧ w.1 = 0
  · rw [if_pos hc]
    exact ⟨_, rfl⟩
  · rw [if_neg hc]
    obtain ⟨fat2, h2⟩ := cluster_free_chain_returns fuel w.2 start1 hw hfuel
    rw [h2]
    exact ⟨_, rfl⟩

end fat_terminates

/-- C38.  On a mounted volume whose disk reports no error and whose table
copies hold the same bytes: the copies hold the same bytes after
`cluster_set_next` with any arguments; `cluster_free_chain` returns for any
start cluster (within 65536 turns) and the copies hold the same bytes
afterwards; whenever `cluster_alloc_free` returns, the copies hold the same
bytes afterwards, and with at most 255 sectors per table copy it returns for
any count (within 65536 turns of its loops). -/
theorem C38_table_copies_stay_equal (fat : fat_t) (hinv : fat_inv fat)
    (heq : fat_copies_equal fat) :
    (∀ curr next, fat_copies_equal (cluster_set_next fat curr next).2) ∧
    (∀ start fuel, 65536 ≤ fuel →
      ∃ fat1, cluster_free_chain fuel fat start = some fat1 ∧ fat_copies_equal fat1) ∧
    (∀ n fuel r, cluster_alloc_free fuel fat n = some r → fat_copies_equal r.2) ∧
    (∀ n fuel, fat.tbl_sectors ≤ 255 → 65536 ≤ fuel →
      ∃ r, cluster_alloc_free fuel fat n = some r ∧ fat_copies_equal r.2) := by
  refine ⟨fun curr next => (cluster_set_next_keeps fat hinv curr next).2.2.2 heq,
    fun start fuel hfuel => ?_,
    fun n fuel r h => (cluster_alloc_free_keeps fuel fat n r hinv h).2.2.2 heq,
    fun n fuel h255 hfuel => ?_⟩
  · obtain ⟨fat1, h1⟩ := cluster_free_chain_returns fuel fat start hinv hfuel
    exact ⟨fat1, h1, (cluster_free_chain_keeps fuel fat start fat1 hinv h1).2.2.2 heq⟩
  · obtain ⟨r, h1⟩ := cluster_alloc_free_returns fuel fat n hinv h255 hfuel
    exact ⟨r, h1, (cluster_alloc_free_keeps fuel fat n r hinv h1).2.2.2 heq⟩

/-- C38, on the empty volume `demo_fat` with two table copies: after
`cluster_set_next(2, 3)` entry 2 is 3 in both copies and the copies hold the
same bytes. -/
theorem C38_table_copies_stay_equal_witness :
    fat_copies_equal (cluster_set_next demo_fat 2 3).2 ∧
    fat_entry_copy (cluster_set_next demo_fat 2 3).2 0 2 = 3 ∧
    fat_entry_copy (cluster_set_next demo_fat 2 3).2 1 2 = 3 :=
  ⟨(C38_table_copies_stay_equal demo_fat
      ⟨⟨by decide, by decide, by decide, by decide, by decide, by decide, by decide,
          by decide, by decide, by decide, by decide, by decide⟩,
        fun _ => rfl, Or.inl rfl⟩
      (fun _ _ _ _ => rfl)).1 2 3,
    by decide!, by decide!⟩

/-! ### Claims on the running task -/

section running_task

variable {σ : Type}

end running_task

/-- C40 (code at the failing inputs).  `disk_open` tests `disk_idx >=
DISK_CNT` but not `disk_idx < 0`.  For every minor below `0xa0` (the negative
ones included) with a partition index below `DISK_PRIMARY_PART_CNT` the disk
index `(minor >> 4) - 0xa` is negative, the test lets it pass, and the
function reads `disk_buf[disk_idx].sector_size` in front of the array: it
does not return -1. -/
theorem C40_disk_index_below_zero (disk_buf : List disk_t) (minor : Int)
    (hminor : minor < 0xa0) (hpart : minor % 16 < (DISK_PRIMARY_PART_CNT : Int)) :
    minor / 16 - 0xa < 0 ∧ disk_open disk_buf minor = none := by
  have h1 : minor / 16 - 0xa < 0 := by omega
  refine ⟨h1, ?_⟩
  unfold disk_open
  dsimp only
  have hc : ¬ (minor / 16 - 0xa ≥ (DISK_CNT : Int) ∨
      minor % 16 ≥ (DISK_PRIMARY_PART_CNT : Int)) := by
    rintro (h | h)
    · have : (0 : Int) ≤ (DISK_CNT : Int) := Int.natCast_nonneg _
      omega
    · omega
  rw [if_neg hc, if_neg (by omega)]

/-- C40, at the minors 0 (disk index -10, partition 0) and `0x93` (disk index
-1, partition 3) on a table of two disks; the minors `0xa0` and `0xb4` are
opened, `0xc0` and `0xa5` are refused with -1. -/
theorem C40_disk_index_below_zero_witness :
    ((0 : Int) < 0xa0 ∧ (0 : Int) % 16 < (DISK_PRIMARY_PART_CNT : Int)) ∧
    ((0 : Int) / 16 - 0xa < 0 ∧ disk_open demo_disk_buf 0 = none) ∧
    disk_open demo_disk_buf 0x93 = none ∧
    disk_open demo_disk_buf 0xa0 = some (0, some (0, 0)) ∧
    disk_open demo_disk_buf 0xb4 = some (0, some (1, 4)) ∧
    disk_open demo_disk_buf 0xc0 = some (-1, none) ∧
    disk_open demo_disk_buf 0xa5 = some (-1, none) :=
  ⟨by decide, C40_disk_index_below_zero demo_disk_buf 0 (by decide) (by decide),
    by decide, by decide, by decide, by decide, by decide⟩

/-! ### Claims on the resources of a process -/

section proc_calls_lemmas

variable {σ : Type}

theorem memory_alloc_page_pmem (fuel : Nat) (m : mem_t) (a : Nat) (m1 : mem_t)
    (h : memory_alloc_page fuel m = some (a, m1)) : m1.pmem = m.pmem := by
  unfold memory_alloc_page at h
  cases hal : addr_alloc_page fuel m.paddr_alloc 1 with
  | none =>
    rw [hal] at h
    exact absurd h (by simp)
  | some p =>
    obtain ⟨addr, alloc1⟩ := p
    rw [hal] at h
    injection h with h
    injection h with _ h
    rw [← h]

/-- A fork in which every allocation succeeds: the descriptor of
`gdt_alloc_desc` is set up as a task state segment, and the memory is the
one that `memory_copy_uvm` leaves. -/
theorem sys_fork_calls_done (fuel : Nat) (k : kernel σ) (gdt_table : gdt_t) (m : mem_t)
    (kernel_page_dir : Nat) (frame : syscall_frame_t) (stack dir cr3 : Nat) (ms md mc : mem_t)
    (hchild : alloc_task k ≠ .null) (hsel : 0 ≤ (gdt_alloc_desc gdt_table).1)
    (hs : memory_alloc_page fuel m = some (stack, ms)) (hstack : stack ≠ 0)
    (hd : memory_create_uvm fuel ms kernel_page_dir = some (dir, md)) (hdir : dir ≠ 0)
    (hc : memory_copy_uvm fuel md kernel_page_dir (current_page_dir k)
      (task_get k (task_current k)).tss.cr3 = .done (cr3, mc)) :
    sys_fork_calls fuel k gdt_table m kernel_page_dir frame =
      .done ((sys_fork k ⟨frame, (gdt_alloc_desc gdt_table).1, stack, dir, cr3⟩).1,
        (sys_fork k ⟨frame, (gdt_alloc_desc gdt_table).1, stack, dir, cr3⟩).2,
        segment_desc_set (gdt_alloc_desc gdt_table).2 (gdt_alloc_desc gdt_table).1.toNat TSS_SIZE
          (SEG_P_PRESENT ||| SEG_DPL0 ||| SEG_TYPE_TSS), mc) := by
  have ht : tss_init_calls fuel k gdt_table m kernel_page_dir =
      .done (((gdt_alloc_desc gdt_table).1, stack, dir),
        segment_desc_set (gdt_alloc_desc gdt_table).2 (gdt_alloc_desc gdt_table).1.toNat TSS_SIZE
          (SEG_P_PRESENT ||| SEG_DPL0 ||| SEG_TYPE_TSS), md) := by
    unfold tss_init_calls
    dsimp only
    rw [if_neg (by omega), hs]
    dsimp only
    rw [if_neg hstack, hd]
    dsimp only
    rw [if_neg hdir]
  unfold sys_fork_calls
  dsimp only
  rw [if_neg hchild, ht]
  dsimp only
  rw [if_neg (by
    intro h
    rcases h with h | h | h
    · omega
    · exact hstack h
    · exact hdir h), hc]

/-- A `sys_wait` that reaps the zombie child in slot `i`: its address space
and its kernel stack are released. -/
theorem sys_wait_calls_done (k : kernel σ) (m m1 m2 : mem_t) (i : Nat) (pid st : Int)
    (c stack : Nat) (hscan : wait_scan k (task_current k) TASK_NR = some (i, pid, st))
    (hcr3 : (k.task_table i).tss.cr3 = c)
    (hesp : ((k.task_table i).tss.esp0 + 2 ^ 32 - MEM_PAGE_SIZE) % 2 ^ 32 = stack)
    (hd : memory_destroy_uvm m c = .done m1) (hf : memory_free_page k m1 stack = .done m2) :
    sys_wait_calls k m = .done m2 := by
  unfold sys_wait_calls
  rw [hscan]
  dsimp only
  rw [hcr3, hd]
  dsimp only
  rw [hesp, hf]

theorem demo_reap_view_some (k : kernel Unit) (stack : Nat) (r : result_t (Nat × mem_t))
    (c a b : Nat) (u : Bool) (h : demo_reap_view k stack r = some (c, a, b, u)) :
    ∃ m1 m2 m3, r = .done (c, m1) ∧ memory_destroy_uvm m1 c = .done m2 ∧
      memory_free_page k m2 stack = .done m3 ∧ free_count m1.paddr_alloc.bitmap = a ∧
      free_count m3.paddr_alloc.bitmap = b ∧ bit_of m3.paddr_alloc.bitmap 4 = u := by
  unfold demo_reap_view at h
  cases r with
  | halted => exact absurd h (by simp)
  | out_of_fuel => exact absurd h (by simp)
  | done p =>
    obtain ⟨cr3, m1⟩ := p
    dsimp only at h
    cases hd : memory_destroy_uvm m1 cr3 with
    | halted => rw [hd] at h; exact absurd h (by simp)
    | out_of_fuel => rw [hd] at h; exact absurd h (by simp)
    | done m2 =>
      rw [hd] at h
      dsimp only at h
      cases hf : memory_free_page k m2 stack with
      | halted => rw [hf] at h; exact absurd h (by simp)
      | out_of_fuel => rw [hf] at h; exact absurd h (by simp)
      | done m3 =>
        rw [hf] at h
        dsimp only at h
        injection h with h
        injection h with h1 h
        injection h with h2 h
        injection h with h3 h4
        subst h1
        exact ⟨m1, m2, m3, rfl, hd, hf, h2, h3, h4⟩

theorem demo_alloc_stack : memory_alloc_page 100 demo_mem_user = some (0x103000, demo_mem_stack) := by
  have h1 : (memory_alloc_page 100 demo_mem_user).map Prod.fst = some 0x103000 := by decide!
  have h2 := option_fst_some _ _ (0, demo_mem_user) h1
  have hpm := memory_alloc_page_pmem 100 demo_mem_user 0x103000 _ h2
  have e := mem_t_eta _ _ hpm
  rw [e] at h2
  exact h2

theorem demo_create_dir1 :
    memory_create_uvm 100 demo_mem_stack 0x4000 = some (0x104000, demo_mem_dir1) := by
  have h1 : (memory_create_uvm 100 demo_mem_stack 0x4000).map Prod.fst = some 0x104000 := by
    decide!
  have h2 := option_fst_some _ _ (0, demo_mem_stack) h1
  have hpm := create_uvm_pmem 100 demo_mem_stack 0x4000 0x104000 _ h2 (by decide) (by decide)
  have e := mem_t_eta _ _ hpm
  rw [e] at h2
  exact h2

theorem demo_create_dir2 :
    memory_create_uvm 100 demo_mem_dir1 0x4000 = some (0x105000, demo_mem_dir2) := by
  have h1 : (memory_create_uvm 100 demo_mem_dir1 0x4000).map Prod.fst = some 0x105000 := by
    decide!
  have h2 := option_fst_some _ _ (0, demo_mem_dir1) h1
  have hpm := create_uvm_pmem 100 demo_mem_dir1 0x4000 0x105000 _ h2 (by decide) (by decide)
  have e := mem_t_eta _ _ hpm
  rw [e] at h2
  exact h2

theorem demo_reap :
    demo_reap_view demo_after_exit 0x103000
      (memory_copy_uvm 100 demo_mem_dir1 0x4000 0x100000 0x100000) =
      some (0x105000, 8, 12, true) := by
  unfold memory_copy_uvm
  rw [demo_create_dir2]
  decide!

end proc_calls_lemmas

/-- C33 (code at the failing input).  Task 0 of `demo_heap`, whose address
space (directory `0x100000`) has one user page, forks with 13 free pages and
248 free descriptors.  The fork succeeds with the child in slot 3: it takes
the descriptor 8 (selector 64), the kernel stack `0x103000`, the directory
`0x104000` in `tss_init` and the directory `0x105000` with a page table and
a page in `memory_copy_uvm`, which leaves 8 free pages.  The child calls
`sys_exit(7)` and the parent's `sys_wait` returns the pid of the child and
the status 7.  Afterwards 12 pages are free, not 13: the page 4 of the
allocator, which is the directory `0x104000` of `tss_init`, is still in use.
And 247 descriptors are free, not 248: the descriptor 8 still holds the
attribute word `0x89`. -/
theorem C33_fork_exit_wait_leaks :
    ∃ (g1 : gdt_t) (m1 m2 : mem_t),
      sys_fork_calls 100 demo_heap demo_gdt demo_mem_user 0x4000 demo_frame =
        .done ((sys_fork demo_heap demo_fork_leak).1, (sys_fork demo_heap demo_fork_leak).2,
          g1, m1) ∧
      alloc_task demo_heap = .slot 3 ∧
      (sys_fork demo_heap demo_fork_leak).1 = 0x30C00 ∧
      (sys_wait demo_after_exit).1 = some (0x30C00, 7) ∧
      sys_wait_calls demo_after_exit m1 = .done m2 ∧
      free_count demo_mem_user.paddr_alloc.bitmap = 13 ∧
      free_count m1.paddr_alloc.bitmap = 8 ∧
      free_count m2.paddr_alloc.bitmap = 12 ∧
      bit_of m2.paddr_alloc.bitmap 4 = true ∧
      gdt_free_count demo_gdt = 248 ∧
      gdt_free_count g1 = 247 ∧
      g1 8 = 0x89 := by
  obtain ⟨m1, m2, m3, hc, hd, hf, c1, c2, c3⟩ := demo_reap_view_some _ _ _ _ _ _ _ demo_reap
  have hsel : (gdt_alloc_desc demo_gdt).1 = 64 := by decide!
  have hfork := sys_fork_calls_done 100 demo_heap demo_gdt demo_mem_user 0x4000 demo_frame
    0x103000 0x104000 0x105000 demo_mem_stack demo_mem_dir1 m1 (by decide!)
    (by rw [hsel]; decide) demo_alloc_stack (by decide) demo_create_dir1 (by decide) hc
  rw [hsel] at hfork
  refine ⟨_, m1, m3, hfork, by decide!, by decide!, by decide!, ?_, by decide!, c1, c2, c3,
    by decide!, by decide!, by decide!⟩
  exact sys_wait_calls_done demo_after_exit m1 m2 m3 3 0x30C00 7 0x105000 0x103000
    (by decide!) (by decide!) (by decide!) hd hf

/-! ### Claim on the FAT16 driver: write, rewind, read -/

section alloc_fuel

/-- More turns do not change what `cluster_free_chain` returns. -/
theorem cluster_free_chain_mono :
    ∀ (fuel : Nat) (fat : fat_t) (start : Nat) (r : fat_t),
      cluster_free_chain fuel fat start = some r →
      cluster_free_chain (fuel + 1) fat start = some r := by
  intro fuel
  induction fuel with
  | zero =>
    intro fat start r h
    rw [cluster_free_chain] at h
    exact absurd h (by simp)
  | succ f ih =>
    intro fat start r h
    rw [cluster_free_chain] at h
    rw [cluster_free_chain]
    by_cases hv : cluster_is_valid start = true
    · rw [if_pos hv] at h ⊢
      exact ih _ _ _ h
    · rw [if_neg hv] at h ⊢
      exact h

/-- More turns do not change what the loop of `cluster_alloc_free` returns. -/
theorem cluster_alloc_loop_mono (c_total : Nat) :
    ∀ (fuel : Nat) (fat : fat_t) (pre curr start cnt : Nat)
      (r : Option Nat × Nat × Nat × Nat × fat_t),
      cluster_alloc_loop c_total fuel fat pre curr start cnt = some r →
      cluster_alloc_loop c_total (fuel + 1) fat pre curr start cnt = some r := by
  intro fuel
  induction fuel with
  | zero =>
    intro fat pre curr start cnt r h
    rw [cluster_alloc_loop] at h
    exact absurd h (by simp)
  | succ f ih =>
    intro fat pre curr start cnt r h
    rw [cluster_alloc_loop] at h
    rw [cluster_alloc_loop]
    by_cases hc : curr < c_total ∧ cnt ≠ 0
    · rw [if_pos hc] at h ⊢
      dsimp only at h ⊢
      by_cases hf : (cluster_get_next fat curr).1 = FAT_CLUSTER_FREE
      · rw [if_pos hf] at h ⊢
        by_cases hp : cluster_is_valid pre = true
        · rw [if_pos hp] at h ⊢
          by_cases hw : (cluster_set_next (cluster_get_next fat curr).2 pre curr).1 < 0
          · rw [if_pos hw] at h ⊢
            cases hfc : cluster_free_chain f
                (cluster_set_next (cluster_get_next fat curr).2 pre curr).2
                (if ¬ cluster_is_valid start = true then curr else start) with
            | none =>
              rw [hfc] at h
              exact absurd h (by simp)
            | some fat2 =>
              rw [hfc] at h
              rw [cluster_free_chain_mono _ _ _ _ hfc]
              exact h
          · rw [if_neg hw] at h ⊢
            exact ih _ _ _ _ _ _ h
        · rw [if_neg hp] at h ⊢
          exact ih _ _ _ _ _ _ h
      · rw [if_neg hf] at h ⊢
        exact ih _ _ _ _ _ _ h
    · rw [if_neg hc] at h ⊢
      exact h

/-- More turns do not change what `cluster_alloc_free` returns. -/
theorem cluster_alloc_free_mono (fuel : Nat) (fat : fat_t) (cnt : Nat) (r : Nat × fat_t)
    (h : cluster_alloc_free fuel fat cnt = some r) :
    cluster_alloc_free (fuel + 1) fat cnt = some r := by
  unfold cluster_alloc_free at h ⊢
  dsimp only at h ⊢
  cases hl : cluster_alloc_loop (fat.tbl_sectors * fat.bytes_per_sec / 2) fuel fat
      FAT_CLUSTER_INVALID 2 FAT_CLUSTER_INVALID cnt with
  | none =>
    rw [hl] at h
    exact absurd h (by simp)
  | some x =>
    rw [hl] at h
    rw [cluster_alloc_loop_mono _ _ _ _ _ _ _ _ hl]
    obtain ⟨ret, pre, start, cnt1, fat1⟩ := x
    cases ret with
    | some v => exact h
    | none =>
      dsimp only at h ⊢
      generalize (if cnt1 = 0 then cluster_set_next fat1 pre FAT_CLUSTER_INVALID
        else (-1, fat1)) = w at h ⊢
      by_cases hc : cnt1 = 0 ∧ w.1 = 0
      · rw [if_pos hc] at h ⊢
        exact h
      · rw [if_neg hc] at h ⊢
        cases hfc : cluster_free_chain fuel w.2 start with
        | none =>
          rw [hfc] at h
          exact absurd h (by simp)
        | some fat2 =>
          rw [hfc] at h
          rw [cluster_free_chain_mono _ _ _ _ hfc]
          exact h

theorem cluster_alloc_free_mono_add (fuel : Nat) (fat : fat_t) (cnt : Nat) (r : Nat × fat_t)
    (h : cluster_alloc_free fuel fat cnt = some r) :
    ∀ k, cluster_alloc_free (fuel + k) fat cnt = some r := by
  intro k
  induction k with
  | zero => exact h
  | succ k ih => exact cluster_alloc_free_mono _ _ _ _ ih

/-- With no free entry among the clusters 2 to `0xFFF7` of a table of at
least 65536 entries, `cluster_alloc_free` does not return. -/
theorem cluster_alloc_free_spins (fat : fat_t) (E : Nat → Nat) (n : Nat) (ha : fat_abs fat E)
    (h256 : 256 ≤ fat.tbl_sectors) (hn : 1 ≤ n)
    (hfull : ∀ c, 2 ≤ c → c < 0xFFF8 → E c ≠ 0) :
    ∀ fuel, cluster_alloc_free fuel fat n = none := by
  intro fuel
  have hw := ha.1.1
  unfold cluster_alloc_free
  dsimp only
  rw [cluster_alloc_loop_spins (fat.tbl_sectors * fat.bytes_per_sec / 2) E
    (by rw [hw.bps]; omega) hfull fuel fat FAT_CLUSTER_INVALID 2 FAT_CLUSTER_INVALID n
    ha (by unfold fat_entries; omega) (by decide) (by omega)]

/-- When the cluster `x` is the one free cluster of the table, a call
`cluster_alloc_free(1)` that returns has taken `x`, and no cluster is free
afterwards. -/
theorem cluster_alloc_free_last (fuel : Nat) (fat : fat_t) (E : Nat → Nat) (x s : Nat)
    (fat1 : fat_t) (ha : fat_abs fat E) (hx2 : 2 ≤ x) (hx8 : x < 0xFFF8)
    (hxn : x < fat_entries fat) (hEx : E x = 0)
    (hfull : ∀ c, 2 ≤ c → c < 0xFFF8 → c ≠ x → E c ≠ 0)
    (h : cluster_alloc_free fuel fat 1 = some (s, fat1)) :
    s = x ∧ ∃ E1, fat_abs fat1 E1 ∧ fat_frame fat fat1 ∧ E1 x = FAT_CLUSTER_INVALID ∧
      ∀ c, 2 ≤ c → c < 0xFFF8 → E1 c ≠ 0 := by
  have hff : first_free E (fat_entries fat) 2 [x] :=
    ⟨List.pairwise_singleton _ _, fun y hy => by
      rw [List.mem_singleton.mp hy]
      exact ⟨hx2, hxn, hx8, hEx⟩, fun y hy hex hyl => by
      obtain ⟨z, hz, hyz⟩ := hex
      rw [List.mem_singleton.mp hz] at hyz
      exact hfull y hy (by omega) (by omega)⟩
  obtain ⟨fa, Ea, a1, a2, a3, a4, a5⟩ := cluster_alloc_free_spec (fuel + 65536) fat E [x] ha hff
    (by simp) (by omega)
  have hm := cluster_alloc_free_mono_add fuel fat 1 _ h 65536
  have a1b : cluster_alloc_free (fuel + 65536) fat 1 = some (x, fa) := a1
  rw [a1b] at hm
  injection hm with hm
  injection hm with h1 h2
  subst h2
  refine ⟨h1.symm, Ea, a2, a3, a4.2.2.2 x rfl, fun c hc2 hc8 => ?_⟩
  by_cases hcx : c = x
  · rw [hcx, a4.2.2.2 x rfl]
    decide
  · rw [a5 c (by simpa using hcx)]
    exact hfull c hc2 hc8 hcx

end alloc_fuel
section write_no_spare

/-- A turn of the loop of `fatfs_write` that writes a whole cluster: when
`move_file_pos` does not return, the loop does not return. -/
theorem fatfs_write_loop_full_step (fuel : Nat) (umem : bytes_t) (loops buf total : Nat)
    (file : file_t) (fat : fat_t) (hi : fat_inv fat)
    (hpos : file.pos % fat.cluster_byte_size = 0) (hc : cluster_is_valid file.cblk = true) :
    ∃ fat0, wrote_cluster fat fat0 umem buf file.cblk fat.cluster_byte_size ∧
      (move_file_pos fuel { file with size := file.size + fat.cluster_byte_size }
          fat0 fat.cluster_byte_size true = none →
        fatfs_write_loop fuel umem (loops + 1) buf fat.cluster_byte_size total file fat =
          none) := by
  obtain ⟨hw, hd, hcache⟩ := hi
  have hv := (cluster_is_valid_iff _).mp hc
  have hsec := cluster_sector_eq fat hw file.cblk hv.1 (by omega)
  have hcbs := hw.cbs
  have hspc := hw.spc_pos
  have hge := cluster_addr_ge fat hw file.cblk
  have haddr : cluster_addr fat file.cblk = cluster_sector fat file.cblk * 512 := by
    rw [hsec]; rfl
  have hn : fat.cluster_byte_size ≠ 0 := by omega
  rw [fatfs_write_loop, if_pos hn]
  dsimp only
  rw [if_pos ⟨hpos, rfl⟩]
  obtain ⟨w1, w2, w3⟩ := dev_write_ok fat.dev hd (cluster_sector fat file.cblk) umem buf
    fat.sec_per_cluster
  rw [if_neg (by rw [w1]; omega)]
  have hg : geom_eq fat { fat with dev := (dev_write fat.dev (cluster_sector fat file.cblk)
      umem buf fat.sec_per_cluster).2 } := ⟨rfl, rfl, rfl, rfl, rfl, rfl, rfl, rfl, rfl⟩
  have hbytes : ∀ a, (dev_write fat.dev (cluster_sector fat file.cblk) umem buf
      fat.sec_per_cluster).2.bytes a =
      if cluster_addr fat file.cblk ≤ a ∧
          a < cluster_addr fat file.cblk + fat.cluster_byte_size then
        umem (buf + (a - cluster_addr fat file.cblk))
      else fat.dev.bytes a := by
    intro a
    rw [w3 a, haddr, hcbs, Nat.add_mul]
  refine ⟨{ fat with dev := (dev_write fat.dev (cluster_sector fat file.cblk) umem buf
    fat.sec_per_cluster).2 }, ⟨hg, ⟨fat_wf_of_geom_eq hg hw, w2, ?_⟩, hbytes⟩, ?_⟩
  · refine cache_ok_of_data hg hcache rfl rfl (fun a ha => ?_)
    show (dev_write fat.dev (cluster_sector fat file.cblk) umem buf
      fat.sec_per_cluster).2.bytes a = _
    rw [hbytes a, if_neg (by omega)]
  · intro hm
    rw [hm]

/-- At the end of the last cluster of a file, on a table of at least 65536
entries without a free cluster, `move_file_pos` with `expand` does not
return: it asks `expand_file` for a further cluster. -/
theorem move_file_pos_spins (fuel : Nat) (file : file_t) (fat : fat_t) (E : Nat → Nat)
    (ha : fat_abs fat E) (h256 : 256 ≤ fat.tbl_sectors)
    (hpos : file.pos % fat.cluster_byte_size = 0)
    (hsize : file.size % fat.cluster_byte_size = 0)
    (hc : cluster_is_valid file.cblk = true)
    (hnext : E file.cblk = FAT_CLUSTER_INVALID)
    (hfull : ∀ c, 2 ≤ c → c < 0xFFF8 → E c ≠ 0) :
    move_file_pos fuel file fat fat.cluster_byte_size true = none := by
  have hw := ha.1.1
  have hcbs := hw.cbs
  have hspc := hw.spc_pos
  have hspl := hw.spc_le
  have hcpos : 0 < fat.cluster_byte_size := by omega
  have hv := (cluster_is_valid_iff _).mp hc
  have hmod : file.cblk % 65536 = file.cblk := Nat.mod_eq_of_lt (by omega)
  have hn : file.cblk < fat_entries fat := by
    unfold fat_entries
    omega
  obtain ⟨g1, g2, g3⟩ := cluster_get_next_abs fat E ha file.cblk hc hn
  unfold move_file_pos
  dsimp only
  rw [if_pos (by omega), hmod, g1, if_pos ⟨hnext, rfl⟩]
  generalize cluster_get_next fat file.cblk = r at g1 g2 g3
  have hgc : r.2.cluster_byte_size = fat.cluster_byte_size := g3.1.2.2.2.2.2.2.2.2.symm
  have hexp : expand_file fuel file r.2 fat.cluster_byte_size = none := by
    unfold expand_file
    dsimp only
    rw [hgc, if_pos (Or.inr hsize), up2_div _ _ hcpos]
    have h1 : (fat.cluster_byte_size + fat.cluster_byte_size - 1) / fat.cluster_byte_size = 1 := by
      exact Nat.div_eq_of_lt_le (by omega) (by omega)
    rw [h1, cluster_alloc_free_spins r.2 E 1 g2 (by rw [← g3.1.2.2.1]; exact h256)
      (Nat.le_refl _) hfull fuel]
  rw [hexp]

/-- A new file is written with one cluster of data on a volume with at least
256 sectors per table copy on which exactly one cluster, `x`, is free:
`fatfs_write` does not return.  The data goes to `x`, and at its end
`move_file_pos` asks for a further cluster. -/
theorem fatfs_write_no_spare (umem : bytes_t) (buf : Nat) (file : file_t) (fat : fat_t)
    (E : Nat → Nat) (x : Nat) (ha : fat_abs fat E) (h256 : 256 ≤ fat.tbl_sectors)
    (hsize : file.size = 0) (hpos : file.pos = 0) (hsblk : file.sblk = FAT_CLUSTER_INVALID)
    (hx2 : 2 ≤ x) (hx8 : x < 0xFFF8) (hEx : E x = 0)
    (hfull : ∀ c, 2 ≤ c → c < 0xFFF8 → c ≠ x → E c ≠ 0) :
    ∀ fuel, fatfs_write fuel umem buf fat.cluster_byte_size file fat = none := by
  intro fuel
  have hw := ha.1.1
  have hcbs := hw.cbs
  have hspc := hw.spc_pos
  have hcpos : 0 < fat.cluster_byte_size := by omega
  have hxn : x < fat_entries fat := by
    unfold fat_entries
    omega
  have hxv : cluster_is_valid x = true := (cluster_is_valid_iff x).mpr ⟨hx2, hx8⟩
  have hsb : cluster_is_valid (file.sblk % 65536) = false := by
    rw [hsblk]
    decide
  unfold fatfs_write
  dsimp only
  rw [hpos, hsize, if_pos (by omega)]
  have hinc : 0 + fat.cluster_byte_size - 0 = fat.cluster_byte_size := by omega
  rw [hinc]
  have hexp : expand_file fuel file fat fat.cluster_byte_size =
      match cluster_alloc_free fuel fat 1 with
      | none => none
      | some (start, fat1) =>
        if ¬ cluster_is_valid start = true then some (-1, file, fat1)
        else some (0, { file with cblk := start, sblk := start }, fat1) := by
    unfold expand_file
    dsimp only
    rw [if_pos (Or.inl hsize), up2_div _ _ hcpos]
    have h1 : (fat.cluster_byte_size + fat.cluster_byte_size - 1) / fat.cluster_byte_size = 1 := by
      exact Nat.div_eq_of_lt_le (by omega) (by omega)
    rw [h1]
    cases cluster_alloc_free fuel fat 1 with
    | none => rfl
    | some p =>
      obtain ⟨s, f1⟩ := p
      dsimp only
      by_cases hs : cluster_is_valid s = true
      · rw [if_neg (not_not.mpr hs), if_neg (not_not.mpr hs), if_pos (by rw [hsb]; simp)]
      · rw [if_pos hs, if_pos hs]
  rw [hexp]
  cases hal : cluster_alloc_free fuel fat 1 with
  | none => rfl
  | some p =>
    obtain ⟨s, fat1⟩ := p
    obtain ⟨hs, E1, a1, f1, e1, full1⟩ :=
      cluster_alloc_free_last fuel fat E x s fat1 ha hx2 hx8 hxn hEx hfull hal
    subst hs
    dsimp only
    rw [if_neg (not_not.mpr hxv)]
    dsimp only
    rw [if_neg (by decide)]
    have hc1 : fat1.cluster_byte_size = fat.cluster_byte_size := f1.1.2.2.2.2.2.2.2.2.symm
    obtain ⟨loops, hl⟩ : ∃ loops, fat.cluster_byte_size = loops + 1 :=
      ⟨fat.cluster_byte_size - 1, by omega⟩
    obtain ⟨fat0, hwr, hstep⟩ := fatfs_write_loop_full_step fuel umem loops buf 0
      { file with cblk := s, sblk := s } fat1 a1.1
      (by show file.pos % fat1.cluster_byte_size = 0; rw [hpos]; exact Nat.zero_mod _) hxv
    have a0 := fat_abs_wrote hwr a1
    have hc0 : fat0.cluster_byte_size = fat1.cluster_byte_size := hwr.1.2.2.2.2.2.2.2.2.symm
    have hmove := move_file_pos_spins fuel
      { file with cblk := s, sblk := s, size := file.size + fat1.cluster_byte_size } fat0 E1 a0
      (by rw [← hwr.1.2.2.1, ← f1.1.2.2.1]; exact h256)
      (by show file.pos % fat0.cluster_byte_size = 0; rw [hpos]; exact Nat.zero_mod _)
      (by
        show (file.size + fat1.cluster_byte_size) % fat0.cluster_byte_size = 0
        rw [hsize, hc0, Nat.zero_add, Nat.mod_self])
      hxv e1 full1
    rw [hc0] at hmove
    have hres := hstep hmove
    rw [hc1] at hres
    have hlo : fatfs_write_loop fuel umem fat.cluster_byte_size buf fat.cluster_byte_size 0
        { file with cblk := s, sblk := s } fat1 = none := by
      rw [← hres]
      congr 1
    rw [hlo]

end write_no_spare
theorem demo_fat_one_free_used (c : Nat) (h2 : 2 ≤ c) (h8 : c < 0xFFF8) (hc : c ≠ 2) :
    fat_entry demo_fat_one_free c ≠ 0 := by
  have hb : demo_fat_one_free.dev.bytes (1 * 512 + c * 2) = 0xFF := by
    show (if (1 * 512 + c * 2) / 512 = 513 then 0
      else if (1 * 512 + c * 2) % 512 / 2 = 2 ∧
          ((1 * 512 + c * 2) / 512 = 1 ∨ (1 * 512 + c * 2) / 512 = 257) then 0
      else 0xFF) = 0xFF
    rw [if_neg (by omega), if_neg (by omega)]
  have he : fat_entry demo_fat_one_free c =
      demo_fat_one_free.dev.bytes (1 * 512 + c * 2) % 256 +
        256 * (demo_fat_one_free.dev.bytes (1 * 512 + c * 2 + 1) % 256) := rfl
  rw [he, hb]
  omega

/-- C1 (code against the claim, and the part of it that holds), for a file
as `fatfs_open` leaves it after creating it (size 0, position 0, start
cluster `FAT_CLUSTER_INVALID`) on a mounted volume whose disk reports no
error, and `1 ≤ n ≤ 8 * cluster_byte_size`.

With at least 256 sectors per table copy, `n` equal to the cluster size and
exactly one free cluster `x`, which is the one cluster that `n` bytes need,
`fatfs_write` of the `n` bytes does not return: for every bound on the number
of turns of the allocation loops the outcome is `none`.  The data is written
to `x`; then `move_file_pos`, at the end of the cluster, asks `expand_file`
for a further cluster and `cluster_alloc_free` scans a table without a free
entry for ever.

With clusters no larger than the page that holds the driver's buffer and
with `l` the first `n / cluster_byte_size + 1` free clusters of the table
(one more than the data needs when `n` is a multiple of the cluster size),
`fatfs_write` of the `n` bytes at `buf` returns `n`, `fatfs_seek` to offset 0
returns 0, and a `fatfs_read` of `n` bytes to `buf2` returns `n`, stores at
`buf2 + i` the byte the write took from `buf + i` for every `i < n`, and
leaves the memory outside the destination as it was. -/
theorem C1_write_seek_read (umem umem2 : bytes_t) (buf buf2 n : Nat)
    (file : file_t) (fat : fat_t) (hinv : fat_inv fat)
    (hsize : file.size = 0) (hpos : file.pos = 0)
    (hsblk : file.sblk = FAT_CLUSTER_INVALID)
    (hn1 : 1 ≤ n) (hn8 : n ≤ 8 * fat.cluster_byte_size) :
    (∀ x, 256 ≤ fat.tbl_sectors → n = fat.cluster_byte_size →
      2 ≤ x → x < 0xFFF8 → fat_entry fat x = 0 →
      (∀ c, 2 ≤ c → c < 0xFFF8 → c ≠ x → fat_entry fat c ≠ 0) →
      ∀ fuel, fatfs_write fuel umem buf n file fat = none) ∧
    (∀ l fuel, fat.cluster_byte_size ≤ MEM_PAGE_SIZE →
      first_free (fat_entry fat) (fat_entries fat) 2 l →
      l.length = n / fat.cluster_byte_size + 1 → 65536 ≤ fuel →
      ∃ file1 fat1, fatfs_write fuel umem buf n file fat = some ((n : Int), file1, fat1) ∧
        (fatfs_seek file1 0 0 fat1).1 = 0 ∧
        (fatfs_read umem2 buf2 n (fatfs_seek file1 0 0 fat1).2.1
          (fatfs_seek file1 0 0 fat1).2.2).1 = (n : Int) ∧
        (∀ i, i < n →
          (fatfs_read umem2 buf2 n (fatfs_seek file1 0 0 fat1).2.1
            (fatfs_seek file1 0 0 fat1).2.2).2.1 (buf2 + i) = umem (buf + i)) ∧
        (∀ a, a < buf2 ∨ buf2 + n ≤ a →
          (fatfs_read umem2 buf2 n (fatfs_seek file1 0 0 fat1).2.1
            (fatfs_seek file1 0 0 fat1).2.2).2.1 a = umem2 a)) := by
  constructor
  · intro x h256 hn x2 x8 hEx hfull fuel
    rw [hn]
    exact fatfs_write_no_spare umem buf file fat (fat_entry fat) x ⟨hinv, fun _ _ => rfl⟩ h256
      hsize hpos hsblk x2 x8 hEx hfull fuel
  · intro l fuel hpage hfree hlen hfuel
    exact fatfs_write_seek_read_spec fuel umem umem2 buf buf2 n file fat (fat_entry fat) l
      ⟨hinv, fun _ _ => rfl⟩ hpage hsize hpos hsblk hn1 hn8 hfree hlen hfuel

/-- C1, on two volumes with 512-byte clusters, for the file record that
`fatfs_open` builds for a created `a.txt`.  On `demo_fat_one_free`, whose
table copies have 256 sectors and whose one free cluster is 2, the write of
512 bytes does not return.  On the empty volume `demo_fat` the file is
written with the 700 bytes of `demo_umem` from address 0, rewound, and read
back into a zeroed memory; the free clusters used are 2 and 3. -/
theorem C1_write_seek_read_witness :
    (demo_fat_one_free.tbl_cnt = 2 ∧ fat_entries demo_fat_one_free = 65536 ∧
      fat_entry demo_fat_one_free 2 = 0 ∧
      ∀ fuel, fatfs_write fuel demo_umem 0 512
        (read_from_diritem (demo_file (O_CREAT ||| O_WRONLY)) (diritem_init 0 demo_path) 0 0)
        demo_fat_one_free = none) ∧
    ∃ file1 fat1,
      fatfs_write 70000 demo_umem 0 700
        (read_from_diritem (demo_file (O_CREAT ||| O_WRONLY)) (diritem_init 0 demo_path) 0 0)
        demo_fat = some (((700 : Nat) : Int), file1, fat1) ∧
      (fatfs_seek file1 0 0 fat1).1 = 0 ∧
      (fatfs_read (fun _ => 0) 0 700 (fatfs_seek file1 0 0 fat1).2.1
        (fatfs_seek file1 0 0 fat1).2.2).1 = ((700 : Nat) : Int) ∧
      (∀ i, i < 700 →
        (fatfs_read (fun _ => 0) 0 700 (fatfs_seek file1 0 0 fat1).2.1
          (fatfs_seek file1 0 0 fat1).2.2).2.1 (0 + i) = demo_umem (0 + i)) ∧
      (∀ a, a < 0 ∨ 0 + 700 ≤ a →
        (fatfs_read (fun _ => 0) 0 700 (fatfs_seek file1 0 0 fat1).2.1
          (fatfs_seek file1 0 0 fat1).2.2).2.1 a = (fun _ => 0) a) :=
  ⟨⟨rfl, by decide, by decide!,
      (C1_write_seek_read demo_umem (fun _ => 0) 0 0 512
        (read_from_diritem (demo_file (O_CREAT ||| O_WRONLY)) (diritem_init 0 demo_path) 0 0)
        demo_fat_one_free
        ⟨⟨by decide, by decide, by decide, by decide, by decide, by decide, by decide,
            by decide, by decide, by decide, by decide, by decide⟩,
          fun _ => rfl, Or.inl rfl⟩
        (by decide!) (by decide!) (by decide!) (by decide) (by decide)).1 2 (by decide)
        (by decide) (by decide) (by decide) (by decide!)
        (fun c h2 h8 hc => demo_fat_one_free_used c h2 h8 hc)⟩,
    (C1_write_seek_read demo_umem (fun _ => 0) 0 0 700
      (read_from_diritem (demo_file (O_CREAT ||| O_WRONLY)) (diritem_init 0 demo_path) 0 0)
      demo_fat
      ⟨⟨by decide, by decide, by decide, by decide, by decide, by decide, by decide,
          by decide, by decide, by decide, by decide, by decide⟩,
        fun _ => rfl, Or.inl rfl⟩
      (by decide!) (by decide!) (by decide!) (by decide) (by decide)).2 [2, 3] 70000
      (by decide)
      ⟨by decide, by decide!, fun y hy hex hyl => by
        obtain ⟨x, hx, hyx⟩ := hex
        simp only [List.mem_cons, List.mem_singleton, List.not_mem_nil, or_false] at hx hyl
        omega⟩
      (by decide) (by decide)⟩

/-! ### Claim on the part of a segment behind the bytes of the file -/

section seg_alloc

theorem pte_entry_frame (p perm : Nat) (hp : p % 4096 = 0) (h32 : p < 2 ^ 32)
    (hperm : perm < 4096) :
    entry_present (p ||| perm ||| PTE_P) = 1 ∧ pte_paddr (p ||| perm ||| PTE_P) = p := by
  refine ⟨entry_present_or_one _, ?_⟩
  have hlt : perm ||| PTE_P < 2 ^ 12 := Nat.or_lt_two_pow hperm (by decide)
  have hW : p ||| perm ||| PTE_P = p + (perm ||| PTE_P) := by
    rw [Nat.or_assoc]
    obtain ⟨a, ha⟩ : ∃ a, p = 2 ^ 12 * a := ⟨p / 4096, by omega⟩
    rw [ha]
    exact (Nat.mul_add_lt_is_or hlt a).symm
  rw [hW, pte_paddr_eq]
  omega

theorem seg_inv_init (m : mem_t) (dir V : Nat) (hinv : paging_inv m dir) :
    seg_inv m m dir V 0 :=
  ⟨hinv, rfl, fun _ h => h, hinv.dir_not_free, fun _ _ _ => rfl,
    fun P h1 h2 => absurd h2 (by omega), fun P Q h1 h2 => absurd h2 (by omega)⟩

/-- One turn of the loop of `memory_alloc_for_page_dir` keeps `seg_inv`:
`mA` is the state `m` after the frame `p` has been taken from the allocator
and `m1` the state after `memory_create_map` has mapped the next page to
it. -/
theorem seg_inv_step (m0 m mA m1 : mem_t) (dir V c p perm : Nat)
    (hs : seg_inv m0 m dir V c) (hVc : V + c < 2 ^ 20)
    (hmA : mA.pmem = m.pmem)
    (hcA : mA.paddr_alloc.bitmap.bit_count = m.paddr_alloc.bitmap.bit_count)
    (hfA : ∀ q, frame_free mA.paddr_alloc q ↔ frame_free m.paddr_alloc q ∧ q ≠ p)
    (hp : frame_free m.paddr_alloc p) (hpa : p % 4096 = 0) (hp32 : p + 4096 ≤ 2 ^ 32)
    (hperm : perm < 4096) (hinv1 : paging_inv m1 dir)
    (hst : map_step mA m1 dir ((V + c) / 1024) ((V + c) % 1024) (p ||| perm ||| PTE_P)) :
    seg_inv m0 m1 dir V (c + 1) := by
  have hda := hs.inv.dir_aligned
  have hi : (V + c) / 1024 < 1024 := by omega
  have hT1a := pde_paddr_aligned (pde_at m1.pmem dir ((V + c) / 1024))
  have htable := hst.table
  have hrest := hst.rest
  have hother := hst.pte_other
  rw [hmA] at htable hrest hother
  have hT1 : (entry_present (pde_at m.pmem dir ((V + c) / 1024)) = 1 ∧
        pde_at m1.pmem dir ((V + c) / 1024) = pde_at m.pmem dir ((V + c) / 1024)) ∨
      frame_free mA.paddr_alloc (pde_paddr (pde_at m1.pmem dir ((V + c) / 1024))) := by
    rcases htable with ⟨h1, h2, _⟩ | ⟨_, h2, _⟩
    · exact Or.inl ⟨h1, h2⟩
    · exact Or.inr h2
  have hT1dir : pde_paddr (pde_at m1.pmem dir ((V + c) / 1024)) ≠ dir := by
    rcases hT1 with ⟨h1, h2⟩ | h2
    · rw [h2]
      exact hs.inv.table_not_dir _ hi h1
    · exact fun e => hs.inv.dir_not_free (e ▸ ((hfA _).mp h2).1)
  have hpde_other : ∀ d, d < 1024 → d ≠ (V + c) / 1024 →
      pde_at m1.pmem dir d = pde_at m.pmem dir d := by
    intro d hd hne
    exact hrest (dir + 4 * d) (by omega) (by omega)
  have hpde_all : ∀ d, d < 1024 → entry_present (pde_at m.pmem dir d) = 1 →
      pde_at m1.pmem dir d = pde_at m.pmem dir d := by
    intro d hd hpr
    by_cases hdi : d = (V + c) / 1024
    · subst hdi
      rcases htable with ⟨_, h2, _⟩ | ⟨h1, _, _⟩
      · exact h2
      · exact absurd hpr h1
    · exact hpde_other d hd hdi
  have htab_m1 : ∀ d, d < 1024 → entry_present (pde_at m1.pmem dir d) = 1 →
      (d = (V + c) / 1024 ∧
        frame_free mA.paddr_alloc (pde_paddr (pde_at m1.pmem dir ((V + c) / 1024)))) ∨
      (entry_present (pde_at m.pmem dir d) = 1 ∧ pde_at m1.pmem dir d = pde_at m.pmem dir d) := by
    intro d hd hpr
    by_cases hdi : d = (V + c) / 1024
    · subst hdi
      rcases hT1 with h | h
      · exact Or.inr h
      · exact Or.inl ⟨rfl, h⟩
    · have e := hpde_other d hd hdi
      exact Or.inr ⟨e ▸ hpr, e⟩
  have htab_ne : ∀ d, d < 1024 → d ≠ (V + c) / 1024 → entry_present (pde_at m.pmem dir d) = 1 →
      pde_paddr (pde_at m.pmem dir d) ≠ pde_paddr (pde_at m1.pmem dir ((V + c) / 1024)) := by
    intro d hd hne hpr e
    rcases hT1 with ⟨h1, h2⟩ | h2
    · rw [h2] at e
      exact hne (hs.inv.table_inj d _ hd hi hpr h1 e)
    · exact hs.inv.table_not_free d hd hpr (e ▸ ((hfA _).mp h2).1)
  have hpte : ∀ d t, d < 1024 → t < 1024 → (d ≠ (V + c) / 1024 ∨ t ≠ (V + c) % 1024) →
      entry_present (pde_at m.pmem dir d) = 1 →
      pte_at m1.pmem dir d t = pte_at m.pmem dir d t := by
    intro d t hd ht hne hpr
    by_cases hdi : d = (V + c) / 1024
    · subst hdi
      rw [hother t (hne.resolve_left (fun h => h rfl)) ht, if_pos hpr]
    · have e := hpde_other d hd hdi
      have h1 := htab_ne d hd hdi hpr
      have h2 : pde_paddr (pde_at m.pmem dir d) ≠ dir := hs.inv.table_not_dir d hd hpr
      have h3 := pde_paddr_aligned (pde_at m.pmem dir d)
      show m1.pmem (pde_paddr (pde_at m1.pmem dir d) + 4 * t) = _
      rw [e]
      exact hrest _ (by omega) (by omega)
  have hold : ∀ P, V ≤ P → P < V + c →
      seg_frame m1.pmem dir P = seg_frame m.pmem dir P ∧
      mapped_at m1.pmem dir (P / 1024) (P % 1024) := by
    intro P h1 h2
    obtain ⟨⟨l1, l2⟩, _⟩ := hs.leaf P h1 h2
    have e1 := hpde_all (P / 1024) (by omega) l1
    have e2 := hpte (P / 1024) (P % 1024) (by omega) (by omega) (by omega) l1
    refine ⟨?_, ?_, ?_⟩
    · unfold seg_frame
      rw [e2]
    · rw [e1]; exact l1
    · rw [e2]; exact l2
  have hw := pte_entry_frame p perm hpa (by omega) hperm
  have hnew : seg_frame m1.pmem dir (V + c) = p := by
    unfold seg_frame
    rw [hst.pte_j]
    exact hw.2
  have hp1 : ¬ frame_free m1.paddr_alloc p :=
    fun h => ((hfA p).mp (hst.sub p h)).2 rfl
  have hsub1 : ∀ q, frame_free m1.paddr_alloc q → frame_free m.paddr_alloc q :=
    fun q h => ((hfA q).mp (hst.sub q h)).1
  refine ⟨hinv1, by rw [hst.cnt, hcA]; exact hs.cnt, fun q h => hs.sub q (hsub1 q h), hs.dir0,
    fun a ha1 ha2 => ?_, fun P h1 h2 => ?_, fun P Q h1 h2 h3 h4 e => ?_⟩
  · have h3 := ha2 _ hi hst.pde_i
    rw [hrest a (by omega) (by omega)]
    refine hs.keep a ha1 (fun d hd hpr => ?_)
    have e := hpde_all d hd hpr
    rw [← e]
    exact ha2 d hd (by rw [e]; exact hpr)
  · by_cases hP : P = V + c
    · subst hP
      rw [hnew]
      refine ⟨⟨hst.pde_i, by rw [hst.pte_j]; exact hw.1⟩, hs.sub p hp, hp1, fun d hd hpr e => ?_⟩
      rcases htab_m1 d hd hpr with ⟨h1, h2⟩ | ⟨h1, h2⟩
      · subst h1
        exact ((hfA _).mp h2).2 e
      · rw [h2] at e
        exact hs.inv.table_not_free d hd h1 (e ▸ hp)
    · obtain ⟨o1, o2⟩ := hold P h1 (by omega)
      obtain ⟨_, l2, l3, l4⟩ := hs.leaf P h1 (by omega)
      rw [o1]
      refine ⟨o2, l2, fun h => l3 (hsub1 _ h), fun d hd hpr e => ?_⟩
      rcases htab_m1 d hd hpr with ⟨g1, g2⟩ | ⟨g1, g2⟩
      · subst g1
        exact l3 (e ▸ ((hfA _).mp g2).1)
      · rw [g2] at e
        exact l4 d hd g1 e
  · by_cases hP : P = V + c
    · by_cases hQ : Q = V + c
      · rw [hP, hQ]
      · exfalso
        subst hP
        rw [hnew, (hold Q h3 (by omega)).1] at e
        exact (hs.leaf Q h3 (by omega)).2.2.1 (e ▸ hp)
    · by_cases hQ : Q = V + c
      · exfalso
        subst hQ
        rw [hnew, (hold P h1 (by omega)).1] at e
        exact (hs.leaf P h1 (by omega)).2.2.1 (e ▸ hp)
      · rw [(hold P h1 (by omega)).1, (hold Q h3 (by omega)).1] at e
        exact hs.leaf_inj P Q h1 (by omega) h3 (by omega) e

end seg_alloc
section seg_loop

theorem seg_page_index (P : Nat) :
    pde_index (P * 4096) = P / 1024 ∧ pte_index (P * 4096) = P % 1024 ∧
    P * 4096 = P / 1024 * 4194304 + P % 1024 * 4096 := by
  rw [pde_index_eq, pte_index_eq]
  omega

theorem memory_create_map_mapped (fuel : Nat) (m : mem_t) (dir v paddr count perm : Nat)
    (h : page_mapped m.pmem dir v) :
    memory_create_map fuel m dir v paddr (count + 1) perm = .halted := by
  have hf : find_pte fuel m dir v 1 =
      some (some (pde_paddr (m.pmem (dir + 4 * pde_index v)) + 4 * pte_index v), m) := by
    unfold find_pte
    dsimp only
    rw [if_pos (by rw [h.1]; decide)]
  rw [memory_create_map, hf]
  dsimp only
  rw [if_pos (by rw [h.2]; decide)]

/-- The loop of `memory_alloc_for_page_dir` keeps `seg_inv` when it returns
and the allocator has two free pages for every page that is left. -/
theorem memory_alloc_loop_seg (fuel dir vd perm : Nat) (m0 : mem_t) (V : Nat)
    (hperm : perm < 4096) :
    ∀ (n c i cv : Nat) (m m1 : mem_t) (err : Nat), seg_inv m0 m dir V c →
      V + c + n ≤ 2 ^ 20 → (0 < n → cv = (V + c) * 4096) →
      2 * n ≤ free_count m.paddr_alloc.bitmap → m.paddr_alloc.bitmap.bit_count + 1 ≤ fuel →
      memory_alloc_loop fuel dir vd perm n i cv m = .done (err, m1) →
      seg_inv m0 m1 dir V (c + n) := by
  intro n
  induction n with
  | zero =>
    intro c i cv m m1 err hs _ _ _ _ hc
    rw [memory_alloc_loop] at hc
    injection hc with hc
    injection hc with _ hm
    rw [← hm]
    exact hs
  | succ n ih =>
    intro c i cv m m1 err hs htop hcv hfree hfuel hc
    have hv := hcv (Nat.succ_pos _)
    subst hv
    obtain ⟨p, alloc1, a1, a2, a3, a4, a5, a6, a7, a8, a9⟩ :=
      addr_alloc_page_ok fuel m.paddr_alloc hs.inv.wf (by omega) hfuel
    have hinvA := paging_inv_alloc m dir alloc1 hs.inv a6 (fun q h => ((a7 q).mp h).1)
    obtain ⟨x1, x2, x3⟩ := seg_page_index (V + c)
    have hfuelA : alloc1.bitmap.bit_count + 1 ≤ fuel := by rw [a9]; exact hfuel
    rw [memory_alloc_loop, a1] at hc
    dsimp only at hc
    rw [if_neg a2] at hc
    by_cases hmap : page_mapped m.pmem dir ((V + c) * 4096)
    · rw [memory_create_map_mapped fuel { m with paddr_alloc := alloc1 } dir _ p 0 perm hmap]
        at hc
      cases hc
    · obtain ⟨m2, c1, c2, c3, c4, _⟩ := memory_create_map_one fuel
        { m with paddr_alloc := alloc1 } dir ((V + c) * 4096) p perm hinvA (by omega) (by omega)
        hmap (by show 0 < free_count alloc1.bitmap; omega) hfuelA
      have hst : map_step { m with paddr_alloc := alloc1 } m2 dir ((V + c) / 1024)
          ((V + c) % 1024) (p ||| perm ||| PTE_P) := by
        refine create_map_user fuel _ dir _ _ p perm 0 m2 a6 hfuelA hs.inv.dir_aligned
          hinvA.dir_not_free (by omega) (by omega)
          (fun h => hs.inv.table_not_dir _ (by omega) h) ?_ (by rw [← x3]; exact c1) (by decide)
        intro hm
        apply hmap
        unfold page_mapped
        rw [x1, x2]
        exact hm
      have hs1 := seg_inv_step m0 m { m with paddr_alloc := alloc1 } m2 dir V c p perm hs
        (by omega) rfl a9 a7 a5 a3 a4 hperm c2 hst
      rw [c1] at hc
      dsimp only at hc
      rw [if_neg (by decide)] at hc
      have e : c + (n + 1) = c + 1 + n := by omega
      rw [e]
      have h3 : free_count alloc1.bitmap ≤ free_count m2.paddr_alloc.bitmap + 1 := c3
      have h4 : m2.paddr_alloc.bitmap.bit_count = alloc1.bitmap.bit_count := c4
      refine ih (c + 1) (i + 1) _ m2 m1 err hs1 (by omega) (fun hn => ?_) (by omega)
        (by rw [h4]; exact hfuelA) hc
      show ((V + c) * 4096 + 4096) % 2 ^ 32 = _
      omega

end seg_loop
section seg_read
variable {σ : Type}

theorem memory_get_paddr_mapped (m : mem_t) (dir x : Nat)
    (hp : entry_present (m.pmem (dir + 4 * pde_index x)) = 1) :
    memory_get_paddr m dir x =
      some ((pte_paddr (m.pmem (pde_paddr (m.pmem (dir + 4 * pde_index x)) + 4 * pte_index x)) +
        x % 4096) % 2 ^ 32) := by
  have hm : x &&& (MEM_PAGE_SIZE - 1) = x % 4096 := Nat.and_pow_two_sub_one_eq_mod x 12
  unfold memory_get_paddr find_pte
  dsimp only
  rw [if_pos (by rw [hp]; decide), hm]

/-- What `sys_read` leaves of the memory outside the buffer, for a read
operation that stores into its buffer only. -/
theorem sys_read_mem_frame (env : load_env σ) (k : kernel σ) (pmem : Nat → Nat) (file : Int)
    (ptr len : Nat)
    (hread : ∀ (buf : Nat) (cnt : Int) (f : file_t) (s : σ) (pm : Nat → Nat) (a : Nat),
      ¬ (buf ≤ a ∧ a < buf + cnt.toNat) → env.read_mem buf cnt f s pm a = pm a)
    (a : Nat) (ha : ¬ (ptr ≤ a ∧ a < ptr + len)) :
    (sys_read_mem env k pmem file ptr (len : Int)).2.2 a = pmem a := by
  unfold sys_read_mem
  split
  · rfl
  · cases task_file k file with
    | none => rfl
    | some p_file =>
      dsimp only
      split
      · rfl
      · exact hread _ _ _ _ _ _ (by rw [Int.toNat_ofNat]; exact ha)

/-- A memory that differs from the memory after the allocation only where
the segment is stored has the same page directory and page tables. -/
theorem seg_agree (m0 ma : mem_t) (pm : Nat → Nat) (dir V n filesz : Nat)
    (hs : seg_inv m0 ma dir V n)
    (hpm : ∀ a, ¬ seg_written ma.pmem dir V n filesz a → pm a = ma.pmem a) :
    (∀ d, d < 1024 → pm (dir + 4 * d) = ma.pmem (dir + 4 * d)) ∧
    (∀ d t, d < 1024 → t < 1024 → entry_present (pde_at ma.pmem dir d) = 1 →
      pm (pde_paddr (pde_at ma.pmem dir d) + 4 * t) =
        ma.pmem (pde_paddr (pde_at ma.pmem dir d) + 4 * t)) := by
  have hda := hs.inv.dir_aligned
  constructor
  · intro d hd
    apply hpm
    rintro ⟨Q, q1, q2, q3, q4, _⟩
    obtain ⟨_, l2, _, _⟩ := hs.leaf Q q1 q2
    have hfa := pte_paddr_aligned (pte_at ma.pmem dir (Q / 1024) (Q % 1024))
    have e : seg_frame ma.pmem dir Q = dir := by
      unfold seg_frame at q3 q4 ⊢
      omega
    exact hs.dir0 (e ▸ l2)
  · intro d t hd ht hpr
    apply hpm
    rintro ⟨Q, q1, q2, q3, q4, _⟩
    obtain ⟨_, _, _, l4⟩ := hs.leaf Q q1 q2
    have hfa := pte_paddr_aligned (pte_at ma.pmem dir (Q / 1024) (Q % 1024))
    have hta := pde_paddr_aligned (pde_at ma.pmem dir d)
    have e : pde_paddr (pde_at ma.pmem dir d) = seg_frame ma.pmem dir Q := by
      unfold seg_frame at q3 q4 ⊢
      omega
    exact l4 d hd hpr e

/-- The physical address of an address in one of the pages of the segment,
in a memory that differs from the memory after the allocation only where the
segment is stored. -/
theorem seg_get_paddr (m0 ma m : mem_t) (dir V n filesz x : Nat)
    (hs : seg_inv m0 ma dir V n) (hV : V + n ≤ 2 ^ 20)
    (hpm : ∀ a, ¬ seg_written ma.pmem dir V n filesz a → m.pmem a = ma.pmem a)
    (h1 : V ≤ x / 4096) (h2 : x / 4096 < V + n) :
    memory_get_paddr m dir x = some (seg_frame ma.pmem dir (x / 4096) + x % 4096) := by
  obtain ⟨g1, g2⟩ := seg_agree m0 ma m.pmem dir V n filesz hs hpm
  obtain ⟨⟨l1, _⟩, _⟩ := hs.leaf (x / 4096) h1 h2
  have e1 : pde_index x = x / 4096 / 1024 := by rw [pde_index_eq]; omega
  have e2 : pte_index x = x / 4096 % 1024 := pte_index_eq x
  have hd : x / 4096 / 1024 < 1024 := by omega
  have hp : entry_present (m.pmem (dir + 4 * pde_index x)) = 1 := by
    rw [e1, g1 _ hd]
    exact l1
  rw [memory_get_paddr_mapped m dir x hp, e1, e2, g1 _ hd]
  have g3 := g2 (x / 4096 / 1024) (x / 4096 % 1024) hd (by omega) l1
  unfold pde_at at g3
  rw [g3]
  have hfa := pte_paddr_eq (ma.pmem (pde_paddr (ma.pmem (dir + 4 * (x / 4096 / 1024))) +
    4 * (x / 4096 % 1024)))
  have hlt : pte_paddr (ma.pmem (pde_paddr (ma.pmem (dir + 4 * (x / 4096 / 1024))) +
    4 * (x / 4096 % 1024))) + x % 4096 < 2 ^ 32 := by omega
  rw [Nat.mod_eq_of_lt hlt]
  rfl

/-- The reads of `load_phdr` change the memory only where the segment is
stored, and leave the allocator as it is. -/
theorem load_phdr_loop_frame (env : load_env σ) (file : Int) (m0 ma : mem_t)
    (dir V n filesz : Nat)
    (hread : ∀ (buf : Nat) (cnt : Int) (f : file_t) (s : σ) (pm : Nat → Nat) (a : Nat),
      ¬ (buf ≤ a ∧ a < buf + cnt.toNat) → env.read_mem buf cnt f s pm a = pm a)
    (hs : seg_inv m0 ma dir V n) (hV : V + n ≤ 2 ^ 20) (hfit : filesz ≤ n * 4096) :
    ∀ (fuel t vaddr size : Nat) (k : kernel σ) (m : mem_t),
      (0 < size → vaddr = (V + t) * 4096 ∧ size + t * 4096 = filesz) →
      m.paddr_alloc = ma.paddr_alloc →
      (∀ a, ¬ seg_written ma.pmem dir V n filesz a → m.pmem a = ma.pmem a) →
      (load_phdr_loop env file dir fuel vaddr size k m).2.2.paddr_alloc = ma.paddr_alloc ∧
      ∀ a, ¬ seg_written ma.pmem dir V n filesz a →
        (load_phdr_loop env file dir fuel vaddr size k m).2.2.pmem a = ma.pmem a := by
  intro fuel
  induction fuel with
  | zero =>
    intro t vaddr size k m _ hal hpm
    exact ⟨hal, hpm⟩
  | succ fuel ih =>
    intro t vaddr size k m hsz hal hpm
    rw [load_phdr_loop]
    by_cases h0 : size > 0
    · rw [if_pos h0]
      obtain ⟨hv, hsum⟩ := hsz h0
      subst hv
      have ht : t < n := by omega
      have hpad : memory_get_paddr m dir ((V + t) * 4096) =
          some (seg_frame ma.pmem dir (V + t)) := by
        have h := seg_get_paddr m0 ma m dir V n filesz ((V + t) * 4096) hs hV hpm (by omega)
          (by omega)
        have e1 : (V + t) * 4096 / 4096 = V + t := by omega
        have e2 : (V + t) * 4096 % 4096 = 0 := by omega
        rw [e1, e2] at h
        exact h
      have h4 : MEM_PAGE_SIZE = 4096 := rfl
      obtain ⟨cs, hcs, c1, c2, c3⟩ : ∃ cs, (if size > MEM_PAGE_SIZE then MEM_PAGE_SIZE else size) = cs ∧
          cs ≤ size ∧ cs ≤ 4096 ∧ (0 < size - cs → cs = 4096) := by
        refine ⟨_, rfl, ?_, ?_, ?_⟩
        · split <;> omega
        · split <;> omega
        · split <;> omega
      dsimp only
      rw [hpad, Option.getD_some, hcs]
      have hfr := sys_read_mem_frame env k m.pmem file (seg_frame ma.pmem dir (V + t)) cs hread
      have hpm1 : ∀ a, ¬ seg_written ma.pmem dir V n filesz a →
          (sys_read_mem env k m.pmem file (seg_frame ma.pmem dir (V + t)) (cs : Int)).2.2 a =
            ma.pmem a := by
        intro a ha
        rw [hfr a (fun hr => ha ⟨V + t, by omega, by omega, hr.1, by omega, by omega⟩)]
        exact hpm a ha
      split
      · exact ⟨hal, hpm1⟩
      · exact ih (t + 1) _ _ _ _ (fun hn => ⟨by omega, by omega⟩) hal hpm1
    · rw [if_neg h0]
      exact ⟨hal, hpm⟩

end seg_read
/-- C29 (amended).  `load_phdr` does not write to the part of a segment
behind the bytes of the file.  The page structures of the directory `dir`
satisfy `paging_inv`, the segment ends below `2^32`, the allocator has two
free pages for every page of the segment (one for the page, one for a page
table it may need), so that no allocation fails, and the read operation of
the file system stores into the buffer it is given only.  When `load_phdr`
returns 0, every address `a` from `p_vaddr + p_filesz` up to (excluding)
`p_vaddr + p_memsz` is in a page that is present; its physical address `q`
lies in a frame that was free before the call and is in use after it; and
the byte at `q` is the byte that was at `q` before the call.  So the byte is
zero only when the frame held zero there before it was allocated. -/
theorem C29_segment_tail_kept {σ : Type} (fuel : Nat) (env : load_env σ) (k k1 : kernel σ)
    (m m1 : mem_t) (file : Int) (phdr : Elf32_Phdr) (dir : Nat)
    (hinv : paging_inv m dir) (htop : phdr.p_vaddr + phdr.p_memsz ≤ 2 ^ 32)
    (hfree : 2 * (roundup_page phdr.p_memsz / 4096) ≤ free_count m.paddr_alloc.bitmap)
    (hfuel : m.paddr_alloc.bitmap.bit_count + 1 ≤ fuel)
    (hread : ∀ (buf : Nat) (cnt : Int) (f : file_t) (s : σ) (pm : Nat → Nat) (a : Nat),
      ¬ (buf ≤ a ∧ a < buf + cnt.toNat) → env.read_mem buf cnt f s pm a = pm a)
    (hok : load_phdr fuel env k m file phdr dir = .done (0, k1, m1)) :
    ∀ a, phdr.p_vaddr + phdr.p_filesz ≤ a → a < phdr.p_vaddr + phdr.p_memsz →
      ∃ q, page_mapped m1.pmem dir a ∧ memory_get_paddr m1 dir a = some q ∧
        frame_free m.paddr_alloc (q / 4096 * 4096) ∧
        ¬ frame_free m1.paddr_alloc (q / 4096 * 4096) ∧
        m1.pmem q = m.pmem q := by
  intro a h1 h2
  have hn : up2 phdr.p_memsz MEM_PAGE_SIZE / MEM_PAGE_SIZE = (phdr.p_memsz + 4095) / 4096 := by
    rw [up2_div _ _ (by decide)]
    rfl
  have hr2 : roundup_page phdr.p_memsz / 4096 = (phdr.p_memsz + 4095) / 4096 := by
    unfold roundup_page
    exact Nat.mul_div_cancel _ (by norm_num)
  rw [hr2] at hfree
  have hm : phdr.p_vaddr &&& (MEM_PAGE_SIZE - 1) = phdr.p_vaddr % 4096 :=
    Nat.and_pow_two_sub_one_eq_mod _ 12
  unfold load_phdr at hok
  rw [hm] at hok
  by_cases hal0 : phdr.p_vaddr % 4096 ≠ 0
  · rw [if_pos hal0] at hok
    cases hok
  rw [if_neg hal0] at hok
  have hv : phdr.p_vaddr = phdr.p_vaddr / 4096 * 4096 := by omega
  have hV : phdr.p_vaddr / 4096 + (phdr.p_memsz + 4095) / 4096 ≤ 2 ^ 20 := by omega
  cases hal : memory_alloc_for_page_dir fuel m dir phdr.p_vaddr phdr.p_memsz
      (PTE_P ||| PTE_U ||| PTE_W) with
  | out_of_fuel => rw [hal] at hok; cases hok
  | halted => rw [hal] at hok; cases hok
  | done r =>
    obtain ⟨err, ma⟩ := r
    rw [hal] at hok
    dsimp only at hok
    by_cases he : int32 err < 0
    · rw [if_pos he] at hok
      injection hok with hok
      injection hok with hok _
      exact absurd hok (by decide)
    rw [if_neg he] at hok
    by_cases hl : (sys_lseek env.op k file (int32 phdr.p_offset) 0).1 < 0
    · rw [if_pos hl] at hok
      injection hok with hok
      injection hok with hok _
      exact absurd hok (by decide)
    rw [if_neg hl] at hok
    injection hok with hok
    unfold memory_alloc_for_page_dir at hal
    dsimp only at hal
    rw [hn] at hal
    have hseg := memory_alloc_loop_seg fuel dir (down2 phdr.p_vaddr MEM_PAGE_SIZE)
      (PTE_P ||| PTE_U ||| PTE_W) m (phdr.p_vaddr / 4096) (by decide)
      ((phdr.p_memsz + 4095) / 4096) 0 0 phdr.p_vaddr m ma err
      (seg_inv_init m dir _ hinv) (by omega) (fun _ => by omega) hfree hfuel hal
    rw [Nat.zero_add] at hseg
    have hfr := load_phdr_loop_frame env file m ma dir (phdr.p_vaddr / 4096)
      ((phdr.p_memsz + 4095) / 4096) phdr.p_filesz hread hseg hV (by omega)
      phdr.p_filesz 0 phdr.p_vaddr phdr.p_filesz
      (sys_lseek env.op k file (int32 phdr.p_offset) 0).2 ma
      (fun _ => ⟨by omega, by omega⟩) rfl (fun _ _ => rfl)
    rw [hok] at hfr
    obtain ⟨f1, f2⟩ := hfr
    have f1a : m1.paddr_alloc = ma.paddr_alloc := f1
    have f2a : ∀ b, ¬ seg_written ma.pmem dir (phdr.p_vaddr / 4096)
        ((phdr.p_memsz + 4095) / 4096) phdr.p_filesz b → m1.pmem b = ma.pmem b := f2
    have hP1 : phdr.p_vaddr / 4096 ≤ a / 4096 := by omega
    have hP2 : a / 4096 < phdr.p_vaddr / 4096 + (phdr.p_memsz + 4095) / 4096 := by omega
    obtain ⟨⟨l1, l2⟩, l3, l4, l5⟩ := hseg.leaf (a / 4096) hP1 hP2
    have hfa : seg_frame ma.pmem dir (a / 4096) % 4096 = 0 := pte_paddr_aligned _
    have hq : (seg_frame ma.pmem dir (a / 4096) + a % 4096) / 4096 * 4096 =
        seg_frame ma.pmem dir (a / 4096) := by omega
    obtain ⟨g1, g2⟩ := seg_agree m ma m1.pmem dir _ _ _ hseg f2a
    have e1 : pde_index a = a / 4096 / 1024 := by rw [pde_index_eq]; omega
    have e2 : pte_index a = a / 4096 % 1024 := pte_index_eq a
    have hd : a / 4096 / 1024 < 1024 := by omega
    refine ⟨seg_frame ma.pmem dir (a / 4096) + a % 4096, ?_,
      seg_get_paddr m ma m1 dir _ _ _ a hseg hV f2a hP1 hP2, ?_, ?_, ?_⟩
    · unfold page_mapped
      rw [e1, e2, g1 _ hd]
      have g3 := g2 (a / 4096 / 1024) (a / 4096 % 1024) hd (by omega) l1
      unfold pde_at at g3
      exact ⟨l1, by rw [g3]; exact l2⟩
    · rw [hq]; exact l3
    · rw [hq, f1a]; exact l4
    · have hw : ¬ seg_written ma.pmem dir (phdr.p_vaddr / 4096)
          ((phdr.p_memsz + 4095) / 4096) phdr.p_filesz
          (seg_frame ma.pmem dir (a / 4096) + a % 4096) := by
        rintro ⟨Q, q1, q2, q3, q4, q5⟩
        have hfQ : seg_frame ma.pmem dir Q % 4096 = 0 := pte_paddr_aligned _
        have e : seg_frame ma.pmem dir Q = seg_frame ma.pmem dir (a / 4096) := by omega
        have hQ := hseg.leaf_inj Q (a / 4096) q1 q2 hP1 hP2 e
        subst hQ
        omega
      rw [f2a _ hw]
      refine hseg.keep _ ?_ (fun d hd2 hpr => ?_)
      · rw [hq]
        exact fun e => hseg.dir0 (e ▸ l3)
      · rw [hq]
        exact l5 d hd2 hpr
section seg_demo

theorem demo_mem_dirty_inv : paging_inv demo_mem_dirty 0x100000 := by
  have hz : ∀ d, d < 1024 → demo_mem_dirty.pmem (0x100000 + 4 * d) = 0 := by
    intro d hd
    show (if 0x101000 ≤ 0x100000 + 4 * d ∧ 0x100000 + 4 * d < 0x110000 then 0xAA else 0) = 0
    rw [if_neg (by omega)]
  refine ⟨demo_mem_inv.wf, by decide, demo_mem_inv.dir_not_free, ?_, ?_, ?_⟩
  · intro d hd h
    rw [hz d hd] at h
    exact absurd h (by decide)
  · intro d hd h
    rw [hz d hd] at h
    exact absurd h (by decide)
  · intro d e hd _ h
    rw [hz d hd] at h
    exact absurd h (by decide)

theorem demo_read_mem_frame (high_first : Bool) (buf : Nat) (cnt : Int) (f : file_t) (s : Unit)
    (pm : Nat → Nat) (a : Nat) (h : ¬ (buf ≤ a ∧ a < buf + cnt.toNat)) :
    (demo_load_env high_first).read_mem buf cnt f s pm a = pm a := by
  show (if buf ≤ a ∧ a < buf + demo_elf_count cnt f then
    demo_elf high_first (f.pos + (a - buf)) else pm a) = pm a
  have hc : demo_elf_count cnt f ≤ cnt.toNat := Nat.min_le_left _ _
  rw [if_neg (fun hh => h ⟨hh.1, by omega⟩)]

theorem demo_load_phdr_ok :
    ∃ k1 m1, load_phdr 100 (demo_load_env true)
      (sys_open (demo_load_env true).fs_open demo_heap demo_mounts demo_open_path 0).2
      demo_mem_dirty 0 ⟨PT_LOAD, 120, 0x80000000, 4, 8⟩ 0x100000 = .done (0, k1, m1) := by
  have h : (demo_phdr_view (load_phdr 100 (demo_load_env true)
      (sys_open (demo_load_env true).fs_open demo_heap demo_mounts demo_open_path 0).2
      demo_mem_dirty 0 ⟨PT_LOAD, 120, 0x80000000, 4, 8⟩ 0x100000)).map Prod.fst = some 0 := by
    decide!
  cases hr : load_phdr 100 (demo_load_env true)
      (sys_open (demo_load_env true).fs_open demo_heap demo_mounts demo_open_path 0).2
      demo_mem_dirty 0 ⟨PT_LOAD, 120, 0x80000000, 4, 8⟩ 0x100000 with
  | done r =>
    obtain ⟨e, k1, m1⟩ := r
    rw [hr] at h
    have he : some e = some (0 : Int) := h
    injection he with he
    subst he
    exact ⟨k1, m1, rfl⟩
  | halted =>
    rw [hr] at h
    cases h
  | out_of_fuel =>
    rw [hr] at h
    cases h

end seg_demo

/-- C29 (amended), at the segment of the counterexample: `load_phdr` returns
0, and the four bytes from `0x80000004` on are the bytes of a frame that was
free in `demo_mem_dirty`, with the values they had there. -/
theorem C29_segment_tail_kept_witness :
    ∃ k1 m1, load_phdr 100 (demo_load_env true)
        (sys_open (demo_load_env true).fs_open demo_heap demo_mounts demo_open_path 0).2
        demo_mem_dirty 0 ⟨PT_LOAD, 120, 0x80000000, 4, 8⟩ 0x100000 = .done (0, k1, m1) ∧
      ∀ a, 0x80000000 + 4 ≤ a → a < 0x80000000 + 8 →
        ∃ q, page_mapped m1.pmem 0x100000 a ∧ memory_get_paddr m1 0x100000 a = some q ∧
          frame_free demo_mem_dirty.paddr_alloc (q / 4096 * 4096) ∧
          ¬ frame_free m1.paddr_alloc (q / 4096 * 4096) ∧
          m1.pmem q = demo_mem_dirty.pmem q := by
  obtain ⟨k1, m1, h⟩ := demo_load_phdr_ok
  exact ⟨k1, m1, h, C29_segment_tail_kept 100 (demo_load_env true) _ k1 demo_mem_dirty m1 0
    ⟨PT_LOAD, 120, 0x80000000, 4, 8⟩ 0x100000 demo_mem_dirty_inv (by decide) (by decide!)
    (by decide) (demo_read_mem_frame true) h⟩

end SimpleOS
